import Mathlib

/-!
WLP4 compiler toolchain: a shallow embedding and its verified properties

The development follows the repository's stages:

* `Assembler` (assembler.cc / assembler.h): two-pass MIPS assembler;
* `WLP4Scanner` (wlp4scan.cc): the scanner DFA and simplified maximal munch;
* `WLP4ParseTree` (wlp4type.cc): the type annotator.

Stateful C++ methods become functions that take the object state and return
the new state; exceptions become `Except`.  `int64_t` values are integers,
with two's-complement wrapping made explicit on the operations applied to
token-derived numbers.
-/

set_option maxRecDepth 4000

deriving instance DecidableEq for Except

/-! ## 64-bit machine integers -/

/-- The unsigned 64-bit pattern of a signed value. -/
def toU64 (x : Int) : Nat := (x % 2 ^ 64).toNat

/-- The signed reading of a 64-bit pattern. -/
def toS64 (n : Nat) : Int :=
  if n % 2 ^ 64 < 2 ^ 63 then ((n % 2 ^ 64 : Nat) : Int) else ((n % 2 ^ 64 : Nat) : Int) - 2 ^ 64

/-- Reduction of an integer to the `int64_t` range. -/
def wrap64 (x : Int) : Int := toS64 (toU64 x)

/-- The operator `a - b` on `int64_t`. -/
def sub64 (a b : Int) : Int := wrap64 (a - b)

/-- The operator `a << n` on `int64_t`. -/
def shl64 (a : Int) (n : Nat) : Int := wrap64 (a * 2 ^ n)

/-- The operator `a >> n` on `int64_t` (arithmetic shift). -/
def shr64 (a : Int) (n : Nat) : Int := a / 2 ^ n

/-- The operator `a & b` on `int64_t`. -/
def and64 (a b : Int) : Int := toS64 (toU64 a &&& toU64 b)

/-- The operator `a | b` on `int64_t`. -/
def or64 (a b : Int) : Int := toS64 (toU64 a ||| toU64 b)

/-! ## Assembler tokens (scanner.h is not part of the sources) -/

/-- Modelled from the spec: the token kinds of the assembly scanner
(`Token::Kind` of scanner.h), restricted to the kinds assembler.cc names. -/
inductive Token.Kind where
  | ID | LABEL | WORD | COMMA | LPAREN | RPAREN | INT | HEXINT | REG
  deriving DecidableEq, Repr

/-- Modelled from the spec: an assembly token is a pair `(kind, lexeme)`. -/
structure Token where
  kind : Token.Kind
  lexeme : String
  deriving DecidableEq, Repr

/-! ## Assembler errors (assembler.h, assembler.cc) -/

/-- The enumeration `ET::ErrorType`. -/
inductive ET where
  | SOMETHINGBROKE
  | NotOpCode
  | InvalidOpCode
  | MissingTokens
  | TooManyTokens
  | TokenMismatch
  | OutOfBoundsReg
  | OutOfBoundsImm
  | UndeclaredLabel
  | DuplicateLabel
  deriving DecidableEq, Repr

/-- The class `AssemblerException`: the message, together with the error type
the constructor was called with (the source keeps only the message). -/
structure AssemblerException where
  errType : ET
  msg : String
  deriving DecidableEq, Repr

/-- The text the constructor appends for an error type. -/
def AssemblerException.text : ET → String
  | .NotOpCode => "Not an operation -"
  | .InvalidOpCode => "Invalid MIPS instruction -"
  | .MissingTokens => "Missing instruction operands"
  | .TooManyTokens => "Too many instruction operands"
  | .TokenMismatch => "Unexpected token found -"
  | .OutOfBoundsImm => "Immediate is out of bounds -"
  | .OutOfBoundsReg => "Invalid register number -"
  | .UndeclaredLabel => "Label was not declared -"
  | .DuplicateLabel => "Label already declared -"
  | .SOMETHINGBROKE => "*SOMETHING* BROKE... -"

/-- The constructor `AssemblerException(errType, str)`. -/
def AssemblerException.new (errType : ET) (str : String) : AssemblerException :=
  { errType := errType
    msg := "ERROR: " ++ AssemblerException.text errType ++
      (if str ≠ "" then " \"" ++ str ++ "\"" else "") }

/-- The method `AssemblerException::tagLine`. -/
def AssemblerException.tagLine (e : AssemblerException) (tokLine : List Token) :
    AssemblerException :=
  { e with msg := tokLine.foldl (fun m tok => m ++ (tok.lexeme ++ " ")) (e.msg ++ "\n\t ==> ") }

/-! ## Assembler (assembler.h, assembler.cc) -/

/-- The data members of class `Assembler`; `symbolTable` is the `std::map`
from label lexemes to addresses, kept as an association list. -/
structure Assembler where
  pc : Int
  program : List (List Token)
  symbolTable : List (String × Int)
  deriving Repr

namespace Assembler

/-- The enumeration `Assembler::Op`. -/
inductive Op where
  | invalid
  | dotword
  | add | sub | slt | sltu
  | mult | multu | div | divu
  | mfhi | mflo | lis
  | jr | jalr
  | lw | sw
  | beq | bne
  deriving DecidableEq, Repr

/-- The constructor `Assembler(program)`. -/
def new (program : List (List Token)) : Assembler :=
  { pc := 0, program := program, symbolTable := [] }

/-- The call `symbolTable.count(key)`. -/
def count (table : List (String × Int)) (key : String) : Nat :=
  if (table.lookup key).isSome then 1 else 0

/-- The call `symbolTable.emplace(key, value)`: no effect on a present key. -/
def emplace (table : List (String × Int)) (key : String) (value : Int) : List (String × Int) :=
  if (table.lookup key).isSome then table else table ++ [(key, value)]

/-- The read `symbolTable[key]` (a missing key reads as the default `0`). -/
def tableAt (table : List (String × Int)) (key : String) : Int :=
  (table.lookup key).getD 0

/-- Return corresponding opcode enumeration. -/
def getOpType (opcode : String) : Op :=
  if opcode = ".word" then Op.dotword
  else if opcode = "add" then Op.add
  else if opcode = "sub" then Op.sub
  else if opcode = "slt" then Op.slt
  else if opcode = "sltu" then Op.sltu
  else if opcode = "mult" then Op.mult
  else if opcode = "multu" then Op.multu
  else if opcode = "div" then Op.div
  else if opcode = "divu" then Op.divu
  else if opcode = "mfhi" then Op.mfhi
  else if opcode = "mflo" then Op.mflo
  else if opcode = "lis" then Op.lis
  else if opcode = "jr" then Op.jr
  else if opcode = "jalr" then Op.jalr
  else if opcode = "beq" then Op.beq
  else if opcode = "bne" then Op.bne
  else if opcode = "lw" then Op.lw
  else if opcode = "sw" then Op.sw
  else Op.invalid

/-- The first switch of `setupInstruction`: the entries appended to `format`. -/
def setupFormat : Op → List (Token.Kind × Nat)
  | .dotword => [(.INT, 32)]
  | .add | .sub | .slt | .sltu =>
      [(.REG, 11), (.COMMA, 0), (.REG, 21), (.COMMA, 0), (.REG, 16)]
  | .mult | .multu | .div | .divu => [(.REG, 21), (.COMMA, 0), (.REG, 16)]
  | .mfhi | .mflo | .lis => [(.REG, 11)]
  | .jr | .jalr => [(.REG, 21)]
  | .beq | .bne => [(.REG, 21), (.COMMA, 0), (.REG, 16), (.COMMA, 0), (.INT, 16)]
  | .lw | .sw =>
      [(.REG, 16), (.COMMA, 0), (.INT, 16), (.LPAREN, 0), (.REG, 21), (.RPAREN, 0)]
  | .invalid => []

/-- The second switch of `setupInstruction`: the template it returns. -/
def setupTemplate : Op → Int
  | .dotword => 0
  | .add => 0x20
  | .sub => 0x22
  | .slt => 0x2a
  | .sltu => 0x2b
  | .mult => 0x18
  | .multu => 0x19
  | .div => 0x1a
  | .divu => 0x1b
  | .mfhi => 0x10
  | .mflo => 0x12
  | .lis => 0x14
  | .jr => 0x08
  | .jalr => 0x09
  | .beq => 0x10000000
  | .bne => 0x14000000
  | .lw => 0x8c000000
  | .sw => 0xac000000
  | .invalid => 0

/-- The method `setupInstruction(format, op)`: the extended format vector and
the returned template. -/
def setupInstruction (format : List (Token.Kind × Nat)) (op : Op) :
    List (Token.Kind × Nat) × Int :=
  (format ++ setupFormat op, setupTemplate op)

/-- The method `buildRegister`; `toNumber` is `Token::toNumber` of scanner.h. -/
def buildRegister (toNumber : Token → Int) (tok : Token) : Except AssemblerException Int :=
  let reg := toNumber tok
  if reg < 0 ∨ reg > 31 then
    .error (AssemblerException.new .OutOfBoundsReg tok.lexeme)
  else .ok reg

/-- The loop `for (int i = 0; i < bc; ++i) mask = (mask << 1) + 1` of `buildImmediate`. -/
def buildMask : Nat → Int → Int
  | 0, mask => mask
  | n + 1, mask => buildMask n (shl64 mask 1 + 1)

/-- The method `buildImmediate(tok, bc)`. -/
def buildImmediate (toNumber : Token → Int) (self : Assembler) (tok : Token) (bc : Nat) :
    Except AssemblerException Int :=
  if tok.kind = .ID ∧ count self.symbolTable (tok.lexeme ++ ":") = 0 then
    .error (AssemblerException.new .UndeclaredLabel tok.lexeme)
  else
    let mask := buildMask bc 0
    let imm : Int :=
      if tok.kind ≠ .ID then toNumber tok
      else if bc < 32 then sub64 (tableAt self.symbolTable (tok.lexeme ++ ":")) self.pc
      else shl64 (tableAt self.symbolTable (tok.lexeme ++ ":")) 2
    if imm < 0 ∧ sub64 0 imm > shr64 mask 1 + 1 then
      .error (AssemblerException.new .OutOfBoundsImm tok.lexeme)
    else if imm > mask then
      .error (AssemblerException.new .OutOfBoundsImm tok.lexeme)
    else .ok (and64 imm mask)

/-- The method `buildToken(tok, kind, offset)`. -/
def buildToken (toNumber : Token → Int) (self : Assembler) (tok : Token) (kind : Token.Kind)
    (offset : Nat) : Except AssemblerException Int :=
  if tok.kind ≠ kind ∧ (kind ≠ .INT ∨ (tok.kind ≠ .HEXINT ∧ tok.kind ≠ .ID)) then
    .error (AssemblerException.new .TokenMismatch tok.lexeme)
  else
    match kind with
    | .REG => (buildRegister toNumber tok).map (fun r => shl64 r offset)
    | .INT => buildImmediate toNumber self tok offset
    | .COMMA | .LPAREN | .RPAREN => .ok 0
    | _ => .error (AssemblerException.new .SOMETHINGBROKE tok.lexeme)

/-- The loop of `buildInstruction` over the format entries: `toks` are the
tokens from index `i` on (as many as format entries, by the checks before). -/
def buildInstruction_loop (toNumber : Token → Int) (self : Assembler) :
    List (Token.Kind × Nat) → List Token → Int → Except AssemblerException Int
  | [], _, inst => .ok inst
  | _ :: _, [], inst => .ok inst
  | (kind, offset) :: format, tok :: toks, inst =>
      match buildToken toNumber self tok kind offset with
      | .error e => .error e
      | .ok v => buildInstruction_loop toNumber self format toks (or64 inst v)

/-- The body of the `try` block of `buildInstruction(tokLine, i)`; the caller
guarantees `i < tokLine.size()`. -/
def buildInstruction_try (toNumber : Token → Int) (self : Assembler) (tokLine : List Token)
    (i : Nat) : Except AssemblerException Int :=
  match tokLine[i]? with
  | none => .error (AssemblerException.new .SOMETHINGBROKE "")
  | some tok =>
    if tok.kind = .WORD ∨ tok.kind = .ID then
      let (format, inst) := setupInstruction [] (getOpType tok.lexeme)
      let i := i + 1
      if format.isEmpty then
        .error (AssemblerException.new .InvalidOpCode tok.lexeme)
      else if tokLine.length - i < format.length then
        .error (AssemblerException.new .MissingTokens "")
      else if tokLine.length - i > format.length then
        .error (AssemblerException.new .TooManyTokens "")
      else buildInstruction_loop toNumber self format (tokLine.drop i) inst
    else .error (AssemblerException.new .NotOpCode tok.lexeme)

/-- The method `buildInstruction(tokLine, i)`: every exception is tagged with
the line and thrown again. -/
def buildInstruction (toNumber : Token → Int) (self : Assembler) (tokLine : List Token)
    (i : Nat) : Except AssemblerException Int :=
  match buildInstruction_try toNumber self tokLine i with
  | .error e => .error (e.tagLine tokLine)
  | .ok inst => .ok inst

/-- The inner loop of `checkPass` over one line: the new state and `hasInst`. -/
def checkPass_line (self : Assembler) : List Token → Except AssemblerException (Assembler × Bool)
  | [] => .ok (self, false)
  | tok :: rest =>
      if tok.kind = .LABEL then
        if count self.symbolTable tok.lexeme > 0 then
          .error (AssemblerException.new .DuplicateLabel tok.lexeme)
        else
          checkPass_line { self with symbolTable := emplace self.symbolTable tok.lexeme self.pc } rest
      else .ok (self, true)

/-- The outer loop of `checkPass` over the program lines. -/
def checkPass_lines (self : Assembler) : List (List Token) → Except AssemblerException Assembler
  | [] => .ok self
  | tokLine :: rest =>
      match checkPass_line self tokLine with
      | .error e => .error e
      | .ok (self1, hasInst) =>
          checkPass_lines (if hasInst then { self1 with pc := self1.pc + 1 } else self1) rest

/-- The method `checkPass`: first pass, building the symbol table. -/
def checkPass (self : Assembler) : Except AssemblerException Assembler :=
  checkPass_lines { self with pc := 0 } self.program

/-- The loop `while (i < tokLine.size() && tokLine[i].getKind() == Token::LABEL) ++i`
of `codeGenPass`, started at `i`. -/
def skipLabels : List Token → Nat → Nat
  | [], i => i
  | tok :: rest, i => if tok.kind = .LABEL then skipLabels rest (i + 1) else i

/-- The loop of `codeGenPass` over the program lines. -/
def codeGenPass_lines (toNumber : Token → Int) (self : Assembler) (binary : List Int) :
    List (List Token) → Except AssemblerException (Assembler × List Int)
  | [] => .ok (self, binary)
  | tokLine :: rest =>
      let i := skipLabels tokLine 0
      if i < tokLine.length then
        let self1 := { self with pc := self.pc + 1 }
        match buildInstruction toNumber self1 tokLine i with
        | .error e => .error e
        | .ok inst => codeGenPass_lines toNumber self1 (binary ++ [inst]) rest
      else codeGenPass_lines toNumber self binary rest

/-- The method `codeGenPass(binary)`: second pass, encoding each instruction. -/
def codeGenPass (toNumber : Token → Int) (self : Assembler) (binary : List Int) :
    Except AssemblerException (Assembler × List Int) :=
  codeGenPass_lines toNumber { self with pc := 0 } binary self.program

/-- The method `assemble()`: the words of the program, or the first error. -/
def assemble (toNumber : Token → Int) (self : Assembler) : Except AssemblerException (List Int) :=
  match checkPass self with
  | .error e => .error e
  | .ok self1 =>
      match codeGenPass toNumber self1 [] with
      | .error e => .error e
      | .ok (_, binary) => .ok binary

end Assembler

/-! ## Scanner DFA (wlp4scan.cc) -/

namespace WLP4

/-- The class `DFA::State`; a `State*` is kept as the state's name, so the
map `next` sends a character to the name of the target state. -/
structure DFA.State where
  name : String
  accepting : Bool
  next : List (Char × String)
  deriving DecidableEq, Repr

/-- The class `DFA`: the tagged collection of states and the start state. -/
structure DFA where
  states : List DFA.State
  start : String
  deriving DecidableEq, Repr

namespace DFA

/-- The constructor `State(s, b)`. -/
def State.new (s : String) (b : Bool) : State := { name := s, accepting := b, next := [] }

/-- The method `State::addTransition`: `next[c] = nextState`. -/
def State.addTransition (st : State) (c : Char) (nextState : String) : State :=
  { st with next := (c, nextState) :: st.next }

/-- The method `State::transition`: the connected state, if any. -/
def State.transition (st : State) (c : Char) : Option String := st.next.lookup c

/-- The lookup `states[s]` for a present key. -/
def find (d : DFA) (s : String) : Option State := d.states.find? (fun st => st.name == s)

/-- The constructor `DFA(s, b)`. -/
def new (s : String) (b : Bool) : DFA := { states := [State.new s b], start := s }

/-- The method `DFA::addState`. -/
def addState (d : DFA) (s : String) (b : Bool) : DFA :=
  if (d.find s).isNone then { d with states := d.states ++ [State.new s b] } else d

/-- The method `DFA::addTransition`. -/
def addTransition (d : DFA) (src : String) (c : Char) (dst : String) : DFA :=
  if (d.find src).isSome ∧ (d.find dst).isSome then
    { d with
      states := d.states.map (fun st => if st.name = src then st.addTransition c dst else st) }
  else d

/-- The call `curState->transition(c)` on the state named `cur`. -/
def transition (d : DFA) (cur : String) (c : Char) : Option String :=
  match d.find cur with
  | some st => st.transition c
  | none => none

/-- The call `curState->isAccepting()` on the state named `cur`. -/
def isAccepting (d : DFA) (cur : String) : Bool :=
  match d.find cur with
  | some st => st.accepting
  | none => false

end DFA

namespace WLP4Scanner

/-- The characters `lo, lo+1, ..., lo+n-1` visited by a `for (char c = lo; ...; ++c)` loop. -/
def charRange (lo : Char) (n : Nat) : List Char :=
  (List.range n).map (fun i => Char.ofNat (lo.toNat + i))

/-- The method `whitespace()`. -/
def whitespace (d : DFA) : DFA :=
  let d := d.addState "WHITESPACE" true
  let d := d.addTransition "_START" ' ' "WHITESPACE"
  let d := d.addTransition "_START" '\t' "WHITESPACE"
  let d := d.addTransition "WHITESPACE" ' ' "WHITESPACE"
  d.addTransition "WHITESPACE" '\t' "WHITESPACE"

/-- The method `delimiters()`. -/
def delimiters (d : DFA) : DFA :=
  let d := d.addState "LPAREN" true
  let d := d.addState "RPAREN" true
  let d := d.addState "LBRACE" true
  let d := d.addState "RBRACE" true
  let d := d.addState "LBRACK" true
  let d := d.addState "RBRACK" true
  let d := d.addTransition "_START" '(' "LPAREN"
  let d := d.addTransition "_START" ')' "RPAREN"
  let d := d.addTransition "_START" '\x7b' "LBRACE"
  let d := d.addTransition "_START" '\x7d' "RBRACE"
  let d := d.addTransition "_START" '[' "LBRACK"
  d.addTransition "_START" ']' "RBRACK"

/-- The method `relationals()`. -/
def relationals (d : DFA) : DFA :=
  let d := d.addState "BECOMES" true
  let d := d.addState "EQ" true
  let d := d.addState "LT" true
  let d := d.addState "LE" true
  let d := d.addState "GT" true
  let d := d.addState "GE" true
  let d := d.addState "_NOT" false
  let d := d.addState "NE" true
  let d := d.addTransition "_START" '=' "BECOMES"
  let d := d.addTransition "BECOMES" '=' "EQ"
  let d := d.addTransition "_START" '<' "LT"
  let d := d.addTransition "LT" '=' "LE"
  let d := d.addTransition "_START" '>' "GT"
  let d := d.addTransition "GT" '=' "GE"
  let d := d.addTransition "_START" '!' "_NOT"
  d.addTransition "_NOT" '=' "NE"

/-- The method `opsandpunctuation()`. -/
def opsandpunctuation (d : DFA) : DFA :=
  let d := d.addState "PLUS" true
  let d := d.addState "MINUS" true
  let d := d.addState "STAR" true
  let d := d.addState "SLASH" true
  let d := d.addState "PCT" true
  let d := d.addState "COMMA" true
  let d := d.addState "SEMI" true
  let d := d.addState "AMP" true
  let d := d.addState "COMMENT" true
  let d := d.addTransition "_START" '+' "PLUS"
  let d := d.addTransition "_START" '-' "MINUS"
  let d := d.addTransition "_START" '*' "STAR"
  let d := d.addTransition "_START" '/' "SLASH"
  let d := d.addTransition "_START" '%' "PCT"
  let d := d.addTransition "_START" ',' "COMMA"
  let d := d.addTransition "_START" ';' "SEMI"
  let d := d.addTransition "_START" '&' "AMP"
  d.addTransition "SLASH" '/' "COMMENT"

/-- The method `numbers()`. -/
def numbers (d : DFA) : DFA :=
  let d := d.addState "ZERO" true
  let d := d.addState "NUM" true
  let d := d.addTransition "_START" '0' "ZERO"
  let d := (charRange '1' 9).foldl (fun d c => d.addTransition "_START" c "NUM") d
  (charRange '0' 10).foldl (fun d c => d.addTransition "NUM" c "NUM") d

/-- The method `identifiers()`. -/
def identifiers (d : DFA) : DFA :=
  let d := d.addState "ID" true
  let d := (List.zip (charRange 'a' 26) (charRange 'A' 26)).foldl
    (fun d cC =>
      let d := d.addTransition "_START" cC.1 "ID"
      let d := d.addTransition "_START" cC.2 "ID"
      let d := d.addTransition "ID" cC.1 "ID"
      d.addTransition "ID" cC.2 "ID") d
  (charRange '0' 10).foldl (fun d c => d.addTransition "ID" c "ID") d

/-- The method `getKind(stateName, lex)`. -/
def getKind (stateName : String) (lex : String) : String :=
  if stateName = "ZERO" then "NUM"
  else if lex = "return" then "RETURN"
  else if lex = "if" then "IF"
  else if lex = "int" then "INT"
  else if lex = "else" then "ELSE"
  else if lex = "wain" then "WAIN"
  else if lex = "while" then "WHILE"
  else if lex = "println" then "PRINTLN"
  else if lex = "new" then "NEW"
  else if lex = "delete" then "DELETE"
  else if lex = "NULL" then "NULL"
  else stateName

/-- The constructor `WLP4Scanner()`: the DFA of the WLP4 tokens. -/
def new : DFA :=
  identifiers (numbers (opsandpunctuation (relationals (delimiters (whitespace
    (DFA.new "_START" false))))))

/-- How the scan of one line ends: the line is finished, an error message has
been written to `err` (and `scanAll` returns), or the loop is still running
when the step budget of the model is used up. -/
inductive Status where
  | done
  | unaccepted (msg : String)
  | outOfBounds (msg : String)
  | running
  deriving DecidableEq, Repr

/-- The `while (true)` loop of `scanAll` on the line `s` (`k = s.size()`), from
the loop state `i`, `curState`, `lex`; `out` collects the `(kind, lexeme)` pairs
written to the output stream.  The first argument bounds the number of
iterations. -/
def scanLoop (d : DFA) (s : List Char) :
    Nat → Nat → String → String → List (String × String) → List (String × String) × Status
  | 0, _, _, _, out => (out, .running)
  | steps + 1, i, curState, lex, out =>
      let nextState : Option String :=
        match s[i]? with
        | some c => d.transition curState c
        | none => none
      match nextState with
      | none =>
          if !d.isAccepting curState then
            (out, .unaccepted ("ERROR: Unaccepted token attempt - " ++ lex))
          else
            let kind := getKind curState lex
            if kind = "NUM" ∧ lex.length > 9 ∧ (lex.length ≠ 10 ∨ lex > "2147483647") then
              (out, .outOfBounds ("ERROR: Number out of bounds --> " ++ lex))
            else if kind = "COMMENT" then (out, .done)
            else
              let out := if kind ≠ "WHITESPACE" then out ++ [(kind, lex)] else out
              if i = s.length then (out, .done)
              else scanLoop d s steps i d.start "" out
      | some nxt =>
          match s[i]? with
          | some c => scanLoop d s steps (i + 1) nxt (lex.push c) out
          | none => (out, .running)

/-- The scan of one line: every iteration of the loop consumes a character or
follows one that did, so `2 * k + 2` iterations are enough. -/
def scanLine (d : DFA) (s : String) (out : List (String × String)) :
    List (String × String) × Status :=
  scanLoop d s.data (2 * s.length + 2) 0 d.start "" out

/-- The loop `while (std::getline(in, s))` of `scanAll` over the input lines. -/
def scanAll_lines (d : DFA) : List String → List (String × String) →
    List (String × String) × Status
  | [], out => (out, .done)
  | s :: rest, out =>
      if s.length = 0 then scanAll_lines d rest out
      else
        match scanLine d s out with
        | (out1, .done) => scanAll_lines d rest out1
        | (out1, status) => (out1, status)

/-- The method `scanAll`: the tokens written to `out` and how the scan ended. -/
def scanAll (lines : List String) : List (String × String) × Status :=
  scanAll_lines WLP4Scanner.new lines []

end WLP4Scanner

/-! ## Parse trees and the type annotator (wlp4type.cc) -/

/-- Modelled from the spec: the constant `TYPE_INT` of wlp4data.h, the type tag `int`. -/
def TYPE_INT : String := "int"

/-- Modelled from the spec: the constant `TYPE_INT_PTR` of wlp4data.h, the type tag `int*`. -/
def TYPE_INT_PTR : String := "int*"

/-- Modelled from the spec: the constant `TYPE_NONE` of wlp4data.h, the tag of a
node without a type (nothing is printed after such a node's rule). -/
def TYPE_NONE : String := ""

/-- The struct `WLP4ParseTree::Node`: kind, rule sequence, type tag and children. -/
inductive Node where
  | mk (kind : String) (seq : String) (type : String) (children : List Node)
  deriving Repr

namespace Node

/-- The member `kind`. -/
def kind : Node → String
  | mk k _ _ _ => k

/-- The member `seq`. -/
def seq : Node → String
  | mk _ s _ _ => s

/-- The member `type`. -/
def type : Node → String
  | mk _ _ t _ => t

/-- The member `children`. -/
def children : Node → List Node
  | mk _ _ _ cs => cs

/-- The assignment `node->type = t`. -/
def setType : Node → String → Node
  | mk k s _ cs, t => mk k s t cs

/-- The node after its `i`-th child has been replaced by its annotated version. -/
def setChild : Node → Nat → Node → Node
  | mk k s t cs, i, c => mk k s t (cs.set i c)

/-- The constructor `Node(kind, seq)`. -/
def new (kind seq : String) : Node := mk kind seq TYPE_NONE []

end Node

/-- The class `TypeError`. -/
structure TypeError where
  msg : String
  deriving DecidableEq, Repr

/-- The method `TypeError::what`. -/
def TypeError.what (te : TypeError) : String := "ERROR: " ++ te.msg

/-- Why an annotation run yields no tree: a `TypeError` was thrown, the code
indexed a vector out of its bounds (undefined behaviour in the source), or the
recursion depth allowed to the model was used up. -/
inductive Abort where
  | typeError (te : TypeError)
  | undefined
  | fuel
  deriving DecidableEq, Repr

/-- The struct `ProcData`; `symTable` is the `std::map` from variable names to
types, kept as an association list. -/
structure ProcData where
  id : String
  signature : List String
  symTable : List (String × String)
  deriving DecidableEq, Repr

namespace ProcData

/-- The constructor `ProcData(id)` (`ProcData()` is `ProcData.new ""`). -/
def new (id : String) : ProcData := { id := id, signature := [], symTable := [] }

/-- The method `count(varID)`. -/
def count (table : ProcData) (varID : String) : Nat :=
  if (table.symTable.lookup varID).isSome then 1 else 0

/-- The read `table[varID]` (a missing name reads as the empty string). -/
def get (table : ProcData) (varID : String) : String :=
  (table.symTable.lookup varID).getD ""

/-- The assignment `table[varID] = type`. -/
def set (table : ProcData) (varID : String) (type : String) : ProcData :=
  { table with
    symTable :=
      if (table.symTable.lookup varID).isSome then
        table.symTable.map (fun p => if p.1 = varID then (p.1, type) else p)
      else table.symTable ++ [(varID, type)] }

end ProcData

/-- The member `ptable`: the `std::map` from procedure names to `ProcData`. -/
abbrev ProcTable := List (String × ProcData)

namespace ProcTable

/-- The call `ptable.count(procID)`. -/
def count (ptable : ProcTable) (procID : String) : Nat :=
  if (ptable.lookup procID).isSome then 1 else 0

/-- The read `ptable[procID]` (a missing name reads as `ProcData()`). -/
def get (ptable : ProcTable) (procID : String) : ProcData :=
  (ptable.lookup procID).getD (ProcData.new "")

/-- The assignment `ptable[procID] = data`. -/
def set (ptable : ProcTable) (procID : String) (data : ProcData) : ProcTable :=
  if (ptable.lookup procID).isSome then
    ptable.map (fun p => if p.1 = procID then (p.1, data) else p)
  else ptable ++ [(procID, data)]

end ProcTable

namespace WLP4ParseTree

/-- The characters `operator>>` skips between words (`isspace` in the C locale). -/
def isspace (c : Char) : Bool :=
  c = ' ' || c = '\t' || c = '\n' || c = '\x0b' || c = '\x0c' || c = '\r'

/-- The whitespace-separated words of a character sequence; `cur` is the word
being read. -/
def wordsAux : List Char → List Char → List String
  | [], cur => if cur.isEmpty then [] else [String.mk cur]
  | c :: cs, cur =>
      if isspace c then
        if cur.isEmpty then wordsAux cs [] else String.mk cur :: wordsAux cs []
      else wordsAux cs (cur ++ [c])

/-- The words an `istringstream` over `str` yields. -/
def words (str : String) : List String := wordsAux str.data []

/-- The value of `id` after `iss >> id >> id` on a stream over `seq`: the
second word; a failed extraction leaves the string as it was. -/
def secondWord (seq : String) : String :=
  match words seq with
  | _ :: w :: _ => w
  | [w] => w
  | [] => ""

/-- The access `node->children[i]`. -/
def child (node : Node) (i : Nat) : Except Abort Node :=
  match node.children[i]? with
  | some c => .ok c
  | none => .error .undefined

/-- The access `node->children.back()`. -/
def back (node : Node) : Except Abort Node :=
  match node.children.getLast? with
  | some c => .ok c
  | none => .error .undefined

/-- The statement `throw TypeError(msg)`. -/
def throwTypeError {α : Type} (msg : String) : Except Abort α :=
  .error (.typeError { msg := msg })

/-- The method `annotate_token(node, table)`. -/
def annotate_token (table : ProcData) (node : Node) : Except Abort Node :=
  if node.kind = "NUM" then .ok (node.setType TYPE_INT)
  else if node.kind = "NULL" then .ok (node.setType TYPE_INT_PTR)
  else if node.kind = "ID" then
    let id := secondWord node.seq
    if table.count id = 0 then throwTypeError ("Undeclared variable " ++ id ++ ".")
    else .ok (node.setType (table.get id))
  else throwTypeError ("(FATAL) Not valid expression token kind - " ++ node.kind)

/-- The value `callTable.signature.size()-1`, computed on `size_t`. -/
def sizeMinusOne (n : Nat) : Nat := (n + 2 ^ 64 - 1) % 2 ^ 64

mutual

/-- The method `annotate_expr(node, table)`; `table` is `ptable[cur]`. -/
def annotate_expr : Nat → ProcTable → String → Node → Except Abort Node
  | 0, _, _, _ => .error .fuel
  | fuel + 1, ptable, cur, node => do
      let term ← annotate_term fuel ptable cur (← back node)
      let node1 := node.setChild (node.children.length - 1) term
      if node.children.length = 1 then
        return node1.setType term.type
      let expr ← annotate_expr fuel ptable cur (← child node1 0)
      let node2 := node1.setChild 0 expr
      if term.type = TYPE_INT then
        return node2.setType expr.type
      else if (← child node2 1).kind = "PLUS" then
        if expr.type ≠ TYPE_INT then
          throwTypeError ("Expected expression \x7b" ++ TYPE_INT ++ " + " ++ TYPE_INT_PTR ++
            "\x7d, given \x7b" ++ expr.type ++ " + " ++ term.type ++ "\x7d.")
        else return node2.setType TYPE_INT_PTR
      else
        if expr.type ≠ TYPE_INT_PTR then
          throwTypeError ("Expected expression \x7b" ++ TYPE_INT_PTR ++ " - " ++ TYPE_INT_PTR ++
            "\x7d, given \x7b" ++ expr.type ++ " - " ++ term.type ++ "\x7d.")
        else return node2.setType TYPE_INT

/-- The method `annotate_term(node, table)`. -/
def annotate_term : Nat → ProcTable → String → Node → Except Abort Node
  | 0, _, _, _ => .error .fuel
  | fuel + 1, ptable, cur, node => do
      let factor ← annotate_factor fuel ptable cur (← back node)
      let node1 := (node.setChild (node.children.length - 1) factor).setType factor.type
      if node.children.length > 1 then
        if node1.type ≠ TYPE_INT then
          throwTypeError "Expected multiple combined factors to all have type int."
        else
          let term ← annotate_term fuel ptable cur (← child node1 0)
          if term.type ≠ TYPE_INT then
            throwTypeError "Expected multiple combined factors to all have type int."
          else return node1.setChild 0 term
      else return node1

/-- The method `annotate_factor(node, table)`. -/
def annotate_factor : Nat → ProcTable → String → Node → Except Abort Node
  | 0, _, _, _ => .error .fuel
  | fuel + 1, ptable, cur, node => do
      let table := ptable.get cur
      if node.children.length = 1 then
        let tok ← annotate_token table (← child node 0)
        return (node.setChild 0 tok).setType tok.type
      else if (← child node 0).kind = "ID" then
        let procID := secondWord (← child node 0).seq
        if procID = "wain" then
          throwTypeError "Cannot call main procedure [wain]."
        else if procID = table.id ∧ table.count procID ≠ 0 then
          throwTypeError ("Cannot call recurse procedure [" ++ procID ++
            "] since declared as a local variable already.")
        else if ptable.count procID = 0 then
          throwTypeError ("Procedure [" ++ procID ++ "] called before declaration.")
        else if (← child node 2).kind = "arglist" then
          let args ← annotate_args fuel ptable cur (← child node 2) (ptable.get procID) 0
          return (node.setChild 2 args).setType TYPE_INT
        else if (ptable.get procID).signature.length ≠ 0 then
          throwTypeError ("Arity mismatch - expected no args in [" ++ procID ++ "].")
        else return node.setType TYPE_INT
      else if node.children.length = 3 then
        let expr ← annotate_expr fuel ptable cur (← child node 1)
        return (node.setChild 1 expr).setType expr.type
      else if node.children.length = 5 then
        let expr ← annotate_expr fuel ptable cur (← child node 3)
        if expr.type ≠ TYPE_INT then
          throwTypeError ("Expected INT in array declaration size, given - " ++ TYPE_INT_PTR ++ ".")
        else return (node.setChild 3 expr).setType TYPE_INT_PTR
      else if (← child node 0).kind = "AMP" then
        let lvalue ← annotate_lvalue fuel ptable cur (← child node 1)
        if lvalue.type ≠ TYPE_INT then
          throwTypeError ("Expected int when referencing, given - " ++ TYPE_INT_PTR ++ ".")
        else return (node.setChild 1 lvalue).setType TYPE_INT_PTR
      else if (← child node 0).kind = "STAR" then
        let factor ← annotate_factor fuel ptable cur (← child node 1)
        if factor.type ≠ TYPE_INT_PTR then
          throwTypeError ("Expected int* when dereferencing, given - " ++ TYPE_INT ++ ".")
        else return (node.setChild 1 factor).setType TYPE_INT
      else throwTypeError ("(FATAL) Not valid production rule - " ++ node.kind)

/-- The method `annotate_args(node, table, callTable, idx)`. -/
def annotate_args : Nat → ProcTable → String → Node → ProcData → Nat → Except Abort Node
  | 0, _, _, _, _, _ => .error .fuel
  | fuel + 1, ptable, cur, node, callTable, idx => do
      if callTable.signature.length = idx then
        throwTypeError ("Too many args for [" ++ callTable.id ++ "].")
      else if node.children.length = 1 ∧ idx ≠ sizeMinusOne callTable.signature.length then
        throwTypeError ("Too few args for [" ++ callTable.id ++ "].")
      else
        let arg ← annotate_expr fuel ptable cur (← child node 0)
        let node1 := node.setChild 0 arg
        match callTable.signature[idx]? with
        | none => .error .undefined
        | some sigType =>
            if arg.type ≠ sigType then
              throwTypeError ("Arity type mismatch when calling [" ++ callTable.id ++ "].")
            else if node.children.length > 1 then
              let rest ← annotate_args fuel ptable cur (← child node1 2) callTable (idx + 1)
              return node1.setChild 2 rest
            else return node1

/-- The method `annotate_lvalue(node, table)`. -/
def annotate_lvalue : Nat → ProcTable → String → Node → Except Abort Node
  | 0, _, _, _ => .error .fuel
  | fuel + 1, ptable, cur, node => do
      if node.children.length = 1 then
        let tok ← annotate_token (ptable.get cur) (← child node 0)
        return (node.setChild 0 tok).setType tok.type
      else if node.children.length = 2 then
        let factor ← annotate_factor fuel ptable cur (← child node 1)
        if factor.type ≠ TYPE_INT_PTR then
          throwTypeError ("Expected int* when dereferencing, given - " ++ TYPE_INT ++ ".")
        else return (node.setChild 1 factor).setType TYPE_INT
      else if node.children.length = 3 then
        let lvalue ← annotate_lvalue fuel ptable cur (← child node 1)
        return (node.setChild 1 lvalue).setType lvalue.type
      else throwTypeError ("(FATAL) Not valid production rule - " ++ node.kind)

end

/-- The method `annotate_test(node, table)`; the two operands are annotated
left to right. -/
def annotate_test : Nat → ProcTable → String → Node → Except Abort Node
  | 0, _, _, _ => .error .fuel
  | fuel + 1, ptable, cur, node => do
      let lhs ← annotate_expr fuel ptable cur (← child node 0)
      let rhs ← annotate_expr fuel ptable cur (← child node 2)
      if lhs.type ≠ rhs.type then
        throwTypeError "Type mismatch in boolean expression."
      else return (node.setChild 0 lhs).setChild 2 rhs

mutual

/-- The method `annotate_stmts(node, table)`. -/
def annotate_stmts : Nat → ProcTable → String → Node → Except Abort Node
  | 0, _, _, _ => .error .fuel
  | fuel + 1, ptable, cur, node => do
      if node.children.length > 0 then
        let stmts ← annotate_stmts fuel ptable cur (← child node 0)
        let stmt ← annotate_stmt fuel ptable cur (← child node 1)
        return (node.setChild 0 stmts).setChild 1 stmt
      else return node

/-- The method `annotate_stmt(node, table)`. -/
def annotate_stmt : Nat → ProcTable → String → Node → Except Abort Node
  | 0, _, _, _ => .error .fuel
  | fuel + 1, ptable, cur, node => do
      if (← child node 0).kind = "lvalue" then
        let lvalue ← annotate_lvalue fuel ptable cur (← child node 0)
        let expr ← annotate_expr fuel ptable cur (← child node 2)
        if expr.type ≠ lvalue.type then
          throwTypeError "Expected same type in assignment variable and new value."
        else return (node.setChild 0 lvalue).setChild 2 expr
      else if (← child node 0).kind = "IF" then
        let test ← annotate_test fuel ptable cur (← child node 2)
        let stmts1 ← annotate_stmts fuel ptable cur (← child node 5)
        let stmts2 ← annotate_stmts fuel ptable cur (← child node 9)
        return ((node.setChild 2 test).setChild 5 stmts1).setChild 9 stmts2
      else if (← child node 0).kind = "WHILE" then
        let test ← annotate_test fuel ptable cur (← child node 2)
        let stmts ← annotate_stmts fuel ptable cur (← child node 5)
        return (node.setChild 2 test).setChild 5 stmts
      else if (← child node 0).kind = "PRINTLN" then
        let expr ← annotate_expr fuel ptable cur (← child node 2)
        if expr.type ≠ TYPE_INT then
          throwTypeError ("Expected type " ++ TYPE_INT ++ " in PRINTLN.")
        else return node.setChild 2 expr
      else if (← child node 0).kind = "DELETE" then
        let expr ← annotate_expr fuel ptable cur (← child node 3)
        if expr.type ≠ TYPE_INT_PTR then
          throwTypeError ("Expected type " ++ TYPE_INT_PTR ++ " in DELETE.")
        else return node.setChild 3 expr
      else throwTypeError ("(FATAL) Not valid production rule - " ++ node.kind)

end

/-- The method `annotate_dcl(node, table, rvalueNode)` with `table = ptable[cur]`:
the annotated `dcl` node, the annotated initialiser (if one was given) and the
procedure table after the declaration has been recorded. -/
def annotate_dcl (ptable : ProcTable) (cur : String) (node : Node) (rvalueNode : Option Node) :
    Except Abort (Node × Option Node × ProcTable) := do
  let table := ptable.get cur
  let typeNode ← child node 0
  let idNode ← child node 1
  let id := secondWord idNode.seq
  if table.count id ≠ 0 then
    throwTypeError ("Variable " ++ id ++ " is already declared.")
  else
    let type := if typeNode.children.length = 1 then TYPE_INT else TYPE_INT_PTR
    match rvalueNode with
    | some rv =>
        let tok ← annotate_token table rv
        if tok.type ≠ type then
          throwTypeError ("Expected type " ++ type ++ " when initializing " ++ id ++ " in [" ++
            table.id ++ "].")
        else
          return (node.setChild 1 (idNode.setType type), some tok,
            ptable.set cur (table.set id type))
    | none =>
        return (node.setChild 1 (idNode.setType type), none, ptable.set cur (table.set id type))

/-- The type `annotate_dcl` returns: the type tag it gave to the `ID` child. -/
def dclType (dcl : Node) : Except Abort String := do
  return (← child dcl 1).type

/-- The method `annotate_dcls(node, table)`. -/
def annotate_dcls : Nat → ProcTable → String → Node → Except Abort (Node × ProcTable)
  | 0, _, _, _ => .error .fuel
  | fuel + 1, ptable, cur, node => do
      if node.children.length > 0 then
        let (dcl, rv, ptable1) ← annotate_dcl ptable cur (← child node 1) (some (← child node 3))
        let node1 := node.setChild 1 dcl
        let node2 := match rv with
          | some tok => node1.setChild 3 tok
          | none => node1
        let (dcls, ptable2) ← annotate_dcls fuel ptable1 cur (← child node 0)
        return (node2.setChild 0 dcls, ptable2)
      else return (node, ptable)

/-- The method `annotate_params(node, table)`. -/
def annotate_params : Nat → ProcTable → String → Node → Except Abort (Node × ProcTable)
  | 0, _, _, _ => .error .fuel
  | fuel + 1, ptable, cur, node => do
      if node.kind = "params" then
        if node.children.length > 0 then
          let (sub, ptable1) ← annotate_params fuel ptable cur (← child node 0)
          return (node.setChild 0 sub, ptable1)
        else return (node, ptable)
      else if node.kind = "paramlist" then
        let (dcl, _, ptable1) ← annotate_dcl ptable cur (← child node 0) none
        let table := ptable1.get cur
        let ptable2 := ptable1.set cur { table with signature := table.signature ++ [← dclType dcl] }
        let node1 := node.setChild 0 dcl
        if node.children.length > 1 then
          let (sub, ptable3) ← annotate_params fuel ptable2 cur (← child node 2)
          return (node1.setChild 2 sub, ptable3)
        else return (node1, ptable2)
      else throwTypeError ("(FATAL) Not valid production rule - " ++ node.kind)

/-- The method `annotate_proc(node)`. -/
def annotate_proc : Nat → ProcTable → Node → Except Abort (Node × ProcTable)
  | 0, _, _ => .error .fuel
  | fuel + 1, ptable, node => do
      let isMain : Bool := node.kind = "main"
      let procID := secondWord (← child node 1).seq
      if ptable.count procID > 0 then
        throwTypeError ("Procedure " ++ procID ++ "is already declared.")
      else
        let ptable0 := ptable.set procID (ProcData.new procID)
        let (node1, ptable1, i) ←
          (if isMain then do
            let (dcl1, _, pt1) ← annotate_dcl ptable0 procID (← child node 3) none
            let (dcl2, _, pt2) ← annotate_dcl pt1 procID (← child node 5) none
            if (← dclType dcl2) ≠ TYPE_INT then
              throwTypeError "The second parameter of wain is not int type."
            else return ((node.setChild 3 dcl1).setChild 5 dcl2, pt2, 8)
          else do
            let (params, pt1) ← annotate_params fuel ptable0 procID (← child node 3)
            return (node.setChild 3 params, pt1, 6) : Except Abort (Node × ProcTable × Nat))
        let (dcls, ptable2) ← annotate_dcls fuel ptable1 procID (← child node i)
        let stmts ← annotate_stmts fuel ptable2 procID (← child node (i + 1))
        let expr ← annotate_expr fuel ptable2 procID (← child node (i + 3))
        if expr.type ≠ TYPE_INT then
          throwTypeError ("The return expression of [" ++ procID ++ "] is not int type.")
        else
          return (((node1.setChild i dcls).setChild (i + 1) stmts).setChild (i + 3) expr, ptable2)

/-- The method `annotate_prog_level(node)`. -/
def annotate_prog_level : Nat → ProcTable → Node → Except Abort (Node × ProcTable)
  | 0, _, _ => .error .fuel
  | fuel + 1, ptable, node => do
      if node.kind = "start" then
        let (sub, ptable1) ← annotate_prog_level fuel ptable (← child node 1)
        return (node.setChild 1 sub, ptable1)
      else if node.kind = "procedures" then
        let (proc, ptable1) ← annotate_proc fuel ptable (← child node 0)
        let node1 := node.setChild 0 proc
        if node.children.length > 1 then
          let (sub, ptable2) ← annotate_prog_level fuel ptable1 (← child node 1)
          return (node1.setChild 1 sub, ptable2)
        else return (node1, ptable1)
      else throwTypeError ("(FATAL) Not valid production rule - " ++ node.kind)

mutual

/-- The number of nodes on the longest path from a node down to a leaf. -/
def height : Node → Nat
  | .mk _ _ _ cs => heightList cs + 1

/-- The largest height among a list of nodes. -/
def heightList : List Node → Nat
  | [] => 0
  | c :: cs => max (height c) (heightList cs)

end

/-- The method `annotate()` on the tree `root` of a fresh `WLP4ParseTree`
(empty procedure table): the annotated tree and the procedure table, or the
reason there is none.  Every call of the source descends to a child, so the
recursion budget of the model is the height of the tree plus one; it is never
used up (`annotate_in_budget`). -/
def annotate (root : Node) : Except Abort (Node × ProcTable) :=
  annotate_prog_level (height root + 1) [] root

end WLP4ParseTree

end WLP4

/-! ## Specification vocabulary -/

namespace Assembler

/-- A register token whose number lies in `[0, 31]`. -/
def IsReg (toNumber : Token → Int) (tok : Token) : Prop :=
  tok.kind = .REG ∧ 0 ≤ toNumber tok ∧ toNumber tok ≤ 31

instance (toNumber : Token → Int) (tok : Token) : Decidable (IsReg toNumber tok) := by
  unfold IsReg
  infer_instance

/-- A line that contains a token which is not a label. -/
def hasInst (tokLine : List Token) : Bool :=
  tokLine.any (fun tok => decide (tok.kind ≠ .LABEL))

/-- The number of lines that contain a non-label token. -/
def instCount (lines : List (List Token)) : Nat :=
  (lines.filter hasInst).length

/-- The labels that precede the first non-label token of a line. -/
def leadingLabels (tokLine : List Token) : List Token :=
  tokLine.takeWhile (fun tok => decide (tok.kind = .LABEL))

/-- The lexemes of the leading labels of a line. -/
def lineLabels (tokLine : List Token) : List String :=
  (leadingLabels tokLine).map Token.lexeme

/-- The label lexemes a program declares, in order of declaration. -/
def declaredLabels : List (List Token) → List String
  | [] => []
  | tokLine :: rest => lineLabels tokLine ++ declaredLabels rest

/-- The label-address pairs of the lines of a program whose first line has
instruction index `pc`: each leading label with the number of instruction
lines before its own line. -/
def addrTable (pc : Int) : List (List Token) → List (String × Int)
  | [] => []
  | tokLine :: rest =>
      (lineLabels tokLine).map (fun l => (l, pc)) ++
        addrTable (if hasInst tokLine then pc + 1 else pc) rest

/-- A number reading for examples: the decimal value of the digits of a lexeme
(`$7` reads as 7, `12` as 12), negated after a minus sign. -/
def decimalValue (tok : Token) : Int :=
  let digits := tok.lexeme.data.filter Char.isDigit
  let n : Nat := digits.foldl (fun acc c => 10 * acc + (c.toNat - '0'.toNat)) 0
  if tok.lexeme.data.head? = some '-' then -(n : Int) else (n : Int)

end Assembler

namespace Assembler

/-- The program of scenario S5: `beq $0, $0, label` / `label: jr $31`. -/
def exampleBranch : List (List Token) :=
  [[⟨.ID, "beq"⟩, ⟨.REG, "$0"⟩, ⟨.COMMA, ","⟩, ⟨.REG, "$0"⟩, ⟨.COMMA, ","⟩, ⟨.ID, "label"⟩],
   [⟨.LABEL, "label:"⟩, ⟨.ID, "jr"⟩, ⟨.REG, "$31"⟩]]

end Assembler

namespace Assembler

/-- The line `jr $31`. -/
def jrLine : List Token := [⟨.ID, "jr"⟩, ⟨.REG, "$31"⟩]

/-- A program whose branch at instruction index 0 targets a label declared
`n + 1` instructions further down: `beq $0, $0, far`, then `n` lines `jr $31`,
then `far: jr $31`. -/
def farBranch (n : Nat) : List (List Token) :=
  [⟨.ID, "beq"⟩, ⟨.REG, "$0"⟩, ⟨.COMMA, ","⟩, ⟨.REG, "$0"⟩, ⟨.COMMA, ","⟩, ⟨.ID, "far"⟩] ::
    (List.replicate n jrLine ++ [[⟨.LABEL, "far:"⟩, ⟨.ID, "jr"⟩, ⟨.REG, "$31"⟩]])

end Assembler

/-! ## Specification vocabulary: maximal munch -/

namespace WLP4

namespace DFA

/-- The state the automaton reaches from `st` along the characters `w`, if every
step has a transition. -/
def run (d : DFA) : String → List Char → Option String
  | st, [] => some st
  | st, c :: cs =>
      match d.transition st c with
      | some nxt => run d nxt cs
      | none => none

/-- The string `w` drives the automaton from its start state to an accepting state. -/
def accepts (d : DFA) (w : List Char) : Bool :=
  match d.run d.start w with
  | some st => d.isAccepting st
  | none => false

/-- No transition enters the start state, and every transition that enters a
non-accepting state leaves the start state. -/
def wellShaped (d : DFA) : Bool :=
  d.states.all (fun st => st.next.all (fun p =>
    p.2 != d.start && (d.isAccepting p.2 || st.name == d.start)))

end DFA

namespace WLP4Scanner

/-- What `scanAll` writes for a munched lexeme accepted in state `st`: nothing
for whitespace and comments, otherwise the kind and the lexeme. -/
def emit (tok : String × List Char) : Option (String × String) :=
  let kind := getKind tok.1 (String.mk tok.2)
  if kind = "WHITESPACE" ∨ kind = "COMMENT" then none else some (kind, String.mk tok.2)

/-- The output lines of a sequence of munched lexemes. -/
def emitted (toks : List (String × List Char)) : List (String × String) :=
  toks.filterMap emit

/-- The sequence of munched lexemes ends in a comment. -/
def lastIsComment (toks : List (String × List Char)) : Bool :=
  match toks.getLast? with
  | some tok => getKind tok.1 (String.mk tok.2) = "COMMENT"
  | none => false

/-- The pair `(st, lex)` is the maximal munch of the input `lex ++ rem`: `lex` is
not empty, drives the automaton from the start state to the accepting state
`st`, and no longer prefix of the input is accepted. -/
def IsMaxMunch (d : DFA) (st : String) (lex rem : List Char) : Prop :=
  lex ≠ [] ∧ d.run d.start lex = some st ∧ d.isAccepting st = true ∧
    ∀ w t, w ≠ [] → rem = w ++ t → d.accepts (lex ++ w) = false

/-- The relation `MunchSeq d input toks rest`: `toks` are the successive maximal
munches of `input` (each the longest accepted prefix of what the previous ones
left), `rest` is the input after them, and nothing is munched after a comment. -/
inductive MunchSeq (d : DFA) : List Char → List (String × List Char) → List Char → Prop where
  | nil (input : List Char) : MunchSeq d input [] input
  | comment (st : String) (lex rem : List Char) :
      IsMaxMunch d st lex rem → getKind st (String.mk lex) = "COMMENT" →
      MunchSeq d (lex ++ rem) [(st, lex)] rem
  | cons (st : String) (lex rem : List Char) (toks : List (String × List Char))
      (rest : List Char) :
      IsMaxMunch d st lex rem → getKind st (String.mk lex) ≠ "COMMENT" →
      MunchSeq d rem toks rest → MunchSeq d (lex ++ rem) ((st, lex) :: toks) rest

end WLP4Scanner

end WLP4

/-! ## Specification vocabulary: WLP4 typing rules -/

namespace WLP4

namespace WLP4ParseTree

/-- A type tag of an expression: `int` or `int*`. -/
def IsType (t : String) : Prop := t = TYPE_INT ∨ t = TYPE_INT_PTR

instance (t : String) : Decidable (IsType t) := by
  unfold IsType
  infer_instance

/-- The WLP4 table of `expr + term`: `(int,int) → int`, `(int*,int) → int*`,
`(int,int*) → int*`; `int* + int*` is rejected. -/
def plusType (l r : String) : Option String :=
  if l = TYPE_INT ∧ r = TYPE_INT then some TYPE_INT
  else if l = TYPE_INT_PTR ∧ r = TYPE_INT then some TYPE_INT_PTR
  else if l = TYPE_INT ∧ r = TYPE_INT_PTR then some TYPE_INT_PTR
  else none

/-- The WLP4 table of `expr - term`: `(int,int) → int`, `(int*,int) → int*`,
`(int*,int*) → int`; `int - int*` is rejected. -/
def minusType (l r : String) : Option String :=
  if l = TYPE_INT ∧ r = TYPE_INT then some TYPE_INT
  else if l = TYPE_INT_PTR ∧ r = TYPE_INT then some TYPE_INT_PTR
  else if l = TYPE_INT_PTR ∧ r = TYPE_INT_PTR then some TYPE_INT
  else none

/-- The WLP4 table of `term * factor`, `term / factor`, `term % factor`: both
operands `int`, result `int`; every other pair is rejected. -/
def mulType (l r : String) : Option String :=
  if l = TYPE_INT ∧ r = TYPE_INT then some TYPE_INT else none

end WLP4ParseTree

end WLP4

namespace WLP4

/-- Modelled from the spec: the productions of the WLP4 grammar (the constant
`WLP4_CFG` of wlp4data.h), as the comments of wlp4type.cc list them. -/
def productions : List (String × List String) :=
  [("start", ["BOF", "procedures", "EOF"]),
   ("procedures", ["procedure", "procedures"]),
   ("procedures", ["main"]),
   ("procedure", ["INT", "ID", "LPAREN", "params", "RPAREN", "LBRACE", "dcls", "statements",
      "RETURN", "expr", "SEMI", "RBRACE"]),
   ("main", ["INT", "WAIN", "LPAREN", "dcl", "COMMA", "dcl", "RPAREN", "LBRACE", "dcls",
      "statements", "RETURN", "expr", "SEMI", "RBRACE"]),
   ("params", []),
   ("params", ["paramlist"]),
   ("paramlist", ["dcl"]),
   ("paramlist", ["dcl", "COMMA", "paramlist"]),
   ("type", ["INT"]),
   ("type", ["INT", "STAR"]),
   ("dcls", []),
   ("dcls", ["dcls", "dcl", "BECOMES", "NUM", "SEMI"]),
   ("dcls", ["dcls", "dcl", "BECOMES", "NULL", "SEMI"]),
   ("dcl", ["type", "ID"]),
   ("statements", []),
   ("statements", ["statements", "statement"]),
   ("statement", ["lvalue", "BECOMES", "expr", "SEMI"]),
   ("statement", ["IF", "LPAREN", "test", "RPAREN", "LBRACE", "statements", "RBRACE", "ELSE",
      "LBRACE", "statements", "RBRACE"]),
   ("statement", ["WHILE", "LPAREN", "test", "RPAREN", "LBRACE", "statements", "RBRACE"]),
   ("statement", ["PRINTLN", "LPAREN", "expr", "RPAREN", "SEMI"]),
   ("statement", ["DELETE", "LBRACK", "RBRACK", "expr", "SEMI"]),
   ("test", ["expr", "EQ", "expr"]),
   ("test", ["expr", "NE", "expr"]),
   ("test", ["expr", "LT", "expr"]),
   ("test", ["expr", "LE", "expr"]),
   ("test", ["expr", "GE", "expr"]),
   ("test", ["expr", "GT", "expr"]),
   ("expr", ["term"]),
   ("expr", ["expr", "PLUS", "term"]),
   ("expr", ["expr", "MINUS", "term"]),
   ("term", ["factor"]),
   ("term", ["term", "STAR", "factor"]),
   ("term", ["term", "SLASH", "factor"]),
   ("term", ["term", "PCT", "factor"]),
   ("factor", ["ID"]),
   ("factor", ["NUM"]),
   ("factor", ["NULL"]),
   ("factor", ["LPAREN", "expr", "RPAREN"]),
   ("factor", ["AMP", "lvalue"]),
   ("factor", ["STAR", "factor"]),
   ("factor", ["NEW", "INT", "LBRACK", "expr", "RBRACK"]),
   ("factor", ["ID", "LPAREN", "RPAREN"]),
   ("factor", ["ID", "LPAREN", "arglist", "RPAREN"]),
   ("arglist", ["expr"]),
   ("arglist", ["expr", "COMMA", "arglist"]),
   ("lvalue", ["ID"]),
   ("lvalue", ["STAR", "factor"]),
   ("lvalue", ["LPAREN", "lvalue", "RPAREN"])]

/-- The right-hand sides of the productions of a symbol (none for a terminal). -/
def rhsOf (k : String) : List (List String) :=
  (productions.filter (fun p => p.1 == k)).map Prod.snd

/-- A parse tree of the WLP4 grammar: a leaf carries a terminal, and the kinds
of the children of an interior node spell a production of the node's kind. -/
inductive ParseTree : Node → Prop where
  | leaf (k s t : String) : rhsOf k = [] → ParseTree (Node.mk k s t [])
  | node (k s t : String) (cs : List Node) : cs.map Node.kind ∈ rhsOf k →
      (∀ c ∈ cs, ParseTree c) → ParseTree (Node.mk k s t cs)

/-- The property `P` holds at a node and at every node below it. -/
inductive AllNodes (P : Node → Prop) : Node → Prop where
  | mk (n : Node) : P n → (∀ c ∈ n.children, AllNodes P c) → AllNodes P n

namespace WLP4ParseTree

/-- Every type recorded in a symbol table is `int` or `int*`. -/
def TableOK (table : ProcData) : Prop :=
  ∀ id ty, table.symTable.lookup id = some ty → IsType ty

/-- The rule for an `ID` leaf used as a variable: the name is an entry of the
symbol table, and the recorded type is the leaf's tag and the type `ty`. -/
def varRule (table : ProcData) (tok : Node) (ty : String) : Prop :=
  tok.kind = "ID" ∧ table.symTable.lookup (secondWord tok.seq) = some tok.type ∧ ty = tok.type

/-- The rule for the literals and variables: `NUM : int`, `NULL : int*`, `ID` as
recorded in the symbol table. -/
def tokenRule (table : ProcData) (tok : Node) (ty : String) : Prop :=
  (tok.kind = "NUM" ∧ ty = TYPE_INT) ∨ (tok.kind = "NULL" ∧ ty = TYPE_INT_PTR) ∨
    varRule table tok ty

/-- The typing rules of the productions of `expr`. -/
def exprRule (ty : String) : List Node → Prop
  | [t] => ty = t.type
  | [e, op, t] =>
      (op.kind = "PLUS" ∧ plusType e.type t.type = some ty) ∨
      (op.kind = "MINUS" ∧ minusType e.type t.type = some ty)
  | _ => False

/-- The typing rules of the productions of `term`. -/
def termRule (ty : String) : List Node → Prop
  | [f] => ty = f.type
  | [t, _, f] => mulType t.type f.type = some ty
  | _ => False

/-- The typing rules of the productions of `factor`. -/
def factorRule (table : ProcData) (ty : String) : List Node → Prop
  | [tok] => tokenRule table tok ty
  | [a, b] =>
      (a.kind = "AMP" ∧ b.type = TYPE_INT ∧ ty = TYPE_INT_PTR) ∨
      (a.kind = "STAR" ∧ b.type = TYPE_INT_PTR ∧ ty = TYPE_INT)
  | [a, b, _] => (a.kind = "LPAREN" ∧ ty = b.type) ∨ (a.kind = "ID" ∧ ty = TYPE_INT)
  | [a, _, _, _] => a.kind = "ID" ∧ ty = TYPE_INT
  | [_, _, _, e, _] => e.type = TYPE_INT ∧ ty = TYPE_INT_PTR
  | _ => False

/-- The typing rules of the productions of `lvalue`. -/
def lvalueRule (table : ProcData) (ty : String) : List Node → Prop
  | [tok] => varRule table tok ty
  | [_, f] => f.type = TYPE_INT_PTR ∧ ty = TYPE_INT
  | [_, lv, _] => ty = lv.type
  | _ => False

/-- What annotation soundness asks of a node: an `expr`, `term`, `factor` or
`lvalue` node carries a type in `int`, `int*` that follows from the types of
its children by the rule of its production; other nodes are not constrained. -/
def TypedNode (table : ProcData) (n : Node) : Prop :=
  (n.kind = "expr" → IsType n.type ∧ exprRule n.type n.children) ∧
  (n.kind = "term" → IsType n.type ∧ termRule n.type n.children) ∧
  (n.kind = "factor" → IsType n.type ∧ factorRule table n.type n.children) ∧
  (n.kind = "lvalue" → IsType n.type ∧ lvalueRule table n.type n.children)

/-- The relation `ProcIn p root`: `p` is one of the `procedure` or `main` nodes
of the program tree `root`. -/
inductive ProcIn : Node → Node → Prop where
  | start (p : Node) (s t : String) (bof procs eof : Node) :
      ProcIn p procs → ProcIn p (Node.mk "start" s t [bof, procs, eof])
  | here (p : Node) (s t : String) (rest : List Node) :
      ProcIn p (Node.mk "procedures" s t (p :: rest))
  | there (p : Node) (s t : String) (q procs : Node) :
      ProcIn p procs → ProcIn p (Node.mk "procedures" s t [q, procs])

/-- The name of a `procedure` or `main` node: the lexeme of its second child. -/
def procName (p : Node) : String :=
  match p.children[1]? with
  | some idNode => secondWord idNode.seq
  | none => ""

end WLP4ParseTree

end WLP4

namespace WLP4

namespace WLP4ParseTree

/-- The relation between a parse tree `n` and its annotated version `n1`: same
kind, still a parse tree, and every node of `n1` typed by its rule. -/
def Good (table : ProcData) (n n1 : Node) : Prop :=
  n1.kind = n.kind ∧ ParseTree n1 ∧ AllNodes (TypedNode table) n1

/-- Soundness of the expression annotators at one recursion depth. -/
def ExprSound (fuel : Nat) : Prop :=
  ∀ (ptable : ProcTable) (cur : String), TableOK (ptable.get cur) →
    (∀ n n1, ParseTree n → n.kind = "expr" →
      annotate_expr fuel ptable cur n = .ok n1 → Good (ptable.get cur) n n1) ∧
    (∀ n n1, ParseTree n → n.kind = "term" →
      annotate_term fuel ptable cur n = .ok n1 → Good (ptable.get cur) n n1) ∧
    (∀ n n1, ParseTree n → n.kind = "factor" →
      annotate_factor fuel ptable cur n = .ok n1 → Good (ptable.get cur) n n1) ∧
    (∀ n n1, ParseTree n → n.kind = "lvalue" →
      annotate_lvalue fuel ptable cur n = .ok n1 → Good (ptable.get cur) n n1) ∧
    (∀ n n1 callTable idx, ParseTree n → n.kind = "arglist" →
      annotate_args fuel ptable cur n callTable idx = .ok n1 → Good (ptable.get cur) n n1)

end WLP4ParseTree

end WLP4

namespace WLP4

namespace WLP4ParseTree

/-- Soundness of the statement annotators at one recursion depth. -/
def StmtSound (fuel : Nat) : Prop :=
  ∀ (ptable : ProcTable) (cur : String), TableOK (ptable.get cur) →
    (∀ n n1, ParseTree n → n.kind = "statements" →
      annotate_stmts fuel ptable cur n = .ok n1 → Good (ptable.get cur) n n1) ∧
    (∀ n n1, ParseTree n → n.kind = "statement" →
      annotate_stmt fuel ptable cur n = .ok n1 → Good (ptable.get cur) n n1)

end WLP4ParseTree

end WLP4

namespace WLP4

namespace WLP4ParseTree

/-- How the declarations of procedure `cur` may change the procedure table: the
table of `cur` stays well-typed and present, and no other entry changes. -/
def TableStep (ptable ptable1 : ProcTable) (cur : String) : Prop :=
  TableOK (ptable1.get cur) ∧ (∀ q, q ≠ cur → ptable1.lookup q = ptable.lookup q) ∧
    ((ptable.lookup cur).isSome = true → (ptable1.lookup cur).isSome = true)

/-- Soundness of a declaration annotator that returns the tree and the table. -/
def DclGood (ptable : ProcTable) (cur : String) (n : Node) (r : Node × ProcTable) : Prop :=
  (∀ table, Good table n r.1) ∧ TableStep ptable r.2 cur

end WLP4ParseTree

end WLP4

namespace WLP4

namespace WLP4ParseTree

/-- Soundness of the annotator of one procedure: the result is a parse tree of
the same kind, its name is new to the table it started from, every node is typed
by its rule under the table recorded for that name, and no other entry of the
procedure table changes. -/
def ProcGood (ptable : ProcTable) (n : Node) (r : Node × ProcTable) : Prop :=
  r.1.kind = n.kind ∧ ParseTree r.1 ∧ ptable.lookup (procName r.1) = none ∧
    (∃ table, r.2.lookup (procName r.1) = some table ∧ AllNodes (TypedNode table) r.1) ∧
    (∀ q, q ≠ procName r.1 → r.2.lookup q = ptable.lookup q)

end WLP4ParseTree

end WLP4

namespace WLP4

namespace WLP4ParseTree

/-- Soundness of the program-level annotator: the result is a parse tree of the
same kind, every procedure in it is typed under the table recorded for its name,
and the entries the procedure table started with are kept. -/
def ProgGood (ptable : ProcTable) (n : Node) (r : Node × ProcTable) : Prop :=
  r.1.kind = n.kind ∧ ParseTree r.1 ∧
    (∀ p, ProcIn p r.1 → ∃ table, r.2.lookup (procName p) = some table ∧
      AllNodes (TypedNode table) p) ∧
    (∀ q d, ptable.lookup q = some d → r.2.lookup q = some d)

end WLP4ParseTree

end WLP4

namespace WLP4

namespace WLP4ParseTree

/-- A terminal leaf as `readTree` builds it from the line `kind lexeme`, with
the type tag `ty`. -/
def tok (kind lexeme ty : String) : Node := Node.mk kind (kind ++ " " ++ lexeme) ty []

/-- An interior node as `readTree` builds it from the line `kind rhs`, with the
type tag `ty`. -/
def rule (kind rhs ty : String) (cs : List Node) : Node := Node.mk kind (kind ++ " " ++ rhs) ty cs

/-- The parse tree of the expression `a + b`. -/
def exampleSum : Node :=
  rule "expr" "expr PLUS term" ""
    [rule "expr" "term" "" [rule "term" "factor" "" [rule "factor" "ID" "" [tok "ID" "a" ""]]],
     tok "PLUS" "+" "",
     rule "term" "factor" "" [rule "factor" "ID" "" [tok "ID" "b" ""]]]

/-- The tree of `a + b` as annotated where `a : int*` and `b : int`. -/
def exampleSumTyped : Node :=
  rule "expr" "expr PLUS term" "int*"
    [rule "expr" "term" "int*"
       [rule "term" "factor" "int*" [rule "factor" "ID" "int*" [tok "ID" "a" "int*"]]],
     tok "PLUS" "+" "",
     rule "term" "factor" "int" [rule "factor" "ID" "int" [tok "ID" "b" "int"]]]

/-- The symbol table of `wain` with the parameters `int* a` and `int b`. -/
def exampleTable : ProcData :=
  { id := "wain", signature := [], symTable := [("a", "int*"), ("b", "int")] }

/-- The tree of the program `int wain(int* a, int b) { return *(a + b); }` around
the given tags of the two parameter names and the given return expression. -/
def exampleProgram (ta tb : String) (ret : Node) : Node :=
  rule "start" "BOF procedures EOF" ""
    [tok "BOF" "BOF" "",
     rule "procedures" "main" ""
       [rule "main"
          "INT WAIN LPAREN dcl COMMA dcl RPAREN LBRACE dcls statements RETURN expr SEMI RBRACE" ""
          [tok "INT" "int" "", tok "WAIN" "wain" "", tok "LPAREN" "(" "",
           rule "dcl" "type ID" ""
             [rule "type" "INT STAR" "" [tok "INT" "int" "", tok "STAR" "*" ""], tok "ID" "a" ta],
           tok "COMMA" "," "",
           rule "dcl" "type ID" "" [rule "type" "INT" "" [tok "INT" "int" ""], tok "ID" "b" tb],
           tok "RPAREN" ")" "", tok "LBRACE" "\x7b" "",
           rule "dcls" ".EMPTY" "" [], rule "statements" ".EMPTY" "" [],
           tok "RETURN" "return" "", ret, tok "SEMI" ";" "", tok "RBRACE" "\x7d" ""]],
     tok "EOF" "EOF" ""]

/-- The parse tree of `int wain(int* a, int b) { return *(a + b); }`. -/
def exampleTree : Node :=
  exampleProgram "" ""
    (rule "expr" "term" "" [rule "term" "factor" "" [rule "factor" "STAR factor" ""
      [tok "STAR" "*" "",
       rule "factor" "LPAREN expr RPAREN" ""
         [tok "LPAREN" "(" "", exampleSum, tok "RPAREN" ")" ""]]]])

/-- The annotated tree of `int wain(int* a, int b) { return *(a + b); }`. -/
def exampleTyped : Node :=
  exampleProgram "int*" "int"
    (rule "expr" "term" "int" [rule "term" "factor" "int" [rule "factor" "STAR factor" "int"
      [tok "STAR" "*" "",
       rule "factor" "LPAREN expr RPAREN" "int*"
         [tok "LPAREN" "(" "", exampleSumTyped, tok "RPAREN" ")" ""]]]])

end WLP4ParseTree

end WLP4

/-! ## Specification vocabulary: numerals and keywords of the scanner -/

namespace WLP4

namespace WLP4Scanner

/-- An unsigned decimal numeral: `0`, or a digit string that starts with `1`-`9`. -/
def isNumeral (l : List Char) : Bool :=
  match l with
  | [] => false
  | c :: cs => (c = '0' && cs.isEmpty) || (decide ('1' ≤ c ∧ c ≤ '9') && cs.all Char.isDigit)

/-- The value of a digit string read in base ten. -/
def numeralValue (l : List Char) : Nat :=
  l.foldl (fun acc c => 10 * acc + (c.toNat - '0'.toNat)) 0

/-- The bound check `scanAll` applies to a lexeme of kind `NUM`: more than nine
characters, and then not ten or greater than `2147483647` as a string. -/
def numOutOfBounds (lex : String) : Prop :=
  lex.length > 9 ∧ (lex.length ≠ 10 ∨ lex > "2147483647")

instance (lex : String) : Decidable (numOutOfBounds lex) := by
  unfold numOutOfBounds
  infer_instance

/-- The keyword table of the spec: each reserved lexeme with the kind it is given. -/
def keywords : List (String × String) :=
  [("return", "RETURN"), ("if", "IF"), ("int", "INT"), ("else", "ELSE"), ("wain", "WAIN"),
   ("while", "WHILE"), ("println", "PRINTLN"), ("new", "NEW"), ("delete", "DELETE"),
   ("NULL", "NULL")]

end WLP4Scanner

end WLP4

/-! ## The SLR(1) parser (wlp4parse.cc) -/

namespace WLP4

namespace WLP4Parser

/-- The struct `WLP4Parser::Token`. -/
structure Token where
  kind : String
  lexeme : String
  deriving DecidableEq, Repr

/-- The struct `WLP4Parser::Node`: a leaf built by `Node(Token*)` or an interior
node built by `Node(int prod)` with its children. -/
inductive Node where
  | leaf (tok : Token)
  | node (prod : Nat) (children : List Node)
  deriving Repr

/-- What the constructor `WLP4Parser()` leaves in the object.  The text it reads
(`WLP4_COMBINED` of wlp4data.h) is not part of the sources, so the tables are a
parameter: the productions of `cfg`, the transitions `states[n]->next[sym] = m`
of the DFA whose start state is `0`, and the entries `reductions[n][sym] = m`. -/
structure Tables where
  prods : List (String × List String)
  trans : List ((Nat × String) × Nat)
  reductions : List ((Nat × String) × Nat)
  deriving DecidableEq, Repr

/-- Why a parse yields no tree: the message `ERROR at k`, behaviour the source
leaves undefined (an empty stack, a null state), the exception of `prods.at`,
or the step budget of the model used up. -/
inductive ParseError where
  | errorAt (k : Nat)
  | undefined
  | outOfRange
  | fuel
  deriving DecidableEq, Repr

/-- The call `state->transition(sym)` on the state named `s`; `none` is `nullptr`. -/
def transition (T : Tables) (s : Nat) (sym : String) : Option Nat := T.trans.lookup (s, sym)

/-- The test `reductions[s].count(sym) > 0`. -/
def hasReduction (T : Tables) (s : Nat) (sym : String) : Bool :=
  (T.reductions.lookup (s, sym)).isSome

/-- The read `reductions[s][sym]` (a missing key reads as `0`). -/
def reductionOf (T : Tables) (s : Nat) (sym : String) : Nat :=
  (T.reductions.lookup (s, sym)).getD 0

/-- The method `reduce(nodeStack, stateStack, a)`.  Both stacks are kept with
their `back()` at the head of the list; a state pointer is `some name` or `none`
for `nullptr`. -/
def reduce (T : Tables) (nodeStack : List Node) (stateStack : List (Option Nat)) (a : Token) :
    Except ParseError (List Node × List (Option Nat)) :=
  match stateStack.head? with
  | some (some s) =>
      let rule := reductionOf T s a.kind
      match T.prods[rule]? with
      | none => .error .outOfRange
      | some (nt, rhs) =>
          if rhs.length ≤ nodeStack.length ∧ rhs.length ≤ stateStack.length then
            let newNT := Node.node rule (nodeStack.take rhs.length).reverse
            let nodeStack1 := newNT :: nodeStack.drop rhs.length
            let stateStack1 := stateStack.drop rhs.length
            match stateStack1.head? with
            | none => .ok (nodeStack1, some 0 :: stateStack1)
            | some (some s1) => .ok (nodeStack1, transition T s1 nt :: stateStack1)
            | some none => .error .undefined
          else .error .undefined
  | _ => .error .undefined

/-- The method `shift(nodeStack, stateStack, a)`: the stacks after it, and the
returned flag (`true` when there is no transition). -/
def shift (T : Tables) (nodeStack : List Node) (stateStack : List (Option Nat)) (a : Token) :
    Except ParseError (Bool × List Node × List (Option Nat)) :=
  match stateStack.head? with
  | some (some s) =>
      match transition T s a.kind with
      | none => .ok (true, Node.leaf a :: nodeStack, stateStack)
      | some nxt => .ok (false, Node.leaf a :: nodeStack, some nxt :: stateStack)
  | _ => .error .undefined

/-- The loop `for (k = ...; k < input.size(); ++k)` of `slr1` from the counter
`k`, with its inner `while` loop of reductions; the first argument bounds the
number of reductions and shifts. -/
def slrLoop (T : Tables) (input : List Token) :
    Nat → Nat → List Node → List (Option Nat) →
      Except ParseError (List Node × List (Option Nat))
  | 0, _, _, _ => .error .fuel
  | steps + 1, k, nodeStack, stateStack =>
      match input[k]? with
      | none => .ok (nodeStack, stateStack)
      | some a =>
          match stateStack.head? with
          | some (some s) =>
              if hasReduction T s a.kind then do
                let (nodeStack1, stateStack1) ← reduce T nodeStack stateStack a
                slrLoop T input steps k nodeStack1 stateStack1
              else do
                let (failed, nodeStack1, stateStack1) ← shift T nodeStack stateStack a
                if failed then .error (.errorAt k)
                else slrLoop T input steps (k + 1) nodeStack1 stateStack1
          | _ => .error .undefined

/-- The tree `nodeStack[0]` that `slr1` prints when the parse succeeds. -/
def slr1Tree (T : Tables) (input : List Token) (steps : Nat) : Except ParseError Node :=
  match input with
  | [] => .error .undefined
  | a0 :: _ => do
      let (nodeStack, stateStack) ←
        slrLoop T input steps 1 [Node.leaf a0] [transition T 0 a0.kind]
      let (nodeStack1, _) ← reduce T nodeStack stateStack ⟨".ACCEPT", ".ACCEPT"⟩
      match nodeStack1.getLast? with
      | some root => .ok root
      | none => .error .undefined

/-- The line `print` writes for a production: the left-hand side and the symbols
of the rule, or `.EMPTY` for an empty rule. -/
def ruleLine (nt : String) (rhs : List String) : String :=
  if rhs.length > 0 then rhs.foldl (fun acc r => acc ++ " " ++ r) nt
  else nt ++ " " ++ ".EMPTY"

mutual

/-- The method `print(out, node)`: the lines written to `out`. -/
def print (T : Tables) : Node → Except ParseError (List String)
  | .leaf tok => .ok [tok.kind ++ " " ++ tok.lexeme]
  | .node prod children =>
      match T.prods[prod]? with
      | none => .error .outOfRange
      | some (nt, rhs) =>
          match printList T children with
          | .ok rest => .ok (ruleLine nt rhs :: rest)
          | .error e => .error e

/-- The loop `for (Node *child : node->children) print(out, child)`. -/
def printList (T : Tables) : List Node → Except ParseError (List String)
  | [] => .ok []
  | c :: cs =>
      match print T c with
      | .ok l1 =>
          match printList T cs with
          | .ok l2 => .ok (l1 ++ l2)
          | .error e => .error e
      | .error e => .error e

end

/-- The method `slr1(input, out, err)`: the lines written to `out`, or why there
are none. -/
def slr1 (T : Tables) (input : List Token) (steps : Nat) : Except ParseError (List String) := do
  let root ← slr1Tree T input steps
  print T root

/-- The pairs `(kind, lexeme)` the loop `while (iss >> kind && iss >> lexeme)`
reads from a list of words. -/
def pairUp : List String → List Token
  | kind :: lexeme :: rest => ⟨kind, lexeme⟩ :: pairUp rest
  | _ => []

/-- The input of `slr1` that `parse` builds: `BOF`, the tokens, `EOF`. -/
def augment (toks : List Token) : List Token :=
  ⟨"BOF", "BOF"⟩ :: toks ++ [⟨"EOF", "EOF"⟩]

/-- The method `parse(raw, out, err)`. -/
def parse (T : Tables) (raw : String) (steps : Nat) : Except ParseError (List String) :=
  slr1 T (augment (pairUp (WLP4ParseTree.words raw))) steps

end WLP4Parser

namespace WLP4ParseTree

/-- The method `CFG::isNonTerminal` once every production has been added: the
symbol is the left-hand side of a production. -/
def isNonTerminal (prods : List (String × List String)) (sym : String) : Bool :=
  prods.any (fun p => p.1 == sym)

mutual

/-- The method `readTree(in)` on the lines still to be read: the tree (`none`
for `nullptr`) and the lines left.  The first argument bounds the number of
nested and successive calls; the result is `none` when that budget is used up. -/
def readTree (prods : List (String × List String)) :
    Nat → List String → Option (Option Node × List String)
  | 0, _ => none
  | _ + 1, [] => some (none, [])
  | fuel + 1, str :: lines =>
      let ws := words str
      let word := ws.head?.getD ""
      if isNonTerminal prods word then
        match readChildren prods fuel ws.tail lines with
        | none => none
        | some (children, lines1) => some (some (Node.mk word str TYPE_NONE children), lines1)
      else some (some (Node.mk word str TYPE_NONE []), lines)

/-- The loop `while (iss >> word && word != DIR_EMPTY)` of `readTree` over the
words left in the line. -/
def readChildren (prods : List (String × List String)) :
    Nat → List String → List String → Option (List Node × List String)
  | 0, _, _ => none
  | _ + 1, [], lines => some ([], lines)
  | fuel + 1, w :: ws, lines =>
      if w = ".EMPTY" then some ([], lines)
      else
        match readTree prods fuel lines with
        | none => none
        | some (child, lines1) =>
            match readChildren prods fuel ws lines1 with
            | none => none
            | some (more, lines2) =>
                match child with
                | some c => some (c :: more, lines2)
                | none => some (more, lines2)

end

mutual

/-- The method `printTree(out, node)`: the lines written to `out`. -/
def printTree : Node → List String
  | .mk _ seq type children =>
      (seq ++ (if type = TYPE_NONE then "" else " : " ++ type)) :: printTreeList children

/-- The loop `for (Node *c : node->children) printTree(out, c)`. -/
def printTreeList : List Node → List String
  | [] => []
  | c :: cs => printTree c ++ printTreeList cs

end

end WLP4ParseTree

end WLP4

/-! ## Specification vocabulary: configurations of the parser -/

namespace WLP4

namespace WLP4Parser

/-- The relation `Config T input k nodeStack stateStack`: the parser can be at
the token of index `k` of its input (index `0` is the first token, `BOF` in an
augmented input) with these stacks, after its first token and then reductions
and shifts as the tables allow. -/
inductive Config (T : Tables) (input : List Token) :
    Nat → List Node → List (Option Nat) → Prop where
  | init (a0 : Token) (rest : List Token) : input = a0 :: rest →
      Config T input 1 [Node.leaf a0] [transition T 0 a0.kind]
  | reduce (k : Nat) (ns : List Node) (ss : List (Option Nat)) (a : Token) (s : Nat)
      (ns1 : List Node) (ss1 : List (Option Nat)) :
      Config T input k ns ss → input[k]? = some a → ss.head? = some (some s) →
      hasReduction T s a.kind = true → reduce T ns ss a = .ok (ns1, ss1) →
      Config T input k ns1 ss1
  | shift (k : Nat) (ns : List Node) (ss : List (Option Nat)) (a : Token) (s nxt : Nat) :
      Config T input k ns ss → input[k]? = some a → ss.head? = some (some s) →
      hasReduction T s a.kind = false → transition T s a.kind = some nxt →
      Config T input (k + 1) (Node.leaf a :: ns) (some nxt :: ss)

/-- The token of index `k` cannot be shifted: the parser can be at it in a state
that has no reduction and no transition for its kind. -/
def Stuck (T : Tables) (input : List Token) (k : Nat) : Prop :=
  ∃ ns ss a s, Config T input k ns ss ∧ input[k]? = some a ∧ ss.head? = some (some s) ∧
    hasReduction T s a.kind = false ∧ transition T s a.kind = none

/-- A fragment of the parser tables, which the sources keep in wlp4data.h
(`WLP4_COMBINED`, a header that is not among the source files): the productions of WLP4
and, of the transitions, the one of the start state on `BOF` (the number of the
state it leads to is chosen here).  In the tables of the grammar the state after
`BOF` has its items before `INT` and before `procedures` only, so it has no
action on `ID`. -/
def tinyTables : Tables :=
  { prods := productions, trans := [((0, "BOF"), 1)], reductions := [] }

/-- A second fragment of the parser tables: rule 0 is
`start → BOF procedures EOF`, so in the tables of the grammar the start state
moves on `BOF`, the state reached moves on `procedures` and the next one on
`EOF` (the numbers of the states are chosen here).  The final reduction needs no
entry: `M[a.kind]` is 0 for `.ACCEPT`. -/
def gotoTables : Tables :=
  { prods := productions,
    trans := [((0, "BOF"), 1), ((1, "procedures"), 2), ((2, "EOF"), 3)],
    reductions := [] }

end WLP4Parser

end WLP4

/-! ## Specification vocabulary: the listing of a parse tree -/

namespace WLP4

namespace WLP4Parser

/-- A word as `iss >> word` reads it: not empty and without whitespace. -/
def isWord (w : String) : Bool :=
  !w.data.isEmpty && w.data.all (fun c => !WLP4ParseTree.isspace c)

/-- Every symbol of the grammar is a word, and no symbol of a rule is `.EMPTY`
(the constructors drop that word when they read the rules). -/
def cleanGrammar (prods : List (String × List String)) : Bool :=
  prods.all (fun p => isWord p.1 && p.2.all (fun r => isWord r && r != ".EMPTY"))

/-- A token as `parse` reads it from the scanner's output: kind and lexeme are
words, and the kind is a terminal of the grammar. -/
def cleanToken (prods : List (String × List String)) (tok : Token) : Bool :=
  isWord tok.kind && isWord tok.lexeme && !WLP4ParseTree.isNonTerminal prods tok.kind

mutual

/-- Every interior node has a production of the grammar and one child per symbol
of its rule, and every leaf holds a clean token. -/
def wellFormed (T : Tables) : Node → Bool
  | .leaf tok => cleanToken T.prods tok
  | .node prod children =>
      match T.prods[prod]? with
      | some (_, rhs) => children.length == rhs.length && wellFormedList T children
      | none => false

/-- Every node of the list is well formed. -/
def wellFormedList (T : Tables) : List Node → Bool
  | [] => true
  | c :: cs => wellFormed T c && wellFormedList T cs

end

mutual

/-- The tree of the type checker with the shape of a parser tree: at a leaf the
kind of the token and the line `kind lexeme`, at an interior node the left-hand
side of its production and the line of the rule, and no type tag anywhere. -/
def toNode (T : Tables) : Node → WLP4.Node
  | .leaf tok => WLP4.Node.mk tok.kind (tok.kind ++ " " ++ tok.lexeme) TYPE_NONE []
  | .node prod children =>
      match T.prods[prod]? with
      | some (nt, rhs) => WLP4.Node.mk nt (ruleLine nt rhs) TYPE_NONE (toNodeList T children)
      | none => WLP4.Node.mk "" "" TYPE_NONE (toNodeList T children)

/-- The trees of a list of parser trees. -/
def toNodeList (T : Tables) : List Node → List WLP4.Node
  | [] => []
  | c :: cs => toNode T c :: toNodeList T cs

end

mutual

/-- A budget that lets `readTree` read the listing of a parser tree. -/
def readCost : Node → Nat
  | .leaf _ => 1
  | .node _ children => readCostList children + 1

/-- A budget that lets `readChildren` read the listings of a list of trees. -/
def readCostList : List Node → Nat
  | [] => 1
  | c :: cs => max (readCost c) (readCostList cs) + 1

end

end WLP4Parser

end WLP4

namespace WLP4

namespace WLP4Parser

/-- The parser tree of `int wain(int a, int b) { return a; }`; the numbers are
the positions of the productions in the grammar. -/
def exampleParse : Node :=
  .node 0
    [.leaf ⟨"BOF", "BOF"⟩,
     .node 2
       [.node 4
          [.leaf ⟨"INT", "int"⟩, .leaf ⟨"WAIN", "wain"⟩, .leaf ⟨"LPAREN", "("⟩,
           .node 14 [.node 9 [.leaf ⟨"INT", "int"⟩], .leaf ⟨"ID", "a"⟩],
           .leaf ⟨"COMMA", ","⟩,
           .node 14 [.node 9 [.leaf ⟨"INT", "int"⟩], .leaf ⟨"ID", "b"⟩],
           .leaf ⟨"RPAREN", ")"⟩, .leaf ⟨"LBRACE", "\x7b"⟩,
           .node 11 [], .node 15 [],
           .leaf ⟨"RETURN", "return"⟩,
           .node 28 [.node 31 [.node 35 [.leaf ⟨"ID", "a"⟩]]],
           .leaf ⟨"SEMI", ";"⟩, .leaf ⟨"RBRACE", "\x7d"⟩]],
     .leaf ⟨"EOF", "EOF"⟩]

/-- The listing of `exampleParse`. -/
def exampleListing : List String :=
  ["start BOF procedures EOF", "BOF BOF", "procedures main",
   "main INT WAIN LPAREN dcl COMMA dcl RPAREN LBRACE dcls statements RETURN expr SEMI RBRACE",
   "INT int", "WAIN wain", "LPAREN (", "dcl type ID", "type INT", "INT int", "ID a",
   "COMMA ,", "dcl type ID", "type INT", "INT int", "ID b", "RPAREN )", "LBRACE \x7b",
   "dcls .EMPTY", "statements .EMPTY", "RETURN return", "expr term", "term factor",
   "factor ID", "ID a", "SEMI ;", "RBRACE \x7d", "EOF EOF"]

end WLP4Parser

end WLP4

/-! ## Specification vocabulary: small trees for the checks of the type checker -/

namespace WLP4

namespace WLP4ParseTree

/-- The result `x` is the result `y`, unless the budget ran out in `x`. -/
def FuelLe {α : Type} (x y : Except Abort α) : Prop := x = .error .fuel ∨ x = y

/-- The type of the expression `e` in procedure `cur`: the tag `annotate_expr`
gives it, run with the budget that is always enough. -/
def exprType (ptable : ProcTable) (cur : String) (e : Node) : Except Abort String :=
  (annotate_expr (height e) ptable cur e).map Node.type

/-- The argument expressions of an `arglist` node, first to last:
`arglist → expr` and `arglist → expr COMMA arglist`. -/
inductive ArgList : Node → List Node → Prop
  | one (n e : Node) : n.children = [e] → ArgList n [e]
  | more (n e comma rest : Node) (es : List Node) :
      n.children = [e, comma, rest] → ArgList rest es → ArgList n (e :: es)

/-- The parse tree of the expression that is the identifier `name`. -/
def exprId (name : String) : Node :=
  rule "expr" "term" "" [rule "term" "factor" "" [rule "factor" "ID" "" [tok "ID" name ""]]]

/-- The tree of the expression `name` as annotated where `name` has type `ty`. -/
def exprIdTyped (name ty : String) : Node :=
  rule "expr" "term" ty [rule "term" "factor" ty [rule "factor" "ID" ty [tok "ID" name ty]]]

/-- The parse tree of the test `x < y`. -/
def exampleTest (x y : String) : Node :=
  rule "test" "expr LT expr" "" [exprId x, tok "LT" "<" "", exprId y]

/-- The parse tree of the assignment `x = y;`. -/
def exampleAssign (x y : String) : Node :=
  rule "statement" "lvalue BECOMES expr SEMI" ""
    [rule "lvalue" "ID" "" [tok "ID" x ""], tok "BECOMES" "=" "", exprId y, tok "SEMI" ";" ""]

/-- A procedure table where `wain` has the variables `a : int*`, `b : int` and
`c : int`. -/
def exampleVars : ProcTable :=
  [("wain", { id := "wain", signature := [],
              symTable := [("a", "int*"), ("b", "int"), ("c", "int")] })]

/-- The table `pt1` has the procedures of `pt`, and the entry of `cur` has kept
its name. -/
def Keeps (pt pt1 : ProcTable) (cur : String) : Prop :=
  (∀ q, pt1.count q = pt.count q) ∧ (pt1.get cur).id = (pt.get cur).id

/-- The table `pt2` is `ptable` with the new procedure `p` entered under its own
name: `p` was not in `ptable`, and the procedures of `pt2` are `p` and those of
`ptable`. -/
def Entered (ptable pt2 : ProcTable) (p : String) : Prop :=
  ptable.count p = 0 ∧ (pt2.get p).id = p ∧
    ∀ q, pt2.count q ≠ 0 ↔ (q = p ∨ ptable.count q ≠ 0)

/-- The first part of `annotate_proc`, up to the call of `annotate_dcls`: the
name of the procedure is entered in the table, then its parameters and
declarations are recorded.  The result is the node so far, the table, and the
position `i` of the `dcls` child. -/
def procDeclPhase (fuel : Nat) (ptable : ProcTable) (node : Node) :
    Except Abort (Node × ProcTable × Nat) := do
  let isMain : Bool := node.kind = "main"
  let procID := secondWord (← child node 1).seq
  if ptable.count procID > 0 then
    throwTypeError ("Procedure " ++ procID ++ "is already declared.")
  else
    let ptable0 := ptable.set procID (ProcData.new procID)
    let (node1, ptable1, i) ←
      (if isMain then do
        let (dcl1, _, pt1) ← annotate_dcl ptable0 procID (← child node 3) none
        let (dcl2, _, pt2) ← annotate_dcl pt1 procID (← child node 5) none
        if (← dclType dcl2) ≠ TYPE_INT then
          throwTypeError "The second parameter of wain is not int type."
        else return ((node.setChild 3 dcl1).setChild 5 dcl2, pt2, 8)
      else do
        let (params, pt1) ← annotate_params fuel ptable0 procID (← child node 3)
        return (node.setChild 3 params, pt1, 6) : Except Abort (Node × ProcTable × Nat))
    let (dcls, ptable2) ← annotate_dcls fuel ptable1 procID (← child node i)
    return (node1.setChild i dcls, ptable2, i)

/-- The rest of `annotate_proc`: the statements and the return expression of the
procedure named `procID` are checked under the table `ptable2` that the first
part has built. -/
def procBodyPhase (fuel : Nat) (node : Node) (procID : String)
    (r : Node × ProcTable × Nat) : Except Abort (Node × ProcTable) := do
  let (node2, ptable2, i) := r
  let stmts ← annotate_stmts fuel ptable2 procID (← child node (i + 1))
  let expr ← annotate_expr fuel ptable2 procID (← child node (i + 3))
  if expr.type ≠ TYPE_INT then
    throwTypeError ("The return expression of [" ++ procID ++ "] is not int type.")
  else
    return ((node2.setChild (i + 1) stmts).setChild (i + 3) expr, ptable2)

/-- The `arglist` node of the argument expressions `es`. -/
def argsNode : List Node → Node
  | [] => rule "arglist" "expr" "" []
  | [e] => rule "arglist" "expr" "" [e]
  | e :: es => rule "arglist" "expr COMMA arglist" "" [e, tok "COMMA" "," "", argsNode es]

/-- The parse tree of the call `name(es)`. -/
def callNode (name : String) : List Node → Node
  | [] => rule "factor" "ID LPAREN RPAREN" ""
      [tok "ID" name "", tok "LPAREN" "(" "", tok "RPAREN" ")" ""]
  | e :: es => rule "factor" "ID LPAREN arglist RPAREN" ""
      [tok "ID" name "", tok "LPAREN" "(" "", argsNode (e :: es), tok "RPAREN" ")" ""]

/-- A declaration with initialiser as `annotate_dcl` sees it: the name, the
declared type and the kind of the initialiser token. -/
structure Decl where
  name : String
  type : String
  init : String
  deriving DecidableEq, Repr

/-- The declarations of a `dcls` node, in the order of the source:
`dcls → .EMPTY`, and `dcls → dcls dcl BECOMES NUM SEMI` or
`dcls → dcls dcl BECOMES NULL SEMI` with `dcl → type ID`. -/
inductive DclList : Node → List Decl → Prop
  | none (n : Node) : n.children = [] → DclList n []
  | snoc (n sub dcl becomes rv semi ty idn : Node) (ds : List Decl) :
      n.children = [sub, dcl, becomes, rv, semi] → dcl.children = [ty, idn] →
      DclList sub ds →
      DclList n (ds ++ [⟨secondWord idn.seq,
        if ty.children.length = 1 then TYPE_INT else TYPE_INT_PTR, rv.kind⟩])

/-- The initialiser of the declaration matches its type: `NUM` for int, `NULL`
for int*. -/
def initOK (d : Decl) : Prop :=
  (d.init = "NUM" ∧ d.type = TYPE_INT) ∨ (d.init = "NULL" ∧ d.type = TYPE_INT_PTR)

instance (d : Decl) : Decidable (initOK d) := by
  unfold initOK
  exact inferInstance

/-- The declarations pass the checks of `annotate_dcls` under the symbol table
`table`: the names are pairwise distinct, none is in the table yet, and every
initialiser matches its type. -/
def DeclsOK (table : ProcData) (ds : List Decl) : Prop :=
  (ds.map Decl.name).Nodup ∧ (∀ d ∈ ds, table.count d.name = 0) ∧ ∀ d ∈ ds, initOK d

/-- The parse tree of the declaration `ty name`, `ty` being `int` when `ptr` is
false and `int*` otherwise. -/
def dclNode (ptr : Bool) (name : String) : Node :=
  rule "dcl" "type ID" ""
    [if ptr then rule "type" "INT STAR" "" [tok "INT" "int" "", tok "STAR" "*" ""]
     else rule "type" "INT" "" [tok "INT" "int" ""],
     tok "ID" name ""]

/-- The `dcls` node of `sub` followed by the declaration `dcl = init;`. -/
def dclsNode (sub dcl init : Node) : Node :=
  rule "dcls" ("dcls dcl BECOMES " ++ init.kind ++ " SEMI") ""
    [sub, dcl, tok "BECOMES" "=" "", init, tok "SEMI" ";" ""]

/-- The empty `dcls` node. -/
def dclsEmpty : Node := rule "dcls" ".EMPTY" "" []

/-- The `dcls` node of `int x = 0; int* y = NULL;`. -/
def exampleDcls : Node :=
  dclsNode (dclsNode dclsEmpty (dclNode false "x") (tok "NUM" "0" ""))
    (dclNode true "y") (tok "NULL" "NULL" "")

/-- The parse tree of an expression that is the factor `fac`. -/
def exprOf (fac : Node) : Node :=
  rule "expr" "term" "" [rule "term" "factor" "" [fac]]

/-- The parse tree of the procedure `int name(int param) { return ret; }`. -/
def procNode (name param : String) (ret : Node) : Node :=
  rule "procedure"
    "INT ID LPAREN params RPAREN LBRACE dcls statements RETURN expr SEMI RBRACE" ""
    [tok "INT" "int" "", tok "ID" name "", tok "LPAREN" "(" "",
     rule "params" "paramlist" ""
       [rule "paramlist" "dcl" ""
          [rule "dcl" "type ID" "" [rule "type" "INT" "" [tok "INT" "int" ""], tok "ID" param ""]]],
     tok "RPAREN" ")" "", tok "LBRACE" "\x7b" "",
     rule "dcls" ".EMPTY" "" [], rule "statements" ".EMPTY" "" [],
     tok "RETURN" "return" "", ret, tok "SEMI" ";" "", tok "RBRACE" "\x7d" ""]

/-- A procedure table with `int f(int x, int* y)`, `int g()` and, being checked,
`wain` with the variables `a : int*`, `b : int` and `c : int`. -/
def exampleProcs : ProcTable :=
  [("f", { id := "f", signature := ["int", "int*"], symTable := [("x", "int"), ("y", "int*")] }),
   ("g", { id := "g", signature := [], symTable := [] }),
   ("wain", { id := "wain", signature := [],
              symTable := [("a", "int*"), ("b", "int"), ("c", "int")] })]

end WLP4ParseTree

end WLP4

/-! ## The stage drivers (the functions `main`) -/

namespace WLP4

namespace WLP4Scanner

/-- The text `scanAll` has written to `out`: one line `kind lexeme` for each
pair. -/
def outText (out : List (String × String)) : String :=
  String.join (out.map (fun p => p.1 ++ " " ++ p.2 ++ "\n"))

/-- The text `scanAll` has written to `err`: the message and a line end. -/
def errText : Status → String
  | .unaccepted msg => msg ++ "\n"
  | .outOfBounds msg => msg ++ "\n"
  | _ => ""

/-- The function `main` of wlp4scan.cc on the lines of the standard input: what
is written to the standard output and to the standard error, and the exit code.
The body is `scanner.scanAll();` with no `return`, so the exit code is 0. -/
def main (stdin : List String) : String × String × Nat :=
  let r := scanAll stdin
  (outText r.1, errText r.2, 0)

end WLP4Scanner

namespace WLP4Parser

/-- The text `slr1` writes to `err`. -/
def errText : Except ParseError (List String) → String
  | .error (.errorAt k) => "ERROR at " ++ toString k ++ "\n"
  | _ => ""

/-- The lines `slr1` writes to `out`. -/
def outLines : Except ParseError (List String) → List String
  | .ok lines => lines
  | .error _ => []

/-- The function `main` of wlp4parse.cc on the lines of the standard input: the
lines written to the standard output, the text written to the standard error,
and the exit code.  The body ends with `parser.parse(input);` and no `return`,
so the exit code is 0. -/
def main (T : Tables) (stdin : List String) (steps : Nat) : List String × String × Nat :=
  let input := stdin.foldl (fun acc str => acc ++ (str ++ "\n")) ""
  let r := parse T input steps
  (outLines r, errText r, 0)

end WLP4Parser

end WLP4

namespace Assembler

/-- The exception `ScanningFailure` of scanner.h (a header that is not among the
sources), which carries a message. -/
structure ScanningFailure where
  message : String
  deriving DecidableEq, Repr

/-- The conversion `(char) x` of an `int64_t`, as the byte written: the low
eight bits. -/
def charOf (x : Int) : Nat := (x % 256).toNat

/-- The output loop of the assembler driver: four characters for each word. -/
def outputBytes (binary : List Int) : List Nat :=
  binary.flatMap (fun inst =>
    [charOf (shr64 inst 24), charOf (shr64 inst 16), charOf (shr64 inst 8), charOf inst])

/-- The loop `while (getline(cin, line))` of the driver: every line is scanned,
and the lines with tokens make the program. -/
def readProgram (scan : String → Except ScanningFailure (List Token)) :
    List String → Except ScanningFailure (List (List Token))
  | [] => .ok []
  | line :: rest =>
      match scan line with
      | .error f => .error f
      | .ok tokLine =>
          match readProgram scan rest with
          | .error f => .error f
          | .ok program => .ok (if tokLine.isEmpty then program else tokLine :: program)

/-- A scanner for the examples: it knows the line `lw $3, -4($29)` and the
empty line, and fails on every other line. -/
def exampleScan (line : String) : Except ScanningFailure (List Token) :=
  if line = "lw $3, -4($29)" then
    .ok [⟨.ID, "lw"⟩, ⟨.REG, "$3"⟩, ⟨.COMMA, ","⟩, ⟨.INT, "-4"⟩, ⟨.LPAREN, "("⟩, ⟨.REG, "$29"⟩,
      ⟨.RPAREN, ")"⟩]
  else if line = "" then .ok []
  else .error ⟨"ERROR: unknown line"⟩

/-- The function `main` of asm.cc (without `PRINT_TOKENS`) on the lines of the
standard input: the bytes written to the standard output, the text written to
the standard error, and the exit code; `scan` and `toNumber` are the functions
of scanner.h. -/
def main (scan : String → Except ScanningFailure (List Token)) (toNumber : Token → Int)
    (stdin : List String) : List Nat × String × Nat :=
  match readProgram scan stdin with
  | .error f => ([], f.message ++ "\n", 1)
  | .ok program =>
      match assemble toNumber (Assembler.new program) with
      | .error e => ([], e.msg ++ "\n", 2)
      | .ok binary => (outputBytes binary, "", 0)

end Assembler

/-! ## Specification vocabulary: the fields of an instruction word -/

namespace Assembler

/-- What an instruction says: the opcode, the register numbers in the roles
`d`, `s` and `t` (0 where the instruction has no such operand) and the 16-bit
immediate field (0 where it has none). -/
structure Fields where
  op : Op
  d : Int
  s : Int
  t : Int
  imm : Int
  deriving DecidableEq, Repr

/-- The opcode of a word whose six high bits are zero, from its six low bits. -/
def functOp (funct : Nat) : Op :=
  if funct = 0x20 then .add
  else if funct = 0x22 then .sub
  else if funct = 0x2a then .slt
  else if funct = 0x2b then .sltu
  else if funct = 0x18 then .mult
  else if funct = 0x19 then .multu
  else if funct = 0x1a then .div
  else if funct = 0x1b then .divu
  else if funct = 0x10 then .mfhi
  else if funct = 0x12 then .mflo
  else if funct = 0x14 then .lis
  else if funct = 0x08 then .jr
  else if funct = 0x09 then .jalr
  else .invalid

/-- The opcode of a word from its six high bits, when they are not zero. -/
def topOp (top : Nat) : Op :=
  if top = 4 then .beq
  else if top = 5 then .bne
  else if top = 35 then .lw
  else if top = 43 then .sw
  else .invalid

/-- The decoding of a 32-bit word: the opcode from the six high bits, or from
the six low bits when those are zero, the registers from the bits 11-15 (`d`),
21-25 (`s`) and 16-20 (`t`), the immediate from the bits 0-15. -/
def decode (w : Int) : Fields :=
  let n := w.toNat
  if n / 2 ^ 26 = 0 then
    { op := functOp (n % 64), d := ((n / 2 ^ 11 % 32 : Nat) : Int),
      s := ((n / 2 ^ 21 % 32 : Nat) : Int), t := ((n / 2 ^ 16 % 32 : Nat) : Int), imm := 0 }
  else
    { op := topOp (n / 2 ^ 26), d := 0, s := ((n / 2 ^ 21 % 32 : Nat) : Int),
      t := ((n / 2 ^ 16 % 32 : Nat) : Int), imm := ((n % 2 ^ 16 : Nat) : Int) }

/-- The number of the register operand that the format places at bit `pos`, or
0 when the format has no such operand. -/
def regField (toNumber : Token → Int) : List (Token.Kind × Nat) → List Token → Nat → Int
  | (kind, offset) :: format, tok :: toks, pos =>
      if kind = .REG ∧ offset = pos then toNumber tok else regField toNumber format toks pos
  | _, _, _ => 0

/-- The immediate an operand token denotes in a 16-bit field: its number, or for
a label its address minus `pc`. -/
def immediateOf (toNumber : Token → Int) (self : Assembler) (tok : Token) : Int :=
  if tok.kind ≠ .ID then toNumber tok
  else sub64 (tableAt self.symbolTable (tok.lexeme ++ ":")) self.pc

/-- The immediate operand of the line modulo 2^16, or 0 when the format has
none. -/
def immField (toNumber : Token → Int) (self : Assembler) :
    List (Token.Kind × Nat) → List Token → Int
  | (kind, _) :: format, tok :: toks =>
      if kind = .INT then immediateOf toNumber self tok % 2 ^ 16
      else immField toNumber self format toks
  | _, _ => 0

/-- The opcode and operands of the instruction that starts at token `i` of the
line. -/
def lineFields (toNumber : Token → Int) (self : Assembler) (tokLine : List Token) (i : Nat) :
    Fields :=
  match tokLine[i]? with
  | none => { op := .invalid, d := 0, s := 0, t := 0, imm := 0 }
  | some tok =>
      let format := setupFormat (getOpType tok.lexeme)
      let toks := tokLine.drop (i + 1)
      { op := getOpType tok.lexeme, d := regField toNumber format toks 11,
        s := regField toNumber format toks 21, t := regField toNumber format toks 16,
        imm := immField toNumber self format toks }

end Assembler


namespace WLP4

namespace WLP4ParseTree

/-- The tree of the program `int wain(d1, d2) \x7b return ret; \x7d` before it is
annotated. -/
def programOfMain (d1 d2 ret : Node) : Node :=
  rule "start" "BOF procedures EOF" ""
    [tok "BOF" "BOF" "",
     rule "procedures" "main" ""
       [rule "main"
          "INT WAIN LPAREN dcl COMMA dcl RPAREN LBRACE dcls statements RETURN expr SEMI RBRACE" ""
          [tok "INT" "int" "", tok "WAIN" "wain" "", tok "LPAREN" "(" "", d1, tok "COMMA" "," "",
           d2, tok "RPAREN" ")" "", tok "LBRACE" "\x7b" "", rule "dcls" ".EMPTY" "" [],
           rule "statements" ".EMPTY" "" [], tok "RETURN" "return" "", ret, tok "SEMI" ";" "",
           tok "RBRACE" "\x7d" ""]],
     tok "EOF" "EOF" ""]

end WLP4ParseTree

end WLP4

/-! ## The code generator (wlp4gen.cc)

The class of wlp4gen.cc is again called `WLP4ParseTree`; its members are kept
here in the namespace `WLP4Gen`.  The tree nodes are those of the type checker.
The stream `out` is the list of the lines written; the members `stackReg` and
`stacked` and the function-static counters `ifC`, `whileC` and `deleteC` are the
fields of `Gen`. -/

namespace WLP4

namespace WLP4Gen

/-- Why a run of the generator yields no code: the source indexes a vector out
of its bounds or divides by zero (undefined behaviour), `std::stoi` throws, or
the recursion depth allowed to the model is used up. -/
inductive Fault where
  | undefined
  | exception
  | fuel
  deriving DecidableEq, Repr

/-- The constants `MIN_REG` and `MAX_REG` of wlp4data.h, the range of the
"stack registers"; the header is not among the sources. -/
structure Regs where
  MIN_REG : Int
  MAX_REG : Int
  deriving DecidableEq, Repr

/-- The struct `VarData`: the offset of a variable from `$29` and its type. -/
structure VarData where
  loc : Int
  type : String
  deriving DecidableEq, Repr

/-- The struct `ProcData` of the generator; `symTable` is the `std::map` from
variable names to `VarData`, kept as an association list in order of insertion. -/
structure ProcData where
  id : String
  symTable : List (String × VarData)
  deriving DecidableEq, Repr

namespace ProcData

/-- The constructor `ProcData(id)`. -/
def new (id : String) : ProcData := { id := id, symTable := [] }

/-- The read `table[varID]`; a missing name reads as `VarData()`, with `loc` 0.
(The source then also inserts that entry; the size of the table is not read any
more once code is generated for the body.) -/
def get (table : ProcData) (varID : String) : VarData :=
  (table.symTable.lookup varID).getD { loc := 0, type := "" }

/-- The call `table.symTable.emplace(id, data)`: no effect on a present name. -/
def emplace (table : ProcData) (id : String) (data : VarData) : ProcData :=
  if (table.symTable.lookup id).isSome then table
  else { table with symTable := table.symTable ++ [(id, data)] }

end ProcData

/-- The member `ptable` of the generator. -/
abbrev ProcTable := List (String × ProcData)

namespace ProcTable

/-- The read `ptable[procID]` (a missing name reads as `ProcData()`). -/
def get (ptable : ProcTable) (procID : String) : ProcData :=
  (ptable.lookup procID).getD (ProcData.new "")

/-- The assignment `ptable[procID] = data`. -/
def set (ptable : ProcTable) (procID : String) (data : ProcData) : ProcTable :=
  if (ptable.lookup procID).isSome then
    ptable.map (fun p => if p.1 = procID then (p.1, data) else p)
  else ptable ++ [(procID, data)]

end ProcTable

/-- The access `node->children[i]`. -/
def child (node : Node) (i : Nat) : Except Fault Node :=
  match node.children[i]? with
  | some c => .ok c
  | none => .error .undefined

/-- The method `initsymtable(node, table)` on a `dcl` node. -/
def initsymtable (node : Node) (table : ProcData) : Except Fault ProcData := do
  let i : Int := table.symTable.length
  let idNode ← child node 1
  return table.emplace (WLP4ParseTree.secondWord idNode.seq)
    { loc := -4 * i, type := idNode.type }

/-- The method `initsymtable_params(node, table)`. -/
def initsymtable_params : Nat → Node → ProcData → Except Fault ProcData
  | 0, _, _ => .error .fuel
  | fuel + 1, node, table => do
      if node.kind = "params" then
        if node.children.length > 0 then
          initsymtable_params fuel (← child node 0) table
        else return table
      else
        let table1 ← initsymtable (← child node 0) table
        if node.children.length > 1 then
          initsymtable_params fuel (← child node 2) table1
        else return table1

/-- The method `initsymtable_dcls(node, table)`. -/
def initsymtable_dcls : Nat → Node → ProcData → Except Fault ProcData
  | 0, _, _ => .error .fuel
  | fuel + 1, node, table => do
      if node.children.length > 0 then
        let table1 ← initsymtable_dcls fuel (← child node 0) table
        initsymtable (← child node 1) table1
      else return table

/-- The method `initptable(node)` on a node that is not `nullptr`. -/
def initptable : Nat → Node → ProcTable → Except Fault ProcTable
  | 0, _, _ => .error .fuel
  | fuel + 1, node, ptable => do
      if node.kind = "start" then
        initptable fuel (← child node 1) ptable
      else if node.kind = "procedures" then
        let ptable1 ← initptable fuel (← child node 0) ptable
        if node.children.length > 1 then
          initptable fuel (← child node 1) ptable1
        else return ptable1
      else
        let procID := WLP4ParseTree.secondWord (← child node 1).seq
        let table := ProcData.new procID
        if procID = "wain" then
          let table1 ← initsymtable (← child node 3) table
          let table2 ← initsymtable (← child node 5) table1
          let table3 ← initsymtable_dcls fuel (← child node 8) table2
          return ptable.set procID table3
        else
          let table1 ← initsymtable_params fuel (← child node 3) table
          let table2 ← initsymtable_dcls fuel (← child node 6) table1
          return ptable.set procID table2

/-- The state of a run of the generator: the lines written to `out`, the members
`stackReg` and `stacked`, and the static counters of `generate_stmt`. -/
structure Gen where
  out : List String
  stackReg : Int
  stacked : Int
  ifC : Nat
  whileC : Nat
  deleteC : Nat
  deriving DecidableEq, Repr

/-- One line written to `out` (the text before `std::endl`). -/
def Gen.emit (g : Gen) (line : String) : Gen := { g with out := g.out ++ [line] }

/-- An assignment to the member `stackReg`. -/
def Gen.setStackReg (g : Gen) (v : Int) : Gen := { g with stackReg := v }

/-- An assignment to the member `stacked`. -/
def Gen.setStacked (g : Gen) (v : Int) : Gen := { g with stacked := v }

/-- An assignment to the static counter `ifC`. -/
def Gen.setIfC (g : Gen) (v : Nat) : Gen := { g with ifC := v }

/-- An assignment to the static counter `whileC`. -/
def Gen.setWhileC (g : Gen) (v : Nat) : Gen := { g with whileC := v }

/-- An assignment to the static counter `deleteC`. -/
def Gen.setDeleteC (g : Gen) (v : Nat) : Gen := { g with deleteC := v }

/-- The method `push(out, r)`. -/
def push (g : Gen) (r : Int) : Gen :=
  (g.emit ("\t\tsw $" ++ toString r ++ ", -4($30)")).emit "\t\tsub $30, $30, $4"

/-- The method `pop(out, r)`. -/
def pop (g : Gen) (r : Int) : Gen :=
  (g.emit "\t\tadd $30, $30, $4").emit ("\t\tlw $" ++ toString r ++ ", -4($30)")

/-- Reduction of an integer to the range of `int` (32 bits, two's complement);
the source computes on `int`, where overflow is undefined and wraps in practice. -/
def wrap32 (v : Int) : Int := (v + 2 ^ 31) % 2 ^ 32 - 2 ^ 31

/-- The extraction `iss >> x` of an `int` from a word of decimal digits, as the
lexemes of `NUM` tokens are: the value, or the largest `int` when the value does
not fit; any other word is read as 0. -/
def readInt (w : String) : Int :=
  if w.data ≠ [] ∧ w.data.all Char.isDigit then
    min (WLP4Scanner.numeralValue w.data : Int) (2 ^ 31 - 1)
  else 0

/-- The value `x` after `std::istringstream(seq) >> str >> x`. -/
def intOfSeq (seq : String) : Int :=
  match WLP4ParseTree.words seq with
  | _ :: w :: _ => readInt w
  | _ => 0

/-- The call `std::stoi(str)` on a word of decimal digits: the value, or the
exception `std::out_of_range`; any other word is taken as `std::invalid_argument`. -/
def stoi (str : String) : Except Fault Int :=
  if str.data ≠ [] ∧ str.data.all Char.isDigit then
    if WLP4Scanner.numeralValue str.data ≤ 2 ^ 31 - 1 then
      .ok (WLP4Scanner.numeralValue str.data : Int)
    else .error .exception
  else .error .exception

/-- The method `generate_token(out, node, table)`: the register that holds the
value, and the state after. -/
def generate_token (table : ProcData) (node : Node) (g : Gen) : Except Fault (Int × Gen) := do
  let str := WLP4ParseTree.secondWord node.seq
  if node.kind = "NULL" then return (11, g)
  else if node.kind = "ID" then
    return (3, g.emit ("\t\tlw $3, " ++ toString (table.get str).loc ++ "($29)"))
  else
    let val ← stoi str
    if val = 1 then return (11, g)
    else if val = 0 ∨ val = 4 then return (val, g)
    else return (3, (g.emit "\t\tlis $3").emit ("\t\t.word " ++ toString val))

/-- The loop `while (lvalueNode->children.size() > 2) lvalueNode =
lvalueNode->children[1]` that removes the parentheses around an lvalue. -/
def stripParens : Nat → Node → Except Fault Node
  | 0, _ => .error .fuel
  | fuel + 1, lvalueNode =>
      if lvalueNode.children.length > 2 then do
        stripParens fuel (← child lvalueNode 1)
      else .ok lvalueNode

/-- The loop `for (int sr = MIN_REG; sr < stackReg; ++sr, ++pushC)` of the call
case, which writes one line `op $sr, -4*pushC($30)` per active stack register:
the state and `pushC` after it.  The first argument is the number of iterations
left, `stackReg - sr` when that is not negative. -/
def regLoop (op : String) : Nat → Int → Int → Gen → Gen × Int
  | 0, _, pushC, g => (g, pushC)
  | n + 1, sr, pushC, g =>
      regLoop op n (sr + 1) (pushC + 1)
        (g.emit ("\t\t" ++ op ++ " $" ++ toString sr ++ ", -" ++ toString (4 * pushC) ++ "($30)"))

mutual

/-- The method `generate_stmts(out, node, table)`. -/
def generate_stmts : Nat → Regs → ProcData → Node → Gen → Except Fault Gen
  | 0, _, _, _, _ => .error .fuel
  | fuel + 1, R, table, node, g => do
      if node.children.length > 0 then
        let g1 ← generate_stmts fuel R table (← child node 0) g
        generate_stmt fuel R table (← child node 1) g1
      else return g

/-- The method `generate_stmt(out, node, table)`. -/
def generate_stmt : Nat → Regs → ProcData → Node → Gen → Except Fault Gen
  | 0, _, _, _, _ => .error .fuel
  | fuel + 1, R, table, node, g => do
      let g0 := (g.emit "").emit ("\t\t;; " ++ node.seq)
      let c0 ← child node 0
      if c0.kind = "PRINTLN" then
        let (r, g1) ← generate_expr fuel R table (← child node 2) g0
        let g2 := g1.emit ("\t\tadd $1, $" ++ toString r ++ ", $0")
        let g3 := push g2 31
        let g4 := ((g3.emit "\t\tlis $5").emit "\t\t.word print").emit "\t\tjalr $5"
        return pop g4 31
      else if c0.kind = "IF" then
        let LABEL := table.id ++ toString g0.ifC ++ "IFELSE"
        let g1 := g0.setIfC (g0.ifC + 1)
        let g2 ← generate_test fuel R table (← child node 2) g1
        let g3 := g2.emit ("\t\tbeq $3, $0, " ++ LABEL ++ "FALSE")
        let g4 ← generate_stmts fuel R table (← child node 5) g3
        let g5 := g4.emit ("\t\tbeq $0, $0, " ++ LABEL ++ "TRUE")
        let g6 := g5.emit (LABEL ++ "FALSE:")
        let g7 ← generate_stmts fuel R table (← child node 9) g6
        return g7.emit (LABEL ++ "TRUE:")
      else if c0.kind = "WHILE" then
        let LABEL := table.id ++ toString g0.whileC ++ "WHILE"
        let g1 := g0.setWhileC (g0.whileC + 1)
        let g2 := g1.emit (LABEL ++ "BODY:")
        let g3 ← generate_test fuel R table (← child node 2) g2
        let g4 := g3.emit ("\t\tbeq $3, $0, " ++ LABEL ++ "END")
        let g5 ← generate_stmts fuel R table (← child node 5) g4
        let g6 := g5.emit ("\t\tbeq $0, $0, " ++ LABEL ++ "BODY")
        return g6.emit (LABEL ++ "END:")
      else if c0.kind = "DELETE" then
        let LABEL := table.id ++ toString g0.deleteC ++ "DELETE"
        let g1 := g0.setDeleteC (g0.deleteC + 1)
        let (r, g2) ← generate_expr fuel R table (← child node 3) g1
        let g3 := g2.emit ("\t\tbeq $" ++ toString r ++ ", $11, " ++ LABEL)
        let g4 := g3.emit ("\t\tadd $1, $" ++ toString r ++ ", $0")
        let g5 := push g4 31
        let g6 := ((g5.emit "\t\tlis $5").emit "\t\t.word delete").emit "\t\tjalr $5"
        let g7 := pop g6 31
        return g7.emit (LABEL ++ ":")
      else
        let (r, g1) ← generate_expr fuel R table (← child node 2) g0
        let lvalueNode ← stripParens fuel c0
        if lvalueNode.children.length = 1 then
          let id := WLP4ParseTree.secondWord (← child lvalueNode 0).seq
          let offset := (table.get id).loc
          return g1.emit ("\t\tsw $" ++ toString r ++ ", " ++ toString offset ++ "($29)")
        else
          let g2 := push g1 r
          let (r2, g3) ← generate_factor fuel R table (← child lvalueNode 1) g2
          let g4 := pop g3 5
          return g4.emit ("\t\tsw $5, 0($" ++ toString r2 ++ ")")

/-- The method `generate_test(out, node, table)`. -/
def generate_test : Nat → Regs → ProcData → Node → Gen → Except Fault Gen
  | 0, _, _, _, _ => .error .fuel
  | fuel + 1, R, table, node, g => do
      let kind := (← child node 1).kind
      let c0 ← child node 0
      let op := if c0.type = TYPE_INT_PTR then "sltu" else "slt"
      let (r0, g1) ← generate_expr fuel R table c0 g
      let g2 := push g1 r0
      let (r, g3) ← generate_expr fuel R table (← child node 2) g2
      let g4 := pop g3 5
      let g5 :=
        if kind = "LT" ∨ kind = "GE" then
          g4.emit ("\t\t" ++ op ++ " $3, $5, $" ++ toString r)
        else if kind = "GT" ∨ kind = "LE" then
          g4.emit ("\t\t" ++ op ++ " $3, $" ++ toString r ++ ", $5")
        else
          ((g4.emit ("\t\t" ++ op ++ " $6, $5, $" ++ toString r)).emit
            ("\t\t" ++ op ++ " $7, $" ++ toString r ++ ", $5")).emit "\t\tadd $3, $6, $7"
      if kind = "GE" ∨ kind = "LE" ∨ kind = "EQ" then
        return g5.emit "\t\tsub $3, $11, $3"
      else return g5

/-- The method `generate_expr(out, node, table)`: the register that holds the
value, and the state after.  A branch of the source that sets both a register
variable and the output is written as two definitions under the same condition. -/
def generate_expr : Nat → Regs → ProcData → Node → Gen → Except Fault (Int × Gen)
  | 0, _, _, _, _ => .error .fuel
  | fuel + 1, R, table, node, g => do
      if node.children.length = 1 then
        generate_term fuel R table (← child node 0) g
      else
        let left ← child (← child (← child (← child node 0) 0) 0) 0
        let right ← child (← child (← child node 2) 0) 0
        if left.kind = "NUM" ∧ right.kind = "NUM" then
          let x := intOfSeq left.seq
          let y := intOfSeq right.seq
          let x1 := if (← child node 1).kind = "PLUS" then wrap32 (x + y) else wrap32 (x - y)
          return (3, (g.emit "\t\tlis $3").emit ("\t\t.word " ++ toString x1))
        else
          let isPlus : Bool := (← child node 1).kind = "PLUS"
          let c0 ← child node 0
          let c2 ← child node 2
          let ptrArith : Bool := if isPlus then c0.type ≠ c2.type else c0.type = TYPE_INT_PTR
          let op := if isPlus then "add" else "sub"
          let (r0, g1) ← generate_expr fuel R table c0 g
          let g2 :=
            if ptrArith ∧ c0.type = TYPE_INT then
              (g1.emit ("\t\tmult $" ++ toString r0 ++ ", $4")).emit "\t\tmflo $3"
            else g1
          let r1 := if ptrArith ∧ c0.type = TYPE_INT then 3 else r0
          let q := if g2.stackReg ≤ R.MAX_REG then g2.stackReg else 5
          let g3 :=
            if g2.stackReg ≤ R.MAX_REG then
              (g2.emit ("\t\tadd $" ++ toString g2.stackReg ++ ", $" ++ toString r1 ++
                ", $0")).setStackReg (g2.stackReg + 1)
            else (push g2 r1).setStacked (g2.stacked + 1)
          let (r2, g4) ← generate_term fuel R table c2 g3
          let g5 :=
            if ptrArith ∧ c2.type = TYPE_INT then
              (g4.emit ("\t\tmult $" ++ toString r2 ++ ", $4")).emit "\t\tmflo $3"
            else g4
          let r := if ptrArith ∧ c2.type = TYPE_INT then 3 else r2
          let g6 := if q = 5 then (pop g5 5).setStacked (g5.stacked - 1) else g5
          let g7 := g6.emit ("\t\t" ++ op ++ " $3, $" ++ toString q ++ ", $" ++ toString r)
          let g8 :=
            if ptrArith ∧ c0.type = c2.type then (g7.emit "\t\tdiv $3, $4").emit "\t\tmflo $3"
            else g7
          let g9 := if q ≠ 5 then g8.setStackReg (g8.stackReg - 1) else g8
          return (3, g9)

/-- The method `generate_term(out, node, table)`. -/
def generate_term : Nat → Regs → ProcData → Node → Gen → Except Fault (Int × Gen)
  | 0, _, _, _, _ => .error .fuel
  | fuel + 1, R, table, node, g => do
      if node.children.length = 1 then
        generate_factor fuel R table (← child node 0) g
      else
        let left ← child (← child (← child node 0) 0) 0
        let right ← child (← child node 2) 0
        if left.kind = "NUM" ∧ right.kind = "NUM" then
          let x := intOfSeq left.seq
          let y := intOfSeq right.seq
          let opKind := (← child node 1).kind
          if opKind ≠ "STAR" ∧ y = 0 then .error .undefined
          else
            let x1 :=
              if opKind = "STAR" then wrap32 (x * y)
              else if opKind = "SLASH" then wrap32 (Int.tdiv x y) else wrap32 (Int.tmod x y)
            return (3, (g.emit "\t\tlis $3").emit ("\t\t.word " ++ toString x1))
        else
          let opKind := (← child node 1).kind
          let op := if opKind = "STAR" then "mult" else "div"
          let mf := if opKind = "PCT" then "mfhi" else "mflo"
          let (r0, g1) ← generate_term fuel R table (← child node 0) g
          let q := if g1.stackReg ≤ R.MAX_REG then g1.stackReg else 5
          let g2 :=
            if g1.stackReg ≤ R.MAX_REG then
              (g1.emit ("\t\tadd $" ++ toString g1.stackReg ++ ", $" ++ toString r0 ++
                ", $0")).setStackReg (g1.stackReg + 1)
            else (push g1 r0).setStacked (g1.stacked + 1)
          let (r, g3) ← generate_factor fuel R table (← child node 2) g2
          let g4 := if q = 5 then (pop g3 5).setStacked (g3.stacked - 1) else g3
          let g5 := (g4.emit ("\t\t" ++ op ++ " $" ++ toString q ++ ", $" ++ toString r)).emit
            ("\t\t" ++ mf ++ " $3")
          let g6 := if q ≠ 5 then g5.setStackReg (g5.stackReg - 1) else g5
          return (3, g6)

/-- The method `generate_factor(out, node, table)`. -/
def generate_factor : Nat → Regs → ProcData → Node → Gen → Except Fault (Int × Gen)
  | 0, _, _, _, _ => .error .fuel
  | fuel + 1, R, table, node, g => do
      if node.children.length = 1 then
        generate_token table (← child node 0) g
      else
        let c0 ← child node 0
        if c0.kind = "LPAREN" then
          generate_expr fuel R table (← child node 1) g
        else if c0.kind = "AMP" then
          let lvalueNode ← stripParens fuel (← child node 1)
          let l0 ← child lvalueNode 0
          if l0.kind = "STAR" then
            generate_factor fuel R table (← child lvalueNode 1) g
          else
            let offset := (table.get (WLP4ParseTree.secondWord l0.seq)).loc
            if offset = 0 then return (29, g)
            else if offset = -4 then return (3, g.emit "\t\tsub $3, $29, $4")
            else
              return (3, ((g.emit "\t\tlis $3").emit ("\t\t.word " ++ toString offset)).emit
                "\t\tadd $3, $29, $3")
        else if c0.kind = "STAR" then
          let (r, g1) ← generate_factor fuel R table (← child node 1) g
          return (3, g1.emit ("\t\tlw $3, 0($" ++ toString r ++ ")"))
        else if c0.kind = "NEW" then
          let (r, g1) ← generate_expr fuel R table (← child node 3) g
          let g2 := g1.emit ("\t\tadd $1, $" ++ toString r ++ ", $0")
          let g3 := push g2 31
          let g4 := ((g3.emit "\t\tlis $5").emit "\t\t.word new").emit "\t\tjalr $5"
          let g5 := pop g4 31
          return (3, (g5.emit "\t\tbne $3, $0, 1").emit "\t\tadd $3, $11, $0")
        else
          let procID := WLP4ParseTree.secondWord c0.seq
          let g1 := (g.emit "\t\tsw $29, -4($30)").emit "\t\tsw $31, -8($30)"
          let saved := regLoop "sw" (g1.stackReg - R.MIN_REG).toNat R.MIN_REG 3 g1
          let g2 := saved.1
          let pushC := saved.2
          let g3 := ((g2.emit "\t\tlis $5").emit ("\t\t.word " ++ toString (4 * (pushC - 1)))).emit
            "\t\tsub $30, $30, $5"
          let c2 ← child node 2
          let g4 ←
            if c2.kind = "arglist" then do
              let (argc, ga) ← generate_args fuel R table c2 1 g3
              if argc = 1 then pure (ga.emit "\t\tadd $30, $30, $4")
              else
                pure (((ga.emit "\t\tlis $5").emit ("\t\t.word " ++ toString (4 * argc))).emit
                  "\t\tadd $30, $30, $5")
            else pure g3
          let g5 := g4.emit "\t\tsub $29, $30, $4"
          let g6 := ((g5.emit "\t\tlis $5").emit ("\t\t.word F" ++ procID)).emit "\t\tjalr $5"
          let g7 := ((g6.emit "\t\tlis $5").emit ("\t\t.word " ++ toString (4 * (pushC - 1)))).emit
            "\t\tadd $30, $30, $5"
          let g8 := (g7.emit "\t\tlw $29, -4($30)").emit "\t\tlw $31, -8($30)"
          return (3, (regLoop "lw" (g8.stackReg - R.MIN_REG).toNat R.MIN_REG 3 g8).1)

/-- The method `generate_args(out, node, table, i)`: the number of arguments, and
the state after. -/
def generate_args : Nat → Regs → ProcData → Node → Int → Gen → Except Fault (Int × Gen)
  | 0, _, _, _, _, _ => .error .fuel
  | fuel + 1, R, table, node, i, g => do
      let (r, g1) ← generate_expr fuel R table (← child node 0) g
      let g2 := push g1 r
      if node.children.length = 1 then return (i, g2)
      else generate_args fuel R table (← child node 2) (i + 1) g2

end

/-- The method `generate_dcl(out, node, table, valNode)`. -/
def generate_dcl (table : ProcData) (node valNode : Node) (g : Gen) : Except Fault Gen := do
  let id := WLP4ParseTree.secondWord (← child node 1).seq
  let (r, g1) ← generate_token table valNode g
  return g1.emit ("\t\tsw $" ++ toString r ++ ", " ++ toString (table.get id).loc ++ "($29)")

/-- The method `generate_dcls(out, node, table)`. -/
def generate_dcls : Nat → ProcData → Node → Gen → Except Fault Gen
  | 0, _, _, _ => .error .fuel
  | fuel + 1, table, node, g => do
      if node.children.length > 0 then
        let g1 ← generate_dcls fuel table (← child node 0) g
        generate_dcl table (← child node 1) (← child node 3) g1
      else return g

/-- The prologue of `generate_proc`: what the method writes before the body of
the procedure, from the three empty lines before the label to the call of `init`. -/
def prologue (table : ProcData) (node : Node) (procID : String) (g : Gen) : Except Fault Gen := do
  let isMain : Bool := node.kind = "main"
  let g1 := (((g.emit "").emit "").emit "").emit ("F" ++ procID ++ ":")
  let g2 :=
    if isMain then
      (((push g1 31).emit "\t\tsub $29, $30, $4").emit "\t\tsw $1, 0($29)").emit
        "\t\tsw $2, -4($29)"
    else g1
  let offset : Int := (table.symTable.length : Int) * 4
  let g3 :=
    if offset = 4 then g2.emit "\t\tsub $30, $30, $4"
    else if offset > 0 then
      ((g2.emit "\t\tlis $3").emit ("\t\t.word " ++ toString offset)).emit "\t\tsub $30, $30, $3"
    else g2
  if isMain then
    let g4 :=
      if (← child (← child node 3) 1).type = TYPE_INT then g3.emit "\t\tadd $2, $0, $0" else g3
    return ((g4.emit "\t\tlis $5").emit "\t\t.word init").emit "\t\tjalr $5"
  else return g3

/-- The method `generate_proc(out, node)`: the prologue, the body and the
epilogue of one procedure. -/
def generate_proc (fuel : Nat) (R : Regs) (ptable : ProcTable) (node : Node) (g : Gen) :
    Except Fault Gen := do
  let isMain : Bool := node.kind = "main"
  let i := if isMain then 8 else 6
  let procID := WLP4ParseTree.secondWord (← child node 1).seq
  let table := ptable.get procID
  let g4 ← prologue table node procID g
  let g5 := (g4.emit "").emit ""
  let g6 ← generate_dcls fuel table (← child node i) g5
  let g7 ← generate_stmts fuel R table (← child node (i + 1)) g6
  let (r, g8) ← generate_expr fuel R table (← child node (i + 3)) g7
  let g9 := if r ≠ 3 then g8.emit ("\t\tadd $3, $" ++ toString r ++ ", $0") else g8
  let g10 := ((g9.emit "").emit "").emit "\t\tadd $30, $29, $4"
  let g11 :=
    if isMain then
      (pop ((g10.emit "\t\tlw $1, 0($29)").emit "\t\tlw $2, -4($29)") 31).emit
        "\t\tadd $29, $30, $0"
    else g10
  return g11.emit "\t\tjr $31"

/-- The method `generate_prog_level(out, node)`. -/
def generate_prog_level : Nat → Regs → ProcTable → Node → Gen → Except Fault Gen
  | 0, _, _, _, _ => .error .fuel
  | fuel + 1, R, ptable, node, g => do
      if node.kind = "start" then
        let g1 := ((((((((g.emit "\t\t.import print").emit "\t\t.import init").emit
          "\t\t.import new").emit "\t\t.import delete").emit "\t\tlis $4").emit
          "\t\t.word 4").emit "\t\tlis $11").emit "\t\t.word 1").emit "\t\tbeq $0, $0, Fwain"
        generate_prog_level fuel R ptable (← child node 1) g1
      else
        let g1 ← generate_proc fuel R ptable (← child node 0) g
        if node.children.length > 1 then
          generate_prog_level fuel R ptable (← child node 1) g1
        else return g1

/-- The state of a generator just constructed: nothing written,
`stackReg(MIN_REG)`, `stacked(0)`, and the static counters at 0. -/
def Gen.new (R : Regs) : Gen :=
  { out := [], stackReg := R.MIN_REG, stacked := 0, ifC := 0, whileC := 0, deleteC := 0 }

/-- The generator on a tree that has been read: `initptable(root)` and then
`generate(out)`; the result is the list of the lines written. -/
def generate (fuel : Nat) (R : Regs) (root : Node) : Except Fault (List String) := do
  let ptable ← initptable fuel root []
  let g ← generate_prog_level fuel R ptable root (Gen.new R)
  return g.out

end WLP4Gen

end WLP4

/-! ## Vocabulary for the statements about the code generator -/

namespace WLP4

namespace WLP4Gen

/-- The `NUM` leaf of a factor that is derived by `factor → NUM`. -/
def numOfFactor (f : Node) : Option Node :=
  match f.children with
  | [n] => if f.kind = "factor" ∧ n.kind = "NUM" then some n else none
  | _ => none

/-- The `NUM` leaf of a term that is derived by `term → factor`, `factor → NUM`. -/
def numOfTerm (t : Node) : Option Node :=
  match t.children with
  | [f] => if t.kind = "term" then numOfFactor f else none
  | _ => none

/-- The `NUM` leaf of an expression that is derived by `expr → term`,
`term → factor`, `factor → NUM`. -/
def numOfExpr (e : Node) : Option Node :=
  match e.children with
  | [t] => if e.kind = "expr" then numOfTerm t else none
  | _ => none

/-- The state `g1` is `g` with more lines written. -/
def Ext (g g1 : Gen) : Prop := ∃ more, g1.out = g.out ++ more

/-- The state `g1` extends every state that `g` extends. -/
@[reducible] def Grows (g g1 : Gen) : Prop := ∀ base, Ext base g → Ext base g1

/-- Every result of the computation has the property `P`. -/
structure Post {β : Type} (P : β → Prop) (x : Except Fault β) : Prop where
  result : ∀ v, x = .ok v → P v

/-- A tree for the literal `n`: `factor → NUM`. -/
def numFactor (n : String) : Node :=
  WLP4ParseTree.rule "factor" "NUM" "int" [WLP4ParseTree.tok "NUM" n "int"]

/-- A tree for the variable `x` of type int: `factor → ID`. -/
def idFactor (x : String) : Node :=
  WLP4ParseTree.rule "factor" "ID" "int" [WLP4ParseTree.tok "ID" x "int"]

/-- The tree `term → factor` around a factor. -/
def termOf (f : Node) : Node := WLP4ParseTree.rule "term" "factor" "int" [f]

/-- The tree `expr → term` around a term. -/
def exprOfTerm (t : Node) : Node := WLP4ParseTree.rule "expr" "term" "int" [t]

/-- The tree of `l op r` for an additive operator: `expr → expr PLUS term` or
`expr → expr MINUS term`. -/
def addNode (kind lexeme : String) (l r : Node) : Node :=
  WLP4ParseTree.rule "expr" ("expr " ++ kind ++ " term") "int" [l, WLP4ParseTree.tok kind lexeme "", r]

/-- The tree of `l op r` for a multiplicative operator: `term → term STAR factor`,
`term → term SLASH factor` or `term → term PCT factor`. -/
def mulNode (kind lexeme : String) (l r : Node) : Node :=
  WLP4ParseTree.rule "term" ("term " ++ kind ++ " factor") "int" [l, WLP4ParseTree.tok kind lexeme "", r]

/-- The registers 12 to 28 as stack registers. -/
def exampleRegs : Regs := { MIN_REG := 12, MAX_REG := 28 }

/-- The symbol table of `wain(int a, int b)` with one local `c`. -/
def exampleTable : ProcData :=
  { id := "wain",
    symTable := [("a", ⟨0, "int"⟩), ("b", ⟨-4, "int"⟩), ("c", ⟨-8, "int"⟩)] }

/-- Every generator function of the mutual block only adds lines to the output. -/
def AllGrow (fuel : Nat) : Prop :=
  (∀ R table node g, Post (Grows g) (generate_stmts fuel R table node g)) ∧
  (∀ R table node g, Post (Grows g) (generate_stmt fuel R table node g)) ∧
  (∀ R table node g, Post (Grows g) (generate_test fuel R table node g)) ∧
  (∀ R table node g, Post (fun p => Grows g p.2) (generate_expr fuel R table node g)) ∧
  (∀ R table node g, Post (fun p => Grows g p.2) (generate_term fuel R table node g)) ∧
  (∀ R table node g, Post (fun p => Grows g p.2) (generate_factor fuel R table node g)) ∧
  (∀ R table node i g, Post (fun p => Grows g p.2) (generate_args fuel R table node i g))

/-- The lines of `generate_proc` that move `$30` below the frame of a procedure
with the symbol table `table`. -/
def frameLines (table : ProcData) : List String :=
  if (table.symTable.length : Int) * 4 = 4 then ["\t\tsub $30, $30, $4"]
  else if (table.symTable.length : Int) * 4 > 0 then
    ["\t\tlis $3", "\t\t.word " ++ toString ((table.symTable.length : Int) * 4),
     "\t\tsub $30, $30, $3"]
  else []

/-- The lines of the prologue of `wain` between the label `Fwain:` and the
`jalr` that calls `init`, for the type `ty` of the first parameter. -/
def wainEntry (table : ProcData) (ty : String) : List String :=
  ["\t\tsw $31, -4($30)", "\t\tsub $30, $30, $4", "\t\tsub $29, $30, $4", "\t\tsw $1, 0($29)",
   "\t\tsw $2, -4($29)"] ++ frameLines table ++
  (if ty = TYPE_INT then ["\t\tadd $2, $0, $0"] else []) ++ ["\t\tlis $5", "\t\t.word init"]

/-- The line is an instruction with the destination register `$2`. -/
def writesTwo (line : String) : Bool :=
  ["\t\tadd $2,", "\t\tsub $2,", "\t\tslt $2,", "\t\tsltu $2,", "\t\tlw $2,", "\t\tlis $2",
   "\t\tmflo $2", "\t\tmfhi $2"].any (fun p => p.data.isPrefixOf line.data)

/-- The tree of the declaration `int name` or `int* name` of an annotated
program. -/
def typedDcl (ptr : Bool) (name : String) : Node :=
  WLP4ParseTree.rule "dcl" "type ID" ""
    [if ptr then
       WLP4ParseTree.rule "type" "INT STAR" ""
         [WLP4ParseTree.tok "INT" "int" "", WLP4ParseTree.tok "STAR" "*" ""]
     else WLP4ParseTree.rule "type" "INT" "" [WLP4ParseTree.tok "INT" "int" ""],
     WLP4ParseTree.tok "ID" name (if ptr then "int*" else "int")]

/-- The tree of `int wain(d1, d2) \x7b dcls stmts return ret; \x7d`. -/
def wainNode (d1 d2 dcls stmts ret : Node) : Node :=
  WLP4ParseTree.rule "main"
    "INT WAIN LPAREN dcl COMMA dcl RPAREN LBRACE dcls statements RETURN expr SEMI RBRACE" ""
    [WLP4ParseTree.tok "INT" "int" "", WLP4ParseTree.tok "WAIN" "wain" "",
     WLP4ParseTree.tok "LPAREN" "(" "", d1, WLP4ParseTree.tok "COMMA" "," "", d2,
     WLP4ParseTree.tok "RPAREN" ")" "", WLP4ParseTree.tok "LBRACE" "\x7b" "", dcls, stmts,
     WLP4ParseTree.tok "RETURN" "return" "", ret, WLP4ParseTree.tok "SEMI" ";" "",
     WLP4ParseTree.tok "RBRACE" "\x7d" ""]

/-- The tree of a program that consists of the procedure `main`. -/
def programOf (main : Node) : Node :=
  WLP4ParseTree.rule "start" "BOF procedures EOF" ""
    [WLP4ParseTree.tok "BOF" "BOF" "", WLP4ParseTree.rule "procedures" "main" "" [main],
     WLP4ParseTree.tok "EOF" "EOF" ""]

/-- The tree of `int wain(int* a, int b) \x7b return b; \x7d`. -/
def examplePtrWain : Node :=
  wainNode (typedDcl true "a") (typedDcl false "b") (WLP4ParseTree.rule "dcls" ".EMPTY" "" [])
    (WLP4ParseTree.rule "statements" ".EMPTY" "" []) (exprOfTerm (termOf (idFactor "b")))

/-- The tree of `int wain(int a, int b) \x7b int c = 7; return c; \x7d`. -/
def exampleIntWain : Node :=
  wainNode (typedDcl false "a") (typedDcl false "b")
    (WLP4ParseTree.rule "dcls" "dcls dcl BECOMES NUM SEMI" ""
      [WLP4ParseTree.rule "dcls" ".EMPTY" "" [], typedDcl false "c",
       WLP4ParseTree.tok "BECOMES" "=" "", WLP4ParseTree.tok "NUM" "7" "int",
       WLP4ParseTree.tok "SEMI" ";" ""])
    (WLP4ParseTree.rule "statements" ".EMPTY" "" []) (exprOfTerm (termOf (idFactor "c")))

/-- The name of the variable that a `dcl` node declares: the lexeme of its
second child. -/
def dclName (d : Node) : String :=
  match d.children with
  | _ :: idn :: _ => WLP4ParseTree.secondWord idn.seq
  | _ => ""

/-- The type tag of the variable that a `dcl` node declares. -/
def dclType (d : Node) : String :=
  match d.children with
  | _ :: idn :: _ => idn.type
  | _ => ""

/-- The `dcl` nodes below a `params` or `paramlist` node, in the order in which
they are written: `params → .EMPTY`, `params → paramlist`, `paramlist → dcl` and
`paramlist → dcl COMMA paramlist`. -/
inductive Params : Node → List Node → Prop
  | none (n : Node) : n.kind = "params" → n.children = [] → Params n []
  | wrap (n c : Node) (rest ds : List Node) : n.kind = "params" → n.children = c :: rest →
      Params c ds → Params n ds
  | last (n d : Node) : n.kind ≠ "params" → n.children = [d] → Params n [d]
  | cons (n d comma sub : Node) (more ds : List Node) : n.kind ≠ "params" →
      n.children = d :: comma :: sub :: more → Params sub ds → Params n (d :: ds)

/-- The `dcl` nodes below a `dcls` node, in the order of the source:
`dcls → .EMPTY` and `dcls → dcls dcl BECOMES NUM SEMI` (or `NULL`). -/
inductive Locals : Node → List Node → Prop
  | none (n : Node) : n.children = [] → Locals n []
  | snoc (n sub d : Node) (rest ds : List Node) : n.children = sub :: d :: rest →
      Locals sub ds → Locals n (ds ++ [d])

/-- The procedure node `p` has the name `procID` and declares the variables of
the `dcl` nodes `ds`: the parameters in the order in which they are written, then
the local declarations in the order of the source. -/
inductive Declares : Node → String → List Node → Prop
  | wain (p idn d1 d2 dcls : Node) (ds : List Node) : p.kind ≠ "start" →
      p.kind ≠ "procedures" → child p 1 = .ok idn →
      WLP4ParseTree.secondWord idn.seq = "wain" → child p 3 = .ok d1 → child p 5 = .ok d2 →
      child p 8 = .ok dcls → Locals dcls ds → Declares p "wain" (d1 :: d2 :: ds)
  | proc (p idn params dcls : Node) (ps ds : List Node) : p.kind ≠ "start" →
      p.kind ≠ "procedures" → child p 1 = .ok idn →
      WLP4ParseTree.secondWord idn.seq ≠ "wain" → child p 3 = .ok params →
      child p 6 = .ok dcls → Params params ps → Locals dcls ds →
      Declares p (WLP4ParseTree.secondWord idn.seq) (ps ++ ds)

/-- The entries of a symbol table in which the `k`-th of the variables `ds` has the
offset `-4 * (start + k)`. -/
def offsetsFrom : Nat → List Node → List (String × VarData)
  | _, [] => []
  | start, d :: ds => (dclName d, ⟨-4 * (start : Int), dclType d⟩) :: offsetsFrom (start + 1) ds

/-- The symbol table `table` after the variables `ds` have been added to it, each
at the next free offset. -/
def extend (table : ProcData) (ds : List Node) : ProcData :=
  { id := table.id, symTable := table.symTable ++ offsetsFrom table.symTable.length ds }

/-- The symbol table of the procedure `procID` in which the `k`-th of the
variables `ds` has the offset `-4 * k`. -/
def tableOf (procID : String) (ds : List Node) : ProcData :=
  { id := procID, symTable := offsetsFrom 0 ds }

/-- The tree of the statement `x = e;` for a variable `x`: `statement → lvalue
BECOMES expr SEMI` with `lvalue → ID`. -/
def assignNode (x : String) (e : Node) : Node :=
  WLP4ParseTree.rule "statement" "lvalue BECOMES expr SEMI" ""
    [WLP4ParseTree.rule "lvalue" "ID" "int" [WLP4ParseTree.tok "ID" x "int"],
     WLP4ParseTree.tok "BECOMES" "=" "", e, WLP4ParseTree.tok "SEMI" ";" ""]

end WLP4Gen

end WLP4

/-! ## Vocabulary for the re-serialisation of a token list -/

namespace WLP4

namespace WLP4Scanner

/-- The pair is what the scanner with the automaton `d` writes for a lexeme: the
lexeme drives the automaton from the start state to an accepting state, passes the
number check, and its kind, which is neither `COMMENT` nor `WHITESPACE`, is the
one `getKind` gives. -/
def IsToken (d : DFA) (t : String × String) : Prop :=
  ∃ st lexL, d.run d.start lexL = some st ∧ d.isAccepting st = true ∧
    ¬ (getKind st (String.mk lexL) = "NUM" ∧ numOutOfBounds (String.mk lexL)) ∧
    getKind st (String.mk lexL) ≠ "COMMENT" ∧ getKind st (String.mk lexL) ≠ "WHITESPACE" ∧
    t = (getKind st (String.mk lexL), String.mk lexL)

/-- The transitions of the automaton that concern whitespace: on a space or a
tab only `_START` and `WHITESPACE` have a transition, it leads to `WHITESPACE`, no
other character leads there, and `WHITESPACE` has no other transitions; `_START`
is the start state, and `WHITESPACE` is accepting and is reached on a space. -/
def WhitespaceEdges (d : DFA) : Prop :=
  (∀ s ∈ d.states, ∀ p ∈ s.next,
    ((p.1 = ' ' ∨ p.1 = '\t') → (s.name = "_START" ∨ s.name = "WHITESPACE") ∧
      p.2 = "WHITESPACE") ∧
    (p.2 = "WHITESPACE" → p.1 = ' ' ∨ p.1 = '\t') ∧
    (s.name = "WHITESPACE" → p.1 = ' ' ∨ p.1 = '\t')) ∧
  d.run d.start [' '] = some "WHITESPACE" ∧ d.isAccepting "WHITESPACE" = true ∧
  d.start = "_START"

/-- The lexemes of the tokens, separated by single spaces. -/
def spaced : List (String × String) → List Char
  | [] => []
  | [t] => t.2.data
  | t :: ts => t.2.data ++ ' ' :: spaced ts

/-- One line of the re-serialised token list. -/
def renderLine (g : List (String × String)) : String := String.mk (spaced g)

end WLP4Scanner

end WLP4
/-! ## The automaton of the WLP4 tokens, written out -/

namespace WLP4

namespace WLP4Scanner

/-- The automaton that the constructor `WLP4Scanner()` builds, written out: the
states in the order in which `addState` creates them, each with the transitions
that `addTransition` has recorded (the latest first).  It is the value of
`WLP4Scanner.new`; the proofs evaluate the scanner on this table. -/
def table : DFA :=
  ⟨[
      ⟨"_START", false,
        [('Z', "ID"), ('z', "ID"), ('Y', "ID"), ('y', "ID"), ('X', "ID"), ('x', "ID"),
        ('W', "ID"), ('w', "ID"), ('V', "ID"), ('v', "ID"), ('U', "ID"), ('u', "ID"),
        ('T', "ID"), ('t', "ID"), ('S', "ID"), ('s', "ID"), ('R', "ID"), ('r', "ID"),
        ('Q', "ID"), ('q', "ID"), ('P', "ID"), ('p', "ID"), ('O', "ID"), ('o', "ID"),
        ('N', "ID"), ('n', "ID"), ('M', "ID"), ('m', "ID"), ('L', "ID"), ('l', "ID"),
        ('K', "ID"), ('k', "ID"), ('J', "ID"), ('j', "ID"), ('I', "ID"), ('i', "ID"),
        ('H', "ID"), ('h', "ID"), ('G', "ID"), ('g', "ID"), ('F', "ID"), ('f', "ID"),
        ('E', "ID"), ('e', "ID"), ('D', "ID"), ('d', "ID"), ('C', "ID"), ('c', "ID"),
        ('B', "ID"), ('b', "ID"), ('A', "ID"), ('a', "ID"), ('9', "NUM"), ('8', "NUM"),
        ('7', "NUM"), ('6', "NUM"), ('5', "NUM"), ('4', "NUM"), ('3', "NUM"), ('2', "NUM"),
        ('1', "NUM"), ('0', "ZERO"), ('&', "AMP"), (';', "SEMI"), (',', "COMMA"), ('%', "PCT"),
        ('/', "SLASH"), ('*', "STAR"), ('-', "MINUS"), ('+', "PLUS"), ('!', "_NOT"),
        ('>', "GT"), ('<', "LT"), ('=', "BECOMES"), (']', "RBRACK"), ('[', "LBRACK"),
        ('\x7d', "RBRACE"), ('\x7b', "LBRACE"), (')', "RPAREN"), ('(', "LPAREN"),
        ('\t', "WHITESPACE"), (' ', "WHITESPACE")]⟩,
      ⟨"WHITESPACE", true,
        [('\t', "WHITESPACE"), (' ', "WHITESPACE")]⟩,
      ⟨"LPAREN", true, []⟩,
      ⟨"RPAREN", true, []⟩,
      ⟨"LBRACE", true, []⟩,
      ⟨"RBRACE", true, []⟩,
      ⟨"LBRACK", true, []⟩,
      ⟨"RBRACK", true, []⟩,
      ⟨"BECOMES", true,
        [('=', "EQ")]⟩,
      ⟨"EQ", true, []⟩,
      ⟨"LT", true,
        [('=', "LE")]⟩,
      ⟨"LE", true, []⟩,
      ⟨"GT", true,
        [('=', "GE")]⟩,
      ⟨"GE", true, []⟩,
      ⟨"_NOT", false,
        [('=', "NE")]⟩,
      ⟨"NE", true, []⟩,
      ⟨"PLUS", true, []⟩,
      ⟨"MINUS", true, []⟩,
      ⟨"STAR", true, []⟩,
      ⟨"SLASH", true,
        [('/', "COMMENT")]⟩,
      ⟨"PCT", true, []⟩,
      ⟨"COMMA", true, []⟩,
      ⟨"SEMI", true, []⟩,
      ⟨"AMP", true, []⟩,
      ⟨"COMMENT", true, []⟩,
      ⟨"ZERO", true, []⟩,
      ⟨"NUM", true,
        [('9', "NUM"), ('8', "NUM"), ('7', "NUM"), ('6', "NUM"), ('5', "NUM"), ('4', "NUM"),
        ('3', "NUM"), ('2', "NUM"), ('1', "NUM"), ('0', "NUM")]⟩,
      ⟨"ID", true,
        [('9', "ID"), ('8', "ID"), ('7', "ID"), ('6', "ID"), ('5', "ID"), ('4', "ID"),
        ('3', "ID"), ('2', "ID"), ('1', "ID"), ('0', "ID"), ('Z', "ID"), ('z', "ID"),
        ('Y', "ID"), ('y', "ID"), ('X', "ID"), ('x', "ID"), ('W', "ID"), ('w', "ID"),
        ('V', "ID"), ('v', "ID"), ('U', "ID"), ('u', "ID"), ('T', "ID"), ('t', "ID"),
        ('S', "ID"), ('s', "ID"), ('R', "ID"), ('r', "ID"), ('Q', "ID"), ('q', "ID"),
        ('P', "ID"), ('p', "ID"), ('O', "ID"), ('o', "ID"), ('N', "ID"), ('n', "ID"),
        ('M', "ID"), ('m', "ID"), ('L', "ID"), ('l', "ID"), ('K', "ID"), ('k', "ID"),
        ('J', "ID"), ('j', "ID"), ('I', "ID"), ('i', "ID"), ('H', "ID"), ('h', "ID"),
        ('G', "ID"), ('g', "ID"), ('F', "ID"), ('f', "ID"), ('E', "ID"), ('e', "ID"),
        ('D', "ID"), ('d', "ID"), ('C', "ID"), ('c', "ID"), ('B', "ID"), ('b', "ID"),
        ('A', "ID"), ('a', "ID")]⟩
    ],
    "_START"⟩

end WLP4Scanner

end WLP4

/-! ## Vocabulary for the layout of an instruction word -/

namespace Assembler

/-- The word `w` packs the fields `F`: the register numbers are in `[0, 31]`, the
immediate is in `[0, 2^16)`, the template of the opcode leaves the bits of the
fields free (it is below `2^6` and there is no immediate, or it is a multiple of
`2^26` below `2^32` and there is no register `d`), and `w` is the sum of the
template and the fields at their bit positions. -/
def Fields.Packs (F : Fields) (w : Int) : Prop :=
  (0 ≤ F.d ∧ F.d < 32) ∧ (0 ≤ F.s ∧ F.s < 32) ∧ (0 ≤ F.t ∧ F.t < 32) ∧
  (0 ≤ F.imm ∧ F.imm < 2 ^ 16) ∧
  ((0 ≤ setupTemplate F.op ∧ setupTemplate F.op < 2 ^ 6 ∧ F.imm = 0) ∨
    (setupTemplate F.op % 2 ^ 26 = 0 ∧ 0 ≤ setupTemplate F.op ∧ setupTemplate F.op < 2 ^ 32 ∧
      F.d = 0)) ∧
  w = setupTemplate F.op + F.d * 2 ^ 11 + F.s * 2 ^ 21 + F.t * 2 ^ 16 + F.imm

end Assembler

/-! ## Vocabulary for the stacks of the parser -/

namespace WLP4

namespace WLP4Parser

mutual

/-- Every interior node of the tree has a production of the grammar and exactly
one child for each symbol of its right-hand side. -/
def arityOK (T : Tables) : Node → Bool
  | .leaf _ => true
  | .node prod children =>
      match T.prods[prod]? with
      | some (_, rhs) => children.length == rhs.length && arityOKList T children
      | none => false

/-- Every tree of the list satisfies `arityOK`. -/
def arityOKList (T : Tables) : List Node → Bool
  | [] => true
  | c :: cs => arityOK T c && arityOKList T cs

end

mutual

/-- The tokens at the leaves of a tree, from left to right. -/
def leaves : Node → List Token
  | .leaf tok => [tok]
  | .node _ children => leavesList children

/-- The tokens at the leaves of the trees of a list, tree after tree. -/
def leavesList : List Node → List Token
  | [] => []
  | c :: cs => leaves c ++ leavesList cs

end

/-- The tokens at the leaves of the node stack, read from the bottom of the
stack to its top (the stack is kept with its top at the head). -/
def stackLeaves (nodeStack : List Node) : List Token := leavesList nodeStack.reverse

end WLP4Parser

end WLP4

/-! ## A program that divides two literals -/

namespace WLP4

namespace WLP4Gen

/-- The tree of the declaration `int name` before it is annotated. -/
def untypedDcl (name : String) : Node :=
  WLP4ParseTree.rule "dcl" "type ID" ""
    [WLP4ParseTree.rule "type" "INT" "" [WLP4ParseTree.tok "INT" "int" ""],
     WLP4ParseTree.tok "ID" name ""]

/-- The tree of the program `int wain(int a, int b) \x7b return 1 / 0; \x7d` as the
parser prints it. -/
def divByZeroSource : Node :=
  WLP4ParseTree.programOfMain (untypedDcl "a") (untypedDcl "b")
    (WLP4ParseTree.rule "expr" "term" ""
      [WLP4ParseTree.rule "term" "term SLASH factor" ""
        [WLP4ParseTree.rule "term" "factor" ""
           [WLP4ParseTree.rule "factor" "NUM" "" [WLP4ParseTree.tok "NUM" "1" ""]],
         WLP4ParseTree.tok "SLASH" "/" "",
         WLP4ParseTree.rule "factor" "NUM" "" [WLP4ParseTree.tok "NUM" "0" ""]]])

/-- The expression `1 / 0` of the annotated program. -/
def divByZeroExpr : Node :=
  exprOfTerm (mulNode "SLASH" "/" (termOf (numFactor "1")) (numFactor "0"))

/-- The procedure `wain` of the annotated program
`int wain(int a, int b) \x7b return 1 / 0; \x7d`. -/
def divByZeroWain : Node :=
  wainNode (typedDcl false "a") (typedDcl false "b") (WLP4ParseTree.rule "dcls" ".EMPTY" "" [])
    (WLP4ParseTree.rule "statements" ".EMPTY" "" []) divByZeroExpr

end WLP4Gen

end WLP4

/-! ## The grammar sets and `readTree` of the code generator (wlp4gen.cc) -/

namespace WLP4

namespace WLP4Gen

/-- The members `terminals` and `nonTerminals` of the class `CFG` of wlp4gen.cc,
each `std::set` kept as a list without repetitions.  (The members `start` and
`prods` are not read by `readTree`.) -/
structure CFG where
  terminals : List String
  nonTerminals : List String
  deriving DecidableEq, Repr

namespace CFG

/-- The method `CFG::isNonTerminal`. -/
def isNonTerminal (c : CFG) (sym : String) : Bool := c.nonTerminals.contains sym

/-- The method `CFG::isTerminal`. -/
def isTerminal (c : CFG) (sym : String) : Bool := c.terminals.contains sym

/-- The method `CFG::addProd(nt, rule)`: `nt` becomes a non-terminal (and stops
being a terminal), and every symbol of the rule that is not a non-terminal so
far is inserted into the terminals. -/
def addProd (c : CFG) (nt : String) (rule : List String) : CFG :=
  let c1 : CFG :=
    if !c.isNonTerminal nt then
      { terminals := if c.isTerminal nt then c.terminals.erase nt else c.terminals,
        nonTerminals := c.nonTerminals ++ [nt] }
    else c
  rule.foldl
    (fun c r =>
      if c.isNonTerminal r then c
      else if c.isTerminal r then c
      else { c with terminals := c.terminals ++ [r] })
    c1

/-- The loop of `main` that adds the productions of `WLP4_CFG`, given as pairs of
a left-hand side and the symbols of the rule (without the word `.EMPTY`). -/
def ofProds (prods : List (String × List String)) : CFG :=
  prods.foldl (fun c p => c.addProd p.1 p.2) { terminals := [], nonTerminals := [] }

end CFG

mutual

/-- The method `readTree(in)` of the generator on the lines still to be read:
the tree (`none` for `nullptr`) and the lines left.  The first argument bounds
the number of nested and successive calls; the result is `none` when that budget
is used up. -/
def readTree (cfg : CFG) : Nat → List String → Option (Option Node × List String)
  | 0, _ => none
  | _ + 1, [] => some (none, [])
  | fuel + 1, str :: lines =>
      let ws := WLP4ParseTree.words str
      let kind := ws.head?.getD ""
      match readWords cfg fuel (cfg.isTerminal kind) ws.tail kind lines with
      | none => none
      | some (seq, children, type, lines1) => some (some (Node.mk kind seq type children), lines1)

/-- The loop `while (iss >> word && word != DIR_EMPTY && word != ":")` of
`readTree` over the words left in the line, and the read of the type after it:
the rule string, the children, the type and the lines left. -/
def readWords (cfg : CFG) :
    Nat → Bool → List String → String → List String →
      Option (String × List Node × String × List String)
  | 0, _, _, _, _ => none
  | _ + 1, _, [], seq, lines => some (seq, [], TYPE_NONE, lines)
  | fuel + 1, kindIsTerminal, w :: ws, seq, lines =>
      if w = ".EMPTY" then some (seq, [], TYPE_NONE, lines)
      else if w = ":" then some (seq, [], ws.head?.getD TYPE_NONE, lines)
      else if kindIsTerminal then readWords cfg fuel kindIsTerminal ws (seq ++ " " ++ w) lines
      else
        match readTree cfg fuel lines with
        | none => none
        | some (child, lines1) =>
            match readWords cfg fuel kindIsTerminal ws (seq ++ " " ++ w) lines1 with
            | none => none
            | some (seq1, more, type, lines2) =>
                match child with
                | some c => some (seq1, c :: more, type, lines2)
                | none => some (seq1, more, type, lines2)

end

/-! ## Vocabulary for the listing that the type checker prints -/

/-- The words of the rule string of a node after its kind. -/
def ruleWords (seq : String) : List String := (WLP4ParseTree.words seq).tail

mutual

/-- The node is one whose listing `readTree` can take apart: its rule string is
its kind followed by words, single spaces between them and none of them `:`;
its type is `TYPE_NONE` or a word; a node whose kind is a terminal has no
children and no word `.EMPTY`; any other node either has the rule `.EMPTY`, no
type and no children, or has no word `.EMPTY` and one child, again such a node,
for each word of its rule. -/
def listed (cfg : CFG) : Node → Bool
  | .mk kind seq type children =>
      WLP4Parser.isWord kind && (ruleWords seq).all (fun w => w != ":") &&
      seq == (ruleWords seq).foldl (fun acc r => acc ++ " " ++ r) kind &&
      (type == TYPE_NONE || WLP4Parser.isWord type) &&
      (if cfg.isTerminal kind then
        children.isEmpty && (ruleWords seq).all (fun w => w != ".EMPTY")
      else if ruleWords seq = [".EMPTY"] then children.isEmpty && type == TYPE_NONE
      else
        (ruleWords seq).all (fun w => w != ".EMPTY") &&
          children.length == (ruleWords seq).length && listedList cfg children)

/-- Every node of the list is `listed`. -/
def listedList (cfg : CFG) : List Node → Bool
  | [] => true
  | c :: cs => listed cfg c && listedList cfg cs

end

mutual

/-- The tree that the generator reads from the listing of a tree: the same
kinds, types and shape; the rule string is the one of the tree, except at a node
with the rule `.EMPTY`, where it is the kind alone. -/
def reread : Node → Node
  | .mk kind seq type children =>
      Node.mk kind (if ruleWords seq = [".EMPTY"] then kind else seq) type (rereadList children)

/-- The trees read from the listings of a list of trees. -/
def rereadList : List Node → List Node
  | [] => []
  | c :: cs => reread c :: rereadList cs

end

mutual

/-- A budget that lets the generator's `readTree` read the listing of a tree. -/
def rereadCost : Node → Nat
  | .mk _ seq _ children => max (WLP4ParseTree.words seq).length (rereadCostList children) + 1

/-- A budget that lets `readWords` read the listings of a list of trees. -/
def rereadCostList : List Node → Nat
  | [] => 1
  | c :: cs => max (rereadCost c) (rereadCostList cs) + 1

end

end WLP4Gen

end WLP4

/-! ## Vocabulary for the stack registers of the code generator -/

namespace WLP4

namespace WLP4Gen

/-- The member `stackReg` lies in `[MIN_REG, MAX_REG + 1]`. -/
def InRange (R : Regs) (g : Gen) : Prop :=
  R.MIN_REG ≤ g.stackReg ∧ g.stackReg ≤ R.MAX_REG + 1

/-- When `stackReg` is in range in the state `base`, the state `g` has the values
of `stackReg` and `stacked` that `base` has. -/
def Level (R : Regs) (base g : Gen) : Prop :=
  InRange R base → g.stackReg = base.stackReg ∧ g.stacked = base.stacked

/-- The state `g1` is level with every state that `g` is level with. -/
@[reducible] def Balanced (R : Regs) (g g1 : Gen) : Prop :=
  ∀ base, Level R base g → Level R base g1

/-- Every generator function of the mutual block leaves `stackReg` and `stacked`
as it found them. -/
def AllBalanced (R : Regs) (fuel : Nat) : Prop :=
  (∀ table node g, Post (Balanced R g) (generate_stmts fuel R table node g)) ∧
  (∀ table node g, Post (Balanced R g) (generate_stmt fuel R table node g)) ∧
  (∀ table node g, Post (Balanced R g) (generate_test fuel R table node g)) ∧
  (∀ table node g, Post (fun p => Balanced R g p.2) (generate_expr fuel R table node g)) ∧
  (∀ table node g, Post (fun p => Balanced R g p.2) (generate_term fuel R table node g)) ∧
  (∀ table node g, Post (fun p => Balanced R g p.2) (generate_factor fuel R table node g)) ∧
  (∀ table node i g, Post (fun p => Balanced R g p.2) (generate_args fuel R table node i g))

end WLP4Gen

end WLP4

namespace WLP4

namespace WLP4Gen

/-- The saving of a left operand held in register `r`, as `generate_expr` and
`generate_term` do it: into register `stackReg` while `stackReg <= MAX_REG`,
with a push to memory otherwise. -/
def saveLeft (R : Regs) (g : Gen) (r : Int) : Gen :=
  if g.stackReg ≤ R.MAX_REG then
    (g.emit ("\t\tadd $" ++ toString g.stackReg ++ ", $" ++ toString r ++ ", $0")).setStackReg
      (g.stackReg + 1)
  else (push g r).setStacked (g.stacked + 1)

/-- The local variable `q` of `generate_expr` and `generate_term`: the register the
saved left operand is read from. -/
def leftReg (R : Regs) (g : Gen) : Int := if g.stackReg ≤ R.MAX_REG then g.stackReg else 5

/-- The reloading of a left operand that was pushed to memory (`q == 5`). -/
def loadLeft (R : Regs) (g2 g5 : Gen) : Gen :=
  if leftReg R g2 = 5 then (pop g5 5).setStacked (g5.stacked - 1) else g5

/-- The release of the stack register of a left operand (`q != 5`). -/
def releaseLeft (R : Regs) (g2 g8 : Gen) : Gen :=
  if leftReg R g2 ≠ 5 then g8.setStackReg (g8.stackReg - 1) else g8

/-- The line of `generate_expr` that combines the operands: it reads `$q`. -/
def exprLine (op : String) (r q : Int) : String :=
  "\t\t" ++ op ++ " $3, $" ++ toString q ++ ", $" ++ toString r

/-- The line of `generate_term` that combines the operands: it reads `$q`. -/
def termLine (op : String) (r q : Int) : String :=
  "\t\t" ++ op ++ " $" ++ toString q ++ ", $" ++ toString r

/-- The left operand, in register `r1` in state `g2`, is saved, the right operand
is generated from the state after the save and returns `g4`, and the state `p`
after the operation consumed the saved operand with the line `line q`:
`stackReg` stays in range, the counters of `p` are those of `g2`, and the line
reads the register the operand was saved in, or `$5` loaded by the pop at the
depth of the push. -/
def Consumes (R : Regs) (g2 : Gen) (r1 : Int) (g4 g5 : Gen) (line : Int → String) (p : Gen) :
    Prop :=
  InRange R (saveLeft R g2 r1) ∧ InRange R g4 ∧ InRange R p ∧
  p.stackReg = g2.stackReg ∧ p.stacked = g2.stacked ∧
  (∃ tail, p.out = (loadLeft R g2 g5).out ++ line (leftReg R g2) :: tail) ∧
  (g2.stackReg ≤ R.MAX_REG →
    leftReg R g2 = g2.stackReg ∧
    (saveLeft R g2 r1).out = g2.out ++
      ["\t\tadd $" ++ toString (leftReg R g2) ++ ", $" ++ toString r1 ++ ", $0"] ∧
    (saveLeft R g2 r1).stackReg = leftReg R g2 + 1 ∧
    g4.stackReg = leftReg R g2 + 1 ∧
    loadLeft R g2 g5 = g5) ∧
  (¬ g2.stackReg ≤ R.MAX_REG →
    leftReg R g2 = 5 ∧
    (saveLeft R g2 r1).out = g2.out ++
      ["\t\tsw $" ++ toString r1 ++ ", -4($30)", "\t\tsub $30, $30, $4"] ∧
    (saveLeft R g2 r1).stacked = g2.stacked + 1 ∧
    g4.stacked = g2.stacked + 1 ∧
    (loadLeft R g2 g5).out = g5.out ++ ["\t\tadd $30, $30, $4", "\t\tlw $5, -4($30)"] ∧
    (loadLeft R g2 g5).stacked = g2.stacked)

/-- The local `ptrArith` of `generate_expr` for the operator `o` and the operands
`l` and `r`: a sum of operands of different types, or a difference whose left
operand is a pointer. -/
def ptrArith (o l r : Node) : Bool :=
  if decide (o.kind = "PLUS") then decide (l.type ≠ r.type) else decide (l.type = TYPE_INT_PTR)

/-- The state after the left operand of `generate_expr`, in register `r0`, has been
scaled by 4 when it is the int operand of pointer arithmetic. -/
def leftState (o l r : Node) (g1 : Gen) (r0 : Int) : Gen :=
  if ptrArith o l r = true ∧ l.type = TYPE_INT then
    (g1.emit ("\t\tmult $" ++ toString r0 ++ ", $4")).emit "\t\tmflo $3"
  else g1

/-- The register that holds the left operand of `generate_expr` after the scaling. -/
def leftResult (o l r : Node) (r0 : Int) : Int :=
  if ptrArith o l r = true ∧ l.type = TYPE_INT then 3 else r0

/-- The state after the right operand of `generate_expr`, in register `r2`, has
been scaled by 4 when it is the int operand of pointer arithmetic. -/
def rightState (o l r : Node) (g4 : Gen) (r2 : Int) : Gen :=
  if ptrArith o l r = true ∧ r.type = TYPE_INT then
    (g4.emit ("\t\tmult $" ++ toString r2 ++ ", $4")).emit "\t\tmflo $3"
  else g4

/-- The register that holds the right operand of `generate_expr` after the scaling. -/
def rightResult (o l r : Node) (r2 : Int) : Int :=
  if ptrArith o l r = true ∧ r.type = TYPE_INT then 3 else r2

/-- The instruction of `generate_expr` for the operator `o`. -/
def addOp (o : Node) : String := if decide (o.kind = "PLUS") then "add" else "sub"

/-- The division by 4 that `generate_expr` writes after the difference of two
pointers. -/
def afterExpr (o l r : Node) (g7 : Gen) : Gen :=
  if ptrArith o l r = true ∧ l.type = r.type then
    (g7.emit "\t\tdiv $3, $4").emit "\t\tmflo $3"
  else g7

/-- The instruction of `generate_term` for the operator `o`. -/
def mulOp (o : Node) : String := if o.kind = "STAR" then "mult" else "div"

/-- The line of `generate_term` that fetches the result of the operator `o`. -/
def mfLine (o : Node) : String := "\t\t" ++ (if o.kind = "PCT" then "mfhi" else "mflo") ++ " $3"

end WLP4Gen

end WLP4

namespace WLP4

namespace WLP4Gen

/-- One line `op $r, -4k($30)` for each of the `s` stack registers in use: register
`MIN_REG + j` with the slot `k = 3 + j`. -/
def regLines (op : String) (R : Regs) (s : Nat) : List String :=
  (List.range s).map fun (j : Nat) =>
    "\t\t" ++ op ++ " $" ++ toString (R.MIN_REG + (j : Int)) ++ ", -" ++
      toString (4 * (3 + (j : Int))) ++ "($30)"

/-- The lines that save the frame of a call made with `s` stack registers in use. -/
def frameSave (R : Regs) (s : Nat) : List String :=
  ["\t\tsw $29, -4($30)", "\t\tsw $31, -8($30)"] ++ regLines "sw" R s ++
    ["\t\tlis $5", "\t\t.word " ++ toString (4 * (2 + (s : Int))), "\t\tsub $30, $30, $5"]

/-- The lines that set the frame pointer and call the procedure `procID`. -/
def callLines (procID : String) : List String :=
  ["\t\tsub $29, $30, $4", "\t\tlis $5", "\t\t.word F" ++ procID, "\t\tjalr $5"]

/-- The lines that restore the frame after a call made with `s` stack registers in
use. -/
def frameRestore (R : Regs) (s : Nat) : List String :=
  ["\t\tlis $5", "\t\t.word " ++ toString (4 * (2 + (s : Int))), "\t\tadd $30, $30, $5",
    "\t\tlw $29, -4($30)", "\t\tlw $31, -8($30)"] ++ regLines "lw" R s

/-- The lines that drop `argc` arguments from the stack. -/
def dropArgs (argc : Int) : List String :=
  if argc = 1 then ["\t\tadd $30, $30, $4"]
  else ["\t\tlis $5", "\t\t.word " ++ toString (4 * argc), "\t\tadd $30, $30, $5"]

/-- A tree for the call `f(x)` of a procedure with one argument, the variable `x`:
`factor → ID LPAREN arglist RPAREN`. -/
def callFactor (f x : String) : Node :=
  WLP4ParseTree.rule "factor" "ID LPAREN arglist RPAREN" "int"
    [WLP4ParseTree.tok "ID" f "", WLP4ParseTree.tok "LPAREN" "(" "",
      WLP4ParseTree.rule "arglist" "expr" "" [exprOfTerm (termOf (idFactor x))],
      WLP4ParseTree.tok "RPAREN" ")" ""]

end WLP4Gen

end WLP4

namespace WLP4

namespace WLP4Gen

/-- The frame of a call: from the state `g`, with `s = stackReg - MIN_REG` stack
registers in use, the call of the procedure named in `c0` with the argument list
`c2` returns register 3 and the state `p.2`, whose counters are those of `g`, and
it wrote the lines `frameSave R s`, the lines `mid` of the arguments, the lines
`callLines` and the lines `frameRestore R s`.  Without arguments `mid` is empty;
with arguments it is what `generate_args` wrote from the state after the save,
then `dropArgs`. -/
def CallFrame (R : Regs) (fuel : Nat) (table : ProcData) (c0 c2 : Node) (g : Gen)
    (p : Int × Gen) : Prop :=
  ∃ (s : Nat) (mid : List String),
    g.stackReg = R.MIN_REG + (s : Int) ∧
    p.1 = 3 ∧ p.2.stackReg = g.stackReg ∧ p.2.stacked = g.stacked ∧
    p.2.out = g.out ++ frameSave R s ++ mid ++
      callLines (WLP4ParseTree.secondWord c0.seq) ++ frameRestore R s ∧
    (c2.kind ≠ "arglist" → mid = []) ∧
    (c2.kind = "arglist" → ∃ (argc : Int) (ga : Gen) (argLines : List String),
      generate_args fuel R table c2 1 { g with out := g.out ++ frameSave R s } =
        .ok (argc, ga) ∧
      ga.out = g.out ++ frameSave R s ++ argLines ∧ mid = argLines ++ dropArgs argc)

end WLP4Gen

end WLP4

namespace WLP4

namespace WLP4Gen

/-- The number that a list of decimal digits denotes. -/
def decimalValue (cs : List Char) : Nat := cs.foldl (fun acc c => acc * 10 + (c.toNat - 48)) 0

/-- The labels that `generate_stmt` defines: the two of an `if`, the two of a
`while` and the one of a `delete`. -/
inductive LabelKind where
  | ifFalse
  | ifTrue
  | whileBody
  | whileEnd
  | delete
  deriving DecidableEq, Repr

/-- The static counter that numbers the labels of a kind. -/
def counter (g : Gen) : LabelKind → Nat
  | .ifFalse => g.ifC
  | .ifTrue => g.ifC
  | .whileBody => g.whileC
  | .whileEnd => g.whileC
  | .delete => g.deleteC

/-- The line that defines the label of kind `k.2` numbered `k.1` in the procedure
`id`, as `generate_stmt` writes it. -/
def render (id : String) (k : Nat × LabelKind) : String :=
  match k.2 with
  | .ifFalse => id ++ toString k.1 ++ "IFELSE" ++ "FALSE:"
  | .ifTrue => id ++ toString k.1 ++ "IFELSE" ++ "TRUE:"
  | .whileBody => id ++ toString k.1 ++ "WHILE" ++ "BODY:"
  | .whileEnd => id ++ toString k.1 ++ "WHILE" ++ "END:"
  | .delete => id ++ toString k.1 ++ "DELETE" ++ ":"

/-- The text of a label after the name of the procedure and the number. -/
def suffix : LabelKind → List Char
  | .ifFalse => "IFELSEFALSE:".data
  | .ifTrue => "IFELSETRUE:".data
  | .whileBody => "WHILEBODY:".data
  | .whileEnd => "WHILEEND:".data
  | .delete => "DELETE:".data

/-- A line of the output defines a label: it is not empty and does not start with
a tab.  Every instruction, directive and comment that the generator writes starts
with a tab. -/
def isLabelLine (l : String) : Bool :=
  match l.data with
  | [] => false
  | c :: _ => c != '\t'

/-- The lines of the output that define labels. -/
def labelLines (ls : List String) : List String := ls.filter isLabelLine

/-- The text starts with a tab. -/
def Tabbed (s : String) : Prop := s.data.head? = some '\t'

instance (s : String) : Decidable (Tabbed s) := by
  unfold Tabbed
  infer_instance

/-- The state `b` comes from `a` by writing lines that define no label, with the
counters of the labels unchanged. -/
def Quiet (a b : Gen) : Prop :=
  (∃ more, b.out = a.out ++ more ∧ labelLines more = []) ∧
  b.ifC = a.ifC ∧ b.whileC = a.whileC ∧ b.deleteC = a.deleteC

/-- From `g` to `g1` no label was defined. -/
@[reducible] def Quietly (g g1 : Gen) : Prop := ∀ base, Quiet base g → Quiet base g1

/-- The generator functions below the statements define no label. -/
def AllQuiet (fuel : Nat) : Prop :=
  (∀ R table node g, Post (Quietly g) (generate_test fuel R table node g)) ∧
  (∀ R table node g, Post (fun p => Quietly g p.2) (generate_expr fuel R table node g)) ∧
  (∀ R table node g, Post (fun p => Quietly g p.2) (generate_term fuel R table node g)) ∧
  (∀ R table node g, Post (fun p => Quietly g p.2) (generate_factor fuel R table node g)) ∧
  (∀ R table node i g, Post (fun p => Quietly g p.2) (generate_args fuel R table node i g))

/-- The state `b` comes from `a` by writing lines whose label definitions are those
of `keys`, in the procedure `id`: the keys are pairwise distinct, no counter went
down, and the number of each key lies between the value of its counter in `a` and
the value in `b`. -/
def LabelsFrom (id : String) (a b : Gen) (keys : List (Nat × LabelKind)) : Prop :=
  (∃ more, b.out = a.out ++ more ∧ labelLines more = labelLines (keys.map (render id))) ∧
  (∀ kind, counter a kind ≤ counter b kind) ∧
  keys.Nodup ∧
  ∀ k ∈ keys, counter a k.2 ≤ k.1 ∧ k.1 < counter b k.2

/-- The labels defined from `a` to `b` are numbered apart. -/
def Labelled (id : String) (a b : Gen) : Prop := ∃ keys, LabelsFrom id a b keys

end WLP4Gen

end WLP4

namespace WLP4

namespace WLP4Gen

/-- The tree of the test `l < r`. -/
def ltTest (l r : Node) : Node :=
  WLP4ParseTree.rule "test" "expr LT expr" "" [l, WLP4ParseTree.tok "LT" "<" "", r]

/-- The tree of an empty list of statements. -/
def noStmts : Node := WLP4ParseTree.rule "statements" ".EMPTY" "" []

/-- The tree of the statements `ss` followed by the statement `s`. -/
def stmtsThen (ss s : Node) : Node :=
  WLP4ParseTree.rule "statements" "statements statement" "" [ss, s]

/-- The tree of `if (t) \x7b a \x7d else \x7b b \x7d`. -/
def ifStmt (t a b : Node) : Node :=
  WLP4ParseTree.rule "statement"
    "IF LPAREN test RPAREN LBRACE statements RBRACE ELSE LBRACE statements RBRACE" ""
    [WLP4ParseTree.tok "IF" "if" "", WLP4ParseTree.tok "LPAREN" "(" "", t,
     WLP4ParseTree.tok "RPAREN" ")" "", WLP4ParseTree.tok "LBRACE" "\x7b" "", a,
     WLP4ParseTree.tok "RBRACE" "\x7d" "", WLP4ParseTree.tok "ELSE" "else" "",
     WLP4ParseTree.tok "LBRACE" "\x7b" "", b, WLP4ParseTree.tok "RBRACE" "\x7d" ""]

/-- The tree of `while (t) \x7b b \x7d`. -/
def whileStmt (t b : Node) : Node :=
  WLP4ParseTree.rule "statement" "WHILE LPAREN test RPAREN LBRACE statements RBRACE" ""
    [WLP4ParseTree.tok "WHILE" "while" "", WLP4ParseTree.tok "LPAREN" "(" "", t,
     WLP4ParseTree.tok "RPAREN" ")" "", WLP4ParseTree.tok "LBRACE" "\x7b" "", b,
     WLP4ParseTree.tok "RBRACE" "\x7d" ""]

/-- The tree of the procedure `int name(int param) \x7b stmts return ret; \x7d`; the
declaration of the parameter is `d`. -/
def procWith (name : String) (d stmts ret : Node) : Node :=
  WLP4ParseTree.rule "procedure"
    "INT ID LPAREN params RPAREN LBRACE dcls statements RETURN expr SEMI RBRACE" ""
    [WLP4ParseTree.tok "INT" "int" "", WLP4ParseTree.tok "ID" name "",
     WLP4ParseTree.tok "LPAREN" "(" "",
     WLP4ParseTree.rule "params" "paramlist" "" [WLP4ParseTree.rule "paramlist" "dcl" "" [d]],
     WLP4ParseTree.tok "RPAREN" ")" "", WLP4ParseTree.tok "LBRACE" "\x7b" "",
     WLP4ParseTree.rule "dcls" ".EMPTY" "" [], stmts,
     WLP4ParseTree.tok "RETURN" "return" "", ret, WLP4ParseTree.tok "SEMI" ";" "",
     WLP4ParseTree.tok "RBRACE" "\x7d" ""]

/-- The tree of a variable used as an expression, before it is annotated. -/
def untypedVar (x : String) : Node :=
  WLP4ParseTree.rule "expr" "term" ""
    [WLP4ParseTree.rule "term" "factor" ""
       [WLP4ParseTree.rule "factor" "ID" "" [WLP4ParseTree.tok "ID" x ""]]]

/-- The tree of a program of two procedures followed by `main`. -/
def programOf3 (p1 p2 main : Node) : Node :=
  WLP4ParseTree.rule "start" "BOF procedures EOF" ""
    [WLP4ParseTree.tok "BOF" "BOF" "",
     WLP4ParseTree.rule "procedures" "procedure procedures" ""
       [p1, WLP4ParseTree.rule "procedures" "procedure procedures" ""
         [p2, WLP4ParseTree.rule "procedures" "main" "" [main]]],
     WLP4ParseTree.tok "EOF" "EOF" ""]

/-- The parse tree of the program
`int Fa(int x) \x7b if (x < x) \x7b\x7d else \x7b\x7d return x; \x7d`
`int a0IFELSEFALSE(int y) \x7b return y; \x7d`
`int wain(int a, int b) \x7b return a; \x7d`. -/
def labelClashSource : Node :=
  programOf3
    (procWith "Fa" (untypedDcl "x")
      (stmtsThen noStmts (ifStmt (ltTest (untypedVar "x") (untypedVar "x")) noStmts noStmts))
      (untypedVar "x"))
    (procWith "a0IFELSEFALSE" (untypedDcl "y") noStmts (untypedVar "y"))
    (WLP4ParseTree.rule "main"
      "INT WAIN LPAREN dcl COMMA dcl RPAREN LBRACE dcls statements RETURN expr SEMI RBRACE" ""
      [WLP4ParseTree.tok "INT" "int" "", WLP4ParseTree.tok "WAIN" "wain" "",
       WLP4ParseTree.tok "LPAREN" "(" "", untypedDcl "a", WLP4ParseTree.tok "COMMA" "," "",
       untypedDcl "b", WLP4ParseTree.tok "RPAREN" ")" "", WLP4ParseTree.tok "LBRACE" "\x7b" "",
       WLP4ParseTree.rule "dcls" ".EMPTY" "" [], noStmts,
       WLP4ParseTree.tok "RETURN" "return" "", untypedVar "a", WLP4ParseTree.tok "SEMI" ";" "",
       WLP4ParseTree.tok "RBRACE" "\x7d" ""])

end WLP4Gen

end WLP4

namespace WLP4

namespace WLP4Gen

/-- The tree of the variable `x` of type int used as an expression. -/
def intVar (x : String) : Node := exprOfTerm (termOf (idFactor x))

/-- The annotated tree of the program of `labelClashSource`. -/
def labelClashTyped : Node :=
  programOf3
    (procWith "Fa" (typedDcl false "x")
      (stmtsThen noStmts (ifStmt (ltTest (intVar "x") (intVar "x")) noStmts noStmts))
      (intVar "x"))
    (procWith "a0IFELSEFALSE" (typedDcl false "y") noStmts (intVar "y"))
    (wainNode (typedDcl false "a") (typedDcl false "b") (WLP4ParseTree.rule "dcls" ".EMPTY" "" [])
      noStmts (intVar "a"))

/-- The statements
`while (a < b) \x7b if (a < b) \x7b\x7d else \x7b\x7d \x7d if (a < b) \x7b\x7d else \x7b\x7d`. -/
def nestedStmts : Node :=
  stmtsThen
    (stmtsThen noStmts
      (whileStmt (ltTest (intVar "a") (intVar "b"))
        (stmtsThen noStmts (ifStmt (ltTest (intVar "a") (intVar "b")) noStmts noStmts))))
    (ifStmt (ltTest (intVar "a") (intVar "b")) noStmts noStmts)

end WLP4Gen

end WLP4
/-! ## The node stack after the Accept stage -/

namespace WLP4

namespace WLP4Parser

/-- The node stack of `slr1` after the Accept stage, its `back()` at the head:
the stack the loop ends with, reduced once more for the token `.ACCEPT`.  The
tree printed is `nodeStack[0]`, the last element of this list. -/
def slr1Stack (T : Tables) (input : List Token) (steps : Nat) : Except ParseError (List Node) :=
  match input with
  | [] => .error .undefined
  | a0 :: _ => do
      let (nodeStack, stateStack) ←
        slrLoop T input steps 1 [Node.leaf a0] [transition T 0 a0.kind]
      let (nodeStack1, _) ← reduce T nodeStack stateStack ⟨".ACCEPT", ".ACCEPT"⟩
      .ok nodeStack1

/-- The element `nodeStack[0]` of a node stack kept with its `back()` at the head. -/
def bottomOf (nodeStack : List Node) : Except ParseError Node :=
  match nodeStack.getLast? with
  | some root => .ok root
  | none => .error .undefined

end WLP4Parser

end WLP4

namespace WLP4

namespace WLP4Gen

/-- The tree of the lvalue `(lv)`: `lvalue → LPAREN lvalue RPAREN`. -/
def parenLvalue (lv : Node) : Node :=
  WLP4ParseTree.rule "lvalue" "LPAREN lvalue RPAREN" lv.type
    [WLP4ParseTree.tok "LPAREN" "(" "", lv, WLP4ParseTree.tok "RPAREN" ")" ""]

/-- The tree of the statement `(x) = e;` for a variable `x` of type int. -/
def parenAssign (x : String) (e : Node) : Node :=
  WLP4ParseTree.rule "statement" "lvalue BECOMES expr SEMI" ""
    [parenLvalue (WLP4ParseTree.rule "lvalue" "ID" "int" [WLP4ParseTree.tok "ID" x "int"]),
     WLP4ParseTree.tok "BECOMES" "=" "", e, WLP4ParseTree.tok "SEMI" ";" ""]

/-- The tree of the factor `&(x)` for a variable `x` of type int. -/
def addressOf (x : String) : Node :=
  WLP4ParseTree.rule "factor" "AMP lvalue" "int*"
    [WLP4ParseTree.tok "AMP" "&" "",
     parenLvalue (WLP4ParseTree.rule "lvalue" "ID" "int" [WLP4ParseTree.tok "ID" x "int"])]

end WLP4Gen

end WLP4

/-! ## The type checker without the two checks on `wain` and on return expressions -/

namespace WLP4

namespace WLP4ParseTree

/-- The other checks of `annotate_proc`: the method as in the source but for the
two statements `if (...) throw TypeError(...)` that test the type of the second
parameter of `wain` and the type of the return expression, which are left out. -/
def otherChecks_proc : Nat → ProcTable → Node → Except Abort (Node × ProcTable)
  | 0, _, _ => .error .fuel
  | fuel + 1, ptable, node => do
      let isMain : Bool := node.kind = "main"
      let procID := secondWord (← child node 1).seq
      if ptable.count procID > 0 then
        throwTypeError ("Procedure " ++ procID ++ "is already declared.")
      else
        let ptable0 := ptable.set procID (ProcData.new procID)
        let (node1, ptable1, i) ←
          (if isMain then do
            let (dcl1, _, pt1) ← annotate_dcl ptable0 procID (← child node 3) none
            let (dcl2, _, pt2) ← annotate_dcl pt1 procID (← child node 5) none
            let _ ← dclType dcl2
            return ((node.setChild 3 dcl1).setChild 5 dcl2, pt2, 8)
          else do
            let (params, pt1) ← annotate_params fuel ptable0 procID (← child node 3)
            return (node.setChild 3 params, pt1, 6) : Except Abort (Node × ProcTable × Nat))
        let (dcls, ptable2) ← annotate_dcls fuel ptable1 procID (← child node i)
        let stmts ← annotate_stmts fuel ptable2 procID (← child node (i + 1))
        let expr ← annotate_expr fuel ptable2 procID (← child node (i + 3))
        return (((node1.setChild i dcls).setChild (i + 1) stmts).setChild (i + 3) expr, ptable2)

/-- The method `annotate_prog_level(node)` with `otherChecks_proc` for
`annotate_proc`. -/
def otherChecks_prog_level : Nat → ProcTable → Node → Except Abort (Node × ProcTable)
  | 0, _, _ => .error .fuel
  | fuel + 1, ptable, node => do
      if node.kind = "start" then
        let (sub, ptable1) ← otherChecks_prog_level fuel ptable (← child node 1)
        return (node.setChild 1 sub, ptable1)
      else if node.kind = "procedures" then
        let (proc, ptable1) ← otherChecks_proc fuel ptable (← child node 0)
        let node1 := node.setChild 0 proc
        if node.children.length > 1 then
          let (sub, ptable2) ← otherChecks_prog_level fuel ptable1 (← child node 1)
          return (node1.setChild 1 sub, ptable2)
        else return (node1, ptable1)
      else throwTypeError ("(FATAL) Not valid production rule - " ++ node.kind)

/-- All the checks of `annotate()` on the tree `root` except the two on the second
parameter of `wain` and on the return expressions: the annotated tree and the
procedure table of a program that passes them. -/
def otherChecks (root : Node) : Except Abort (Node × ProcTable) :=
  otherChecks_prog_level (height root + 1) [] root

/-- The type that the annotation gave to the second parameter of the `main` node
`p`: the type of the `ID` of the child 5, as `annotate_dcl` returns it. -/
def secondParamType (p : Node) : Except Abort String := do
  dclType (← child p 5)

/-- The type that the annotation gave to the return expression of the procedure
node `p`: the child 11 of a `main` node, the child 9 of a `procedure` node. -/
def returnType (p : Node) : Except Abort String := do
  return (← child p (if p.kind = "main" then 11 else 9)).type

/-- The annotated procedure node `p` passes the two checks: its return expression
has the type int and, for `main`, so has its second parameter. -/
def PassesTwo (p : Node) : Prop :=
  (p.kind = "main" → secondParamType p = .ok TYPE_INT) ∧ returnType p = .ok TYPE_INT

/-- The relation `Visited p n`: `p` is one of the procedure nodes that
`annotate_prog_level` hands to `annotate_proc` on the tree `n`: under a `start`
node those of its child 1, under a `procedures` node its child 0 and, when the
node has more than one child, those of its child 1. -/
inductive Visited : Node → Node → Prop where
  | start (p n c : Node) : n.kind = "start" → child n 1 = .ok c → Visited p c → Visited p n
  | here (p n : Node) : n.kind = "procedures" → child n 0 = .ok p → Visited p n
  | there (p n c : Node) : n.kind = "procedures" → n.children.length > 1 →
      child n 1 = .ok c → Visited p c → Visited p n

/-- The outcome `x` of the type checker is one of the two errors "The second
parameter of wain is not int type." and "The return expression of [q] is not int
type." for a procedure name `q`. -/
def RejectedByTwo (x : Except Abort (Node × ProcTable)) : Prop :=
  x = throwTypeError "The second parameter of wain is not int type." ∨
  ∃ q : String, x = throwTypeError ("The return expression of [" ++ q ++ "] is not int type.")

end WLP4ParseTree

end WLP4

/-! ## Vocabulary for what the annotation changes in a tree -/

namespace WLP4

namespace WLP4ParseTree

/-- The relation `Retyped n n1`: the tree `n1` is the tree `n` but for type tags:
it is obtained from `n` by steps that replace a child by a retyped version of it,
or that give the type int or int* to a node that has children or is a `NUM`, `NULL`
or `ID` token. -/
inductive Retyped : Node → Node → Prop where
  | same (n : Node) : Retyped n n
  | step (a b c : Node) : Retyped a b → Retyped b c → Retyped a c
  | child (n c x : Node) (i : Nat) : child n i = .ok c → Retyped c x →
      Retyped n (n.setChild i x)
  | type (n : Node) (t : String) : IsType t →
      (n.children ≠ [] ∨ n.kind = "NUM" ∨ n.kind = "NULL" ∨ n.kind = "ID") →
      Retyped n (n.setType t)

/-- Every result of the computation has the property `P`. -/
structure Gives {β : Type} (P : β → Prop) (x : Except Abort β) : Prop where
  value : ∀ v, x = .ok v → P v

/-- The expression annotators return a retyped tree that carries a type int or
int*, at one recursion depth. -/
def ExprRetyped (fuel : Nat) : Prop :=
  ∀ (ptable : ProcTable) (cur : String), TableOK (ptable.get cur) →
    (∀ n, Gives (fun n1 => Retyped n n1 ∧ IsType n1.type) (annotate_expr fuel ptable cur n)) ∧
    (∀ n, Gives (fun n1 => Retyped n n1 ∧ IsType n1.type) (annotate_term fuel ptable cur n)) ∧
    (∀ n, Gives (fun n1 => Retyped n n1 ∧ IsType n1.type)
      (annotate_factor fuel ptable cur n)) ∧
    (∀ n, Gives (fun n1 => Retyped n n1 ∧ IsType n1.type)
      (annotate_lvalue fuel ptable cur n)) ∧
    (∀ n callTable idx, Gives (Retyped n) (annotate_args fuel ptable cur n callTable idx))

/-- The statement annotators return a retyped tree, at one recursion depth. -/
def StmtRetyped (fuel : Nat) : Prop :=
  ∀ (ptable : ProcTable) (cur : String), TableOK (ptable.get cur) →
    (∀ n, Gives (Retyped n) (annotate_stmts fuel ptable cur n)) ∧
    (∀ n, Gives (Retyped n) (annotate_stmt fuel ptable cur n))

end WLP4ParseTree

end WLP4


namespace WLP4

namespace WLP4Scanner

/-- The constructor `WLP4Scanner()` builds the automaton `table`. -/
theorem new_table : WLP4Scanner.new = table := by decide

theorem new_start : WLP4Scanner.new.start = "_START" := by
  rw [new_table]
  rfl

end WLP4Scanner

end WLP4

/-! # Theorems -/

/-! ## 64-bit machine integers -/

theorem toS64_of_lt (n : Nat) (h : n < 2 ^ 63) : toS64 n = (n : Int) := by
  unfold toS64
  have h1 : n % 2 ^ 64 = n := Nat.mod_eq_of_lt (by omega)
  rw [h1, if_pos h]

theorem wrap64_of_range (x : Int) (h0 : -2 ^ 63 ≤ x) (h1 : x < 2 ^ 63) : wrap64 x = x := by
  unfold wrap64 toS64 toU64
  have e : (2:Int) ^ 64 = 18446744073709551616 := by norm_num
  have e' : (2:Nat) ^ 64 = 18446744073709551616 := by norm_num
  have e2 : (2:Int) ^ 63 = 9223372036854775808 := by norm_num
  have e2' : (2:Nat) ^ 63 = 9223372036854775808 := by norm_num
  rw [e, e2] at *
  rw [e', e2']
  split <;> omega

theorem toU64_of_nonneg (x : Int) (h0 : 0 ≤ x) (h1 : x < 2 ^ 63) : ((toU64 x : Nat) : Int) = x := by
  unfold toU64
  have e : (2:Int) ^ 64 = 18446744073709551616 := by norm_num
  have e2 : (2:Int) ^ 63 = 9223372036854775808 := by norm_num
  rw [e]
  rw [e2] at h1
  omega

theorem toU64_natCast (n : Nat) (h : n < 2 ^ 63) : toU64 (n : Int) = n := by
  have := toU64_of_nonneg (n : Int) (by omega) (by exact_mod_cast h)
  exact_mod_cast this

theorem pow_le_pow_63 (w : Nat) (h : w ≤ 62) : (2:Nat) ^ w ≤ 2 ^ 62 :=
  Nat.pow_le_pow_right (by norm_num) h

/-- Masking with `2^w - 1` keeps the low `w` bits: the value modulo `2^w`. -/
theorem and64_mask (v : Int) (w : Nat) (hw : w ≤ 62) :
    and64 v (2 ^ w - 1) = v % 2 ^ w := by
  unfold and64
  have hp := pow_le_pow_63 w hw
  have hpos : 0 < 2 ^ w := Nat.pow_pos (by norm_num)
  have hm : toU64 ((2:Int) ^ w - 1) = 2 ^ w - 1 := by
    have h1 : ((2:Int) ^ w - 1) = ((2 ^ w - 1 : Nat) : Int) := by
      rw [Nat.cast_sub hpos]; norm_num
    rw [h1]
    apply toU64_natCast
    have : (2:Nat) ^ 62 < 2 ^ 63 := by norm_num
    omega
  rw [hm, Nat.and_pow_two_sub_one_eq_mod]
  have hlt : toU64 v % 2 ^ w < 2 ^ w := Nat.mod_lt _ hpos
  rw [toS64_of_lt _ (by have : (2:Nat) ^ 62 < 2 ^ 63 := by norm_num
                        omega)]
  unfold toU64
  have hnn : 0 ≤ v % 2 ^ 64 := Int.emod_nonneg _ (by norm_num)
  rw [Int.natCast_mod, Int.toNat_of_nonneg hnn]
  have hd : ((2:Int) ^ w) ∣ 2 ^ 64 := pow_dvd_pow 2 (by omega)
  have := Int.emod_emod_of_dvd v hd
  simpa using this

namespace Assembler

theorem buildMask_eq (n : Nat) : ∀ m : Int, 0 ≤ m → (m + 1) * 2 ^ n ≤ 2 ^ 63 →
    buildMask n m = (m + 1) * 2 ^ n - 1 := by
  induction n with
  | zero => intro m _ _; simp [buildMask]
  | succ n ih =>
      intro m h0 h1
      have hpow : (1:Int) ≤ 2 ^ n := one_le_pow₀ (by norm_num)
      have hb : (m + 1) * 2 ≤ 2 ^ 63 := by
        calc (m + 1) * 2 = (m + 1) * 2 * 1 := by ring
          _ ≤ (m + 1) * 2 * 2 ^ n := by
              apply mul_le_mul_of_nonneg_left hpow; omega
          _ = (m + 1) * 2 ^ (n + 1) := by ring
          _ ≤ 2 ^ 63 := h1
      have hs : shl64 m 1 = m * 2 := by
        unfold shl64
        rw [wrap64_of_range] <;> norm_num at hb ⊢ <;> omega
      rw [buildMask, hs, ih (m * 2 + 1) (by omega)]
      · ring
      · calc (m * 2 + 1 + 1) * 2 ^ n = (m + 1) * 2 ^ (n + 1) := by ring
          _ ≤ 2 ^ 63 := h1

theorem buildMask_zero (w : Nat) (hw : w ≤ 62) : buildMask w 0 = 2 ^ w - 1 := by
  rw [buildMask_eq w 0 (le_refl _)]
  · ring
  · have : (2:Int) ^ w ≤ 2 ^ 62 := by exact_mod_cast pow_le_pow_63 w hw
    norm_num at this ⊢
    omega

theorem shr64_mask (w : Nat) (hw : 1 ≤ w) : shr64 (2 ^ w - 1) 1 + 1 = 2 ^ (w - 1) := by
  unfold shr64
  obtain ⟨k, rfl⟩ : ∃ k, w = k + 1 := ⟨w - 1, by omega⟩
  simp only [Nat.add_sub_cancel, pow_one]
  have : (2:Int) ^ (k + 1) = 2 * 2 ^ k := by ring
  rw [this]
  omega

/-- The range check of `buildImmediate` on a numeric token, in closed form. -/
theorem buildImmediate_numeric_eq (toNumber : Token → Int) (self : Assembler) (tok : Token)
    (w : Nat) (hk : tok.kind ≠ .ID) (hw1 : 1 ≤ w) (hw2 : w ≤ 62)
    (hlo : -2 ^ 63 < toNumber tok) (hhi : toNumber tok < 2 ^ 63) :
    buildImmediate toNumber self tok w =
      if toNumber tok < 0 ∧ -toNumber tok > 2 ^ (w - 1) then
        .error (AssemblerException.new .OutOfBoundsImm tok.lexeme)
      else if toNumber tok > 2 ^ w - 1 then
        .error (AssemblerException.new .OutOfBoundsImm tok.lexeme)
      else .ok (toNumber tok % 2 ^ w) := by
  have hneg : sub64 0 (toNumber tok) = -toNumber tok := by
    unfold sub64
    rw [wrap64_of_range] <;> omega
  unfold buildImmediate
  simp only [hk, false_and, if_false, ne_eq, not_false_eq_true, if_true,
    buildMask_zero w hw2, shr64_mask w hw1, hneg, and64_mask _ w hw2]

theorem buildImmediate_numeric_ok (toNumber : Token → Int) (self : Assembler) (tok : Token)
    (w : Nat) (hk : tok.kind ≠ .ID) (hw1 : 1 ≤ w) (hw2 : w ≤ 62)
    (h1 : -2 ^ (w - 1) ≤ toNumber tok) (h2 : toNumber tok ≤ 2 ^ w - 1) :
    buildImmediate toNumber self tok w = .ok (toNumber tok % 2 ^ w) := by
  have hp : (0:Int) < 2 ^ (w - 1) := by positivity
  have hq : (2:Int) ^ (w - 1) ≤ 2 ^ 62 := by
    exact_mod_cast pow_le_pow_63 (w - 1) (by omega)
  have hq2 : (2:Int) ^ w ≤ 2 ^ 62 := by exact_mod_cast pow_le_pow_63 w hw2
  have e62 : (2:Int) ^ 62 = 4611686018427387904 := by norm_num
  have e63 : (2:Int) ^ 63 = 9223372036854775808 := by norm_num
  rw [buildImmediate_numeric_eq toNumber self tok w hk hw1 hw2 (by omega) (by omega),
    if_neg (by omega), if_neg (by omega)]

/-- C3. For a numeric (non-label) immediate token of value `v` and declared width
`w`, `buildImmediate` succeeds exactly when `-2^(w-1) <= v <= 2^w - 1` and then
returns `v mod 2^w`; every other value fails with `OutOfBoundsImm`.  (`v` is an
`int64_t` whose negation does not overflow; the widths in use are 16 and 32.) -/
theorem buildImmediate_numeric (toNumber : Token → Int) (self : Assembler) (tok : Token)
    (w : Nat) (hk : tok.kind ≠ .ID) (hw1 : 1 ≤ w) (hw2 : w ≤ 62)
    (hlo : -2 ^ 63 < toNumber tok) (hhi : toNumber tok < 2 ^ 63) :
    (-2 ^ (w - 1) ≤ toNumber tok ∧ toNumber tok ≤ 2 ^ w - 1 →
        buildImmediate toNumber self tok w = .ok (toNumber tok % 2 ^ w)) ∧
    (¬ (-2 ^ (w - 1) ≤ toNumber tok ∧ toNumber tok ≤ 2 ^ w - 1) →
        buildImmediate toNumber self tok w =
          .error (AssemblerException.new .OutOfBoundsImm tok.lexeme)) := by
  have hp : (0:Int) < 2 ^ (w - 1) := by positivity
  have hp2 : (0:Int) < 2 ^ w := by positivity
  rw [buildImmediate_numeric_eq toNumber self tok w hk hw1 hw2 hlo hhi]
  constructor
  · rintro ⟨h1, h2⟩
    rw [if_neg (by omega), if_neg (by omega)]
  · intro h
    by_cases h1 : toNumber tok < 0 ∧ -toNumber tok > 2 ^ (w - 1)
    · rw [if_pos h1]
    · rw [if_neg h1, if_pos]
      by_contra h2
      apply h
      constructor <;> omega

end Assembler

theorem fields_or (H s t L : Nat) (hs : s < 32) (ht : t < 32) (hL : L < 2 ^ 16) :
    2 ^ 26 * H ||| (2 ^ 21 * s ||| (2 ^ 16 * t ||| L)) =
      2 ^ 26 * H + 2 ^ 21 * s + 2 ^ 16 * t + L := by
  have h1 : 2 ^ 16 * t ||| L = 2 ^ 16 * t + L := (Nat.mul_add_lt_is_or hL t).symm
  have h2 : 2 ^ 21 * s ||| (2 ^ 16 * t + L) = 2 ^ 21 * s + (2 ^ 16 * t + L) :=
    (Nat.mul_add_lt_is_or (by omega) s).symm
  have h3 : 2 ^ 26 * H ||| (2 ^ 21 * s + (2 ^ 16 * t + L)) =
      2 ^ 26 * H + (2 ^ 21 * s + (2 ^ 16 * t + L)) :=
    (Nat.mul_add_lt_is_or (by omega) H).symm
  rw [h1, h2, h3]
  omega

theorem or64_natCast (x y : Nat) (hx : x < 2 ^ 63) (hy : y < 2 ^ 63) :
    or64 (x : Int) (y : Int) = ((x ||| y : Nat) : Int) := by
  unfold or64
  rw [toU64_natCast x hx, toU64_natCast y hy, toS64_of_lt _ (Nat.or_lt_two_pow hx hy)]

namespace Assembler

theorem buildToken_reg (toNumber : Token → Int) (self : Assembler) (tok : Token) (offset : Nat)
    (n : Nat) (hk : tok.kind = .REG) (hn : toNumber tok = (n : Int)) (h31 : n < 32)
    (hoff : offset ≤ 26) :
    buildToken toNumber self tok .REG offset = .ok ((2 ^ offset * n : Nat) : Int) := by
  have hpow : (2:Nat) ^ offset ≤ 2 ^ 26 := Nat.pow_le_pow_right (by norm_num) hoff
  have hmul : 2 ^ offset * n < 2 ^ 63 := by
    calc 2 ^ offset * n ≤ 2 ^ 26 * n := Nat.mul_le_mul_right n hpow
      _ < 2 ^ 63 := by omega
  have hs : shl64 (n : Int) offset = ((2 ^ offset * n : Nat) : Int) := by
    unfold shl64
    have e : (n : Int) * 2 ^ offset = ((2 ^ offset * n : Nat) : Int) := by push_cast; ring
    rw [e, wrap64_of_range]
    · have h0 : (0:Int) ≤ ((2 ^ offset * n : Nat) : Int) := Int.natCast_nonneg _
      have h1 : -(2:Int) ^ 63 ≤ 0 := by norm_num
      exact le_trans h1 h0
    · exact_mod_cast hmul
  simp only [buildToken, buildRegister, hk, hn, ne_eq, not_true_eq_false, false_and, if_false]
  rw [if_neg (by omega)]
  simp [Except.map, hs]

theorem buildToken_sep (toNumber : Token → Int) (self : Assembler) (tok : Token)
    (kind : Token.Kind) (offset : Nat) (hk : tok.kind = kind)
    (hs : kind = .COMMA ∨ kind = .LPAREN ∨ kind = .RPAREN) :
    buildToken toNumber self tok kind offset = .ok 0 := by
  subst hk
  rcases hs with h | h | h <;> simp [buildToken, h]

theorem buildToken_imm (toNumber : Token → Int) (self : Assembler) (tok : Token) (offset : Nat)
    (hk : tok.kind = .INT ∨ tok.kind = .HEXINT ∨ tok.kind = .ID) :
    buildToken toNumber self tok .INT offset = buildImmediate toNumber self tok offset := by
  rcases hk with h | h | h <;> simp [buildToken, h]

theorem getElem?_append_cons {α : Type} (pre : List α) (x : α) (rest : List α) :
    (pre ++ x :: rest)[pre.length]? = some x := by
  rw [List.getElem?_append_right (le_refl _)]
  simp

theorem buildInstruction_try_eq (toNumber : Token → Int) (self : Assembler) (pre : List Token)
    (op : Token) (rest : List Token) (hop : op.kind = .WORD ∨ op.kind = .ID)
    (hne : setupFormat (getOpType op.lexeme) ≠ [])
    (hlen : rest.length = (setupFormat (getOpType op.lexeme)).length) :
    buildInstruction_try toNumber self (pre ++ op :: rest) pre.length =
      buildInstruction_loop toNumber self (setupFormat (getOpType op.lexeme)) rest
        (setupTemplate (getOpType op.lexeme)) := by
  unfold buildInstruction_try
  rw [getElem?_append_cons]
  simp only [hop, if_true, setupInstruction, List.nil_append, List.isEmpty_iff, hne, if_false,
    List.length_append, List.length_cons, hlen]
  rw [if_neg (by omega), if_neg (by omega)]
  congr 1
  simp

theorem buildInstruction_ok (toNumber : Token → Int) (self : Assembler) (tokLine : List Token)
    (i : Nat) (w : Int) (h : buildInstruction_try toNumber self tokLine i = .ok w) :
    buildInstruction toNumber self tokLine i = .ok w := by
  simp [buildInstruction, h]

end Assembler

theorem or64_small (x y : Nat) (hx : x < 2 ^ 32) (hy : y < 2 ^ 32) :
    or64 (x : Int) (y : Int) = ((x ||| y : Nat) : Int) ∧ (x ||| y) < 2 ^ 32 :=
  ⟨or64_natCast x y (by omega) (by omega), Nat.or_lt_two_pow hx hy⟩

theorem or64_foldl (xs : List Nat) : ∀ T : Nat, T < 2 ^ 32 → (∀ x ∈ xs, x < 2 ^ 32) →
    xs.foldl (fun (acc : Int) (x : Nat) => or64 acc (x : Int)) (T : Int) =
      ((xs.foldl (fun a x => a ||| x) T : Nat) : Int) := by
  induction xs with
  | nil => intro T _ _; rfl
  | cons x xs ih =>
      intro T hT hxs
      obtain ⟨e, hb⟩ := or64_small T x hT (hxs x (List.mem_cons_self _ _))
      simp only [List.foldl_cons, e]
      exact ih _ hb (fun y hy => hxs y (List.mem_cons_of_mem _ hy))

/-- Encoding of `op $d, $s, $t`: template, then `d << 11`, `s << 21`, `t << 16`. -/
theorem enc_dst (T d s t : Nat) (hT : T < 2 ^ 11) (hd : d < 32) (hs : s < 32) (ht : t < 32) :
    or64 (or64 (or64 (or64 (or64 (T : Int) ((2 ^ 11 * d : Nat) : Int)) 0)
      ((2 ^ 21 * s : Nat) : Int)) 0) ((2 ^ 16 * t : Nat) : Int) =
      (T : Int) + d * 2 ^ 11 + s * 2 ^ 21 + t * 2 ^ 16 := by
  have h := or64_foldl [2 ^ 11 * d, 0, 2 ^ 21 * s, 0, 2 ^ 16 * t] T (by omega)
    (by simp only [List.mem_cons, List.mem_singleton, List.mem_nil_iff, or_false]
        rintro x (rfl | rfl | rfl | rfl | rfl) <;> omega)
  simp only [List.foldl_cons, List.foldl_nil, Nat.cast_zero, Nat.or_zero] at h
  rw [h]
  have e1 : 2 ^ 11 * d ||| T = 2 ^ 11 * d + T := (Nat.mul_add_lt_is_or hT d).symm
  have e2 := fields_or 0 s t (2 ^ 11 * d ||| T) hs ht (by omega)
  have e3 : T ||| 2 ^ 11 * d ||| 2 ^ 21 * s ||| 2 ^ 16 * t =
      2 ^ 26 * 0 ||| (2 ^ 21 * s ||| (2 ^ 16 * t ||| (2 ^ 11 * d ||| T))) := by
    simp only [Nat.mul_zero, Nat.zero_or]
    ac_rfl
  rw [e3, e2, e1]
  push_cast
  ring

/-- Encoding of `op $s, $t`: template, then `s << 21`, `t << 16`. -/
theorem enc_st (T s t : Nat) (hT : T < 2 ^ 11) (hs : s < 32) (ht : t < 32) :
    or64 (or64 (or64 (T : Int) ((2 ^ 21 * s : Nat) : Int)) 0) ((2 ^ 16 * t : Nat) : Int) =
      (T : Int) + s * 2 ^ 21 + t * 2 ^ 16 := by
  have h := or64_foldl [2 ^ 21 * s, 0, 2 ^ 16 * t] T (by omega)
    (by simp only [List.mem_cons, List.mem_singleton, List.mem_nil_iff, or_false]
        rintro x (rfl | rfl | rfl) <;> omega)
  simp only [List.foldl_cons, List.foldl_nil, Nat.cast_zero, Nat.or_zero] at h
  rw [h]
  have e2 := fields_or 0 s t T hs ht (by omega)
  have e3 : T ||| 2 ^ 21 * s ||| 2 ^ 16 * t = 2 ^ 26 * 0 ||| (2 ^ 21 * s ||| (2 ^ 16 * t ||| T)) := by
    simp only [Nat.mul_zero, Nat.zero_or]
    ac_rfl
  rw [e3, e2]
  push_cast
  ring

/-- Encoding of a one-register instruction: template, then the register at `k`. -/
theorem enc_one (T r k : Nat) (hT : T < 2 ^ 11) (hr : r < 32) (hk : k = 11 ∨ k = 21) :
    or64 (T : Int) ((2 ^ k * r : Nat) : Int) = (T : Int) + r * 2 ^ k := by
  have hb : 2 ^ k * r < 2 ^ 32 := by rcases hk with rfl | rfl <;> omega
  rw [(or64_small T (2 ^ k * r) (by omega) hb).1]
  have hT' : T < 2 ^ k := by rcases hk with rfl | rfl <;> omega
  rw [Nat.lor_comm, ← Nat.mul_add_lt_is_or hT' r]
  push_cast
  ring

namespace Assembler

theorem loop_nil (toNumber : Token → Int) (self : Assembler) (toks : List Token) (inst : Int) :
    buildInstruction_loop toNumber self [] toks inst = .ok inst := by
  cases toks <;> rfl

theorem loop_cons (toNumber : Token → Int) (self : Assembler) (kind : Token.Kind) (offset : Nat)
    (format : List (Token.Kind × Nat)) (tok : Token) (toks : List Token) (inst v : Int)
    (h : buildToken toNumber self tok kind offset = .ok v) :
    buildInstruction_loop toNumber self ((kind, offset) :: format) (tok :: toks) inst =
      buildInstruction_loop toNumber self format toks (or64 inst v) := by
  simp [buildInstruction_loop, h]

theorem IsReg.nat {toNumber : Token → Int} {tok : Token} (h : IsReg toNumber tok) :
    ∃ n : Nat, toNumber tok = (n : Int) ∧ n < 32 := by
  obtain ⟨_, h0, h1⟩ := h
  obtain ⟨n, hn⟩ := Int.eq_ofNat_of_zero_le h0
  exact ⟨n, hn, by omega⟩

end Assembler

namespace Assembler

/-- C4. Every register-only instruction with register numbers in `[0, 31]`
assembles to `template + d*2^11 + s*2^21 + t*2^16`, with the operands placed as
in the table (absent operand fields are zero); `pre` holds the tokens of the
line before the opcode. -/
theorem registerOnly_encoding (toNumber : Token → Int) (self : Assembler) (pre : List Token) :
    (∀ name tmpl, (name, tmpl) ∈
        [("add", (0x20 : Int)), ("sub", 0x22), ("slt", 0x2a), ("sltu", 0x2b)] →
      ∀ d c1 s c2 t : Token, IsReg toNumber d → c1.kind = .COMMA → IsReg toNumber s →
        c2.kind = .COMMA → IsReg toNumber t →
        buildInstruction toNumber self (pre ++ [⟨.ID, name⟩, d, c1, s, c2, t]) pre.length =
          .ok (tmpl + toNumber d * 2 ^ 11 + toNumber s * 2 ^ 21 + toNumber t * 2 ^ 16)) ∧
    (∀ name tmpl, (name, tmpl) ∈
        [("mult", (0x18 : Int)), ("multu", 0x19), ("div", 0x1a), ("divu", 0x1b)] →
      ∀ s c t : Token, IsReg toNumber s → c.kind = .COMMA → IsReg toNumber t →
        buildInstruction toNumber self (pre ++ [⟨.ID, name⟩, s, c, t]) pre.length =
          .ok (tmpl + toNumber s * 2 ^ 21 + toNumber t * 2 ^ 16)) ∧
    (∀ name tmpl, (name, tmpl) ∈ [("mfhi", (0x10 : Int)), ("mflo", 0x12), ("lis", 0x14)] →
      ∀ d : Token, IsReg toNumber d →
        buildInstruction toNumber self (pre ++ [⟨.ID, name⟩, d]) pre.length =
          .ok (tmpl + toNumber d * 2 ^ 11)) ∧
    (∀ name tmpl, (name, tmpl) ∈ [("jr", (0x08 : Int)), ("jalr", 0x09)] →
      ∀ s : Token, IsReg toNumber s →
        buildInstruction toNumber self (pre ++ [⟨.ID, name⟩, s]) pre.length =
          .ok (tmpl + toNumber s * 2 ^ 21)) := by
  refine ⟨?_, ?_, ?_, ?_⟩
  · intro name tmpl hmem d c1 s c2 t hd hc1 hs hc2 ht
    obtain ⟨dn, hdn, hd32⟩ := hd.nat
    obtain ⟨sn, hsn, hs32⟩ := hs.nat
    obtain ⟨tn, htn, ht32⟩ := ht.nat
    have bd := buildToken_reg toNumber self d 11 dn hd.1 hdn hd32 (by norm_num)
    have bs := buildToken_reg toNumber self s 21 sn hs.1 hsn hs32 (by norm_num)
    have bt := buildToken_reg toNumber self t 16 tn ht.1 htn ht32 (by norm_num)
    have b1 := buildToken_sep toNumber self c1 .COMMA 0 hc1 (Or.inl rfl)
    have b2 := buildToken_sep toNumber self c2 .COMMA 0 hc2 (Or.inl rfl)
    apply buildInstruction_ok
    simp only [List.mem_cons, List.mem_singleton, Prod.mk.injEq, List.mem_nil_iff, or_false] at hmem
    rcases hmem with ⟨rfl, rfl⟩ | ⟨rfl, rfl⟩ | ⟨rfl, rfl⟩ | ⟨rfl, rfl⟩ <;>
    · rw [buildInstruction_try_eq toNumber self pre _ _ (Or.inr rfl) (by decide) (by rfl)]
      simp only [getOpType, setupFormat, setupTemplate, String.reduceEq, if_false, if_true]
      rw [loop_cons _ _ _ _ _ _ _ _ _ bd, loop_cons _ _ _ _ _ _ _ _ _ b1,
        loop_cons _ _ _ _ _ _ _ _ _ bs, loop_cons _ _ _ _ _ _ _ _ _ b2,
        loop_cons _ _ _ _ _ _ _ _ _ bt, loop_nil, hdn, hsn, htn]
      first
        | exact congrArg Except.ok (enc_dst 0x20 dn sn tn (by norm_num) hd32 hs32 ht32)
        | exact congrArg Except.ok (enc_dst 0x22 dn sn tn (by norm_num) hd32 hs32 ht32)
        | exact congrArg Except.ok (enc_dst 0x2a dn sn tn (by norm_num) hd32 hs32 ht32)
        | exact congrArg Except.ok (enc_dst 0x2b dn sn tn (by norm_num) hd32 hs32 ht32)
  · intro name tmpl hmem s c t hs hc ht
    obtain ⟨sn, hsn, hs32⟩ := hs.nat
    obtain ⟨tn, htn, ht32⟩ := ht.nat
    have bs := buildToken_reg toNumber self s 21 sn hs.1 hsn hs32 (by norm_num)
    have bt := buildToken_reg toNumber self t 16 tn ht.1 htn ht32 (by norm_num)
    have b1 := buildToken_sep toNumber self c .COMMA 0 hc (Or.inl rfl)
    apply buildInstruction_ok
    simp only [List.mem_cons, List.mem_singleton, Prod.mk.injEq, List.mem_nil_iff, or_false] at hmem
    rcases hmem with ⟨rfl, rfl⟩ | ⟨rfl, rfl⟩ | ⟨rfl, rfl⟩ | ⟨rfl, rfl⟩ <;>
    · rw [buildInstruction_try_eq toNumber self pre _ _ (Or.inr rfl) (by decide) (by rfl)]
      simp only [getOpType, setupFormat, setupTemplate, String.reduceEq, if_false, if_true]
      rw [loop_cons _ _ _ _ _ _ _ _ _ bs, loop_cons _ _ _ _ _ _ _ _ _ b1,
        loop_cons _ _ _ _ _ _ _ _ _ bt, loop_nil, hsn, htn]
      first
        | exact congrArg Except.ok (enc_st 0x18 sn tn (by norm_num) hs32 ht32)
        | exact congrArg Except.ok (enc_st 0x19 sn tn (by norm_num) hs32 ht32)
        | exact congrArg Except.ok (enc_st 0x1a sn tn (by norm_num) hs32 ht32)
        | exact congrArg Except.ok (enc_st 0x1b sn tn (by norm_num) hs32 ht32)
  · intro name tmpl hmem d hd
    obtain ⟨dn, hdn, hd32⟩ := hd.nat
    have bd := buildToken_reg toNumber self d 11 dn hd.1 hdn hd32 (by norm_num)
    apply buildInstruction_ok
    simp only [List.mem_cons, List.mem_singleton, Prod.mk.injEq, List.mem_nil_iff, or_false] at hmem
    rcases hmem with ⟨rfl, rfl⟩ | ⟨rfl, rfl⟩ | ⟨rfl, rfl⟩ <;>
    · rw [buildInstruction_try_eq toNumber self pre _ _ (Or.inr rfl) (by decide) (by rfl)]
      simp only [getOpType, setupFormat, setupTemplate, String.reduceEq, if_false, if_true]
      rw [loop_cons _ _ _ _ _ _ _ _ _ bd, loop_nil, hdn]
      first
        | exact congrArg Except.ok (enc_one 0x10 dn 11 (by norm_num) hd32 (Or.inl rfl))
        | exact congrArg Except.ok (enc_one 0x12 dn 11 (by norm_num) hd32 (Or.inl rfl))
        | exact congrArg Except.ok (enc_one 0x14 dn 11 (by norm_num) hd32 (Or.inl rfl))
  · intro name tmpl hmem s hs
    obtain ⟨sn, hsn, hs32⟩ := hs.nat
    have bs := buildToken_reg toNumber self s 21 sn hs.1 hsn hs32 (by norm_num)
    apply buildInstruction_ok
    simp only [List.mem_cons, List.mem_singleton, Prod.mk.injEq, List.mem_nil_iff, or_false] at hmem
    rcases hmem with ⟨rfl, rfl⟩ | ⟨rfl, rfl⟩ <;>
    · rw [buildInstruction_try_eq toNumber self pre _ _ (Or.inr rfl) (by decide) (by rfl)]
      simp only [getOpType, setupFormat, setupTemplate, String.reduceEq, if_false, if_true]
      rw [loop_cons _ _ _ _ _ _ _ _ _ bs, loop_nil, hsn]
      first
        | exact congrArg Except.ok (enc_one 0x08 sn 21 (by norm_num) hs32 (Or.inr rfl))
        | exact congrArg Except.ok (enc_one 0x09 sn 21 (by norm_num) hs32 (Or.inr rfl))

end Assembler

/-- Encoding of `op $s, $t, i`: template `H << 26`, then `s << 21`, `t << 16`, `m`. -/
theorem enc_br (H s t m : Nat) (hH : H < 64) (hs : s < 32) (ht : t < 32) (hm : m < 2 ^ 16) :
    or64 (or64 (or64 (or64 (or64 ((2 ^ 26 * H : Nat) : Int) ((2 ^ 21 * s : Nat) : Int)) 0)
      ((2 ^ 16 * t : Nat) : Int)) 0) (m : Int) =
      ((2 ^ 26 * H : Nat) : Int) + s * 2 ^ 21 + t * 2 ^ 16 + m := by
  have h := or64_foldl [2 ^ 21 * s, 0, 2 ^ 16 * t, 0, m] (2 ^ 26 * H) (by omega)
    (by simp only [List.mem_cons, List.mem_singleton, List.mem_nil_iff, or_false]
        rintro x (rfl | rfl | rfl | rfl | rfl) <;> omega)
  simp only [List.foldl_cons, List.foldl_nil, Nat.cast_zero, Nat.or_zero] at h
  rw [h]
  have e2 := fields_or H s t m hs ht hm
  have e3 : 2 ^ 26 * H ||| 2 ^ 21 * s ||| 2 ^ 16 * t ||| m =
      2 ^ 26 * H ||| (2 ^ 21 * s ||| (2 ^ 16 * t ||| m)) := by
    ac_rfl
  rw [e3, e2]
  push_cast
  ring

/-- Encoding of `op $t, i($s)`: template `H << 26`, then `t << 16`, `m`, `s << 21`. -/
theorem enc_mem (H s t m : Nat) (hH : H < 64) (hs : s < 32) (ht : t < 32) (hm : m < 2 ^ 16) :
    or64 (or64 (or64 (or64 (or64 (or64 ((2 ^ 26 * H : Nat) : Int) ((2 ^ 16 * t : Nat) : Int)) 0)
      (m : Int)) 0) ((2 ^ 21 * s : Nat) : Int)) 0 =
      ((2 ^ 26 * H : Nat) : Int) + s * 2 ^ 21 + t * 2 ^ 16 + m := by
  have h := or64_foldl [2 ^ 16 * t, 0, m, 0, 2 ^ 21 * s, 0] (2 ^ 26 * H) (by omega)
    (by simp only [List.mem_cons, List.mem_singleton, List.mem_nil_iff, or_false]
        rintro x (rfl | rfl | rfl | rfl | rfl | rfl) <;> omega)
  simp only [List.foldl_cons, List.foldl_nil, Nat.cast_zero, Nat.or_zero] at h
  rw [h]
  have e2 := fields_or H s t m hs ht hm
  have e3 : 2 ^ 26 * H ||| 2 ^ 16 * t ||| m ||| 2 ^ 21 * s =
      2 ^ 26 * H ||| (2 ^ 21 * s ||| (2 ^ 16 * t ||| m)) := by
    ac_rfl
  rw [e3, e2]
  push_cast
  ring

theorem emod_two_pow_16 (v : Int) : ∃ m : Nat, v % 2 ^ 16 = (m : Int) ∧ m < 2 ^ 16 := by
  have h0 : 0 ≤ v % 2 ^ 16 := Int.emod_nonneg _ (by norm_num)
  have h1 : v % 2 ^ 16 < 2 ^ 16 := Int.emod_lt_of_pos _ (by norm_num)
  obtain ⟨m, hm⟩ := Int.eq_ofNat_of_zero_le h0
  refine ⟨m, hm, ?_⟩
  rw [hm] at h1
  exact_mod_cast h1

namespace Assembler

/-- C5. `beq`/`bne $s, $t, i` and `lw`/`sw $t, i($s)` with register numbers in
`[0, 31]` and a numeric immediate `i` accepted by the 16-bit range check assemble
to `template + s*2^21 + t*2^16 + (i mod 2^16)`; `pre` holds the tokens of the
line before the opcode. -/
theorem immediate_encoding (toNumber : Token → Int) (self : Assembler) (pre : List Token) :
    (∀ name tmpl, (name, tmpl) ∈ [("beq", (0x10000000 : Int)), ("bne", 0x14000000)] →
      ∀ s c1 t c2 i : Token, IsReg toNumber s → c1.kind = .COMMA → IsReg toNumber t →
        c2.kind = .COMMA → (i.kind = .INT ∨ i.kind = .HEXINT) →
        -2 ^ 15 ≤ toNumber i → toNumber i ≤ 2 ^ 16 - 1 →
        buildInstruction toNumber self (pre ++ [⟨.ID, name⟩, s, c1, t, c2, i]) pre.length =
          .ok (tmpl + toNumber s * 2 ^ 21 + toNumber t * 2 ^ 16 + toNumber i % 2 ^ 16)) ∧
    (∀ name tmpl, (name, tmpl) ∈ [("lw", (0x8c000000 : Int)), ("sw", 0xac000000)] →
      ∀ t c i lp s rp : Token, IsReg toNumber t → c.kind = .COMMA →
        (i.kind = .INT ∨ i.kind = .HEXINT) → lp.kind = .LPAREN → IsReg toNumber s →
        rp.kind = .RPAREN → -2 ^ 15 ≤ toNumber i → toNumber i ≤ 2 ^ 16 - 1 →
        buildInstruction toNumber self (pre ++ [⟨.ID, name⟩, t, c, i, lp, s, rp]) pre.length =
          .ok (tmpl + toNumber s * 2 ^ 21 + toNumber t * 2 ^ 16 + toNumber i % 2 ^ 16)) := by
  refine ⟨?_, ?_⟩
  · intro name tmpl hmem s c1 t c2 i hs hc1 ht hc2 hi hlo hhi
    obtain ⟨sn, hsn, hs32⟩ := hs.nat
    obtain ⟨tn, htn, ht32⟩ := ht.nat
    obtain ⟨m, hm, hm16⟩ := emod_two_pow_16 (toNumber i)
    have bs := buildToken_reg toNumber self s 21 sn hs.1 hsn hs32 (by norm_num)
    have bt := buildToken_reg toNumber self t 16 tn ht.1 htn ht32 (by norm_num)
    have b1 := buildToken_sep toNumber self c1 .COMMA 0 hc1 (Or.inl rfl)
    have b2 := buildToken_sep toNumber self c2 .COMMA 0 hc2 (Or.inl rfl)
    have hid : i.kind ≠ .ID := by rcases hi with h | h <;> simp [h]
    have bi : buildToken toNumber self i .INT 16 = .ok (toNumber i % 2 ^ 16) := by
      rw [buildToken_imm toNumber self i 16 (by tauto)]
      exact buildImmediate_numeric_ok toNumber self i 16 hid (by norm_num) (by norm_num) hlo hhi
    apply buildInstruction_ok
    simp only [List.mem_cons, List.mem_singleton, Prod.mk.injEq, List.mem_nil_iff, or_false] at hmem
    rcases hmem with ⟨rfl, rfl⟩ | ⟨rfl, rfl⟩ <;>
    · rw [buildInstruction_try_eq toNumber self pre _ _ (Or.inr rfl) (by decide) (by rfl)]
      simp only [getOpType, setupFormat, setupTemplate, String.reduceEq, if_false, if_true]
      rw [loop_cons _ _ _ _ _ _ _ _ _ bs, loop_cons _ _ _ _ _ _ _ _ _ b1,
        loop_cons _ _ _ _ _ _ _ _ _ bt, loop_cons _ _ _ _ _ _ _ _ _ b2,
        loop_cons _ _ _ _ _ _ _ _ _ bi, loop_nil, hsn, htn, hm]
      first
        | exact congrArg Except.ok (enc_br 4 sn tn m (by norm_num) hs32 ht32 hm16)
        | exact congrArg Except.ok (enc_br 5 sn tn m (by norm_num) hs32 ht32 hm16)
  · intro name tmpl hmem t c i lp s rp ht hc hi hlp hs hrp hlo hhi
    obtain ⟨sn, hsn, hs32⟩ := hs.nat
    obtain ⟨tn, htn, ht32⟩ := ht.nat
    obtain ⟨m, hm, hm16⟩ := emod_two_pow_16 (toNumber i)
    have bs := buildToken_reg toNumber self s 21 sn hs.1 hsn hs32 (by norm_num)
    have bt := buildToken_reg toNumber self t 16 tn ht.1 htn ht32 (by norm_num)
    have b1 := buildToken_sep toNumber self c .COMMA 0 hc (Or.inl rfl)
    have b2 := buildToken_sep toNumber self lp .LPAREN 0 hlp (Or.inr (Or.inl rfl))
    have b3 := buildToken_sep toNumber self rp .RPAREN 0 hrp (Or.inr (Or.inr rfl))
    have hid : i.kind ≠ .ID := by rcases hi with h | h <;> simp [h]
    have bi : buildToken toNumber self i .INT 16 = .ok (toNumber i % 2 ^ 16) := by
      rw [buildToken_imm toNumber self i 16 (by tauto)]
      exact buildImmediate_numeric_ok toNumber self i 16 hid (by norm_num) (by norm_num) hlo hhi
    apply buildInstruction_ok
    simp only [List.mem_cons, List.mem_singleton, Prod.mk.injEq, List.mem_nil_iff, or_false] at hmem
    rcases hmem with ⟨rfl, rfl⟩ | ⟨rfl, rfl⟩ <;>
    · rw [buildInstruction_try_eq toNumber self pre _ _ (Or.inr rfl) (by decide) (by rfl)]
      simp only [getOpType, setupFormat, setupTemplate, String.reduceEq, if_false, if_true]
      rw [loop_cons _ _ _ _ _ _ _ _ _ bt, loop_cons _ _ _ _ _ _ _ _ _ b1,
        loop_cons _ _ _ _ _ _ _ _ _ bi, loop_cons _ _ _ _ _ _ _ _ _ b2,
        loop_cons _ _ _ _ _ _ _ _ _ bs, loop_cons _ _ _ _ _ _ _ _ _ b3, loop_nil, hsn, htn, hm]
      first
        | exact congrArg Except.ok (enc_mem 35 sn tn m (by norm_num) hs32 ht32 hm16)
        | exact congrArg Except.ok (enc_mem 43 sn tn m (by norm_num) hs32 ht32 hm16)

end Assembler

namespace Assembler

/-! ### The check pass -/

theorem count_pos_iff (table : List (String × Int)) (key : String) :
    count table key > 0 ↔ key ∈ table.map Prod.fst := by
  unfold count
  induction table with
  | nil => simp
  | cons p ps ih =>
      obtain ⟨k, v⟩ := p
      by_cases h : key = k
      · subst h; simp [List.lookup]
      · have h' : (key == k) = false := by simpa using h
        simp only [List.lookup, h', List.map_cons, List.mem_cons, h, false_or]
        exact ih

theorem emplace_absent (table : List (String × Int)) (key : String) (value : Int)
    (h : key ∉ table.map Prod.fst) : emplace table key value = table ++ [(key, value)] := by
  have h0 : ¬ count table key > 0 := by rw [count_pos_iff]; exact h
  unfold count at h0
  unfold emplace
  split
  · rename_i hs; simp [hs] at h0
  · rfl

theorem checkPass_line_ok (tokLine : List Token) : ∀ self : Assembler,
    (lineLabels tokLine).Nodup →
    (∀ l ∈ lineLabels tokLine, l ∉ self.symbolTable.map Prod.fst) →
    checkPass_line self tokLine =
      .ok ({ self with
              symbolTable := self.symbolTable ++ (lineLabels tokLine).map (fun l => (l, self.pc)) },
           hasInst tokLine) := by
  induction tokLine with
  | nil => intro self _ _; simp [checkPass_line, lineLabels, leadingLabels, hasInst]
  | cons tok rest ih =>
      intro self hnd hdis
      by_cases hk : tok.kind = .LABEL
      · have hl : lineLabels (tok :: rest) = tok.lexeme :: lineLabels rest := by
          simp [lineLabels, leadingLabels, List.takeWhile, hk]
        rw [hl] at hnd hdis
        have hnot : tok.lexeme ∉ self.symbolTable.map Prod.fst :=
          hdis _ (List.mem_cons_self _ _)
        have hc : ¬ count self.symbolTable tok.lexeme > 0 := by
          rw [count_pos_iff]; exact hnot
        rw [checkPass_line, if_pos hk, if_neg hc, emplace_absent _ _ _ hnot, ih]
        · simp [hl, hasInst, hk]
        · exact (List.nodup_cons.mp hnd).2
        · intro l hl' hmem
          simp only [List.map_append, List.map_cons, List.map_nil, List.mem_append,
            List.mem_singleton] at hmem
          rcases hmem with hmem | hmem
          · exact hdis l (List.mem_cons_of_mem _ hl') hmem
          · subst hmem
            exact (List.nodup_cons.mp hnd).1 hl'
      · have hl : lineLabels (tok :: rest) = [] := by
          simp [lineLabels, leadingLabels, List.takeWhile, hk]
        rw [checkPass_line, if_neg hk, hl]
        simp [hasInst, hk]

theorem checkPass_line_dup (tokLine : List Token) : ∀ self : Assembler,
    ¬ ((lineLabels tokLine).Nodup ∧
        ∀ l ∈ lineLabels tokLine, l ∉ self.symbolTable.map Prod.fst) →
    ∃ lex, checkPass_line self tokLine = .error (AssemblerException.new .DuplicateLabel lex) := by
  induction tokLine with
  | nil => intro self h; exact absurd ⟨List.nodup_nil, by simp [lineLabels, leadingLabels]⟩ h
  | cons tok rest ih =>
      intro self h
      by_cases hk : tok.kind = .LABEL
      · have hl : lineLabels (tok :: rest) = tok.lexeme :: lineLabels rest := by
          simp [lineLabels, leadingLabels, List.takeWhile, hk]
        rw [hl] at h
        by_cases hc : count self.symbolTable tok.lexeme > 0
        · exact ⟨tok.lexeme, by rw [checkPass_line, if_pos hk, if_pos hc]⟩
        · have hnot : tok.lexeme ∉ self.symbolTable.map Prod.fst := by
            rw [← count_pos_iff]; exact hc
          rw [checkPass_line, if_pos hk, if_neg hc, emplace_absent _ _ _ hnot]
          apply ih
          rintro ⟨hnd, hdis⟩
          apply h
          refine ⟨List.nodup_cons.mpr ⟨?_, hnd⟩, ?_⟩
          · intro hmem
            exact hdis _ hmem (by simp)
          · intro l hl'
            rcases List.mem_cons.mp hl' with rfl | hl''
            · exact hnot
            · intro hmem
              exact hdis l hl'' (by simp [hmem])
      · have hl : lineLabels (tok :: rest) = [] := by
          simp [lineLabels, leadingLabels, List.takeWhile, hk]
        rw [hl] at h
        exact absurd ⟨List.nodup_nil, by simp⟩ h

theorem addrTable_keys (lines : List (List Token)) : ∀ pc : Int,
    (addrTable pc lines).map Prod.fst = declaredLabels lines := by
  induction lines with
  | nil => intro pc; rfl
  | cons l ls ih =>
      intro pc
      simp only [addrTable, declaredLabels, List.map_append, List.map_map, ih]
      congr 1
      induction lineLabels l with
      | nil => rfl
      | cons a as ih2 => simpa using ih2

theorem checkPass_lines_ok (lines : List (List Token)) : ∀ self : Assembler,
    (declaredLabels lines).Nodup →
    (∀ l ∈ declaredLabels lines, l ∉ self.symbolTable.map Prod.fst) →
    checkPass_lines self lines =
      .ok { self with
              pc := self.pc + instCount lines
              symbolTable := self.symbolTable ++ addrTable self.pc lines } := by
  induction lines with
  | nil => intro self _ _; simp [checkPass_lines, instCount, addrTable]
  | cons l ls ih =>
      intro self hnd hdis
      simp only [declaredLabels] at hnd hdis
      have hnd1 := (List.nodup_append.mp hnd).1
      have hnd2 := (List.nodup_append.mp hnd).2.1
      have hdj := (List.nodup_append.mp hnd).2.2
      rw [checkPass_lines, checkPass_line_ok l self hnd1
        (fun x hx => hdis x (List.mem_append_left _ hx))]
      simp only
      have key : ∀ x ∈ declaredLabels ls,
          x ∉ (self.symbolTable ++ (lineLabels l).map (fun y => (y, self.pc))).map Prod.fst := by
        intro x hx hmem
        simp only [List.map_append, List.map_map, List.mem_append] at hmem
        rcases hmem with hmem | hmem
        · exact hdis x (List.mem_append_right _ hx) hmem
        · have : x ∈ lineLabels l := by
            simpa using hmem
          exact hdj this hx
      by_cases hi : hasInst l = true
      · rw [if_pos hi, ih _ hnd2 key]
        simp only [addrTable, instCount, List.filter_cons, hi, if_true, List.length_cons,
          List.append_assoc]
        have e : self.pc + 1 + ((List.filter hasInst ls).length : Int) =
            self.pc + (((List.filter hasInst ls).length + 1 : Nat) : Int) := by
          push_cast
          omega
        rw [e]
      · rw [if_neg hi, ih _ hnd2 key]
        simp only [addrTable, instCount, List.filter_cons, hi, if_false, List.append_assoc]
        rfl

theorem checkPass_lines_dup (lines : List (List Token)) : ∀ self : Assembler,
    ¬ ((declaredLabels lines).Nodup ∧
        ∀ l ∈ declaredLabels lines, l ∉ self.symbolTable.map Prod.fst) →
    ∃ lex, checkPass_lines self lines = .error (AssemblerException.new .DuplicateLabel lex) := by
  induction lines with
  | nil => intro self h; exact absurd ⟨List.nodup_nil, by simp [declaredLabels]⟩ h
  | cons l ls ih =>
      intro self h
      by_cases hl : (lineLabels l).Nodup ∧ ∀ x ∈ lineLabels l, x ∉ self.symbolTable.map Prod.fst
      · rw [checkPass_lines, checkPass_line_ok l self hl.1 hl.2]
        simp only
        have step : ∀ s1 : Assembler,
            s1.symbolTable = self.symbolTable ++ (lineLabels l).map (fun y => (y, self.pc)) →
            ∃ lex, checkPass_lines s1 ls =
              .error (AssemblerException.new .DuplicateLabel lex) := by
          intro s1 hs1
          apply ih
          rintro ⟨hnd, hdis⟩
          apply h
          simp only [declaredLabels]
          refine ⟨List.nodup_append.mpr ⟨hl.1, hnd, ?_⟩, ?_⟩
          · intro x hx1 hx2
            apply hdis x hx2
            rw [hs1]
            simp only [List.map_append, List.map_map, List.mem_append]
            right
            simpa using hx1
          · intro x hx
            rcases List.mem_append.mp hx with hx | hx
            · exact hl.2 x hx
            · intro hmem
              apply hdis x hx
              rw [hs1]
              simp [hmem]
        split
        · exact step _ rfl
        · exact step _ rfl
      · obtain ⟨lex, hlex⟩ := checkPass_line_dup l self hl
        exact ⟨lex, by rw [checkPass_lines, hlex]⟩

end Assembler

theorem wrap64_emod (x : Int) (w : Nat) (hw : w ≤ 64) : wrap64 x % 2 ^ w = x % 2 ^ w := by
  have h64 : wrap64 x % 2 ^ 64 = x % 2 ^ 64 := by
    unfold wrap64 toS64 toU64
    have e : (2:Int) ^ 64 = 18446744073709551616 := by norm_num
    have e' : (2:Nat) ^ 64 = 18446744073709551616 := by norm_num
    have e2' : (2:Nat) ^ 63 = 9223372036854775808 := by norm_num
    rw [e, e', e2']
    split <;> omega
  have hd : ((2:Int) ^ w) ∣ 2 ^ 64 := pow_dvd_pow 2 hw
  rw [← Int.emod_emod_of_dvd (wrap64 x) hd, h64, Int.emod_emod_of_dvd x hd]

theorem lookup_append_left {α : Type} (xs ys : List (String × α)) (k : String) (v : α)
    (h : xs.lookup k = some v) : (xs ++ ys).lookup k = some v := by
  induction xs with
  | nil => simp at h
  | cons p ps ih =>
      obtain ⟨a, b⟩ := p
      by_cases e : k = a
      · subst e
        simp only [List.lookup, beq_self_eq_true, List.cons_append] at h ⊢
        exact h
      · have e' : (k == a) = false := by simpa using e
        simp only [List.lookup, e', List.cons_append] at h ⊢
        exact ih h

theorem lookup_append_right {α : Type} (xs ys : List (String × α)) (k : String)
    (h : k ∉ xs.map Prod.fst) : (xs ++ ys).lookup k = ys.lookup k := by
  induction xs with
  | nil => rfl
  | cons p ps ih =>
      obtain ⟨a, b⟩ := p
      simp only [List.map_cons, List.mem_cons, not_or] at h
      have e' : (k == a) = false := by simpa using h.1
      simp only [List.lookup, e', List.cons_append]
      exact ih h.2

theorem lookup_map_const {α : Type} (ls : List String) (k : String) (v : α) (h : k ∈ ls) :
    (ls.map (fun l => (l, v))).lookup k = some v := by
  induction ls with
  | nil => simp at h
  | cons a as ih =>
      by_cases e : k = a
      · subst e; simp [List.lookup]
      · have e' : (k == a) = false := by simpa using e
        simp only [List.map_cons, List.lookup, e']
        exact ih (by simpa [e] using h)

namespace Assembler

theorem instCount_cons (l : List Token) (ls : List (List Token)) :
    instCount (l :: ls) = (if hasInst l then 1 else 0) + instCount ls := by
  unfold instCount
  by_cases h : hasInst l = true <;> simp [List.filter_cons, h]
  omega

theorem instCount_append (xs ys : List (List Token)) :
    instCount (xs ++ ys) = instCount xs + instCount ys := by
  simp [instCount, List.filter_append]

theorem declaredLabels_append (xs ys : List (List Token)) :
    declaredLabels (xs ++ ys) = declaredLabels xs ++ declaredLabels ys := by
  induction xs with
  | nil => rfl
  | cons l ls ih => simp [declaredLabels, ih]

theorem addrTable_lookup (before : List (List Token)) : ∀ (pc : Int) (tokLine : List Token)
    (after : List (List Token)) (tok : Token),
    (declaredLabels (before ++ tokLine :: after)).Nodup → tok ∈ leadingLabels tokLine →
    (addrTable pc (before ++ tokLine :: after)).lookup tok.lexeme =
      some (pc + instCount before) := by
  induction before with
  | nil =>
      intro pc tokLine after tok _ hmem
      have hm : tok.lexeme ∈ lineLabels tokLine := List.mem_map_of_mem _ hmem
      simp only [List.nil_append, addrTable, instCount, List.filter_nil, List.length_nil,
        Nat.cast_zero, add_zero]
      exact lookup_append_left _ _ _ _ (lookup_map_const _ _ _ hm)
  | cons b bs ih =>
      intro pc tokLine after tok hnd hmem
      have hm : tok.lexeme ∈ lineLabels tokLine := List.mem_map_of_mem _ hmem
      simp only [List.cons_append, declaredLabels, List.append_eq] at hnd
      have hnd2 := (List.nodup_append.mp hnd).2.1
      have hdj := (List.nodup_append.mp hnd).2.2
      have hin : tok.lexeme ∈ declaredLabels (bs ++ tokLine :: after) := by
        rw [declaredLabels_append]
        simp only [declaredLabels, List.mem_append]
        exact Or.inr (Or.inl hm)
      have hnot : tok.lexeme ∉ ((lineLabels b).map (fun l => (l, pc))).map Prod.fst := by
        intro h
        have : tok.lexeme ∈ lineLabels b := by simpa using h
        exact hdj this hin
      simp only [List.cons_append, addrTable, List.append_eq]
      rw [lookup_append_right _ _ _ hnot, ih _ _ _ _ hnd2 hmem, instCount_cons]
      by_cases hi : hasInst b = true
      · simp only [hi, if_true]; congr 1; push_cast; omega
      · simp only [hi, if_false]; congr 1; push_cast; omega

/-! ### The code generation pass -/

theorem skipLabels_eq (tokLine : List Token) : ∀ i : Nat,
    skipLabels tokLine i = i + (leadingLabels tokLine).length := by
  induction tokLine with
  | nil => intro i; simp [skipLabels, leadingLabels]
  | cons tok rest ih =>
      intro i
      by_cases hk : tok.kind = .LABEL
      · simp only [skipLabels, hk, if_true, ih, leadingLabels, List.takeWhile, decide_True,
          List.length_cons]
        simp only [leadingLabels] at ih
        omega
      · simp [skipLabels, hk, leadingLabels, List.takeWhile]

theorem leadingLabels_lt_iff (tokLine : List Token) :
    (leadingLabels tokLine).length < tokLine.length ↔ hasInst tokLine = true := by
  induction tokLine with
  | nil => simp [leadingLabels, hasInst]
  | cons tok rest ih =>
      by_cases hk : tok.kind = .LABEL
      · simp only [leadingLabels, List.takeWhile, hk, decide_True, List.length_cons, hasInst,
          List.any_cons, ne_eq, not_true_eq_false, decide_False, Bool.false_or]
        simp only [leadingLabels, hasInst] at ih
        rw [← ih]
        omega
      · simp [leadingLabels, List.takeWhile, hk, hasInst]

theorem codeGenPass_lines_cons (toNumber : Token → Int) (self : Assembler) (binary : List Int)
    (tokLine : List Token) (rest : List (List Token)) :
    codeGenPass_lines toNumber self binary (tokLine :: rest) =
      if hasInst tokLine = true then
        match buildInstruction toNumber { self with pc := self.pc + 1 } tokLine
            (leadingLabels tokLine).length with
        | .error e => .error e
        | .ok inst =>
            codeGenPass_lines toNumber { self with pc := self.pc + 1 } (binary ++ [inst]) rest
      else codeGenPass_lines toNumber self binary rest := by
  rw [codeGenPass_lines]
  simp only [skipLabels_eq, Nat.zero_add, leadingLabels_lt_iff]

theorem codeGenPass_lines_append (toNumber : Token → Int) (xs ys : List (List Token)) :
    ∀ (self : Assembler) (binary : List Int),
    codeGenPass_lines toNumber self binary (xs ++ ys) =
      match codeGenPass_lines toNumber self binary xs with
      | .error e => .error e
      | .ok (self1, binary1) => codeGenPass_lines toNumber self1 binary1 ys := by
  induction xs with
  | nil => intro self binary; simp [codeGenPass_lines]
  | cons l ls ih =>
      intro self binary
      rw [List.cons_append, codeGenPass_lines_cons, codeGenPass_lines_cons]
      by_cases hi : hasInst l = true
      · simp only [hi, if_true]
        cases hb : buildInstruction toNumber { self with pc := self.pc + 1 } l
            (leadingLabels l).length with
        | error e => rfl
        | ok inst => exact ih _ _
      · simp only [hi, if_false]
        exact ih _ _

theorem codeGenPass_lines_effect (toNumber : Token → Int) (xs : List (List Token)) :
    ∀ (self self1 : Assembler) (binary binary1 : List Int),
    codeGenPass_lines toNumber self binary xs = .ok (self1, binary1) →
    self1 = { self with pc := self.pc + instCount xs } ∧
      ∃ ws : List Int, binary1 = binary ++ ws ∧ ws.length = instCount xs := by
  induction xs with
  | nil =>
      intro self self1 binary binary1 h
      simp only [codeGenPass_lines, Except.ok.injEq, Prod.mk.injEq] at h
      obtain ⟨rfl, rfl⟩ := h
      exact ⟨by simp [instCount], [], by simp, by simp [instCount]⟩
  | cons l ls ih =>
      intro self self1 binary binary1 h
      rw [codeGenPass_lines_cons] at h
      rw [instCount_cons]
      by_cases hi : hasInst l = true
      · simp only [hi, if_true] at h ⊢
        cases hb : buildInstruction toNumber { self with pc := self.pc + 1 } l
            (leadingLabels l).length with
        | error e => rw [hb] at h; simp at h
        | ok inst =>
            rw [hb] at h
            obtain ⟨h1, ws, h2, h3⟩ := ih _ _ _ _ h
            refine ⟨?_, inst :: ws, ?_, ?_⟩
            · rw [h1]; simp only; congr 1; push_cast; omega
            · rw [h2]; simp
            · simp [h3]; omega
      · simp only [hi, if_false] at h ⊢
        obtain ⟨h1, ws, h2, h3⟩ := ih _ _ _ _ h
        exact ⟨by rw [h1]; simp, ws, h2, by simp [h3]⟩

end Assembler

namespace Assembler

theorem new_pc_zero (program : List (List Token)) :
    ({ Assembler.new program with pc := 0 } : Assembler) = Assembler.new program := rfl

theorem checkPass_new_ok (program : List (List Token)) (h : (declaredLabels program).Nodup) :
    checkPass (Assembler.new program) =
      .ok { pc := instCount program, program := program, symbolTable := addrTable 0 program } := by
  unfold checkPass
  rw [new_pc_zero]
  show checkPass_lines (Assembler.new program) program = _
  rw [checkPass_lines_ok program (Assembler.new program) h (by simp [Assembler.new])]
  simp [Assembler.new]

theorem checkPass_new_dup (program : List (List Token)) (h : ¬ (declaredLabels program).Nodup) :
    ∃ lex, checkPass (Assembler.new program) =
      .error (AssemblerException.new .DuplicateLabel lex) := by
  unfold checkPass
  rw [new_pc_zero]
  show ∃ lex, checkPass_lines (Assembler.new program) program = _
  exact checkPass_lines_dup program (Assembler.new program) (fun hh => h hh.1)

theorem assemble_ok_inv (toNumber : Token → Int) (program : List (List Token))
    (binary : List Int) (h : assemble toNumber (Assembler.new program) = .ok binary) :
    (declaredLabels program).Nodup ∧
      ∃ self1, codeGenPass_lines toNumber
        { pc := 0, program := program, symbolTable := addrTable 0 program } [] program =
          .ok (self1, binary) := by
  by_cases hnd : (declaredLabels program).Nodup
  · refine ⟨hnd, ?_⟩
    unfold assemble at h
    rw [checkPass_new_ok program hnd] at h
    simp only [codeGenPass] at h
    cases hc : codeGenPass_lines toNumber
        { pc := 0, program := program, symbolTable := addrTable 0 program } [] program with
    | error e => rw [hc] at h; simp at h
    | ok r =>
        obtain ⟨s, b⟩ := r
        rw [hc] at h
        simp only [Except.ok.injEq] at h
        subst h
        exact ⟨s, rfl⟩
  · obtain ⟨lex, hlex⟩ := checkPass_new_dup program hnd
    unfold assemble at h
    rw [hlex] at h
    simp at h

/-- C8. On a freshly constructed assembler whose program assembles, pass 1 maps
every leading label of a line to the number of earlier lines that contain a
non-label token, `pc` advances by one per line containing a non-label token in
both passes, and `assemble` returns one word per such line; the words emitted
for the lines before a label are as many as the label's address. -/
theorem label_addresses (toNumber : Token → Int) (program : List (List Token))
    (binary : List Int) (h : assemble toNumber (Assembler.new program) = .ok binary) :
    ∃ st, checkPass (Assembler.new program) = .ok st ∧
      st.pc = instCount program ∧ binary.length = instCount program ∧
      (∀ before tokLine after tok, program = before ++ tokLine :: after →
        tok ∈ leadingLabels tokLine →
        st.symbolTable.lookup tok.lexeme = some (instCount before : Int)) ∧
      (∀ before after, program = before ++ after →
        (∃ s1, checkPass_lines (Assembler.new program) before = .ok s1 ∧
          s1.pc = instCount before) ∧
        (∃ s2 ws rest, codeGenPass_lines toNumber { st with pc := 0 } [] before = .ok (s2, ws) ∧
          s2.pc = instCount before ∧ ws.length = instCount before ∧ binary = ws ++ rest)) := by
  obtain ⟨hnd, sf, hcg⟩ := assemble_ok_inv toNumber program binary h
  refine ⟨_, checkPass_new_ok program hnd, rfl, ?_, ?_, ?_⟩
  · obtain ⟨_, ws, h2, h3⟩ := codeGenPass_lines_effect toNumber program _ _ _ _ hcg
    rw [h2]
    simpa using h3
  · intro before tokLine after tok hp hmem
    subst hp
    have := addrTable_lookup before 0 tokLine after tok hnd hmem
    simpa using this
  · intro before after hp
    subst hp
    constructor
    · have hb : (declaredLabels before).Nodup := by
        rw [declaredLabels_append] at hnd
        exact (List.nodup_append.mp hnd).1
      rw [checkPass_lines_ok before _ hb (by simp [Assembler.new])]
      exact ⟨_, rfl, by simp [Assembler.new]⟩
    · rw [codeGenPass_lines_append] at hcg
      cases hb : codeGenPass_lines toNumber
          { pc := 0, program := before ++ after,
            symbolTable := addrTable 0 (before ++ after) } [] before with
      | error e => rw [hb] at hcg; simp at hcg
      | ok r =>
          obtain ⟨s2, ws⟩ := r
          rw [hb] at hcg
          simp only at hcg
          obtain ⟨h1, ws1, h2, h3⟩ := codeGenPass_lines_effect toNumber before _ _ _ _ hb
          obtain ⟨_, ws2, h5, _⟩ := codeGenPass_lines_effect toNumber after _ _ _ _ hcg
          refine ⟨s2, ws, ws2, rfl, ?_, ?_, h5⟩
          · rw [h1]; simp
          · rw [h2]; simpa using h3

/-- C9. If a label lexeme is declared twice among the leading labels of the
program's lines, the check pass of a freshly constructed assembler fails with
`DuplicateLabel` and `assemble` fails with that same error, whatever the
encoding pass would have reported; if no label is declared twice, the check
pass succeeds. -/
theorem duplicate_labels (toNumber : Token → Int) (program : List (List Token)) :
    (¬ (declaredLabels program).Nodup →
      ∃ lex, checkPass (Assembler.new program) =
          .error (AssemblerException.new .DuplicateLabel lex) ∧
        assemble toNumber (Assembler.new program) =
          .error (AssemblerException.new .DuplicateLabel lex)) ∧
    ((declaredLabels program).Nodup →
      ∃ st, checkPass (Assembler.new program) = .ok st) := by
  constructor
  · intro h
    obtain ⟨lex, hlex⟩ := checkPass_new_dup program h
    exact ⟨lex, hlex, by simp [assemble, hlex]⟩
  · intro h
    exact ⟨_, checkPass_new_ok program h⟩

end Assembler

namespace Assembler

theorem buildImmediate_label (toNumber : Token → Int) (self : Assembler) (tok : Token)
    (w : Nat) (v : Int) (hk : tok.kind = .ID) (hw1 : 1 ≤ w) (hw : w < 32)
    (h : buildImmediate toNumber self tok w = .ok v) :
    ∃ addr, self.symbolTable.lookup (tok.lexeme ++ ":") = some addr ∧
      v = (addr - self.pc) % 2 ^ w := by
  unfold buildImmediate at h
  by_cases hc : count self.symbolTable (tok.lexeme ++ ":") = 0
  · rw [if_pos ⟨hk, hc⟩] at h
    simp at h
  · rw [if_neg (fun hh => hc hh.2)] at h
    have hsome : ∃ addr, self.symbolTable.lookup (tok.lexeme ++ ":") = some addr := by
      unfold count at hc
      cases hl : self.symbolTable.lookup (tok.lexeme ++ ":") with
      | none => simp [hl] at hc
      | some a => exact ⟨a, rfl⟩
    obtain ⟨addr, haddr⟩ := hsome
    refine ⟨addr, haddr, ?_⟩
    simp only [hk, ne_eq, not_true_eq_false, if_false, hw, if_true, tableAt, haddr,
      Option.getD_some, buildMask_zero w (by omega)] at h
    split at h
    · simp at h
    · split at h
      · simp at h
      · simp only [Except.ok.injEq] at h
        rw [← h, and64_mask _ w (by omega)]
        unfold sub64
        exact wrap64_emod _ w (by omega)

/-- The format loop of `beq`/`bne`: the register fields are placed and the
immediate is whatever `buildToken` makes of the third operand. -/
theorem loop_branch (toNumber : Token → Int) (self : Assembler) (s c1 t c2 i : Token)
    (sn tn : Nat) (T : Int) (hs : IsReg toNumber s) (hc1 : c1.kind = .COMMA)
    (ht : IsReg toNumber t) (hc2 : c2.kind = .COMMA)
    (hsn : toNumber s = sn) (hs32 : sn < 32) (htn : toNumber t = tn) (ht32 : tn < 32) :
    buildInstruction_loop toNumber self
        [(.REG, 21), (.COMMA, 0), (.REG, 16), (.COMMA, 0), (.INT, 16)] [s, c1, t, c2, i] T =
      match buildToken toNumber self i .INT 16 with
      | .error e => .error e
      | .ok v => .ok (or64 (or64 (or64 (or64 (or64 T ((2 ^ 21 * sn : Nat) : Int)) 0)
          ((2 ^ 16 * tn : Nat) : Int)) 0) v) := by
  have bs := buildToken_reg toNumber self s 21 sn hs.1 hsn hs32 (by norm_num)
  have bt := buildToken_reg toNumber self t 16 tn ht.1 htn ht32 (by norm_num)
  have b1 := buildToken_sep toNumber self c1 .COMMA 0 hc1 (Or.inl rfl)
  have b2 := buildToken_sep toNumber self c2 .COMMA 0 hc2 (Or.inl rfl)
  rw [loop_cons _ _ _ _ _ _ _ _ _ bs, loop_cons _ _ _ _ _ _ _ _ _ b1,
    loop_cons _ _ _ _ _ _ _ _ _ bt, loop_cons _ _ _ _ _ _ _ _ _ b2]
  cases hb : buildToken toNumber self i .INT 16 with
  | error e => simp [buildInstruction_loop, hb]
  | ok v => rw [loop_cons _ _ _ _ _ _ _ _ _ hb, loop_nil]

theorem leadingLabels_pre (pre : List Token) (op : Token) (rest : List Token)
    (hpre : ∀ tok ∈ pre, tok.kind = .LABEL) (hop : op.kind ≠ .LABEL) :
    leadingLabels (pre ++ op :: rest) = pre := by
  induction pre with
  | nil => simp [leadingLabels, List.takeWhile, hop]
  | cons p ps ih =>
      have hp : p.kind = .LABEL := hpre p (List.mem_cons_self _ _)
      have := ih (fun tok h => hpre tok (List.mem_cons_of_mem _ h))
      simp only [leadingLabels] at this
      simp [leadingLabels, List.takeWhile, hp, this]

theorem hasInst_pre (pre : List Token) (op : Token) (rest : List Token)
    (hop : op.kind ≠ .LABEL) : hasInst (pre ++ op :: rest) = true := by
  simp [hasInst, hop]

theorem buildInstruction_inv (toNumber : Token → Int) (self : Assembler) (tokLine : List Token)
    (i : Nat) (w : Int) (h : buildInstruction toNumber self tokLine i = .ok w) :
    buildInstruction_try toNumber self tokLine i = .ok w := by
  unfold buildInstruction at h
  cases hb : buildInstruction_try toNumber self tokLine i with
  | error e => rw [hb] at h; simp at h
  | ok v => rw [hb] at h; simpa using h

/-- The word emitted for a line in the middle of a program that assembles. -/
theorem assemble_word_at (toNumber : Token → Int) (before after : List (List Token))
    (tokLine : List Token) (binary : List Int) (hi : hasInst tokLine = true)
    (h : assemble toNumber (Assembler.new (before ++ tokLine :: after)) = .ok binary) :
    ∃ w, binary[instCount before]? = some w ∧
      buildInstruction toNumber
        { pc := instCount before + 1, program := before ++ tokLine :: after,
          symbolTable := addrTable 0 (before ++ tokLine :: after) }
        tokLine (leadingLabels tokLine).length = .ok w := by
  obtain ⟨_, sf, hcg⟩ := assemble_ok_inv toNumber _ binary h
  rw [codeGenPass_lines_append] at hcg
  cases hb : codeGenPass_lines toNumber
      { pc := 0, program := before ++ tokLine :: after,
        symbolTable := addrTable 0 (before ++ tokLine :: after) } [] before with
  | error e => rw [hb] at hcg; simp at hcg
  | ok r =>
      obtain ⟨s2, ws⟩ := r
      rw [hb] at hcg
      simp only at hcg
      obtain ⟨h1, ws1, h2, h3⟩ := codeGenPass_lines_effect toNumber before _ _ _ _ hb
      rw [codeGenPass_lines_cons, if_pos hi] at hcg
      subst h1
      simp only [zero_add] at hcg
      cases hw : buildInstruction toNumber
          { pc := instCount before + 1, program := before ++ tokLine :: after,
            symbolTable := addrTable 0 (before ++ tokLine :: after) }
          tokLine (leadingLabels tokLine).length with
      | error e => rw [hw] at hcg; simp at hcg
      | ok w =>
          rw [hw] at hcg
          simp only at hcg
          obtain ⟨_, ws2, h5, _⟩ := codeGenPass_lines_effect toNumber after _ _ _ _ hcg
          refine ⟨w, ?_, rfl⟩
          rw [h5, h2]
          simp only [List.nil_append, List.append_assoc, List.singleton_append]
          rw [← h3, List.getElem?_append_right (le_refl _)]
          simp

end Assembler

namespace Assembler

/-- C6. In a program that assembles, a `beq`/`bne` whose third operand is a label
gets the immediate field `(address(label) - (i+1)) mod 2^16`, where `i` is the
instruction index of the branch (the number of instruction lines before it) and
`address(label)` is the table entry of pass 1, the instruction index of the
line that declares the label. -/
theorem branch_label_offset (toNumber : Token → Int) (before after : List (List Token))
    (pre : List Token) (name : String) (tmpl : Int) (s c1 t c2 lab : Token) (binary : List Int)
    (hname : (name, tmpl) ∈ [("beq", (0x10000000 : Int)), ("bne", 0x14000000)])
    (hpre : ∀ tok ∈ pre, tok.kind = .LABEL) (hs : IsReg toNumber s) (hc1 : c1.kind = .COMMA)
    (ht : IsReg toNumber t) (hc2 : c2.kind = .COMMA) (hlab : lab.kind = .ID)
    (h : assemble toNumber
      (Assembler.new (before ++ (pre ++ [⟨.ID, name⟩, s, c1, t, c2, lab]) :: after)) =
        .ok binary) :
    ∃ st addr,
      checkPass (Assembler.new (before ++ (pre ++ [⟨.ID, name⟩, s, c1, t, c2, lab]) :: after)) =
        .ok st ∧
      st.symbolTable.lookup (lab.lexeme ++ ":") = some addr ∧
      (∀ b l a tok, before ++ (pre ++ [⟨.ID, name⟩, s, c1, t, c2, lab]) :: after = b ++ l :: a →
        tok ∈ leadingLabels l → tok.lexeme = lab.lexeme ++ ":" → addr = instCount b) ∧
      binary[instCount before]? =
        some (tmpl + toNumber s * 2 ^ 21 + toNumber t * 2 ^ 16 +
          (addr - (instCount before + 1)) % 2 ^ 16) := by
  have hop : (⟨.ID, name⟩ : Token).kind ≠ .LABEL := by simp
  have hi := hasInst_pre pre ⟨.ID, name⟩ [s, c1, t, c2, lab] hop
  obtain ⟨hnd, _, _⟩ := assemble_ok_inv toNumber _ binary h
  obtain ⟨w, hw1, hw2⟩ := assemble_word_at toNumber before after _ binary hi h
  rw [leadingLabels_pre pre _ _ hpre hop] at hw2
  have hw3 := buildInstruction_inv _ _ _ _ _ hw2
  obtain ⟨sn, hsn, hs32⟩ := hs.nat
  obtain ⟨tn, htn, ht32⟩ := ht.nat
  simp only [List.mem_cons, List.mem_singleton, Prod.mk.injEq, List.mem_nil_iff, or_false]
    at hname
  have key : ∃ (H : Nat), H < 64 ∧ tmpl = ((2 ^ 26 * H : Nat) : Int) ∧
      buildInstruction_loop toNumber
        { pc := instCount before + 1,
          program := before ++ (pre ++ [⟨.ID, name⟩, s, c1, t, c2, lab]) :: after,
          symbolTable := addrTable 0
            (before ++ (pre ++ [⟨.ID, name⟩, s, c1, t, c2, lab]) :: after) }
        [(.REG, 21), (.COMMA, 0), (.REG, 16), (.COMMA, 0), (.INT, 16)] [s, c1, t, c2, lab]
        ((2 ^ 26 * H : Nat) : Int) = .ok w := by
    rcases hname with ⟨rfl, rfl⟩ | ⟨rfl, rfl⟩
    · refine ⟨4, by norm_num, by norm_num, ?_⟩
      rw [buildInstruction_try_eq toNumber _ pre _ _ (Or.inr rfl) (by decide) (by rfl)] at hw3
      simpa only [getOpType, setupFormat, setupTemplate, String.reduceEq, if_false, if_true]
        using hw3
    · refine ⟨5, by norm_num, by norm_num, ?_⟩
      rw [buildInstruction_try_eq toNumber _ pre _ _ (Or.inr rfl) (by decide) (by rfl)] at hw3
      simpa only [getOpType, setupFormat, setupTemplate, String.reduceEq, if_false, if_true]
        using hw3
  obtain ⟨H, hH, hT, hloop⟩ := key
  rw [loop_branch toNumber _ s c1 t c2 lab sn tn _ hs hc1 ht hc2 hsn hs32 htn ht32] at hloop
  rw [buildToken_imm toNumber _ lab 16 (Or.inr (Or.inr hlab))] at hloop
  cases hb : buildImmediate toNumber
      { pc := instCount before + 1,
        program := before ++ (pre ++ [⟨.ID, name⟩, s, c1, t, c2, lab]) :: after,
        symbolTable := addrTable 0
          (before ++ (pre ++ [⟨.ID, name⟩, s, c1, t, c2, lab]) :: after) } lab 16 with
  | error e => rw [hb] at hloop; simp at hloop
  | ok v =>
      rw [hb] at hloop
      simp only [Except.ok.injEq] at hloop
      obtain ⟨addr, haddr, hv⟩ :=
        buildImmediate_label toNumber _ lab 16 v hlab (by norm_num) (by norm_num) hb
      simp only at haddr hv
      refine ⟨_, addr, checkPass_new_ok _ hnd, haddr, ?_, ?_⟩
      · intro b l a tok hsplit hmem hlex
        have := addrTable_lookup b 0 l a tok (by rw [← hsplit]; exact hnd) hmem
        rw [← hsplit, hlex, haddr] at this
        simpa using this
      · rw [hw1, ← hloop]
        obtain ⟨m, hm, hm16⟩ := emod_two_pow_16 (addr - (instCount before + 1))
        rw [hv, hm, hT, hsn, htn]
        exact congrArg some (enc_br H sn tn m hH hs32 ht32 hm16)

end Assembler

namespace Assembler

theorem declaredLabels_replicate (n : Nat) (l : List Token) (rest : List (List Token))
    (hl : lineLabels l = []) :
    declaredLabels (List.replicate n l ++ rest) = declaredLabels rest := by
  induction n with
  | zero => rfl
  | succ n ih => simp [List.replicate_succ, declaredLabels, hl, ih]

theorem addrTable_replicate (n : Nat) (l : List Token) (rest : List (List Token))
    (hl : lineLabels l = []) (hi : hasInst l = true) : ∀ pc : Int,
    addrTable pc (List.replicate n l ++ rest) = addrTable (pc + n) rest := by
  induction n with
  | zero => intro pc; simp
  | succ n ih =>
      intro pc
      rw [List.replicate_succ, List.cons_append, addrTable, hl, if_pos hi, ih]
      simp only [List.map_nil, List.nil_append]
      congr 1
      push_cast
      ring

theorem codeGenPass_lines_replicate (toNumber : Token → Int) (n : Nat) (l : List Token)
    (rest : List (List Token)) (w : Int) (hi : hasInst l = true)
    (hw : ∀ self : Assembler,
      buildInstruction toNumber self l (leadingLabels l).length = .ok w) :
    ∀ (self : Assembler) (binary : List Int),
    codeGenPass_lines toNumber self binary (List.replicate n l ++ rest) =
      codeGenPass_lines toNumber { self with pc := self.pc + n }
        (binary ++ List.replicate n w) rest := by
  induction n with
  | zero => intro self binary; simp
  | succ n ih =>
      intro self binary
      rw [List.replicate_succ, List.cons_append, codeGenPass_lines_cons, if_pos hi, hw]
      simp only
      rw [ih]
      simp only [List.append_assoc, List.singleton_append, List.replicate_succ]
      congr 2
      push_cast
      omega

theorem buildImmediate_label_ok (toNumber : Token → Int) (self : Assembler) (tok : Token)
    (addr : Int) (hk : tok.kind = .ID)
    (hl : self.symbolTable.lookup (tok.lexeme ++ ":") = some addr)
    (h1 : -2 ^ 15 ≤ addr - self.pc) (h2 : addr - self.pc ≤ 2 ^ 16 - 1) :
    buildImmediate toNumber self tok 16 = .ok ((addr - self.pc) % 2 ^ 16) := by
  have hc : ¬ count self.symbolTable (tok.lexeme ++ ":") = 0 := by
    unfold count
    simp [hl]
  have hsub : sub64 addr self.pc = addr - self.pc := by
    unfold sub64
    rw [wrap64_of_range] <;> norm_num at h1 h2 ⊢ <;> omega
  have hneg : sub64 0 (addr - self.pc) = -(addr - self.pc) := by
    unfold sub64
    rw [wrap64_of_range] <;> norm_num at h1 h2 ⊢ <;> omega
  unfold buildImmediate
  rw [if_neg (fun hh => hc hh.2)]
  have h16 : (16 : Nat) < 32 := by norm_num
  simp only [hk, ne_eq, not_true_eq_false, if_false, tableAt, hl, Option.getD_some,
    buildMask_zero 16 (by norm_num), shr64_mask 16 (by norm_num), hsub,
    and64_mask _ 16 (by norm_num), h16, if_true]
  rw [hneg]
  norm_num at h1 h2 ⊢
  rw [if_neg (by omega), if_neg (by omega)]

/-- A forward branch over `n` instructions to a label, `n <= 65535`, assembles:
the immediate field of the branch is `n`. -/
theorem farBranch_assembles (n : Nat) (hn : n ≤ 65535) :
    assemble decimalValue (Assembler.new (farBranch n)) =
      .ok ((0x10000000 + (n : Int)) :: List.replicate (n + 1) 0x03e00008) := by
  have hl : lineLabels jrLine = [] := by decide
  have hi : hasInst jrLine = true := by decide
  have hnd : (declaredLabels (farBranch n)).Nodup := by
    unfold farBranch
    simp only [declaredLabels]
    rw [declaredLabels_replicate _ _ _ hl]
    decide
  have htab : addrTable 0 (farBranch n) = [("far:", (n : Int) + 1)] := by
    unfold farBranch
    simp only [addrTable]
    rw [addrTable_replicate _ _ _ hl hi]
    have e1 : lineLabels [⟨.ID, "beq"⟩, ⟨.REG, "$0"⟩, ⟨.COMMA, ","⟩, ⟨.REG, "$0"⟩,
        ⟨.COMMA, ","⟩, ⟨.ID, "far"⟩] = [] := by decide
    have e2 : hasInst [⟨.ID, "beq"⟩, ⟨.REG, "$0"⟩, ⟨.COMMA, ","⟩, ⟨.REG, "$0"⟩,
        ⟨.COMMA, ","⟩, ⟨.ID, "far"⟩] = true := by decide
    have e3 : lineLabels [⟨.LABEL, "far:"⟩, ⟨.ID, "jr"⟩, ⟨.REG, "$31"⟩] = ["far:"] := by decide
    simp only [e1, e2, e3, addrTable, List.map_nil, List.nil_append, if_true, List.map_cons,
      List.append_nil, zero_add]
    congr 2
    omega
  unfold assemble
  rw [checkPass_new_ok _ hnd]
  simp only [codeGenPass, htab]
  have hfirst : ∀ P : List (List Token),
      buildInstruction decimalValue
        { pc := 0 + 1, program := P, symbolTable := [("far:", (n : Int) + 1)] }
        ([] ++ [⟨.ID, "beq"⟩, ⟨.REG, "$0"⟩, ⟨.COMMA, ","⟩, ⟨.REG, "$0"⟩, ⟨.COMMA, ","⟩,
          ⟨.ID, "far"⟩]) ([] : List Token).length = .ok (0x10000000 + (n : Int)) := by
    intro P
    apply buildInstruction_ok
    rw [buildInstruction_try_eq decimalValue _ [] _ _ (Or.inr rfl) (by decide) (by rfl)]
    simp only [getOpType, setupFormat, setupTemplate, String.reduceEq, if_false, if_true]
    rw [loop_branch decimalValue _ _ _ _ _ _ 0 0 _ (by decide) rfl (by decide) rfl (by decide)
      (by norm_num) (by decide) (by norm_num),
      buildToken_imm decimalValue _ _ 16 (Or.inr (Or.inr rfl)),
      buildImmediate_label_ok decimalValue _ _ ((n : Int) + 1) rfl (by simp [List.lookup])
        (by simp only; omega) (by simp only; omega)]
    simp only
    have em : ((n : Int) + 1 - (0 + 1)) % 2 ^ 16 = (n : Int) := by
      norm_num
      omega
    rw [em]
    have := enc_br 4 0 0 n (by norm_num) (by norm_num) (by norm_num) (by omega)
    norm_num at this ⊢
    exact this
  have hjr : ∀ self : Assembler,
      buildInstruction decimalValue self jrLine (leadingLabels jrLine).length =
        .ok 0x03e00008 := by
    intro self
    rfl
  have hlast : ∀ self : Assembler,
      buildInstruction decimalValue self [⟨.LABEL, "far:"⟩, ⟨.ID, "jr"⟩, ⟨.REG, "$31"⟩] 1 =
        .ok 0x03e00008 := by
    intro self
    rfl
  unfold farBranch
  rw [codeGenPass_lines_cons, if_pos (by decide)]
  have hlen : (leadingLabels ([⟨.ID, "beq"⟩, ⟨.REG, "$0"⟩, ⟨.COMMA, ","⟩, ⟨.REG, "$0"⟩,
      ⟨.COMMA, ","⟩, ⟨.ID, "far"⟩] : List Token)).length = 0 := by decide
  rw [hlen]
  have hf := hfirst (farBranch n)
  simp only [List.nil_append, List.length_nil, farBranch] at hf
  rw [hf]
  simp only
  rw [codeGenPass_lines_replicate decimalValue _ _ _ _ hi hjr, codeGenPass_lines_cons,
    if_pos (by decide)]
  have hlen2 : (leadingLabels ([⟨.LABEL, "far:"⟩, ⟨.ID, "jr"⟩, ⟨.REG, "$31"⟩] :
      List Token)).length = 1 := by decide
  rw [hlen2, hlast]
  simp only [codeGenPass_lines, List.nil_append, List.singleton_append]
  congr 1
  rw [List.replicate_succ']
  simp

/-- C7, evaluated at the failing input: in `farBranch 32768` the offset of the
branch is `32769 - (0 + 1) = 32768`, outside `[-32768, 32767]`, and `assemble`
returns the words of the program, the first with immediate field `0x8000`. -/
theorem farBranch_accepted :
    assemble decimalValue (Assembler.new (farBranch 32768)) =
      .ok (0x10008000 :: List.replicate 32769 0x03e00008) :=
  farBranch_assembles 32768 (by norm_num)

end Assembler

namespace Assembler

theorem buildImmediate_numeric_witness :
    buildImmediate decimalValue (Assembler.new []) ⟨.INT, "-32768"⟩ 16 = .ok 32768 ∧
    buildImmediate decimalValue (Assembler.new []) ⟨.INT, "65535"⟩ 16 = .ok 65535 ∧
    buildImmediate decimalValue (Assembler.new []) ⟨.INT, "65536"⟩ 16 =
      .error (AssemblerException.new .OutOfBoundsImm "65536") :=
  ⟨(buildImmediate_numeric decimalValue (Assembler.new []) ⟨.INT, "-32768"⟩ 16 (by decide)
      (by decide) (by decide) (by decide) (by decide)).1 ⟨by decide, by decide⟩,
   (buildImmediate_numeric decimalValue (Assembler.new []) ⟨.INT, "65535"⟩ 16 (by decide)
      (by decide) (by decide) (by decide) (by decide)).1 ⟨by decide, by decide⟩,
   (buildImmediate_numeric decimalValue (Assembler.new []) ⟨.INT, "65536"⟩ 16 (by decide)
      (by decide) (by decide) (by decide) (by decide)).2 (by decide)⟩

theorem registerOnly_encoding_witness :
    buildInstruction decimalValue (Assembler.new [])
      [⟨.ID, "add"⟩, ⟨.REG, "$3"⟩, ⟨.COMMA, ","⟩, ⟨.REG, "$1"⟩, ⟨.COMMA, ","⟩, ⟨.REG, "$2"⟩] 0 =
        .ok 0x00221820 :=
  (registerOnly_encoding decimalValue (Assembler.new []) []).1 "add" 0x20 (by decide)
    ⟨.REG, "$3"⟩ ⟨.COMMA, ","⟩ ⟨.REG, "$1"⟩ ⟨.COMMA, ","⟩ ⟨.REG, "$2"⟩
    (by decide) (by decide) (by decide) (by decide) (by decide)

theorem immediate_encoding_witness :
    buildInstruction decimalValue (Assembler.new [])
      [⟨.ID, "lw"⟩, ⟨.REG, "$3"⟩, ⟨.COMMA, ","⟩, ⟨.INT, "-4"⟩, ⟨.LPAREN, "("⟩, ⟨.REG, "$29"⟩,
        ⟨.RPAREN, ")"⟩] 0 = .ok 0x8fa3fffc :=
  (immediate_encoding decimalValue (Assembler.new []) []).2 "lw" 0x8c000000 (by decide)
    ⟨.REG, "$3"⟩ ⟨.COMMA, ","⟩ ⟨.INT, "-4"⟩ ⟨.LPAREN, "("⟩ ⟨.REG, "$29"⟩ ⟨.RPAREN, ")"⟩
    (by decide) (by decide) (by decide) (by decide) (by decide) (by decide) (by decide)
    (by decide)

theorem branch_label_offset_witness :
    assemble decimalValue (Assembler.new exampleBranch) = .ok [0x10000000, 0x03e00008] ∧
    ∃ st addr, checkPass (Assembler.new exampleBranch) = .ok st ∧
      st.symbolTable.lookup "label:" = some addr ∧
      (∀ b l a tok, exampleBranch = b ++ l :: a →
        tok ∈ leadingLabels l → tok.lexeme = "label:" → addr = instCount b) ∧
      [(0x10000000 : Int), 0x03e00008][0]? = some (0x10000000 + 0 * 2 ^ 21 + 0 * 2 ^ 16 +
          (addr - (0 + 1)) % 2 ^ 16) :=
  ⟨by decide,
   branch_label_offset decimalValue [] [[⟨.LABEL, "label:"⟩, ⟨.ID, "jr"⟩, ⟨.REG, "$31"⟩]] []
    "beq" 0x10000000 ⟨.REG, "$0"⟩ ⟨.COMMA, ","⟩ ⟨.REG, "$0"⟩ ⟨.COMMA, ","⟩ ⟨.ID, "label"⟩
    [0x10000000, 0x03e00008] (by decide) (by decide) (by decide) (by decide) (by decide)
    (by decide) (by decide) (by decide)⟩

theorem label_addresses_witness :
    ∃ st, checkPass (Assembler.new exampleBranch) = .ok st ∧
      st.pc = instCount exampleBranch ∧
      [(0x10000000 : Int), 0x03e00008].length = instCount exampleBranch ∧
      (∀ before tokLine after tok, exampleBranch = before ++ tokLine :: after →
        tok ∈ leadingLabels tokLine →
        st.symbolTable.lookup tok.lexeme = some (instCount before : Int)) ∧
      (∀ before after, exampleBranch = before ++ after →
        (∃ s1, checkPass_lines (Assembler.new exampleBranch) before = .ok s1 ∧
          s1.pc = instCount before) ∧
        (∃ s2 ws rest, codeGenPass_lines decimalValue { st with pc := 0 } [] before =
            .ok (s2, ws) ∧
          s2.pc = instCount before ∧ ws.length = instCount before ∧
          [(0x10000000 : Int), 0x03e00008] = ws ++ rest)) :=
  label_addresses decimalValue exampleBranch [0x10000000, 0x03e00008] (by decide)

theorem duplicate_labels_witness :
    (∃ lex, checkPass (Assembler.new
          [[⟨.LABEL, "foo:"⟩, ⟨.ID, "jr"⟩, ⟨.REG, "$31"⟩], [⟨.LABEL, "foo:"⟩, ⟨.ID, "bogus"⟩]]) =
          .error (AssemblerException.new .DuplicateLabel lex) ∧
        assemble decimalValue (Assembler.new
          [[⟨.LABEL, "foo:"⟩, ⟨.ID, "jr"⟩, ⟨.REG, "$31"⟩], [⟨.LABEL, "foo:"⟩, ⟨.ID, "bogus"⟩]]) =
          .error (AssemblerException.new .DuplicateLabel lex)) ∧
    (∃ st, checkPass (Assembler.new exampleBranch) = .ok st) :=
  ⟨(duplicate_labels decimalValue
      [[⟨.LABEL, "foo:"⟩, ⟨.ID, "jr"⟩, ⟨.REG, "$31"⟩], [⟨.LABEL, "foo:"⟩, ⟨.ID, "bogus"⟩]]).1
      (by decide),
   (duplicate_labels decimalValue exampleBranch).2 (by decide)⟩

end Assembler




/-! ## Scanner: simplified maximal munch is maximal munch -/

namespace WLP4

namespace DFA

theorem lookup_mem {α β : Type} [BEq α] [LawfulBEq α] (l : List (α × β)) (a : α) (b : β)
    (h : l.lookup a = some b) : (a, b) ∈ l := by
  induction l with
  | nil => simp at h
  | cons p ps ih =>
      obtain ⟨x, y⟩ := p
      by_cases e : a == x
      · have e' : a = x := by simpa using e
        simp only [List.lookup, e, Option.some.injEq] at h
        subst h; subst e'
        exact List.mem_cons_self _ _
      · have e' : (a == x) = false := by simpa using e
        simp only [List.lookup, e'] at h
        exact List.mem_cons_of_mem _ (ih h)

theorem transition_table (d : DFA) (cur : String) (c : Char) (nxt : String)
    (h : d.transition cur c = some nxt) :
    ∃ st ∈ d.states, st.name = cur ∧ (c, nxt) ∈ st.next := by
  unfold transition at h
  cases hf : d.find cur with
  | none => rw [hf] at h; simp at h
  | some st =>
      rw [hf] at h
      unfold find at hf
      refine ⟨st, List.mem_of_find?_eq_some hf, ?_, lookup_mem _ _ _ h⟩
      have := List.find?_some hf
      simpa using this

theorem wellShaped_step (d : DFA) (hd : d.wellShaped = true) (cur : String) (c : Char)
    (nxt : String) (h : d.transition cur c = some nxt) :
    nxt ≠ d.start ∧ (d.isAccepting nxt = true ∨ cur = d.start) := by
  obtain ⟨st, hst, hname, hmem⟩ := transition_table d cur c nxt h
  unfold wellShaped at hd
  rw [List.all_eq_true] at hd
  have h1 := hd st hst
  rw [List.all_eq_true] at h1
  have h2 := h1 (c, nxt) hmem
  simp only [Bool.and_eq_true, bne_iff_ne, ne_eq, Bool.or_eq_true, beq_iff_eq] at h2
  rw [hname] at h2
  exact h2

theorem run_append (d : DFA) (w : List Char) : ∀ (st : String) (v : List Char),
    d.run st (w ++ v) = match d.run st w with
      | some mid => d.run mid v
      | none => none := by
  induction w with
  | nil => intro st v; rfl
  | cons c cs ih =>
      intro st v
      simp only [List.cons_append, run]
      cases d.transition st c with
      | none => rfl
      | some nxt => exact ih nxt v

/-- A non-empty run never ends in the start state, and it ends in an accepting
state unless it is a single step. -/
theorem run_shape (d : DFA) (hd : d.wellShaped = true) (w : List Char) :
    ∀ (c : Char) (st : String), d.run d.start (w ++ [c]) = some st →
      st ≠ d.start ∧ (d.isAccepting st = true ∨ w = []) := by
  induction w using List.reverseRecOn with
  | nil =>
      intro c st h
      simp only [List.nil_append, run] at h
      cases ht : d.transition d.start c with
      | none => rw [ht] at h; simp at h
      | some nxt =>
          rw [ht] at h
          simp only [run, Option.some.injEq] at h
          subst h
          exact ⟨(wellShaped_step d hd _ _ _ ht).1, Or.inr rfl⟩
  | append_singleton w b ih =>
      intro c st h
      rw [run_append] at h
      cases hm : d.run d.start (w ++ [b]) with
      | none => rw [hm] at h; simp at h
      | some mid =>
          rw [hm] at h
          simp only [run] at h
          cases ht : d.transition mid c with
          | none => rw [ht] at h; simp at h
          | some nxt =>
              rw [ht] at h
              simp only [run, Option.some.injEq] at h
              subst h
              have hmid := (ih b mid hm).1
              have hs := wellShaped_step d hd _ _ _ ht
              refine ⟨hs.1, Or.inl ?_⟩
              rcases hs.2 with h1 | h1
              · exact h1
              · exact absurd h1 hmid

theorem run_nonempty_ne_start (d : DFA) (hd : d.wellShaped = true) (w : List Char)
    (st : String) (hw : w ≠ []) (h : d.run d.start w = some st) : st ≠ d.start := by
  obtain ⟨v, c, rfl⟩ : ∃ v c, w = v ++ [c] := by
    rcases List.eq_nil_or_concat w with h0 | ⟨v, c, h1⟩
    · exact absurd h0 hw
    · exact ⟨v, c, by simpa using h1⟩
  exact (run_shape d hd v c st h).1

/-- A run that exists on a longer word exists on each of its beginnings. -/
theorem run_prefix (d : DFA) (w v : List Char) (st fin : String)
    (h : d.run st (w ++ v) = some fin) : ∃ mid, d.run st w = some mid := by
  rw [run_append] at h
  cases hm : d.run st w with
  | none => rw [hm] at h; simp at h
  | some mid => exact ⟨mid, rfl⟩

end DFA

end WLP4

namespace WLP4

namespace WLP4Scanner

open DFA

theorem getElem?_at (before rem : List Char) :
    (before ++ rem)[before.length]? = rem.head? := by
  rw [List.getElem?_append_right (le_refl _)]
  cases rem <;> simp

/-- Once the run on `lexL` is stuck at the next character, no longer beginning
of the input is accepted. -/
theorem stuck_no_longer (d : DFA) (lexL rem : List Char) (cur : String)
    (hrun : d.run d.start lexL = some cur)
    (hstuck : ∀ c rem1, rem = c :: rem1 → d.transition cur c = none) :
    ∀ w t, w ≠ [] → rem = w ++ t → d.accepts (lexL ++ w) = false := by
  intro w t hw hrem
  cases w with
  | nil => exact absurd rfl hw
  | cons c w1 =>
      have ht := hstuck c (w1 ++ t) (by simpa using hrem)
      unfold accepts
      rw [run_append, hrun]
      simp [run, ht]

/-- When the run on `lexL` is stuck in a non-accepting state, no non-empty
beginning of the input is accepted. -/
theorem stuck_unaccepted (d : DFA) (hd : d.wellShaped = true) (lexL rem : List Char)
    (cur : String) (hrun : d.run d.start lexL = some cur)
    (hacc : d.isAccepting cur = false)
    (hstuck : ∀ c rem1, rem = c :: rem1 → d.transition cur c = none) :
    ∀ w t, w ≠ [] → lexL ++ rem = w ++ t → d.accepts w = false := by
  intro w t hw hsplit
  by_contra hacc_w
  have hacc_w : d.accepts w = true := by simpa using hacc_w
  unfold accepts at hacc_w
  cases hrw : d.run d.start w with
  | none => rw [hrw] at hacc_w; simp at hacc_w
  | some fin =>
      rw [hrw] at hacc_w
      simp only at hacc_w
      rcases List.append_eq_append_iff.mp hsplit with ⟨a, ha1, ha2⟩ | ⟨a, ha1, ha2⟩
      · -- w = lexL ++ a
        cases a with
        | nil =>
            simp only [List.append_nil] at ha1
            subst ha1
            rw [hrun] at hrw
            simp only [Option.some.injEq] at hrw
            subst hrw
            rw [hacc] at hacc_w
            exact Bool.noConfusion hacc_w
        | cons c a1 =>
            have ht := hstuck c (a1 ++ t) (by simpa using ha2)
            rw [ha1, run_append, hrun] at hrw
            simp [run, ht] at hrw
      · -- lexL = w ++ a
        cases a with
        | nil =>
            simp only [List.append_nil] at ha1
            subst ha1
            rw [hrun] at hrw
            simp only [Option.some.injEq] at hrw
            subst hrw
            rw [hacc] at hacc_w
            exact Bool.noConfusion hacc_w
        | cons c a1 =>
            -- lexL has at least two characters, so its run ends in an accepting state
            obtain ⟨v, b, hvb⟩ : ∃ v b, lexL = v ++ [b] := by
              rcases List.eq_nil_or_concat lexL with h0 | ⟨v, b, h1⟩
              · rw [h0] at ha1; simp at ha1
              · exact ⟨v, b, by simpa using h1⟩
            have hshape := run_shape d hd v b cur (by rw [← hvb]; exact hrun)
            rcases hshape.2 with h1 | h1
            · rw [hacc] at h1; exact Bool.noConfusion h1
            · subst h1
              rw [ha1] at hvb
              have hlen := congrArg List.length hvb
              simp only [List.length_append, List.length_cons, List.nil_append,
                List.length_singleton, List.length_nil] at hlen
              have : w.length = 0 := by omega
              exact hw (List.length_eq_zero.mp this)

end WLP4Scanner

end WLP4

namespace WLP4

namespace WLP4Scanner

open DFA

theorem emitted_cons (tok : String × List Char) (toks : List (String × List Char)) :
    emitted (tok :: toks) = (match emit tok with | some e => [e] | none => []) ++ emitted toks := by
  unfold emitted
  rw [List.filterMap_cons]
  cases emit tok <;> rfl

/-- What the loop appends to the output for an accepted lexeme that is not a comment. -/
theorem out_emit (st : String) (lexL : List Char) (out : List (String × String))
    (hk : getKind st (String.mk lexL) ≠ "COMMENT") :
    (if getKind st (String.mk lexL) ≠ "WHITESPACE" then
        out ++ [(getKind st (String.mk lexL), String.mk lexL)] else out) =
      out ++ (match emit (st, lexL) with | some e => [e] | none => []) := by
  unfold emit
  by_cases hw : getKind st (String.mk lexL) = "WHITESPACE"
  · simp [hw]
  · simp [hw, hk]

theorem scanLoop_spec (d : DFA) (hd : d.wellShaped = true) (hstart : d.isAccepting d.start = false)
    (s : List Char) : ∀ (steps : Nat) (before lexL rem : List Char) (cur : String)
      (out : List (String × String)),
    s = before ++ rem → d.run d.start lexL = some cur →
    2 * rem.length + (if lexL = [] then 0 else 1) < steps →
    ∀ out1 status, scanLoop d s steps before.length cur (String.mk lexL) out = (out1, status) →
      status ≠ .running ∧
      (status = .done → ∃ toks rest, MunchSeq d (lexL ++ rem) toks rest ∧
        (rest = [] ∨ lastIsComment toks = true) ∧ out1 = out ++ emitted toks) ∧
      (∀ msg, status = .unaccepted msg → ∃ toks rest, MunchSeq d (lexL ++ rem) toks rest ∧
        out1 = out ++ emitted toks ∧ (lexL ++ rem ≠ [] → rest ≠ []) ∧
        ∀ w t, w ≠ [] → rest = w ++ t → d.accepts w = false) := by
  intro steps
  induction steps with
  | zero => intro before lexL rem cur out _ _ hm; omega
  | succ steps ih =>
      intro before lexL rem cur out hs hrun hm out1 status h
      have hidx : s[before.length]? = rem.head? := by rw [hs]; exact getElem?_at before rem
      have hlen : before.length = s.length ↔ rem = [] := by
        rw [hs, List.length_append]
        constructor
        · intro h0; exact List.length_eq_zero.mp (by omega)
        · intro h0; simp [h0]
      rw [scanLoop] at h
      simp only [hidx] at h
      by_cases hcase : ∃ c rem1 nxt, rem = c :: rem1 ∧ d.transition cur c = some nxt
      · -- a transition exists: the character joins the lexeme
        obtain ⟨c, rem1, nxt, hrem, ht⟩ := hcase
        subst hrem
        simp only [List.head?_cons, ht] at h
        have := ih (before ++ [c]) (lexL ++ [c]) rem1 nxt out (by simp [hs])
          (by rw [run_append, hrun]; simp [run, ht])
          (by simp only [List.length_cons] at hm; simp; omega) out1 status
          (by simpa using h)
        simpa using this
      · -- the run is stuck
        have hstuck : ∀ c rem1, rem = c :: rem1 → d.transition cur c = none := by
          intro c rem1 hr
          cases ht : d.transition cur c with
          | none => rfl
          | some nxt => exact absurd ⟨c, rem1, nxt, hr, ht⟩ hcase
        split at h
        swap
        · rename_i nxt heq
          exfalso
          cases hr : rem with
          | nil => simp [hr] at heq
          | cons c rem1 => simp [hr, hstuck c rem1 hr] at heq
        by_cases hacc : d.isAccepting cur = true
        · have hne : lexL ≠ [] := by
            intro h0
            subst h0
            simp only [run, Option.some.injEq] at hrun
            rw [← hrun, hstart] at hacc
            exact Bool.noConfusion hacc
          have hmunch : IsMaxMunch d cur lexL rem :=
            ⟨hne, hrun, hacc, stuck_no_longer d lexL rem cur hrun hstuck⟩
          simp only [hacc, Bool.not_true, Bool.false_eq_true, if_false] at h
          split at h
          · -- number out of bounds
            simp only [Prod.mk.injEq] at h
            obtain ⟨_, rfl⟩ := h
            exact ⟨by simp, by simp, by simp⟩
          · split at h
            · -- a comment ends the line
              rename_i hk
              simp only [Prod.mk.injEq] at h
              obtain ⟨rfl, rfl⟩ := h
              refine ⟨by simp, fun _ => ⟨[(cur, lexL)], rem, MunchSeq.comment cur lexL rem hmunch hk,
                Or.inr (by simp [lastIsComment, hk]), ?_⟩, by simp⟩
              simp [emitted, emit, hk]
            · rename_i hk
              rw [out_emit cur lexL out hk] at h
              split at h
              · -- the line is finished
                rename_i hend
                have hr : rem = [] := hlen.mp hend
                simp only [Prod.mk.injEq] at h
                obtain ⟨rfl, rfl⟩ := h
                subst hr
                refine ⟨by simp, fun _ => ⟨[(cur, lexL)], [],
                  MunchSeq.cons cur lexL [] [] [] hmunch hk (MunchSeq.nil []), Or.inl rfl, ?_⟩,
                  by simp⟩
                rw [emitted_cons]
                simp [emitted]
              · -- the scan goes on with the next lexeme
                rename_i hend
                have hr : rem ≠ [] := fun h0 => hend (hlen.mpr h0)
                have hrec := ih before [] rem d.start _ hs rfl
                  (by simp only [hne, if_false] at hm; simp; omega) out1 status h
                obtain ⟨h1, h2, h3⟩ := hrec
                refine ⟨h1, ?_, ?_⟩
                · intro hdone
                  obtain ⟨toks, rest, hseq, hlast, hout⟩ := h2 hdone
                  simp only [List.nil_append] at hseq
                  refine ⟨(cur, lexL) :: toks, rest,
                    MunchSeq.cons cur lexL rem toks rest hmunch hk hseq, ?_, ?_⟩
                  · rcases hlast with hl | hl
                    · exact Or.inl hl
                    · right
                      cases toks with
                      | nil => simp [lastIsComment] at hl
                      | cons t ts => simpa [lastIsComment, List.getLast?_cons_cons] using hl
                  · rw [hout, emitted_cons, List.append_assoc]
                · intro msg hmsg
                  obtain ⟨toks, rest, hseq, hout, hrest, hno⟩ := h3 msg hmsg
                  simp only [List.nil_append] at hseq hrest
                  exact ⟨(cur, lexL) :: toks, rest,
                    MunchSeq.cons cur lexL rem toks rest hmunch hk hseq,
                    by rw [hout, emitted_cons, List.append_assoc], fun _ => hrest hr, hno⟩
        · -- stuck in a non-accepting state: the error
          have hacc' : d.isAccepting cur = false := by simpa using hacc
          simp only [hacc', Bool.not_false, if_true, Prod.mk.injEq] at h
          obtain ⟨rfl, rfl⟩ := h
          refine ⟨by simp, by simp, ?_⟩
          intro msg _
          exact ⟨[], lexL ++ rem, MunchSeq.nil _, by simp [emitted], fun h0 => h0,
            stuck_unaccepted d hd lexL rem cur hrun hacc' hstuck⟩

theorem new_wellShaped : WLP4Scanner.new.wellShaped = true := by
  rw [new_table]
  decide

theorem new_start_rejects : WLP4Scanner.new.isAccepting WLP4Scanner.new.start = false := by
  rw [new_table]
  decide

/-- C10. The scan of a non-empty line is a maximal-munch tokenisation for the
scanner's DFA: the loop always ends; when it ends without error, the lexemes it
accepted (whitespace and a closing comment included) are, one after the other,
the longest prefix of the not yet consumed input that the DFA accepts from
`_START`, up to the end of the line or a comment, and the output is what these
lexemes emit; when it ends with the unrecognised-token error, the lexemes
accepted before are such longest prefixes and no non-empty prefix of the
remaining input is accepted by the DFA. -/
theorem scanner_maximal_munch (s : String) (out0 : List (String × String))
    (hs : s.length ≠ 0) :
    (scanLine WLP4Scanner.new s out0).2 ≠ .running ∧
    ((scanLine WLP4Scanner.new s out0).2 = .done →
      ∃ toks rest, MunchSeq WLP4Scanner.new s.data toks rest ∧
        (rest = [] ∨ lastIsComment toks = true) ∧
        (scanLine WLP4Scanner.new s out0).1 = out0 ++ emitted toks) ∧
    (∀ msg, (scanLine WLP4Scanner.new s out0).2 = .unaccepted msg →
      ∃ toks rest, MunchSeq WLP4Scanner.new s.data toks rest ∧
        (scanLine WLP4Scanner.new s out0).1 = out0 ++ emitted toks ∧ rest ≠ [] ∧
        ∀ w t, w ≠ [] → rest = w ++ t → WLP4Scanner.new.accepts w = false) := by
  have hne : s.data ≠ [] := by
    intro h0
    apply hs
    show s.data.length = 0
    rw [h0]
    rfl
  have key := scanLoop_spec WLP4Scanner.new new_wellShaped new_start_rejects s.data
    (2 * s.length + 2) [] [] s.data WLP4Scanner.new.start out0 rfl rfl
    (by show 2 * s.data.length + (if ([] : List Char) = [] then 0 else 1) < 2 * s.data.length + 2
        simp)
    (scanLine WLP4Scanner.new s out0).1 (scanLine WLP4Scanner.new s out0).2 rfl
  obtain ⟨h1, h2, h3⟩ := key
  simp only [List.nil_append] at h2 h3
  refine ⟨h1, h2, ?_⟩
  intro msg hmsg
  obtain ⟨toks, rest, ha, hb, hc, hd⟩ := h3 msg hmsg
  exact ⟨toks, rest, ha, hb, hc hne, hd⟩

theorem scanner_maximal_munch_witness :
    (scanLine WLP4Scanner.new "x=05;//c" []).2 = .done ∧
    (scanLine WLP4Scanner.new "x=05;//c" []).2 ≠ .running ∧
    ((scanLine WLP4Scanner.new "x=05;//c" []).2 = .done →
      ∃ toks rest, MunchSeq WLP4Scanner.new "x=05;//c".data toks rest ∧
        (rest = [] ∨ lastIsComment toks = true) ∧
        (scanLine WLP4Scanner.new "x=05;//c" []).1 = [] ++ emitted toks) ∧
    (∀ msg, (scanLine WLP4Scanner.new "x=05;//c" []).2 = .unaccepted msg →
      ∃ toks rest, MunchSeq WLP4Scanner.new "x=05;//c".data toks rest ∧
        (scanLine WLP4Scanner.new "x=05;//c" []).1 = [] ++ emitted toks ∧ rest ≠ [] ∧
        ∀ w t, w ≠ [] → rest = w ++ t → WLP4Scanner.new.accepts w = false) :=
  ⟨by rw [new_table]; decide, scanner_maximal_munch "x=05;//c" [] (by decide)⟩

end WLP4Scanner

end WLP4

/-! ## Type annotator: the operator tables -/

namespace WLP4

@[simp] theorem Node.kind_mk (k s t : String) (cs : List Node) : (Node.mk k s t cs).kind = k := rfl

@[simp] theorem Node.seq_mk (k s t : String) (cs : List Node) : (Node.mk k s t cs).seq = s := rfl

@[simp] theorem Node.type_mk (k s t : String) (cs : List Node) : (Node.mk k s t cs).type = t := rfl

@[simp] theorem Node.children_mk (k s t : String) (cs : List Node) :
    (Node.mk k s t cs).children = cs := rfl

@[simp] theorem Node.setType_mk (k s t u : String) (cs : List Node) :
    (Node.mk k s t cs).setType u = Node.mk k s u cs := rfl

@[simp] theorem Node.setChild_mk (k s t : String) (cs : List Node) (i : Nat) (c : Node) :
    (Node.mk k s t cs).setChild i c = Node.mk k s t (cs.set i c) := rfl

namespace WLP4ParseTree

theorem annotate_expr_bin (fuel : Nat) (ptable : ProcTable) (cur k s ty : String)
    (e op t : Node) :
    annotate_expr (fuel + 1) ptable cur (Node.mk k s ty [e, op, t]) =
      match annotate_term fuel ptable cur t with
      | .error a => .error a
      | .ok t1 =>
        match annotate_expr fuel ptable cur e with
        | .error a => .error a
        | .ok e1 =>
          if t1.type = TYPE_INT then .ok (Node.mk k s e1.type [e1, op, t1])
          else if op.kind = "PLUS" then
            if e1.type ≠ TYPE_INT then
              throwTypeError ("Expected expression \x7b" ++ TYPE_INT ++ " + " ++ TYPE_INT_PTR ++
                "\x7d, given \x7b" ++ e1.type ++ " + " ++ t1.type ++ "\x7d.")
            else .ok (Node.mk k s TYPE_INT_PTR [e1, op, t1])
          else
            if e1.type ≠ TYPE_INT_PTR then
              throwTypeError ("Expected expression \x7b" ++ TYPE_INT_PTR ++ " - " ++
                TYPE_INT_PTR ++ "\x7d, given \x7b" ++ e1.type ++ " - " ++ t1.type ++ "\x7d.")
            else .ok (Node.mk k s TYPE_INT [e1, op, t1]) := by
  rw [annotate_expr]
  simp only [back, child, Node.children_mk, List.getLast?, List.getLast, bind, Except.bind, pure,
    Except.pure]
  cases annotate_term fuel ptable cur t with
  | error a => rfl
  | ok t1 =>
    simp [bind, Except.bind, pure, Except.pure]
    cases annotate_expr fuel ptable cur e with
    | error a => rfl
    | ok e1 => simp [bind, Except.bind, pure, Except.pure]

theorem annotate_term_bin (fuel : Nat) (ptable : ProcTable) (cur k s ty : String)
    (t op f : Node) :
    annotate_term (fuel + 1) ptable cur (Node.mk k s ty [t, op, f]) =
      match annotate_factor fuel ptable cur f with
      | .error a => .error a
      | .ok f1 =>
        if f1.type ≠ TYPE_INT then
          throwTypeError "Expected multiple combined factors to all have type int."
        else
          match annotate_term fuel ptable cur t with
          | .error a => .error a
          | .ok t1 =>
            if t1.type ≠ TYPE_INT then
              throwTypeError "Expected multiple combined factors to all have type int."
            else .ok (Node.mk k s f1.type [t1, op, f1]) := by
  rw [annotate_term]
  simp only [back, child, Node.children_mk, List.getLast?, List.getLast, bind, Except.bind, pure,
    Except.pure]
  cases annotate_factor fuel ptable cur f with
  | error a => rfl
  | ok f1 =>
    simp [bind, Except.bind, pure, Except.pure]
    by_cases hf : f1.type = TYPE_INT
    · simp only [hf, if_true]
      cases annotate_term fuel ptable cur t with
      | error a => rfl
      | ok t1 => simp
    · simp [hf]

/-- C1. For a binary arithmetic node whose operands type-check (with types in
`int`, `int*`), the type checker's result is the WLP4 table: for `expr PLUS term`
the table `plusType`, for `expr MINUS term` the table `minusType`, for
`term STAR/SLASH/PCT factor` the table `mulType`.  Where the table has an entry
the node is returned with that type tag and its annotated operands; where it
has none the node is rejected with a type error. -/
theorem binary_typing_table (fuel : Nat) (ptable : ProcTable) (cur k s ty : String)
    (l op r l1 r1 : Node) (hl : IsType l1.type) (hr : IsType r1.type) :
    (op.kind = "PLUS" → annotate_expr fuel ptable cur l = .ok l1 →
      annotate_term fuel ptable cur r = .ok r1 →
      match plusType l1.type r1.type with
      | some t => annotate_expr (fuel + 1) ptable cur (Node.mk k s ty [l, op, r]) =
          .ok (Node.mk k s t [l1, op, r1])
      | none => ∃ te, annotate_expr (fuel + 1) ptable cur (Node.mk k s ty [l, op, r]) =
          .error (.typeError te)) ∧
    (op.kind = "MINUS" → annotate_expr fuel ptable cur l = .ok l1 →
      annotate_term fuel ptable cur r = .ok r1 →
      match minusType l1.type r1.type with
      | some t => annotate_expr (fuel + 1) ptable cur (Node.mk k s ty [l, op, r]) =
          .ok (Node.mk k s t [l1, op, r1])
      | none => ∃ te, annotate_expr (fuel + 1) ptable cur (Node.mk k s ty [l, op, r]) =
          .error (.typeError te)) ∧
    ((op.kind = "STAR" ∨ op.kind = "SLASH" ∨ op.kind = "PCT") →
      annotate_term fuel ptable cur l = .ok l1 →
      annotate_factor fuel ptable cur r = .ok r1 →
      match mulType l1.type r1.type with
      | some t => annotate_term (fuel + 1) ptable cur (Node.mk k s ty [l, op, r]) =
          .ok (Node.mk k s t [l1, op, r1])
      | none => ∃ te, annotate_term (fuel + 1) ptable cur (Node.mk k s ty [l, op, r]) =
          .error (.typeError te)) := by
  have hne : TYPE_INT_PTR ≠ TYPE_INT := by decide
  refine ⟨?_, ?_, ?_⟩
  · intro hop he ht
    rw [annotate_expr_bin, ht, he]
    rcases hl with hl | hl <;> rcases hr with hr | hr <;>
      simp [plusType, hl, hr, hop, hne, hne.symm, throwTypeError]
  · intro hop he ht
    have hop' : op.kind ≠ "PLUS" := by rw [hop]; decide
    rw [annotate_expr_bin, ht, he]
    rcases hl with hl | hl <;> rcases hr with hr | hr <;>
      simp [minusType, hl, hr, hop', hne, hne.symm, throwTypeError]
  · intro _ ht hf
    rw [annotate_term_bin, hf]
    rcases hl with hl | hl <;> rcases hr with hr | hr <;>
      simp [mulType, hl, hr, ht, hne, hne.symm, throwTypeError]

end WLP4ParseTree

end WLP4

/-! ## Type annotator: annotation soundness -/

namespace WLP4

theorem rhsOf_expr :
    rhsOf "expr" = [["term"], ["expr", "PLUS", "term"], ["expr", "MINUS", "term"]] := by decide

theorem rhsOf_term :
    rhsOf "term" = [["factor"], ["term", "STAR", "factor"], ["term", "SLASH", "factor"],
      ["term", "PCT", "factor"]] := by decide

theorem rhsOf_factor :
    rhsOf "factor" = [["ID"], ["NUM"], ["NULL"], ["LPAREN", "expr", "RPAREN"], ["AMP", "lvalue"],
      ["STAR", "factor"], ["NEW", "INT", "LBRACK", "expr", "RBRACK"], ["ID", "LPAREN", "RPAREN"],
      ["ID", "LPAREN", "arglist", "RPAREN"]] := by decide

theorem rhsOf_lvalue :
    rhsOf "lvalue" = [["ID"], ["STAR", "factor"], ["LPAREN", "lvalue", "RPAREN"]] := by decide

theorem rhsOf_arglist : rhsOf "arglist" = [["expr"], ["expr", "COMMA", "arglist"]] := by decide

theorem ParseTree.inv {k s t : String} {cs : List Node} (h : ParseTree (Node.mk k s t cs))
    (hk : rhsOf k ≠ []) : cs.map Node.kind ∈ rhsOf k ∧ ∀ c ∈ cs, ParseTree c := by
  cases h with
  | leaf _ _ _ h0 => exact absurd h0 hk
  | node _ _ _ _ h1 h2 => exact ⟨h1, h2⟩

theorem ParseTree.children_nil {n : Node} (h : ParseTree n) (hk : rhsOf n.kind = []) :
    n.children = [] := by
  cases h with
  | leaf _ _ _ _ => rfl
  | node k s t cs h1 _ =>
      simp only [Node.kind_mk] at hk
      rw [hk] at h1
      simp at h1

theorem ParseTree.setType {n : Node} (h : ParseTree n) (ty : String) :
    ParseTree (n.setType ty) := by
  cases h with
  | leaf k s t h0 => exact ParseTree.leaf k s ty h0
  | node k s t cs h1 h2 => exact ParseTree.node k s ty cs h1 h2

theorem map_kind_cons {cs : List Node} {k : String} {ks : List String}
    (h : cs.map Node.kind = k :: ks) :
    ∃ c rest, cs = c :: rest ∧ c.kind = k ∧ rest.map Node.kind = ks := by
  cases cs with
  | nil => simp at h
  | cons c rest =>
      simp only [List.map_cons, List.cons.injEq] at h
      exact ⟨c, rest, rfl, h.1, h.2⟩

theorem map_kind_nil {cs : List Node} (h : cs.map Node.kind = []) : cs = [] := by
  simpa using h

namespace WLP4ParseTree

theorem typeInt_isType : IsType TYPE_INT := Or.inl rfl

theorem typePtr_isType : IsType TYPE_INT_PTR := Or.inr rfl

/-- A node whose kind is none of `expr`, `term`, `factor`, `lvalue` is not constrained. -/
theorem typedNode_other (table : ProcData) (n : Node) (h1 : n.kind ≠ "expr")
    (h2 : n.kind ≠ "term") (h3 : n.kind ≠ "factor") (h4 : n.kind ≠ "lvalue") :
    TypedNode table n :=
  ⟨fun h => absurd h h1, fun h => absurd h h2, fun h => absurd h h3, fun h => absurd h h4⟩

/-- A terminal leaf, annotated or not, satisfies the soundness property. -/
theorem allNodes_leaf (table : ProcData) (k s t : String) (hk : rhsOf k = []) :
    AllNodes (TypedNode table) (Node.mk k s t []) := by
  refine AllNodes.mk _ (typedNode_other table _ ?_ ?_ ?_ ?_) (by simp)
  all_goals
    intro h
    simp only [Node.kind_mk] at h
    rw [h] at hk
    revert hk
    decide

theorem allNodes_terminal (table : ProcData) (n : Node) (h : ParseTree n)
    (hk : rhsOf n.kind = []) : AllNodes (TypedNode table) n := by
  have hc := h.children_nil hk
  obtain ⟨k, s, t, cs⟩ := n
  simp only [Node.children_mk] at hc
  subst hc
  exact allNodes_leaf table k s t hk

end WLP4ParseTree

end WLP4

namespace WLP4

theorem AllNodes.head {P : Node → Prop} {n : Node} (h : AllNodes P n) : P n := by
  cases h with
  | mk _ h1 _ => exact h1

namespace WLP4ParseTree

theorem typedNode_expr (table : ProcData) (s ty : String) (cs : List Node) (hty : IsType ty)
    (hr : exprRule ty cs) : TypedNode table (Node.mk "expr" s ty cs) :=
  ⟨fun _ => ⟨hty, hr⟩, fun h => absurd h (by simp), fun h => absurd h (by simp),
    fun h => absurd h (by simp)⟩

theorem typedNode_term (table : ProcData) (s ty : String) (cs : List Node) (hty : IsType ty)
    (hr : termRule ty cs) : TypedNode table (Node.mk "term" s ty cs) :=
  ⟨fun h => absurd h (by simp), fun _ => ⟨hty, hr⟩, fun h => absurd h (by simp),
    fun h => absurd h (by simp)⟩

theorem typedNode_factor (table : ProcData) (s ty : String) (cs : List Node) (hty : IsType ty)
    (hr : factorRule table ty cs) : TypedNode table (Node.mk "factor" s ty cs) :=
  ⟨fun h => absurd h (by simp), fun h => absurd h (by simp), fun _ => ⟨hty, hr⟩,
    fun h => absurd h (by simp)⟩

theorem typedNode_lvalue (table : ProcData) (s ty : String) (cs : List Node) (hty : IsType ty)
    (hr : lvalueRule table ty cs) : TypedNode table (Node.mk "lvalue" s ty cs) :=
  ⟨fun h => absurd h (by simp), fun h => absurd h (by simp), fun h => absurd h (by simp),
    fun _ => ⟨hty, hr⟩⟩

theorem Good.isType_expr {table : ProcData} {n n1 : Node} (g : Good table n n1)
    (hk : n.kind = "expr") : IsType n1.type :=
  (g.2.2.head.1 (by rw [g.1, hk])).1

theorem Good.isType_term {table : ProcData} {n n1 : Node} (g : Good table n n1)
    (hk : n.kind = "term") : IsType n1.type :=
  (g.2.2.head.2.1 (by rw [g.1, hk])).1

theorem Good.isType_factor {table : ProcData} {n n1 : Node} (g : Good table n n1)
    (hk : n.kind = "factor") : IsType n1.type :=
  (g.2.2.head.2.2.1 (by rw [g.1, hk])).1

theorem Good.isType_lvalue {table : ProcData} {n n1 : Node} (g : Good table n n1)
    (hk : n.kind = "lvalue") : IsType n1.type :=
  (g.2.2.head.2.2.2 (by rw [g.1, hk])).1

theorem annotate_expr_un (fuel : Nat) (ptable : ProcTable) (cur k s ty : String) (t : Node) :
    annotate_expr (fuel + 1) ptable cur (Node.mk k s ty [t]) =
      match annotate_term fuel ptable cur t with
      | .error a => .error a
      | .ok t1 => .ok (Node.mk k s t1.type [t1]) := by
  rw [annotate_expr]
  simp only [back, child, Node.children_mk, List.getLast?, List.getLast, bind, Except.bind, pure,
    Except.pure]
  cases annotate_term fuel ptable cur t with
  | error a => rfl
  | ok t1 => simp [bind, Except.bind, pure, Except.pure]

theorem annotate_term_un (fuel : Nat) (ptable : ProcTable) (cur k s ty : String) (f : Node) :
    annotate_term (fuel + 1) ptable cur (Node.mk k s ty [f]) =
      match annotate_factor fuel ptable cur f with
      | .error a => .error a
      | .ok f1 => .ok (Node.mk k s f1.type [f1]) := by
  rw [annotate_term]
  simp only [back, child, Node.children_mk, List.getLast?, List.getLast, bind, Except.bind, pure,
    Except.pure]
  cases annotate_factor fuel ptable cur f with
  | error a => rfl
  | ok f1 => simp [bind, Except.bind, pure, Except.pure]

theorem expr_sound_step (fuel : Nat) (ih : ExprSound fuel) (ptable : ProcTable) (cur : String)
    (htab : TableOK (ptable.get cur)) (n n1 : Node) (hp : ParseTree n) (hk : n.kind = "expr")
    (h : annotate_expr (fuel + 1) ptable cur n = .ok n1) : Good (ptable.get cur) n n1 := by
  obtain ⟨k, s, ty, cs⟩ := n
  simp only [Node.kind_mk] at hk
  subst hk
  obtain ⟨hm, hc⟩ := hp.inv (by decide)
  obtain ⟨ihE, ihT, -, -, -⟩ := ih ptable cur htab
  have hne : TYPE_INT_PTR ≠ TYPE_INT := by decide
  rw [rhsOf_expr] at hm
  simp only [List.mem_cons, List.mem_singleton, List.mem_nil_iff, or_false] at hm
  rcases hm with hm | hm | hm
  · obtain ⟨t, r, rfl, ht, hr⟩ := map_kind_cons hm
    have := map_kind_nil hr
    subst this
    rw [annotate_expr_un] at h
    cases hterm : annotate_term fuel ptable cur t with
    | error a => rw [hterm] at h; simp at h
    | ok t1 =>
        rw [hterm] at h
        simp only [Except.ok.injEq] at h
        subst h
        have g := ihT t t1 (hc t (by simp)) ht hterm
        refine ⟨rfl, ParseTree.node _ _ _ _ (by simp [rhsOf_expr, g.1, ht]) (by simpa using g.2.1),
          AllNodes.mk _ (typedNode_expr _ _ _ _ (g.isType_term ht) rfl) (by simpa using g.2.2)⟩
  all_goals
    obtain ⟨e, r, rfl, he, hr⟩ := map_kind_cons hm
    obtain ⟨op, r, rfl, hop, hr⟩ := map_kind_cons hr
    obtain ⟨t, r, rfl, ht, hr⟩ := map_kind_cons hr
    have := map_kind_nil hr
    subst this
    rw [annotate_expr_bin] at h
    cases hterm : annotate_term fuel ptable cur t with
    | error a => rw [hterm] at h; simp at h
    | ok t1 =>
        rw [hterm] at h
        simp only at h
        cases hexpr : annotate_expr fuel ptable cur e with
        | error a => rw [hexpr] at h; simp at h
        | ok e1 =>
            rw [hexpr] at h
            simp only at h
            have gt := ihT t t1 (hc t (by simp)) ht hterm
            have ge := ihE e e1 (hc e (by simp)) he hexpr
            have hpt : ∀ ty1, ParseTree (Node.mk "expr" s ty1 [e1, op, t1]) := fun ty1 =>
              ParseTree.node _ _ _ _ (by simp [rhsOf_expr, gt.1, ge.1, ht, he, hop])
                (by
                  intro c hcm
                  simp only [List.mem_cons, List.mem_singleton, List.mem_nil_iff, or_false] at hcm
                  rcases hcm with rfl | rfl | rfl
                  · exact ge.2.1
                  · exact hc _ (by simp)
                  · exact gt.2.1)
            have hall : ∀ c ∈ [e1, op, t1], AllNodes (TypedNode (ptable.get cur)) c := by
              intro c hcm
              simp only [List.mem_cons, List.mem_singleton, List.mem_nil_iff, or_false] at hcm
              rcases hcm with rfl | rfl | rfl
              · exact ge.2.2
              · exact allNodes_terminal _ _ (hc _ (by simp)) (by rw [hop]; decide)
              · exact gt.2.2
            have hte := ge.isType_expr he
            have htt := gt.isType_term ht
            have hrule : ∀ ty1, n1 = Node.mk "expr" s ty1 [e1, op, t1] →
                exprRule ty1 [e1, op, t1] → Good (ptable.get cur)
                  (Node.mk "expr" s ty [e, op, t]) n1 := by
              intro ty1 hn hr
              subst hn
              have hty1 : IsType ty1 := by
                simp only [exprRule] at hr
                rcases hr with ⟨_, hr⟩ | ⟨_, hr⟩
                · simp only [plusType] at hr
                  split at hr
                  · simp only [Option.some.injEq] at hr; rw [← hr]; exact typeInt_isType
                  · split at hr
                    · simp only [Option.some.injEq] at hr; rw [← hr]; exact typePtr_isType
                    · split at hr
                      · simp only [Option.some.injEq] at hr; rw [← hr]; exact typePtr_isType
                      · simp at hr
                · simp only [minusType] at hr
                  split at hr
                  · simp only [Option.some.injEq] at hr; rw [← hr]; exact typeInt_isType
                  · split at hr
                    · simp only [Option.some.injEq] at hr; rw [← hr]; exact typePtr_isType
                    · split at hr
                      · simp only [Option.some.injEq] at hr; rw [← hr]; exact typeInt_isType
                      · simp at hr
              exact ⟨rfl, hpt ty1, AllNodes.mk _ (typedNode_expr _ _ _ _ hty1 hr) hall⟩
            rcases hte with hte | hte <;> rcases htt with htt | htt <;>
              simp [hte, htt, hop, hne, hne.symm, throwTypeError] at h <;>
              exact hrule _ h.symm
                (by simp [exprRule, plusType, minusType, hte, htt, hop, hne, hne.symm])

end WLP4ParseTree

end WLP4

namespace WLP4

namespace WLP4ParseTree

theorem term_sound_step (fuel : Nat) (ih : ExprSound fuel) (ptable : ProcTable) (cur : String)
    (htab : TableOK (ptable.get cur)) (n n1 : Node) (hp : ParseTree n) (hk : n.kind = "term")
    (h : annotate_term (fuel + 1) ptable cur n = .ok n1) : Good (ptable.get cur) n n1 := by
  obtain ⟨k, s, ty, cs⟩ := n
  simp only [Node.kind_mk] at hk
  subst hk
  obtain ⟨hm, hc⟩ := hp.inv (by decide)
  obtain ⟨-, ihT, ihF, -, -⟩ := ih ptable cur htab
  rw [rhsOf_term] at hm
  simp only [List.mem_cons, List.mem_singleton, List.mem_nil_iff, or_false] at hm
  rcases hm with hm | hm | hm | hm
  · obtain ⟨f, r, rfl, hf, hr⟩ := map_kind_cons hm
    have := map_kind_nil hr
    subst this
    rw [annotate_term_un] at h
    cases hfac : annotate_factor fuel ptable cur f with
    | error a => rw [hfac] at h; simp at h
    | ok f1 =>
        rw [hfac] at h
        simp only [Except.ok.injEq] at h
        subst h
        have g := ihF f f1 (hc f (by simp)) hf hfac
        exact ⟨rfl, ParseTree.node _ _ _ _ (by simp [rhsOf_term, g.1, hf]) (by simpa using g.2.1),
          AllNodes.mk _ (typedNode_term _ _ _ _ (g.isType_factor hf) rfl) (by simpa using g.2.2)⟩
  all_goals
    obtain ⟨t, r, rfl, ht, hr⟩ := map_kind_cons hm
    obtain ⟨op, r, rfl, hop, hr⟩ := map_kind_cons hr
    obtain ⟨f, r, rfl, hf, hr⟩ := map_kind_cons hr
    have := map_kind_nil hr
    subst this
    rw [annotate_term_bin] at h
    cases hfac : annotate_factor fuel ptable cur f with
    | error a => rw [hfac] at h; simp at h
    | ok f1 =>
        rw [hfac] at h
        simp only at h
        split at h
        · simp [throwTypeError] at h
        · rename_i hft
          have hft : f1.type = TYPE_INT := by simpa using hft
          cases hterm : annotate_term fuel ptable cur t with
          | error a => rw [hterm] at h; simp at h
          | ok t1 =>
              rw [hterm] at h
              simp only at h
              split at h
              · simp [throwTypeError] at h
              · rename_i htt
                have htt : t1.type = TYPE_INT := by simpa using htt
                simp only [Except.ok.injEq] at h
                subst h
                have gt := ihT t t1 (hc t (by simp)) ht hterm
                have gf := ihF f f1 (hc f (by simp)) hf hfac
                refine ⟨rfl, ParseTree.node _ _ _ _ (by simp [rhsOf_term, gt.1, gf.1, ht, hf, hop])
                  ?_, AllNodes.mk _ (typedNode_term _ _ _ _ (by rw [hft]; exact typeInt_isType)
                    (by simp [termRule, mulType, hft, htt])) ?_⟩
                · intro c hcm
                  simp only [List.mem_cons, List.mem_singleton, List.mem_nil_iff, or_false] at hcm
                  rcases hcm with rfl | rfl | rfl
                  · exact gt.2.1
                  · exact hc _ (by simp)
                  · exact gf.2.1
                · intro c hcm
                  simp only [Node.children_mk, List.mem_cons, List.mem_singleton,
                    List.mem_nil_iff, or_false] at hcm
                  rcases hcm with rfl | rfl | rfl
                  · exact gt.2.2
                  · exact allNodes_terminal _ _ (hc _ (by simp)) (by rw [hop]; decide)
                  · exact gf.2.2

theorem lookup_of_count {table : ProcData} {id : String} (h : table.count id ≠ 0) :
    table.symTable.lookup id = some (table.get id) := by
  unfold ProcData.count at h
  unfold ProcData.get
  cases hl : table.symTable.lookup id with
  | none => simp [hl] at h
  | some v => rfl

/-- The token annotator gives a literal or a declared variable its type. -/
theorem annotate_token_sound (table : ProcData) (htab : TableOK table) (tok tok1 : Node)
    (hp : ParseTree tok) (hk : rhsOf tok.kind = [])
    (h : annotate_token table tok = .ok tok1) :
    tok1.kind = tok.kind ∧ ParseTree tok1 ∧ AllNodes (TypedNode table) tok1 ∧
      IsType tok1.type ∧ tokenRule table tok1 tok1.type := by
  have hc := hp.children_nil hk
  obtain ⟨k, s, t, cs⟩ := tok
  simp only [Node.children_mk] at hc
  subst hc
  simp only [Node.kind_mk] at hk
  unfold annotate_token at h
  simp only [Node.kind_mk, Node.setType_mk, Node.seq_mk] at h
  split at h
  · rename_i hk1
    simp only [Except.ok.injEq] at h
    subst h
    exact ⟨rfl, ParseTree.leaf _ _ _ hk, allNodes_leaf _ _ _ _ hk, typeInt_isType,
      Or.inl ⟨hk1, rfl⟩⟩
  · split at h
    · rename_i hk1
      simp only [Except.ok.injEq] at h
      subst h
      exact ⟨rfl, ParseTree.leaf _ _ _ hk, allNodes_leaf _ _ _ _ hk, typePtr_isType,
        Or.inr (Or.inl ⟨hk1, rfl⟩)⟩
    · split at h
      · rename_i hk1
        split at h
        · simp [throwTypeError] at h
        · rename_i hcount
          simp only [Except.ok.injEq] at h
          subst h
          have hl := lookup_of_count hcount
          exact ⟨rfl, ParseTree.leaf _ _ _ hk, allNodes_leaf _ _ _ _ hk, htab _ _ hl,
            Or.inr (Or.inr ⟨hk1, hl, rfl⟩)⟩
      · simp [throwTypeError] at h

end WLP4ParseTree

end WLP4

namespace WLP4

namespace WLP4ParseTree

/-- The children of an annotated node are parse trees when the annotated ones
come from a sound annotation and the others are left as they were. -/
theorem mem_three {α : Type} {P : α → Prop} {a b c : α} (ha : P a) (hb : P b) (hc : P c) :
    ∀ x ∈ [a, b, c], P x := by
  intro x hx
  simp only [List.mem_cons, List.mem_singleton, List.mem_nil_iff, or_false] at hx
  rcases hx with rfl | rfl | rfl
  · exact ha
  · exact hb
  · exact hc

theorem mem_two {α : Type} {P : α → Prop} {a b : α} (ha : P a) (hb : P b) :
    ∀ x ∈ [a, b], P x := by
  intro x hx
  simp only [List.mem_cons, List.mem_singleton, List.mem_nil_iff, or_false] at hx
  rcases hx with rfl | rfl
  · exact ha
  · exact hb

theorem mem_one {α : Type} {P : α → Prop} {a : α} (ha : P a) : ∀ x ∈ [a], P x := by
  intro x hx
  simp only [List.mem_singleton] at hx
  subst hx
  exact ha

theorem mem_four {α : Type} {P : α → Prop} {a b c d : α} (ha : P a) (hb : P b) (hc : P c)
    (hd : P d) : ∀ x ∈ [a, b, c, d], P x := by
  intro x hx
  simp only [List.mem_cons, List.mem_singleton, List.mem_nil_iff, or_false] at hx
  rcases hx with rfl | rfl | rfl | rfl
  · exact ha
  · exact hb
  · exact hc
  · exact hd

theorem mem_five {α : Type} {P : α → Prop} {a b c d e : α} (ha : P a) (hb : P b) (hc : P c)
    (hd : P d) (he : P e) : ∀ x ∈ [a, b, c, d, e], P x := by
  intro x hx
  simp only [List.mem_cons, List.mem_singleton, List.mem_nil_iff, or_false] at hx
  rcases hx with rfl | rfl | rfl | rfl | rfl
  · exact ha
  · exact hb
  · exact hc
  · exact hd
  · exact he

theorem factor_sound_step (fuel : Nat) (ih : ExprSound fuel) (ptable : ProcTable) (cur : String)
    (htab : TableOK (ptable.get cur)) (n n1 : Node) (hp : ParseTree n) (hk : n.kind = "factor")
    (h : annotate_factor (fuel + 1) ptable cur n = .ok n1) : Good (ptable.get cur) n n1 := by
  obtain ⟨k, s, ty, cs⟩ := n
  simp only [Node.kind_mk] at hk
  subst hk
  obtain ⟨hm, hc⟩ := hp.inv (by decide)
  obtain ⟨ihE, -, ihF, ihL, ihA⟩ := ih ptable cur htab
  rw [rhsOf_factor] at hm
  simp only [List.mem_cons, List.mem_singleton, List.mem_nil_iff, or_false] at hm
  have tokCase : ∀ tok : Node, cs = [tok] → rhsOf tok.kind = [] →
      Good (ptable.get cur) (Node.mk "factor" s ty cs) n1 := by
    intro tok hcs hkt
    subst hcs
    rw [annotate_factor] at h
    simp [child, bind, Except.bind, pure, Except.pure] at h
    split at h
    · simp at h
    · rename_i tok1 htok
      simp only [Except.ok.injEq] at h
      subst h
      obtain ⟨g1, g2, g3, g4, g5⟩ :=
        annotate_token_sound _ htab tok tok1 (hc tok (by simp)) hkt htok
      have hmem : [tok1.kind] ∈ rhsOf "factor" := by
        rw [g1]
        have := (hp.inv (by decide)).1
        simpa using this
      exact ⟨rfl, ParseTree.node _ _ _ _ (by simpa using hmem) (mem_one g2),
        AllNodes.mk _ (typedNode_factor _ _ _ _ g4 g5) (mem_one g3)⟩
  rcases hm with hm | hm | hm | hm | hm | hm | hm | hm | hm
  · -- factor → ID
    obtain ⟨tok, r, rfl, ht, hr⟩ := map_kind_cons hm
    have := map_kind_nil hr
    subst this
    exact tokCase tok rfl (by rw [ht]; decide)
  · -- factor → NUM
    obtain ⟨tok, r, rfl, ht, hr⟩ := map_kind_cons hm
    have := map_kind_nil hr
    subst this
    exact tokCase tok rfl (by rw [ht]; decide)
  · -- factor → NULL
    obtain ⟨tok, r, rfl, ht, hr⟩ := map_kind_cons hm
    have := map_kind_nil hr
    subst this
    exact tokCase tok rfl (by rw [ht]; decide)
  · -- factor → LPAREN expr RPAREN
    obtain ⟨a, r, rfl, ha, hr⟩ := map_kind_cons hm
    obtain ⟨e, r, rfl, he, hr⟩ := map_kind_cons hr
    obtain ⟨c, r, rfl, hcl, hr⟩ := map_kind_cons hr
    have := map_kind_nil hr
    subst this
    rw [annotate_factor] at h
    simp [child, bind, Except.bind, pure, Except.pure, ha] at h
    split at h
    · simp at h
    · rename_i e1 hexpr
      simp only [Except.ok.injEq] at h
      subst h
      have g := ihE e e1 (hc e (by simp)) he hexpr
      exact ⟨rfl, ParseTree.node _ _ _ _ (by simp [rhsOf_factor, g.1, ha, he, hcl])
          (mem_three (hc a (by simp)) g.2.1 (hc c (by simp))),
        AllNodes.mk _ (typedNode_factor _ _ _ _ (g.isType_expr he) (Or.inl ⟨ha, rfl⟩))
          (mem_three (allNodes_terminal _ _ (hc a (by simp)) (by rw [ha]; decide)) g.2.2
            (allNodes_terminal _ _ (hc c (by simp)) (by rw [hcl]; decide)))⟩
  · -- factor → AMP lvalue
    obtain ⟨a, r, rfl, ha, hr⟩ := map_kind_cons hm
    obtain ⟨b, r, rfl, hb, hr⟩ := map_kind_cons hr
    have := map_kind_nil hr
    subst this
    rw [annotate_factor] at h
    simp [child, bind, Except.bind, pure, Except.pure, ha, throwTypeError] at h
    split at h
    · simp at h
    · rename_i b1 hlv
      split at h
      · rename_i hty
        simp only [Except.ok.injEq] at h
        subst h
        have g := ihL b b1 (hc b (by simp)) hb hlv
        exact ⟨rfl, ParseTree.node _ _ _ _ (by simp [rhsOf_factor, g.1, ha, hb])
            (mem_two (hc a (by simp)) g.2.1),
          AllNodes.mk _ (typedNode_factor _ _ _ _ typePtr_isType (Or.inl ⟨ha, hty, rfl⟩))
            (mem_two (allNodes_terminal _ _ (hc a (by simp)) (by rw [ha]; decide)) g.2.2)⟩
      · simp at h
  · -- factor → STAR factor
    obtain ⟨a, r, rfl, ha, hr⟩ := map_kind_cons hm
    obtain ⟨b, r, rfl, hb, hr⟩ := map_kind_cons hr
    have := map_kind_nil hr
    subst this
    rw [annotate_factor] at h
    simp [child, bind, Except.bind, pure, Except.pure, ha, throwTypeError] at h
    split at h
    · simp at h
    · rename_i b1 hfac
      split at h
      · rename_i hty
        simp only [Except.ok.injEq] at h
        subst h
        have g := ihF b b1 (hc b (by simp)) hb hfac
        exact ⟨rfl, ParseTree.node _ _ _ _ (by simp [rhsOf_factor, g.1, ha, hb])
            (mem_two (hc a (by simp)) g.2.1),
          AllNodes.mk _ (typedNode_factor _ _ _ _ typeInt_isType (Or.inr ⟨ha, hty, rfl⟩))
            (mem_two (allNodes_terminal _ _ (hc a (by simp)) (by rw [ha]; decide)) g.2.2)⟩
      · simp at h
  · -- factor → NEW INT LBRACK expr RBRACK
    obtain ⟨a, r, rfl, ha, hr⟩ := map_kind_cons hm
    obtain ⟨b, r, rfl, hb, hr⟩ := map_kind_cons hr
    obtain ⟨c, r, rfl, hcl, hr⟩ := map_kind_cons hr
    obtain ⟨e, r, rfl, he, hr⟩ := map_kind_cons hr
    obtain ⟨d, r, rfl, hd, hr⟩ := map_kind_cons hr
    have := map_kind_nil hr
    subst this
    rw [annotate_factor] at h
    simp [child, bind, Except.bind, pure, Except.pure, ha, throwTypeError] at h
    split at h
    · simp at h
    · rename_i e1 hexpr
      split at h
      · rename_i hty
        simp only [Except.ok.injEq] at h
        subst h
        have g := ihE e e1 (hc e (by simp)) he hexpr
        exact ⟨rfl, ParseTree.node _ _ _ _ (by simp [rhsOf_factor, g.1, ha, hb, hcl, he, hd])
            (mem_five (hc a (by simp)) (hc b (by simp)) (hc c (by simp)) g.2.1 (hc d (by simp))),
          AllNodes.mk _ (typedNode_factor _ _ _ _ typePtr_isType ⟨hty, rfl⟩)
            (mem_five (allNodes_terminal _ _ (hc a (by simp)) (by rw [ha]; decide))
              (allNodes_terminal _ _ (hc b (by simp)) (by rw [hb]; decide))
              (allNodes_terminal _ _ (hc c (by simp)) (by rw [hcl]; decide)) g.2.2
              (allNodes_terminal _ _ (hc d (by simp)) (by rw [hd]; decide)))⟩
      · simp at h
  · -- factor → ID LPAREN RPAREN
    obtain ⟨a, r, rfl, ha, hr⟩ := map_kind_cons hm
    obtain ⟨b, r, rfl, hb, hr⟩ := map_kind_cons hr
    obtain ⟨c, r, rfl, hcl, hr⟩ := map_kind_cons hr
    have := map_kind_nil hr
    subst this
    rw [annotate_factor] at h
    simp [child, bind, Except.bind, pure, Except.pure, ha, hcl, throwTypeError] at h
    split at h
    · simp at h
    · split at h
      · simp at h
      · split at h
        · simp at h
        · split at h
          · simp only [Except.ok.injEq] at h
            subst h
            exact ⟨rfl, ParseTree.node _ _ _ _ (by simp [rhsOf_factor, ha, hb, hcl])
                (mem_three (hc a (by simp)) (hc b (by simp)) (hc c (by simp))),
              AllNodes.mk _ (typedNode_factor _ _ _ _ typeInt_isType (Or.inr ⟨ha, rfl⟩))
                (mem_three (allNodes_terminal _ _ (hc a (by simp)) (by rw [ha]; decide))
                  (allNodes_terminal _ _ (hc b (by simp)) (by rw [hb]; decide))
                  (allNodes_terminal _ _ (hc c (by simp)) (by rw [hcl]; decide)))⟩
          · simp at h
  · -- factor → ID LPAREN arglist RPAREN
    obtain ⟨a, r, rfl, ha, hr⟩ := map_kind_cons hm
    obtain ⟨b, r, rfl, hb, hr⟩ := map_kind_cons hr
    obtain ⟨c, r, rfl, hcl, hr⟩ := map_kind_cons hr
    obtain ⟨d, r, rfl, hd, hr⟩ := map_kind_cons hr
    have := map_kind_nil hr
    subst this
    rw [annotate_factor] at h
    simp [child, bind, Except.bind, pure, Except.pure, ha, hcl, throwTypeError] at h
    split at h
    · simp at h
    · split at h
      · simp at h
      · split at h
        · simp at h
        · split at h
          · simp at h
          · rename_i c1 hargs
            simp only [Except.ok.injEq] at h
            subst h
            have g := ihA c c1 _ _ (hc c (by simp)) hcl hargs
            exact ⟨rfl, ParseTree.node _ _ _ _ (by simp [rhsOf_factor, g.1, ha, hb, hcl, hd])
                (mem_four (hc a (by simp)) (hc b (by simp)) g.2.1 (hc d (by simp))),
              AllNodes.mk _ (typedNode_factor _ _ _ _ typeInt_isType ⟨ha, rfl⟩)
                (mem_four (allNodes_terminal _ _ (hc a (by simp)) (by rw [ha]; decide))
                  (allNodes_terminal _ _ (hc b (by simp)) (by rw [hb]; decide)) g.2.2
                  (allNodes_terminal _ _ (hc d (by simp)) (by rw [hd]; decide)))⟩

end WLP4ParseTree

end WLP4

namespace WLP4

namespace WLP4ParseTree

theorem lvalue_sound_step (fuel : Nat) (ih : ExprSound fuel) (ptable : ProcTable) (cur : String)
    (htab : TableOK (ptable.get cur)) (n n1 : Node) (hp : ParseTree n) (hk : n.kind = "lvalue")
    (h : annotate_lvalue (fuel + 1) ptable cur n = .ok n1) : Good (ptable.get cur) n n1 := by
  obtain ⟨k, s, ty, cs⟩ := n
  simp only [Node.kind_mk] at hk
  subst hk
  obtain ⟨hm, hc⟩ := hp.inv (by decide)
  obtain ⟨-, -, ihF, ihL, -⟩ := ih ptable cur htab
  rw [rhsOf_lvalue] at hm
  simp only [List.mem_cons, List.mem_singleton, List.mem_nil_iff, or_false] at hm
  rcases hm with hm | hm | hm
  · -- lvalue → ID
    obtain ⟨tok, r, rfl, ht, hr⟩ := map_kind_cons hm
    have := map_kind_nil hr
    subst this
    rw [annotate_lvalue] at h
    simp [child, bind, Except.bind, pure, Except.pure] at h
    split at h
    · simp at h
    · rename_i tok1 htok
      simp only [Except.ok.injEq] at h
      subst h
      obtain ⟨g1, g2, g3, g4, g5⟩ :=
        annotate_token_sound _ htab tok tok1 (hc tok (by simp)) (by rw [ht]; decide) htok
      have hvar : varRule (ptable.get cur) tok1 tok1.type := by
        rcases g5 with ⟨hk1, _⟩ | ⟨hk1, _⟩ | hv
        · rw [g1, ht] at hk1; exact absurd hk1 (by decide)
        · rw [g1, ht] at hk1; exact absurd hk1 (by decide)
        · exact hv
      exact ⟨rfl, ParseTree.node _ _ _ _ (by simp [rhsOf_lvalue, g1, ht]) (mem_one g2),
        AllNodes.mk _ (typedNode_lvalue _ _ _ _ g4 hvar) (mem_one g3)⟩
  · -- lvalue → STAR factor
    obtain ⟨a, r, rfl, ha, hr⟩ := map_kind_cons hm
    obtain ⟨b, r, rfl, hb, hr⟩ := map_kind_cons hr
    have := map_kind_nil hr
    subst this
    rw [annotate_lvalue] at h
    simp [child, bind, Except.bind, pure, Except.pure, throwTypeError] at h
    split at h
    · simp at h
    · rename_i b1 hfac
      split at h
      · rename_i hty
        simp only [Except.ok.injEq] at h
        subst h
        have g := ihF b b1 (hc b (by simp)) hb hfac
        exact ⟨rfl, ParseTree.node _ _ _ _ (by simp [rhsOf_lvalue, g.1, ha, hb])
            (mem_two (hc a (by simp)) g.2.1),
          AllNodes.mk _ (typedNode_lvalue _ _ _ _ typeInt_isType ⟨hty, rfl⟩)
            (mem_two (allNodes_terminal _ _ (hc a (by simp)) (by rw [ha]; decide)) g.2.2)⟩
      · simp at h
  · -- lvalue → LPAREN lvalue RPAREN
    obtain ⟨a, r, rfl, ha, hr⟩ := map_kind_cons hm
    obtain ⟨b, r, rfl, hb, hr⟩ := map_kind_cons hr
    obtain ⟨c, r, rfl, hcl, hr⟩ := map_kind_cons hr
    have := map_kind_nil hr
    subst this
    rw [annotate_lvalue] at h
    simp [child, bind, Except.bind, pure, Except.pure, throwTypeError] at h
    split at h
    · simp at h
    · rename_i b1 hlv
      simp only [Except.ok.injEq] at h
      subst h
      have g := ihL b b1 (hc b (by simp)) hb hlv
      exact ⟨rfl, ParseTree.node _ _ _ _ (by simp [rhsOf_lvalue, g.1, ha, hb, hcl])
          (mem_three (hc a (by simp)) g.2.1 (hc c (by simp))),
        AllNodes.mk _ (typedNode_lvalue _ _ _ _ (g.isType_lvalue hb) rfl)
          (mem_three (allNodes_terminal _ _ (hc a (by simp)) (by rw [ha]; decide)) g.2.2
            (allNodes_terminal _ _ (hc c (by simp)) (by rw [hcl]; decide)))⟩

theorem args_sound_step (fuel : Nat) (ih : ExprSound fuel) (ptable : ProcTable) (cur : String)
    (htab : TableOK (ptable.get cur)) (n n1 : Node) (callTable : ProcData) (idx : Nat)
    (hp : ParseTree n) (hk : n.kind = "arglist")
    (h : annotate_args (fuel + 1) ptable cur n callTable idx = .ok n1) :
    Good (ptable.get cur) n n1 := by
  obtain ⟨k, s, ty, cs⟩ := n
  simp only [Node.kind_mk] at hk
  subst hk
  obtain ⟨hm, hc⟩ := hp.inv (by decide)
  obtain ⟨ihE, -, -, -, ihA⟩ := ih ptable cur htab
  have hother : ∀ ty1 cs1, TypedNode (ptable.get cur) (Node.mk "arglist" s ty1 cs1) :=
    fun ty1 cs1 => typedNode_other _ _ (by simp) (by simp) (by simp) (by simp)
  rw [rhsOf_arglist] at hm
  simp only [List.mem_cons, List.mem_singleton, List.mem_nil_iff, or_false] at hm
  rcases hm with hm | hm
  · -- arglist → expr
    obtain ⟨e, r, rfl, he, hr⟩ := map_kind_cons hm
    have := map_kind_nil hr
    subst this
    have inv : ∃ e1, annotate_expr fuel ptable cur e = .ok e1 ∧
        n1 = Node.mk "arglist" s ty [e1] := by
      rw [annotate_args] at h
      simp [child, bind, Except.bind, pure, Except.pure, throwTypeError] at h
      repeat' split at h
      all_goals first
        | (simp at h; done)
        | (simp at h; exact ⟨_, by assumption, h.symm⟩)
    obtain ⟨e1, hexpr, rfl⟩ := inv
    have g := ihE e e1 (hc e (by simp)) he hexpr
    exact ⟨rfl, ParseTree.node _ _ _ _ (by simp [rhsOf_arglist, g.1, he]) (mem_one g.2.1),
      AllNodes.mk _ (hother _ _) (mem_one g.2.2)⟩
  · -- arglist → expr COMMA arglist
    obtain ⟨e, r, rfl, he, hr⟩ := map_kind_cons hm
    obtain ⟨b, r, rfl, hb, hr⟩ := map_kind_cons hr
    obtain ⟨c, r, rfl, hcl, hr⟩ := map_kind_cons hr
    have := map_kind_nil hr
    subst this
    have inv : ∃ e1 c1, annotate_expr fuel ptable cur e = .ok e1 ∧
        annotate_args fuel ptable cur c callTable (idx + 1) = .ok c1 ∧
        n1 = Node.mk "arglist" s ty [e1, b, c1] := by
      rw [annotate_args] at h
      simp [child, bind, Except.bind, pure, Except.pure, throwTypeError] at h
      repeat' split at h
      all_goals first
        | (simp at h; done)
        | (simp at h; exact ⟨_, _, by assumption, by assumption, h.symm⟩)
    obtain ⟨e1, c1, hexpr, hargs, rfl⟩ := inv
    have g := ihE e e1 (hc e (by simp)) he hexpr
    have ga := ihA c c1 _ _ (hc c (by simp)) hcl hargs
    exact ⟨rfl, ParseTree.node _ _ _ _ (by simp [rhsOf_arglist, g.1, ga.1, he, hb, hcl])
        (mem_three g.2.1 (hc b (by simp)) ga.2.1),
      AllNodes.mk _ (hother _ _)
        (mem_three g.2.2 (allNodes_terminal _ _ (hc b (by simp)) (by rw [hb]; decide)) ga.2.2)⟩

/-- Soundness of the expression annotators at every recursion depth. -/
theorem exprSound (fuel : Nat) : ExprSound fuel := by
  induction fuel with
  | zero =>
      intro ptable cur _
      refine ⟨?_, ?_, ?_, ?_, ?_⟩ <;> intros <;> rename_i h <;>
        simp [annotate_expr, annotate_term, annotate_factor, annotate_lvalue, annotate_args] at h
  | succ fuel ih =>
      intro ptable cur htab
      exact ⟨fun n n1 hp hk h => expr_sound_step fuel ih ptable cur htab n n1 hp hk h,
        fun n n1 hp hk h => term_sound_step fuel ih ptable cur htab n n1 hp hk h,
        fun n n1 hp hk h => factor_sound_step fuel ih ptable cur htab n n1 hp hk h,
        fun n n1 hp hk h => lvalue_sound_step fuel ih ptable cur htab n n1 hp hk h,
        fun n n1 ct idx hp hk h => args_sound_step fuel ih ptable cur htab n n1 ct idx hp hk h⟩

end WLP4ParseTree

end WLP4

namespace WLP4

theorem rhsOf_test :
    rhsOf "test" = [["expr", "EQ", "expr"], ["expr", "NE", "expr"], ["expr", "LT", "expr"],
      ["expr", "LE", "expr"], ["expr", "GE", "expr"], ["expr", "GT", "expr"]] := by decide

theorem rhsOf_statements : rhsOf "statements" = [[], ["statements", "statement"]] := by decide

theorem rhsOf_statement :
    rhsOf "statement" = [["lvalue", "BECOMES", "expr", "SEMI"],
      ["IF", "LPAREN", "test", "RPAREN", "LBRACE", "statements", "RBRACE", "ELSE", "LBRACE",
        "statements", "RBRACE"],
      ["WHILE", "LPAREN", "test", "RPAREN", "LBRACE", "statements", "RBRACE"],
      ["PRINTLN", "LPAREN", "expr", "RPAREN", "SEMI"],
      ["DELETE", "LBRACK", "RBRACK", "expr", "SEMI"]] := by decide

namespace WLP4ParseTree

theorem good_kinds {table : ProcData} {cs cs1 : List Node}
    (h : List.Forall₂ (Good table) cs cs1) : cs1.map Node.kind = cs.map Node.kind := by
  induction h with
  | nil => rfl
  | cons g _ ih => simp [g.1, ih]

theorem good_parse {table : ProcData} {cs cs1 : List Node}
    (h : List.Forall₂ (Good table) cs cs1) : ∀ c ∈ cs1, ParseTree c := by
  induction h with
  | nil => simp
  | cons g _ ih =>
      intro c hc
      rcases List.mem_cons.mp hc with rfl | hc
      · exact g.2.1
      · exact ih c hc

theorem good_all {table : ProcData} {cs cs1 : List Node}
    (h : List.Forall₂ (Good table) cs cs1) : ∀ c ∈ cs1, AllNodes (TypedNode table) c := by
  induction h with
  | nil => simp
  | cons g _ ih =>
      intro c hc
      rcases List.mem_cons.mp hc with rfl | hc
      · exact g.2.2
      · exact ih c hc

/-- An interior node whose children were soundly annotated (or left alone) is
soundly annotated once its own rule holds. -/
theorem good_node (table : ProcData) (k s ty ty1 : String) (cs cs1 : List Node)
    (hp : ParseTree (Node.mk k s ty cs)) (hk : rhsOf k ≠ [])
    (hf : List.Forall₂ (Good table) cs cs1) (ht : TypedNode table (Node.mk k s ty1 cs1)) :
    Good table (Node.mk k s ty cs) (Node.mk k s ty1 cs1) :=
  ⟨rfl, ParseTree.node _ _ _ _ (by rw [good_kinds hf]; exact (hp.inv hk).1) (good_parse hf),
    AllNodes.mk _ ht (good_all hf)⟩

theorem good_terminal (table : ProcData) (c : Node) (hp : ParseTree c)
    (hk : rhsOf c.kind = []) : Good table c c :=
  ⟨rfl, hp, allNodes_terminal table c hp hk⟩

theorem test_sound (fuel : Nat) (ptable : ProcTable) (cur : String)
    (htab : TableOK (ptable.get cur)) (n n1 : Node) (hp : ParseTree n) (hk : n.kind = "test")
    (h : annotate_test fuel ptable cur n = .ok n1) : Good (ptable.get cur) n n1 := by
  cases fuel with
  | zero => simp [annotate_test] at h
  | succ fuel =>
    obtain ⟨k, s, ty, cs⟩ := n
    simp only [Node.kind_mk] at hk
    subst hk
    obtain ⟨hm, hc⟩ := hp.inv (by decide)
    obtain ⟨ihE, -, -, -, -⟩ := exprSound fuel ptable cur htab
    rw [rhsOf_test] at hm
    simp only [List.mem_cons, List.mem_singleton, List.mem_nil_iff, or_false] at hm
    rcases hm with hm | hm | hm | hm | hm | hm
    all_goals
      obtain ⟨l, r, rfl, hl, hr⟩ := map_kind_cons hm
      obtain ⟨op, r, rfl, hop, hr⟩ := map_kind_cons hr
      obtain ⟨e, r, rfl, he, hr⟩ := map_kind_cons hr
      have := map_kind_nil hr
      subst this
      have inv : ∃ l1 e1, annotate_expr fuel ptable cur l = .ok l1 ∧
          annotate_expr fuel ptable cur e = .ok e1 ∧ n1 = Node.mk "test" s ty [l1, op, e1] := by
        rw [annotate_test] at h
        simp [child, bind, Except.bind, pure, Except.pure, throwTypeError] at h
        repeat' split at h
        all_goals first
          | (simp at h; done)
          | (simp at h; exact ⟨_, _, by assumption, by assumption, h.symm⟩)
      obtain ⟨l1, e1, hl1, he1, rfl⟩ := inv
      exact good_node _ _ _ _ _ _ _ hp (by decide)
        (.cons (ihE l l1 (hc l (by simp)) hl hl1)
          (.cons (good_terminal _ op (hc op (by simp)) (by rw [hop]; decide))
            (.cons (ihE e e1 (hc e (by simp)) he he1) .nil)))
        (typedNode_other _ _ (by simp) (by simp) (by simp) (by simp))

end WLP4ParseTree

end WLP4

namespace WLP4

namespace WLP4ParseTree

theorem stmts_sound_step (fuel : Nat) (ih : StmtSound fuel) (ptable : ProcTable) (cur : String)
    (htab : TableOK (ptable.get cur)) (n n1 : Node) (hp : ParseTree n)
    (hk : n.kind = "statements") (h : annotate_stmts (fuel + 1) ptable cur n = .ok n1) :
    Good (ptable.get cur) n n1 := by
  obtain ⟨k, s, ty, cs⟩ := n
  simp only [Node.kind_mk] at hk
  subst hk
  obtain ⟨hm, hc⟩ := hp.inv (by decide)
  obtain ⟨ihS, ihT⟩ := ih ptable cur htab
  have hother : ∀ ty1 cs1, TypedNode (ptable.get cur) (Node.mk "statements" s ty1 cs1) :=
    fun ty1 cs1 => typedNode_other _ _ (by simp) (by simp) (by simp) (by simp)
  rw [rhsOf_statements] at hm
  simp only [List.mem_cons, List.mem_singleton, List.mem_nil_iff, or_false] at hm
  rcases hm with hm | hm
  · have := map_kind_nil hm
    subst this
    rw [annotate_stmts] at h
    simp [pure, Except.pure] at h
    subst h
    exact good_node _ _ _ _ _ _ _ hp (by decide) .nil (hother _ _)
  · obtain ⟨a, r, rfl, ha, hr⟩ := map_kind_cons hm
    obtain ⟨b, r, rfl, hb, hr⟩ := map_kind_cons hr
    have := map_kind_nil hr
    subst this
    have inv : ∃ a1 b1, annotate_stmts fuel ptable cur a = .ok a1 ∧
        annotate_stmt fuel ptable cur b = .ok b1 ∧ n1 = Node.mk "statements" s ty [a1, b1] := by
      rw [annotate_stmts] at h
      simp [child, bind, Except.bind, pure, Except.pure, throwTypeError] at h
      repeat' split at h
      all_goals first
        | (simp at h; done)
        | (simp at h; exact ⟨_, _, by assumption, by assumption, h.symm⟩)
    obtain ⟨a1, b1, ha1, hb1, rfl⟩ := inv
    exact good_node _ _ _ _ _ _ _ hp (by decide)
      (.cons (ihS a a1 (hc a (by simp)) ha ha1) (.cons (ihT b b1 (hc b (by simp)) hb hb1) .nil))
      (hother _ _)

theorem stmt_sound_step (fuel : Nat) (ih : StmtSound fuel) (ptable : ProcTable) (cur : String)
    (htab : TableOK (ptable.get cur)) (n n1 : Node) (hp : ParseTree n)
    (hk : n.kind = "statement") (h : annotate_stmt (fuel + 1) ptable cur n = .ok n1) :
    Good (ptable.get cur) n n1 := by
  obtain ⟨k, s, ty, cs⟩ := n
  simp only [Node.kind_mk] at hk
  subst hk
  obtain ⟨hm, hc⟩ := hp.inv (by decide)
  obtain ⟨ihS, -⟩ := ih ptable cur htab
  obtain ⟨ihE, -, -, ihL, -⟩ := exprSound fuel ptable cur htab
  have hother : ∀ ty1 cs1, TypedNode (ptable.get cur) (Node.mk "statement" s ty1 cs1) :=
    fun ty1 cs1 => typedNode_other _ _ (by simp) (by simp) (by simp) (by simp)
  have hterm : ∀ c ∈ cs, rhsOf c.kind = [] → Good (ptable.get cur) c c :=
    fun c hmem hkc => good_terminal _ c (hc c hmem) hkc
  rw [rhsOf_statement] at hm
  simp only [List.mem_cons, List.mem_singleton, List.mem_nil_iff, or_false] at hm
  rcases hm with hm | hm | hm | hm | hm
  · -- statement → lvalue BECOMES expr SEMI
    obtain ⟨a, r, rfl, ha, hr⟩ := map_kind_cons hm
    obtain ⟨b, r, rfl, hb, hr⟩ := map_kind_cons hr
    obtain ⟨c, r, rfl, hcl, hr⟩ := map_kind_cons hr
    obtain ⟨d, r, rfl, hd, hr⟩ := map_kind_cons hr
    have := map_kind_nil hr
    subst this
    have inv : ∃ a1 c1, annotate_lvalue fuel ptable cur a = .ok a1 ∧
        annotate_expr fuel ptable cur c = .ok c1 ∧
        n1 = Node.mk "statement" s ty [a1, b, c1, d] := by
      rw [annotate_stmt] at h
      simp [child, bind, Except.bind, pure, Except.pure, throwTypeError, ha] at h
      repeat' split at h
      all_goals first
        | (simp at h; done)
        | (simp at h; exact ⟨_, _, by assumption, by assumption, h.symm⟩)
    obtain ⟨a1, c1, ha1, hc1, rfl⟩ := inv
    exact good_node _ _ _ _ _ _ _ hp (by decide)
      (.cons (ihL a a1 (hc a (by simp)) ha ha1)
        (.cons (hterm b (by simp) (by rw [hb]; decide))
          (.cons (ihE c c1 (hc c (by simp)) hcl hc1)
            (.cons (hterm d (by simp) (by rw [hd]; decide)) .nil))))
      (hother _ _)
  · -- statement → IF LPAREN test RPAREN LBRACE statements RBRACE ELSE LBRACE statements RBRACE
    obtain ⟨a0, r, rfl, h0, hr⟩ := map_kind_cons hm
    obtain ⟨a1, r, rfl, h1, hr⟩ := map_kind_cons hr
    obtain ⟨a2, r, rfl, h2, hr⟩ := map_kind_cons hr
    obtain ⟨a3, r, rfl, h3, hr⟩ := map_kind_cons hr
    obtain ⟨a4, r, rfl, h4, hr⟩ := map_kind_cons hr
    obtain ⟨a5, r, rfl, h5, hr⟩ := map_kind_cons hr
    obtain ⟨a6, r, rfl, h6, hr⟩ := map_kind_cons hr
    obtain ⟨a7, r, rfl, h7, hr⟩ := map_kind_cons hr
    obtain ⟨a8, r, rfl, h8, hr⟩ := map_kind_cons hr
    obtain ⟨a9, r, rfl, h9, hr⟩ := map_kind_cons hr
    obtain ⟨a10, r, rfl, h10, hr⟩ := map_kind_cons hr
    have := map_kind_nil hr
    subst this
    have inv : ∃ t1 s1 s2, annotate_test fuel ptable cur a2 = .ok t1 ∧
        annotate_stmts fuel ptable cur a5 = .ok s1 ∧
        annotate_stmts fuel ptable cur a9 = .ok s2 ∧
        n1 = Node.mk "statement" s ty [a0, a1, t1, a3, a4, s1, a6, a7, a8, s2, a10] := by
      rw [annotate_stmt] at h
      simp [child, bind, Except.bind, pure, Except.pure, throwTypeError, h0] at h
      repeat' split at h
      all_goals first
        | (simp at h; done)
        | (simp at h; exact ⟨_, _, _, by assumption, by assumption, by assumption, h.symm⟩)
    obtain ⟨t1, s1, s2, ht1, hs1, hs2, rfl⟩ := inv
    exact good_node _ _ _ _ _ _ _ hp (by decide)
      (.cons (hterm a0 (by simp) (by rw [h0]; decide))
        (.cons (hterm a1 (by simp) (by rw [h1]; decide))
          (.cons (test_sound fuel ptable cur htab a2 t1 (hc a2 (by simp)) h2 ht1)
            (.cons (hterm a3 (by simp) (by rw [h3]; decide))
              (.cons (hterm a4 (by simp) (by rw [h4]; decide))
                (.cons (ihS a5 s1 (hc a5 (by simp)) h5 hs1)
                  (.cons (hterm a6 (by simp) (by rw [h6]; decide))
                    (.cons (hterm a7 (by simp) (by rw [h7]; decide))
                      (.cons (hterm a8 (by simp) (by rw [h8]; decide))
                        (.cons (ihS a9 s2 (hc a9 (by simp)) h9 hs2)
                          (.cons (hterm a10 (by simp) (by rw [h10]; decide)) .nil)))))))))))
      (hother _ _)
  · -- statement → WHILE LPAREN test RPAREN LBRACE statements RBRACE
    obtain ⟨a0, r, rfl, h0, hr⟩ := map_kind_cons hm
    obtain ⟨a1, r, rfl, h1, hr⟩ := map_kind_cons hr
    obtain ⟨a2, r, rfl, h2, hr⟩ := map_kind_cons hr
    obtain ⟨a3, r, rfl, h3, hr⟩ := map_kind_cons hr
    obtain ⟨a4, r, rfl, h4, hr⟩ := map_kind_cons hr
    obtain ⟨a5, r, rfl, h5, hr⟩ := map_kind_cons hr
    obtain ⟨a6, r, rfl, h6, hr⟩ := map_kind_cons hr
    have := map_kind_nil hr
    subst this
    have inv : ∃ t1 s1, annotate_test fuel ptable cur a2 = .ok t1 ∧
        annotate_stmts fuel ptable cur a5 = .ok s1 ∧
        n1 = Node.mk "statement" s ty [a0, a1, t1, a3, a4, s1, a6] := by
      rw [annotate_stmt] at h
      simp [child, bind, Except.bind, pure, Except.pure, throwTypeError, h0] at h
      repeat' split at h
      all_goals first
        | (simp at h; done)
        | (simp at h; exact ⟨_, _, by assumption, by assumption, h.symm⟩)
    obtain ⟨t1, s1, ht1, hs1, rfl⟩ := inv
    exact good_node _ _ _ _ _ _ _ hp (by decide)
      (.cons (hterm a0 (by simp) (by rw [h0]; decide))
        (.cons (hterm a1 (by simp) (by rw [h1]; decide))
          (.cons (test_sound fuel ptable cur htab a2 t1 (hc a2 (by simp)) h2 ht1)
            (.cons (hterm a3 (by simp) (by rw [h3]; decide))
              (.cons (hterm a4 (by simp) (by rw [h4]; decide))
                (.cons (ihS a5 s1 (hc a5 (by simp)) h5 hs1)
                  (.cons (hterm a6 (by simp) (by rw [h6]; decide)) .nil)))))))
      (hother _ _)
  · -- statement → PRINTLN LPAREN expr RPAREN SEMI
    obtain ⟨a0, r, rfl, h0, hr⟩ := map_kind_cons hm
    obtain ⟨a1, r, rfl, h1, hr⟩ := map_kind_cons hr
    obtain ⟨a2, r, rfl, h2, hr⟩ := map_kind_cons hr
    obtain ⟨a3, r, rfl, h3, hr⟩ := map_kind_cons hr
    obtain ⟨a4, r, rfl, h4, hr⟩ := map_kind_cons hr
    have := map_kind_nil hr
    subst this
    have inv : ∃ e1, annotate_expr fuel ptable cur a2 = .ok e1 ∧
        n1 = Node.mk "statement" s ty [a0, a1, e1, a3, a4] := by
      rw [annotate_stmt] at h
      simp [child, bind, Except.bind, pure, Except.pure, throwTypeError, h0] at h
      repeat' split at h
      all_goals first
        | (simp at h; done)
        | (simp at h; exact ⟨_, by assumption, h.symm⟩)
    obtain ⟨e1, he1, rfl⟩ := inv
    exact good_node _ _ _ _ _ _ _ hp (by decide)
      (.cons (hterm a0 (by simp) (by rw [h0]; decide))
        (.cons (hterm a1 (by simp) (by rw [h1]; decide))
          (.cons (ihE a2 e1 (hc a2 (by simp)) h2 he1)
            (.cons (hterm a3 (by simp) (by rw [h3]; decide))
              (.cons (hterm a4 (by simp) (by rw [h4]; decide)) .nil)))))
      (hother _ _)
  · -- statement → DELETE LBRACK RBRACK expr SEMI
    obtain ⟨a0, r, rfl, h0, hr⟩ := map_kind_cons hm
    obtain ⟨a1, r, rfl, h1, hr⟩ := map_kind_cons hr
    obtain ⟨a2, r, rfl, h2, hr⟩ := map_kind_cons hr
    obtain ⟨a3, r, rfl, h3, hr⟩ := map_kind_cons hr
    obtain ⟨a4, r, rfl, h4, hr⟩ := map_kind_cons hr
    have := map_kind_nil hr
    subst this
    have inv : ∃ e1, annotate_expr fuel ptable cur a3 = .ok e1 ∧
        n1 = Node.mk "statement" s ty [a0, a1, a2, e1, a4] := by
      rw [annotate_stmt] at h
      simp [child, bind, Except.bind, pure, Except.pure, throwTypeError, h0] at h
      repeat' split at h
      all_goals first
        | (simp at h; done)
        | (simp at h; exact ⟨_, by assumption, h.symm⟩)
    obtain ⟨e1, he1, rfl⟩ := inv
    exact good_node _ _ _ _ _ _ _ hp (by decide)
      (.cons (hterm a0 (by simp) (by rw [h0]; decide))
        (.cons (hterm a1 (by simp) (by rw [h1]; decide))
          (.cons (hterm a2 (by simp) (by rw [h2]; decide))
            (.cons (ihE a3 e1 (hc a3 (by simp)) h3 he1)
              (.cons (hterm a4 (by simp) (by rw [h4]; decide)) .nil)))))
      (hother _ _)

/-- Soundness of the statement annotators at every recursion depth. -/
theorem stmtSound (fuel : Nat) : StmtSound fuel := by
  induction fuel with
  | zero =>
      intro ptable cur _
      refine ⟨?_, ?_⟩ <;> intros <;> rename_i h <;> simp [annotate_stmts, annotate_stmt] at h
  | succ fuel ih =>
      intro ptable cur htab
      exact ⟨fun n n1 hp hk h => stmts_sound_step fuel ih ptable cur htab n n1 hp hk h,
        fun n n1 hp hk h => stmt_sound_step fuel ih ptable cur htab n n1 hp hk h⟩

end WLP4ParseTree

end WLP4

namespace WLP4

theorem rhsOf_type : rhsOf "type" = [["INT"], ["INT", "STAR"]] := by decide

theorem rhsOf_dcl : rhsOf "dcl" = [["type", "ID"]] := by decide

theorem rhsOf_dcls :
    rhsOf "dcls" = [[], ["dcls", "dcl", "BECOMES", "NUM", "SEMI"],
      ["dcls", "dcl", "BECOMES", "NULL", "SEMI"]] := by decide

theorem rhsOf_params : rhsOf "params" = [[], ["paramlist"]] := by decide

theorem rhsOf_paramlist : rhsOf "paramlist" = [["dcl"], ["dcl", "COMMA", "paramlist"]] := by
  decide

theorem lookup_map_replace {β : Type} (l : List (String × β)) (k id : String) (v : β) :
    (l.map (fun p => if p.1 = id then (p.1, v) else p)).lookup k =
      if k = id then (l.lookup k).map (fun _ => v) else l.lookup k := by
  induction l with
  | nil => simp
  | cons p ps ih =>
      obtain ⟨a, b⟩ := p
      rw [List.map_cons, List.lookup_cons, List.lookup_cons, ih]
      by_cases hai : a = id
      · subst hai
        by_cases hka : k = a
        · subst hka; simp
        · have hka' : (k == a) = false := by simpa using hka
          simp [hka', hka]
      · by_cases hka : k = a
        · subst hka
          have : ¬ k = id := hai
          simp [hai]
        · have hka' : (k == a) = false := by simpa using hka
          simp [hka', hai]

theorem lookup_append_single {β : Type} (l : List (String × β)) (k id : String) (v : β)
    (h : l.lookup id = none) :
    (l ++ [(id, v)]).lookup k = if k = id then some v else l.lookup k := by
  rw [List.lookup_append]
  by_cases hk : k = id
  · subst hk
    simp [h, List.lookup]
  · have hk' : (k == id) = false := by simpa using hk
    simp [List.lookup, hk', hk]

namespace ProcData

theorem symTable_lookup_set (table : ProcData) (id ty k : String) :
    (table.set id ty).symTable.lookup k =
      if k = id then some ty else table.symTable.lookup k := by
  unfold ProcData.set
  cases hl : table.symTable.lookup id with
  | none =>
      simp only [Option.isSome_none, Bool.false_eq_true, if_false]
      exact lookup_append_single _ _ _ _ hl
  | some v =>
      simp only [Option.isSome_some, if_true]
      rw [lookup_map_replace]
      by_cases hk : k = id
      · subst hk; simp [hl]
      · simp [hk]

end ProcData

namespace ProcTable

theorem procTable_lookup_set (ptable : ProcTable) (id k : String) (d : ProcData) :
    (ptable.set id d).lookup k = if k = id then some d else ptable.lookup k := by
  unfold ProcTable.set
  cases hl : List.lookup id ptable with
  | none =>
      simp only [Option.isSome_none, Bool.false_eq_true, if_false]
      exact lookup_append_single _ _ _ _ hl
  | some v =>
      simp only [Option.isSome_some, if_true]
      rw [lookup_map_replace]
      by_cases hk : k = id
      · subst hk; simp [hl]
      · simp [hk]

theorem get_set (ptable : ProcTable) (id : String) (d : ProcData) :
    (ptable.set id d).get id = d := by
  unfold ProcTable.get
  rw [procTable_lookup_set]
  simp

end ProcTable

namespace WLP4ParseTree

theorem tableOK_set (table : ProcData) (id ty : String) (h : TableOK table) (hty : IsType ty) :
    TableOK (table.set id ty) := by
  intro k v hk
  rw [ProcData.symTable_lookup_set] at hk
  by_cases e : k = id
  · simp only [e, if_true, Option.some.injEq] at hk
    rw [← hk]; exact hty
  · simp only [e, if_false] at hk
    exact h k v hk

theorem tableStep_set (ptable : ProcTable) (cur : String) (d : ProcData) (h : TableOK d) :
    TableStep ptable (ptable.set cur d) cur := by
  refine ⟨by rw [ProcTable.get_set]; exact h, ?_, ?_⟩
  · intro q hq
    rw [ProcTable.procTable_lookup_set]
    simp [hq]
  · intro _
    rw [ProcTable.procTable_lookup_set]
    simp

theorem tableStep_trans {p1 p2 p3 : ProcTable} {cur : String} (h12 : TableStep p1 p2 cur)
    (h23 : TableStep p2 p3 cur) : TableStep p1 p3 cur :=
  ⟨h23.1, fun q hq => (h23.2.1 q hq).trans (h12.2.1 q hq), fun h => h23.2.2 (h12.2.2 h)⟩

theorem tableStep_refl (ptable : ProcTable) (cur : String) (h : TableOK (ptable.get cur)) :
    TableStep ptable ptable cur :=
  ⟨h, fun _ _ => rfl, fun hs => hs⟩

theorem annotate_token_setType (table : ProcData) (tok tok1 : Node)
    (h : annotate_token table tok = .ok tok1) : ∃ t, tok1 = tok.setType t := by
  unfold annotate_token at h
  simp only [throwTypeError] at h
  repeat' split at h
  all_goals first
    | (simp at h; done)
    | (simp at h; exact ⟨_, h.symm⟩)

theorem good_setType (table : ProcData) (c : Node) (t : String) (hp : ParseTree c)
    (hk : rhsOf c.kind = []) : Good table c (c.setType t) := by
  have hc := hp.children_nil hk
  obtain ⟨k, s, t0, cs⟩ := c
  simp only [Node.children_mk] at hc
  subst hc
  exact ⟨rfl, hp.setType t, allNodes_leaf table k s t hk⟩

theorem good_type (table : ProcData) (c : Node) (hp : ParseTree c) (hk : c.kind = "type") :
    Good table c c := by
  obtain ⟨k, s, ty, cs⟩ := c
  simp only [Node.kind_mk] at hk
  subst hk
  obtain ⟨hm, hc⟩ := hp.inv (by decide)
  have hother : TypedNode table (Node.mk "type" s ty cs) :=
    typedNode_other _ _ (by simp) (by simp) (by simp) (by simp)
  rw [rhsOf_type] at hm
  simp only [List.mem_cons, List.mem_singleton, List.mem_nil_iff, or_false] at hm
  rcases hm with hm | hm
  · obtain ⟨a, r, rfl, ha, hr⟩ := map_kind_cons hm
    have := map_kind_nil hr
    subst this
    exact good_node _ _ _ _ _ _ _ hp (by decide)
      (.cons (good_terminal _ a (hc a (by simp)) (by rw [ha]; decide)) .nil) hother
  · obtain ⟨a, r, rfl, ha, hr⟩ := map_kind_cons hm
    obtain ⟨b, r, rfl, hb, hr⟩ := map_kind_cons hr
    have := map_kind_nil hr
    subst this
    exact good_node _ _ _ _ _ _ _ hp (by decide)
      (.cons (good_terminal _ a (hc a (by simp)) (by rw [ha]; decide))
        (.cons (good_terminal _ b (hc b (by simp)) (by rw [hb]; decide)) .nil)) hother

/-- The declaration annotator records a type `int` or `int*` for the declared
name, leaves the other tables alone, and tags the `ID` leaf and the initialiser. -/
theorem dcl_sound (ptable : ProcTable) (cur : String) (n n1 : Node) (rv rv1 : Option Node)
    (pt1 : ProcTable) (hp : ParseTree n) (hk : n.kind = "dcl")
    (hrv : ∀ tok, rv = some tok → ParseTree tok ∧ rhsOf tok.kind = [])
    (htab : TableOK (ptable.get cur))
    (h : annotate_dcl ptable cur n rv = .ok (n1, rv1, pt1)) :
    (∀ table, Good table n n1) ∧ TableStep ptable pt1 cur ∧
      (∀ tok, rv = some tok → ∃ tok1, rv1 = some tok1 ∧ ∀ table, Good table tok tok1) ∧
      (∃ idNode, n1.children[1]? = some idNode ∧ IsType idNode.type) := by
  obtain ⟨k, s, ty, cs⟩ := n
  simp only [Node.kind_mk] at hk
  subst hk
  obtain ⟨hm, hc⟩ := hp.inv (by decide)
  rw [rhsOf_dcl] at hm
  simp only [List.mem_singleton] at hm
  obtain ⟨a, r, rfl, ha, hr⟩ := map_kind_cons hm
  obtain ⟨b, r, rfl, hb, hr⟩ := map_kind_cons hr
  have := map_kind_nil hr
  subst this
  have hT : IsType (if a.children.length = 1 then TYPE_INT else TYPE_INT_PTR) := by
    split
    · exact typeInt_isType
    · exact typePtr_isType
  have hnode : ∀ table, Good table (Node.mk "dcl" s ty [a, b])
      (Node.mk "dcl" s ty
        [a, b.setType (if a.children.length = 1 then TYPE_INT else TYPE_INT_PTR)]) :=
    fun table => good_node _ _ _ _ _ _ _ hp (by decide)
      (.cons (good_type _ a (hc a (by simp)) ha)
        (.cons (good_setType _ b _ (hc b (by simp)) (by rw [hb]; decide)) .nil))
      (typedNode_other _ _ (by simp) (by simp) (by simp) (by simp))
  have hstep : TableStep ptable (ptable.set cur ((ptable.get cur).set (secondWord b.seq)
      (if a.children.length = 1 then TYPE_INT else TYPE_INT_PTR))) cur :=
    tableStep_set _ _ _ (tableOK_set _ _ _ htab hT)
  have hid : ∃ idNode, (Node.mk "dcl" s ty
      [a, b.setType (if a.children.length = 1 then TYPE_INT else TYPE_INT_PTR)]).children[1]? =
        some idNode ∧ IsType idNode.type := by
    refine ⟨_, rfl, ?_⟩
    obtain ⟨bk, bs, bt, bc⟩ := b
    exact hT
  unfold annotate_dcl at h
  by_cases hlen : a.children.length = 1
  all_goals simp only [hlen, if_true, if_false] at hnode hstep hid
  all_goals cases rv with
    | none =>
        simp [child, bind, Except.bind, pure, Except.pure, throwTypeError, hlen] at h
        split at h
        · simp only [Except.ok.injEq, Prod.mk.injEq] at h
          obtain ⟨rfl, rfl, rfl⟩ := h
          exact ⟨hnode, hstep, by simp, hid⟩
        · exact absurd h (by simp)
    | some tok =>
        simp [child, bind, Except.bind, pure, Except.pure, throwTypeError, hlen] at h
        split at h
        · split at h
          · simp at h
          · rename_i tok1 htok
            split at h
            · simp only [Except.ok.injEq, Prod.mk.injEq] at h
              obtain ⟨rfl, rfl, rfl⟩ := h
              refine ⟨hnode, hstep, ?_, hid⟩
              intro tok0 htok0
              simp only [Option.some.injEq] at htok0
              subst htok0
              obtain ⟨t, rfl⟩ := annotate_token_setType _ _ _ htok
              obtain ⟨hp0, hk0⟩ := hrv tok rfl
              exact ⟨_, rfl, fun table => good_setType table tok t hp0 hk0⟩
            · exact absurd h (by simp)
        · exact absurd h (by simp)

end WLP4ParseTree

end WLP4

namespace WLP4

namespace WLP4ParseTree

/-- The annotator of `dcls` is sound at every recursion depth. -/
theorem dcls_sound (fuel : Nat) : ∀ (ptable : ProcTable) (cur : String) (n : Node)
    (r : Node × ProcTable), ParseTree n → n.kind = "dcls" → TableOK (ptable.get cur) →
    annotate_dcls fuel ptable cur n = .ok r → DclGood ptable cur n r := by
  induction fuel with
  | zero =>
      intro _ _ _ _ _ _ _ h
      simp [annotate_dcls] at h
  | succ fuel ih =>
    intro ptable cur n r hp hk htab h
    obtain ⟨k, s, ty, cs⟩ := n
    simp only [Node.kind_mk] at hk
    subst hk
    obtain ⟨hm, hc⟩ := hp.inv (by decide)
    have hother : ∀ table cs1, TypedNode table (Node.mk "dcls" s ty cs1) :=
      fun table cs1 => typedNode_other _ _ (by simp) (by simp) (by simp) (by simp)
    have key : ∀ d0 d bec num semi, cs = [d0, d, bec, num, semi] → d0.kind = "dcls" →
        d.kind = "dcl" → rhsOf bec.kind = [] → rhsOf num.kind = [] → rhsOf semi.kind = [] →
        DclGood ptable cur (Node.mk "dcls" s ty cs) r := by
      intro d0 d bec num semi hcs h0 hd hbec hnum hsemi
      subst hcs
      rw [annotate_dcls] at h
      simp [child, bind, Except.bind, pure, Except.pure, throwTypeError] at h
      cases hA : annotate_dcl ptable cur d (some num) with
      | error e => rw [hA] at h; simp at h
      | ok v =>
        obtain ⟨dcl, rv, pt1⟩ := v
        rw [hA] at h
        simp only [] at h
        obtain ⟨gd, st1, grv, -⟩ := dcl_sound ptable cur d dcl (some num) rv pt1 (hc d (by simp)) hd
          (fun tok ht => by cases ht; exact ⟨hc _ (by simp), hnum⟩) htab hA
        obtain ⟨tok1, rfl, gtok⟩ := grv num rfl
        cases hB : annotate_dcls fuel pt1 cur d0 with
        | error e => rw [hB] at h; simp at h
        | ok w =>
          rw [hB] at h
          simp only [Node.setChild_mk, List.set_cons_zero, Except.ok.injEq] at h
          subst h
          obtain ⟨g0, st2⟩ := ih pt1 cur d0 w (hc d0 (by simp)) h0 st1.1 hB
          exact ⟨fun table => good_node _ _ _ _ _ _ _ hp (by decide)
            (.cons (g0 table) (.cons (gd table) (.cons (good_terminal _ bec (hc _ (by simp)) hbec)
              (.cons (gtok table) (.cons (good_terminal _ semi (hc _ (by simp)) hsemi) .nil)))))
            (hother _ _), tableStep_trans st1 st2⟩
    rw [rhsOf_dcls] at hm
    simp only [List.mem_cons, List.mem_singleton, List.mem_nil_iff, or_false] at hm
    rcases hm with hm | hm | hm
    · have := map_kind_nil hm
      subst this
      rw [annotate_dcls] at h
      simp [child, bind, Except.bind, pure, Except.pure, throwTypeError] at h
      subst h
      exact ⟨fun table => good_node _ _ _ _ _ _ _ hp (by decide) .nil (hother _ _),
        tableStep_refl _ _ htab⟩
    · obtain ⟨d0, r0, rfl, h0, hr⟩ := map_kind_cons hm
      obtain ⟨d, r0, rfl, hd, hr⟩ := map_kind_cons hr
      obtain ⟨bec, r0, rfl, hbec, hr⟩ := map_kind_cons hr
      obtain ⟨num, r0, rfl, hnum, hr⟩ := map_kind_cons hr
      obtain ⟨semi, r0, rfl, hsemi, hr⟩ := map_kind_cons hr
      have := map_kind_nil hr
      subst this
      exact key d0 d bec num semi rfl h0 hd (by rw [hbec]; decide) (by rw [hnum]; decide)
        (by rw [hsemi]; decide)
    · obtain ⟨d0, r0, rfl, h0, hr⟩ := map_kind_cons hm
      obtain ⟨d, r0, rfl, hd, hr⟩ := map_kind_cons hr
      obtain ⟨bec, r0, rfl, hbec, hr⟩ := map_kind_cons hr
      obtain ⟨num, r0, rfl, hnum, hr⟩ := map_kind_cons hr
      obtain ⟨semi, r0, rfl, hsemi, hr⟩ := map_kind_cons hr
      have := map_kind_nil hr
      subst this
      exact key d0 d bec num semi rfl h0 hd (by rw [hbec]; decide) (by rw [hnum]; decide)
        (by rw [hsemi]; decide)

theorem tableStep_signature (ptable : ProcTable) (cur : String) (sig : List String) :
    TableOK (ptable.get cur) →
      TableStep ptable (ptable.set cur { ptable.get cur with signature := sig }) cur := by
  intro h
  exact tableStep_set ptable cur _ (fun id ty hl => h id ty hl)

/-- The annotator of `params` and `paramlist` is sound at every recursion depth. -/
theorem params_sound (fuel : Nat) : ∀ (ptable : ProcTable) (cur : String) (n : Node)
    (r : Node × ProcTable), ParseTree n → (n.kind = "params" ∨ n.kind = "paramlist") →
    TableOK (ptable.get cur) →
    annotate_params fuel ptable cur n = .ok r → DclGood ptable cur n r := by
  induction fuel with
  | zero =>
      intro _ _ _ _ _ _ _ h
      simp [annotate_params] at h
  | succ fuel ih =>
    intro ptable cur n r hp hk htab h
    obtain ⟨k, s, ty, cs⟩ := n
    simp only [Node.kind_mk] at hk
    rcases hk with hk | hk
    · subst hk
      obtain ⟨hm, hc⟩ := hp.inv (by decide)
      have hother : ∀ table cs1, TypedNode table (Node.mk "params" s ty cs1) :=
        fun table cs1 => typedNode_other _ _ (by simp) (by simp) (by simp) (by simp)
      rw [rhsOf_params] at hm
      simp only [List.mem_cons, List.mem_singleton, List.mem_nil_iff, or_false] at hm
      rcases hm with hm | hm
      · have := map_kind_nil hm
        subst this
        rw [annotate_params] at h
        simp [child, bind, Except.bind, pure, Except.pure, throwTypeError] at h
        subst h
        exact ⟨fun table => good_node _ _ _ _ _ _ _ hp (by decide) .nil (hother _ _),
          tableStep_refl _ _ htab⟩
      · obtain ⟨p, r0, rfl, hpl, hr⟩ := map_kind_cons hm
        have := map_kind_nil hr
        subst this
        rw [annotate_params] at h
        simp [child, bind, Except.bind, pure, Except.pure, throwTypeError] at h
        cases hB : annotate_params fuel ptable cur p with
        | error e => rw [hB] at h; simp at h
        | ok w =>
          rw [hB] at h
          simp only [Except.ok.injEq] at h
          subst h
          obtain ⟨g0, st⟩ := ih ptable cur p w (hc p (by simp)) (Or.inr hpl) htab hB
          exact ⟨fun table => good_node _ _ _ _ _ _ _ hp (by decide) (.cons (g0 table) .nil)
            (hother _ _), st⟩
    · subst hk
      obtain ⟨hm, hc⟩ := hp.inv (by decide)
      have hother : ∀ table cs1, TypedNode table (Node.mk "paramlist" s ty cs1) :=
        fun table cs1 => typedNode_other _ _ (by simp) (by simp) (by simp) (by simp)
      rw [rhsOf_paramlist] at hm
      simp only [List.mem_cons, List.mem_singleton, List.mem_nil_iff, or_false] at hm
      rcases hm with hm | hm
      · obtain ⟨d, r0, rfl, hd, hr⟩ := map_kind_cons hm
        have := map_kind_nil hr
        subst this
        rw [annotate_params] at h
        simp [child, bind, Except.bind, pure, Except.pure, throwTypeError, dclType] at h
        cases hA : annotate_dcl ptable cur d none with
        | error e => rw [hA] at h; simp at h
        | ok v =>
          obtain ⟨dcl, rv, pt1⟩ := v
          rw [hA] at h
          obtain ⟨gd, st1, -, idNode, hid, -⟩ := dcl_sound ptable cur d dcl none rv pt1
            (hc d (by simp)) hd (fun tok ht => by cases ht) htab hA
          simp only [hid, Except.ok.injEq] at h
          subst h
          exact ⟨fun table => good_node _ _ _ _ _ _ _ hp (by decide) (.cons (gd table) .nil)
            (hother _ _), tableStep_trans st1 (tableStep_signature pt1 cur _ st1.1)⟩
      · obtain ⟨d, r0, rfl, hd, hr⟩ := map_kind_cons hm
        obtain ⟨comma, r0, rfl, hcomma, hr⟩ := map_kind_cons hr
        obtain ⟨p, r0, rfl, hpl, hr⟩ := map_kind_cons hr
        have := map_kind_nil hr
        subst this
        rw [annotate_params] at h
        simp [child, bind, Except.bind, pure, Except.pure, throwTypeError, dclType] at h
        cases hA : annotate_dcl ptable cur d none with
        | error e => rw [hA] at h; simp at h
        | ok v =>
          obtain ⟨dcl, rv, pt1⟩ := v
          rw [hA] at h
          obtain ⟨gd, st1, -, idNode, hid, -⟩ := dcl_sound ptable cur d dcl none rv pt1
            (hc d (by simp)) hd (fun tok ht => by cases ht) htab hA
          simp only [hid] at h
          have st2 := tableStep_signature pt1 cur ((pt1.get cur).signature ++ [idNode.type]) st1.1
          cases hB : annotate_params fuel (pt1.set cur { pt1.get cur with
              signature := (pt1.get cur).signature ++ [idNode.type] }) cur p with
          | error e => rw [hB] at h; simp at h
          | ok w =>
            rw [hB] at h
            simp only [Except.ok.injEq] at h
            subst h
            obtain ⟨g0, st3⟩ := ih _ cur p w (hc p (by simp)) (Or.inr hpl) st2.1 hB
            exact ⟨fun table => good_node _ _ _ _ _ _ _ hp (by decide)
              (.cons (gd table) (.cons (good_terminal _ comma (hc _ (by simp))
                (by rw [hcomma]; decide)) (.cons (g0 table) .nil)))
              (hother _ _), tableStep_trans st1 (tableStep_trans st2 st3)⟩

end WLP4ParseTree

end WLP4

namespace WLP4

theorem rhsOf_main :
    rhsOf "main" = [["INT", "WAIN", "LPAREN", "dcl", "COMMA", "dcl", "RPAREN", "LBRACE", "dcls",
      "statements", "RETURN", "expr", "SEMI", "RBRACE"]] := by decide

theorem rhsOf_procedure :
    rhsOf "procedure" = [["INT", "ID", "LPAREN", "params", "RPAREN", "LBRACE", "dcls",
      "statements", "RETURN", "expr", "SEMI", "RBRACE"]] := by decide

theorem rhsOf_procedures : rhsOf "procedures" = [["procedure", "procedures"], ["main"]] := by
  decide

theorem rhsOf_start : rhsOf "start" = [["BOF", "procedures", "EOF"]] := by decide

namespace WLP4ParseTree

theorem tableOK_new (id : String) : TableOK (ProcData.new id) := by
  intro k v h
  simp [ProcData.new] at h

theorem lookup_none_of_count (ptable : ProcTable) (id : String) (h : ¬ 0 < ptable.count id) :
    ptable.lookup id = none := by
  unfold ProcTable.count at h
  cases hl : ptable.lookup id with
  | none => rfl
  | some v =>
      rw [hl] at h
      simp at h

theorem lookup_get_of_isSome (ptable : ProcTable) (id : String)
    (h : (ptable.lookup id).isSome = true) : ptable.lookup id = some (ptable.get id) := by
  unfold ProcTable.get
  cases hl : ptable.lookup id with
  | none => rw [hl] at h; simp at h
  | some v => rfl

/-- Closing step of the procedure annotator: a tree typed under the final table of
the procedure, reached from the fresh entry by declaration steps only. -/
theorem proc_finish (ptable pt2 : ProcTable) (id : String) (n n1 : Node)
    (hcount : ¬ 0 < ptable.count id)
    (st : TableStep (ptable.set id (ProcData.new id)) pt2 id)
    (g : Good (pt2.get id) n n1) (hname : procName n1 = id) : ProcGood ptable n (n1, pt2) := by
  refine ⟨g.1, g.2.1, ?_, ⟨pt2.get id, ?_, g.2.2⟩, ?_⟩
  · show ptable.lookup (procName n1) = none
    rw [hname]
    exact lookup_none_of_count ptable id hcount
  · show pt2.lookup (procName n1) = some (pt2.get id)
    rw [hname]
    apply lookup_get_of_isSome
    apply st.2.2
    rw [ProcTable.procTable_lookup_set]
    simp
  · intro q hq
    show pt2.lookup q = ptable.lookup q
    rw [hname] at hq
    rw [st.2.1 q hq, ProcTable.procTable_lookup_set]
    simp [hq]

end WLP4ParseTree

end WLP4

namespace WLP4

namespace WLP4ParseTree

/-- The annotator of a `main` or `procedure` node is sound. -/
theorem proc_sound (fuel : Nat) (ptable : ProcTable) (n : Node) (r : Node × ProcTable)
    (hp : ParseTree n) (hk : n.kind = "main" ∨ n.kind = "procedure")
    (h : annotate_proc fuel ptable n = .ok r) : ProcGood ptable n r := by
  cases fuel with
  | zero => simp [annotate_proc] at h
  | succ fuel =>
    obtain ⟨k, s, ty, cs⟩ := n
    simp only [Node.kind_mk] at hk
    rcases hk with hk | hk
    · subst hk
      obtain ⟨hm, hc⟩ := hp.inv (by decide)
      rw [rhsOf_main] at hm
      simp only [List.mem_singleton] at hm
      obtain ⟨c0, r0, rfl, h0, hr⟩ := map_kind_cons hm
      obtain ⟨c1, r0, rfl, h1, hr⟩ := map_kind_cons hr
      obtain ⟨c2, r0, rfl, h2, hr⟩ := map_kind_cons hr
      obtain ⟨c3, r0, rfl, h3, hr⟩ := map_kind_cons hr
      obtain ⟨c4, r0, rfl, h4, hr⟩ := map_kind_cons hr
      obtain ⟨c5, r0, rfl, h5, hr⟩ := map_kind_cons hr
      obtain ⟨c6, r0, rfl, h6, hr⟩ := map_kind_cons hr
      obtain ⟨c7, r0, rfl, h7, hr⟩ := map_kind_cons hr
      obtain ⟨c8, r0, rfl, h8, hr⟩ := map_kind_cons hr
      obtain ⟨c9, r0, rfl, h9, hr⟩ := map_kind_cons hr
      obtain ⟨c10, r0, rfl, h10, hr⟩ := map_kind_cons hr
      obtain ⟨c11, r0, rfl, h11, hr⟩ := map_kind_cons hr
      obtain ⟨c12, r0, rfl, h12, hr⟩ := map_kind_cons hr
      obtain ⟨c13, r0, rfl, h13, hr⟩ := map_kind_cons hr
      have := map_kind_nil hr
      subst this
      rw [annotate_proc] at h
      simp [child, bind, Except.bind, pure, Except.pure, throwTypeError, dclType] at h
      split at h
      · exact absurd h (by simp)
      rename_i hcount
      have st0 := tableStep_set ptable (secondWord c1.seq) (ProcData.new (secondWord c1.seq))
        (tableOK_new _)
      cases hA : annotate_dcl (ptable.set (secondWord c1.seq) (ProcData.new (secondWord c1.seq)))
          (secondWord c1.seq) c3 none with
      | error e => rw [hA] at h; simp at h
      | ok v =>
        obtain ⟨dcl1, rv1, pt1⟩ := v
        rw [hA] at h
        simp only [] at h
        obtain ⟨gd1, st1, -, -⟩ := dcl_sound _ _ c3 dcl1 none rv1 pt1 (hc c3 (by simp)) h3
          (fun tok ht => by cases ht) st0.1 hA
        cases hB : annotate_dcl pt1 (secondWord c1.seq) c5 none with
        | error e => rw [hB] at h; simp at h
        | ok v =>
          obtain ⟨dcl2, rv2, pt2⟩ := v
          rw [hB] at h
          simp only [] at h
          obtain ⟨gd2, st2, -, idNode, hid, -⟩ := dcl_sound _ _ c5 dcl2 none rv2 pt2
            (hc c5 (by simp)) h5 (fun tok ht => by cases ht) st1.1 hB
          by_cases hty : idNode.type = TYPE_INT
          swap
          · simp [hid, hty] at h
          simp [hid, hty] at h
          cases hC : annotate_dcls fuel pt2 (secondWord c1.seq) c8 with
          | error e => rw [hC] at h; simp at h
          | ok v =>
            obtain ⟨dcls, pt3⟩ := v
            rw [hC] at h
            simp only [] at h
            obtain ⟨gd3, st3⟩ := dcls_sound fuel pt2 _ c8 _ (hc c8 (by simp)) h8 st2.1 hC
            simp only [] at gd3 st3
            obtain ⟨gS, -⟩ := stmtSound fuel pt3 (secondWord c1.seq) st3.1
            obtain ⟨gE, -⟩ := exprSound fuel pt3 (secondWord c1.seq) st3.1
            cases hD : annotate_stmts fuel pt3 (secondWord c1.seq) c9 with
            | error e => rw [hD] at h; simp at h
            | ok stmts =>
              rw [hD] at h
              simp only [] at h
              cases hE : annotate_expr fuel pt3 (secondWord c1.seq) c11 with
              | error e => rw [hE] at h; simp at h
              | ok expr =>
                rw [hE] at h
                simp only [] at h
                split at h
                swap
                · exact absurd h (by simp)
                simp at h
                subst h
                have gstmts := gS c9 stmts (hc c9 (by simp)) h9 hD
                have gexpr := gE c11 expr (hc c11 (by simp)) h11 hE
                refine proc_finish ptable pt3 (secondWord c1.seq) _ _ hcount
                  (tableStep_trans st1 (tableStep_trans st2 st3)) ?_ rfl
                exact good_node _ _ _ _ _ _ _ hp (by decide)
                  (.cons (good_terminal _ c0 (hc _ (by simp)) (by rw [h0]; decide))
                  (.cons (good_terminal _ c1 (hc _ (by simp)) (by rw [h1]; decide))
                  (.cons (good_terminal _ c2 (hc _ (by simp)) (by rw [h2]; decide))
                  (.cons (gd1 _)
                  (.cons (good_terminal _ c4 (hc _ (by simp)) (by rw [h4]; decide))
                  (.cons (gd2 _)
                  (.cons (good_terminal _ c6 (hc _ (by simp)) (by rw [h6]; decide))
                  (.cons (good_terminal _ c7 (hc _ (by simp)) (by rw [h7]; decide))
                  (.cons (gd3 _)
                  (.cons gstmts
                  (.cons (good_terminal _ c10 (hc _ (by simp)) (by rw [h10]; decide))
                  (.cons gexpr
                  (.cons (good_terminal _ c12 (hc _ (by simp)) (by rw [h12]; decide))
                  (.cons (good_terminal _ c13 (hc _ (by simp)) (by rw [h13]; decide))
                  .nil))))))))))))))
                  (typedNode_other _ _ (by simp) (by simp) (by simp) (by simp))
    · subst hk
      obtain ⟨hm, hc⟩ := hp.inv (by decide)
      rw [rhsOf_procedure] at hm
      simp only [List.mem_singleton] at hm
      obtain ⟨c0, r0, rfl, h0, hr⟩ := map_kind_cons hm
      obtain ⟨c1, r0, rfl, h1, hr⟩ := map_kind_cons hr
      obtain ⟨c2, r0, rfl, h2, hr⟩ := map_kind_cons hr
      obtain ⟨c3, r0, rfl, h3, hr⟩ := map_kind_cons hr
      obtain ⟨c4, r0, rfl, h4, hr⟩ := map_kind_cons hr
      obtain ⟨c5, r0, rfl, h5, hr⟩ := map_kind_cons hr
      obtain ⟨c6, r0, rfl, h6, hr⟩ := map_kind_cons hr
      obtain ⟨c7, r0, rfl, h7, hr⟩ := map_kind_cons hr
      obtain ⟨c8, r0, rfl, h8, hr⟩ := map_kind_cons hr
      obtain ⟨c9, r0, rfl, h9, hr⟩ := map_kind_cons hr
      obtain ⟨c10, r0, rfl, h10, hr⟩ := map_kind_cons hr
      obtain ⟨c11, r0, rfl, h11, hr⟩ := map_kind_cons hr
      have := map_kind_nil hr
      subst this
      rw [annotate_proc] at h
      simp [child, bind, Except.bind, pure, Except.pure, throwTypeError, dclType] at h
      split at h
      · exact absurd h (by simp)
      rename_i hcount
      have st0 := tableStep_set ptable (secondWord c1.seq) (ProcData.new (secondWord c1.seq))
        (tableOK_new _)
      cases hA : annotate_params fuel
          (ptable.set (secondWord c1.seq) (ProcData.new (secondWord c1.seq)))
          (secondWord c1.seq) c3 with
      | error e => rw [hA] at h; simp at h
      | ok v =>
        obtain ⟨params, pt1⟩ := v
        rw [hA] at h
        simp at h
        obtain ⟨gd1, st1⟩ := params_sound fuel _ _ c3 _ (hc c3 (by simp)) (Or.inl h3) st0.1 hA
        simp only [] at gd1 st1
        cases hC : annotate_dcls fuel pt1 (secondWord c1.seq) c6 with
        | error e => rw [hC] at h; simp at h
        | ok v =>
          obtain ⟨dcls, pt3⟩ := v
          rw [hC] at h
          simp only [] at h
          obtain ⟨gd3, st3⟩ := dcls_sound fuel pt1 _ c6 _ (hc c6 (by simp)) h6 st1.1 hC
          simp only [] at gd3 st3
          obtain ⟨gS, -⟩ := stmtSound fuel pt3 (secondWord c1.seq) st3.1
          obtain ⟨gE, -⟩ := exprSound fuel pt3 (secondWord c1.seq) st3.1
          cases hD : annotate_stmts fuel pt3 (secondWord c1.seq) c7 with
          | error e => rw [hD] at h; simp at h
          | ok stmts =>
            rw [hD] at h
            simp only [] at h
            cases hE : annotate_expr fuel pt3 (secondWord c1.seq) c9 with
            | error e => rw [hE] at h; simp at h
            | ok expr =>
              rw [hE] at h
              simp only [] at h
              split at h
              swap
              · exact absurd h (by simp)
              simp at h
              subst h
              have gstmts := gS c7 stmts (hc c7 (by simp)) h7 hD
              have gexpr := gE c9 expr (hc c9 (by simp)) h9 hE
              refine proc_finish ptable pt3 (secondWord c1.seq) _ _ hcount
                (tableStep_trans st1 st3) ?_ rfl
              exact good_node _ _ _ _ _ _ _ hp (by decide)
                (.cons (good_terminal _ c0 (hc _ (by simp)) (by rw [h0]; decide))
                (.cons (good_terminal _ c1 (hc _ (by simp)) (by rw [h1]; decide))
                (.cons (good_terminal _ c2 (hc _ (by simp)) (by rw [h2]; decide))
                (.cons (gd1 _)
                (.cons (good_terminal _ c4 (hc _ (by simp)) (by rw [h4]; decide))
                (.cons (good_terminal _ c5 (hc _ (by simp)) (by rw [h5]; decide))
                (.cons (gd3 _)
                (.cons gstmts
                (.cons (good_terminal _ c8 (hc _ (by simp)) (by rw [h8]; decide))
                (.cons gexpr
                (.cons (good_terminal _ c10 (hc _ (by simp)) (by rw [h10]; decide))
                (.cons (good_terminal _ c11 (hc _ (by simp)) (by rw [h11]; decide))
                .nil))))))))))))
                (typedNode_other _ _ (by simp) (by simp) (by simp) (by simp))

end WLP4ParseTree

end WLP4

namespace WLP4

namespace WLP4ParseTree

theorem ProcIn.inv_start {p : Node} {s t : String} {cs : List Node}
    (h : ProcIn p (Node.mk "start" s t cs)) :
    ∃ bof procs eof, cs = [bof, procs, eof] ∧ ProcIn p procs := by
  generalize hn : Node.mk "start" s t cs = n at h
  cases h with
  | start s1 t1 bof procs eof hin =>
      injection hn with _ _ _ hcs
      exact ⟨bof, procs, eof, hcs, hin⟩
  | here s1 t1 rest =>
      injection hn with hk
      exact absurd hk (by decide)
  | there s1 t1 q procs hin =>
      injection hn with hk
      exact absurd hk (by decide)

theorem ProcIn.inv_procedures {p : Node} {s t : String} {cs : List Node}
    (h : ProcIn p (Node.mk "procedures" s t cs)) :
    (∃ rest, cs = p :: rest) ∨ (∃ q procs, cs = [q, procs] ∧ ProcIn p procs) := by
  generalize hn : Node.mk "procedures" s t cs = n at h
  cases h with
  | start s1 t1 bof procs eof hin =>
      injection hn with hk
      exact absurd hk (by decide)
  | here s1 t1 rest =>
      injection hn with _ _ _ hcs
      exact Or.inl ⟨rest, hcs⟩
  | there s1 t1 q procs hin =>
      injection hn with _ _ _ hcs
      exact Or.inr ⟨q, procs, hcs, hin⟩

/-- The program-level annotator is sound at every recursion depth. -/
theorem prog_sound (fuel : Nat) : ∀ (ptable : ProcTable) (n : Node) (r : Node × ProcTable),
    ParseTree n → annotate_prog_level fuel ptable n = .ok r → ProgGood ptable n r := by
  induction fuel with
  | zero =>
      intro _ _ _ _ h
      simp [annotate_prog_level] at h
  | succ fuel ih =>
    intro ptable n r hp h
    obtain ⟨k, s, ty, cs⟩ := n
    by_cases hk : k = "start"
    · subst hk
      obtain ⟨hm, hc⟩ := hp.inv (by decide)
      rw [rhsOf_start] at hm
      simp only [List.mem_singleton] at hm
      obtain ⟨bof, r0, rfl, hbof, hr⟩ := map_kind_cons hm
      obtain ⟨procs, r0, rfl, hprocs, hr⟩ := map_kind_cons hr
      obtain ⟨eof, r0, rfl, heof, hr⟩ := map_kind_cons hr
      have := map_kind_nil hr
      subst this
      rw [annotate_prog_level] at h
      simp [child, bind, Except.bind, pure, Except.pure, throwTypeError] at h
      cases hA : annotate_prog_level fuel ptable procs with
      | error e => rw [hA] at h; simp at h
      | ok v =>
        obtain ⟨sub, pt1⟩ := v
        rw [hA] at h
        simp only [Except.ok.injEq] at h
        subst h
        obtain ⟨gk, gp, gin, gfr⟩ := ih ptable procs _ (hc procs (by simp)) hA
        simp only [] at gk gp gin gfr
        refine ⟨rfl, ?_, ?_, gfr⟩
        · refine ParseTree.node _ _ _ _ ?_ ?_
          · rw [rhsOf_start]
            simp [hbof, heof, gk, hprocs]
          · intro c hcm
            simp only [List.mem_cons, List.mem_singleton, List.mem_nil_iff, or_false] at hcm
            rcases hcm with rfl | rfl | rfl
            · exact hc _ (by simp)
            · exact gp
            · exact hc _ (by simp)
        · intro p hin
          obtain ⟨b1, p1, e1, hcs, hin1⟩ := ProcIn.inv_start hin
          simp only [List.cons.injEq, and_true] at hcs
          obtain ⟨-, rfl, -⟩ := hcs
          exact gin p hin1
    · by_cases hk2 : k = "procedures"
      · subst hk2
        obtain ⟨hm, hc⟩ := hp.inv (by decide)
        rw [rhsOf_procedures] at hm
        simp only [List.mem_cons, List.mem_singleton, List.mem_nil_iff, or_false] at hm
        rcases hm with hm | hm
        · obtain ⟨proc, r0, rfl, hproc, hr⟩ := map_kind_cons hm
          obtain ⟨procs, r0, rfl, hprocs, hr⟩ := map_kind_cons hr
          have := map_kind_nil hr
          subst this
          rw [annotate_prog_level] at h
          simp [child, bind, Except.bind, pure, Except.pure, throwTypeError] at h
          cases hA : annotate_proc fuel ptable proc with
          | error e => rw [hA] at h; simp at h
          | ok v =>
            obtain ⟨p1, ptA⟩ := v
            rw [hA] at h
            simp only [] at h
            obtain ⟨pk, pp, pnone, ⟨tableA, plook, pall⟩, pfr⟩ :=
              proc_sound fuel ptable proc _ (hc proc (by simp)) (Or.inr hproc) hA
            simp only [] at pk pp pnone plook pall pfr
            cases hB : annotate_prog_level fuel ptA procs with
            | error e => rw [hB] at h; simp at h
            | ok w =>
              obtain ⟨sub, ptB⟩ := w
              rw [hB] at h
              simp only [Except.ok.injEq] at h
              subst h
              obtain ⟨gk, gp, gin, gfr⟩ := ih ptA procs _ (hc procs (by simp)) hB
              simp only [] at gk gp gin gfr
              refine ⟨rfl, ?_, ?_, ?_⟩
              · refine ParseTree.node _ _ _ _ ?_ ?_
                · rw [rhsOf_procedures]
                  simp [pk, gk, hproc, hprocs]
                · intro c hcm
                  simp only [List.mem_cons, List.mem_singleton, List.mem_nil_iff,
                    or_false] at hcm
                  rcases hcm with rfl | rfl
                  · exact pp
                  · exact gp
              · intro p hin
                rcases ProcIn.inv_procedures hin with ⟨rest, hcs⟩ | ⟨q, pr, hcs, hin1⟩
                · simp only [List.cons.injEq] at hcs
                  obtain ⟨rfl, -⟩ := hcs
                  exact ⟨tableA, gfr _ _ plook, pall⟩
                · simp only [List.cons.injEq, and_true] at hcs
                  obtain ⟨-, rfl⟩ := hcs
                  exact gin p hin1
              · intro q d hq
                apply gfr
                rw [pfr q ?_]
                · exact hq
                · intro hqe
                  rw [hqe, pnone] at hq
                  exact absurd hq (by simp)
        · obtain ⟨proc, r0, rfl, hproc, hr⟩ := map_kind_cons hm
          have := map_kind_nil hr
          subst this
          rw [annotate_prog_level] at h
          simp [child, bind, Except.bind, pure, Except.pure, throwTypeError] at h
          cases hA : annotate_proc fuel ptable proc with
          | error e => rw [hA] at h; simp at h
          | ok v =>
            obtain ⟨p1, ptA⟩ := v
            rw [hA] at h
            simp only [Except.ok.injEq] at h
            subst h
            obtain ⟨pk, pp, pnone, ⟨tableA, plook, pall⟩, pfr⟩ :=
              proc_sound fuel ptable proc _ (hc proc (by simp)) (Or.inl hproc) hA
            simp only [] at pk pp pnone plook pall pfr
            refine ⟨rfl, ?_, ?_, ?_⟩
            · refine ParseTree.node _ _ _ _ ?_ ?_
              · rw [rhsOf_procedures]
                simp [pk, hproc]
              · intro c hcm
                simp only [List.mem_singleton] at hcm
                subst hcm
                exact pp
            · intro p hin
              rcases ProcIn.inv_procedures hin with ⟨rest, hcs⟩ | ⟨q, pr, hcs, hin1⟩
              · simp only [List.cons.injEq] at hcs
                obtain ⟨rfl, -⟩ := hcs
                exact ⟨tableA, plook, pall⟩
              · simp at hcs
            · intro q d hq
              rw [pfr q ?_]
              · exact hq
              · intro hqe
                rw [hqe, pnone] at hq
                exact absurd hq (by simp)
      · rw [annotate_prog_level] at h
        simp [child, bind, Except.bind, pure, Except.pure, throwTypeError, hk, hk2] at h

end WLP4ParseTree

end WLP4

namespace WLP4

namespace WLP4ParseTree

/-- C2. Annotation soundness: whenever the annotator succeeds on a parse tree
(at any recursion budget, that of `annotate` included), the result is again a
parse tree, and for every `procedure` or `main` node in it the procedure table
holds a symbol table under the procedure's name such that every `expr`, `term`,
`factor` and `lvalue` node of the procedure carries a type `int` or `int*` that
follows from its children's types by the typing rule of its production, and
every `ID` leaf used as a variable names an entry of that symbol table whose
recorded type is the leaf's own tag. -/
theorem annotate_sound (fuel : Nat) (root root1 : Node) (ptable : ProcTable)
    (hp : ParseTree root) (h : annotate_prog_level fuel [] root = .ok (root1, ptable)) :
    root1.kind = root.kind ∧ ParseTree root1 ∧
      ∀ p, ProcIn p root1 →
        ∃ table, ptable.lookup (procName p) = some table ∧ AllNodes (TypedNode table) p :=
  have g := prog_sound fuel [] root (root1, ptable) hp h
  ⟨g.1, g.2.1, g.2.2.1⟩

theorem exampleTree_parse : ParseTree exampleTree := by
  unfold exampleTree exampleProgram exampleSum rule tok
  repeat' first
    | exact ParseTree.leaf _ _ _ (by decide)
    | refine ParseTree.node _ _ _ _ (by decide) ?_
    | (rw [List.forall_mem_cons]; constructor)
    | (intro c hc; exact absurd hc (List.not_mem_nil c))

/-- The program `int wain(int* a, int b) { return *(a + b); }` is a parse tree,
`annotate` succeeds on it with the table `a : int*`, `b : int`, and the annotated
tree is sound. -/
theorem annotate_sound_witness :
    ParseTree exampleTree ∧
    annotate exampleTree = .ok (exampleTyped, [("wain", exampleTable)]) ∧
    (exampleTyped.kind = exampleTree.kind ∧ ParseTree exampleTyped ∧
      ∀ p, ProcIn p exampleTyped →
        ∃ table, List.lookup (procName p) [("wain", exampleTable)] = some table ∧
          AllNodes (TypedNode table) p) :=
  ⟨exampleTree_parse, rfl,
    annotate_sound (height exampleTree + 1) exampleTree exampleTyped [("wain", exampleTable)]
      exampleTree_parse rfl⟩

/-- The sum `a + b` with `a : int*` and `b : int` is annotated `int*`, the entry
of the table of `expr PLUS term` for that pair of operand types. -/
theorem binary_typing_table_witness :
    IsType "int*" ∧ IsType "int" ∧ plusType "int*" "int" = some "int*" ∧
    annotate_expr 4 [("wain", exampleTable)] "wain" exampleSum = .ok exampleSumTyped :=
  ⟨Or.inr rfl, Or.inl rfl, by decide,
    (binary_typing_table 3 [("wain", exampleTable)] "wain" "expr" "expr expr PLUS term" ""
      (rule "expr" "term" "" [rule "term" "factor" "" [rule "factor" "ID" "" [tok "ID" "a" ""]]])
      (tok "PLUS" "+" "")
      (rule "term" "factor" "" [rule "factor" "ID" "" [tok "ID" "b" ""]])
      (rule "expr" "term" "int*"
        [rule "term" "factor" "int*" [rule "factor" "ID" "int*" [tok "ID" "a" "int*"]]])
      (rule "term" "factor" "int" [rule "factor" "ID" "int" [tok "ID" "b" "int"]])
      (Or.inr rfl) (Or.inl rfl)).1 rfl rfl rfl⟩

end WLP4ParseTree

end WLP4

namespace WLP4

namespace WLP4ParseTree

theorem height_le_heightList {c : Node} {cs : List Node} (h : c ∈ cs) :
    height c ≤ heightList cs := by
  induction cs with
  | nil => simp at h
  | cons a as ih =>
      rw [heightList]
      rcases List.mem_cons.mp h with rfl | h
      · exact Nat.le_max_left _ _
      · exact le_trans (ih h) (Nat.le_max_right _ _)

theorem height_lt_of_mem {c n : Node} (h : c ∈ n.children) : height c < height n := by
  obtain ⟨k, s, t, cs⟩ := n
  rw [height]
  exact Nat.lt_succ_of_le (height_le_heightList h)

theorem child_mem {n c : Node} {i : Nat} (h : child n i = .ok c) : c ∈ n.children := by
  unfold child at h
  split at h
  · rename_i c1 hc
    simp only [Except.ok.injEq] at h
    subst h
    exact List.getElem?_mem hc
  · simp at h

theorem back_mem {n c : Node} (h : back n = .ok c) : c ∈ n.children := by
  unfold back at h
  split at h
  · rename_i c1 hc
    simp only [Except.ok.injEq] at h
    subst h
    exact List.mem_of_mem_getLast? hc
  · simp at h

theorem child_in_budget {n : Node} {i : Nat} (h : child n i = .error .fuel) : False := by
  unfold child at h
  split at h <;> simp at h

theorem back_in_budget {n : Node} (h : back n = .error .fuel) : False := by
  unfold back at h
  split at h <;> simp at h

theorem token_in_budget {table : ProcData} {n : Node}
    (h : annotate_token table n = .error .fuel) : False := by
  unfold annotate_token at h
  simp only [throwTypeError] at h
  repeat' split at h
  all_goals simp at h

theorem child_setChild_of_ne (n x : Node) (i j : Nat) (h : i ≠ j) :
    child (n.setChild j x) i = child n i := by
  obtain ⟨k, s, t, cs⟩ := n
  simp [child, Node.setChild, Node.children, List.getElem?_set, h.symm]

theorem child_setType (n : Node) (t : String) (i : Nat) :
    child (n.setType t) i = child n i := by
  obtain ⟨k, s, t0, cs⟩ := n
  rfl

theorem child_set_last_mem {n x c : Node} (h1 : ¬ n.children.length = 1)
    (h : child (n.setChild (n.children.length - 1) x) 0 = .ok c) : c ∈ n.children := by
  by_cases h0 : n.children.length - 1 = 0
  · have hlen : n.children.length = 0 := by omega
    obtain ⟨k, s, t, cs⟩ := n
    simp only [Node.children_mk, List.length_eq_zero] at hlen
    subst hlen
    simp [child, Node.setChild, Node.children] at h
  · rw [child_setChild_of_ne _ _ _ _ (fun e => h0 e.symm)] at h
    exact child_mem h

/-- A call on a child of `n` cannot be out of budget when `n` is within it. -/
theorem close_child {fuel i : Nat} {n c : Node} (h1 : fuel < height c)
    (hc : child n i = .ok c) (hn : ¬ fuel + 1 < height n) : False := by
  have := height_lt_of_mem (child_mem hc)
  omega

theorem close_back {fuel : Nat} {n c : Node} (h1 : fuel < height c)
    (hc : back n = .ok c) (hn : ¬ fuel + 1 < height n) : False := by
  have := height_lt_of_mem (back_mem hc)
  omega

theorem close_set_last {fuel : Nat} {n x c : Node} (h1 : fuel < height c)
    (hc : child (n.setChild (n.children.length - 1) x) 0 = .ok c)
    (hlen : ¬ n.children.length = 1) (hn : ¬ fuel + 1 < height n) : False := by
  have := height_lt_of_mem (child_set_last_mem hlen hc)
  omega

theorem close_set_last_gt {fuel : Nat} {n x c : Node} (h1 : fuel < height c)
    (hc : child (n.setChild (n.children.length - 1) x) 0 = .ok c)
    (hlen : n.children.length > 1) (hn : ¬ fuel + 1 < height n) : False :=
  close_set_last h1 hc (by omega) hn

theorem close_set_zero {fuel : Nat} {n x c : Node} (h1 : fuel < height c)
    (hc : child (n.setChild 0 x) 2 = .ok c) (hn : ¬ fuel + 1 < height n) : False := by
  rw [child_setChild_of_ne _ _ _ _ (by decide)] at hc
  exact close_child h1 hc hn

theorem expr_budget_step (fuel : Nat)
    (ihE : ∀ ptable cur c, annotate_expr fuel ptable cur c = .error .fuel → fuel < height c)
    (ihT : ∀ ptable cur c, annotate_term fuel ptable cur c = .error .fuel → fuel < height c)
    (ptable : ProcTable) (cur : String) (n : Node)
    (h : annotate_expr (fuel + 1) ptable cur n = .error .fuel) : fuel + 1 < height n := by
  by_contra hn
  rw [annotate_expr] at h
  simp only [bind, Except.bind, pure, Except.pure, throwTypeError, child_setType] at h
  repeat' split at h
  all_goals cases h
  all_goals first
    | contradiction
    | exact back_in_budget (by assumption)
    | exact child_in_budget (by assumption)
    | exact close_back (ihT _ _ _ (by assumption)) (by assumption) hn
    | exact close_set_last (ihE _ _ _ (by assumption)) (by assumption) (by assumption) hn

theorem term_budget_step (fuel : Nat)
    (ihT : ∀ ptable cur c, annotate_term fuel ptable cur c = .error .fuel → fuel < height c)
    (ihF : ∀ ptable cur c, annotate_factor fuel ptable cur c = .error .fuel → fuel < height c)
    (ptable : ProcTable) (cur : String) (n : Node)
    (h : annotate_term (fuel + 1) ptable cur n = .error .fuel) : fuel + 1 < height n := by
  by_contra hn
  rw [annotate_term] at h
  simp only [bind, Except.bind, pure, Except.pure, throwTypeError, child_setType] at h
  repeat' split at h
  all_goals cases h
  all_goals first
    | contradiction
    | exact back_in_budget (by assumption)
    | exact child_in_budget (by assumption)
    | exact close_back (ihF _ _ _ (by assumption)) (by assumption) hn
    | exact close_set_last_gt (ihT _ _ _ (by assumption)) (by assumption) (by assumption) hn

theorem factor_budget_step (fuel : Nat)
    (ihE : ∀ ptable cur c, annotate_expr fuel ptable cur c = .error .fuel → fuel < height c)
    (ihF : ∀ ptable cur c, annotate_factor fuel ptable cur c = .error .fuel → fuel < height c)
    (ihL : ∀ ptable cur c, annotate_lvalue fuel ptable cur c = .error .fuel → fuel < height c)
    (ihA : ∀ ptable cur c ct idx, annotate_args fuel ptable cur c ct idx = .error .fuel →
      fuel < height c)
    (ptable : ProcTable) (cur : String) (n : Node)
    (h : annotate_factor (fuel + 1) ptable cur n = .error .fuel) : fuel + 1 < height n := by
  by_contra hn
  rw [annotate_factor] at h
  simp only [bind, Except.bind, pure, Except.pure, throwTypeError, child_setType] at h
  repeat' split at h
  all_goals cases h
  all_goals try simp only [Except.ok.injEq] at *
  all_goals try subst_vars
  all_goals first
    | contradiction
    | exact child_in_budget (by assumption)
    | exact token_in_budget (by assumption)
    | exact close_child (ihE _ _ _ (by assumption)) (by assumption) hn
    | exact close_child (ihF _ _ _ (by assumption)) (by assumption) hn
    | exact close_child (ihL _ _ _ (by assumption)) (by assumption) hn
    | exact close_child (ihA _ _ _ _ _ (by assumption)) (by assumption) hn

theorem lvalue_budget_step (fuel : Nat)
    (ihF : ∀ ptable cur c, annotate_factor fuel ptable cur c = .error .fuel → fuel < height c)
    (ihL : ∀ ptable cur c, annotate_lvalue fuel ptable cur c = .error .fuel → fuel < height c)
    (ptable : ProcTable) (cur : String) (n : Node)
    (h : annotate_lvalue (fuel + 1) ptable cur n = .error .fuel) : fuel + 1 < height n := by
  by_contra hn
  rw [annotate_lvalue] at h
  simp only [bind, Except.bind, pure, Except.pure, throwTypeError, child_setType] at h
  repeat' split at h
  all_goals cases h
  all_goals first
    | contradiction
    | exact child_in_budget (by assumption)
    | exact token_in_budget (by assumption)
    | exact close_child (ihF _ _ _ (by assumption)) (by assumption) hn
    | exact close_child (ihL _ _ _ (by assumption)) (by assumption) hn

theorem args_budget_step (fuel : Nat)
    (ihE : ∀ ptable cur c, annotate_expr fuel ptable cur c = .error .fuel → fuel < height c)
    (ihA : ∀ ptable cur c ct idx, annotate_args fuel ptable cur c ct idx = .error .fuel →
      fuel < height c)
    (ptable : ProcTable) (cur : String) (n : Node) (ct : ProcData) (idx : Nat)
    (h : annotate_args (fuel + 1) ptable cur n ct idx = .error .fuel) : fuel + 1 < height n := by
  by_contra hn
  rw [annotate_args] at h
  simp only [bind, Except.bind, pure, Except.pure, throwTypeError, child_setType] at h
  repeat' split at h
  all_goals cases h
  all_goals first
    | contradiction
    | exact child_in_budget (by assumption)
    | exact close_child (ihE _ _ _ (by assumption)) (by assumption) hn
    | exact close_set_zero (ihA _ _ _ _ _ (by assumption)) (by assumption) hn

/-- The expression annotators use up their recursion budget only on a tree
higher than the budget. -/
theorem expr_budget (fuel : Nat) :
    (∀ ptable cur c, annotate_expr fuel ptable cur c = .error .fuel → fuel < height c) ∧
    (∀ ptable cur c, annotate_term fuel ptable cur c = .error .fuel → fuel < height c) ∧
    (∀ ptable cur c, annotate_factor fuel ptable cur c = .error .fuel → fuel < height c) ∧
    (∀ ptable cur c, annotate_lvalue fuel ptable cur c = .error .fuel → fuel < height c) ∧
    (∀ ptable cur c ct idx, annotate_args fuel ptable cur c ct idx = .error .fuel →
      fuel < height c) := by
  have hpos : ∀ c : Node, 0 < height c := by
    intro c
    obtain ⟨k, s, t, cs⟩ := c
    rw [height]
    omega
  induction fuel with
  | zero => exact ⟨fun _ _ c _ => hpos c, fun _ _ c _ => hpos c, fun _ _ c _ => hpos c,
      fun _ _ c _ => hpos c, fun _ _ c _ _ _ => hpos c⟩
  | succ fuel ih =>
      obtain ⟨ihE, ihT, ihF, ihL, ihA⟩ := ih
      exact ⟨expr_budget_step fuel ihE ihT, term_budget_step fuel ihT ihF,
        factor_budget_step fuel ihE ihF ihL ihA, lvalue_budget_step fuel ihF ihL,
        args_budget_step fuel ihE ihA⟩

/-- A failing sequence of two steps fails in the first step or, after the first
step returned, in the second. -/
theorem bind_budget {α β : Type} {x : Except Abort α} {f : α → Except Abort β}
    (h : (x >>= f) = .error .fuel) :
    x = .error .fuel ∨ ∃ a, x = .ok a ∧ f a = .error .fuel := by
  cases x with
  | error e =>
      left
      simpa [bind, Except.bind] using h
  | ok a => exact Or.inr ⟨a, rfl, h⟩

theorem test_budget (fuel : Nat) (ptable : ProcTable) (cur : String) (n : Node)
    (h : annotate_test fuel ptable cur n = .error .fuel) : fuel < height n := by
  cases fuel with
  | zero =>
      obtain ⟨k, s, t, cs⟩ := n
      rw [height]
      omega
  | succ fuel =>
    by_contra hn
    have ihE := (expr_budget fuel).1
    rw [annotate_test] at h
    repeat' first
      | (obtain h | ⟨_, _, h⟩ := bind_budget h)
      | (split at h)
      | (dsimp only at h)
    all_goals first
      | (simp [pure, Except.pure, throwTypeError] at h)
      | exact child_in_budget h
      | exact close_child (ihE _ _ _ h) (by assumption) hn

theorem stmts_budget_step (fuel : Nat)
    (ihS : ∀ ptable cur c, annotate_stmts fuel ptable cur c = .error .fuel → fuel < height c)
    (ihT : ∀ ptable cur c, annotate_stmt fuel ptable cur c = .error .fuel → fuel < height c)
    (ptable : ProcTable) (cur : String) (n : Node)
    (h : annotate_stmts (fuel + 1) ptable cur n = .error .fuel) : fuel + 1 < height n := by
  by_contra hn
  rw [annotate_stmts] at h
  repeat' first
    | (obtain h | ⟨_, _, h⟩ := bind_budget h)
    | (split at h)
    | (dsimp only at h)
  all_goals first
    | (simp [pure, Except.pure, throwTypeError] at h)
    | exact child_in_budget h
    | exact close_child (ihS _ _ _ h) (by assumption) hn
    | exact close_child (ihT _ _ _ h) (by assumption) hn

theorem stmt_budget_step (fuel : Nat)
    (ihS : ∀ ptable cur c, annotate_stmts fuel ptable cur c = .error .fuel → fuel < height c)
    (ptable : ProcTable) (cur : String) (n : Node)
    (h : annotate_stmt (fuel + 1) ptable cur n = .error .fuel) : fuel + 1 < height n := by
  by_contra hn
  have ihE := (expr_budget fuel).1
  have ihL := (expr_budget fuel).2.2.2.1
  have ihB := test_budget fuel
  rw [annotate_stmt] at h
  repeat' first
    | (obtain h | ⟨_, _, h⟩ := bind_budget h)
    | (split at h)
    | (dsimp only at h)
  all_goals first
    | (simp [pure, Except.pure, throwTypeError] at h)
    | exact child_in_budget h
    | exact close_child (ihS _ _ _ h) (by assumption) hn
    | exact close_child (ihE _ _ _ h) (by assumption) hn
    | exact close_child (ihL _ _ _ h) (by assumption) hn
    | exact close_child (ihB _ _ _ h) (by assumption) hn

/-- The statement annotators use up their recursion budget only on a tree higher
than the budget. -/
theorem stmt_budget (fuel : Nat) :
    (∀ ptable cur c, annotate_stmts fuel ptable cur c = .error .fuel → fuel < height c) ∧
    (∀ ptable cur c, annotate_stmt fuel ptable cur c = .error .fuel → fuel < height c) := by
  have hpos : ∀ c : Node, 0 < height c := by
    intro c
    obtain ⟨k, s, t, cs⟩ := c
    rw [height]
    omega
  induction fuel with
  | zero => exact ⟨fun _ _ c _ => hpos c, fun _ _ c _ => hpos c⟩
  | succ fuel ih =>
      obtain ⟨ihS, ihT⟩ := ih
      exact ⟨stmts_budget_step fuel ihS ihT, stmt_budget_step fuel ihS⟩

theorem dcl_in_budget {ptable : ProcTable} {cur : String} {n : Node} {rv : Option Node}
    (h : annotate_dcl ptable cur n rv = .error .fuel) : False := by
  unfold annotate_dcl at h
  repeat' first
    | (obtain h | ⟨_, _, h⟩ := bind_budget h)
    | (split at h)
    | (dsimp only at h)
  all_goals first
    | (simp [pure, Except.pure, throwTypeError] at h)
    | exact child_in_budget h
    | exact token_in_budget h

theorem dclType_in_budget {n : Node} (h : dclType n = .error .fuel) : False := by
  unfold dclType at h
  repeat' first
    | (obtain h | ⟨_, _, h⟩ := bind_budget h)
    | (split at h)
    | (dsimp only at h)
  all_goals first
    | (simp [pure, Except.pure, throwTypeError] at h)
    | exact child_in_budget h

theorem dcls_budget (fuel : Nat) : ∀ (ptable : ProcTable) (cur : String) (n : Node),
    annotate_dcls fuel ptable cur n = .error .fuel → fuel < height n := by
  induction fuel with
  | zero =>
      intro _ _ n _
      obtain ⟨k, s, t, cs⟩ := n
      rw [height]
      omega
  | succ fuel ih =>
    intro ptable cur n h
    by_contra hn
    rw [annotate_dcls] at h
    repeat' first
      | (obtain h | ⟨_, _, h⟩ := bind_budget h)
      | (split at h)
      | (dsimp only at h)
    all_goals first
      | (simp [pure, Except.pure, throwTypeError] at h)
      | exact child_in_budget h
      | exact dcl_in_budget h
      | exact token_in_budget h
      | exact close_child (ih _ _ _ h) (by assumption) hn

theorem params_budget (fuel : Nat) : ∀ (ptable : ProcTable) (cur : String) (n : Node),
    annotate_params fuel ptable cur n = .error .fuel → fuel < height n := by
  induction fuel with
  | zero =>
      intro _ _ n _
      obtain ⟨k, s, t, cs⟩ := n
      rw [height]
      omega
  | succ fuel ih =>
    intro ptable cur n h
    by_contra hn
    rw [annotate_params] at h
    repeat' first
      | (obtain h | ⟨_, _, h⟩ := bind_budget h)
      | (split at h)
      | (dsimp only at h)
    all_goals first
      | (simp [pure, Except.pure, throwTypeError] at h)
      | exact child_in_budget h
      | exact dcl_in_budget h
      | exact token_in_budget h
      | exact dclType_in_budget h
      | exact close_child (ih _ _ _ h) (by assumption) hn

theorem proc_budget (fuel : Nat) (ptable : ProcTable) (n : Node)
    (h : annotate_proc fuel ptable n = .error .fuel) : fuel < height n := by
  cases fuel with
  | zero =>
      obtain ⟨k, s, t, cs⟩ := n
      rw [height]
      omega
  | succ fuel =>
    by_contra hn
    have ihE := (expr_budget fuel).1
    have ihS := (stmt_budget fuel).1
    have ihD := dcls_budget fuel
    have ihP := params_budget fuel
    rw [annotate_proc] at h
    repeat' first
      | (obtain h | ⟨_, _, h⟩ := bind_budget h)
      | (split at h)
      | (dsimp only at h)
    all_goals first
      | (simp [pure, Except.pure, throwTypeError] at h)
      | exact child_in_budget h
      | exact dcl_in_budget h
      | exact token_in_budget h
      | exact dclType_in_budget h
      | exact close_child (ihE _ _ _ h) (by assumption) hn
      | exact close_child (ihS _ _ _ h) (by assumption) hn
      | exact close_child (ihD _ _ _ h) (by assumption) hn
      | exact close_child (ihP _ _ _ h) (by assumption) hn

theorem prog_budget (fuel : Nat) : ∀ (ptable : ProcTable) (n : Node),
    annotate_prog_level fuel ptable n = .error .fuel → fuel < height n := by
  induction fuel with
  | zero =>
      intro _ n _
      obtain ⟨k, s, t, cs⟩ := n
      rw [height]
      omega
  | succ fuel ih =>
    intro ptable n h
    by_contra hn
    have ihP := proc_budget fuel
    rw [annotate_prog_level] at h
    repeat' first
      | (obtain h | ⟨_, _, h⟩ := bind_budget h)
      | (split at h)
      | (dsimp only at h)
    all_goals first
      | (simp [pure, Except.pure, throwTypeError] at h)
      | exact child_in_budget h
      | exact close_child (ih _ _ h) (by assumption) hn
      | exact close_child (ihP _ _ h) (by assumption) hn

/-- The budget of `annotate` is never used up: a run ends with the annotated tree,
a `TypeError`, or an out-of-bounds access of the source. -/
theorem annotate_in_budget (root : Node) : annotate root ≠ .error .fuel := by
  intro h
  have := prog_budget (height root + 1) [] root h
  omega

end WLP4ParseTree

end WLP4

namespace WLP4

namespace WLP4Scanner

open DFA

/-- Every pair the loop writes comes from an accepted lexeme that passed the
number check and is neither a comment nor whitespace: a property of all such
pairs holds for the whole output. -/
theorem scanLoop_emits (d : DFA) (P : String × String → Prop) (s : List Char)
    (hP : ∀ st lexL, d.run d.start lexL = some st → d.isAccepting st = true →
      ¬ (getKind st (String.mk lexL) = "NUM" ∧ numOutOfBounds (String.mk lexL)) →
      getKind st (String.mk lexL) ≠ "COMMENT" → getKind st (String.mk lexL) ≠ "WHITESPACE" →
      P (getKind st (String.mk lexL), String.mk lexL)) :
    ∀ (steps i : Nat) (cur : String) (lexL : List Char) (out : List (String × String)),
      d.run d.start lexL = some cur → (∀ t ∈ out, P t) →
      ∀ t ∈ (scanLoop d s steps i cur (String.mk lexL) out).1, P t := by
  intro steps
  induction steps with
  | zero =>
      intro i cur lexL out _ hout t ht
      exact hout t (by simpa [scanLoop] using ht)
  | succ steps ih =>
      intro i cur lexL out hrun hout t ht
      rw [scanLoop] at ht
      cases hc : s[i]? with
      | none =>
          simp only [hc] at ht
          by_cases hacc : d.isAccepting cur = true
          · simp only [hacc, Bool.not_true, Bool.false_eq_true, if_false] at ht
            by_cases hbad : getKind cur (String.mk lexL) = "NUM" ∧ numOutOfBounds (String.mk lexL)
            · have hbad' := hbad
              unfold numOutOfBounds at hbad'
              rw [if_pos ⟨hbad'.1, hbad'.2.1, hbad'.2.2⟩] at ht
              exact hout t ht
            · have hbad' : ¬ (getKind cur (String.mk lexL) = "NUM" ∧ (String.mk lexL).length > 9 ∧
                  ((String.mk lexL).length ≠ 10 ∨ String.mk lexL > "2147483647")) := by
                intro h0
                exact hbad ⟨h0.1, h0.2.1, h0.2.2⟩
              rw [if_neg hbad'] at ht
              by_cases hcom : getKind cur (String.mk lexL) = "COMMENT"
              · rw [if_pos hcom] at ht
                exact hout t ht
              · rw [if_neg hcom] at ht
                have hout1 : ∀ t ∈ (if getKind cur (String.mk lexL) ≠ "WHITESPACE" then
                    out ++ [(getKind cur (String.mk lexL), String.mk lexL)] else out), P t := by
                  intro t1 ht1
                  by_cases hw : getKind cur (String.mk lexL) = "WHITESPACE"
                  · simp only [hw, ne_eq, not_true_eq_false, if_false] at ht1
                    exact hout t1 ht1
                  · simp only [hw, ne_eq, not_false_eq_true, if_true, List.mem_append,
                      List.mem_singleton] at ht1
                    rcases ht1 with ht1 | ht1
                    · exact hout t1 ht1
                    · rw [ht1]
                      exact hP cur lexL hrun hacc hbad hcom hw
                by_cases hend : i = s.length
                · simp only [hend, if_true] at ht
                  exact hout1 t ht
                · simp only [hend, if_false] at ht
                  exact ih i d.start [] _ rfl hout1 t ht
          · simp only [hacc, Bool.not_false, if_true] at ht
            exact hout t ht
      | some c =>
          simp only [hc] at ht
          cases htr : d.transition cur c with
          | none =>
              simp only [htr] at ht
              by_cases hacc : d.isAccepting cur = true
              · simp only [hacc, Bool.not_true, Bool.false_eq_true, if_false] at ht
                by_cases hbad : getKind cur (String.mk lexL) = "NUM" ∧
                    numOutOfBounds (String.mk lexL)
                · have hbad' := hbad
                  unfold numOutOfBounds at hbad'
                  rw [if_pos ⟨hbad'.1, hbad'.2.1, hbad'.2.2⟩] at ht
                  exact hout t ht
                · have hbad' : ¬ (getKind cur (String.mk lexL) = "NUM" ∧
                      (String.mk lexL).length > 9 ∧
                      ((String.mk lexL).length ≠ 10 ∨ String.mk lexL > "2147483647")) := by
                    intro h0
                    exact hbad ⟨h0.1, h0.2.1, h0.2.2⟩
                  rw [if_neg hbad'] at ht
                  by_cases hcom : getKind cur (String.mk lexL) = "COMMENT"
                  · rw [if_pos hcom] at ht
                    exact hout t ht
                  · rw [if_neg hcom] at ht
                    have hout1 : ∀ t ∈ (if getKind cur (String.mk lexL) ≠ "WHITESPACE" then
                        out ++ [(getKind cur (String.mk lexL), String.mk lexL)] else out),
                        P t := by
                      intro t1 ht1
                      by_cases hw : getKind cur (String.mk lexL) = "WHITESPACE"
                      · simp only [hw, ne_eq, not_true_eq_false, if_false] at ht1
                        exact hout t1 ht1
                      · simp only [hw, ne_eq, not_false_eq_true, if_true, List.mem_append,
                          List.mem_singleton] at ht1
                        rcases ht1 with ht1 | ht1
                        · exact hout t1 ht1
                        · rw [ht1]
                          exact hP cur lexL hrun hacc hbad hcom hw
                    by_cases hend : i = s.length
                    · simp only [hend, if_true] at ht
                      exact hout1 t ht
                    · simp only [hend, if_false] at ht
                      exact ih i d.start [] _ rfl hout1 t ht
              · simp only [hacc, Bool.not_false, if_true] at ht
                exact hout t ht
          | some nxt =>
              simp only [htr] at ht
              have hpush : (String.mk lexL).push c = String.mk (lexL ++ [c]) := rfl
              rw [hpush] at ht
              exact ih (i + 1) nxt (lexL ++ [c]) out
                (by rw [run_append, hrun]; simp [run, htr]) hout t ht

/-- The same for the loop over the lines of the input. -/
theorem scanAll_lines_emits (d : DFA) (P : String × String → Prop)
    (hP : ∀ st lexL, d.run d.start lexL = some st → d.isAccepting st = true →
      ¬ (getKind st (String.mk lexL) = "NUM" ∧ numOutOfBounds (String.mk lexL)) →
      getKind st (String.mk lexL) ≠ "COMMENT" → getKind st (String.mk lexL) ≠ "WHITESPACE" →
      P (getKind st (String.mk lexL), String.mk lexL)) :
    ∀ (lines : List String) (out : List (String × String)), (∀ t ∈ out, P t) →
      ∀ t ∈ (scanAll_lines d lines out).1, P t := by
  intro lines
  induction lines with
  | nil =>
      intro out hout t ht
      exact hout t ht
  | cons s rest ih =>
      intro out hout t ht
      rw [scanAll_lines] at ht
      by_cases hlen : s.length = 0
      · simp only [hlen, if_true] at ht
        exact ih out hout t ht
      · simp only [hlen, if_false] at ht
        have hline : ∀ t ∈ (scanLine d s out).1, P t :=
          scanLoop_emits d P s.data hP _ 0 d.start [] out rfl hout
        cases hres : scanLine d s out with
        | mk out1 status =>
            rw [hres] at ht hline
            cases status with
            | done => exact ih out1 hline t ht
            | unaccepted msg => exact hline t ht
            | outOfBounds msg => exact hline t ht
            | running => exact hline t ht

end WLP4Scanner

end WLP4

namespace WLP4

namespace WLP4Scanner

open DFA

theorem enters_table :
    WLP4Scanner.new.states.all (fun st => st.next.all (fun p =>
      (p.2 != "NUM" || ((st.name == "_START" && decide ('1' ≤ p.1 ∧ p.1 ≤ '9')) ||
        (st.name == "NUM" && p.1.isDigit))) &&
      (p.2 != "ZERO" || (st.name == "_START" && p.1 == '0')))) = true := by
  rw [new_table]
  decide

theorem enters_NUM (cur : String) (c : Char)
    (h : WLP4Scanner.new.transition cur c = some "NUM") :
    (cur = "_START" ∧ '1' ≤ c ∧ c ≤ '9') ∨ (cur = "NUM" ∧ c.isDigit = true) := by
  obtain ⟨st, hst, hname, hmem⟩ := transition_table _ _ _ _ h
  have := enters_table
  rw [List.all_eq_true] at this
  have h1 := this st hst
  rw [List.all_eq_true] at h1
  have h2 := h1 (c, "NUM") hmem
  subst hname
  simp only [bne_self_eq_false, Bool.false_or, Bool.and_eq_true, Bool.or_eq_true, beq_iff_eq,
    decide_eq_true_eq] at h2
  exact h2.1

theorem enters_ZERO (cur : String) (c : Char)
    (h : WLP4Scanner.new.transition cur c = some "ZERO") : cur = "_START" ∧ c = '0' := by
  obtain ⟨st, hst, hname, hmem⟩ := transition_table _ _ _ _ h
  have := enters_table
  rw [List.all_eq_true] at this
  have h1 := this st hst
  rw [List.all_eq_true] at h1
  have h2 := h1 (c, "ZERO") hmem
  subst hname
  simp only [bne_self_eq_false, Bool.false_or, Bool.and_eq_true, Bool.or_eq_true, beq_iff_eq,
    decide_eq_true_eq] at h2
  exact h2.2

/-- A run that ends with the character `c` passes through the state before it. -/
theorem run_snoc (d : DFA) (w : List Char) (c : Char) (st : String)
    (h : d.run d.start (w ++ [c]) = some st) :
    ∃ prev, d.run d.start w = some prev ∧ d.transition prev c = some st := by
  rw [run_append] at h
  cases hp : d.run d.start w with
  | none => rw [hp] at h; simp at h
  | some prev =>
      rw [hp] at h
      refine ⟨prev, rfl, ?_⟩
      simp only [run] at h
      cases ht : d.transition prev c with
      | none => rw [ht] at h; simp at h
      | some nxt =>
          rw [ht] at h
          simpa [run] using h

theorem run_start_nil (w : List Char)
    (h : WLP4Scanner.new.run WLP4Scanner.new.start w = some "_START") : w = [] := by
  by_contra hw
  exact run_nonempty_ne_start _ new_wellShaped w _ hw h (by rw [new_table]; rfl)

/-- The lexemes accepted in state `ZERO`: only `0`. -/
theorem lang_ZERO (w : List Char)
    (h : WLP4Scanner.new.run WLP4Scanner.new.start w = some "ZERO") : w = ['0'] := by
  rcases List.eq_nil_or_concat w with rfl | ⟨w1, c, rfl⟩
  · rw [run] at h
    exact absurd h (by rw [new_table]; decide)
  · rw [List.concat_eq_append] at h ⊢
    obtain ⟨prev, hp, ht⟩ := run_snoc _ _ _ _ h
    obtain ⟨rfl, rfl⟩ := enters_ZERO _ _ ht
    rw [run_start_nil w1 hp]
    rfl

/-- The lexemes accepted in state `NUM`: a digit `1`-`9` followed by digits. -/
theorem lang_NUM : ∀ (w : List Char),
    WLP4Scanner.new.run WLP4Scanner.new.start w = some "NUM" →
    ∃ c cs, w = c :: cs ∧ '1' ≤ c ∧ c ≤ '9' ∧ ∀ x ∈ cs, x.isDigit = true := by
  intro w
  induction w using List.reverseRecOn with
  | nil =>
      intro h
      rw [run] at h
      exact absurd h (by rw [new_table]; decide)
  | append_singleton w1 c ih =>
      intro h
      obtain ⟨prev, hp, ht⟩ := run_snoc _ _ _ _ h
      rcases enters_NUM _ _ ht with ⟨rfl, h1, h2⟩ | ⟨rfl, hdig⟩
      · rw [run_start_nil w1 hp]
        exact ⟨c, [], rfl, h1, h2, by simp⟩
      · obtain ⟨c0, cs, rfl, h1, h2, h3⟩ := ih hp
        refine ⟨c0, cs ++ [c], rfl, h1, h2, ?_⟩
        intro x hx
        rcases List.mem_append.mp hx with hx | hx
        · exact h3 x hx
        · simp only [List.mem_singleton] at hx
          rw [hx]; exact hdig

/-- A kind `NUM` is given only to lexemes accepted in the states `ZERO` and `NUM`. -/
theorem getKind_NUM (st lex : String) (h : getKind st lex = "NUM") : st = "ZERO" ∨ st = "NUM" := by
  unfold getKind at h
  by_cases h0 : st = "ZERO"
  · exact Or.inl h0
  · rw [if_neg h0] at h
    by_cases h1 : lex = "return"
    · rw [if_pos h1] at h; exact absurd h (by decide)
    rw [if_neg h1] at h
    by_cases h2 : lex = "if"
    · rw [if_pos h2] at h; exact absurd h (by decide)
    rw [if_neg h2] at h
    by_cases h3 : lex = "int"
    · rw [if_pos h3] at h; exact absurd h (by decide)
    rw [if_neg h3] at h
    by_cases h4 : lex = "else"
    · rw [if_pos h4] at h; exact absurd h (by decide)
    rw [if_neg h4] at h
    by_cases h5 : lex = "wain"
    · rw [if_pos h5] at h; exact absurd h (by decide)
    rw [if_neg h5] at h
    by_cases h6 : lex = "while"
    · rw [if_pos h6] at h; exact absurd h (by decide)
    rw [if_neg h6] at h
    by_cases h7 : lex = "println"
    · rw [if_pos h7] at h; exact absurd h (by decide)
    rw [if_neg h7] at h
    by_cases h8 : lex = "new"
    · rw [if_pos h8] at h; exact absurd h (by decide)
    rw [if_neg h8] at h
    by_cases h9 : lex = "delete"
    · rw [if_pos h9] at h; exact absurd h (by decide)
    rw [if_neg h9] at h
    by_cases h10 : lex = "NULL"
    · rw [if_pos h10] at h; exact absurd h (by decide)
    rw [if_neg h10] at h
    exact Or.inr h

end WLP4Scanner

end WLP4

namespace WLP4

namespace WLP4Scanner

open DFA

theorem foldl_digits (l : List Char) : ∀ acc : Nat,
    l.foldl (fun acc c => 10 * acc + (c.toNat - '0'.toNat)) acc =
      acc * 10 ^ l.length + numeralValue l := by
  induction l with
  | nil => intro acc; simp [numeralValue]
  | cons c cs ih =>
      intro acc
      unfold numeralValue
      rw [List.foldl_cons, List.foldl_cons, ih, ih (10 * 0 + (c.toNat - '0'.toNat))]
      rw [List.length_cons, pow_succ]
      ring

theorem numeralValue_cons (c : Char) (cs : List Char) :
    numeralValue (c :: cs) = (c.toNat - '0'.toNat) * 10 ^ cs.length + numeralValue cs := by
  unfold numeralValue
  rw [List.foldl_cons, foldl_digits]
  simp [numeralValue]

theorem toNat_lt_iff {a b : Char} : a < b ↔ a.toNat < b.toNat := Iff.rfl

theorem toNat_le_iff {a b : Char} : a ≤ b ↔ a.toNat ≤ b.toNat := Iff.rfl

theorem toNat_lt_of_lt {a b : Char} (h : a < b) : a.toNat < b.toNat := toNat_lt_iff.mp h

theorem eq_of_not_lt {a b : Char} (h1 : ¬ a < b) (h2 : ¬ b < a) : a = b := by
  rw [toNat_lt_iff] at h1 h2
  apply Char.ext
  apply UInt32.ext
  show a.toNat = b.toNat
  omega

theorem digit_range {c : Char} (h : c.isDigit = true) : 48 ≤ c.toNat ∧ c.toNat ≤ 57 := by
  unfold Char.isDigit at h
  simp only [ge_iff_le, Bool.and_eq_true, decide_eq_true_eq] at h
  exact ⟨h.1, h.2⟩

theorem numeralValue_lt (l : List Char) (h : ∀ x ∈ l, x.isDigit = true) :
    numeralValue l < 10 ^ l.length := by
  induction l with
  | nil => simp [numeralValue]
  | cons c cs ih =>
      rw [numeralValue_cons, List.length_cons, pow_succ]
      have h1 := ih (fun x hx => h x (List.mem_cons_of_mem _ hx))
      have h2 := digit_range (h c (List.mem_cons_self _ _))
      have h3 : c.toNat - '0'.toNat ≤ 9 := by
        have : '0'.toNat = 48 := rfl
        omega
      nlinarith

/-- On digit strings of one length the dictionary order is the order of the values. -/
theorem numeralValue_le_of_not_lt : ∀ (a b : List Char), a.length = b.length →
    (∀ x ∈ a, x.isDigit = true) → (∀ x ∈ b, x.isDigit = true) → ¬ b < a →
    numeralValue a ≤ numeralValue b := by
  intro a
  induction a with
  | nil =>
      intro b hlen _ _ _
      cases b with
      | nil => exact le_refl _
      | cons y bs => simp at hlen
  | cons x as ih =>
      intro b hlen ha hb hlt
      cases b with
      | nil => simp at hlen
      | cons y bs =>
          simp only [List.length_cons, Nat.add_right_cancel_iff] at hlen
          rw [numeralValue_cons, numeralValue_cons, hlen]
          have hx := digit_range (ha x (List.mem_cons_self _ _))
          have hy := digit_range (hb y (List.mem_cons_self _ _))
          have h0 : '0'.toNat = 48 := rfl
          have has := numeralValue_lt as (fun z hz => ha z (List.mem_cons_of_mem _ hz))
          rw [hlen] at has
          by_cases hyx : y < x
          · exact absurd (List.Lex.rel hyx) hlt
          · by_cases hxy : x < y
            · have := toNat_lt_of_lt hxy
              have h5 : x.toNat - '0'.toNat + 1 ≤ y.toNat - '0'.toNat := by omega
              have h6 : (x.toNat - '0'.toNat + 1) * 10 ^ bs.length ≤
                  (y.toNat - '0'.toNat) * 10 ^ bs.length := Nat.mul_le_mul_right _ h5
              nlinarith
            · have hxe := eq_of_not_lt hxy hyx
              subst hxe
              have := ih bs hlen (fun z hz => ha z (List.mem_cons_of_mem _ hz))
                (fun z hz => hb z (List.mem_cons_of_mem _ hz))
                (fun hbs => hlt (List.Lex.cons hbs))
              omega

theorem isNumeral_of_lang (c : Char) (cs : List Char) (h1 : '1' ≤ c) (h2 : c ≤ '9')
    (h3 : ∀ x ∈ cs, x.isDigit = true) : isNumeral (c :: cs) = true := by
  unfold isNumeral
  simp only [Bool.or_eq_true, Bool.and_eq_true, decide_eq_true_eq, List.all_eq_true]
  exact Or.inr ⟨⟨h1, h2⟩, h3⟩

/-- A lexeme of kind `NUM` that passed the bound check is a numeral of value at
most `2147483647`. -/
theorem num_checked (st : String) (lexL : List Char)
    (hrun : WLP4Scanner.new.run WLP4Scanner.new.start lexL = some st)
    (hk : getKind st (String.mk lexL) = "NUM") (hok : ¬ numOutOfBounds (String.mk lexL)) :
    isNumeral lexL = true ∧ numeralValue lexL ≤ 2147483647 := by
  rcases getKind_NUM _ _ hk with rfl | rfl
  · rw [lang_ZERO lexL hrun]
    exact ⟨by decide, by decide⟩
  · obtain ⟨c, cs, rfl, h1, h2, h3⟩ := lang_NUM lexL hrun
    refine ⟨isNumeral_of_lang c cs h1 h2 h3, ?_⟩
    have hdig : ∀ x ∈ c :: cs, x.isDigit = true := by
      intro x hx
      rcases List.mem_cons.mp hx with rfl | hx
      · unfold Char.isDigit
        simp only [ge_iff_le, Bool.and_eq_true, decide_eq_true_eq]
        have h1' := toNat_le_iff.mp h1
        have h2' := toNat_le_iff.mp h2
        have e1 : '1'.toNat = 49 := rfl
        have e9 : '9'.toNat = 57 := rfl
        constructor
        · show (48 : UInt32).toNat ≤ x.toNat
          have : (48 : UInt32).toNat = 48 := rfl
          omega
        · show x.toNat ≤ (57 : UInt32).toNat
          have : (57 : UInt32).toNat = 57 := rfl
          omega
      · exact h3 x hx
    unfold numOutOfBounds at hok
    have hlen : (String.mk (c :: cs)).length = (c :: cs).length := rfl
    rw [hlen] at hok
    by_cases h9 : (c :: cs).length ≤ 9
    · have := numeralValue_lt (c :: cs) hdig
      have h10 : 10 ^ (c :: cs).length ≤ 10 ^ 9 := Nat.pow_le_pow_right (by decide) h9
      omega
    · have h10 : (c :: cs).length = 10 := by
        by_contra hne
        exact hok ⟨by omega, Or.inl hne⟩
      have hnl : ¬ "2147483647".data < c :: cs := by
        intro hl
        exact hok ⟨by omega, Or.inr (String.lt_iff_toList_lt.mpr hl)⟩
      have := numeralValue_le_of_not_lt (c :: cs) "2147483647".data (by rw [h10]; rfl) hdig
        (by decide) hnl
      have hv : numeralValue "2147483647".data = 2147483647 := by decide
      omega

/-- C11. Every token of kind `NUM` that `scanAll` writes, on any input and also
before an error ends the scan, has a lexeme that is an unsigned decimal numeral
(`0`, or a digit string that starts with `1`-`9`) of value at most
`2^31 - 1 = 2147483647`. -/
theorem num_tokens_in_range (lines : List String) :
    ∀ t ∈ (scanAll lines).1, t.1 = "NUM" →
      isNumeral t.2.data = true ∧ numeralValue t.2.data ≤ 2 ^ 31 - 1 := by
  apply scanAll_lines_emits WLP4Scanner.new
    (fun t => t.1 = "NUM" → isNumeral t.2.data = true ∧ numeralValue t.2.data ≤ 2 ^ 31 - 1)
  · intro st lexL hrun _ hbad _ _ hk
    exact num_checked st lexL hrun hk (fun hb => hbad ⟨hk, hb⟩)
  · intro t ht
    simp at ht

end WLP4Scanner

end WLP4

namespace WLP4

namespace WLP4Scanner

open DFA

/-- While the automaton has transitions, the loop reads the characters of `w`. -/
theorem scanLoop_read (d : DFA) (rem : List Char) (out : List (String × String)) (k : Nat) :
    ∀ (w before lex0 : List Char) (cur0 st : String), d.run cur0 w = some st →
      scanLoop d (before ++ w ++ rem) (w.length + k) before.length cur0 (String.mk lex0) out =
        scanLoop d (before ++ w ++ rem) k (before.length + w.length) st
          (String.mk (lex0 ++ w)) out := by
  intro w
  induction w with
  | nil =>
      intro before lex0 cur0 st h
      simp only [run, Option.some.injEq] at h
      subst h
      simp
  | cons c w ih =>
      intro before lex0 cur0 st h
      rw [run] at h
      cases ht : d.transition cur0 c with
      | none => rw [ht] at h; simp at h
      | some nxt =>
          rw [ht] at h
          simp only [] at h
          have hidx : (before ++ c :: w ++ rem)[before.length]? = some c := by
            rw [List.append_assoc, getElem?_at]
            rfl
          have hlen : (c :: w).length + k = (w.length + k) + 1 := by
            simp only [List.length_cons]; omega
          rw [hlen, scanLoop]
          simp only [hidx, ht]
          have hpush : (String.mk lex0).push c = String.mk (lex0 ++ [c]) := rfl
          rw [hpush]
          have e1 : before ++ c :: w ++ rem = (before ++ [c]) ++ w ++ rem := by simp
          have e2 : before.length + 1 = (before ++ [c]).length := by simp
          rw [e1, e2, ih (before ++ [c]) (lex0 ++ [c]) nxt st h]
          simp [Nat.add_assoc, Nat.add_comm 1]

/-- After a maximal munch the automaton has no transition on the next character. -/
theorem munch_stuck (d : DFA) (hd : d.wellShaped = true) (st : String) (lex rem : List Char)
    (hm : IsMaxMunch d st lex rem) (c : Char) (rem1 : List Char) (hr : rem = c :: rem1) :
    d.transition st c = none := by
  obtain ⟨hne, hrun, _, hmax⟩ := hm
  cases ht : d.transition st c with
  | none => rfl
  | some nxt =>
      exfalso
      have hst : st ≠ d.start := run_nonempty_ne_start d hd lex st hne hrun
      have hacc : d.isAccepting nxt = true := by
        rcases (wellShaped_step d hd st c nxt ht).2 with h | h
        · exact h
        · exact absurd h hst
      have hfalse := hmax [c] rem1 (by simp) (by rw [hr]; rfl)
      unfold accepts at hfalse
      rw [run_append, hrun] at hfalse
      simp only [run, ht] at hfalse
      rw [hacc] at hfalse
      exact absurd hfalse (by simp)

/-- What the loop does with a maximal munch `lex` that starts at a token boundary:
the number check, the comment exit, the output, and the next token boundary. -/
theorem munch_step (d : DFA) (hd : d.wellShaped = true) (st : String)
    (before lex rem : List Char) (out : List (String × String)) (k : Nat)
    (hm : IsMaxMunch d st lex rem) :
    scanLoop d (before ++ lex ++ rem) (lex.length + (k + 1)) before.length d.start "" out =
      if getKind st (String.mk lex) = "NUM" ∧ numOutOfBounds (String.mk lex) then
        (out, .outOfBounds ("ERROR: Number out of bounds --> " ++ String.mk lex))
      else if getKind st (String.mk lex) = "COMMENT" then (out, .done)
      else if rem = [] then
        (out ++ (match emit (st, lex) with | some e => [e] | none => []), .done)
      else scanLoop d (before ++ lex ++ rem) k (before.length + lex.length) d.start ""
        (out ++ (match emit (st, lex) with | some e => [e] | none => [])) := by
  have hread := scanLoop_read d rem out (k + 1) lex before [] d.start st hm.2.1
  have hnil : ("" : String) = String.mk [] := rfl
  rw [hnil, hread, List.nil_append, scanLoop]
  have hidx : (before ++ lex ++ rem)[before.length + lex.length]? = rem.head? := by
    rw [← List.length_append, getElem?_at]
  have htr : ∀ c rem1, rem = c :: rem1 → d.transition st c = none :=
    fun c rem1 hr => munch_stuck d hd st lex rem hm c rem1 hr
  rw [hidx]
  have hcases : rem.head? = none ∨ ∃ c, rem.head? = some c ∧ d.transition st c = none := by
    cases rem with
    | nil => exact Or.inl rfl
    | cons c rem1 => exact Or.inr ⟨c, rfl, htr c rem1 rfl⟩
  have hend : before.length + lex.length = (before ++ lex ++ rem).length ↔ rem = [] := by
    simp only [List.length_append]
    constructor
    · intro h0
      exact List.length_eq_zero.mp (by omega)
    · intro h0
      simp [h0]
  rcases hcases with h0 | ⟨c, h0, hc⟩
  all_goals rw [h0]
  all_goals first
    | simp only [hc, hm.2.2.1, Bool.not_true, Bool.false_eq_true, if_false]
    | simp only [hm.2.2.1, Bool.not_true, Bool.false_eq_true, if_false]
  all_goals
    by_cases hbad : getKind st (String.mk lex) = "NUM" ∧ numOutOfBounds (String.mk lex)
    · rw [if_pos hbad]
      have hbad' := hbad
      unfold numOutOfBounds at hbad'
      rw [if_pos ⟨hbad'.1, hbad'.2.1, hbad'.2.2⟩]
    · rw [if_neg hbad]
      have hbad' : ¬ (getKind st (String.mk lex) = "NUM" ∧ (String.mk lex).length > 9 ∧
          ((String.mk lex).length ≠ 10 ∨ String.mk lex > "2147483647")) := by
        intro h0
        exact hbad ⟨h0.1, h0.2.1, h0.2.2⟩
      rw [if_neg hbad']
      by_cases hcom : getKind st (String.mk lex) = "COMMENT"
      · rw [if_pos hcom, if_pos hcom]
      · rw [if_neg hcom, if_neg hcom, out_emit st lex out hcom]
        by_cases hrem : rem = []
        · rw [if_pos hrem, if_pos (hend.mpr hrem)]
          try rfl
        · rw [if_neg hrem, if_neg (fun h0 => hrem (hend.mp h0))]
          try rfl

/-- The loop only appends to the output. -/
theorem scanLoop_extends (d : DFA) (s : List Char) : ∀ (steps i : Nat) (cur lex : String)
    (out : List (String × String)), ∃ more, (scanLoop d s steps i cur lex out).1 = out ++ more := by
  intro steps
  induction steps with
  | zero => intro i cur lex out; exact ⟨[], by simp [scanLoop]⟩
  | succ steps ih =>
      intro i cur lex out
      have hout1 : ∃ m1, (if getKind cur lex ≠ "WHITESPACE" then out ++ [(getKind cur lex, lex)]
          else out) = out ++ m1 := by
        by_cases hw : getKind cur lex = "WHITESPACE"
        · exact ⟨[], by simp [hw]⟩
        · exact ⟨[(getKind cur lex, lex)], by simp [hw]⟩
      obtain ⟨m1, hm1⟩ := hout1
      rw [scanLoop]
      dsimp only
      rw [hm1]
      repeat' split
      all_goals first
        | exact ⟨m1, rfl⟩
        | exact ⟨[], (List.append_nil _).symm⟩
        | exact ih _ _ _ _
        | (obtain ⟨more, hmore⟩ := ih i d.start "" (out ++ m1)
           exact ⟨m1 ++ more, by rw [hmore, List.append_assoc]⟩)

end WLP4Scanner

end WLP4

namespace WLP4

namespace WLP4Scanner

open DFA

/-- On digit strings of one length a greater string has a greater value. -/
theorem numeralValue_lt_of_lt : ∀ (a b : List Char), a.length = b.length →
    (∀ x ∈ a, x.isDigit = true) → (∀ x ∈ b, x.isDigit = true) → b < a →
    numeralValue b < numeralValue a := by
  intro a
  induction a with
  | nil =>
      intro b hlen _ _ hlt
      cases b with
      | nil => cases hlt
      | cons y bs => simp at hlen
  | cons x as ih =>
      intro b hlen ha hb hlt
      cases b with
      | nil => simp at hlen
      | cons y bs =>
          simp only [List.length_cons, Nat.add_right_cancel_iff] at hlen
          rw [numeralValue_cons, numeralValue_cons, hlen]
          have hx := digit_range (ha x (List.mem_cons_self _ _))
          have hy := digit_range (hb y (List.mem_cons_self _ _))
          have h0 : '0'.toNat = 48 := rfl
          have hbs := numeralValue_lt bs (fun z hz => hb z (List.mem_cons_of_mem _ hz))
          cases hlt with
          | cons h =>
              have := ih bs hlen (fun z hz => ha z (List.mem_cons_of_mem _ hz))
                (fun z hz => hb z (List.mem_cons_of_mem _ hz)) h
              omega
          | rel h =>
              have := toNat_lt_of_lt h
              have h5 : y.toNat - '0'.toNat + 1 ≤ x.toNat - '0'.toNat := by omega
              have h6 : (y.toNat - '0'.toNat + 1) * 10 ^ bs.length ≤
                  (x.toNat - '0'.toNat) * 10 ^ bs.length := Nat.mul_le_mul_right _ h5
              nlinarith

theorem numeralValue_ge (c : Char) (cs : List Char) (h1 : '1' ≤ c) :
    10 ^ cs.length ≤ numeralValue (c :: cs) := by
  rw [numeralValue_cons]
  have h1' := toNat_le_iff.mp h1
  have e1 : '1'.toNat = 49 := rfl
  have e0 : '0'.toNat = 48 := rfl
  have : 1 ≤ c.toNat - '0'.toNat := by omega
  nlinarith [Nat.mul_le_mul_right (10 ^ cs.length) this]

/-- The bound check on a lexeme of kind `NUM` fails exactly when the value of
the lexeme is above `2147483647`. -/
theorem numOutOfBounds_iff (st : String) (lexL : List Char)
    (hrun : WLP4Scanner.new.run WLP4Scanner.new.start lexL = some st)
    (hk : getKind st (String.mk lexL) = "NUM") :
    numOutOfBounds (String.mk lexL) ↔ 2147483647 < numeralValue lexL := by
  constructor
  · intro hbad
    rcases getKind_NUM _ _ hk with rfl | rfl
    · rw [lang_ZERO lexL hrun] at hbad
      exact absurd hbad (by unfold numOutOfBounds; decide)
    · obtain ⟨c, cs, rfl, h1, h2, h3⟩ := lang_NUM lexL hrun
      have hdig : ∀ x ∈ c :: cs, x.isDigit = true := by
        intro x hx
        have := isNumeral_of_lang c cs h1 h2 h3
        rcases List.mem_cons.mp hx with rfl | hx
        · unfold Char.isDigit
          simp only [ge_iff_le, Bool.and_eq_true, decide_eq_true_eq]
          have h1' := toNat_le_iff.mp h1
          have h2' := toNat_le_iff.mp h2
          have e1 : '1'.toNat = 49 := rfl
          have e9 : '9'.toNat = 57 := rfl
          constructor
          · show (48 : UInt32).toNat ≤ x.toNat
            have : (48 : UInt32).toNat = 48 := rfl
            omega
          · show x.toNat ≤ (57 : UInt32).toNat
            have : (57 : UInt32).toNat = 57 := rfl
            omega
        · exact h3 x hx
      unfold numOutOfBounds at hbad
      have hlen : (String.mk (c :: cs)).length = (c :: cs).length := rfl
      rw [hlen] at hbad
      obtain ⟨h9, hor⟩ := hbad
      by_cases h10 : (c :: cs).length = 10
      · rcases hor with hne | hgt
        · exact absurd h10 hne
        · have hl : "2147483647".data < c :: cs := String.lt_iff_toList_lt.mp hgt
          have := numeralValue_lt_of_lt (c :: cs) "2147483647".data (by rw [h10]; rfl) hdig
            (by decide) hl
          have hv : numeralValue "2147483647".data = 2147483647 := by decide
          omega
      · have hge := numeralValue_ge c cs h1
        simp only [List.length_cons] at h9 h10
        have : 10 ^ 10 ≤ 10 ^ cs.length := Nat.pow_le_pow_right (by decide) (by omega)
        have e : (10 : Nat) ^ 10 = 10000000000 := by norm_num
        omega
  · intro hv
    by_contra hok
    have := (num_checked st lexL hrun hk hok).2
    omega

/-- C12, amended. A lexeme of kind `NUM` munched at a token boundary is accepted
(written to the output as a `NUM` token) exactly when its value is at most
`2147483647`, and is rejected with the number-out-of-bounds error otherwise.  Every
lexeme of at most nine digits is accepted; one of more than nine digits is
accepted exactly when it has ten digits and is not greater than `2147483647` in
the order of strings. -/
theorem num_bound_check (before lex rem : List Char) (st : String)
    (out : List (String × String)) (k : Nat)
    (hm : IsMaxMunch WLP4Scanner.new st lex rem) (hk : getKind st (String.mk lex) = "NUM") :
    (lex.length ≤ 9 → numeralValue lex ≤ 2147483647) ∧
    (9 < lex.length →
      (numeralValue lex ≤ 2147483647 ↔ lex.length = 10 ∧ ¬ String.mk lex > "2147483647")) ∧
    (numeralValue lex ≤ 2147483647 →
      ∃ more, (scanLoop WLP4Scanner.new (before ++ lex ++ rem) (lex.length + (k + 1))
        before.length WLP4Scanner.new.start "" out).1 = out ++ ("NUM", String.mk lex) :: more) ∧
    (2147483647 < numeralValue lex →
      scanLoop WLP4Scanner.new (before ++ lex ++ rem) (lex.length + (k + 1))
        before.length WLP4Scanner.new.start "" out =
          (out, .outOfBounds ("ERROR: Number out of bounds --> " ++ String.mk lex))) := by
  have hiff := numOutOfBounds_iff st lex hm.2.1 hk
  have hstep := munch_step WLP4Scanner.new new_wellShaped st before lex rem out k hm
  have hlen : (String.mk lex).length = lex.length := rfl
  refine ⟨?_, ?_, ?_, ?_⟩
  · intro h9
    by_contra hv
    have hbad := hiff.mpr (by omega)
    unfold numOutOfBounds at hbad
    rw [hlen] at hbad
    omega
  · intro h9
    constructor
    · intro hv
      have hok : ¬ numOutOfBounds (String.mk lex) := fun hb => by
        have := hiff.mp hb
        omega
      unfold numOutOfBounds at hok
      rw [hlen] at hok
      constructor
      · by_contra hne
        exact hok ⟨h9, Or.inl hne⟩
      · intro hgt
        exact hok ⟨h9, Or.inr hgt⟩
    · intro ⟨h10, hngt⟩
      by_contra hv
      have hbad := hiff.mpr (by omega)
      unfold numOutOfBounds at hbad
      rw [hlen] at hbad
      rcases hbad.2 with hne | hgt
      · exact hne h10
      · exact hngt hgt
  · intro hv
    have hok : ¬ (getKind st (String.mk lex) = "NUM" ∧ numOutOfBounds (String.mk lex)) :=
      fun hb => by
        have := hiff.mp hb.2
        omega
    have hcom : getKind st (String.mk lex) ≠ "COMMENT" := by rw [hk]; decide
    have hemit : emit (st, lex) = some ("NUM", String.mk lex) := by
      unfold emit
      simp only [hk]
      rfl
    rw [hstep, if_neg hok, if_neg hcom, hemit]
    by_cases hrem : rem = []
    · rw [if_pos hrem]
      exact ⟨[], rfl⟩
    · rw [if_neg hrem]
      obtain ⟨more, hmore⟩ := scanLoop_extends WLP4Scanner.new (before ++ lex ++ rem) k
        (before.length + lex.length) WLP4Scanner.new.start ""
        (out ++ [("NUM", String.mk lex)])
      exact ⟨more, by rw [hmore]; simp⟩
  · intro hv
    rw [hstep, if_pos ⟨hk, hiff.mpr hv⟩]

end WLP4Scanner

end WLP4

namespace WLP4

namespace WLP4Scanner

open DFA

theorem keyword_state :
    ∀ p ∈ keywords, WLP4Scanner.new.run WLP4Scanner.new.start p.1.data = some "ID" := by
  rw [new_table]
  decide

/-- A lexeme accepted in a state other than `ID` is not a keyword. -/
theorem not_keyword_of_state (w : List Char) (st : String)
    (hrun : WLP4Scanner.new.run WLP4Scanner.new.start w = some st) (hst : st ≠ "ID") :
    ∀ p ∈ keywords, String.mk w ≠ p.1 := by
  intro p hp h0
  have h1 := keyword_state p hp
  rw [← h0] at h1
  rw [hrun] at h1
  simp only [Option.some.injEq] at h1
  exact hst h1

/-- A lexeme that is not a keyword and was not accepted in `ZERO` gets the name of
its state as kind. -/
theorem getKind_other (st lex : String) (hz : st ≠ "ZERO") (hkw : ∀ p ∈ keywords, lex ≠ p.1) :
    getKind st lex = st := by
  unfold getKind
  rw [if_neg hz, if_neg (hkw ("return", "RETURN") (by decide)),
    if_neg (hkw ("if", "IF") (by decide)), if_neg (hkw ("int", "INT") (by decide)),
    if_neg (hkw ("else", "ELSE") (by decide)), if_neg (hkw ("wain", "WAIN") (by decide)),
    if_neg (hkw ("while", "WHILE") (by decide)), if_neg (hkw ("println", "PRINTLN") (by decide)),
    if_neg (hkw ("new", "NEW") (by decide)), if_neg (hkw ("delete", "DELETE") (by decide)),
    if_neg (hkw ("NULL", "NULL") (by decide))]

/-- A line that is one numeral of value at most `2147483647` scans to one `NUM` token. -/
theorem scanAll_numeral_line (lex : List Char)
    (hrun : WLP4Scanner.new.run WLP4Scanner.new.start lex = some "NUM")
    (hv : numeralValue lex ≤ 2147483647) :
    scanAll [String.mk lex] = ([("NUM", String.mk lex)], .done) := by
  have hne : lex ≠ [] := by
    intro h0
    rw [h0, run] at hrun
    exact absurd hrun (by rw [new_table]; decide)
  have hm : IsMaxMunch WLP4Scanner.new "NUM" lex [] := by
    refine ⟨hne, hrun, by rw [new_table]; decide, ?_⟩
    intro w t hw h0
    have := List.append_eq_nil.mp h0.symm
    exact absurd this.1 hw
  have hk : getKind "NUM" (String.mk lex) = "NUM" :=
    getKind_other "NUM" (String.mk lex) (by decide)
      (not_keyword_of_state lex "NUM" hrun (by decide))
  have hok : ¬ (getKind "NUM" (String.mk lex) = "NUM" ∧ numOutOfBounds (String.mk lex)) := by
    intro hb
    have := (numOutOfBounds_iff "NUM" lex hrun hk).mp hb.2
    omega
  have hstep := munch_step WLP4Scanner.new new_wellShaped "NUM" [] lex [] [] (lex.length + 1) hm
  have hemit : emit ("NUM", lex) = some ("NUM", String.mk lex) := by
    unfold emit
    simp only [hk]
    rfl
  rw [if_neg hok, if_neg (by rw [hk]; decide), if_pos rfl, hemit] at hstep
  have hlen : (String.mk lex).length = lex.length := rfl
  have hlen0 : ¬ (String.mk lex).length = 0 := by
    rw [hlen]
    exact fun h0 => hne (List.length_eq_zero.mp h0)
  have hline : scanLine WLP4Scanner.new (String.mk lex) [] = ([("NUM", String.mk lex)], .done) := by
    unfold scanLine
    rw [hlen]
    have e : 2 * lex.length + 2 = lex.length + (lex.length + 1 + 1) := by omega
    rw [e]
    simpa using hstep
  unfold scanAll
  rw [scanAll_lines, if_neg hlen0, hline]
  rfl

/-- Witness for C11: the greatest numeral the scanner accepts. -/
theorem num_tokens_in_range_witness :
    ("NUM", "2147483647") ∈ (scanAll ["2147483647"]).1 ∧
    isNumeral "2147483647".data = true ∧ numeralValue "2147483647".data ≤ 2 ^ 31 - 1 :=
  have hscan : scanAll ["2147483647"] = ([("NUM", "2147483647")], .done) :=
    scanAll_numeral_line "2147483647".data (by rw [new_table]; decide) (by decide)
  have hmem : ("NUM", "2147483647") ∈ (scanAll ["2147483647"]).1 := by
    rw [hscan]
    exact List.mem_singleton.mpr rfl
  ⟨hmem, num_tokens_in_range ["2147483647"] ("NUM", "2147483647") hmem rfl⟩

/-- Counterexample to C12 as stated: `1000000000` has ten digits, is not
`2147483647`, and is accepted as a `NUM` token. -/
theorem num_ten_digits_accepted :
    "1000000000".length = 10 ∧ "1000000000" ≠ "2147483647" ∧
    scanAll ["1000000000"] = ([("NUM", "1000000000")], .done) :=
  ⟨by decide, by decide, scanAll_numeral_line "1000000000".data (by rw [new_table]; decide) (by decide)⟩

theorem munch_2147483648 : IsMaxMunch WLP4Scanner.new "NUM" "2147483648".data [';'] := by
  rw [new_table]
  refine ⟨by decide, by decide, by decide, ?_⟩
  intro w t hw h0
  cases w with
  | nil => exact absurd rfl hw
  | cons c w1 =>
      simp only [List.cons_append, List.cons.injEq] at h0
      obtain ⟨rfl, h1⟩ := h0
      have := List.append_eq_nil.mp h1.symm
      rw [this.1]
      decide

/-- Witness for C12: in the line `2147483648;` the numeral has ten digits and the
value `2^31`; its scan ends with the number-out-of-bounds error and no output. -/
theorem num_bound_check_witness :
    IsMaxMunch WLP4Scanner.new "NUM" "2147483648".data [';'] ∧
    numeralValue "2147483648".data = 2147483648 ∧
    scanLoop WLP4Scanner.new "2147483648;".data 24 0 "_START" "" [] =
      ([], .outOfBounds "ERROR: Number out of bounds --> 2147483648") :=
  ⟨munch_2147483648, by decide, by
    have h := (num_bound_check [] "2147483648".data [';'] "NUM" [] 13 munch_2147483648
      (by decide)).2.2.2 (by decide)
    rw [new_start] at h
    exact h⟩

end WLP4Scanner

end WLP4

namespace WLP4

namespace WLP4Scanner

open DFA

theorem getKind_keyword : ∀ p ∈ keywords, getKind "ID" p.1 = p.2 := by decide

theorem keyword_kind_inj : ∀ p ∈ keywords, ∀ q ∈ keywords, p.2 = q.2 → p.1 = q.1 := by decide

theorem keyword_kind_ne_ID : ∀ p ∈ keywords, p.2 ≠ "ID" := by decide

/-- C13. A lexeme accepted in state `ID` gets the kind of the keyword table
exactly when the whole lexeme is that keyword, and the kind `ID` when it is no
keyword; a lexeme accepted in state `ZERO` gets the kind `NUM`; a lexeme
accepted in any other state gets the name of that state as kind. -/
theorem keyword_kinds (w : List Char) (st : String)
    (hrun : WLP4Scanner.new.run WLP4Scanner.new.start w = some st) :
    (st = "ID" →
      (∀ p ∈ keywords, (getKind st (String.mk w) = p.2 ↔ String.mk w = p.1)) ∧
      ((∀ p ∈ keywords, String.mk w ≠ p.1) → getKind st (String.mk w) = "ID")) ∧
    (st = "ZERO" → getKind st (String.mk w) = "NUM") ∧
    (st ≠ "ID" → st ≠ "ZERO" → getKind st (String.mk w) = st) := by
  refine ⟨?_, ?_, ?_⟩
  · intro hst
    subst hst
    have hno : (∀ p ∈ keywords, String.mk w ≠ p.1) → getKind "ID" (String.mk w) = "ID" :=
      fun h => getKind_other "ID" (String.mk w) (by decide) h
    refine ⟨?_, hno⟩
    intro p hp
    constructor
    · intro hk
      by_cases hex : ∃ q ∈ keywords, String.mk w = q.1
      · obtain ⟨q, hq, hwq⟩ := hex
        rw [hwq, getKind_keyword q hq] at hk
        rw [hwq]
        exact (keyword_kind_inj p hp q hq hk.symm).symm
      · have hall : ∀ q ∈ keywords, String.mk w ≠ q.1 := fun q hq h0 => hex ⟨q, hq, h0⟩
        rw [hno hall] at hk
        exact absurd hk.symm (keyword_kind_ne_ID p hp)
    · intro hw
      rw [hw]
      exact getKind_keyword p hp
  · intro hst
    subst hst
    rfl
  · intro hid hz
    exact getKind_other st (String.mk w) hz (not_keyword_of_state w st hrun hid)

/-- Witness for C13: `while` is a keyword, `whiles` is an identifier, `0` is a
number and `<=` keeps the name of its state. -/
theorem keyword_kinds_witness :
    WLP4Scanner.new.run WLP4Scanner.new.start "while".data = some "ID" ∧
    (getKind "ID" "while" = "WHILE" ↔ "while" = "while") ∧
    getKind "ID" "whiles" = "ID" ∧ getKind "ZERO" "0" = "NUM" ∧ getKind "LE" "<=" = "LE" :=
  ⟨by rw [new_table]; decide,
    ((keyword_kinds "while".data "ID" (by rw [new_table]; decide)).1 rfl).1 ("while", "WHILE")
      (by decide),
    ((keyword_kinds "whiles".data "ID" (by rw [new_table]; decide)).1 rfl).2 (by decide),
    (keyword_kinds "0".data "ZERO" (by rw [new_table]; decide)).2.1 rfl,
    (keyword_kinds "<=".data "LE" (by rw [new_table]; decide)).2.2 (by decide) (by decide)⟩

end WLP4Scanner

end WLP4

namespace WLP4

namespace WLP4Scanner

open DFA

theorem comment_state :
    WLP4Scanner.new.find "COMMENT" = some { name := "COMMENT", accepting := true, next := [] } := by
  rw [new_table]
  decide

/-- The state `COMMENT` has no transition. -/
theorem comment_stuck (c : Char) : WLP4Scanner.new.transition "COMMENT" c = none := by
  rw [new_table]
  rfl

/-- At a token boundary `//` is munched as a comment, whatever follows it. -/
theorem comment_munch (post : List Char) :
    IsMaxMunch WLP4Scanner.new "COMMENT" ['/', '/'] post := by
  rw [new_table]
  refine ⟨by decide, by decide, by decide, ?_⟩
  intro w t hw _
  cases w with
  | nil => exact absurd rfl hw
  | cons c w1 =>
      unfold accepts
      have hrun : table.run table.start ['/', '/'] = some "COMMENT" := by decide
      have hst : ∀ x, table.transition "COMMENT" x = none := fun _ => rfl
      rw [run_append, hrun]
      simp only [run, hst]

/-- What is left after a sequence of munches is a suffix of the input, and the
loop needs one iteration per character and one per lexeme. -/
theorem munchSeq_cost (d : DFA) (input : List Char) (toks : List (String × List Char))
    (rest : List Char) (h : MunchSeq d input toks rest) :
    (toks.map (fun t => t.2.length + 1)).sum + 2 * rest.length ≤ 2 * input.length ∧
      (input = [] → rest = []) := by
  induction h with
  | nil input => simp
  | comment st lex rem hm hk =>
      have hne := hm.1
      have : 0 < lex.length := List.length_pos.mpr hne
      constructor
      · simp only [List.map_cons, List.map_nil, List.sum_cons, List.sum_nil, List.length_append]
        omega
      · intro h0
        exact absurd (List.append_eq_nil.mp h0).1 hne
  | cons st lex rem toks rest hm hk hseq ih =>
      have hne := hm.1
      have : 0 < lex.length := List.length_pos.mpr hne
      constructor
      · simp only [List.map_cons, List.sum_cons, List.length_append]
        omega
      · intro h0
        exact absurd (List.append_eq_nil.mp h0).1 hne

/-- The loop follows a sequence of munches that holds no comment and no number
out of bounds, and arrives at the token boundary after them. -/
theorem munchSeq_forward (d : DFA) (hd : d.wellShaped = true) (input : List Char)
    (toks : List (String × List Char)) (rest : List Char) (h : MunchSeq d input toks rest) :
    (∀ tok ∈ toks, getKind tok.1 (String.mk tok.2) ≠ "COMMENT") →
    (∀ tok ∈ toks, ¬ (getKind tok.1 (String.mk tok.2) = "NUM" ∧
      numOutOfBounds (String.mk tok.2))) →
    rest ≠ [] →
    ∀ (before : List Char) (out : List (String × String)) (k : Nat),
      ∃ pre, input = pre ++ rest ∧
        scanLoop d (before ++ input) ((toks.map (fun t => t.2.length + 1)).sum + k)
          before.length d.start "" out =
        scanLoop d (before ++ input) k (before.length + pre.length) d.start ""
          (out ++ emitted toks) := by
  induction h with
  | nil input =>
      intro _ _ _ before out k
      exact ⟨[], rfl, by simp [emitted]⟩
  | comment st lex rem hm hk =>
      intro hcom _ _
      exact absurd hk (hcom (st, lex) (List.mem_singleton.mpr rfl))
  | cons st lex rem toks rest hm hk hseq ih =>
      intro hcom hbad hrest before out k
      have hrem : rem ≠ [] := fun h0 => hrest ((munchSeq_cost d rem toks rest hseq).2 h0)
      obtain ⟨pre, hpre, hrun⟩ := ih (fun t ht => hcom t (List.mem_cons_of_mem _ ht))
        (fun t ht => hbad t (List.mem_cons_of_mem _ ht)) hrest (before ++ lex)
        (out ++ (match emit (st, lex) with | some e => [e] | none => [])) k
      refine ⟨lex ++ pre, by rw [hpre, List.append_assoc], ?_⟩
      have hstep := munch_step d hd st before lex rem out
        ((toks.map (fun t => t.2.length + 1)).sum + k) hm
      rw [if_neg (hbad (st, lex) (List.mem_cons_self _ _)),
        if_neg (hcom (st, lex) (List.mem_cons_self _ _)), if_neg hrem] at hstep
      have e1 : (List.map (fun t => t.2.length + 1) ((st, lex) :: toks)).sum + k =
          lex.length + ((toks.map (fun t => t.2.length + 1)).sum + k + 1) := by
        simp only [List.map_cons, List.sum_cons]
        omega
      have e2 : before ++ (lex ++ rem) = before ++ lex ++ rem := by simp
      have e3 : before.length + (lex ++ pre).length = (before ++ lex).length + pre.length := by
        simp only [List.length_append]
        omega
      rw [e1, e2, hstep, e3, emitted_cons, ← List.append_assoc out]
      rw [← List.length_append]
      exact hrun

end WLP4Scanner

end WLP4

namespace WLP4

namespace WLP4Scanner

open DFA

/-- The scan of a line whose munches arrive at `//`: the output of the munches
before the comment, and the end of the line. -/
theorem scanLine_comment (line : List Char) (toks : List (String × List Char))
    (post : List Char) (h : MunchSeq WLP4Scanner.new line toks ('/' :: '/' :: post))
    (hcom : ∀ tok ∈ toks, getKind tok.1 (String.mk tok.2) ≠ "COMMENT")
    (hbad : ∀ tok ∈ toks, ¬ (getKind tok.1 (String.mk tok.2) = "NUM" ∧
      numOutOfBounds (String.mk tok.2)))
    (out : List (String × String)) :
    line ≠ [] ∧ scanLine WLP4Scanner.new (String.mk line) out = (out ++ emitted toks, .done) := by
  have hcost := (munchSeq_cost WLP4Scanner.new line toks _ h).1
  simp only [List.length_cons] at hcost
  have hne : line ≠ [] := by
    intro h0
    rw [h0] at hcost
    simp at hcost
  refine ⟨hne, ?_⟩
  obtain ⟨k, hk⟩ : ∃ k, 2 * line.length + 2 =
      (toks.map (fun t => t.2.length + 1)).sum + (['/', '/'].length + (k + 1)) :=
    ⟨2 * line.length + 2 - (toks.map (fun t => t.2.length + 1)).sum - 3, by
      simp only [List.length_cons, List.length_nil]
      omega⟩
  obtain ⟨pre, hpre, hrun⟩ := munchSeq_forward WLP4Scanner.new new_wellShaped line toks _ h
    hcom hbad (by simp) [] out (['/', '/'].length + (k + 1))
  have hstep := munch_step WLP4Scanner.new new_wellShaped "COMMENT" pre ['/', '/'] post
    (out ++ emitted toks) k (comment_munch post)
  have hkind : getKind "COMMENT" (String.mk ['/', '/']) = "COMMENT" := by decide
  rw [if_neg (by rw [hkind]; exact fun h0 => absurd h0.1 (by decide)), if_pos hkind] at hstep
  unfold scanLine
  have hlen : (String.mk line).length = line.length := rfl
  have hdata : (String.mk line).data = line := rfl
  rw [hlen, hdata, hk]
  simp only [List.nil_append, List.length_nil, Nat.zero_add] at hrun
  rw [hrun, hpre]
  have e : pre ++ '/' :: '/' :: post = pre ++ ['/', '/'] ++ post := by simp
  rw [e]
  exact hstep

/-- C14. `scanAll` never writes a token of kind `WHITESPACE` or `COMMENT`; and
when the munches of a line arrive at `//` (no earlier comment, no number out of
bounds), the scan of the line ends there without error: its output is the output
of the munches before the `//`, whatever text follows the `//`, and `scanAll`
goes on with the next line. -/
theorem comments_discarded :
    (∀ lines : List String, ∀ t ∈ (scanAll lines).1, t.1 ≠ "WHITESPACE" ∧ t.1 ≠ "COMMENT") ∧
    (∀ (line : List Char) (toks : List (String × List Char)) (post : List Char),
      MunchSeq WLP4Scanner.new line toks ('/' :: '/' :: post) →
      (∀ tok ∈ toks, getKind tok.1 (String.mk tok.2) ≠ "COMMENT") →
      (∀ tok ∈ toks, ¬ (getKind tok.1 (String.mk tok.2) = "NUM" ∧
        numOutOfBounds (String.mk tok.2))) →
      ∀ (out : List (String × String)) (rest : List String),
        scanLine WLP4Scanner.new (String.mk line) out = (out ++ emitted toks, .done) ∧
        scanAll_lines WLP4Scanner.new (String.mk line :: rest) out =
          scanAll_lines WLP4Scanner.new rest (out ++ emitted toks)) := by
  constructor
  · intro lines
    apply scanAll_lines_emits WLP4Scanner.new
      (fun t => t.1 ≠ "WHITESPACE" ∧ t.1 ≠ "COMMENT")
    · intro st lexL _ _ _ hcom hw
      exact ⟨hw, hcom⟩
    · intro t ht
      simp at ht
  · intro line toks post h hcom hbad out rest
    obtain ⟨hne, hline⟩ := scanLine_comment line toks post h hcom hbad out
    refine ⟨hline, ?_⟩
    have hlen : ¬ (String.mk line).length = 0 := by
      intro h0
      exact hne (List.length_eq_zero.mp h0)
    rw [scanAll_lines, if_neg hlen, hline]

theorem munch_x_comment :
    MunchSeq WLP4Scanner.new "x//! 99999999999".data [("ID", ['x'])] "//! 99999999999".data := by
  rw [new_table]
  have hm : IsMaxMunch table "ID" ['x'] "//! 99999999999".data := by
    refine ⟨by decide, by decide, by decide, ?_⟩
    intro w t hw h0
    cases w with
    | nil => exact absurd rfl hw
    | cons c w1 =>
        have hc : c = '/' := by
          have := congrArg List.head? h0
          simpa using this.symm
        subst hc
        have h1 : table.transition table.start 'x' = some "ID" := by decide
        have h2 : table.transition "ID" '/' = none := by decide
        unfold accepts
        simp only [List.singleton_append, run, h1, h2]
  exact MunchSeq.cons "ID" ['x'] _ [] _ hm (by decide) (MunchSeq.nil _)

/-- Witness for C14: in `x//! 99999999999` the text after `//` holds a character
no token starts with and a number out of bounds; the scan writes `ID x` and goes
on with the next line. -/
theorem comments_discarded_witness :
    MunchSeq WLP4Scanner.new "x//! 99999999999".data [("ID", ['x'])] "//! 99999999999".data ∧
    scanLine WLP4Scanner.new "x//! 99999999999" [] = ([("ID", "x")], .done) ∧
    scanAll_lines WLP4Scanner.new ["x//! 99999999999", "y"] [] =
      scanAll_lines WLP4Scanner.new ["y"] [("ID", "x")] :=
  have h := comments_discarded.2 "x//! 99999999999".data [("ID", ['x'])] "! 99999999999".data
    munch_x_comment (by decide) (by decide) [] ["y"]
  ⟨munch_x_comment, h.1, h.2⟩

end WLP4Scanner

end WLP4

namespace WLP4

namespace WLP4Parser

mutual

/-- The method `print` ends with its lines or with the exception of `prods.at`. -/
theorem print_error (T : Tables) : ∀ (n : Node) (e : ParseError),
    print T n = .error e → e = .outOfRange
  | .leaf tok, e, h => by simp [print] at h
  | .node prod children, e, h => by
      rw [print] at h
      split at h
      · simp only [Except.error.injEq] at h
        exact h.symm
      · split at h
        · simp at h
        · rename_i e1 he1
          simp only [Except.error.injEq] at h
          subst h
          exact printList_error T children e1 he1

theorem printList_error (T : Tables) : ∀ (cs : List Node) (e : ParseError),
    printList T cs = .error e → e = .outOfRange
  | [], e, h => by simp [printList] at h
  | c :: cs, e, h => by
      rw [printList] at h
      split at h
      · split at h
        · simp at h
        · rename_i e1 he1
          simp only [Except.error.injEq] at h
          subst h
          exact printList_error T cs e1 he1
      · rename_i e1 he1
        simp only [Except.error.injEq] at h
        subst h
        exact print_error T c e1 he1

end

/-- The message `ERROR at k` comes from a shift that failed at the token of
index `k`, in a configuration the loop went through. -/
theorem slrLoop_error (T : Tables) (input : List Token) : ∀ (steps k0 : Nat)
    (ns : List Node) (ss : List (Option Nat)) (k : Nat), Config T input k0 ns ss →
    slrLoop T input steps k0 ns ss = .error (.errorAt k) → Stuck T input k ∧ k0 ≤ k := by
  intro steps
  induction steps with
  | zero =>
      intro k0 ns ss k _ h
      simp [slrLoop] at h
  | succ steps ih =>
      intro k0 ns ss k hc h
      rw [slrLoop] at h
      cases ha : input[k0]? with
      | none => simp [ha] at h
      | some a =>
          simp only [ha] at h
          cases hs : ss.head? with
          | none => simp [hs] at h
          | some top =>
              cases top with
              | none => simp [hs] at h
              | some s =>
                  simp only [hs] at h
                  by_cases hr : hasReduction T s a.kind = true
                  · simp only [hr, if_true] at h
                    cases hred : reduce T ns ss a with
                    | error e =>
                        rw [hred] at h
                        simp only [bind, Except.bind, Except.error.injEq] at h
                        subst h
                        unfold reduce at hred
                        simp only [hs] at hred
                        repeat' split at hred
                        all_goals simp at hred
                    | ok v =>
                        obtain ⟨ns1, ss1⟩ := v
                        rw [hred] at h
                        simp only [bind, Except.bind] at h
                        exact ih k0 ns1 ss1 k
                          (Config.reduce k0 ns ss a s ns1 ss1 hc ha hs hr hred) h
                  · have hr' : hasReduction T s a.kind = false := by simpa using hr
                    simp only [hr', Bool.false_eq_true, if_false] at h
                    unfold shift at h
                    simp only [hs] at h
                    cases ht : transition T s a.kind with
                    | none =>
                        simp only [ht, bind, Except.bind, if_true, Except.error.injEq,
                          ParseError.errorAt.injEq] at h
                        subst h
                        exact ⟨⟨ns, ss, a, s, hc, ha, hs, hr', ht⟩, le_refl _⟩
                    | some nxt =>
                        simp only [ht, bind, Except.bind, Bool.false_eq_true, if_false] at h
                        have := ih (k0 + 1) _ _ k
                          (Config.shift k0 ns ss a s nxt hc ha hs hr' ht) h
                        exact ⟨this.1, by omega⟩

/-- The loop reaches every configuration, given steps enough. -/
theorem slrLoop_reaches (T : Tables) (a0 : Token) (rest : List Token) (k : Nat)
    (ns : List Node) (ss : List (Option Nat)) (hc : Config T (a0 :: rest) k ns ss) :
    ∃ m, ∀ n, slrLoop T (a0 :: rest) (m + n) 1 [Node.leaf a0] [transition T 0 a0.kind] =
      slrLoop T (a0 :: rest) n k ns ss := by
  induction hc with
  | init b0 rest1 hin =>
      simp only [List.cons.injEq] at hin
      obtain ⟨rfl, rfl⟩ := hin
      exact ⟨0, fun n => by rw [Nat.zero_add]⟩
  | reduce k ns ss a s ns1 ss1 _ ha hs hr hred ih =>
      obtain ⟨m, hm⟩ := ih
      refine ⟨m + 1, fun n => ?_⟩
      rw [Nat.add_assoc, hm (1 + n), Nat.add_comm 1 n, slrLoop]
      simp only [ha, hs, hr, if_true, hred, bind, Except.bind]
  | shift k ns ss a s nxt _ ha hs hr ht ih =>
      obtain ⟨m, hm⟩ := ih
      refine ⟨m + 1, fun n => ?_⟩
      rw [Nat.add_assoc, hm (1 + n), Nat.add_comm 1 n, slrLoop]
      simp only [ha, hs, hr, Bool.false_eq_true, if_false, shift, ht, bind, Except.bind]

end WLP4Parser

end WLP4

namespace WLP4

namespace WLP4Parser

/-- What a successful `reduce` did: it took the rule from the table, popped one
node and one state per symbol of the rule, and pushed the new node and the
state the uncovered state goes to on the left-hand side. -/
theorem reduce_inv (T : Tables) (ns : List Node) (ss : List (Option Nat)) (a : Token)
    (ns1 : List Node) (ss1 : List (Option Nat)) (h : reduce T ns ss a = .ok (ns1, ss1)) :
    ∃ s nt rhs, ss.head? = some (some s) ∧
      T.prods[reductionOf T s a.kind]? = some (nt, rhs) ∧
      rhs.length ≤ ns.length ∧ rhs.length ≤ ss.length ∧
      ns1 = Node.node (reductionOf T s a.kind) (ns.take rhs.length).reverse ::
        ns.drop rhs.length := by
  unfold reduce at h
  split at h
  · rename_i s hs
    dsimp only at h
    cases hp : T.prods[reductionOf T s a.kind]? with
    | none =>
        rw [hp] at h
        simp at h
    | some p =>
        obtain ⟨nt, rhs⟩ := p
        rw [hp] at h
        simp only [] at h
        split at h
        · rename_i hlen
          refine ⟨s, nt, rhs, hs, hp, hlen.1, hlen.2, ?_⟩
          split at h
          · simp only [Except.ok.injEq, Prod.mk.injEq] at h
            exact h.1.symm
          · simp only [Except.ok.injEq, Prod.mk.injEq] at h
            exact h.1.symm
          · simp at h
        · simp at h
  · simp at h

theorem reduce_error (T : Tables) (ns : List Node) (ss : List (Option Nat)) (a : Token)
    (k : Nat) : reduce T ns ss a ≠ .error (.errorAt k) := by
  intro h
  unfold reduce at h
  split at h
  · rename_i s hs
    dsimp only at h
    cases hp : T.prods[reductionOf T s a.kind]? with
    | none =>
        rw [hp] at h
        simp at h
    | some p =>
        obtain ⟨nt, rhs⟩ := p
        rw [hp] at h
        simp only [] at h
        split at h
        · split at h <;> simp at h
        · simp at h
  · simp at h

/-- The message `ERROR at k` of `slr1` is the one of its loop. -/
theorem slr1_error (T : Tables) (a0 : Token) (rest : List Token) (steps k : Nat)
    (h : slr1 T (a0 :: rest) steps = .error (.errorAt k)) :
    slrLoop T (a0 :: rest) steps 1 [Node.leaf a0] [transition T 0 a0.kind] =
      .error (.errorAt k) := by
  unfold slr1 at h
  cases htree : slr1Tree T (a0 :: rest) steps with
  | ok root =>
      rw [htree] at h
      simp only [bind, Except.bind] at h
      exact absurd (print_error T root _ h) (by simp)
  | error e =>
      rw [htree] at h
      simp only [bind, Except.bind, Except.error.injEq] at h
      subst h
      unfold slr1Tree at htree
      simp only [bind, Except.bind] at htree
      cases hloop : slrLoop T (a0 :: rest) steps 1 [Node.leaf a0] [transition T 0 a0.kind] with
      | error e => 
          rw [hloop] at htree
          simpa using htree
      | ok v =>
          rw [hloop] at htree
          simp only [] at htree
          cases hred : reduce T v.1 v.2 ⟨".ACCEPT", ".ACCEPT"⟩ with
          | error e =>
              rw [hred] at htree
              simp only [Except.error.injEq] at htree
              rw [htree] at hred
              exact absurd hred (reduce_error T _ _ _ k)
          | ok w =>
              rw [hred] at htree
              simp only [] at htree
              split at htree <;> simp at htree

/-- C15, amended. Whenever `slr1` reports `ERROR at k` on an augmented input
`BOF, t1, ..., tn, EOF`, the token that cannot be shifted is the one of index `k`
counted from `0` at `BOF`: the parser is at that token in a state with no
reduction and no transition for its kind.  So `1 <= k <= n + 1`, and the token
is the `k`-th of `t1, ..., tn, EOF` counted from `1`.  Conversely, when the
token of index `k` cannot be shifted, the parser, given steps enough, reports
`ERROR at k`. -/
theorem error_index (T : Tables) (toks : List Token) :
    (∀ steps k, slr1 T (augment toks) steps = .error (.errorAt k) →
      Stuck T (augment toks) k ∧ 1 ≤ k ∧ k ≤ toks.length + 1 ∧
      (augment toks)[k]? = (toks ++ [⟨"EOF", "EOF"⟩])[k - 1]?) ∧
    (∀ k, Stuck T (augment toks) k →
      ∃ steps, slr1 T (augment toks) steps = .error (.errorAt k)) := by
  constructor
  · intro steps k h
    have hloop := slr1_error T _ _ steps k h
    obtain ⟨hstuck, hk⟩ := slrLoop_error T (augment toks) steps 1 _ _ k
      (Config.init _ _ rfl) hloop
    refine ⟨hstuck, hk, ?_, ?_⟩
    · obtain ⟨ns, ss, a, s, _, ha, _⟩ := hstuck
      have hlt : k < (augment toks).length := by
        by_contra hge
        rw [List.getElem?_eq_none (by omega)] at ha
        simp at ha
      simp only [augment, List.length_cons, List.length_append, List.length_nil] at hlt
      omega
    · obtain ⟨k1, rfl⟩ : ∃ k1, k = k1 + 1 := ⟨k - 1, by omega⟩
      simp [augment]
  · intro k hstuck
    obtain ⟨ns, ss, a, s, hc, ha, hs, hr, ht⟩ := hstuck
    have hform : augment toks = ⟨"BOF", "BOF"⟩ :: (toks ++ [⟨"EOF", "EOF"⟩]) := rfl
    rw [hform] at hc ha ⊢
    obtain ⟨m, hm⟩ := slrLoop_reaches T ⟨"BOF", "BOF"⟩ (toks ++ [⟨"EOF", "EOF"⟩]) k ns ss hc
    refine ⟨m + 1, ?_⟩
    have hloop : slrLoop T (⟨"BOF", "BOF"⟩ :: (toks ++ [⟨"EOF", "EOF"⟩])) (m + 1) 1
        [Node.leaf ⟨"BOF", "BOF"⟩] [transition T 0 (⟨"BOF", "BOF"⟩ : Token).kind] =
          .error (.errorAt k) := by
      rw [hm 1, slrLoop]
      simp only [ha, hs, hr, Bool.false_eq_true, if_false, shift, ht, bind, Except.bind, if_true]
    unfold slr1 slr1Tree
    simp only [hloop, bind, Except.bind]

/-- Counterexample to C15 as stated: on the token sequence `ID x` the parser
reports `ERROR at 1`, and the token that cannot be shifted, `ID x`, is the
second of the augmented input `BOF, ID x, EOF`. -/
theorem error_index_counts_from_zero :
    parse tinyTables "ID x" 2 = .error (.errorAt 1) ∧
    augment (pairUp (WLP4ParseTree.words "ID x")) =
      [⟨"BOF", "BOF"⟩, ⟨"ID", "x"⟩, ⟨"EOF", "EOF"⟩] ∧
    List.indexOf (⟨"ID", "x"⟩ : Token) [⟨"BOF", "BOF"⟩, ⟨"ID", "x"⟩, ⟨"EOF", "EOF"⟩] + 1 = 2 := by
  decide

/-- Witness for C15: the parse of `ID x` with the fragment of the tables. -/
theorem error_index_witness :
    slr1 tinyTables (augment [⟨"ID", "x"⟩]) 2 = .error (.errorAt 1) ∧
    Stuck tinyTables (augment [⟨"ID", "x"⟩]) 1 ∧ 1 ≤ 1 ∧ 1 ≤ [(⟨"ID", "x"⟩ : Token)].length + 1 ∧
    (augment [⟨"ID", "x"⟩])[1]? = ([⟨"ID", "x"⟩] ++ [(⟨"EOF", "EOF"⟩ : Token)])[1 - 1]? :=
  ⟨by decide, (error_index tinyTables [⟨"ID", "x"⟩]).1 2 1 (by decide)⟩

end WLP4Parser

end WLP4

namespace WLP4

namespace WLP4Parser

open WLP4ParseTree

theorem wordsAux_word (w rest : List Char) (hw : ∀ c ∈ w, isspace c = false) :
    ∀ cur, wordsAux (w ++ rest) cur = wordsAux rest (cur ++ w) := by
  induction w with
  | nil => intro cur; simp
  | cons c w ih =>
      intro cur
      rw [List.cons_append, wordsAux]
      simp only [hw c (List.mem_cons_self _ _), Bool.false_eq_true, if_false]
      rw [ih (fun x hx => hw x (List.mem_cons_of_mem _ hx))]
      simp

theorem isWord_iff (w : String) :
    isWord w = true ↔ w.data ≠ [] ∧ ∀ c ∈ w.data, isspace c = false := by
  unfold isWord
  simp [List.isEmpty_iff]

/-- The words of a word followed by words that each come after one blank. -/
theorem wordsAux_spaced (rs : List String) (hrs : ∀ r ∈ rs, isWord r = true) :
    ∀ cur : List Char, cur ≠ [] →
      wordsAux (rs.map (fun r => ' ' :: r.data)).flatten cur = String.mk cur :: rs := by
  induction rs with
  | nil =>
      intro cur hcur
      simp only [List.map_nil, List.flatten_nil, wordsAux]
      have : cur.isEmpty = false := by simpa [List.isEmpty_iff] using hcur
      simp [this]
  | cons r rs ih =>
      intro cur hcur
      have hr := (isWord_iff r).mp (hrs r (List.mem_cons_self _ _))
      simp only [List.map_cons, List.flatten_cons, List.cons_append]
      rw [wordsAux]
      have hsp : isspace ' ' = true := by decide
      have : cur.isEmpty = false := by simpa [List.isEmpty_iff] using hcur
      simp only [hsp, if_true, this, Bool.false_eq_true, if_false]
      rw [wordsAux_word r.data _ hr.2, List.nil_append,
        ih (fun x hx => hrs x (List.mem_cons_of_mem _ hx)) r.data hr.1]

theorem foldl_data (rs : List String) : ∀ acc : String,
    (rs.foldl (fun acc r => acc ++ " " ++ r) acc).data =
      acc.data ++ (rs.map (fun r => ' ' :: r.data)).flatten := by
  induction rs with
  | nil => intro acc; simp
  | cons r rs ih =>
      intro acc
      rw [List.foldl_cons, ih]
      simp [String.data_append]

/-- The words of a line that is words with one blank between them. -/
theorem words_spaced (w : String) (rs : List String) (hw : isWord w = true)
    (hrs : ∀ r ∈ rs, isWord r = true) :
    words (rs.foldl (fun acc r => acc ++ " " ++ r) w) = w :: rs := by
  unfold words
  have hw' := (isWord_iff w).mp hw
  rw [foldl_data, wordsAux_word w.data _ hw'.2, List.nil_append,
    wordsAux_spaced rs hrs w.data hw'.1]

theorem words_pair (a b : String) (ha : isWord a = true) (hb : isWord b = true) :
    words (a ++ " " ++ b) = [a, b] :=
  words_spaced a [b] ha (by simpa using hb)

end WLP4Parser

end WLP4

namespace WLP4

namespace WLP4Parser

open WLP4ParseTree

theorem cleanGrammar_mem (prods : List (String × List String))
    (hg : cleanGrammar prods = true) (prod : Nat) (nt : String) (rhs : List String)
    (hp : prods[prod]? = some (nt, rhs)) :
    isWord nt = true ∧ (∀ r ∈ rhs, isWord r = true) ∧ (∀ r ∈ rhs, r ≠ ".EMPTY") ∧
      isNonTerminal prods nt = true := by
  have hmem : (nt, rhs) ∈ prods := List.getElem?_mem hp
  unfold cleanGrammar at hg
  rw [List.all_eq_true] at hg
  have h1 := hg (nt, rhs) hmem
  simp only [Bool.and_eq_true, List.all_eq_true, bne_iff_ne, ne_eq] at h1
  refine ⟨h1.1, fun r hr => (h1.2 r hr).1, fun r hr => (h1.2 r hr).2, ?_⟩
  unfold isNonTerminal
  rw [List.any_eq_true]
  exact ⟨(nt, rhs), hmem, by simp⟩

theorem words_ruleLine (nt : String) (rhs : List String) (hnt : isWord nt = true)
    (hrhs : ∀ r ∈ rhs, isWord r = true) :
    words (ruleLine nt rhs) = nt :: (if rhs.length > 0 then rhs else [".EMPTY"]) := by
  unfold ruleLine
  by_cases h : rhs.length > 0
  · simp only [h, if_true]
    exact words_spaced nt rhs hnt hrhs
  · simp only [h, if_false]
    exact words_pair nt ".EMPTY" hnt (by decide)

theorem printTree_untyped (kind seq : String) (cs : List WLP4.Node) :
    printTree (WLP4.Node.mk kind seq TYPE_NONE cs) = seq :: printTreeList cs := by
  rw [printTree]
  simp

mutual

/-- The listing of a well-formed parser tree is the listing of its type checker
tree, and `readTree` reads that tree back from it. -/
theorem roundtrip_tree (T : Tables) (hg : cleanGrammar T.prods = true) :
    ∀ (t : Node), wellFormed T t = true →
      print T t = .ok (printTree (toNode T t)) ∧
      ∀ fuel rest, readCost t ≤ fuel →
        readTree T.prods fuel (printTree (toNode T t) ++ rest) =
          some (some (toNode T t), rest)
  | .leaf tok, hwf => by
      rw [wellFormed] at hwf
      unfold cleanToken at hwf
      simp only [Bool.and_eq_true, Bool.not_eq_true'] at hwf
      obtain ⟨⟨hk, hl⟩, hnt⟩ := hwf
      rw [toNode, printTree_untyped, printTreeList, print]
      refine ⟨rfl, ?_⟩
      intro fuel rest hfuel
      rw [readCost] at hfuel
      obtain ⟨f, rfl⟩ : ∃ f, fuel = f + 1 := ⟨fuel - 1, by omega⟩
      rw [List.singleton_append, readTree]
      simp only [words_pair tok.kind tok.lexeme hk hl, List.head?_cons, Option.getD_some, hnt,
        Bool.false_eq_true, if_false]
  | .node prod children, hwf => by
      rw [wellFormed] at hwf
      cases hp : T.prods[prod]? with
      | none => rw [hp] at hwf; simp at hwf
      | some p =>
          obtain ⟨nt, rhs⟩ := p
          rw [hp] at hwf
          simp only [Bool.and_eq_true, beq_iff_eq] at hwf
          obtain ⟨hlen, hcs⟩ := hwf
          obtain ⟨hnt, hrhs, hne, hnonterm⟩ := cleanGrammar_mem T.prods hg prod nt rhs hp
          obtain ⟨hprint, hread⟩ := roundtrip_list T hg children hcs
          rw [toNode, print]
          simp only [hp]
          rw [printTree_untyped, hprint]
          refine ⟨rfl, ?_⟩
          intro fuel rest hfuel
          rw [readCost] at hfuel
          obtain ⟨f, rfl⟩ : ∃ f, fuel = f + 1 := ⟨fuel - 1, by omega⟩
          rw [List.cons_append, readTree]
          simp only [words_ruleLine nt rhs hnt hrhs, List.head?_cons, Option.getD_some, hnonterm,
            if_true, List.tail_cons]
          by_cases h0 : rhs.length > 0
          · simp only [h0, if_true]
            rw [hread f rest rhs hlen.symm hne (by omega)]
          · simp only [h0, if_false]
            have hnil : children = [] := List.length_eq_zero.mp (by omega)
            subst hnil
            rw [toNodeList, printTreeList, List.nil_append]
            rw [readCostList] at hfuel
            obtain ⟨g, rfl⟩ : ∃ g, f = g + 1 := ⟨f - 1, by omega⟩
            rw [readChildren]
            simp

/-- The same for the children of a node, read one per symbol of the rule. -/
theorem roundtrip_list (T : Tables) (hg : cleanGrammar T.prods = true) :
    ∀ (cs : List Node), wellFormedList T cs = true →
      printList T cs = .ok (printTreeList (toNodeList T cs)) ∧
      ∀ fuel rest (ws : List String), ws.length = cs.length → (∀ w ∈ ws, w ≠ ".EMPTY") →
        readCostList cs ≤ fuel →
        readChildren T.prods fuel ws (printTreeList (toNodeList T cs) ++ rest) =
          some (toNodeList T cs, rest)
  | [], _ => by
      rw [toNodeList, printTreeList, printList]
      refine ⟨rfl, ?_⟩
      intro fuel rest ws hlen _ hfuel
      rw [readCostList] at hfuel
      obtain ⟨f, rfl⟩ : ∃ f, fuel = f + 1 := ⟨fuel - 1, by omega⟩
      have hws : ws = [] := List.length_eq_zero.mp hlen
      subst hws
      rw [readChildren]
      rfl
  | c :: cs, hwf => by
      rw [wellFormedList] at hwf
      simp only [Bool.and_eq_true] at hwf
      obtain ⟨hc, hcs⟩ := hwf
      obtain ⟨hp1, hr1⟩ := roundtrip_tree T hg c hc
      obtain ⟨hp2, hr2⟩ := roundtrip_list T hg cs hcs
      rw [toNodeList, printTreeList, printList, hp1]
      simp only [hp2, true_and]
      intro fuel rest ws hlen hne hfuel
      rw [readCostList] at hfuel
      obtain ⟨f, rfl⟩ : ∃ f, fuel = f + 1 := ⟨fuel - 1, by omega⟩
      cases ws with
      | nil => simp at hlen
      | cons w ws1 =>
          simp only [List.length_cons, Nat.add_right_cancel_iff] at hlen
          rw [readChildren]
          simp only [hne w (List.mem_cons_self _ _), if_false, List.append_assoc]
          rw [hr1 f _ (by omega)]
          simp only []
          rw [hr2 f rest ws1 hlen (fun x hx => hne x (List.mem_cons_of_mem _ hx)) (by omega)]

end

end WLP4Parser

end WLP4

namespace WLP4

namespace WLP4Parser

open WLP4ParseTree

theorem wellFormedList_iff (T : Tables) (cs : List Node) :
    wellFormedList T cs = true ↔ ∀ c ∈ cs, wellFormed T c = true := by
  induction cs with
  | nil => simp [wellFormedList]
  | cons c cs ih =>
      rw [wellFormedList]
      simp [ih]

/-- A reduction keeps the node stack well formed. -/
theorem reduce_wellFormed (T : Tables) (ns : List Node) (ss : List (Option Nat)) (a : Token)
    (ns1 : List Node) (ss1 : List (Option Nat)) (hns : ∀ n ∈ ns, wellFormed T n = true)
    (h : reduce T ns ss a = .ok (ns1, ss1)) : ∀ n ∈ ns1, wellFormed T n = true := by
  obtain ⟨s, nt, rhs, _, hp, hlen, _, rfl⟩ := reduce_inv T ns ss a ns1 ss1 h
  intro n hn
  rcases List.mem_cons.mp hn with rfl | hn
  · rw [wellFormed]
    simp only [hp, Bool.and_eq_true, beq_iff_eq, List.length_reverse, List.length_take]
    refine ⟨by omega, ?_⟩
    rw [wellFormedList_iff]
    intro c hc
    exact hns c (List.mem_of_mem_take (List.mem_reverse.mp hc))
  · exact hns n (List.mem_of_mem_drop hn)

/-- The loop keeps the node stack well formed when the tokens are clean. -/
theorem slrLoop_wellFormed (T : Tables) (input : List Token)
    (hin : ∀ tok ∈ input, cleanToken T.prods tok = true) :
    ∀ (steps k : Nat) (ns : List Node) (ss : List (Option Nat)) (ns1 : List Node)
      (ss1 : List (Option Nat)), (∀ n ∈ ns, wellFormed T n = true) →
      slrLoop T input steps k ns ss = .ok (ns1, ss1) → ∀ n ∈ ns1, wellFormed T n = true := by
  intro steps
  induction steps with
  | zero =>
      intro k ns ss ns1 ss1 _ h
      simp [slrLoop] at h
  | succ steps ih =>
      intro k ns ss ns1 ss1 hns h
      rw [slrLoop] at h
      cases ha : input[k]? with
      | none =>
          simp only [ha, Except.ok.injEq, Prod.mk.injEq] at h
          rw [← h.1]
          exact hns
      | some a =>
          simp only [ha] at h
          cases hs : ss.head? with
          | none => simp [hs] at h
          | some top =>
              cases top with
              | none => simp [hs] at h
              | some s =>
                  simp only [hs] at h
                  by_cases hr : hasReduction T s a.kind = true
                  · simp only [hr, if_true] at h
                    cases hred : reduce T ns ss a with
                    | error e =>
                        rw [hred] at h
                        simp [bind, Except.bind] at h
                    | ok v =>
                        obtain ⟨ns2, ss2⟩ := v
                        rw [hred] at h
                        simp only [bind, Except.bind] at h
                        exact ih k ns2 ss2 ns1 ss1
                          (reduce_wellFormed T ns ss a ns2 ss2 hns hred) h
                  · have hr' : hasReduction T s a.kind = false := by simpa using hr
                    simp only [hr', Bool.false_eq_true, if_false] at h
                    unfold shift at h
                    simp only [hs] at h
                    cases ht : transition T s a.kind with
                    | none => simp [ht, bind, Except.bind] at h
                    | some nxt =>
                        simp only [ht, bind, Except.bind, Bool.false_eq_true, if_false] at h
                        refine ih (k + 1) _ _ ns1 ss1 ?_ h
                        intro n hn
                        rcases List.mem_cons.mp hn with rfl | hn
                        · rw [wellFormed]
                          exact hin a (List.getElem?_mem ha)
                        · exact hns n hn

/-- The tree of a successful parse of clean tokens is well formed. -/
theorem slr1Tree_wellFormed (T : Tables) (input : List Token)
    (hin : ∀ tok ∈ input, cleanToken T.prods tok = true) (steps : Nat) (root : Node)
    (h : slr1Tree T input steps = .ok root) : wellFormed T root = true := by
  unfold slr1Tree at h
  cases input with
  | nil => simp at h
  | cons a0 rest =>
      simp only [bind, Except.bind] at h
      cases hloop : slrLoop T (a0 :: rest) steps 1 [Node.leaf a0] [transition T 0 a0.kind] with
      | error e => rw [hloop] at h; simp at h
      | ok v =>
          obtain ⟨ns, ss⟩ := v
          rw [hloop] at h
          simp only [] at h
          have hns : ∀ n ∈ ns, wellFormed T n = true :=
            slrLoop_wellFormed T (a0 :: rest) hin steps 1 _ _ ns ss
              (by
                intro n hn
                rw [List.mem_singleton] at hn
                rw [hn, wellFormed]
                exact hin a0 (List.mem_cons_self _ _)) hloop
          cases hred : reduce T ns ss ⟨".ACCEPT", ".ACCEPT"⟩ with
          | error e => rw [hred] at h; simp at h
          | ok w =>
              obtain ⟨ns1, ss1⟩ := w
              rw [hred] at h
              simp only [] at h
              have hns1 := reduce_wellFormed T ns ss _ ns1 ss1 hns hred
              cases hlast : ns1.getLast? with
              | none => rw [hlast] at h; simp at h
              | some r =>
                  rw [hlast] at h
                  simp only [Except.ok.injEq] at h
                  subst h
                  exact hns1 r (List.mem_of_mem_getLast? hlast)

/-- Every word that `iss >> word` yields is not empty and has no whitespace. -/
theorem wordsAux_isWord : ∀ (cs cur : List Char), (∀ c ∈ cur, isspace c = false) →
    ∀ w ∈ wordsAux cs cur, isWord w = true := by
  intro cs
  induction cs with
  | nil =>
      intro cur hcur w hw
      rw [wordsAux] at hw
      by_cases hc : cur.isEmpty = true
      · simp [hc] at hw
      · simp only [hc, Bool.false_eq_true, if_false, List.mem_singleton] at hw
        subst hw
        rw [isWord_iff]
        exact ⟨by simpa [List.isEmpty_iff] using hc, hcur⟩
  | cons c cs ih =>
      intro cur hcur w hw
      rw [wordsAux] at hw
      by_cases hsp : isspace c = true
      · simp only [hsp, if_true] at hw
        by_cases hc : cur.isEmpty = true
        · simp only [hc, if_true] at hw
          exact ih [] (by simp) w hw
        · simp only [hc, Bool.false_eq_true, if_false, List.mem_cons] at hw
          rcases hw with rfl | hw
          · rw [isWord_iff]
            exact ⟨by simpa [List.isEmpty_iff] using hc, hcur⟩
          · exact ih [] (by simp) w hw
      · have hsp' : isspace c = false := by simpa using hsp
        simp only [hsp', Bool.false_eq_true, if_false] at hw
        refine ih (cur ++ [c]) ?_ w hw
        intro d hd
        rcases List.mem_append.mp hd with hd | hd
        · exact hcur d hd
        · rw [List.mem_singleton] at hd
          rw [hd]; exact hsp'

theorem words_isWord (s : String) : ∀ w ∈ words s, isWord w = true :=
  wordsAux_isWord s.data [] (by simp)

/-- The tokens `parse` pairs up hold words. -/
theorem pairUp_isWord : ∀ (n : Nat) (ws : List String), ws.length ≤ n →
    (∀ w ∈ ws, isWord w = true) →
    ∀ tok ∈ pairUp ws, isWord tok.kind = true ∧ isWord tok.lexeme = true := by
  intro n
  induction n using Nat.strong_induction_on with
  | _ n ih =>
      intro ws hn hws tok htok
      match ws, hn, hws, htok with
      | [], _, _, htok => simp [pairUp] at htok
      | [_], _, _, htok => simp [pairUp] at htok
      | kind :: lexeme :: rest, hn, hws, htok =>
          rw [pairUp, List.mem_cons] at htok
          rcases htok with rfl | htok
          · exact ⟨hws kind (by simp), hws lexeme (by simp)⟩
          · simp only [List.length_cons] at hn
            exact ih rest.length (by omega) rest le_rfl
              (fun w hw => hws w (by simp [hw])) tok htok

/-- The tokens of the input `parse` builds are clean once their kinds are
terminals. -/
theorem parse_tokens_clean (T : Tables) (raw : String)
    (hk : ∀ tok ∈ augment (pairUp (words raw)), isNonTerminal T.prods tok.kind = false) :
    ∀ tok ∈ augment (pairUp (words raw)), cleanToken T.prods tok = true := by
  intro tok htok
  have hform : augment (pairUp (words raw)) =
      ⟨"BOF", "BOF"⟩ :: (pairUp (words raw) ++ [⟨"EOF", "EOF"⟩]) := rfl
  have hnt := hk tok htok
  rw [hform] at htok
  unfold cleanToken
  rw [hnt]
  simp only [Bool.not_false, Bool.and_true, Bool.and_eq_true]
  rcases List.mem_cons.mp htok with rfl | htok
  · exact ⟨by decide, by decide⟩
  · rcases List.mem_append.mp htok with htok | htok
    · exact pairUp_isWord _ _ le_rfl (words_isWord raw) tok htok
    · rw [List.mem_singleton] at htok
      subst htok
      exact ⟨by decide, by decide⟩

/-- C16. Print/read round trip, for trees whose tokens have the kinds of
terminals.  With a grammar whose symbols are words: when no token of the input
that `parse` builds has a left-hand side of the grammar as its kind, the tree of
a successful parse is well formed (every interior node has one child per symbol
of its production, every leaf a token of two words whose kind is a terminal),
and what `parse` writes is its listing.  And for every well-formed parser tree,
`print` writes the listing of the type checker tree of the same shape (same
kinds, same rule lines and token lines, no type tag); `readTree`, given budget
enough, reads that very tree back from the listing and leaves the lines after
it; and `printTree` of the tree read, before annotation, is the listing again. -/
theorem print_read_roundtrip (T : Tables) (hg : cleanGrammar T.prods = true) :
    (∀ raw steps root,
      (∀ tok ∈ augment (pairUp (words raw)), isNonTerminal T.prods tok.kind = false) →
      slr1Tree T (augment (pairUp (words raw))) steps = .ok root →
      wellFormed T root = true ∧ parse T raw steps = .ok (printTree (toNode T root))) ∧
    (∀ root, wellFormed T root = true →
      print T root = .ok (printTree (toNode T root)) ∧
      ∀ fuel rest, readCost root ≤ fuel →
        readTree T.prods fuel (printTree (toNode T root) ++ rest) =
          some (some (toNode T root), rest)) := by
  constructor
  · intro raw steps root hk h
    have hwf := slr1Tree_wellFormed T _ (parse_tokens_clean T raw hk) steps root h
    refine ⟨hwf, ?_⟩
    unfold parse slr1
    rw [h]
    exact (roundtrip_tree T hg root hwf).1
  · intro root hwf
    exact roundtrip_tree T hg root hwf

/-- Witness for C16: the tree of `int wain(int a, int b) { return a; }` and its
listing of 28 lines. -/
theorem print_read_roundtrip_witness :
    cleanGrammar tinyTables.prods = true ∧ wellFormed tinyTables exampleParse = true ∧
    printTree (toNode tinyTables exampleParse) = exampleListing ∧
    print tinyTables exampleParse = .ok (printTree (toNode tinyTables exampleParse)) ∧
    ∀ fuel rest, readCost exampleParse ≤ fuel →
      readTree tinyTables.prods fuel (printTree (toNode tinyTables exampleParse) ++ rest) =
        some (some (toNode tinyTables exampleParse), rest) :=
  ⟨by decide, by decide, by decide,
    (print_read_roundtrip tinyTables (by decide)).2 exampleParse (by decide)⟩

/-- The input `procedures foo`, one token whose kind is a left-hand side of the
grammar, is parsed: the token is shifted as a leaf, and the root has three
children.  `readTree` takes the line `procedures foo` of the listing for a rule
line and reads the line after it as a child of that node: the tree read has a
root with two children and a `procedures` node with one. -/
theorem roundtrip_nonterminal_kind :
    slr1Tree gotoTables (augment (pairUp (words "procedures foo"))) 4 =
      .ok (.node 0 [.leaf ⟨"BOF", "BOF"⟩, .leaf ⟨"procedures", "foo"⟩, .leaf ⟨"EOF", "EOF"⟩]) ∧
    parse gotoTables "procedures foo" 4 =
      .ok ["start BOF procedures EOF", "BOF BOF", "procedures foo", "EOF EOF"] ∧
    readTree gotoTables.prods 8
        ["start BOF procedures EOF", "BOF BOF", "procedures foo", "EOF EOF"] =
      some (some (WLP4.Node.mk "start" "start BOF procedures EOF" TYPE_NONE
        [WLP4.Node.mk "BOF" "BOF BOF" TYPE_NONE [],
         WLP4.Node.mk "procedures" "procedures foo" TYPE_NONE
           [WLP4.Node.mk "EOF" "EOF EOF" TYPE_NONE []]]), []) :=
  ⟨by rfl, by decide, by rfl⟩

end WLP4Parser

end WLP4

namespace WLP4

namespace WLP4ParseTree

theorem FuelLe.refl {α : Type} (x : Except Abort α) : FuelLe x x := Or.inr rfl

theorem FuelLe.bind {α β : Type} {x y : Except Abort α} {f g : α → Except Abort β}
    (hx : FuelLe x y) (hf : ∀ a, FuelLe (f a) (g a)) : FuelLe (x >>= f) (y >>= g) := by
  rcases hx with hx | hx
  · left; rw [hx]; rfl
  · subst hx
    cases x with
    | error e => right; rfl
    | ok a => exact hf a

theorem FuelLe.ite {α : Type} {c : Prop} [Decidable c] {a a1 b b1 : Except Abort α}
    (ha : c → FuelLe a a1) (hb : ¬ c → FuelLe b b1) :
    FuelLe (if c then a else b) (if c then a1 else b1) := by
  by_cases h : c
  · simp only [h, if_true]; exact ha h
  · simp only [h, if_false]; exact hb h

theorem FuelLe.trans {α : Type} {x y z : Except Abort α} (h1 : FuelLe x y) (h2 : FuelLe y z) :
    FuelLe x z := by
  rcases h1 with h1 | h1
  · exact Or.inl h1
  · rw [h1]; exact h2

theorem expr_mono_step (fuel : Nat)
    (ihE : ∀ ptable cur c, FuelLe (annotate_expr fuel ptable cur c)
      (annotate_expr (fuel + 1) ptable cur c))
    (ihT : ∀ ptable cur c, FuelLe (annotate_term fuel ptable cur c)
      (annotate_term (fuel + 1) ptable cur c))
    (ptable : ProcTable) (cur : String) (n : Node) :
    FuelLe (annotate_expr (fuel + 1) ptable cur n) (annotate_expr (fuel + 2) ptable cur n) := by
  rw [annotate_expr, annotate_expr]
  repeat' first
    | (with_reducible exact FuelLe.refl _)
    | exact ihE _ _ _
    | exact ihT _ _ _
    | apply FuelLe.bind
    | apply FuelLe.ite
    | intro _

theorem term_mono_step (fuel : Nat)
    (ihT : ∀ ptable cur c, FuelLe (annotate_term fuel ptable cur c)
      (annotate_term (fuel + 1) ptable cur c))
    (ihF : ∀ ptable cur c, FuelLe (annotate_factor fuel ptable cur c)
      (annotate_factor (fuel + 1) ptable cur c))
    (ptable : ProcTable) (cur : String) (n : Node) :
    FuelLe (annotate_term (fuel + 1) ptable cur n) (annotate_term (fuel + 2) ptable cur n) := by
  rw [annotate_term, annotate_term]
  repeat' first
    | (with_reducible exact FuelLe.refl _)
    | exact ihT _ _ _
    | exact ihF _ _ _
    | apply FuelLe.bind
    | apply FuelLe.ite
    | intro _

theorem factor_mono_step (fuel : Nat)
    (ihE : ∀ ptable cur c, FuelLe (annotate_expr fuel ptable cur c)
      (annotate_expr (fuel + 1) ptable cur c))
    (ihF : ∀ ptable cur c, FuelLe (annotate_factor fuel ptable cur c)
      (annotate_factor (fuel + 1) ptable cur c))
    (ihL : ∀ ptable cur c, FuelLe (annotate_lvalue fuel ptable cur c)
      (annotate_lvalue (fuel + 1) ptable cur c))
    (ihA : ∀ ptable cur c ct idx, FuelLe (annotate_args fuel ptable cur c ct idx)
      (annotate_args (fuel + 1) ptable cur c ct idx))
    (ptable : ProcTable) (cur : String) (n : Node) :
    FuelLe (annotate_factor (fuel + 1) ptable cur n) (annotate_factor (fuel + 2) ptable cur n) := by
  rw [annotate_factor, annotate_factor]
  repeat' first
    | (with_reducible exact FuelLe.refl _)
    | exact ihE _ _ _
    | exact ihF _ _ _
    | exact ihL _ _ _
    | exact ihA _ _ _ _ _
    | apply FuelLe.bind
    | apply FuelLe.ite
    | intro _

theorem lvalue_mono_step (fuel : Nat)
    (ihF : ∀ ptable cur c, FuelLe (annotate_factor fuel ptable cur c)
      (annotate_factor (fuel + 1) ptable cur c))
    (ihL : ∀ ptable cur c, FuelLe (annotate_lvalue fuel ptable cur c)
      (annotate_lvalue (fuel + 1) ptable cur c))
    (ptable : ProcTable) (cur : String) (n : Node) :
    FuelLe (annotate_lvalue (fuel + 1) ptable cur n) (annotate_lvalue (fuel + 2) ptable cur n) := by
  rw [annotate_lvalue, annotate_lvalue]
  repeat' first
    | (with_reducible exact FuelLe.refl _)
    | exact ihF _ _ _
    | exact ihL _ _ _
    | apply FuelLe.bind
    | apply FuelLe.ite
    | intro _

theorem args_mono_step (fuel : Nat)
    (ihE : ∀ ptable cur c, FuelLe (annotate_expr fuel ptable cur c)
      (annotate_expr (fuel + 1) ptable cur c))
    (ihA : ∀ ptable cur c ct idx, FuelLe (annotate_args fuel ptable cur c ct idx)
      (annotate_args (fuel + 1) ptable cur c ct idx))
    (ptable : ProcTable) (cur : String) (n : Node) (ct : ProcData) (idx : Nat) :
    FuelLe (annotate_args (fuel + 1) ptable cur n ct idx) (annotate_args (fuel + 2) ptable cur n ct idx) := by
  rw [annotate_args, annotate_args]
  repeat' first
    | (with_reducible exact FuelLe.refl _)
    | exact ihE _ _ _
    | exact ihA _ _ _ _ _
    | apply FuelLe.bind
    | apply FuelLe.ite
    | intro _
    | split

/-- One more unit of budget changes no result but "out of budget". -/
theorem expr_mono (fuel : Nat) :
    (∀ ptable cur c, FuelLe (annotate_expr fuel ptable cur c)
      (annotate_expr (fuel + 1) ptable cur c)) ∧
    (∀ ptable cur c, FuelLe (annotate_term fuel ptable cur c)
      (annotate_term (fuel + 1) ptable cur c)) ∧
    (∀ ptable cur c, FuelLe (annotate_factor fuel ptable cur c)
      (annotate_factor (fuel + 1) ptable cur c)) ∧
    (∀ ptable cur c, FuelLe (annotate_lvalue fuel ptable cur c)
      (annotate_lvalue (fuel + 1) ptable cur c)) ∧
    (∀ ptable cur c ct idx, FuelLe (annotate_args fuel ptable cur c ct idx)
      (annotate_args (fuel + 1) ptable cur c ct idx)) := by
  induction fuel with
  | zero =>
      refine ⟨?_, ?_, ?_, ?_, ?_⟩
      · intro _ _ _; left; rw [annotate_expr]
      · intro _ _ _; left; rw [annotate_term]
      · intro _ _ _; left; rw [annotate_factor]
      · intro _ _ _; left; rw [annotate_lvalue]
      · intro _ _ _ _ _; left; rw [annotate_args]
  | succ fuel ih =>
      obtain ⟨ihE, ihT, ihF, ihL, ihA⟩ := ih
      exact ⟨expr_mono_step fuel ihE ihT, term_mono_step fuel ihT ihF,
        factor_mono_step fuel ihE ihF ihL ihA, lvalue_mono_step fuel ihF ihL,
        args_mono_step fuel ihE ihA⟩

/-- With a budget of at least the height of the expression, the result of
`annotate_expr` no longer depends on the budget. -/
theorem annotate_expr_stable (ptable : ProcTable) (cur : String) (c : Node) :
    ∀ fuel, height c ≤ fuel →
      annotate_expr fuel ptable cur c = annotate_expr (height c) ptable cur c := by
  have hup : ∀ d, FuelLe (annotate_expr (height c) ptable cur c)
      (annotate_expr (height c + d) ptable cur c) := by
    intro d
    induction d with
    | zero => exact FuelLe.refl _
    | succ d ih => exact ih.trans ((expr_mono (height c + d)).1 ptable cur c)
  intro fuel hf
  obtain ⟨d, rfl⟩ := Nat.exists_eq_add_of_le hf
  rcases hup d with h | h
  · have := (expr_budget (height c)).1 ptable cur c h
    omega
  · exact h.symm

end WLP4ParseTree

end WLP4

namespace WLP4

namespace WLP4ParseTree

/-- C20. A test whose children are `l`, an operator token and `r`, and an
assignment whose children are the lvalue `l`, `BECOMES`, `r` and `SEMI`, are
accepted exactly when both sides are annotated without error and the two
annotated sides carry the same type; when both sides are annotated and their
types differ, the result is the type error of the check.  The operator token is
never inspected, so this holds for each of EQ, NE, LT, LE, GE, GT. -/
theorem test_assign_same_type (fuel : Nat) (ptable : ProcTable) (cur : String) (node : Node) :
    (∀ l op r, node.children = [l, op, r] →
      (∀ res, annotate_test (fuel + 1) ptable cur node = .ok res ↔
        ∃ l1 r1, annotate_expr fuel ptable cur l = .ok l1 ∧
          annotate_expr fuel ptable cur r = .ok r1 ∧ l1.type = r1.type ∧
          res = (node.setChild 0 l1).setChild 2 r1) ∧
      (∀ l1 r1, annotate_expr fuel ptable cur l = .ok l1 →
        annotate_expr fuel ptable cur r = .ok r1 → l1.type ≠ r1.type →
        annotate_test (fuel + 1) ptable cur node =
          .error (.typeError ⟨"Type mismatch in boolean expression."⟩))) ∧
    (∀ l op r semi, node.children = [l, op, r, semi] → l.kind = "lvalue" →
      (∀ res, annotate_stmt (fuel + 1) ptable cur node = .ok res ↔
        ∃ l1 r1, annotate_lvalue fuel ptable cur l = .ok l1 ∧
          annotate_expr fuel ptable cur r = .ok r1 ∧ l1.type = r1.type ∧
          res = (node.setChild 0 l1).setChild 2 r1) ∧
      (∀ l1 r1, annotate_lvalue fuel ptable cur l = .ok l1 →
        annotate_expr fuel ptable cur r = .ok r1 → l1.type ≠ r1.type →
        annotate_stmt (fuel + 1) ptable cur node =
          .error (.typeError ⟨"Expected same type in assignment variable and new value."⟩))) := by
  constructor
  · intro l op r hc
    have h0 : child node 0 = .ok l := by simp [child, hc]
    have h2 : child node 2 = .ok r := by simp [child, hc]
    constructor
    · intro res
      rw [annotate_test]
      simp only [h0, h2, bind, Except.bind, pure, Except.pure, throwTypeError]
      cases hl : annotate_expr fuel ptable cur l with
      | error e => simp
      | ok l1 =>
          cases hr : annotate_expr fuel ptable cur r with
          | error e => simp
          | ok r1 =>
              by_cases ht : l1.type = r1.type
              · simp [ht, eq_comm]
              · simp [ht]
    · intro l1 r1 hl hr ht
      rw [annotate_test]
      simp only [h0, h2, hl, hr, bind, Except.bind, pure, Except.pure, throwTypeError]
      simp [ht]
  · intro l op r semi hc hk
    have h0 : child node 0 = .ok l := by simp [child, hc]
    have h2 : child node 2 = .ok r := by simp [child, hc]
    constructor
    · intro res
      rw [annotate_stmt]
      simp only [h0, h2, hk, bind, Except.bind, pure, Except.pure, throwTypeError, if_true]
      cases hl : annotate_lvalue fuel ptable cur l with
      | error e => simp
      | ok l1 =>
          cases hr : annotate_expr fuel ptable cur r with
          | error e => simp
          | ok r1 =>
              by_cases ht : l1.type = r1.type
              · simp [ht, eq_comm]
              · have ht' : ¬ r1.type = l1.type := fun h => ht h.symm
                simp [ht, ht']
    · intro l1 r1 hl hr ht
      have ht' : ¬ r1.type = l1.type := fun h => ht h.symm
      rw [annotate_stmt]
      simp only [h0, h2, hk, hl, hr, bind, Except.bind, pure, Except.pure, throwTypeError,
        if_true]
      simp [ht']

/-- Witness for C20: under `a : int*`, `b : int`, `c : int` the test `b < c` and
the assignment `b = c;` are accepted, `a < b` and `a = b;` are rejected. -/
theorem test_assign_same_type_witness :
    annotate_test 5 exampleVars "wain" (exampleTest "b" "c") =
      .ok (rule "test" "expr LT expr" ""
        [exprIdTyped "b" "int", tok "LT" "<" "", exprIdTyped "c" "int"]) ∧
    annotate_test 5 exampleVars "wain" (exampleTest "a" "b") =
      .error (.typeError ⟨"Type mismatch in boolean expression."⟩) ∧
    annotate_stmt 5 exampleVars "wain" (exampleAssign "b" "c") =
      .ok (rule "statement" "lvalue BECOMES expr SEMI" ""
        [rule "lvalue" "ID" "int" [tok "ID" "b" "int"], tok "BECOMES" "=" "",
         exprIdTyped "c" "int", tok "SEMI" ";" ""]) ∧
    annotate_stmt 5 exampleVars "wain" (exampleAssign "a" "b") =
      .error (.typeError ⟨"Expected same type in assignment variable and new value."⟩) :=
  have T := test_assign_same_type 4 exampleVars "wain"
  ⟨((T (exampleTest "b" "c")).1 _ _ _ rfl).1 _ |>.mpr
      ⟨exprIdTyped "b" "int", exprIdTyped "c" "int", by rfl, by rfl, by rfl, by rfl⟩,
    ((T (exampleTest "a" "b")).1 _ _ _ rfl).2 (exprIdTyped "a" "int*") (exprIdTyped "b" "int")
      (by rfl) (by rfl) (by decide),
    ((T (exampleAssign "b" "c")).2 _ _ _ _ rfl rfl).1 _ |>.mpr
      ⟨rule "lvalue" "ID" "int" [tok "ID" "b" "int"], exprIdTyped "c" "int",
        by rfl, by rfl, by rfl, by rfl⟩,
    ((T (exampleAssign "a" "b")).2 _ _ _ _ rfl rfl).2
      (rule "lvalue" "ID" "int*" [tok "ID" "a" "int*"]) (exprIdTyped "b" "int")
      (by rfl) (by rfl) (by decide)⟩

end WLP4ParseTree

end WLP4

namespace WLP4

namespace WLP4ParseTree

theorem sizeMinusOne_eq (n : Nat) (h0 : 0 < n) (h : n < 2 ^ 64) : sizeMinusOne n = n - 1 := by
  unfold sizeMinusOne
  omega

/-- The body of `annotate_args` on `arglist → expr`. -/
theorem args_one (f : Nat) (ptable : ProcTable) (cur : String) (n e : Node) (ct : ProcData)
    (idx : Nat) (hc : n.children = [e]) :
    annotate_args (f + 1) ptable cur n ct idx =
      if ct.signature.length = idx then
        throwTypeError ("Too many args for [" ++ ct.id ++ "].")
      else if idx ≠ sizeMinusOne ct.signature.length then
        throwTypeError ("Too few args for [" ++ ct.id ++ "].")
      else
        annotate_expr f ptable cur e >>= fun arg =>
          match ct.signature[idx]? with
          | none => .error .undefined
          | some s =>
              if arg.type ≠ s then
                throwTypeError ("Arity type mismatch when calling [" ++ ct.id ++ "].")
              else .ok (n.setChild 0 arg) := by
  rw [annotate_args]
  have h0 : child n 0 = .ok e := by simp [child, hc]
  simp only [h0, hc, bind, Except.bind, pure, Except.pure, List.length_singleton, true_and,
    gt_iff_lt, lt_self_iff_false, if_false]
  all_goals
    by_cases h1 : ct.signature.length = idx
    · simp only [if_pos h1]
    simp only [if_neg h1]
    by_cases h2 : idx ≠ sizeMinusOne ct.signature.length
    · simp only [if_pos h2]
    simp only [if_neg h2]
    cases annotate_expr f ptable cur e with
    | error x => rfl
    | ok arg =>
        simp only []
        cases ct.signature[idx]? with
        | none => rfl
        | some s =>
            simp only []

/-- The body of `annotate_args` on `arglist → expr COMMA arglist`. -/
theorem args_more (f : Nat) (ptable : ProcTable) (cur : String) (n e comma rest : Node)
    (ct : ProcData) (idx : Nat) (hc : n.children = [e, comma, rest]) :
    annotate_args (f + 1) ptable cur n ct idx =
      if ct.signature.length = idx then
        throwTypeError ("Too many args for [" ++ ct.id ++ "].")
      else
        annotate_expr f ptable cur e >>= fun arg =>
          match ct.signature[idx]? with
          | none => .error .undefined
          | some s =>
              if arg.type ≠ s then
                throwTypeError ("Arity type mismatch when calling [" ++ ct.id ++ "].")
              else
                annotate_args f ptable cur rest ct (idx + 1) >>= fun r =>
                  .ok ((n.setChild 0 arg).setChild 2 r) := by
  rw [annotate_args]
  have h0 : child n 0 = .ok e := by simp [child, hc]
  have h2 : ∀ arg, child (n.setChild 0 arg) 2 = .ok rest := by
    intro arg
    obtain ⟨k, s, t, cs⟩ := n
    simp only [Node.children_mk] at hc
    subst hc
    simp [child, Node.setChild]
  simp only [h0, h2, hc, bind, Except.bind, pure, Except.pure, List.length_cons,
    List.length_nil]
  by_cases h1 : ct.signature.length = idx
  · rw [if_pos h1, if_pos h1]
  rw [if_neg h1, if_neg h1]
  have h2 : ¬ (0 + 1 + 1 + 1 = 1 ∧ idx ≠ sizeMinusOne ct.signature.length) := by
    intro h
    omega
  rw [if_neg h2]
  cases annotate_expr f ptable cur e with
  | error x => rfl
  | ok arg =>
      simp only []
      cases ct.signature[idx]? with
      | none => rfl
      | some s =>
          have h4 : 0 + 1 + 1 + 1 > 1 := by omega
          simp only [if_pos h4]

theorem height_pos (c : Node) : 0 < height c := by
  obtain ⟨k, s, t, cs⟩ := c
  rw [height]
  omega

theorem exprType_of_fuel (ptable : ProcTable) (cur : String) (e : Node) (f : Nat)
    (hf : height e ≤ f) :
    exprType ptable cur e = (annotate_expr f ptable cur e).map Node.type := by
  unfold exprType
  rw [annotate_expr_stable ptable cur e f hf]

theorem drop_eq_cons_of_lt {α : Type} (l : List α) (i : Nat) (h : i < l.length) :
    ∃ a, l[i]? = some a ∧ l.drop i = a :: l.drop (i + 1) :=
  ⟨l[i], List.getElem?_eq_getElem h, List.drop_eq_getElem_cons h⟩

/-- The verdict of `annotate_args` from position `idx` of the signature on. -/
theorem args_core (ptable : ProcTable) (cur : String) (ct : ProcData)
    (hL : ct.signature.length < 2 ^ 64) :
    ∀ (node : Node) (es : List Node), ArgList node es →
      ∀ (idx fuel : Nat), height node ≤ fuel → idx ≤ ct.signature.length →
        ((∃ res, annotate_args fuel ptable cur node ct idx = .ok res) ↔
          List.Forall₂ (fun e t => exprType ptable cur e = .ok t) es
            (ct.signature.drop idx)) ∧
        ((∀ e ∈ es, ∃ t, exprType ptable cur e = .ok t) →
          (∃ res, annotate_args fuel ptable cur node ct idx = .ok res) ∨
            ∃ te, annotate_args fuel ptable cur node ct idx = .error (.typeError te)) ∧
        ((∀ e ∈ es, exprType ptable cur e ≠ .error .undefined) →
          annotate_args fuel ptable cur node ct idx ≠ .error .undefined) := by
  intro node es hargs
  induction hargs with
  | one n e hc =>
      intro idx fuel hfuel hidx
      obtain ⟨f, rfl⟩ : ∃ f, fuel = f + 1 := ⟨fuel - 1, by have := height_pos n; omega⟩
      have he : height e ≤ f := by
        have := height_lt_of_mem (show e ∈ n.children by simp [hc])
        omega
      rw [args_one f ptable cur n e ct idx hc]
      have hty := exprType_of_fuel ptable cur e f he
      by_cases h1 : ct.signature.length = idx
      · simp only [if_pos h1, throwTypeError]
        have hd : ct.signature.drop idx = [] := by
          rw [← h1]; exact List.drop_length _
        rw [hd]
        refine ⟨⟨fun h => by simp at h, fun h => by cases h⟩, fun _ => Or.inr ⟨_, rfl⟩, ?_⟩
        intro _ h; cases h
      · have hlt : idx < ct.signature.length := by omega
        obtain ⟨a, ha, hdrop⟩ := drop_eq_cons_of_lt ct.signature idx hlt
        rw [if_neg h1, sizeMinusOne_eq _ (by omega) hL, hdrop, ha]
        by_cases h2 : idx ≠ ct.signature.length - 1
        · simp only [if_pos h2, throwTypeError]
          have hne : ct.signature.drop (idx + 1) ≠ [] := by
            intro h
            have := congrArg List.length h
            simp only [List.length_drop, List.length_nil] at this
            omega
          refine ⟨⟨fun h => by simp at h, fun h => ?_⟩, fun _ => Or.inr ⟨_, rfl⟩, ?_⟩
          · cases h with
            | cons _ h' => exact absurd (List.forall₂_nil_left_iff.mp h') hne
          · intro _ h; cases h
        · have hd : ct.signature.drop (idx + 1) = [] := by
            apply List.drop_eq_nil_of_le
            omega
          rw [if_neg h2, hd]
          cases hx : annotate_expr f ptable cur e with
          | error x =>
              rw [hx] at hty
              simp only [Except.map] at hty
              refine ⟨⟨fun h => by simp [bind, Except.bind] at h, fun h => ?_⟩, ?_, ?_⟩
              · cases h with
                | cons h' _ => rw [hty] at h'; cases h'
              · intro h
                obtain ⟨t, ht⟩ := h e (by simp)
                rw [hty] at ht; cases ht
              · intro h hu
                simp only [bind, Except.bind, Except.error.injEq] at hu
                subst hu
                exact h e (by simp) hty
          | ok arg =>
              rw [hx] at hty
              simp only [Except.map] at hty
              simp only [bind, Except.bind, throwTypeError]
              by_cases h3 : arg.type ≠ a
              · rw [if_pos h3]
                refine ⟨⟨fun h => by simp at h, fun h => ?_⟩, fun _ => Or.inr ⟨_, rfl⟩, ?_⟩
                · cases h with
                  | cons h' _ =>
                      rw [hty] at h'
                      simp only [Except.ok.injEq] at h'
                      exact absurd h' h3
                · intro _ h; cases h
              · rw [if_neg h3]
                have h3' : arg.type = a := by simpa using h3
                refine ⟨⟨fun _ => ?_, fun _ => ⟨_, rfl⟩⟩, fun _ => Or.inl ⟨_, rfl⟩, ?_⟩
                · exact List.Forall₂.cons (by rw [hty, h3']) List.Forall₂.nil
                · intro _ h; cases h
  | more n e comma rest es hc hrest ih =>
      intro idx fuel hfuel hidx
      obtain ⟨f, rfl⟩ : ∃ f, fuel = f + 1 := ⟨fuel - 1, by have := height_pos n; omega⟩
      have he : height e ≤ f := by
        have := height_lt_of_mem (show e ∈ n.children by simp [hc])
        omega
      have hr : height rest ≤ f := by
        have := height_lt_of_mem (show rest ∈ n.children by simp [hc])
        omega
      rw [args_more f ptable cur n e comma rest ct idx hc]
      have hty := exprType_of_fuel ptable cur e f he
      by_cases h1 : ct.signature.length = idx
      · simp only [if_pos h1, throwTypeError]
        have hd : ct.signature.drop idx = [] := by
          rw [← h1]; exact List.drop_length _
        rw [hd]
        refine ⟨⟨fun h => by simp at h, fun h => by cases h⟩, fun _ => Or.inr ⟨_, rfl⟩, ?_⟩
        intro _ h; cases h
      · have hlt : idx < ct.signature.length := by omega
        obtain ⟨a, ha, hdrop⟩ := drop_eq_cons_of_lt ct.signature idx hlt
        rw [if_neg h1, hdrop, ha]
        obtain ⟨ih1, ih2, ih3⟩ := ih (idx + 1) f hr (by omega)
        cases hx : annotate_expr f ptable cur e with
        | error x =>
            rw [hx] at hty
            simp only [Except.map] at hty
            refine ⟨⟨fun h => by simp [bind, Except.bind] at h, fun h => ?_⟩, ?_, ?_⟩
            · cases h with
              | cons h' _ => rw [hty] at h'; cases h'
            · intro h
              obtain ⟨t, ht⟩ := h e (by simp)
              rw [hty] at ht; cases ht
            · intro h hu
              simp only [bind, Except.bind, Except.error.injEq] at hu
              subst hu
              exact h e (by simp) hty
        | ok arg =>
            rw [hx] at hty
            simp only [Except.map] at hty
            simp only [bind, Except.bind, throwTypeError]
            by_cases h3 : arg.type ≠ a
            · rw [if_pos h3]
              refine ⟨⟨fun h => by simp at h, fun h => ?_⟩, fun _ => Or.inr ⟨_, rfl⟩, ?_⟩
              · cases h with
                | cons h' _ =>
                    rw [hty] at h'
                    simp only [Except.ok.injEq] at h'
                    exact absurd h' h3
              · intro _ h; cases h
            · rw [if_neg h3]
              have h3' : arg.type = a := by simpa using h3
              cases hrec : annotate_args f ptable cur rest ct (idx + 1) with
              | error x =>
                  rw [hrec] at ih1 ih2 ih3
                  refine ⟨⟨fun h => by simp at h, fun h => ?_⟩, ?_, ?_⟩
                  · cases h with
                    | cons _ h' =>
                        obtain ⟨_, hcontra⟩ := ih1.mpr h'
                        cases hcontra
                  · intro h
                    rcases ih2 (fun e1 he1 => h e1 (List.mem_cons_of_mem _ he1)) with
                      ⟨_, h'⟩ | ⟨te, h'⟩
                    · cases h'
                    · exact Or.inr ⟨te, by rw [h']⟩
                  · intro h hu
                    simp only [Except.error.injEq] at hu
                    subst hu
                    exact ih3 (fun e1 he1 => h e1 (List.mem_cons_of_mem _ he1)) rfl
              | ok r =>
                  rw [hrec] at ih1
                  refine ⟨⟨fun _ => ?_, fun _ => ⟨_, rfl⟩⟩, fun _ => Or.inl ⟨_, rfl⟩, ?_⟩
                  · exact List.Forall₂.cons (by rw [hty, h3']) (ih1.mp ⟨r, rfl⟩)
                  · intro _ h; cases h

end WLP4ParseTree

end WLP4

namespace WLP4

namespace WLP4ParseTree

/-- The body of `annotate_factor` on a call: the name checks, then the
arguments. -/
theorem factor_call (f : Nat) (ptable : ProcTable) (cur : String) (node idn : Node)
    (hlen : node.children.length ≠ 1) (h0 : child node 0 = .ok idn) (hid : idn.kind = "ID") :
    annotate_factor (f + 1) ptable cur node =
      if secondWord idn.seq = "wain" then
        throwTypeError "Cannot call main procedure [wain]."
      else if secondWord idn.seq = (ptable.get cur).id ∧
          (ptable.get cur).count (secondWord idn.seq) ≠ 0 then
        throwTypeError ("Cannot call recurse procedure [" ++ secondWord idn.seq ++
          "] since declared as a local variable already.")
      else if ptable.count (secondWord idn.seq) = 0 then
        throwTypeError ("Procedure [" ++ secondWord idn.seq ++ "] called before declaration.")
      else
        child node 2 >>= fun c2 =>
          if c2.kind = "arglist" then
            annotate_args f ptable cur c2 (ptable.get (secondWord idn.seq)) 0 >>= fun args =>
              .ok ((node.setChild 2 args).setType TYPE_INT)
          else if (ptable.get (secondWord idn.seq)).signature.length ≠ 0 then
            throwTypeError ("Arity mismatch - expected no args in [" ++ secondWord idn.seq ++
              "].")
          else .ok (node.setType TYPE_INT) := by
  rw [annotate_factor]
  simp only [h0, hid, hlen, bind, Except.bind, pure, Except.pure, if_false, if_true]
  by_cases h1 : secondWord idn.seq = "wain"
  · rw [if_pos h1, if_pos h1]
  rw [if_neg h1, if_neg h1]
  by_cases h2 : secondWord idn.seq = (ptable.get cur).id ∧
      (ptable.get cur).count (secondWord idn.seq) ≠ 0
  · rw [if_pos h2, if_pos h2]
  rw [if_neg h2, if_neg h2]
  by_cases h3 : ptable.count (secondWord idn.seq) = 0
  · rw [if_pos h3, if_pos h3]
  rw [if_neg h3, if_neg h3]
  cases child node 2 with
  | error e => rfl
  | ok c2 => rfl

theorem forall₂_iff_index {α β : Type} (R : α → β → Prop) (l1 : List α) (l2 : List β) :
    List.Forall₂ R l1 l2 ↔
      l1.length = l2.length ∧ ∀ i (h1 : i < l1.length) (h2 : i < l2.length), R l1[i] l2[i] := by
  rw [List.forall₂_iff_get]
  constructor
  · rintro ⟨hl, h⟩
    exact ⟨hl, fun i h1 h2 => h i h1 h2⟩
  · rintro ⟨hl, h⟩
    exact ⟨hl, fun i h1 h2 => h i h1 h2⟩

/-- C18. Arity and argument types of a call.  For a call factor whose name
passes the name checks and whose callee has fewer than 2^32 parameters (the
source counts positions in an `unsigned int`), run with a budget of at least the
height of the node: without arguments the call is accepted exactly when the
stored signature is empty, and is a type error otherwise; with the argument
expressions `es` it is accepted exactly when `es` is as long as the signature
and each argument has the type the signature holds at its position; when every
argument has a type, the result is acceptance or a type error; and unless the
annotation of an argument is itself undefined, the result is never undefined,
that is, `annotate_args` reads the signature inside its bounds only. -/
theorem call_arity (ptable : ProcTable) (cur : String) (node idn lp : Node) (fuel : Nat)
    (hfuel : height node ≤ fuel) (hid : idn.kind = "ID")
    (hwain : secondWord idn.seq ≠ "wain")
    (hrec : ¬ (secondWord idn.seq = (ptable.get cur).id ∧
      (ptable.get cur).count (secondWord idn.seq) ≠ 0))
    (hknown : ptable.count (secondWord idn.seq) ≠ 0)
    (hL : (ptable.get (secondWord idn.seq)).signature.length < 2 ^ 32) :
    (∀ rp, node.children = [idn, lp, rp] → rp.kind ≠ "arglist" →
      ((∃ res, annotate_factor fuel ptable cur node = .ok res) ↔
        (ptable.get (secondWord idn.seq)).signature = []) ∧
      ((ptable.get (secondWord idn.seq)).signature ≠ [] →
        ∃ te, annotate_factor fuel ptable cur node = .error (.typeError te))) ∧
    (∀ args rp es, node.children = [idn, lp, args, rp] → args.kind = "arglist" →
      ArgList args es →
      ((∃ res, annotate_factor fuel ptable cur node = .ok res) ↔
        es.length = (ptable.get (secondWord idn.seq)).signature.length ∧
        ∀ i (h1 : i < es.length)
          (h2 : i < (ptable.get (secondWord idn.seq)).signature.length),
          exprType ptable cur es[i] = .ok (ptable.get (secondWord idn.seq)).signature[i]) ∧
      ((∀ e ∈ es, ∃ t, exprType ptable cur e = .ok t) →
        (∃ res, annotate_factor fuel ptable cur node = .ok res) ∨
          ∃ te, annotate_factor fuel ptable cur node = .error (.typeError te)) ∧
      ((∀ e ∈ es, exprType ptable cur e ≠ .error .undefined) →
        annotate_factor fuel ptable cur node ≠ .error .undefined)) := by
  obtain ⟨f, rfl⟩ : ∃ f, fuel = f + 1 := ⟨fuel - 1, by have := height_pos node; omega⟩
  constructor
  · intro rp hc hrp
    have h0 : child node 0 = .ok idn := by simp [child, hc]
    have h2 : child node 2 = .ok rp := by simp [child, hc]
    rw [factor_call f ptable cur node idn (by simp [hc]) h0 hid, if_neg hwain, if_neg hrec,
      if_neg hknown, h2]
    simp only [bind, Except.bind, if_neg hrp, throwTypeError]
    by_cases hs : (ptable.get (secondWord idn.seq)).signature = []
    · simp [hs]
    · have hs' : (ptable.get (secondWord idn.seq)).signature.length ≠ 0 := by
        simpa [List.length_eq_zero] using hs
      simp [hs, hs']
  · intro args rp es hc hk hargs
    have h0 : child node 0 = .ok idn := by simp [child, hc]
    have h2 : child node 2 = .ok args := by simp [child, hc]
    have hh : height args ≤ f := by
      have := height_lt_of_mem (show args ∈ node.children by simp [hc])
      omega
    rw [factor_call f ptable cur node idn (by simp [hc]) h0 hid, if_neg hwain, if_neg hrec,
      if_neg hknown, h2]
    simp only [bind, Except.bind, if_pos hk]
    obtain ⟨c1, c2, c3⟩ := args_core ptable cur (ptable.get (secondWord idn.seq))
      (lt_trans hL (by norm_num)) args es hargs 0 f hh (Nat.zero_le _)
    rw [List.drop_zero, forall₂_iff_index] at c1
    cases hx : annotate_args f ptable cur args (ptable.get (secondWord idn.seq)) 0 with
    | error x =>
        rw [hx] at c1 c2 c3
        refine ⟨⟨fun h => by simp at h, fun h => ?_⟩, fun h => ?_, fun h hu => ?_⟩
        · obtain ⟨_, hcontra⟩ := c1.mpr h
          cases hcontra
        · rcases c2 h with ⟨_, h'⟩ | ⟨te, h'⟩
          · cases h'
          · exact Or.inr ⟨te, by rw [h']⟩
        · simp only [Except.error.injEq] at hu
          subst hu
          exact c3 h rfl
    | ok a =>
        rw [hx] at c1
        refine ⟨⟨fun _ => c1.mp ⟨a, rfl⟩, fun _ => ⟨_, rfl⟩⟩, fun _ => Or.inl ⟨_, rfl⟩, ?_⟩
        intro _ h
        cases h

/-- Witness for C18: where `f` has the signature `int, int*`, `b : int` and
`a : int*`, the call `f(b, a)` is accepted. -/
theorem call_arity_witness :
    ∃ res, annotate_factor 7 exampleProcs "wain" (callNode "f" [exprId "b", exprId "a"]) =
      .ok res :=
  ((call_arity exampleProcs "wain" (callNode "f" [exprId "b", exprId "a"]) (tok "ID" "f" "")
      (tok "LPAREN" "(" "") 7 (by decide) (by decide) (by decide) (by decide) (by decide)
      (by decide)).2
    (argsNode [exprId "b", exprId "a"]) (tok "RPAREN" ")" "") [exprId "b", exprId "a"] rfl
    (by decide)
    (ArgList.more _ (exprId "b") (tok "COMMA" "," "") (argsNode [exprId "a"]) _ rfl
      (ArgList.one _ (exprId "a") rfl))).1.mpr
    ⟨by decide, fun i h1 h2 =>
      match i, h1, h2 with
      | 0, _, _ => rfl
      | 1, _, _ => rfl⟩

end WLP4ParseTree

end WLP4

namespace WLP4

namespace ProcTable

theorem procTable_count_set (ptable : ProcTable) (k q : String) (d : ProcData) :
    (ptable.set k d).count q = if q = k then 1 else ptable.count q := by
  unfold ProcTable.count
  rw [procTable_lookup_set]
  by_cases h : q = k
  · simp [h]
  · rw [if_neg h, if_neg h]

theorem get_set_ne (ptable : ProcTable) (k q : String) (d : ProcData) (h : q ≠ k) :
    (ptable.set k d).get q = ptable.get q := by
  unfold ProcTable.get
  rw [procTable_lookup_set]
  simp [h]

end ProcTable

namespace WLP4ParseTree

theorem keeps_refl (pt : ProcTable) (cur : String) : Keeps pt pt cur :=
  ⟨fun _ => rfl, rfl⟩

theorem keeps_trans {p1 p2 p3 : ProcTable} {cur : String} (h12 : Keeps p1 p2 cur)
    (h23 : Keeps p2 p3 cur) : Keeps p1 p3 cur :=
  ⟨fun q => (h23.1 q).trans (h12.1 q), h23.2.trans h12.2⟩

theorem keeps_set (pt : ProcTable) (cur : String) (d : ProcData) (hc : pt.count cur ≠ 0)
    (hd : d.id = (pt.get cur).id) : Keeps pt (pt.set cur d) cur := by
  refine ⟨fun q => ?_, by rw [ProcTable.get_set]; exact hd⟩
  rw [ProcTable.procTable_count_set]
  by_cases h : q = cur
  · subst h
    simp only [if_true]
    unfold ProcTable.count at hc ⊢
    split
    · rfl
    · simp_all
  · simp [h]

theorem keeps_count {pt pt1 : ProcTable} {cur : String} (h : Keeps pt pt1 cur)
    (hc : pt.count cur ≠ 0) : pt1.count cur ≠ 0 := by
  rw [h.1]; exact hc

/-- A declaration changes the entry of the current procedure only, and not its
name. -/
theorem dcl_keeps (pt : ProcTable) (cur : String) (n n1 : Node) (rv rv1 : Option Node)
    (pt1 : ProcTable) (hc : pt.count cur ≠ 0)
    (h : annotate_dcl pt cur n rv = .ok (n1, rv1, pt1)) : Keeps pt pt1 cur := by
  unfold annotate_dcl at h
  simp only [bind, Except.bind, pure, Except.pure, throwTypeError] at h
  repeat' split at h
  all_goals first
    | (cases h; done)
    | (cases h; exact keeps_set pt cur _ hc rfl)

theorem dcls_keeps (fuel : Nat) : ∀ (pt : ProcTable) (cur : String) (n n1 : Node)
    (pt1 : ProcTable), pt.count cur ≠ 0 →
    annotate_dcls fuel pt cur n = .ok (n1, pt1) → Keeps pt pt1 cur := by
  induction fuel with
  | zero =>
      intro _ _ _ _ _ _ h
      simp [annotate_dcls] at h
  | succ fuel ih =>
      intro pt cur n n1 pt1 hc h
      rw [annotate_dcls] at h
      simp only [bind, Except.bind, pure, Except.pure] at h
      by_cases hlen : n.children.length > 0
      · simp only [hlen, if_true] at h
        cases h1 : child n 1 with
        | error e => rw [h1] at h; simp at h
        | ok c1 =>
            cases h3 : child n 3 with
            | error e => rw [h1, h3] at h; simp at h
            | ok c3 =>
                rw [h1, h3] at h
                simp only [] at h
                cases hd : annotate_dcl pt cur c1 (some c3) with
                | error e => rw [hd] at h; simp at h
                | ok v =>
                    obtain ⟨d1, rv1, pta⟩ := v
                    rw [hd] at h
                    simp only [] at h
                    have k1 := dcl_keeps pt cur c1 d1 _ rv1 pta hc hd
                    cases h0 : child n 0 with
                    | error e => rw [h0] at h; simp at h
                    | ok c0 =>
                        rw [h0] at h
                        simp only [] at h
                        cases hr : annotate_dcls fuel pta cur c0 with
                        | error e => rw [hr] at h; simp at h
                        | ok w =>
                            obtain ⟨d0, ptb⟩ := w
                            rw [hr] at h
                            simp only [Except.ok.injEq, Prod.mk.injEq] at h
                            obtain ⟨_, rfl⟩ := h
                            exact keeps_trans k1 (ih pta cur c0 d0 ptb (keeps_count k1 hc) hr)
      · simp only [hlen, if_false, Except.ok.injEq, Prod.mk.injEq] at h
        obtain ⟨_, rfl⟩ := h
        exact keeps_refl pt cur

theorem params_keeps (fuel : Nat) : ∀ (pt : ProcTable) (cur : String) (n n1 : Node)
    (pt1 : ProcTable), pt.count cur ≠ 0 →
    annotate_params fuel pt cur n = .ok (n1, pt1) → Keeps pt pt1 cur := by
  induction fuel with
  | zero =>
      intro _ _ _ _ _ _ h
      simp [annotate_params] at h
  | succ fuel ih =>
      intro pt cur n n1 pt1 hc h
      rw [annotate_params] at h
      simp only [bind, Except.bind, pure, Except.pure, throwTypeError, dclType] at h
      by_cases hk : n.kind = "params"
      · simp only [hk, if_true] at h
        by_cases hlen : n.children.length > 0
        · simp only [hlen, if_true] at h
          cases h0 : child n 0 with
          | error e => rw [h0] at h; simp at h
          | ok c0 =>
              rw [h0] at h
              simp only [] at h
              cases hr : annotate_params fuel pt cur c0 with
              | error e => rw [hr] at h; simp at h
              | ok w =>
                  obtain ⟨d0, ptb⟩ := w
                  rw [hr] at h
                  simp only [Except.ok.injEq, Prod.mk.injEq] at h
                  obtain ⟨_, rfl⟩ := h
                  exact ih pt cur c0 d0 ptb hc hr
        · simp only [hlen, if_false, Except.ok.injEq, Prod.mk.injEq] at h
          obtain ⟨_, rfl⟩ := h
          exact keeps_refl pt cur
      · simp only [hk, if_false] at h
        by_cases hk2 : n.kind = "paramlist"
        · simp only [hk2, if_true] at h
          cases h0 : child n 0 with
          | error e => rw [h0] at h; simp at h
          | ok c0 =>
              rw [h0] at h
              simp only [] at h
              cases hd : annotate_dcl pt cur c0 none with
              | error e => rw [hd] at h; simp at h
              | ok v =>
                  obtain ⟨d1, rv1, pta⟩ := v
                  rw [hd] at h
                  simp only [] at h
                  have k1 := dcl_keeps pt cur c0 d1 _ rv1 pta hc hd
                  cases h1 : child d1 1 with
                  | error e => rw [h1] at h; simp at h
                  | ok idn =>
                      rw [h1] at h
                      simp only [] at h
                      have k2 := keeps_trans k1 (keeps_set pta cur
                        { pta.get cur with
                          signature := (pta.get cur).signature ++ [idn.type] }
                        (keeps_count k1 hc) rfl)
                      by_cases hlen : n.children.length > 1
                      · simp only [hlen, if_true] at h
                        cases h2 : child n 2 with
                        | error e => rw [h2] at h; simp at h
                        | ok c2 =>
                            rw [h2] at h
                            simp only [] at h
                            cases hr : annotate_params fuel _ cur c2 with
                            | error e => rw [hr] at h; simp at h
                            | ok w =>
                                obtain ⟨d2, ptb⟩ := w
                                rw [hr] at h
                                simp only [Except.ok.injEq, Prod.mk.injEq] at h
                                obtain ⟨_, rfl⟩ := h
                                exact keeps_trans k2 (ih _ cur c2 d2 ptb (keeps_count k2 hc) hr)
                      · simp only [hlen, if_false, Except.ok.injEq, Prod.mk.injEq] at h
                        obtain ⟨_, rfl⟩ := h
                        exact k2
        · simp [hk2] at h

end WLP4ParseTree

end WLP4

namespace WLP4

namespace WLP4ParseTree

/-- The method `annotate_proc` is its first part followed by the check of the
body. -/
theorem proc_phases (fuel : Nat) (ptable : ProcTable) (node idn : Node)
    (h1 : child node 1 = .ok idn) :
    annotate_proc (fuel + 1) ptable node =
      procDeclPhase fuel ptable node >>= procBodyPhase fuel node (secondWord idn.seq) := by
  rw [annotate_proc]
  unfold procDeclPhase procBodyPhase
  simp only [h1, bind, Except.bind, pure, Except.pure, throwTypeError]
  by_cases hc : ptable.count (secondWord idn.seq) > 0
  · simp only [hc, if_true]
  simp only [hc, if_false]
  generalize hD : (if (decide (node.kind = "main")) = true then _ else _ :
    Except Abort (Node × ProcTable × Nat)) = D
  cases D with
  | error e => rfl
  | ok v =>
      obtain ⟨node1, pt1, i⟩ := v
      simp only []
      cases child node i with
      | error e => rfl
      | ok ci =>
          simp only []
          cases annotate_dcls fuel pt1 (secondWord idn.seq) ci with
          | error e => rfl
          | ok w =>
              obtain ⟨dcls, pt2⟩ := w
              rfl

/-- The table under which the body of a procedure is checked: the table before,
with the procedure itself entered under its own name. -/
theorem procDecl_entered (fuel : Nat) (ptable : ProcTable) (node idn n1 : Node)
    (pt2 : ProcTable) (i : Nat) (h1 : child node 1 = .ok idn)
    (h : procDeclPhase fuel ptable node = .ok (n1, pt2, i)) :
    Entered ptable pt2 (secondWord idn.seq) := by
  unfold procDeclPhase at h
  simp only [h1, bind, Except.bind, pure, Except.pure, throwTypeError] at h
  by_cases hc : ptable.count (secondWord idn.seq) > 0
  · simp [hc] at h
  simp only [hc, if_false] at h
  have hc0 : (ptable.set (secondWord idn.seq) (ProcData.new (secondWord idn.seq))).count
      (secondWord idn.seq) ≠ 0 := by
    rw [ProcTable.procTable_count_set]; simp
  have hfin : ∀ pt1, Keeps (ptable.set (secondWord idn.seq)
      (ProcData.new (secondWord idn.seq))) pt1 (secondWord idn.seq) →
      Keeps pt1 pt2 (secondWord idn.seq) → Entered ptable pt2 (secondWord idn.seq) := by
    intro pt1 ka kb
    have k := keeps_trans ka kb
    refine ⟨by omega, ?_, fun q => ?_⟩
    · rw [k.2, ProcTable.get_set]; rfl
    · rw [k.1, ProcTable.procTable_count_set]
      by_cases hq : q = secondWord idn.seq
      · simp [hq]
      · simp [hq]
  generalize hD : (if (decide (node.kind = "main")) = true then _ else _ :
    Except Abort (Node × ProcTable × Nat)) = D at h
  cases D with
  | error e => simp at h
  | ok v =>
      obtain ⟨node1, pt1, j⟩ := v
      simp only [] at h
      have ka : Keeps (ptable.set (secondWord idn.seq) (ProcData.new (secondWord idn.seq)))
          pt1 (secondWord idn.seq) := by
        by_cases hm : node.kind = "main"
        · simp only [hm, decide_True, if_true] at hD
          cases h3 : child node 3 with
          | error e => rw [h3] at hD; simp at hD
          | ok c3 =>
              rw [h3] at hD
              simp only [] at hD
              cases hd1 : annotate_dcl _ (secondWord idn.seq) c3 none with
              | error e => rw [hd1] at hD; simp at hD
              | ok v1 =>
                  obtain ⟨d1, r1, pa⟩ := v1
                  rw [hd1] at hD
                  simp only [] at hD
                  have k1 := dcl_keeps _ _ c3 d1 _ r1 pa hc0 hd1
                  cases h5 : child node 5 with
                  | error e => rw [h5] at hD; simp at hD
                  | ok c5 =>
                      rw [h5] at hD
                      simp only [] at hD
                      cases hd2 : annotate_dcl pa (secondWord idn.seq) c5 none with
                      | error e => rw [hd2] at hD; simp at hD
                      | ok v2 =>
                          obtain ⟨d2, r2, pb⟩ := v2
                          rw [hd2] at hD
                          simp only [dclType, bind, Except.bind, pure, Except.pure] at hD
                          have k2 := dcl_keeps _ _ c5 d2 _ r2 pb (keeps_count k1 hc0) hd2
                          repeat' split at hD
                          all_goals first
                            | (cases hD; done)
                            | (cases hD; exact keeps_trans k1 k2)
        · simp only [hm, decide_False, Bool.false_eq_true, if_false] at hD
          cases h3 : child node 3 with
          | error e => rw [h3] at hD; simp at hD
          | ok c3 =>
              rw [h3] at hD
              simp only [] at hD
              cases hp : annotate_params fuel _ (secondWord idn.seq) c3 with
              | error e => rw [hp] at hD; simp at hD
              | ok v1 =>
                  obtain ⟨d1, pa⟩ := v1
                  rw [hp] at hD
                  simp only [Except.ok.injEq, Prod.mk.injEq] at hD
                  obtain ⟨_, rfl, _⟩ := hD
                  exact params_keeps fuel _ _ c3 d1 pa hc0 hp
      cases hi : child node j with
      | error e => rw [hi] at h; simp at h
      | ok ci =>
          rw [hi] at h
          simp only [] at h
          cases hd : annotate_dcls fuel pt1 (secondWord idn.seq) ci with
          | error e => rw [hd] at h; simp at h
          | ok w =>
              obtain ⟨dcls, pt3⟩ := w
              rw [hd] at h
              simp only [Except.ok.injEq, Prod.mk.injEq] at h
              obtain ⟨_, rfl, _⟩ := h
              exact hfin pt1 ka (dcls_keeps fuel pt1 _ ci dcls pt3 (keeps_count ka hc0) hd)

end WLP4ParseTree

end WLP4

namespace WLP4

namespace WLP4ParseTree

theorem type_setType (n : Node) (t : String) : (n.setType t).type = t := by
  obtain ⟨k, s, ty, cs⟩ := n
  rfl

/-- C17. Name checks at a call.  In the body of the procedure `cur`, a call
factor whose name is `wain`, or is the name recorded for `cur` while the symbol
table of `cur` holds a variable of that name, or is not in the procedure table,
is a type error.  In every other case the call without arguments to a callee
with an empty signature is accepted, the call with arguments is accepted as soon
as `annotate_args` accepts them, and an accepted call has type int.  The
procedure table of that point: `annotate_proc` is its first part followed by the
check of the body under the table the first part built, and that table holds the
procedures of the table before and the procedure itself, new to that table and
entered under its own name. -/
theorem call_name_checks (fuel : Nat) (ptable : ProcTable) (cur : String) :
    (∀ node idn, node.children.length ≠ 1 → child node 0 = .ok idn → idn.kind = "ID" →
      ((secondWord idn.seq = "wain" ∨
          (secondWord idn.seq = (ptable.get cur).id ∧
            (ptable.get cur).count (secondWord idn.seq) ≠ 0) ∨
          ptable.count (secondWord idn.seq) = 0) →
        ∃ te, annotate_factor (fuel + 1) ptable cur node = .error (.typeError te)) ∧
      (¬ (secondWord idn.seq = "wain" ∨
          (secondWord idn.seq = (ptable.get cur).id ∧
            (ptable.get cur).count (secondWord idn.seq) ≠ 0) ∨
          ptable.count (secondWord idn.seq) = 0) →
        (∀ lp rp, node.children = [idn, lp, rp] → rp.kind ≠ "arglist" →
          (ptable.get (secondWord idn.seq)).signature = [] →
          annotate_factor (fuel + 1) ptable cur node = .ok (node.setType TYPE_INT)) ∧
        (∀ lp args rp a, node.children = [idn, lp, args, rp] → args.kind = "arglist" →
          annotate_args fuel ptable cur args (ptable.get (secondWord idn.seq)) 0 = .ok a →
          annotate_factor (fuel + 1) ptable cur node =
            .ok ((node.setChild 2 a).setType TYPE_INT)) ∧
        (∀ res, annotate_factor (fuel + 1) ptable cur node = .ok res →
          res.type = TYPE_INT))) ∧
    (∀ node idn, child node 1 = .ok idn →
      annotate_proc (fuel + 1) ptable node =
        procDeclPhase fuel ptable node >>= procBodyPhase fuel node (secondWord idn.seq) ∧
      ∀ n1 pt2 i, procDeclPhase fuel ptable node = .ok (n1, pt2, i) →
        Entered ptable pt2 (secondWord idn.seq)) := by
  constructor
  · intro node idn hlen h0 hid
    have hcall := factor_call fuel ptable cur node idn hlen h0 hid
    constructor
    · intro h
      rw [hcall]
      by_cases h1 : secondWord idn.seq = "wain"
      · exact ⟨_, by rw [if_pos h1]; rfl⟩
      rw [if_neg h1]
      by_cases h2 : secondWord idn.seq = (ptable.get cur).id ∧
          (ptable.get cur).count (secondWord idn.seq) ≠ 0
      · exact ⟨_, by rw [if_pos h2]; rfl⟩
      rw [if_neg h2]
      have h3 : ptable.count (secondWord idn.seq) = 0 := by
        rcases h with h | h | h
        · exact absurd h h1
        · exact absurd h h2
        · exact h
      exact ⟨_, by rw [if_pos h3]; rfl⟩
    · intro h
      have h1 : ¬ secondWord idn.seq = "wain" := fun h' => h (Or.inl h')
      have h2 : ¬ (secondWord idn.seq = (ptable.get cur).id ∧
          (ptable.get cur).count (secondWord idn.seq) ≠ 0) := fun h' => h (Or.inr (Or.inl h'))
      have h3 : ¬ ptable.count (secondWord idn.seq) = 0 := fun h' => h (Or.inr (Or.inr h'))
      rw [if_neg h1, if_neg h2, if_neg h3] at hcall
      refine ⟨?_, ?_, ?_⟩
      · intro lp rp hc hrp hsig
        have hc2 : child node 2 = .ok rp := by simp [child, hc]
        rw [hcall, hc2]
        simp only [bind, Except.bind, if_neg hrp, hsig, List.length_nil, ne_eq,
          not_true_eq_false, if_false]
      · intro lp args rp a hc hk ha
        have hc2 : child node 2 = .ok args := by simp [child, hc]
        rw [hcall, hc2]
        simp only [bind, Except.bind, if_pos hk, ha]
      · intro res hres
        rw [hcall] at hres
        simp only [bind, Except.bind, throwTypeError] at hres
        repeat' split at hres
        all_goals first
          | (cases hres; done)
          | (cases hres; exact type_setType _ _)
  · intro node idn h1
    exact ⟨proc_phases fuel ptable node idn h1,
      fun n1 pt2 i h => procDecl_entered fuel ptable node idn n1 pt2 i h1 h⟩

/-- Witness for C17: in `wain`, under a table with `f`, `g` and `wain`, the
calls `wain()` and `h()` are type errors and `g()` has type int.  On the empty
table the recursive `int f(int x) { return f(x); }` is accepted and leaves `f`
in the table; `int f(int f) { return f(f); }` and `int f(int x) { return g(x); }`
are rejected. -/
theorem call_name_checks_witness :
    (∃ te, annotate_factor 3 exampleProcs "wain" (callNode "wain" []) =
      .error (.typeError te)) ∧
    (∃ te, annotate_factor 3 exampleProcs "wain" (callNode "h" []) =
      .error (.typeError te)) ∧
    annotate_factor 3 exampleProcs "wain" (callNode "g" []) =
      .ok ((callNode "g" []).setType TYPE_INT) ∧
    Entered [] [("f", { id := "f", signature := ["int"], symTable := [("x", "int")] })] "f" ∧
    (∃ res, annotate_proc 12 []
      (procNode "f" "x" (exprOf (callNode "f" [exprId "x"]))) =
        .ok (res, [("f", { id := "f", signature := ["int"], symTable := [("x", "int")] })])) ∧
    annotate_proc 12 [] (procNode "f" "f" (exprOf (callNode "f" [exprId "f"]))) =
      .error (.typeError ⟨"Cannot call recurse procedure [f] since declared as a local " ++
        "variable already."⟩) ∧
    annotate_proc 12 [] (procNode "f" "x" (exprOf (callNode "g" [exprId "x"]))) =
      .error (.typeError ⟨"Procedure [g] called before declaration."⟩) :=
  have A := (call_name_checks 2 exampleProcs "wain").1
  ⟨(A (callNode "wain" []) (tok "ID" "wain" "") (by decide) rfl rfl).1 (Or.inl (by decide)),
    (A (callNode "h" []) (tok "ID" "h" "") (by decide) rfl rfl).1
      (Or.inr (Or.inr (by decide))),
    ((A (callNode "g" []) (tok "ID" "g" "") (by decide) rfl rfl).2 (by decide)).1
      (tok "LPAREN" "(" "") (tok "RPAREN" ")" "") rfl (by decide) rfl,
    ((call_name_checks 11 [] "f").2
      (procNode "f" "x" (exprOf (callNode "f" [exprId "x"]))) (tok "ID" "f" "") rfl).2
      _ _ 6 rfl,
    ⟨_, rfl⟩, by rfl, by rfl⟩

end WLP4ParseTree

end WLP4

namespace WLP4

namespace ProcData

theorem symTable_count_set (table : ProcData) (id ty x : String) :
    (table.set id ty).count x = if x = id then 1 else table.count x := by
  unfold ProcData.count
  rw [symTable_lookup_set]
  by_cases h : x = id
  · simp [h]
  · rw [if_neg h, if_neg h]

end ProcData

namespace WLP4ParseTree

/-- The verdict of `annotate_dcl` on a declaration with a `NUM` or `NULL`
initialiser. -/
theorem dcl_verdict (pt : ProcTable) (cur : String) (dcl ty idn rv : Node)
    (hc : dcl.children = [ty, idn]) (hrv : rv.kind = "NUM" ∨ rv.kind = "NULL") :
    annotate_dcl pt cur dcl (some rv) =
      if (pt.get cur).count (secondWord idn.seq) ≠ 0 then
        throwTypeError ("Variable " ++ secondWord idn.seq ++ " is already declared.")
      else if ¬ initOK ⟨secondWord idn.seq,
          if ty.children.length = 1 then TYPE_INT else TYPE_INT_PTR, rv.kind⟩ then
        throwTypeError ("Expected type " ++
          (if ty.children.length = 1 then TYPE_INT else TYPE_INT_PTR) ++
          " when initializing " ++ secondWord idn.seq ++ " in [" ++ (pt.get cur).id ++ "].")
      else
        .ok (dcl.setChild 1
            (idn.setType (if ty.children.length = 1 then TYPE_INT else TYPE_INT_PTR)),
          some (rv.setType (if ty.children.length = 1 then TYPE_INT else TYPE_INT_PTR)),
          pt.set cur ((pt.get cur).set (secondWord idn.seq)
            (if ty.children.length = 1 then TYPE_INT else TYPE_INT_PTR))) := by
  have h0 : child dcl 0 = .ok ty := by simp [child, hc]
  have h1 : child dcl 1 = .ok idn := by simp [child, hc]
  unfold annotate_dcl
  simp only [h0, h1, bind, Except.bind, pure, Except.pure]
  by_cases hd : (pt.get cur).count (secondWord idn.seq) ≠ 0
  · rw [if_pos hd, if_pos hd]
  rw [if_neg hd, if_neg hd]
  unfold initOK annotate_token
  rcases hrv with hrv | hrv
  · by_cases hl : ty.children.length = 1
    · simp [hrv, hl, type_setType, TYPE_INT, TYPE_INT_PTR]
    · simp [hrv, hl, type_setType, TYPE_INT, TYPE_INT_PTR, throwTypeError]
  · by_cases hl : ty.children.length = 1
    · simp [hrv, hl, type_setType, TYPE_INT, TYPE_INT_PTR, throwTypeError]
    · simp [hrv, hl, type_setType, TYPE_INT, TYPE_INT_PTR]

theorem declsOK_snoc (table : ProcData) (ds : List Decl) (d : Decl) :
    DeclsOK table (ds ++ [d]) ↔
      table.count d.name = 0 ∧ initOK d ∧ DeclsOK (table.set d.name d.type) ds := by
  unfold DeclsOK
  have hnd : (List.map Decl.name (ds ++ [d])).Nodup ↔
      (ds.map Decl.name).Nodup ∧ ∀ x ∈ ds, x.name ≠ d.name := by
    rw [List.map_append, List.nodup_append]
    simp
  have hset : ∀ x : Decl, (table.set d.name d.type).count x.name = 0 ↔
      x.name ≠ d.name ∧ table.count x.name = 0 := by
    intro x
    rw [ProcData.symTable_count_set]
    by_cases heq : x.name = d.name
    · simp [heq]
    · simp [heq]
  rw [hnd]
  constructor
  · rintro ⟨⟨hn, hd⟩, hc, hi⟩
    exact ⟨hc d (by simp), hi d (by simp), hn,
      fun x hx => (hset x).mpr ⟨hd x hx, hc x (by simp [hx])⟩, fun x hx => hi x (by simp [hx])⟩
  · rintro ⟨hc, hi, hn, hcs, his⟩
    refine ⟨⟨hn, fun x hx => ((hset x).mp (hcs x hx)).1⟩, fun x hx => ?_, fun x hx => ?_⟩
    · rcases List.mem_append.mp hx with hx | hx
      · exact ((hset x).mp (hcs x hx)).2
      · rw [List.mem_singleton] at hx
        rw [hx]; exact hc
    · rcases List.mem_append.mp hx with hx | hx
      · exact his x hx
      · rw [List.mem_singleton] at hx
        rw [hx]; exact hi

/-- The verdict of `annotate_dcls`: acceptance exactly for declarations that pass
the checks, and a type error otherwise. -/
theorem dcls_verdict : ∀ (node : Node) (ds : List Decl), DclList node ds →
    (∀ d ∈ ds, d.init = "NUM" ∨ d.init = "NULL") →
    ∀ (fuel : Nat) (pt : ProcTable) (cur : String), ds.length < fuel →
      ((∃ r, annotate_dcls fuel pt cur node = .ok r) ↔ DeclsOK (pt.get cur) ds) ∧
      ((∃ r, annotate_dcls fuel pt cur node = .ok r) ∨
        ∃ te, annotate_dcls fuel pt cur node = .error (.typeError te)) := by
  intro node ds hl
  induction hl with
  | none n hc =>
      intro _ fuel pt cur hfuel
      obtain ⟨f, rfl⟩ : ∃ f, fuel = f + 1 := ⟨fuel - 1, by omega⟩
      rw [annotate_dcls]
      simp only [hc, List.length_nil, gt_iff_lt, lt_self_iff_false, if_false, pure, Except.pure]
      refine ⟨⟨fun _ => ?_, fun _ => ⟨_, rfl⟩⟩, Or.inl ⟨_, rfl⟩⟩
      unfold DeclsOK
      simp
  | snoc n sub dcl becomes rv semi ty idn ds hc hdc hsub ih =>
      intro hinit fuel pt cur hfuel
      obtain ⟨f, rfl⟩ : ∃ f, fuel = f + 1 := ⟨fuel - 1, by omega⟩
      have hf : ds.length < f := by
        simp only [List.length_append, List.length_singleton] at hfuel
        omega
      have hrv : rv.kind = "NUM" ∨ rv.kind = "NULL" :=
        hinit ⟨secondWord idn.seq, if ty.children.length = 1 then TYPE_INT else TYPE_INT_PTR,
          rv.kind⟩ (by simp)
      have h0 : child n 0 = .ok sub := by simp [child, hc]
      have h1 : child n 1 = .ok dcl := by simp [child, hc]
      have h3 : child n 3 = .ok rv := by simp [child, hc]
      rw [declsOK_snoc, annotate_dcls]
      simp only [hc, List.length_cons, gt_iff_lt, Nat.zero_lt_succ, if_true, h0, h1, h3, bind,
        Except.bind, pure, Except.pure, dcl_verdict pt cur dcl ty idn rv hdc hrv]
      by_cases hd : (pt.get cur).count (secondWord idn.seq) ≠ 0
      · rw [if_pos hd]
        simp only [throwTypeError]
        exact ⟨⟨fun h => by simp at h, fun h => absurd h.1 hd⟩, Or.inr ⟨_, rfl⟩⟩
      rw [if_neg hd]
      have hd0 : (pt.get cur).count (secondWord idn.seq) = 0 := by simpa using hd
      by_cases hi : initOK ⟨secondWord idn.seq,
          if ty.children.length = 1 then TYPE_INT else TYPE_INT_PTR, rv.kind⟩
      · rw [if_neg (not_not.mpr hi)]
        simp only []
        obtain ⟨ih1, ih2⟩ := ih (fun d hd => hinit d (by simp [hd])) f
          (pt.set cur ((pt.get cur).set (secondWord idn.seq)
            (if ty.children.length = 1 then TYPE_INT else TYPE_INT_PTR))) cur hf
        rw [ProcTable.get_set] at ih1
        cases hr : annotate_dcls f (pt.set cur ((pt.get cur).set (secondWord idn.seq)
            (if ty.children.length = 1 then TYPE_INT else TYPE_INT_PTR))) cur sub with
        | error e =>
            rw [hr] at ih1 ih2
            refine ⟨⟨fun h => by simp at h, fun h => ?_⟩, ?_⟩
            · obtain ⟨_, hcontra⟩ := ih1.mpr h.2.2
              cases hcontra
            · rcases ih2 with ⟨_, h'⟩ | ⟨te, h'⟩
              · cases h'
              · exact Or.inr ⟨te, by rw [h']⟩
        | ok w =>
            rw [hr] at ih1
            exact ⟨⟨fun _ => ⟨hd0, hi, ih1.mp ⟨w, rfl⟩⟩, fun _ => ⟨_, rfl⟩⟩, Or.inl ⟨_, rfl⟩⟩
      · rw [if_pos hi]
        simp only [throwTypeError]
        exact ⟨⟨fun h => by simp at h, fun h => absurd h.2.1 hi⟩, Or.inr ⟨_, rfl⟩⟩

end WLP4ParseTree

end WLP4

namespace WLP4

namespace WLP4ParseTree

theorem declsOK_perm (table : ProcData) (ds ds1 : List Decl) (hp : ds1.Perm ds) :
    DeclsOK table ds1 ↔ DeclsOK table ds := by
  unfold DeclsOK
  rw [(hp.map Decl.name).nodup_iff]
  constructor
  · rintro ⟨hn, hc, hi⟩
    exact ⟨hn, fun d hd => hc d (hp.mem_iff.mpr hd), fun d hd => hi d (hp.mem_iff.mpr hd)⟩
  · rintro ⟨hn, hc, hi⟩
    exact ⟨hn, fun d hd => hc d (hp.mem_iff.mp hd), fun d hd => hi d (hp.mem_iff.mp hd)⟩

/-- A declaration that is accepted records its name, and no name is lost. -/
theorem dcl_records (pt : ProcTable) (cur : String) (dcl ty idn n1 : Node)
    (rv rv1 : Option Node) (pt1 : ProcTable) (hc : dcl.children = [ty, idn])
    (h : annotate_dcl pt cur dcl rv = .ok (n1, rv1, pt1)) :
    (pt.get cur).count (secondWord idn.seq) = 0 ∧
    (pt1.get cur).count (secondWord idn.seq) ≠ 0 ∧
      ∀ x, (pt.get cur).count x ≠ 0 → (pt1.get cur).count x ≠ 0 := by
  have h0 : child dcl 0 = .ok ty := by simp [child, hc]
  have h1 : child dcl 1 = .ok idn := by simp [child, hc]
  have key : ∀ t : String, (pt.get cur).count (secondWord idn.seq) = 0 →
      pt1 = pt.set cur ((pt.get cur).set (secondWord idn.seq) t) →
      (pt.get cur).count (secondWord idn.seq) = 0 ∧
      (pt1.get cur).count (secondWord idn.seq) ≠ 0 ∧
        ∀ x, (pt.get cur).count x ≠ 0 → (pt1.get cur).count x ≠ 0 := by
    intro t h0 hpt
    subst hpt
    rw [ProcTable.get_set]
    refine ⟨h0, by rw [ProcData.symTable_count_set]; simp, fun x hx => ?_⟩
    rw [ProcData.symTable_count_set]
    by_cases hxe : x = secondWord idn.seq
    · simp [hxe]
    · rw [if_neg hxe]; exact hx
  unfold annotate_dcl at h
  simp only [h0, h1, bind, Except.bind, pure, Except.pure, throwTypeError] at h
  by_cases hd : (pt.get cur).count (secondWord idn.seq) ≠ 0
  · rw [if_pos hd] at h
    cases h
  rw [if_neg hd] at h
  have hd0 : (pt.get cur).count (secondWord idn.seq) = 0 := by simpa using hd
  repeat' split at h
  all_goals first
    | (cases h; done)
    | (cases h; exact key _ hd0 rfl)

/-- C19. Declarations.  In the procedure `cur`: a declaration, with or without
initialiser, whose name the symbol table of `cur` holds already (a parameter or
a local recorded before) is rejected with the error "already declared"; an
accepted declaration had a new name and records it, and no recorded name is
lost, so the parameters are in the table when the locals are checked.  For the
declarations `ds` of a `dcls` node, each initialised with `NUM` or `NULL`, and a
budget above their number: `annotate_dcls` accepts exactly when the names are
pairwise distinct, none is in the table yet, and each `NUM` initialises an int
and each `NULL` an int*; otherwise the result is a type error; and the verdict
is the same for every `dcls` node that holds the same declarations in another
order. -/
theorem declaration_checks (pt : ProcTable) (cur : String) :
    (∀ dcl ty idn rv, dcl.children = [ty, idn] →
      (pt.get cur).count (secondWord idn.seq) ≠ 0 →
      annotate_dcl pt cur dcl rv =
        .error (.typeError ⟨"Variable " ++ secondWord idn.seq ++ " is already declared."⟩)) ∧
    (∀ dcl ty idn rv n1 rv1 pt1, dcl.children = [ty, idn] →
      annotate_dcl pt cur dcl rv = .ok (n1, rv1, pt1) →
      (pt.get cur).count (secondWord idn.seq) = 0 ∧
      (pt1.get cur).count (secondWord idn.seq) ≠ 0 ∧
        ∀ x, (pt.get cur).count x ≠ 0 → (pt1.get cur).count x ≠ 0) ∧
    (∀ node ds fuel, DclList node ds → (∀ d ∈ ds, d.init = "NUM" ∨ d.init = "NULL") →
      ds.length < fuel →
      ((∃ r, annotate_dcls fuel pt cur node = .ok r) ↔ DeclsOK (pt.get cur) ds) ∧
      (¬ DeclsOK (pt.get cur) ds →
        ∃ te, annotate_dcls fuel pt cur node = .error (.typeError te)) ∧
      (∀ node1 ds1, DclList node1 ds1 → ds1.Perm ds →
        ((∃ r, annotate_dcls fuel pt cur node1 = .ok r) ↔
          ∃ r, annotate_dcls fuel pt cur node = .ok r))) := by
  refine ⟨?_, ?_, ?_⟩
  · intro dcl ty idn rv hc hd
    have h0 : child dcl 0 = .ok ty := by simp [child, hc]
    have h1 : child dcl 1 = .ok idn := by simp [child, hc]
    unfold annotate_dcl
    simp only [h0, h1, bind, Except.bind, pure, Except.pure, throwTypeError]
    rw [if_pos hd]
  · intro dcl ty idn rv n1 rv1 pt1 hc h
    exact dcl_records pt cur dcl ty idn n1 rv rv1 pt1 hc h
  · intro node ds fuel hl hinit hfuel
    obtain ⟨v1, v2⟩ := dcls_verdict node ds hl hinit fuel pt cur hfuel
    refine ⟨v1, fun hno => ?_, ?_⟩
    · rcases v2 with h | h
      · exact absurd (v1.mp h) hno
      · exact h
    · intro node1 ds1 hl1 hp
      have hinit1 : ∀ d ∈ ds1, d.init = "NUM" ∨ d.init = "NULL" :=
        fun d hd => hinit d (hp.mem_iff.mp hd)
      have hfuel1 : ds1.length < fuel := by rw [hp.length_eq]; exact hfuel
      rw [(dcls_verdict node1 ds1 hl1 hinit1 fuel pt cur hfuel1).1, v1]
      exact declsOK_perm (pt.get cur) ds ds1 hp

/-- Witness for C19: in `wain` with the variables `a`, `b`, `c`, the
declarations `int x = 0; int* y = NULL;` are accepted; `int b = 1;` repeats a
parameter, `int x = NULL;` has the wrong initialiser, and `int x = 1; int x = 2;`
repeats a local, whichever of the two is checked first. -/
theorem declaration_checks_witness :
    (∃ r, annotate_dcls 3 exampleVars "wain" exampleDcls = .ok r) ∧
    annotate_dcls 3 exampleVars "wain"
        (dclsNode dclsEmpty (dclNode false "b") (tok "NUM" "1" "")) =
      .error (.typeError ⟨"Variable b is already declared."⟩) ∧
    annotate_dcls 3 exampleVars "wain"
        (dclsNode dclsEmpty (dclNode false "x") (tok "NULL" "NULL" "")) =
      .error (.typeError ⟨"Expected type int when initializing x in [wain]."⟩) ∧
    annotate_dcls 3 exampleVars "wain"
        (dclsNode (dclsNode dclsEmpty (dclNode false "x") (tok "NUM" "1" ""))
          (dclNode false "x") (tok "NUM" "2" "")) =
      .error (.typeError ⟨"Variable x is already declared."⟩) :=
  ⟨((declaration_checks exampleVars "wain").2.2 exampleDcls
      [⟨"x", "int", "NUM"⟩, ⟨"y", "int*", "NULL"⟩] 3
      (DclList.snoc exampleDcls
        (dclsNode dclsEmpty (dclNode false "x") (tok "NUM" "0" "")) (dclNode true "y")
        (tok "BECOMES" "=" "") (tok "NULL" "NULL" "") (tok "SEMI" ";" "")
        (rule "type" "INT STAR" "" [tok "INT" "int" "", tok "STAR" "*" ""]) (tok "ID" "y" "")
        [⟨"x", "int", "NUM"⟩] rfl rfl
        (DclList.snoc (dclsNode dclsEmpty (dclNode false "x") (tok "NUM" "0" "")) dclsEmpty
          (dclNode false "x") (tok "BECOMES" "=" "") (tok "NUM" "0" "") (tok "SEMI" ";" "")
          (rule "type" "INT" "" [tok "INT" "int" ""]) (tok "ID" "x" "") [] rfl rfl
          (DclList.none dclsEmpty rfl)))
      (by decide) (by decide)).1.mpr (by unfold DeclsOK; decide),
    by rfl, by rfl, by rfl⟩

end WLP4ParseTree

end WLP4

namespace WLP4

namespace WLP4Scanner

/-- The scan of the line `a#`: the identifier is written, then the scan stops at
`#`. -/
theorem scanAll_a_hash :
    scanAll ["a#"] = ([("ID", "a")], .unaccepted "ERROR: Unaccepted token attempt - ") := by
  unfold scanAll
  rw [new_table]
  decide

/-- C28. An erroring scan can leave output behind: on the line `a#` the scanner
writes the line `ID a` to the output stream and then reports the unaccepted
token at `#`, so the text written to the output stream is not empty. -/
theorem scan_error_partial_output :
    scanAll ["a#"] = ([("ID", "a")], .unaccepted "ERROR: Unaccepted token attempt - ") ∧
    main ["a#"] = ("ID a\n", "ERROR: Unaccepted token attempt - \n", 0) ∧
    (main ["a#"]).1 ≠ "" := by
  refine ⟨scanAll_a_hash, ?_, ?_⟩
  · unfold main
    rw [scanAll_a_hash]
    decide
  · unfold main
    rw [scanAll_a_hash]
    decide

end WLP4Scanner

end WLP4

namespace WLP4

namespace WLP4Parser

/-- The driver of the parser on the line `ID x`: the parse stops at the token
and the error is reported. -/
theorem main_ID_x : main tinyTables ["ID x"] 2 = ([], "ERROR at 1\n", 0) := by
  decide

end WLP4Parser

end WLP4

namespace Assembler

theorem readProgram_error_exit (scan : String → Except ScanningFailure (List Token))
    (toNumber : Token → Int) (stdin : List String) (f : ScanningFailure)
    (h : readProgram scan stdin = .error f) :
    main scan toNumber stdin = ([], f.message ++ "\n", 1) := by
  unfold main
  rw [h]

theorem assemble_error_exit (scan : String → Except ScanningFailure (List Token))
    (toNumber : Token → Int) (stdin : List String) (program : List (List Token))
    (e : AssemblerException) (h : readProgram scan stdin = .ok program)
    (he : assemble toNumber (Assembler.new program) = .error e) :
    main scan toNumber stdin = ([], e.msg ++ "\n", 2) := by
  unfold main
  rw [h]
  simp only [he]

theorem assemble_ok_exit (scan : String → Except ScanningFailure (List Token))
    (toNumber : Token → Int) (stdin : List String) (program : List (List Token))
    (binary : List Int) (h : readProgram scan stdin = .ok program)
    (he : assemble toNumber (Assembler.new program) = .ok binary) :
    main scan toNumber stdin = (outputBytes binary, "", 0) := by
  unfold main
  rw [h]
  simp only [he]

/-- C29. Exit codes of the stage drivers.  The driver of the assembler returns 1
when a line fails to scan, 2 when `assemble` throws, and 0 when the words are
written.  The drivers of the scanner and of the parser return 0 on every input:
on the line `a#` the scanner reports an unaccepted token and exits with 0, and,
with the table fragment `tinyTables`, the parser reports `ERROR at 1` on the
line `ID x` and exits with 0. -/
theorem driver_exit_codes :
    (∀ stdin, (WLP4.WLP4Scanner.main stdin).2.2 = 0) ∧
    ((WLP4.WLP4Scanner.scanAll ["a#"]).2 =
        .unaccepted "ERROR: Unaccepted token attempt - " ∧
      (WLP4.WLP4Scanner.main ["a#"]).2.2 = 0) ∧
    (∀ T stdin steps, (WLP4.WLP4Parser.main T stdin steps).2.2 = 0) ∧
    WLP4.WLP4Parser.main WLP4.WLP4Parser.tinyTables ["ID x"] 2 = ([], "ERROR at 1\n", 0) ∧
    (∀ scan toNumber stdin,
      (∀ f, readProgram scan stdin = .error f → (main scan toNumber stdin).2.2 = 1) ∧
      (∀ program e, readProgram scan stdin = .ok program →
        assemble toNumber (Assembler.new program) = .error e →
        (main scan toNumber stdin).2.2 = 2) ∧
      (∀ program binary, readProgram scan stdin = .ok program →
        assemble toNumber (Assembler.new program) = .ok binary →
        (main scan toNumber stdin).2.2 = 0)) := by
  refine ⟨fun _ => rfl, ⟨?_, rfl⟩, fun _ _ _ => rfl, WLP4.WLP4Parser.main_ID_x, ?_⟩
  · rw [WLP4.WLP4Scanner.scanAll_a_hash]
  · intro scan toNumber stdin
    refine ⟨fun f h => ?_, fun program e h he => ?_, fun program binary h he => ?_⟩
    · rw [readProgram_error_exit scan toNumber stdin f h]
    · rw [assemble_error_exit scan toNumber stdin program e h he]
    · rw [assemble_ok_exit scan toNumber stdin program binary h he]

theorem charOf_eq (x : Int) : (charOf x : Int) = and64 x 255 := by
  have h := and64_mask x 8 (by norm_num)
  have e : (2:Int) ^ 8 - 1 = 255 := by norm_num
  rw [e] at h
  rw [h]
  unfold charOf
  have h0 : 0 ≤ x % 256 := Int.emod_nonneg _ (by norm_num)
  have e2 : (2:Int) ^ 8 = 256 := by norm_num
  rw [e2, Int.toNat_of_nonneg h0]

theorem outputBytes_cons (w : Int) (ws : List Int) :
    outputBytes (w :: ws) =
      [charOf (shr64 w 24), charOf (shr64 w 16), charOf (shr64 w 8), charOf w] ++
        outputBytes ws := by
  simp [outputBytes, List.flatMap_cons]

theorem outputBytes_length (ws : List Int) : (outputBytes ws).length = 4 * ws.length := by
  induction ws with
  | nil => rfl
  | cons w ws ih =>
      rw [outputBytes_cons, List.length_append, ih]
      simp only [List.length_cons, List.length_nil]
      omega

theorem outputBytes_at (ws : List Int) : ∀ (i : Nat) (w : Int), ws[i]? = some w →
    (outputBytes ws)[4 * i]? = some (charOf (shr64 w 24)) ∧
    (outputBytes ws)[4 * i + 1]? = some (charOf (shr64 w 16)) ∧
    (outputBytes ws)[4 * i + 2]? = some (charOf (shr64 w 8)) ∧
    (outputBytes ws)[4 * i + 3]? = some (charOf w) := by
  induction ws with
  | nil => intro i w h; simp at h
  | cons a ws ih =>
      intro i w h
      rw [outputBytes_cons]
      cases i with
      | zero =>
          simp only [List.getElem?_cons_zero, Option.some.injEq] at h
          subst h
          simp
      | succ i =>
          simp only [List.getElem?_cons_succ] at h
          obtain ⟨h0, h1, h2, h3⟩ := ih i w h
          have e0 : 4 * (i + 1) = 4 * i + 4 := by ring
          have e1 : 4 * (i + 1) + 1 = 4 * i + 1 + 4 := by ring
          have e2 : 4 * (i + 1) + 2 = 4 * i + 2 + 4 := by ring
          have e3 : 4 * (i + 1) + 3 = 4 * i + 3 + 4 := by ring
          have key : ∀ n, ([charOf (shr64 a 24), charOf (shr64 a 16), charOf (shr64 a 8),
              charOf a] ++ outputBytes ws)[n + 4]? = (outputBytes ws)[n]? := by
            intro n
            simp only [List.cons_append, List.nil_append, List.getElem?_cons_succ]
          refine ⟨?_, ?_, ?_, ?_⟩
          · rw [e0, key]; exact h0
          · rw [e1, key]; exact h1
          · rw [e2, key]; exact h2
          · rw [e3, key]; exact h3

/-- C26. The bytes the assembler driver writes.  When every line scans and the
program assembles to the words `binary`, the driver writes `4 * binary.length`
bytes and nothing else, exits with 0, and for every index `i` the bytes at the
positions `4i`, `4i+1`, `4i+2`, `4i+3` are `(w >> 24) & 255`, `(w >> 16) & 255`,
`(w >> 8) & 255` and `w & 255` of the word `w` of index `i`. -/
theorem driver_output_bytes (scan : String → Except ScanningFailure (List Token))
    (toNumber : Token → Int) (stdin : List String) (program : List (List Token))
    (binary : List Int) (hread : readProgram scan stdin = .ok program)
    (hasm : assemble toNumber (Assembler.new program) = .ok binary) :
    main scan toNumber stdin = (outputBytes binary, "", 0) ∧
    (outputBytes binary).length = 4 * binary.length ∧
    ∀ (i : Nat) (w : Int), binary[i]? = some w →
      ((outputBytes binary)[4 * i]?.map Int.ofNat = some (and64 (shr64 w 24) 255)) ∧
      ((outputBytes binary)[4 * i + 1]?.map Int.ofNat = some (and64 (shr64 w 16) 255)) ∧
      ((outputBytes binary)[4 * i + 2]?.map Int.ofNat = some (and64 (shr64 w 8) 255)) ∧
      ((outputBytes binary)[4 * i + 3]?.map Int.ofNat = some (and64 w 255)) := by
  refine ⟨assemble_ok_exit scan toNumber stdin program binary hread hasm,
    outputBytes_length binary, fun i w hw => ?_⟩
  obtain ⟨h0, h1, h2, h3⟩ := outputBytes_at binary i w hw
  rw [h0, h1, h2, h3]
  simp only [Option.map_some', Int.ofNat_eq_coe, charOf_eq, and_self]

end Assembler

namespace Assembler

theorem checkPass_line_error : ∀ (toks : List Token) (self : Assembler) (e : AssemblerException),
    checkPass_line self toks = .error e →
    ∃ tok ∈ toks, e = AssemblerException.new .DuplicateLabel tok.lexeme := by
  intro toks
  induction toks with
  | nil => intro self e h; simp [checkPass_line] at h
  | cons tok rest ih =>
      intro self e h
      rw [checkPass_line] at h
      by_cases hk : tok.kind = .LABEL
      · rw [if_pos hk] at h
        by_cases hc : count self.symbolTable tok.lexeme > 0
        · rw [if_pos hc] at h
          simp only [Except.error.injEq] at h
          exact ⟨tok, List.mem_cons_self _ _, h.symm⟩
        · rw [if_neg hc] at h
          obtain ⟨t, ht, he⟩ := ih _ e h
          exact ⟨t, List.mem_cons_of_mem _ ht, he⟩
      · rw [if_neg hk] at h
        simp at h

theorem checkPass_lines_error : ∀ (lines : List (List Token)) (self : Assembler)
    (e : AssemblerException), checkPass_lines self lines = .error e →
    ∃ tokLine ∈ lines, ∃ tok ∈ tokLine, e = AssemblerException.new .DuplicateLabel tok.lexeme := by
  intro lines
  induction lines with
  | nil => intro self e h; simp [checkPass_lines] at h
  | cons tokLine rest ih =>
      intro self e h
      rw [checkPass_lines] at h
      cases hl : checkPass_line self tokLine with
      | error e1 =>
          rw [hl] at h
          simp only [Except.error.injEq] at h
          subst h
          obtain ⟨tok, ht, he⟩ := checkPass_line_error tokLine self e1 hl
          exact ⟨tokLine, List.mem_cons_self _ _, tok, ht, he⟩
      | ok r =>
          obtain ⟨self1, hasInst⟩ := r
          rw [hl] at h
          simp only [] at h
          obtain ⟨l, hlm, tok, ht, he⟩ := ih _ e h
          exact ⟨l, List.mem_cons_of_mem _ hlm, tok, ht, he⟩

theorem codeGenPass_lines_error (toNumber : Token → Int) : ∀ (lines : List (List Token))
    (self : Assembler) (binary : List Int) (e : AssemblerException),
    codeGenPass_lines toNumber self binary lines = .error e →
    ∃ tokLine ∈ lines, ∃ e0 : AssemblerException, e = e0.tagLine tokLine := by
  intro lines
  induction lines with
  | nil => intro self binary e h; simp [codeGenPass_lines] at h
  | cons tokLine rest ih =>
      intro self binary e h
      rw [codeGenPass_lines] at h
      simp only [] at h
      by_cases hi : skipLabels tokLine 0 < tokLine.length
      · rw [if_pos hi] at h
        cases hb : buildInstruction toNumber { self with pc := self.pc + 1 } tokLine
            (skipLabels tokLine 0) with
        | error e1 =>
            rw [hb] at h
            simp only [Except.error.injEq] at h
            subst h
            unfold buildInstruction at hb
            cases ht : buildInstruction_try toNumber { self with pc := self.pc + 1 } tokLine
                (skipLabels tokLine 0) with
            | error e0 =>
                rw [ht] at hb
                simp only [Except.error.injEq] at hb
                exact ⟨tokLine, List.mem_cons_self _ _, e0, hb.symm⟩
            | ok v => rw [ht] at hb; simp at hb
        | ok inst =>
            rw [hb] at h
            simp only [] at h
            obtain ⟨l, hl, e0, he⟩ := ih _ _ e h
            exact ⟨l, List.mem_cons_of_mem _ hl, e0, he⟩
      · rw [if_neg hi] at h
        obtain ⟨l, hl, e0, he⟩ := ih _ _ e h
        exact ⟨l, List.mem_cons_of_mem _ hl, e0, he⟩

theorem foldl_lexemes_mem (c : Char) : ∀ (toks : List Token) (init : String), c ∈ init.data →
    c ∈ (toks.foldl (fun m tok => m ++ (tok.lexeme ++ " ")) init).data := by
  intro toks
  induction toks with
  | nil => intro init h; exact h
  | cons tok rest ih =>
      intro init h
      rw [List.foldl_cons]
      apply ih
      rw [String.data_append]
      exact List.mem_append_left _ h

/-- A message that `tagLine` has extended holds the line break of the marker. -/
theorem tagLine_newline (e0 : AssemblerException) (tokLine : List Token) :
    '\n' ∈ (e0.tagLine tokLine).msg.data := by
  unfold AssemblerException.tagLine
  apply foldl_lexemes_mem
  rw [String.data_append]
  exact List.mem_append_right _ (by decide)

/-- C30. Which errors of `assemble` carry the offending line.  An error of
`assemble` is either an error of `buildInstruction`, whose message `tagLine` has
extended with the marker and the lexemes of the line, or the `DuplicateLabel`
error of `checkPass`, whose message is the bare constructor text.  For the
program of the two lines `foo:` and `foo:` the message is
`ERROR: Label already declared - "foo:"`: it has no line break, so it is not a
message with a line appended. -/
theorem duplicate_label_untagged :
    (∀ (toNumber : Token → Int) (program : List (List Token)) (e : AssemblerException),
      assemble toNumber (Assembler.new program) = .error e →
      (∃ tokLine ∈ program, ∃ tok ∈ tokLine,
        e = AssemblerException.new .DuplicateLabel tok.lexeme) ∨
      (∃ tokLine ∈ program, ∃ e0 : AssemblerException, e = e0.tagLine tokLine)) ∧
    (∀ toNumber : Token → Int,
      assemble toNumber (Assembler.new [[⟨.LABEL, "foo:"⟩], [⟨.LABEL, "foo:"⟩]]) =
        .error ⟨.DuplicateLabel, "ERROR: Label already declared - \"foo:\""⟩) ∧
    (∀ (e0 : AssemblerException) (tokLine : List Token),
      (e0.tagLine tokLine).msg ≠ "ERROR: Label already declared - \"foo:\"") := by
  refine ⟨?_, fun _ => by rfl, ?_⟩
  · intro toNumber program e h
    unfold assemble at h
    cases hc : checkPass (Assembler.new program) with
    | error e1 =>
        rw [hc] at h
        simp only [Except.error.injEq] at h
        subst h
        unfold checkPass at hc
        exact Or.inl (checkPass_lines_error _ _ _ hc)
    | ok self1 =>
        rw [hc] at h
        simp only [] at h
        have hp : self1.program = program := by
          by_cases hnd : (declaredLabels program).Nodup
          · rw [checkPass_new_ok program hnd] at hc
            simp only [Except.ok.injEq] at hc
            rw [← hc]
          · obtain ⟨lex, hlex⟩ := checkPass_new_dup program hnd
            rw [hlex] at hc
            cases hc
        cases hg : codeGenPass toNumber self1 [] with
        | error e1 =>
            rw [hg] at h
            simp only [Except.error.injEq] at h
            subst h
            unfold codeGenPass at hg
            obtain ⟨l, hl, e0, he⟩ := codeGenPass_lines_error toNumber _ _ _ _ hg
            rw [hp] at hl
            exact Or.inr ⟨l, hl, e0, he⟩
        | ok r => rw [hg] at h; simp at h
  · intro e0 tokLine heq
    have h := tagLine_newline e0 tokLine
    rw [heq] at h
    exact absurd h (by decide)

end Assembler

namespace Assembler

theorem buildToken_reg_inv (toNumber : Token → Int) (self : Assembler) (tok : Token)
    (offset : Nat) (v : Int) (hoff : offset ≤ 26)
    (h : buildToken toNumber self tok .REG offset = .ok v) :
    ∃ n : Nat, n < 32 ∧ toNumber tok = (n : Int) ∧ v = ((2 ^ offset * n : Nat) : Int) := by
  have hk : tok.kind = .REG := by
    by_contra hk
    simp [buildToken, hk] at h
  have hr : 0 ≤ toNumber tok ∧ toNumber tok ≤ 31 := by
    by_contra hr
    have : toNumber tok < 0 ∨ toNumber tok > 31 := by omega
    simp [buildToken, buildRegister, hk, this, Except.map] at h
  obtain ⟨n, hn, hn32⟩ := IsReg.nat ⟨hk, hr.1, hr.2⟩
  rw [buildToken_reg toNumber self tok offset n hk hn hn32 hoff] at h
  simp only [Except.ok.injEq] at h
  exact ⟨n, hn32, hn, h.symm⟩

theorem buildToken_sep_inv (toNumber : Token → Int) (self : Assembler) (tok : Token)
    (kind : Token.Kind) (offset : Nat) (v : Int)
    (hs : kind = .COMMA ∨ kind = .LPAREN ∨ kind = .RPAREN)
    (h : buildToken toNumber self tok kind offset = .ok v) : v = 0 := by
  unfold buildToken at h
  split at h
  · simp at h
  · rcases hs with rfl | rfl | rfl <;> simp only [Except.ok.injEq] at h <;> exact h.symm

theorem buildToken_int_inv (toNumber : Token → Int) (self : Assembler) (tok : Token) (v : Int)
    (h : buildToken toNumber self tok .INT 16 = .ok v) :
    v = immediateOf toNumber self tok % 2 ^ 16 := by
  have hk : tok.kind = .INT ∨ tok.kind = .HEXINT ∨ tok.kind = .ID := by
    by_contra hk
    push_neg at hk
    simp [buildToken, hk.1, hk.2.1, hk.2.2] at h
  rw [buildToken_imm toNumber self tok 16 hk] at h
  have hv : ∀ imm : Int,
      (if imm < 0 ∧ sub64 0 imm > shr64 (2 ^ 16 - 1) 1 + 1 then
        (Except.error (AssemblerException.new .OutOfBoundsImm tok.lexeme) :
          Except AssemblerException Int)
      else if imm > 2 ^ 16 - 1 then
        .error (AssemblerException.new .OutOfBoundsImm tok.lexeme)
      else .ok (and64 imm (2 ^ 16 - 1))) = .ok v → v = imm % 2 ^ 16 := by
    intro imm hi
    split at hi
    · simp at hi
    · split at hi
      · simp at hi
      · simp only [Except.ok.injEq] at hi
        rw [← hi, and64_mask _ 16 (by norm_num)]
  unfold buildImmediate at h
  split at h
  · simp at h
  · simp only [buildMask_zero 16 (by norm_num)] at h
    unfold immediateOf
    by_cases hid : tok.kind = .ID
    · simp only [hid, ne_eq, not_true_eq_false, if_false, Nat.reduceLT, if_true] at h ⊢
      exact hv _ h
    · simp only [hid, ne_eq, not_false_eq_true, if_true] at h ⊢
      exact hv _ h

theorem loop_cons_inv (toNumber : Token → Int) (self : Assembler) (kind : Token.Kind)
    (offset : Nat) (format : List (Token.Kind × Nat)) (tok : Token) (toks : List Token)
    (inst w : Int)
    (h : buildInstruction_loop toNumber self ((kind, offset) :: format) (tok :: toks) inst =
      .ok w) :
    ∃ v, buildToken toNumber self tok kind offset = .ok v ∧
      buildInstruction_loop toNumber self format toks (or64 inst v) = .ok w := by
  rw [buildInstruction_loop] at h
  cases hb : buildToken toNumber self tok kind offset with
  | error e => rw [hb] at h; simp at h
  | ok v => rw [hb] at h; exact ⟨v, rfl, h⟩

theorem loop_nil_inv (toNumber : Token → Int) (self : Assembler) (toks : List Token)
    (inst w : Int) (h : buildInstruction_loop toNumber self [] toks inst = .ok w) : w = inst := by
  rw [loop_nil] at h
  simp only [Except.ok.injEq] at h
  exact h.symm

theorem try_inv (toNumber : Token → Int) (self : Assembler) (tokLine : List Token) (i : Nat)
    (tok : Token) (w : Int) (htok : tokLine[i]? = some tok)
    (h : buildInstruction_try toNumber self tokLine i = .ok w) :
    (tokLine.drop (i + 1)).length = (setupFormat (getOpType tok.lexeme)).length ∧
    buildInstruction_loop toNumber self (setupFormat (getOpType tok.lexeme))
      (tokLine.drop (i + 1)) (setupTemplate (getOpType tok.lexeme)) = .ok w := by
  unfold buildInstruction_try at h
  rw [htok] at h
  simp only [setupInstruction, List.nil_append] at h
  split at h
  · split at h
    · simp at h
    · split at h
      · simp at h
      · split at h
        · simp at h
        · rw [List.length_drop]
          exact ⟨by omega, h⟩
  · simp at h

theorem decode_R (T d s t : Nat) (hT : T < 64) (hd : d < 32) (hs : s < 32) (ht : t < 32) :
    decode ((T : Int) + d * 2 ^ 11 + s * 2 ^ 21 + t * 2 ^ 16) =
      { op := functOp T, d := d, s := s, t := t, imm := 0 } := by
  have e : ((T : Int) + d * 2 ^ 11 + s * 2 ^ 21 + t * 2 ^ 16) =
      ((T + d * 2 ^ 11 + s * 2 ^ 21 + t * 2 ^ 16 : Nat) : Int) := by push_cast; ring
  rw [e]
  unfold decode
  simp only [Int.toNat_ofNat]
  have h1 : (T + d * 2 ^ 11 + s * 2 ^ 21 + t * 2 ^ 16) / 2 ^ 26 = 0 := by omega
  have h2 : (T + d * 2 ^ 11 + s * 2 ^ 21 + t * 2 ^ 16) % 64 = T := by omega
  have h3 : (T + d * 2 ^ 11 + s * 2 ^ 21 + t * 2 ^ 16) / 2 ^ 11 % 32 = d := by omega
  have h4 : (T + d * 2 ^ 11 + s * 2 ^ 21 + t * 2 ^ 16) / 2 ^ 21 % 32 = s := by omega
  have h5 : (T + d * 2 ^ 11 + s * 2 ^ 21 + t * 2 ^ 16) / 2 ^ 16 % 32 = t := by omega
  rw [if_pos h1, h2, h3, h4, h5]

theorem decode_I (H s t m : Nat) (hH0 : 0 < H) (hH : H < 64) (hs : s < 32) (ht : t < 32)
    (hm : m < 2 ^ 16) :
    decode (((2 ^ 26 * H : Nat) : Int) + s * 2 ^ 21 + t * 2 ^ 16 + m) =
      { op := topOp H, d := 0, s := s, t := t, imm := m } := by
  have e : (((2 ^ 26 * H : Nat) : Int) + s * 2 ^ 21 + t * 2 ^ 16 + m) =
      ((2 ^ 26 * H + s * 2 ^ 21 + t * 2 ^ 16 + m : Nat) : Int) := by push_cast; ring
  rw [e]
  unfold decode
  simp only [Int.toNat_ofNat]
  have h1 : (2 ^ 26 * H + s * 2 ^ 21 + t * 2 ^ 16 + m) / 2 ^ 26 = H := by omega
  have h4 : (2 ^ 26 * H + s * 2 ^ 21 + t * 2 ^ 16 + m) / 2 ^ 21 % 32 = s := by omega
  have h5 : (2 ^ 26 * H + s * 2 ^ 21 + t * 2 ^ 16 + m) / 2 ^ 16 % 32 = t := by omega
  have h6 : (2 ^ 26 * H + s * 2 ^ 21 + t * 2 ^ 16 + m) % 2 ^ 16 = m := by omega
  rw [h1, if_neg (by omega), h4, h5, h6]

end Assembler

namespace Assembler

theorem fields_dst (toNumber : Token → Int) (self : Assembler) (T : Nat) (hT : T < 64)
    (a b c d e : Token) (w : Int)
    (h : buildInstruction_loop toNumber self
      [(.REG, 11), (.COMMA, 0), (.REG, 21), (.COMMA, 0), (.REG, 16)] [a, b, c, d, e] (T : Int) =
        .ok w) :
    decode w =
      { op := functOp T,
        d := regField toNumber [(.REG, 11), (.COMMA, 0), (.REG, 21), (.COMMA, 0), (.REG, 16)]
          [a, b, c, d, e] 11,
        s := regField toNumber [(.REG, 11), (.COMMA, 0), (.REG, 21), (.COMMA, 0), (.REG, 16)]
          [a, b, c, d, e] 21,
        t := regField toNumber [(.REG, 11), (.COMMA, 0), (.REG, 21), (.COMMA, 0), (.REG, 16)]
          [a, b, c, d, e] 16,
        imm := immField toNumber self
          [(.REG, 11), (.COMMA, 0), (.REG, 21), (.COMMA, 0), (.REG, 16)] [a, b, c, d, e] } := by
  obtain ⟨v1, b1, h⟩ := loop_cons_inv _ _ _ _ _ _ _ _ _ h
  obtain ⟨v2, b2, h⟩ := loop_cons_inv _ _ _ _ _ _ _ _ _ h
  obtain ⟨v3, b3, h⟩ := loop_cons_inv _ _ _ _ _ _ _ _ _ h
  obtain ⟨v4, b4, h⟩ := loop_cons_inv _ _ _ _ _ _ _ _ _ h
  obtain ⟨v5, b5, h⟩ := loop_cons_inv _ _ _ _ _ _ _ _ _ h
  have hw := loop_nil_inv _ _ _ _ _ h
  obtain ⟨dn, hd, hdn, rfl⟩ := buildToken_reg_inv _ _ _ _ _ (by norm_num) b1
  obtain ⟨sn, hs, hsn, rfl⟩ := buildToken_reg_inv _ _ _ _ _ (by norm_num) b3
  obtain ⟨tn, ht, htn, rfl⟩ := buildToken_reg_inv _ _ _ _ _ (by norm_num) b5
  have e2 := buildToken_sep_inv _ _ _ _ _ _ (Or.inl rfl) b2
  have e4 := buildToken_sep_inv _ _ _ _ _ _ (Or.inl rfl) b4
  subst e2 e4
  rw [hw, enc_dst T dn sn tn (by omega) hd hs ht, decode_R T dn sn tn hT hd hs ht]
  simp [regField, immField, hdn, hsn, htn]

theorem fields_st (toNumber : Token → Int) (self : Assembler) (T : Nat) (hT : T < 64)
    (a b c : Token) (w : Int)
    (h : buildInstruction_loop toNumber self [(.REG, 21), (.COMMA, 0), (.REG, 16)] [a, b, c]
      (T : Int) = .ok w) :
    decode w =
      { op := functOp T,
        d := regField toNumber [(.REG, 21), (.COMMA, 0), (.REG, 16)] [a, b, c] 11,
        s := regField toNumber [(.REG, 21), (.COMMA, 0), (.REG, 16)] [a, b, c] 21,
        t := regField toNumber [(.REG, 21), (.COMMA, 0), (.REG, 16)] [a, b, c] 16,
        imm := immField toNumber self [(.REG, 21), (.COMMA, 0), (.REG, 16)] [a, b, c] } := by
  obtain ⟨v1, b1, h⟩ := loop_cons_inv _ _ _ _ _ _ _ _ _ h
  obtain ⟨v2, b2, h⟩ := loop_cons_inv _ _ _ _ _ _ _ _ _ h
  obtain ⟨v3, b3, h⟩ := loop_cons_inv _ _ _ _ _ _ _ _ _ h
  have hw := loop_nil_inv _ _ _ _ _ h
  obtain ⟨sn, hs, hsn, rfl⟩ := buildToken_reg_inv _ _ _ _ _ (by norm_num) b1
  obtain ⟨tn, ht, htn, rfl⟩ := buildToken_reg_inv _ _ _ _ _ (by norm_num) b3
  have e2 := buildToken_sep_inv _ _ _ _ _ _ (Or.inl rfl) b2
  subst e2
  have hdec := decode_R T 0 sn tn hT (by norm_num) hs ht
  simp only [Nat.cast_zero, zero_mul, add_zero] at hdec
  rw [hw, enc_st T sn tn (by omega) hs ht, hdec]
  simp [regField, immField, hsn, htn]

theorem fields_one (toNumber : Token → Int) (self : Assembler) (T : Nat) (hT : T < 64)
    (k : Nat) (hk : k = 11 ∨ k = 21) (a : Token) (w : Int)
    (h : buildInstruction_loop toNumber self [(.REG, k)] [a] (T : Int) = .ok w) :
    decode w =
      { op := functOp T,
        d := regField toNumber [(.REG, k)] [a] 11,
        s := regField toNumber [(.REG, k)] [a] 21,
        t := regField toNumber [(.REG, k)] [a] 16,
        imm := immField toNumber self [(.REG, k)] [a] } := by
  obtain ⟨v1, b1, h⟩ := loop_cons_inv _ _ _ _ _ _ _ _ _ h
  have hw := loop_nil_inv _ _ _ _ _ h
  obtain ⟨rn, hr, hrn, rfl⟩ := buildToken_reg_inv _ _ _ _ _ (by rcases hk with rfl | rfl <;> norm_num) b1
  rw [hw, enc_one T rn k (by omega) hr hk]
  rcases hk with rfl | rfl
  · have hdec := decode_R T rn 0 0 hT hr (by norm_num) (by norm_num)
    simp only [Nat.cast_zero, zero_mul, add_zero] at hdec
    rw [hdec]
    simp [regField, immField, hrn]
  · have hdec := decode_R T 0 rn 0 hT (by norm_num) hr (by norm_num)
    simp only [Nat.cast_zero, zero_mul, add_zero] at hdec
    rw [hdec]
    simp [regField, immField, hrn]

theorem fields_br (toNumber : Token → Int) (self : Assembler) (H : Nat) (hH0 : 0 < H)
    (hH : H < 64) (a b c d e : Token) (w : Int)
    (h : buildInstruction_loop toNumber self
      [(.REG, 21), (.COMMA, 0), (.REG, 16), (.COMMA, 0), (.INT, 16)] [a, b, c, d, e]
      ((2 ^ 26 * H : Nat) : Int) = .ok w) :
    decode w =
      { op := topOp H,
        d := regField toNumber [(.REG, 21), (.COMMA, 0), (.REG, 16), (.COMMA, 0), (.INT, 16)]
          [a, b, c, d, e] 11,
        s := regField toNumber [(.REG, 21), (.COMMA, 0), (.REG, 16), (.COMMA, 0), (.INT, 16)]
          [a, b, c, d, e] 21,
        t := regField toNumber [(.REG, 21), (.COMMA, 0), (.REG, 16), (.COMMA, 0), (.INT, 16)]
          [a, b, c, d, e] 16,
        imm := immField toNumber self
          [(.REG, 21), (.COMMA, 0), (.REG, 16), (.COMMA, 0), (.INT, 16)] [a, b, c, d, e] } := by
  obtain ⟨v1, b1, h⟩ := loop_cons_inv _ _ _ _ _ _ _ _ _ h
  obtain ⟨v2, b2, h⟩ := loop_cons_inv _ _ _ _ _ _ _ _ _ h
  obtain ⟨v3, b3, h⟩ := loop_cons_inv _ _ _ _ _ _ _ _ _ h
  obtain ⟨v4, b4, h⟩ := loop_cons_inv _ _ _ _ _ _ _ _ _ h
  obtain ⟨v5, b5, h⟩ := loop_cons_inv _ _ _ _ _ _ _ _ _ h
  have hw := loop_nil_inv _ _ _ _ _ h
  obtain ⟨sn, hs, hsn, rfl⟩ := buildToken_reg_inv _ _ _ _ _ (by norm_num) b1
  obtain ⟨tn, ht, htn, rfl⟩ := buildToken_reg_inv _ _ _ _ _ (by norm_num) b3
  have e2 := buildToken_sep_inv _ _ _ _ _ _ (Or.inl rfl) b2
  have e4 := buildToken_sep_inv _ _ _ _ _ _ (Or.inl rfl) b4
  have e5 := buildToken_int_inv _ _ _ _ b5
  obtain ⟨m, hm, hm16⟩ := emod_two_pow_16 (immediateOf toNumber self e)
  subst e2 e4
  rw [e5, hm] at hw
  rw [hw, enc_br H sn tn m hH hs ht hm16, decode_I H sn tn m hH0 hH hs ht hm16]
  have e16 : (2:Int) ^ 16 = 65536 := by norm_num
  rw [e16] at hm
  simp [regField, immField, hsn, htn, hm]

theorem fields_mem (toNumber : Token → Int) (self : Assembler) (H : Nat) (hH0 : 0 < H)
    (hH : H < 64) (a b c d e f : Token) (w : Int)
    (h : buildInstruction_loop toNumber self
      [(.REG, 16), (.COMMA, 0), (.INT, 16), (.LPAREN, 0), (.REG, 21), (.RPAREN, 0)]
      [a, b, c, d, e, f] ((2 ^ 26 * H : Nat) : Int) = .ok w) :
    decode w =
      { op := topOp H,
        d := regField toNumber
          [(.REG, 16), (.COMMA, 0), (.INT, 16), (.LPAREN, 0), (.REG, 21), (.RPAREN, 0)]
          [a, b, c, d, e, f] 11,
        s := regField toNumber
          [(.REG, 16), (.COMMA, 0), (.INT, 16), (.LPAREN, 0), (.REG, 21), (.RPAREN, 0)]
          [a, b, c, d, e, f] 21,
        t := regField toNumber
          [(.REG, 16), (.COMMA, 0), (.INT, 16), (.LPAREN, 0), (.REG, 21), (.RPAREN, 0)]
          [a, b, c, d, e, f] 16,
        imm := immField toNumber self
          [(.REG, 16), (.COMMA, 0), (.INT, 16), (.LPAREN, 0), (.REG, 21), (.RPAREN, 0)]
          [a, b, c, d, e, f] } := by
  obtain ⟨v1, b1, h⟩ := loop_cons_inv _ _ _ _ _ _ _ _ _ h
  obtain ⟨v2, b2, h⟩ := loop_cons_inv _ _ _ _ _ _ _ _ _ h
  obtain ⟨v3, b3, h⟩ := loop_cons_inv _ _ _ _ _ _ _ _ _ h
  obtain ⟨v4, b4, h⟩ := loop_cons_inv _ _ _ _ _ _ _ _ _ h
  obtain ⟨v5, b5, h⟩ := loop_cons_inv _ _ _ _ _ _ _ _ _ h
  obtain ⟨v6, b6, h⟩ := loop_cons_inv _ _ _ _ _ _ _ _ _ h
  have hw := loop_nil_inv _ _ _ _ _ h
  obtain ⟨tn, ht, htn, rfl⟩ := buildToken_reg_inv _ _ _ _ _ (by norm_num) b1
  obtain ⟨sn, hs, hsn, rfl⟩ := buildToken_reg_inv _ _ _ _ _ (by norm_num) b5
  have e2 := buildToken_sep_inv _ _ _ _ _ _ (Or.inl rfl) b2
  have e4 := buildToken_sep_inv _ _ _ _ _ _ (Or.inr (Or.inl rfl)) b4
  have e6 := buildToken_sep_inv _ _ _ _ _ _ (Or.inr (Or.inr rfl)) b6
  have e3 := buildToken_int_inv _ _ _ _ b3
  obtain ⟨m, hm, hm16⟩ := emod_two_pow_16 (immediateOf toNumber self c)
  subst e2 e4 e6
  rw [e3, hm] at hw
  rw [hw, enc_mem H sn tn m hH hs ht hm16, decode_I H sn tn m hH0 hH hs ht hm16]
  have e16 : (2:Int) ^ 16 = 65536 := by norm_num
  rw [e16] at hm
  simp [regField, immField, hsn, htn, hm]

end Assembler

namespace Assembler

theorem length_one {α : Type} (l : List α) (h : l.length = 1) : ∃ a, l = [a] := by
  match l, h with
  | [a], _ => exact ⟨a, rfl⟩

theorem length_three {α : Type} (l : List α) (h : l.length = 3) : ∃ a b c, l = [a, b, c] := by
  match l, h with
  | [a, b, c], _ => exact ⟨a, b, c, rfl⟩

theorem length_five {α : Type} (l : List α) (h : l.length = 5) :
    ∃ a b c d e, l = [a, b, c, d, e] := by
  match l, h with
  | [a, b, c, d, e], _ => exact ⟨a, b, c, d, e, rfl⟩

theorem length_six {α : Type} (l : List α) (h : l.length = 6) :
    ∃ a b c d e f, l = [a, b, c, d, e, f] := by
  match l, h with
  | [a, b, c, d, e, f], _ => exact ⟨a, b, c, d, e, f, rfl⟩

/-- The word of an instruction line decodes to the opcode and operands of the
line. -/
theorem decode_line (toNumber : Token → Int) (self : Assembler) (tokLine : List Token)
    (i : Nat) (tok : Token) (w : Int) (htok : tokLine[i]? = some tok)
    (hop : getOpType tok.lexeme ≠ .dotword)
    (h : buildInstruction toNumber self tokLine i = .ok w) :
    decode w = lineFields toNumber self tokLine i := by
  obtain ⟨hlen, hloop⟩ := try_inv toNumber self tokLine i tok w htok
    (buildInstruction_inv toNumber self tokLine i w h)
  unfold lineFields
  rw [htok]
  simp only []
  generalize getOpType tok.lexeme = op at hop hlen hloop ⊢
  generalize tokLine.drop (i + 1) = toks at hlen hloop ⊢
  cases op <;> simp only [setupFormat, setupTemplate, List.length_cons, List.length_nil] at hlen hloop ⊢
  case invalid =>
    rw [List.length_eq_zero] at hlen
    subst hlen
    rw [loop_nil] at hloop
    simp only [Except.ok.injEq] at hloop
    subst hloop
    rfl
  case dotword => exact absurd rfl hop
  case add =>
    obtain ⟨a, b, c, d, e, rfl⟩ := length_five toks hlen
    exact fields_dst toNumber self 0x20 (by norm_num) a b c d e w hloop
  case sub =>
    obtain ⟨a, b, c, d, e, rfl⟩ := length_five toks hlen
    exact fields_dst toNumber self 0x22 (by norm_num) a b c d e w hloop
  case slt =>
    obtain ⟨a, b, c, d, e, rfl⟩ := length_five toks hlen
    exact fields_dst toNumber self 0x2a (by norm_num) a b c d e w hloop
  case sltu =>
    obtain ⟨a, b, c, d, e, rfl⟩ := length_five toks hlen
    exact fields_dst toNumber self 0x2b (by norm_num) a b c d e w hloop
  case mult =>
    obtain ⟨a, b, c, rfl⟩ := length_three toks hlen
    exact fields_st toNumber self 0x18 (by norm_num) a b c w hloop
  case multu =>
    obtain ⟨a, b, c, rfl⟩ := length_three toks hlen
    exact fields_st toNumber self 0x19 (by norm_num) a b c w hloop
  case div =>
    obtain ⟨a, b, c, rfl⟩ := length_three toks hlen
    exact fields_st toNumber self 0x1a (by norm_num) a b c w hloop
  case divu =>
    obtain ⟨a, b, c, rfl⟩ := length_three toks hlen
    exact fields_st toNumber self 0x1b (by norm_num) a b c w hloop
  case mfhi =>
    obtain ⟨a, rfl⟩ := length_one toks hlen
    exact fields_one toNumber self 0x10 (by norm_num) 11 (Or.inl rfl) a w hloop
  case mflo =>
    obtain ⟨a, rfl⟩ := length_one toks hlen
    exact fields_one toNumber self 0x12 (by norm_num) 11 (Or.inl rfl) a w hloop
  case lis =>
    obtain ⟨a, rfl⟩ := length_one toks hlen
    exact fields_one toNumber self 0x14 (by norm_num) 11 (Or.inl rfl) a w hloop
  case jr =>
    obtain ⟨a, rfl⟩ := length_one toks hlen
    exact fields_one toNumber self 0x08 (by norm_num) 21 (Or.inr rfl) a w hloop
  case jalr =>
    obtain ⟨a, rfl⟩ := length_one toks hlen
    exact fields_one toNumber self 0x09 (by norm_num) 21 (Or.inr rfl) a w hloop
  case beq =>
    obtain ⟨a, b, c, d, e, rfl⟩ := length_five toks hlen
    exact fields_br toNumber self 4 (by norm_num) (by norm_num) a b c d e w hloop
  case bne =>
    obtain ⟨a, b, c, d, e, rfl⟩ := length_five toks hlen
    exact fields_br toNumber self 5 (by norm_num) (by norm_num) a b c d e w hloop
  case lw =>
    obtain ⟨a, b, c, d, e, f, rfl⟩ := length_six toks hlen
    exact fields_mem toNumber self 35 (by norm_num) (by norm_num) a b c d e f w hloop
  case sw =>
    obtain ⟨a, b, c, d, e, f, rfl⟩ := length_six toks hlen
    exact fields_mem toNumber self 43 (by norm_num) (by norm_num) a b c d e f w hloop

/-- C25. Assembly round trip.  The function `decode` on words recovers, from the
word of every instruction line that assembles (any opcode but `.word`), the
opcode of the line, its register numbers in their roles `d`, `s`, `t` (0 for a
role the instruction does not have) and its immediate modulo 2^16 (the number
of the operand, or for a label its address minus the program counter; 0 when
the instruction has no immediate).  Hence two such lines with the same word
have the same opcode, the same registers and congruent immediates. -/
theorem assembly_roundtrip (toNumber : Token → Int) (self : Assembler) (tokLine : List Token)
    (i : Nat) (tok : Token) (w : Int) (htok : tokLine[i]? = some tok)
    (hop : getOpType tok.lexeme ≠ .dotword)
    (h : buildInstruction toNumber self tokLine i = .ok w) :
    decode w = lineFields toNumber self tokLine i ∧
    (lineFields toNumber self tokLine i).op = getOpType tok.lexeme ∧
    ∀ (self2 : Assembler) (tokLine2 : List Token) (j : Nat) (tok2 : Token),
      tokLine2[j]? = some tok2 → getOpType tok2.lexeme ≠ .dotword →
      buildInstruction toNumber self2 tokLine2 j = .ok w →
      lineFields toNumber self2 tokLine2 j = lineFields toNumber self tokLine i := by
  have h1 := decode_line toNumber self tokLine i tok w htok hop h
  refine ⟨h1, ?_, ?_⟩
  · unfold lineFields
    rw [htok]
  · intro self2 tokLine2 j tok2 htok2 hop2 h2
    rw [← decode_line toNumber self2 tokLine2 j tok2 w htok2 hop2 h2, h1]

theorem lw_line_word :
    buildInstruction decimalValue (Assembler.new [])
      [⟨.ID, "lw"⟩, ⟨.REG, "$3"⟩, ⟨.COMMA, ","⟩, ⟨.INT, "-4"⟩, ⟨.LPAREN, "("⟩, ⟨.REG, "$29"⟩,
        ⟨.RPAREN, ")"⟩] 0 = .ok 0x8fa3fffc := by
  decide

/-- Witness for C25: the line `lw $3, -4($29)` assembles to `0x8fa3fffc`, which
decodes to `lw` with `s = 29`, `t = 3` and the immediate `-4 mod 2^16 = 65532`. -/
theorem assembly_roundtrip_witness :
    decode 0x8fa3fffc = { op := .lw, d := 0, s := 29, t := 3, imm := 65532 } :=
  ((assembly_roundtrip decimalValue (Assembler.new [])
      [⟨.ID, "lw"⟩, ⟨.REG, "$3"⟩, ⟨.COMMA, ","⟩, ⟨.INT, "-4"⟩, ⟨.LPAREN, "("⟩, ⟨.REG, "$29"⟩,
        ⟨.RPAREN, ")"⟩] 0 ⟨.ID, "lw"⟩ 0x8fa3fffc rfl (by decide) lw_line_word).1).trans
    (by decide)

end Assembler

namespace WLP4

namespace WLP4Gen

theorem emit_out (g : Gen) (l : String) : (g.emit l).out = g.out ++ [l] := rfl

theorem child_cons0 (n c : Node) (cs : List Node) (h : n.children = c :: cs) : child n 0 = .ok c := by
  simp [child, h]

theorem child_cons1 (n a c : Node) (cs : List Node) (h : n.children = a :: c :: cs) :
    child n 1 = .ok c := by
  simp [child, h]

theorem child_cons2 (n a b c : Node) (cs : List Node) (h : n.children = a :: b :: c :: cs) :
    child n 2 = .ok c := by
  simp [child, h]

theorem numOfFactor_inv {f a : Node} (h : numOfFactor f = some a) :
    f.children = [a] ∧ f.kind = "factor" ∧ a.kind = "NUM" := by
  unfold numOfFactor at h
  split at h
  · split at h
    · rename_i n hc hk
      cases h
      exact ⟨hc, hk.1, hk.2⟩
    · cases h
  · cases h

theorem numOfTerm_inv {t a : Node} (h : numOfTerm t = some a) :
    ∃ f, t.children = [f] ∧ t.kind = "term" ∧ numOfFactor f = some a := by
  unfold numOfTerm at h
  split at h
  · split at h
    · rename_i f hc hk
      exact ⟨f, hc, hk, h⟩
    · cases h
  · cases h

theorem numOfExpr_inv {e a : Node} (h : numOfExpr e = some a) :
    ∃ t, e.children = [t] ∧ e.kind = "expr" ∧ numOfTerm t = some a := by
  unfold numOfExpr at h
  split at h
  · split at h
    · rename_i f hc hk
      exact ⟨f, hc, hk, h⟩
    · cases h
  · cases h

theorem expr_fold (fuel : Nat) (R : Regs) (table : ProcData) (node l o r a b : Node) (g : Gen)
    (hc : node.children = [l, o, r]) (hl : numOfExpr l = some a) (hr : numOfTerm r = some b) :
    generate_expr (fuel + 1) R table node g =
      .ok (3, (g.emit "\t\tlis $3").emit ("\t\t.word " ++ toString
        (if o.kind = "PLUS" then wrap32 (intOfSeq a.seq + intOfSeq b.seq)
         else wrap32 (intOfSeq a.seq - intOfSeq b.seq)))) := by
  obtain ⟨t, hlc, -, ht⟩ := numOfExpr_inv hl
  obtain ⟨f, htc, -, hf⟩ := numOfTerm_inv ht
  obtain ⟨hfc, -, hak⟩ := numOfFactor_inv hf
  obtain ⟨f2, hrc, -, hf2⟩ := numOfTerm_inv hr
  obtain ⟨hf2c, -, hbk⟩ := numOfFactor_inv hf2
  have hlen : ¬ node.children.length = 1 := by rw [hc]; simp
  unfold generate_expr
  simp only [bind, Except.bind, pure, Except.pure, if_neg hlen, child_cons0 _ _ _ hc,
    child_cons0 _ _ _ hlc, child_cons0 _ _ _ htc, child_cons0 _ _ _ hfc,
    child_cons2 _ _ _ _ _ hc, child_cons0 _ _ _ hrc, child_cons0 _ _ _ hf2c,
    child_cons1 _ _ _ _ hc, hak, hbk, and_self, if_true]

theorem term_fold (fuel : Nat) (R : Regs) (table : ProcData) (node l o r a b : Node) (g : Gen)
    (hc : node.children = [l, o, r]) (hl : numOfTerm l = some a) (hr : numOfFactor r = some b)
    (hy : o.kind ≠ "STAR" → intOfSeq b.seq ≠ 0) :
    generate_term (fuel + 1) R table node g =
      .ok (3, (g.emit "\t\tlis $3").emit ("\t\t.word " ++ toString
        (if o.kind = "STAR" then wrap32 (intOfSeq a.seq * intOfSeq b.seq)
         else if o.kind = "SLASH" then wrap32 (Int.tdiv (intOfSeq a.seq) (intOfSeq b.seq))
         else wrap32 (Int.tmod (intOfSeq a.seq) (intOfSeq b.seq))))) := by
  obtain ⟨f, htc, -, hf⟩ := numOfTerm_inv hl
  obtain ⟨hfc, -, hak⟩ := numOfFactor_inv hf
  obtain ⟨hf2c, -, hbk⟩ := numOfFactor_inv hr
  have hlen : ¬ node.children.length = 1 := by rw [hc]; simp
  have hz : ¬ (o.kind ≠ "STAR" ∧ intOfSeq b.seq = 0) := fun h => hy h.1 h.2
  unfold generate_term
  simp only [bind, Except.bind, pure, Except.pure, if_neg hlen, child_cons0 _ _ _ hc,
    child_cons0 _ _ _ htc, child_cons0 _ _ _ hfc,
    child_cons2 _ _ _ _ _ hc, child_cons0 _ _ _ hf2c,
    child_cons1 _ _ _ _ hc, hak, hbk, and_self, if_true, if_neg hz]

end WLP4Gen

end WLP4

namespace WLP4

namespace WLP4Gen

theorem Post.seq {β γ : Type} {Q : β → Prop} {P : γ → Prop} {x : Except Fault β}
    {f : β → Except Fault γ} (hx : Post Q x) (hf : ∀ v, Q v → Post P (f v)) :
    Post P (x >>= f) := by
  constructor
  intro v hv
  cases x with
  | error e => cases hv
  | ok a => exact (hf a (hx.result a rfl)).result v hv

theorem Post.ok {β : Type} {P : β → Prop} {v : β} (h : P v) : Post P (Except.ok v) := by
  constructor
  intro w hw
  cases hw
  exact h

theorem Post.pure {β : Type} {P : β → Prop} {v : β} (h : P v) :
    Post P (Pure.pure v : Except Fault β) := Post.ok h

theorem Post.error {β : Type} {P : β → Prop} (e : Fault) : Post P (Except.error e) := by
  constructor
  intro w hw
  cases hw

theorem Post.triv {β : Type} (x : Except Fault β) : Post (fun _ => True) x := ⟨fun _ _ => trivial⟩

theorem Post.cond {β : Type} {P : β → Prop} {c : Prop} [Decidable c] {a b : Except Fault β}
    (ha : c → Post P a) (hb : ¬ c → Post P b) : Post P (if c then a else b) := by
  split
  · exact ha ‹_›
  · exact hb ‹_›

theorem Ext.emit {base g : Gen} (h : Ext base g) (l : String) : Ext base (g.emit l) := by
  obtain ⟨m, hm⟩ := h
  exact ⟨m ++ [l], by simp [Gen.emit, hm]⟩

theorem Ext.push {base g : Gen} (h : Ext base g) (r : Int) : Ext base (push g r) :=
  (h.emit _).emit _

theorem Ext.pop {base g : Gen} (h : Ext base g) (r : Int) : Ext base (pop g r) :=
  (h.emit _).emit _

theorem Ext.same {base g g1 : Gen} (h : Ext base g) (ho : g1.out = g.out) : Ext base g1 := by
  obtain ⟨m, hm⟩ := h
  exact ⟨m, by rw [ho, hm]⟩

theorem Ext.here (g : Gen) : Ext g g := ⟨[], by simp⟩

theorem Ext.regLoop {base : Gen} (op : String) : ∀ (n : Nat) (sr pushC : Int) (g : Gen),
    Ext base g → Ext base (regLoop op n sr pushC g).1
  | 0, _, _, _, h => h
  | n + 1, sr, pushC, g, h => by
      unfold WLP4Gen.regLoop
      exact Ext.regLoop op n _ _ _ (h.emit _)

theorem token_grows (table : ProcData) (node : Node) (g : Gen) :
    Post (fun p => Grows g p.2) (generate_token table node g) := by
  constructor
  unfold generate_token
  simp only [bind, Except.bind, pure, Except.pure]
  intro v hv base hb
  repeat' split at hv
  all_goals first
    | (cases hv; done)
    | (cases hv; exact hb)
    | (cases hv; exact hb.emit _)
    | (cases hv; exact (hb.emit _).emit _)

theorem Post.bind2 {α γ : Type} {Q : α × Gen → Prop} {P : γ → Prop} {x : Except Fault (α × Gen)}
    {f : α × Gen → Except Fault γ} (hx : Post Q x) (hf : ∀ a g1, Q (a, g1) → Post P (f (a, g1))) :
    Post P (x >>= f) :=
  Post.seq hx (fun v hv => hf v.1 v.2 hv)

theorem Ext.setStackReg {base g : Gen} (h : Ext base g) (v : Int) : Ext base (g.setStackReg v) :=
  h.same rfl

theorem Ext.setStacked {base g : Gen} (h : Ext base g) (v : Int) : Ext base (g.setStacked v) :=
  h.same rfl

theorem Ext.setIfC {base g : Gen} (h : Ext base g) (v : Nat) : Ext base (g.setIfC v) :=
  h.same rfl

theorem Ext.setWhileC {base g : Gen} (h : Ext base g) (v : Nat) : Ext base (g.setWhileC v) :=
  h.same rfl

theorem Ext.setDeleteC {base g : Gen} (h : Ext base g) (v : Nat) : Ext base (g.setDeleteC v) :=
  h.same rfl

theorem Ext.branch {base a b : Gen} {c : Prop} [Decidable c] (ha : Ext base a) (hb : Ext base b) :
    Ext base (if c then a else b) := by
  split
  · exact ha
  · exact hb

theorem Ext.when2 {base X : Gen} {c : Prop} [Decidable c] (h : Ext base X) (a b : String) :
    Ext base (if c then (X.emit a).emit b else X) :=
  Ext.branch ((h.emit _).emit _) h

theorem Ext.cache {base X : Gen} {c : Prop} [Decidable c] (h : Ext base X) (a : String)
    (v w r : Int) : Ext base (if c then (X.emit a).setStackReg v else (WLP4Gen.push X r).setStacked w) :=
  Ext.branch ((h.emit _).setStackReg _) ((h.push _).setStacked _)

theorem Ext.uncache {base X : Gen} {c : Prop} [Decidable c] (h : Ext base X) (v r : Int) :
    Ext base (if c then (WLP4Gen.pop X r).setStacked v else X) :=
  Ext.branch ((h.pop _).setStacked _) h

theorem Ext.release {base X : Gen} {c : Prop} [Decidable c] (h : Ext base X) (v : Int) :
    Ext base (if c then X.setStackReg v else X) :=
  Ext.branch (h.setStackReg _) h

theorem Ext.cmp {base X : Gen} {c d : Prop} [Decidable c] [Decidable d] (h : Ext base X)
    (l1 l2 l3 l4 l5 : String) :
    Ext base (if c then X.emit l1 else if d then X.emit l2 else ((X.emit l3).emit l4).emit l5) :=
  Ext.branch (h.emit _) (Ext.branch (h.emit _) (((h.emit _).emit _).emit _))

theorem Post.mono {β : Type} {Q P : β → Prop} {x : Except Fault β} (hx : Post Q x)
    (h : ∀ v, Q v → P v) : Post P x :=
  ⟨fun v hv => h v (hx.result v hv)⟩

theorem Post.pure_bind {β γ : Type} {P : γ → Prop} {v : β} {f : β → Except Fault γ}
    (h : Post P (f v)) : Post P (Pure.pure v >>= f) := h

theorem stmts_grow_step (fuel : Nat) (ih : AllGrow fuel) (R : Regs) (table : ProcData) (node : Node)
    (g : Gen) : Post (Grows g) (generate_stmts (fuel + 1) R table node g) := by
  obtain ⟨ihS, ihs, iht, ihe, ihT, ihf, iha⟩ := ih
  unfold generate_stmts
  repeat' with_reducible first
    | exact Post.error _
    | exact ihS _ _ _ _
    | exact ihs _ _ _ _
    | exact iht _ _ _ _
    | exact ihe _ _ _ _
    | exact ihT _ _ _ _
    | exact ihf _ _ _ _
    | exact iha _ _ _ _ _
    | exact token_grows _ _ _
    | refine Post.mono (ihS _ _ _ _) ?_
    | refine Post.mono (ihs _ _ _ _) ?_
    | refine Post.mono (ihe _ _ _ _) ?_
    | refine Post.mono (ihT _ _ _ _) ?_
    | refine Post.mono (ihf _ _ _ _) ?_
    | refine Post.mono (iha _ _ _ _ _) ?_
    | refine Post.mono (token_grows _ _ _) ?_
    | exact Post.triv _
    | apply Post.cond
    | apply Post.pure_bind
    | apply Post.bind2
    | apply Post.seq
    | intro _
    | apply Post.pure
    | apply Post.ok
  all_goals repeat' with_reducible first
    | apply Ext.when2
    | apply Ext.cache
    | apply Ext.uncache
    | apply Ext.release
    | apply Ext.cmp
    | apply Ext.branch
    | apply Ext.emit
    | apply Ext.push
    | apply Ext.pop
    | apply Ext.setStackReg
    | apply Ext.setStacked
    | apply Ext.setIfC
    | apply Ext.setWhileC
    | apply Ext.setDeleteC
    | apply Ext.regLoop
    | assumption
    | apply_assumption

theorem stmt_grow_step (fuel : Nat) (ih : AllGrow fuel) (R : Regs) (table : ProcData) (node : Node)
    (g : Gen) : Post (Grows g) (generate_stmt (fuel + 1) R table node g) := by
  obtain ⟨ihS, ihs, iht, ihe, ihT, ihf, iha⟩ := ih
  unfold generate_stmt
  repeat' with_reducible first
    | exact Post.error _
    | exact ihS _ _ _ _
    | exact ihs _ _ _ _
    | exact iht _ _ _ _
    | exact ihe _ _ _ _
    | exact ihT _ _ _ _
    | exact ihf _ _ _ _
    | exact iha _ _ _ _ _
    | exact token_grows _ _ _
    | refine Post.mono (ihS _ _ _ _) ?_
    | refine Post.mono (ihs _ _ _ _) ?_
    | refine Post.mono (ihe _ _ _ _) ?_
    | refine Post.mono (ihT _ _ _ _) ?_
    | refine Post.mono (ihf _ _ _ _) ?_
    | refine Post.mono (iha _ _ _ _ _) ?_
    | refine Post.mono (token_grows _ _ _) ?_
    | exact Post.triv _
    | apply Post.cond
    | apply Post.pure_bind
    | apply Post.bind2
    | apply Post.seq
    | intro _
    | apply Post.pure
    | apply Post.ok
  all_goals repeat' with_reducible first
    | apply Ext.when2
    | apply Ext.cache
    | apply Ext.uncache
    | apply Ext.release
    | apply Ext.cmp
    | apply Ext.branch
    | apply Ext.emit
    | apply Ext.push
    | apply Ext.pop
    | apply Ext.setStackReg
    | apply Ext.setStacked
    | apply Ext.setIfC
    | apply Ext.setWhileC
    | apply Ext.setDeleteC
    | apply Ext.regLoop
    | assumption
    | apply_assumption

theorem test_grow_step (fuel : Nat) (ih : AllGrow fuel) (R : Regs) (table : ProcData) (node : Node)
    (g : Gen) : Post (Grows g) (generate_test (fuel + 1) R table node g) := by
  obtain ⟨ihS, ihs, iht, ihe, ihT, ihf, iha⟩ := ih
  unfold generate_test
  repeat' with_reducible first
    | exact Post.error _
    | exact ihS _ _ _ _
    | exact ihs _ _ _ _
    | exact iht _ _ _ _
    | exact ihe _ _ _ _
    | exact ihT _ _ _ _
    | exact ihf _ _ _ _
    | exact iha _ _ _ _ _
    | exact token_grows _ _ _
    | refine Post.mono (ihS _ _ _ _) ?_
    | refine Post.mono (ihs _ _ _ _) ?_
    | refine Post.mono (ihe _ _ _ _) ?_
    | refine Post.mono (ihT _ _ _ _) ?_
    | refine Post.mono (ihf _ _ _ _) ?_
    | refine Post.mono (iha _ _ _ _ _) ?_
    | refine Post.mono (token_grows _ _ _) ?_
    | exact Post.triv _
    | apply Post.cond
    | apply Post.pure_bind
    | apply Post.bind2
    | apply Post.seq
    | intro _
    | apply Post.pure
    | apply Post.ok
  all_goals repeat' with_reducible first
    | apply Ext.when2
    | apply Ext.cache
    | apply Ext.uncache
    | apply Ext.release
    | apply Ext.cmp
    | apply Ext.branch
    | apply Ext.emit
    | apply Ext.push
    | apply Ext.pop
    | apply Ext.setStackReg
    | apply Ext.setStacked
    | apply Ext.setIfC
    | apply Ext.setWhileC
    | apply Ext.setDeleteC
    | apply Ext.regLoop
    | assumption
    | apply_assumption

theorem expr_grow_step (fuel : Nat) (ih : AllGrow fuel) (R : Regs) (table : ProcData) (node : Node)
    (g : Gen) : Post (fun p => Grows g p.2) (generate_expr (fuel + 1) R table node g) := by
  obtain ⟨ihS, ihs, iht, ihe, ihT, ihf, iha⟩ := ih
  unfold generate_expr
  repeat' with_reducible first
    | exact Post.error _
    | exact ihS _ _ _ _
    | exact ihs _ _ _ _
    | exact iht _ _ _ _
    | exact ihe _ _ _ _
    | exact ihT _ _ _ _
    | exact ihf _ _ _ _
    | exact iha _ _ _ _ _
    | exact token_grows _ _ _
    | refine Post.mono (ihS _ _ _ _) ?_
    | refine Post.mono (ihs _ _ _ _) ?_
    | refine Post.mono (ihe _ _ _ _) ?_
    | refine Post.mono (ihT _ _ _ _) ?_
    | refine Post.mono (ihf _ _ _ _) ?_
    | refine Post.mono (iha _ _ _ _ _) ?_
    | refine Post.mono (token_grows _ _ _) ?_
    | exact Post.triv _
    | apply Post.cond
    | apply Post.pure_bind
    | apply Post.bind2
    | apply Post.seq
    | intro _
    | apply Post.pure
    | apply Post.ok
  all_goals repeat' with_reducible first
    | apply Ext.when2
    | apply Ext.cache
    | apply Ext.uncache
    | apply Ext.release
    | apply Ext.cmp
    | apply Ext.branch
    | apply Ext.emit
    | apply Ext.push
    | apply Ext.pop
    | apply Ext.setStackReg
    | apply Ext.setStacked
    | apply Ext.setIfC
    | apply Ext.setWhileC
    | apply Ext.setDeleteC
    | apply Ext.regLoop
    | assumption
    | apply_assumption

theorem term_grow_step (fuel : Nat) (ih : AllGrow fuel) (R : Regs) (table : ProcData) (node : Node)
    (g : Gen) : Post (fun p => Grows g p.2) (generate_term (fuel + 1) R table node g) := by
  obtain ⟨ihS, ihs, iht, ihe, ihT, ihf, iha⟩ := ih
  unfold generate_term
  repeat' with_reducible first
    | exact Post.error _
    | exact ihS _ _ _ _
    | exact ihs _ _ _ _
    | exact iht _ _ _ _
    | exact ihe _ _ _ _
    | exact ihT _ _ _ _
    | exact ihf _ _ _ _
    | exact iha _ _ _ _ _
    | exact token_grows _ _ _
    | refine Post.mono (ihS _ _ _ _) ?_
    | refine Post.mono (ihs _ _ _ _) ?_
    | refine Post.mono (ihe _ _ _ _) ?_
    | refine Post.mono (ihT _ _ _ _) ?_
    | refine Post.mono (ihf _ _ _ _) ?_
    | refine Post.mono (iha _ _ _ _ _) ?_
    | refine Post.mono (token_grows _ _ _) ?_
    | exact Post.triv _
    | apply Post.cond
    | apply Post.pure_bind
    | apply Post.bind2
    | apply Post.seq
    | intro _
    | apply Post.pure
    | apply Post.ok
  all_goals repeat' with_reducible first
    | apply Ext.when2
    | apply Ext.cache
    | apply Ext.uncache
    | apply Ext.release
    | apply Ext.cmp
    | apply Ext.branch
    | apply Ext.emit
    | apply Ext.push
    | apply Ext.pop
    | apply Ext.setStackReg
    | apply Ext.setStacked
    | apply Ext.setIfC
    | apply Ext.setWhileC
    | apply Ext.setDeleteC
    | apply Ext.regLoop
    | assumption
    | apply_assumption

theorem factor_grow_step (fuel : Nat) (ih : AllGrow fuel) (R : Regs) (table : ProcData) (node : Node)
    (g : Gen) : Post (fun p => Grows g p.2) (generate_factor (fuel + 1) R table node g) := by
  obtain ⟨ihS, ihs, iht, ihe, ihT, ihf, iha⟩ := ih
  unfold generate_factor
  repeat' with_reducible first
    | exact Post.error _
    | exact ihS _ _ _ _
    | exact ihs _ _ _ _
    | exact iht _ _ _ _
    | exact ihe _ _ _ _
    | exact ihT _ _ _ _
    | exact ihf _ _ _ _
    | exact iha _ _ _ _ _
    | exact token_grows _ _ _
    | refine Post.mono (ihS _ _ _ _) ?_
    | refine Post.mono (ihs _ _ _ _) ?_
    | refine Post.mono (ihe _ _ _ _) ?_
    | refine Post.mono (ihT _ _ _ _) ?_
    | refine Post.mono (ihf _ _ _ _) ?_
    | refine Post.mono (iha _ _ _ _ _) ?_
    | refine Post.mono (token_grows _ _ _) ?_
    | exact Post.triv _
    | apply Post.cond
    | apply Post.pure_bind
    | apply Post.bind2
    | apply Post.seq
    | intro _
    | apply Post.pure
    | apply Post.ok
  all_goals repeat' with_reducible first
    | apply Ext.when2
    | apply Ext.cache
    | apply Ext.uncache
    | apply Ext.release
    | apply Ext.cmp
    | apply Ext.branch
    | apply Ext.emit
    | apply Ext.push
    | apply Ext.pop
    | apply Ext.setStackReg
    | apply Ext.setStacked
    | apply Ext.setIfC
    | apply Ext.setWhileC
    | apply Ext.setDeleteC
    | apply Ext.regLoop
    | assumption
    | apply_assumption

theorem args_grow_step (fuel : Nat) (ih : AllGrow fuel) (R : Regs) (table : ProcData) (node : Node)
    (i : Int) (g : Gen) :
    Post (fun p => Grows g p.2) (generate_args (fuel + 1) R table node i g) := by
  obtain ⟨ihS, ihs, iht, ihe, ihT, ihf, iha⟩ := ih
  unfold generate_args
  repeat' with_reducible first
    | exact Post.error _
    | exact ihS _ _ _ _
    | exact ihs _ _ _ _
    | exact iht _ _ _ _
    | exact ihe _ _ _ _
    | exact ihT _ _ _ _
    | exact ihf _ _ _ _
    | exact iha _ _ _ _ _
    | exact token_grows _ _ _
    | refine Post.mono (ihS _ _ _ _) ?_
    | refine Post.mono (ihs _ _ _ _) ?_
    | refine Post.mono (ihe _ _ _ _) ?_
    | refine Post.mono (ihT _ _ _ _) ?_
    | refine Post.mono (ihf _ _ _ _) ?_
    | refine Post.mono (iha _ _ _ _ _) ?_
    | refine Post.mono (token_grows _ _ _) ?_
    | exact Post.triv _
    | apply Post.cond
    | apply Post.pure_bind
    | apply Post.bind2
    | apply Post.seq
    | intro _
    | apply Post.pure
    | apply Post.ok
  all_goals repeat' with_reducible first
    | apply Ext.when2
    | apply Ext.cache
    | apply Ext.uncache
    | apply Ext.release
    | apply Ext.cmp
    | apply Ext.branch
    | apply Ext.emit
    | apply Ext.push
    | apply Ext.pop
    | apply Ext.setStackReg
    | apply Ext.setStacked
    | apply Ext.setIfC
    | apply Ext.setWhileC
    | apply Ext.setDeleteC
    | apply Ext.regLoop
    | assumption
    | apply_assumption

theorem all_grow : ∀ fuel, AllGrow fuel
  | 0 => by
      refine ⟨?_, ?_, ?_, ?_, ?_, ?_, ?_⟩
      · intro R table node g
        unfold generate_stmts
        exact Post.error _
      · intro R table node g
        unfold generate_stmt
        exact Post.error _
      · intro R table node g
        unfold generate_test
        exact Post.error _
      · intro R table node g
        unfold generate_expr
        exact Post.error _
      · intro R table node g
        unfold generate_term
        exact Post.error _
      · intro R table node g
        unfold generate_factor
        exact Post.error _
      · intro R table node i g
        unfold generate_args
        exact Post.error _
  | fuel + 1 =>
      ⟨stmts_grow_step fuel (all_grow fuel), stmt_grow_step fuel (all_grow fuel),
       test_grow_step fuel (all_grow fuel), expr_grow_step fuel (all_grow fuel),
       term_grow_step fuel (all_grow fuel), factor_grow_step fuel (all_grow fuel),
       args_grow_step fuel (all_grow fuel)⟩

end WLP4Gen

end WLP4

namespace WLP4

namespace WLP4Gen

theorem Post.self {β : Type} (x : Except Fault β) : Post (fun v => x = .ok v) x := ⟨fun _ h => h⟩

theorem ok_bind {β γ : Type} (v : β) (f : β → Except Fault γ) : (Except.ok v >>= f) = f v := rfl

theorem expr_tail (X : Gen) (line a b : String) (c1 c2 : Prop) [Decidable c1] [Decidable c2]
    (v : Int) :
    (if c2 then (if c1 then ((X.emit line).emit a).emit b else X.emit line).setStackReg v
      else (if c1 then ((X.emit line).emit a).emit b else X.emit line)).out =
      X.out ++ line :: (if c1 then [a, b] else []) := by
  by_cases h1 : c1 <;> by_cases h2 : c2 <;> simp [h1, h2, Gen.emit, Gen.setStackReg]

theorem expr_finish (g X : Gen) (o : Node) (q r1 v : Int) (a b : String) (c1 c2 : Prop)
    [Decidable c1] [Decidable c2] (n : Int) (hX : Ext g X) :
    ∃ (X1 : Gen) (q1 r2 : Int) (tail : List String), Ext g X1 ∧
      (n, if c2 then
          (if c1 then
            ((X.emit (("\t\t" ++ if decide (o.kind = "PLUS") = true then "add" else "sub") ++
              " $3, $" ++ toString q ++ ", $" ++ toString r1)).emit a).emit b
           else X.emit (("\t\t" ++ if decide (o.kind = "PLUS") = true then "add" else "sub") ++
              " $3, $" ++ toString q ++ ", $" ++ toString r1)).setStackReg v
        else
          (if c1 then
            ((X.emit (("\t\t" ++ if decide (o.kind = "PLUS") = true then "add" else "sub") ++
              " $3, $" ++ toString q ++ ", $" ++ toString r1)).emit a).emit b
           else X.emit (("\t\t" ++ if decide (o.kind = "PLUS") = true then "add" else "sub") ++
              " $3, $" ++ toString q ++ ", $" ++ toString r1))).2.out =
        X1.out ++ (("\t\t" ++ if o.kind = "PLUS" then "add" else "sub") ++ " $3, $" ++
          toString q1 ++ ", $" ++ toString r2) :: tail := by
  refine ⟨X, q, r1, if c1 then [a, b] else [], hX, ?_⟩
  simp only [decide_eq_true_eq]
  exact expr_tail _ _ _ _ _ _ _

theorem expr_general (fuel : Nat) (R : Regs) (table : ProcData) (node l o r : Node) (g : Gen)
    (hc : node.children = [l, o, r])
    (hnf : ∀ a b c d e, child l 0 = .ok a → child a 0 = .ok b → child b 0 = .ok c →
      child r 0 = .ok d → child d 0 = .ok e → ¬ (c.kind = "NUM" ∧ e.kind = "NUM")) :
    Post (fun p => ∃ (X : Gen) (q r1 : Int) (tail : List String), Ext g X ∧ p.2.out = X.out ++
        ("\t\t" ++ (if o.kind = "PLUS" then "add" else "sub") ++ " $3, $" ++ toString q ++
          ", $" ++ toString r1) :: tail)
      (generate_expr (fuel + 1) R table node g) := by
  obtain ⟨ihS, ihs, iht, ihe, ihT, ihf, iha⟩ := all_grow fuel
  have hlen : ¬ node.children.length = 1 := by rw [hc]; simp
  unfold generate_expr
  simp only [if_neg hlen, child_cons0 _ _ _ hc, child_cons1 _ _ _ _ hc, child_cons2 _ _ _ _ _ hc,
    ok_bind]
  refine Post.seq (Post.self _) (fun a ha => ?_)
  refine Post.seq (Post.self _) (fun b hb => ?_)
  refine Post.seq (Post.self _) (fun c hc1 => ?_)
  refine Post.seq (Post.self _) (fun d hd => ?_)
  refine Post.seq (Post.self _) (fun e he => ?_)
  rw [if_neg (hnf a b c d e ha hb hc1 hd he)]
  refine Post.seq (ihe _ _ _ _) (fun p1 h1 => ?_)
  refine Post.seq (ihT _ _ _ _) (fun p2 h2 => ?_)
  refine Post.pure (expr_finish g _ o _ _ _ _ _ _ _ _ ?_)
  repeat' with_reducible first
    | apply Ext.when2
    | apply Ext.cache
    | apply Ext.uncache
    | apply Ext.release
    | apply Ext.cmp
    | apply Ext.branch
    | apply Ext.emit
    | apply Ext.push
    | apply Ext.pop
    | apply Ext.setStackReg
    | apply Ext.setStacked
    | exact Ext.here _
    | assumption
    | apply_assumption

end WLP4Gen

end WLP4

namespace WLP4

namespace WLP4Gen

theorem child_zero_inv {n c : Node} (h : child n 0 = .ok c) : ∃ cs, n.children = c :: cs := by
  unfold child at h
  cases hc : n.children with
  | nil => rw [hc] at h; simp at h
  | cons x xs =>
      rw [hc] at h
      simp at h
      exact ⟨xs, by rw [h]⟩

theorem parseTree_children {n c : Node} {cs : List Node} (hp : ParseTree n)
    (h : n.children = c :: cs) :
    (n.kind, (c :: cs).map Node.kind) ∈ productions ∧ ∀ x ∈ c :: cs, ParseTree x := by
  cases hp with
  | leaf k s t h0 => simp [Node.children] at h
  | node k s t cs1 h1 h2 =>
      simp only [Node.children] at h
      subst h
      refine ⟨?_, h2⟩
      simp only [rhsOf, List.mem_map, List.mem_filter, beq_iff_eq] at h1
      obtain ⟨p, ⟨hp1, hp2⟩, hp3⟩ := h1
      simp only [Node.kind]
      rw [← hp2, ← hp3]
      exact hp1

theorem prod_first_NUM : ∀ p ∈ productions, p.2.head? = some "NUM" → p = ("factor", ["NUM"]) := by
  decide

theorem prod_first_factor :
    ∀ p ∈ productions, p.2.head? = some "factor" → p = ("term", ["factor"]) := by
  decide

theorem prod_expr_first_term :
    ∀ p ∈ productions, p.1 = "expr" → p.2.head? = some "term" → p.2 = ["term"] := by
  decide

theorem prod_expr_three :
    ∀ p ∈ productions, p.1 = "expr" → p.2.length = 3 →
      p.2.head? = some "expr" ∧ p.2.getLast? = some "term" := by
  decide

theorem prod_term_three :
    ∀ p ∈ productions, p.1 = "term" → p.2.length = 3 →
      p.2.head? = some "term" ∧ p.2.getLast? = some "factor" := by
  decide

theorem factor_shape {f e : Node} (hp : ParseTree f) (h0 : child f 0 = .ok e)
    (he : e.kind = "NUM") : numOfFactor f = some e := by
  obtain ⟨cs, hcs⟩ := child_zero_inv h0
  obtain ⟨hm, -⟩ := parseTree_children hp hcs
  have h := prod_first_NUM _ hm (by simp [he])
  simp only [Prod.mk.injEq, List.map_cons, List.cons.injEq, List.map_eq_nil_iff] at h
  obtain ⟨hk, -, hnil⟩ := h
  subst hnil
  simp [numOfFactor, hcs, hk, he]

theorem term_shape {t f e : Node} (hp : ParseTree t) (h0 : child t 0 = .ok f)
    (h1 : child f 0 = .ok e) (he : e.kind = "NUM") : numOfTerm t = some e := by
  obtain ⟨cs, hcs⟩ := child_zero_inv h0
  obtain ⟨hm, hall⟩ := parseTree_children hp hcs
  have hf := factor_shape (hall f (by simp)) h1 he
  obtain ⟨-, hfk, -⟩ := numOfFactor_inv hf
  have h := prod_first_factor _ hm (by simp [hfk])
  simp only [Prod.mk.injEq, List.map_cons, List.cons.injEq, List.map_eq_nil_iff] at h
  obtain ⟨hk, -, hnil⟩ := h
  subst hnil
  simp [numOfTerm, hcs, hk, hf]

theorem expr_shape {x t f e : Node} (hp : ParseTree x) (hk : x.kind = "expr")
    (h0 : child x 0 = .ok t) (h1 : child t 0 = .ok f) (h2 : child f 0 = .ok e)
    (he : e.kind = "NUM") : numOfExpr x = some e := by
  obtain ⟨cs, hcs⟩ := child_zero_inv h0
  obtain ⟨hm, hall⟩ := parseTree_children hp hcs
  have ht := term_shape (hall t (by simp)) h1 h2 he
  obtain ⟨_, -, htk, -⟩ := numOfTerm_inv ht
  have h := prod_expr_first_term _ hm hk (by simp [htk])
  simp only [List.map_cons, List.cons.injEq, List.map_eq_nil_iff] at h
  obtain ⟨-, hnil⟩ := h
  subst hnil
  simp [numOfExpr, hcs, hk, ht]

end WLP4Gen

end WLP4

namespace WLP4

namespace WLP4Gen

theorem term_finish (g X : Gen) (o : Node) (q r1 v : Int) (c2 : Prop) [Decidable c2] (n : Int)
    (hX : Ext g X) :
    ∃ (X1 : Gen) (q1 r2 : Int), Ext g X1 ∧
      (n, if c2 then
          ((X.emit (("\t\t" ++ if o.kind = "STAR" then "mult" else "div") ++ " $" ++ toString q ++
            ", $" ++ toString r1)).emit
            (("\t\t" ++ if o.kind = "PCT" then "mfhi" else "mflo") ++ " $3")).setStackReg v
        else
          (X.emit (("\t\t" ++ if o.kind = "STAR" then "mult" else "div") ++ " $" ++ toString q ++
            ", $" ++ toString r1)).emit
            (("\t\t" ++ if o.kind = "PCT" then "mfhi" else "mflo") ++ " $3")).2.out =
        X1.out ++ [("\t\t" ++ if o.kind = "STAR" then "mult" else "div") ++ " $" ++ toString q1 ++
          ", $" ++ toString r2, ("\t\t" ++ if o.kind = "PCT" then "mfhi" else "mflo") ++ " $3"] := by
  refine ⟨X, q, r1, hX, ?_⟩
  by_cases h2 : c2 <;> simp [h2, Gen.emit, Gen.setStackReg]

theorem term_general (fuel : Nat) (R : Regs) (table : ProcData) (node l o r : Node) (g : Gen)
    (hc : node.children = [l, o, r])
    (hnf : ∀ a b e, child l 0 = .ok a → child a 0 = .ok b → child r 0 = .ok e →
      ¬ (b.kind = "NUM" ∧ e.kind = "NUM")) :
    Post (fun p => ∃ (X : Gen) (q r1 : Int), Ext g X ∧ p.2.out = X.out ++
        [("\t\t" ++ if o.kind = "STAR" then "mult" else "div") ++ " $" ++ toString q ++
          ", $" ++ toString r1, ("\t\t" ++ if o.kind = "PCT" then "mfhi" else "mflo") ++ " $3"])
      (generate_term (fuel + 1) R table node g) := by
  obtain ⟨ihS, ihs, iht, ihe, ihT, ihf, iha⟩ := all_grow fuel
  have hlen : ¬ node.children.length = 1 := by rw [hc]; simp
  unfold generate_term
  simp only [if_neg hlen, child_cons0 _ _ _ hc, child_cons1 _ _ _ _ hc, child_cons2 _ _ _ _ _ hc,
    ok_bind]
  refine Post.seq (Post.self _) (fun a ha => ?_)
  refine Post.seq (Post.self _) (fun b hb => ?_)
  refine Post.seq (Post.self _) (fun e he => ?_)
  rw [if_neg (hnf a b e ha hb he)]
  refine Post.seq (ihT _ _ _ _) (fun p1 h1 => ?_)
  refine Post.seq (ihf _ _ _ _) (fun p2 h2 => ?_)
  refine Post.pure (term_finish g _ o _ _ _ _ _ ?_)
  repeat' with_reducible first
    | apply Ext.when2
    | apply Ext.cache
    | apply Ext.uncache
    | apply Ext.release
    | apply Ext.cmp
    | apply Ext.branch
    | apply Ext.emit
    | apply Ext.push
    | apply Ext.pop
    | apply Ext.setStackReg
    | apply Ext.setStacked
    | exact Ext.here _
    | assumption
    | apply_assumption

theorem wrap32_of_range (v : Int) (h1 : -2 ^ 31 ≤ v) (h2 : v < 2 ^ 31) : wrap32 v = v := by
  unfold wrap32
  have h : (v + 2 ^ 31) % 2 ^ 32 = v + 2 ^ 31 := Int.emod_eq_of_lt (by omega) (by omega)
  rw [h]
  omega

theorem expr_kinds {node l o r : Node} (hp : ParseTree node) (hk : node.kind = "expr")
    (hc : node.children = [l, o, r]) : l.kind = "expr" ∧ ParseTree l ∧ ParseTree r := by
  obtain ⟨hm, hall⟩ := parseTree_children hp hc
  have h := prod_expr_three _ hm hk (by simp)
  simp at h
  exact ⟨h.1, hall l (by simp), hall r (by simp)⟩

theorem term_kinds {node l o r : Node} (hp : ParseTree node)
    (hc : node.children = [l, o, r]) : ParseTree l ∧ ParseTree r := by
  obtain ⟨-, hall⟩ := parseTree_children hp hc
  exact ⟨hall l (by simp), hall r (by simp)⟩

end WLP4Gen

end WLP4

namespace WLP4

namespace WLP4Gen

/-- C22. Constant folding.  Let `node` be a node of a parse tree with the three
children `l`, `o`, `r`.  If `node` is an `expr` whose left operand derives
`expr → term → factor → NUM` and whose right operand derives
`term → factor → NUM`, then `generate_expr` writes exactly the two lines
`lis $3` and `.word v` and returns register 3, where `v` is the sum of the two
literals under `PLUS` and their difference otherwise, computed on `int`; if an
operand has another shape, every successful run writes the `add` or `sub`
instruction of the node.  Likewise for a `term` whose operands are `NUM` leaves,
with the product, quotient or remainder (the divisor of a quotient or remainder
being different from zero), and the `mult` or `div` instruction with its `mflo` or
`mfhi` for the other shapes.  A value in the range of `int` is not changed by
the reduction to `int`. -/
theorem constant_folding (fuel : Nat) (R : Regs) (table : ProcData) (node l o r : Node)
    (g : Gen) (hp : ParseTree node) (hc : node.children = [l, o, r]) :
    (node.kind = "expr" →
      (∀ a b, numOfExpr l = some a → numOfTerm r = some b →
        generate_expr (fuel + 1) R table node g =
          .ok (3, (g.emit "\t\tlis $3").emit ("\t\t.word " ++ toString
            (if o.kind = "PLUS" then wrap32 (intOfSeq a.seq + intOfSeq b.seq)
             else wrap32 (intOfSeq a.seq - intOfSeq b.seq))))) ∧
      ((numOfExpr l = none ∨ numOfTerm r = none) → ∀ v g1,
        generate_expr (fuel + 1) R table node g = .ok (v, g1) →
        ∃ (X : Gen) (q r1 : Int) (tail : List String), Ext g X ∧ g1.out = X.out ++
          (("\t\t" ++ if o.kind = "PLUS" then "add" else "sub") ++ " $3, $" ++ toString q ++
            ", $" ++ toString r1) :: tail)) ∧
    (node.kind = "term" →
      (∀ a b, numOfTerm l = some a → numOfFactor r = some b →
        (o.kind ≠ "STAR" → intOfSeq b.seq ≠ 0) →
        generate_term (fuel + 1) R table node g =
          .ok (3, (g.emit "\t\tlis $3").emit ("\t\t.word " ++ toString
            (if o.kind = "STAR" then wrap32 (intOfSeq a.seq * intOfSeq b.seq)
             else if o.kind = "SLASH" then wrap32 (Int.tdiv (intOfSeq a.seq) (intOfSeq b.seq))
             else wrap32 (Int.tmod (intOfSeq a.seq) (intOfSeq b.seq)))))) ∧
      ((numOfTerm l = none ∨ numOfFactor r = none) → ∀ v g1,
        generate_term (fuel + 1) R table node g = .ok (v, g1) →
        ∃ (X : Gen) (q r1 : Int), Ext g X ∧ g1.out = X.out ++
          [("\t\t" ++ if o.kind = "STAR" then "mult" else "div") ++ " $" ++ toString q ++
            ", $" ++ toString r1,
           ("\t\t" ++ if o.kind = "PCT" then "mfhi" else "mflo") ++ " $3"])) ∧
    (∀ v : Int, -2 ^ 31 ≤ v → v < 2 ^ 31 → wrap32 v = v) := by
  refine ⟨fun hk => ⟨fun a b hl hr => expr_fold fuel R table node l o r a b g hc hl hr, ?_⟩,
    fun hk => ⟨fun a b hl hr hy => term_fold fuel R table node l o r a b g hc hl hr hy, ?_⟩,
    wrap32_of_range⟩
  · intro hnone v g1 h
    obtain ⟨hlk, hpl, hpr⟩ := expr_kinds hp hk hc
    refine (expr_general fuel R table node l o r g hc ?_).result (v, g1) h
    intro a b c d e ha hb hc1 hd he hnum
    rcases hnone with hn | hn
    · rw [expr_shape hpl hlk ha hb hc1 hnum.1] at hn
      cases hn
    · rw [term_shape hpr hd he hnum.2] at hn
      cases hn
  · intro hnone v g1 h
    obtain ⟨hpl, hpr⟩ := term_kinds hp hc
    refine (term_general fuel R table node l o r g hc ?_).result (v, g1) h
    intro a b e ha hb he hnum
    rcases hnone with hn | hn
    · rw [term_shape hpl ha hb hnum.1] at hn
      cases hn
    · rw [factor_shape hpr he hnum.2] at hn
      cases hn

theorem parseTree_leaf (k lex t : String) (h : rhsOf k = []) :
    ParseTree (WLP4ParseTree.tok k lex t) :=
  ParseTree.leaf _ _ _ h

theorem parseTree_numFactor (n : String) : ParseTree (numFactor n) :=
  ParseTree.node _ _ _ _ (by simp [rhsOf_factor, WLP4ParseTree.tok, Node.kind]) (by
    intro c hc
    simp only [List.mem_singleton] at hc
    subst hc
    exact parseTree_leaf _ _ _ (by decide))

theorem parseTree_idFactor (n : String) : ParseTree (idFactor n) :=
  ParseTree.node _ _ _ _ (by simp [rhsOf_factor, WLP4ParseTree.tok, Node.kind]) (by
    intro c hc
    simp only [List.mem_singleton] at hc
    subst hc
    exact parseTree_leaf _ _ _ (by decide))

theorem parseTree_termOf (f : Node) (hk : f.kind = "factor") (hf : ParseTree f) :
    ParseTree (termOf f) :=
  ParseTree.node _ _ _ _ (by simp [hk, rhsOf_term]) (by
    intro c hc
    simp only [List.mem_singleton] at hc
    subst hc
    exact hf)

theorem parseTree_exprOfTerm (t : Node) (hk : t.kind = "term") (ht : ParseTree t) :
    ParseTree (exprOfTerm t) :=
  ParseTree.node _ _ _ _ (by simp [hk, rhsOf_expr]) (by
    intro c hc
    simp only [List.mem_singleton] at hc
    subst hc
    exact ht)

theorem parseTree_plus (l r : Node) (hl : l.kind = "expr") (hr : r.kind = "term")
    (hpl : ParseTree l) (hpr : ParseTree r) : ParseTree (addNode "PLUS" "+" l r) :=
  ParseTree.node _ _ _ _ (by simp [hl, hr, rhsOf_expr, WLP4ParseTree.tok]) (by
    intro c hc
    simp only [List.mem_cons, List.mem_singleton, List.not_mem_nil, or_false] at hc
    rcases hc with rfl | rfl | rfl
    · exact hpl
    · exact parseTree_leaf _ _ _ (by decide)
    · exact hpr)

/-- Witness for C22: `2 + 3` is folded to `lis $3`, `.word 5`, and `b + 3`, whose
left operand is a variable, is not. -/
theorem constant_folding_witness :
    generate_expr 1 exampleRegs exampleTable
        (addNode "PLUS" "+" (exprOfTerm (termOf (numFactor "2"))) (termOf (numFactor "3")))
        (Gen.new exampleRegs) =
      .ok (3, { Gen.new exampleRegs with out := ["\t\tlis $3", "\t\t.word 5"] }) ∧
    generate_expr 4 exampleRegs exampleTable
        (addNode "PLUS" "+" (exprOfTerm (termOf (idFactor "b"))) (termOf (numFactor "3")))
        (Gen.new exampleRegs) =
      .ok (3, { Gen.new exampleRegs with out := ["\t\tlw $3, -4($29)", "\t\tadd $12, $3, $0",
        "\t\tlis $3", "\t\t.word 3", "\t\tadd $3, $12, $3"] }) :=
  ⟨((constant_folding 0 exampleRegs exampleTable
      (addNode "PLUS" "+" (exprOfTerm (termOf (numFactor "2"))) (termOf (numFactor "3")))
      (exprOfTerm (termOf (numFactor "2"))) (WLP4ParseTree.tok "PLUS" "+" "")
      (termOf (numFactor "3")) (Gen.new exampleRegs)
      (parseTree_plus (exprOfTerm (termOf (numFactor "2"))) (termOf (numFactor "3")) rfl rfl
        (parseTree_exprOfTerm (termOf (numFactor "2")) rfl
          (parseTree_termOf (numFactor "2") rfl (parseTree_numFactor "2")))
        (parseTree_termOf (numFactor "3") rfl (parseTree_numFactor "3"))) rfl).1 rfl).1
      (WLP4ParseTree.tok "NUM" "2" "int") (WLP4ParseTree.tok "NUM" "3" "int") rfl rfl,
   by decide⟩

end WLP4Gen

end WLP4

namespace WLP4

namespace WLP4Gen

theorem word_line_data (s : String) :
    ("\t\t.word " ++ s).data = '\t' :: '\t' :: '.' :: 'w' :: 'o' :: 'r' :: 'd' :: ' ' :: s.data := by
  rw [String.data_append]
  rfl

theorem word_line_ne_zero (s : String) : ¬ "\t\tadd $2, $0, $0" = "\t\t.word " ++ s := by
  intro h
  have h2 := congrArg String.data h
  rw [word_line_data] at h2
  have h3 : "\t\tadd $2, $0, $0".data = '\t' :: '\t' :: 'a' :: "dd $2, $0, $0".data := rfl
  rw [h3] at h2
  simp at h2

theorem word_line_writesTwo (s : String) : writesTwo ("\t\t.word " ++ s) = false := by
  unfold writesTwo
  rw [word_line_data]
  simp [List.isPrefixOf]

theorem dcl_grows (table : ProcData) (node valNode : Node) (g : Gen) :
    Post (Grows g) (generate_dcl table node valNode g) := by
  unfold generate_dcl
  refine Post.seq (Post.triv _) (fun idn _ => ?_)
  refine Post.seq (token_grows _ _ _) (fun p hp => ?_)
  refine Post.pure ?_
  intro base hb
  exact (hp base hb).emit _

theorem dcls_grows : ∀ (fuel : Nat) (table : ProcData) (node : Node) (g : Gen),
    Post (Grows g) (generate_dcls fuel table node g)
  | 0, _, _, _ => by
      unfold generate_dcls
      exact Post.error _
  | fuel + 1, table, node, g => by
      unfold generate_dcls
      refine Post.cond (fun _ => ?_) (fun _ => Post.pure (fun _ h => h))
      refine Post.seq (Post.triv _) (fun c0 _ => ?_)
      refine Post.seq (dcls_grows fuel table c0 g) (fun g1 h1 => ?_)
      refine Post.seq (Post.triv _) (fun c1 _ => ?_)
      refine Post.seq (Post.triv _) (fun c3 _ => ?_)
      exact Post.mono (dcl_grows table c1 c3 g1) (fun g2 h2 base hb => h2 base (h1 base hb))

theorem prologue_main (table : ProcData) (node : Node) (procID : String) (g g4 : Gen)
    (hk : node.kind = "main") (h : prologue table node procID g = .ok g4) :
    ∃ d1 x, child node 3 = .ok d1 ∧ child d1 1 = .ok x ∧
      g4.out = g.out ++ ["", "", "", "F" ++ procID ++ ":"] ++ wainEntry table x.type ++
        ["\t\tjalr $5"] := by
  unfold prologue at h
  simp only [hk, decide_True, if_true] at h
  cases h3 : child node 3 with
  | error e => rw [h3] at h; cases h
  | ok d1 =>
      cases h1 : child d1 1 with
      | error e => rw [h3] at h; simp only [ok_bind] at h; rw [h1] at h; cases h
      | ok x =>
          rw [h3] at h
          simp only [ok_bind] at h
          rw [h1] at h
          simp only [ok_bind] at h
          cases h
          refine ⟨d1, x, rfl, h1, ?_⟩
          have h31 : "\t\tsw $" ++ toString (31 : Int) ++ ", -4($30)" = "\t\tsw $31, -4($30)" := by
            decide
          unfold wainEntry frameLines
          by_cases hx : x.type = TYPE_INT <;>
            by_cases h4 : (table.symTable.length : Int) * 4 = 4 <;>
            by_cases h0 : (table.symTable.length : Int) * 4 > 0 <;>
            simp [hx, h4, h0, Gen.emit, push, h31]

theorem wainEntry_zero (table : ProcData) (ty : String) :
    "\t\tadd $2, $0, $0" ∈ wainEntry table ty ↔ ty = TYPE_INT := by
  unfold wainEntry frameLines
  by_cases hx : ty = TYPE_INT <;>
    by_cases h4 : (table.symTable.length : Int) * 4 = 4 <;>
    by_cases h0 : (table.symTable.length : Int) * 4 > 0 <;>
    simp [hx, h4, h0, word_line_ne_zero]

theorem wainEntry_no_jalr (table : ProcData) (ty : String) :
    "\t\tjalr $5" ∉ wainEntry table ty := by
  have hw : ∀ s : String, ¬ "\t\tjalr $5" = "\t\t.word " ++ s := by
    intro s h
    have h2 := congrArg String.data h
    rw [word_line_data] at h2
    have h3 : "\t\tjalr $5".data = '\t' :: '\t' :: 'j' :: "alr $5".data := rfl
    rw [h3] at h2
    simp at h2
  unfold wainEntry frameLines
  by_cases hx : ty = TYPE_INT <;>
    by_cases h4 : (table.symTable.length : Int) * 4 = 4 <;>
    by_cases h0 : (table.symTable.length : Int) * 4 > 0 <;>
    simp [hx, h4, h0, hw]

theorem wainEntry_writesTwo (table : ProcData) (ty : String) (hty : ty ≠ TYPE_INT) :
    ∀ l ∈ wainEntry table ty, writesTwo l = false := by
  intro l hl
  unfold wainEntry frameLines at hl
  simp only [if_neg hty, List.append_nil, List.mem_append, List.mem_cons, List.mem_singleton,
    List.not_mem_nil, or_false] at hl
  rcases hl with (((h | h | h | h | h) | h) | h | h)
  · subst h; decide
  · subst h; decide
  · subst h; decide
  · subst h; decide
  · subst h; decide
  · split at h
    · simp only [List.mem_singleton] at h
      subst h; decide
    · split at h
      · simp only [List.mem_cons, List.mem_singleton, List.not_mem_nil, or_false] at h
        rcases h with h | h | h
        · subst h; decide
        · subst h; exact word_line_writesTwo _
        · subst h; decide
      · simp at h
  · subst h; decide
  · subst h; decide

/-- C24. For a `main` node, every successful run of `generate_proc` writes three
empty lines, the label `F` followed by the name and a colon, then the lines of `wainEntry`
and the `jalr $5` that calls `init`, then the rest of the procedure.  The lines
between the label and that `jalr` contain `add $2, $0, $0` exactly when the
first parameter has type int; when it has another type, none of them is an
instruction with the destination `$2`.  The `jalr` is the first one after the
label. -/
theorem wain_prologue (fuel : Nat) (R : Regs) (ptable : ProcTable) (node : Node) (g g1 : Gen)
    (hk : node.kind = "main") (h : generate_proc fuel R ptable node g = .ok g1) :
    ∃ idn d1 x rest, child node 1 = .ok idn ∧ child node 3 = .ok d1 ∧ child d1 1 = .ok x ∧
      g1.out = g.out ++ ["", "", "", "F" ++ WLP4ParseTree.secondWord idn.seq ++ ":"] ++
        wainEntry (ptable.get (WLP4ParseTree.secondWord idn.seq)) x.type ++
        ["\t\tjalr $5"] ++ rest ∧
      ("\t\tadd $2, $0, $0" ∈ wainEntry (ptable.get (WLP4ParseTree.secondWord idn.seq)) x.type ↔
        x.type = TYPE_INT) ∧
      (x.type ≠ TYPE_INT →
        ∀ l ∈ wainEntry (ptable.get (WLP4ParseTree.secondWord idn.seq)) x.type,
          writesTwo l = false) ∧
      "\t\tjalr $5" ∉ wainEntry (ptable.get (WLP4ParseTree.secondWord idn.seq)) x.type := by
  unfold generate_proc at h
  cases h1 : child node 1 with
  | error e => rw [h1] at h; cases h
  | ok idn =>
      rw [h1] at h
      simp only [ok_bind] at h
      cases hp : prologue (ptable.get (WLP4ParseTree.secondWord idn.seq)) node
          (WLP4ParseTree.secondWord idn.seq) g with
      | error e => rw [hp] at h; cases h
      | ok g4 =>
          rw [hp] at h
          simp only [ok_bind] at h
          obtain ⟨d1, x, h3, hx, hout⟩ := prologue_main _ _ _ _ _ hk hp
          have hgrow : Post (Grows g4) (Except.ok g1) := by
            rw [← h]
            obtain ⟨ihS, ihs, iht, ihe, ihT, ihf, iha⟩ := all_grow fuel
            refine Post.seq (Post.triv _) (fun c _ => ?_)
            refine Post.seq (dcls_grows _ _ _ _) (fun g6 h6 => ?_)
            refine Post.seq (Post.triv _) (fun c1 _ => ?_)
            refine Post.seq (ihS _ _ _ _) (fun g7 h7 => ?_)
            refine Post.seq (Post.triv _) (fun c2 _ => ?_)
            refine Post.seq (ihe _ _ _ _) (fun p8 h8 => ?_)
            refine Post.pure ?_
            intro base hb
            repeat' with_reducible first
              | apply Ext.branch
              | apply Ext.emit
              | apply Ext.push
              | apply Ext.pop
              | assumption
              | apply_assumption
          obtain ⟨rest, hrest⟩ := hgrow.result g1 rfl g4 (Ext.here _)
          refine ⟨idn, d1, x, rest, rfl, h3, hx, ?_, wainEntry_zero _ _,
            wainEntry_writesTwo _ _, wainEntry_no_jalr _ _⟩
          rw [hrest, hout]

end WLP4Gen

end WLP4

namespace WLP4

namespace WLP4Gen

theorem lookup_append_none {β : Type} (l1 l2 : List (String × β)) (k : String)
    (h : l1.lookup k = none) : (l1 ++ l2).lookup k = l2.lookup k := by
  induction l1 with
  | nil => rfl
  | cons p l ih =>
      obtain ⟨a, b⟩ := p
      simp only [List.cons_append, List.lookup_cons] at h ⊢
      cases hk : (k == a) with
      | true => rw [hk] at h; cases h
      | false => rw [hk] at h; exact ih h

theorem lookup_append_some {β : Type} (l1 l2 : List (String × β)) (k : String) (v : β)
    (h : l1.lookup k = some v) : (l1 ++ l2).lookup k = some v := by
  induction l1 with
  | nil => cases h
  | cons p l ih =>
      obtain ⟨a, b⟩ := p
      simp only [List.cons_append, List.lookup_cons] at h ⊢
      cases hk : (k == a) with
      | true => rw [hk] at h; exact h
      | false => rw [hk] at h; exact ih h

theorem child_one_of_length {d : Node} (h : 2 ≤ d.children.length) :
    ∃ ty idn rest, d.children = ty :: idn :: rest ∧ child d 1 = .ok idn := by
  cases hc : d.children with
  | nil => rw [hc] at h; simp at h
  | cons ty l =>
      cases l with
      | nil => rw [hc] at h; simp at h
      | cons idn rest => exact ⟨ty, idn, rest, rfl, by simp [child, hc]⟩

theorem initsymtable_new (d : Node) (hd : 2 ≤ d.children.length) (table : ProcData)
    (hn : table.symTable.lookup (dclName d) = none) :
    initsymtable d table = .ok { table with symTable := table.symTable ++
      [(dclName d, ⟨-4 * (table.symTable.length : Int), dclType d⟩)] } := by
  obtain ⟨ty, idn, rest, hc, h1⟩ := child_one_of_length hd
  have hname : dclName d = WLP4ParseTree.secondWord idn.seq := by simp [dclName, hc]
  have htype : dclType d = idn.type := by simp [dclType, hc]
  unfold initsymtable
  rw [h1]
  simp only [ok_bind, pure, Except.pure, ProcData.emplace]
  rw [← hname, hn, htype]
  simp

theorem offsetsFrom_append (ds : List Node) (d : Node) : ∀ start : Nat,
    offsetsFrom start (ds ++ [d]) =
      offsetsFrom start ds ++ [(dclName d, ⟨-4 * ((start + ds.length : Nat) : Int), dclType d⟩)] := by
  induction ds with
  | nil => intro start; simp [offsetsFrom]
  | cons x xs ih =>
      intro start
      show offsetsFrom start (x :: (xs ++ [d])) = offsetsFrom start (x :: xs) ++ _
      rw [offsetsFrom, offsetsFrom, ih (start + 1), List.length_cons]
      have : start + 1 + xs.length = start + (xs.length + 1) := by omega
      rw [this]
      rfl

theorem offsetsFrom_length (ds : List Node) : ∀ start : Nat, (offsetsFrom start ds).length = ds.length := by
  induction ds with
  | nil => intro start; rfl
  | cons x xs ih => intro start; simp [offsetsFrom, ih]

theorem offsetsFrom_lookup_none (ds : List Node) (name : String)
    (h : name ∉ ds.map dclName) : ∀ start : Nat, (offsetsFrom start ds).lookup name = none := by
  induction ds with
  | nil => intro start; rfl
  | cons x xs ih =>
      intro start
      simp only [List.map_cons, List.mem_cons, not_or] at h
      simp only [offsetsFrom, List.lookup_cons]
      have hne : (name == dclName x) = false := by simpa using h.1
      rw [hne]
      exact ih h.2 (start + 1)

theorem offsetsFrom_lookup (ds : List Node) (hnd : (ds.map dclName).Nodup) :
    ∀ (start k : Nat) (d : Node), ds[k]? = some d →
      (offsetsFrom start ds).lookup (dclName d) =
        some ⟨-4 * ((start + k : Nat) : Int), dclType d⟩ := by
  induction ds with
  | nil => intro start k d h; simp at h
  | cons x xs ih =>
      intro start k d h
      simp only [List.map_cons, List.nodup_cons] at hnd
      cases k with
      | zero =>
          simp only [List.getElem?_cons_zero, Option.some.injEq] at h
          subst h
          simp [offsetsFrom, List.lookup_cons]
      | succ k =>
          simp only [List.getElem?_cons_succ] at h
          have hmem : dclName d ∈ xs.map dclName :=
            List.mem_map.mpr ⟨d, List.mem_iff_getElem?.mpr ⟨k, h⟩, rfl⟩
          have hne : (dclName d == dclName x) = false := by
            have : dclName d ≠ dclName x := fun e => hnd.1 (e ▸ hmem)
            simpa using this
          simp only [offsetsFrom, List.lookup_cons, hne]
          rw [ih hnd.2 (start + 1) k d h]
          have : start + 1 + k = start + (k + 1) := by omega
          rw [this]

end WLP4Gen

end WLP4

namespace WLP4

namespace WLP4Gen

theorem child_cons_zero (n c : Node) (cs : List Node) (h : n.children = c :: cs) :
    child n 0 = .ok c := by
  simp [child, h]

theorem child_cons_one (n a c : Node) (cs : List Node) (h : n.children = a :: c :: cs) :
    child n 1 = .ok c := by
  simp [child, h]

theorem child_cons_two (n a b c : Node) (cs : List Node) (h : n.children = a :: b :: c :: cs) :
    child n 2 = .ok c := by
  simp [child, h]

theorem locals_ok (table : ProcData) {n : Node} {ds : List Node} (hl : Locals n ds) :
    (∀ d ∈ ds, 2 ≤ d.children.length) → (ds.map dclName).Nodup →
    (∀ d ∈ ds, table.symTable.lookup (dclName d) = none) →
    ∃ F, ∀ fuel, F ≤ fuel → initsymtable_dcls fuel n table =
      .ok { table with symTable := table.symTable ++ offsetsFrom table.symTable.length ds } := by
  induction hl with
  | none n hc =>
      intro _ _ _
      refine ⟨1, fun fuel hf => ?_⟩
      obtain ⟨f, rfl⟩ : ∃ f, fuel = f + 1 := ⟨fuel - 1, by omega⟩
      unfold initsymtable_dcls
      simp [hc, offsetsFrom, pure, Except.pure]
  | snoc n sub d rest ds hc _ ih =>
      intro hsize hnd hnone
      rw [List.map_append, List.nodup_append] at hnd
      obtain ⟨hnd1, -, hdis⟩ := hnd
      obtain ⟨F, hF⟩ := ih (fun x hx => hsize x (List.mem_append_left _ hx)) hnd1
        (fun x hx => hnone x (List.mem_append_left _ hx))
      refine ⟨F + 1, fun fuel hf => ?_⟩
      obtain ⟨f, rfl⟩ : ∃ f, fuel = f + 1 := ⟨fuel - 1, by omega⟩
      have hlen : n.children.length > 0 := by rw [hc]; simp
      have hdn : dclName d ∉ ds.map dclName := fun hm => hdis hm (by simp)
      unfold initsymtable_dcls
      simp only [if_pos hlen, child_cons_zero _ _ _ hc, child_cons_one _ _ _ _ hc, ok_bind]
      rw [hF f (by omega)]
      simp only [ok_bind]
      rw [initsymtable_new d (hsize d (by simp))]
      · simp only [offsetsFrom_append, List.length_append, offsetsFrom_length,
          List.append_assoc, Nat.cast_add]
      · show List.lookup (dclName d) (table.symTable ++ offsetsFrom table.symTable.length ds) = none
        rw [lookup_append_none _ _ _ (hnone d (by simp))]
        exact offsetsFrom_lookup_none ds _ hdn _

theorem params_ok {n : Node} {ds : List Node} (hl : Params n ds) : ∀ table : ProcData,
    (∀ d ∈ ds, 2 ≤ d.children.length) → (ds.map dclName).Nodup →
    (∀ d ∈ ds, table.symTable.lookup (dclName d) = none) →
    ∃ F, ∀ fuel, F ≤ fuel → initsymtable_params fuel n table =
      .ok { table with symTable := table.symTable ++ offsetsFrom table.symTable.length ds } := by
  induction hl with
  | none n hk hc =>
      intro table _ _ _
      refine ⟨1, fun fuel hf => ?_⟩
      obtain ⟨f, rfl⟩ : ∃ f, fuel = f + 1 := ⟨fuel - 1, by omega⟩
      unfold initsymtable_params
      simp [hk, hc, offsetsFrom, pure, Except.pure]
  | wrap n c rest ds hk hc _ ih =>
      intro table hsize hnd hnone
      obtain ⟨F, hF⟩ := ih table hsize hnd hnone
      refine ⟨F + 1, fun fuel hf => ?_⟩
      obtain ⟨f, rfl⟩ : ∃ f, fuel = f + 1 := ⟨fuel - 1, by omega⟩
      have hlen : n.children.length > 0 := by rw [hc]; simp
      unfold initsymtable_params
      simp only [if_pos hk, if_pos hlen, child_cons_zero _ _ _ hc, ok_bind]
      exact hF f (by omega)
  | last n d hk hc =>
      intro table hsize _ hnone
      refine ⟨1, fun fuel hf => ?_⟩
      obtain ⟨f, rfl⟩ : ∃ f, fuel = f + 1 := ⟨fuel - 1, by omega⟩
      have hlen : ¬ n.children.length > 1 := by rw [hc]; simp
      unfold initsymtable_params
      simp only [if_neg hk, if_neg hlen, child_cons_zero _ _ _ hc, ok_bind]
      rw [initsymtable_new d (hsize d (by simp)) table (hnone d (by simp))]
      simp [offsetsFrom, pure, Except.pure, ok_bind]
  | cons n d comma sub more ds hk hc _ ih =>
      intro table hsize hnd hnone
      simp only [List.map_cons, List.nodup_cons] at hnd
      have hnew := initsymtable_new d (hsize d (by simp)) table (hnone d (by simp))
      obtain ⟨F, hF⟩ := ih { table with symTable := table.symTable ++
          [(dclName d, ⟨-4 * (table.symTable.length : Int), dclType d⟩)] }
        (fun x hx => hsize x (List.mem_cons_of_mem _ hx)) hnd.2
        (fun x hx => by
          show List.lookup (dclName x) (table.symTable ++ _) = none
          rw [lookup_append_none _ _ _ (hnone x (List.mem_cons_of_mem _ hx))]
          have hne : (dclName x == dclName d) = false := by
            have : dclName x ≠ dclName d := fun e => hnd.1 (e ▸ List.mem_map_of_mem _ hx)
            simpa using this
          simp only [List.lookup_cons, hne, List.lookup_nil])
      refine ⟨F + 1, fun fuel hf => ?_⟩
      obtain ⟨f, rfl⟩ : ∃ f, fuel = f + 1 := ⟨fuel - 1, by omega⟩
      have hlen : n.children.length > 1 := by rw [hc]; simp
      unfold initsymtable_params
      simp only [if_neg hk, if_pos hlen, child_cons_zero _ _ _ hc,
        child_cons_two _ _ _ _ _ hc, ok_bind]
      rw [hnew]
      simp only [ok_bind]
      rw [hF f (by omega)]
      simp [offsetsFrom, List.append_assoc]

end WLP4Gen

end WLP4

namespace WLP4

namespace WLP4Gen

theorem offsetsFrom_app (a b : List Node) : ∀ start : Nat,
    offsetsFrom start (a ++ b) = offsetsFrom start a ++ offsetsFrom (start + a.length) b := by
  induction a with
  | nil => intro start; simp [offsetsFrom]
  | cons x xs ih =>
      intro start
      show offsetsFrom start (x :: (xs ++ b)) = offsetsFrom start (x :: xs) ++ _
      rw [offsetsFrom, offsetsFrom, ih (start + 1), List.length_cons]
      have : start + 1 + xs.length = start + (xs.length + 1) := by omega
      rw [this]
      rfl

theorem extend_extend (table : ProcData) (a b : List Node) :
    extend (extend table a) b = extend table (a ++ b) := by
  simp [extend, offsetsFrom_app, offsetsFrom_length, List.append_assoc]

theorem extend_new (procID : String) (ds : List Node) :
    extend (ProcData.new procID) ds = tableOf procID ds := by
  simp [extend, ProcData.new, tableOf]

theorem extend_lookup_none (table : ProcData) (ds : List Node) (name : String)
    (h1 : table.symTable.lookup name = none) (h2 : name ∉ ds.map dclName) :
    (extend table ds).symTable.lookup name = none := by
  show List.lookup name (table.symTable ++ _) = none
  rw [lookup_append_none _ _ _ h1]
  exact offsetsFrom_lookup_none ds _ h2 _

theorem initsymtable_extend (d : Node) (hd : 2 ≤ d.children.length) (table : ProcData)
    (hn : table.symTable.lookup (dclName d) = none) :
    initsymtable d table = .ok (extend table [d]) := by
  rw [initsymtable_new d hd table hn]
  rfl

theorem locals_extend (table : ProcData) {n : Node} {ds : List Node} (hl : Locals n ds)
    (hsize : ∀ d ∈ ds, 2 ≤ d.children.length) (hnd : (ds.map dclName).Nodup)
    (hnone : ∀ d ∈ ds, table.symTable.lookup (dclName d) = none) :
    ∃ F, ∀ fuel, F ≤ fuel → initsymtable_dcls fuel n table = .ok (extend table ds) :=
  locals_ok table hl hsize hnd hnone

theorem params_extend (table : ProcData) {n : Node} {ds : List Node} (hl : Params n ds)
    (hsize : ∀ d ∈ ds, 2 ≤ d.children.length) (hnd : (ds.map dclName).Nodup)
    (hnone : ∀ d ∈ ds, table.symTable.lookup (dclName d) = none) :
    ∃ F, ∀ fuel, F ≤ fuel → initsymtable_params fuel n table = .ok (extend table ds) :=
  params_ok hl table hsize hnd hnone

theorem initptable_ok (ptable : ProcTable) {p : Node} {procID : String} {ds : List Node}
    (hd : Declares p procID ds) (hsize : ∀ d ∈ ds, 2 ≤ d.children.length)
    (hnd : (ds.map dclName).Nodup) :
    ∃ F, ∀ fuel, F ≤ fuel →
      initptable fuel p ptable = .ok (ptable.set procID (tableOf procID ds)) := by
  cases hd with
  | wain idn d1 d2 dcls ls hs hps h1 hw h3 h5 h8 hl =>
      simp only [List.map_cons, List.nodup_cons, List.mem_cons, not_or] at hnd
      obtain ⟨⟨h12, h1l⟩, h2l, hll⟩ := hnd
      have e1 := initsymtable_extend d1 (hsize d1 (by simp)) (ProcData.new "wain") rfl
      have e2 := initsymtable_extend d2 (hsize d2 (by simp)) (extend (ProcData.new "wain") [d1])
        (extend_lookup_none _ _ _ rfl (by
          simp only [List.map_cons, List.map_nil, List.mem_singleton]
          exact fun e => h12 e.symm))
      obtain ⟨F, hF⟩ := locals_extend (extend (extend (ProcData.new "wain") [d1]) [d2]) hl
        (fun x hx => hsize x (by simp [hx])) hll
        (fun x hx => extend_lookup_none _ _ _
          (extend_lookup_none _ _ _ rfl (by
            simp only [List.map_cons, List.map_nil, List.mem_singleton]
            exact fun e => h1l (e ▸ List.mem_map_of_mem _ hx)))
          (by
            simp only [List.map_cons, List.map_nil, List.mem_singleton]
            exact fun e => h2l (e ▸ List.mem_map_of_mem _ hx)))
      refine ⟨F + 1, fun fuel hf => ?_⟩
      obtain ⟨f, rfl⟩ : ∃ f, fuel = f + 1 := ⟨fuel - 1, by omega⟩
      unfold initptable
      simp only [if_neg hs, if_neg hps, h1, ok_bind, hw, if_true, h3, h5, h8, e1, e2,
        hF f (by omega), pure, Except.pure]
      rw [extend_extend, extend_extend, extend_new]
      rfl
  | proc idn params dcls ps ls hs hps h1 hw h3 h6 hpar hl =>
      rw [List.map_append, List.nodup_append] at hnd
      obtain ⟨hndp, hndl, hdis⟩ := hnd
      obtain ⟨F1, hF1⟩ := params_extend (ProcData.new (WLP4ParseTree.secondWord idn.seq)) hpar
        (fun x hx => hsize x (List.mem_append_left _ hx)) hndp (fun x _ => rfl)
      obtain ⟨F2, hF2⟩ := locals_extend
        (extend (ProcData.new (WLP4ParseTree.secondWord idn.seq)) ps) hl
        (fun x hx => hsize x (List.mem_append_right _ hx)) hndl
        (fun x hx => extend_lookup_none _ _ _ rfl
          (fun hm => hdis hm (List.mem_map_of_mem _ hx)))
      refine ⟨max F1 F2 + 1, fun fuel hf => ?_⟩
      obtain ⟨f, rfl⟩ : ∃ f, fuel = f + 1 := ⟨fuel - 1, by omega⟩
      unfold initptable
      simp only [if_neg hs, if_neg hps, h1, ok_bind, if_neg hw, h3, h6, hF1 f (by omega),
        hF2 f (by omega), pure, Except.pure]
      rw [extend_extend, extend_new]

theorem ptable_get_set (ptable : ProcTable) (procID : String) (table : ProcData) :
    (ptable.set procID table).get procID = table := by
  unfold ProcTable.set ProcTable.get
  split
  · rename_i h
    induction ptable with
    | nil => simp at h
    | cons q qs ih =>
        obtain ⟨a, b⟩ := q
        simp only [List.map_cons, List.lookup_cons] at h ⊢
        by_cases hq : a = procID
        · subst hq
          simp
        · have hne : (procID == a) = false := by simpa using fun e => hq e.symm
          rw [hne] at h
          simp only [if_neg hq, List.lookup_cons, hne]
          exact ih h
  · rename_i h
    have hnone : ptable.lookup procID = none := by
      cases hl : ptable.lookup procID with
      | none => rfl
      | some v => rw [hl] at h; simp at h
    rw [lookup_append_none _ _ _ hnone]
    simp

end WLP4Gen

end WLP4

namespace WLP4

namespace WLP4Gen

theorem tableOf_loc (procID : String) (ds : List Node) (hnd : (ds.map dclName).Nodup)
    (k : Nat) (d : Node) (h : ds[k]? = some d) :
    (tableOf procID ds).get (dclName d) = ⟨-4 * (k : Int), dclType d⟩ := by
  unfold ProcData.get tableOf
  simp only
  rw [offsetsFrom_lookup ds hnd 0 k d h]
  simp

theorem token_load (table : ProcData) (idn : Node) (g : Gen) (hk : idn.kind = "ID") :
    generate_token table idn g = .ok (3, g.emit ("\t\tlw $3, " ++
      toString (table.get (WLP4ParseTree.secondWord idn.seq)).loc ++ "($29)")) := by
  unfold generate_token
  simp [hk, pure, Except.pure]

theorem dcl_store (table : ProcData) (d val : Node) (g g1 : Gen) (r : Int)
    (hd : 2 ≤ d.children.length) (h : generate_token table val g = .ok (r, g1)) :
    generate_dcl table d val g = .ok (g1.emit ("\t\tsw $" ++ toString r ++ ", " ++
      toString (table.get (dclName d)).loc ++ "($29)")) := by
  obtain ⟨ty, idn, rest, hc, h1⟩ := child_one_of_length hd
  have hname : dclName d = WLP4ParseTree.secondWord idn.seq := by simp [dclName, hc]
  unfold generate_dcl
  rw [h1]
  simp only [ok_bind]
  rw [h]
  simp only [ok_bind, hname]
  rfl

theorem assign_store (fuel : Nat) (R : Regs) (table : ProcData) (node lv idn b e : Node)
    (rest : List Node) (g g1 : Gen) (r : Int)
    (hc : node.children = lv :: b :: e :: rest)
    (hlk : lv.kind ≠ "PRINTLN" ∧ lv.kind ≠ "IF" ∧ lv.kind ≠ "WHILE" ∧ lv.kind ≠ "DELETE")
    (hlc : lv.children = [idn])
    (h : generate_expr fuel R table e ((g.emit "").emit ("\t\t;; " ++ node.seq)) = .ok (r, g1)) :
    generate_stmt (fuel + 1) R table node g = .ok (g1.emit ("\t\tsw $" ++ toString r ++ ", " ++
      toString (table.get (WLP4ParseTree.secondWord idn.seq)).loc ++ "($29)")) := by
  obtain ⟨f, rfl⟩ : ∃ f, fuel = f + 1 := by
    cases fuel with
    | zero => unfold generate_expr at h; cases h
    | succ f => exact ⟨f, rfl⟩
  have hs : stripParens (f + 1) lv = .ok lv := by
    unfold stripParens
    simp [hlc]
  have hlen : lv.children.length = 1 := by rw [hlc]; rfl
  unfold generate_stmt
  simp only [child_cons_zero _ _ _ hc, child_cons_two _ _ _ _ _ hc, ok_bind, if_neg hlk.1,
    if_neg hlk.2.1, if_neg hlk.2.2.1, if_neg hlk.2.2.2, h, hs, if_pos hlen,
    child_cons_zero _ _ _ hlc, pure, Except.pure]

/-- Unrolling of the loop that removes the parentheses of an lvalue: one round
goes from `( inner )` to `inner`. -/
theorem stripParens_paren (fuel : Nat) (lv a inner b : Node)
    (hc : lv.children = [a, inner, b]) : stripParens (fuel + 1) lv = stripParens fuel inner := by
  rw [stripParens]
  have hlen : lv.children.length > 2 := by rw [hc]; simp
  simp only [if_pos hlen, child_cons_one _ _ _ _ hc, ok_bind]

/-- The loop that removes the parentheses of an lvalue stops at a node with at
most two children. -/
theorem stripParens_done (fuel : Nat) (lv : Node) (hc : lv.children.length ≤ 2) :
    stripParens (fuel + 1) lv = .ok lv := by
  rw [stripParens]
  have hlen : ¬ lv.children.length > 2 := by omega
  simp only [if_neg hlen]

theorem assign_store_parens (fuel : Nat) (R : Regs) (table : ProcData)
    (node lv lv1 idn b e : Node) (rest : List Node) (g g1 : Gen) (r : Int)
    (hc : node.children = lv :: b :: e :: rest)
    (hlk : lv.kind ≠ "PRINTLN" ∧ lv.kind ≠ "IF" ∧ lv.kind ≠ "WHILE" ∧ lv.kind ≠ "DELETE")
    (hs : stripParens fuel lv = .ok lv1) (hlc : lv1.children = [idn])
    (h : generate_expr fuel R table e ((g.emit "").emit ("\t\t;; " ++ node.seq)) = .ok (r, g1)) :
    generate_stmt (fuel + 1) R table node g = .ok (g1.emit ("\t\tsw $" ++ toString r ++ ", " ++
      toString (table.get (WLP4ParseTree.secondWord idn.seq)).loc ++ "($29)")) := by
  have hlen : lv1.children.length = 1 := by rw [hlc]; rfl
  unfold generate_stmt
  simp only [child_cons_zero _ _ _ hc, child_cons_two _ _ _ _ _ hc, ok_bind, if_neg hlk.1,
    if_neg hlk.2.1, if_neg hlk.2.2.1, if_neg hlk.2.2.2, h, hs, if_pos hlen,
    child_cons_zero _ _ _ hlc, pure, Except.pure]

theorem factor_load (fuel : Nat) (R : Regs) (table : ProcData) (node idn : Node) (g : Gen)
    (hc : node.children = [idn]) (hk : idn.kind = "ID") :
    generate_factor (fuel + 1) R table node g = .ok (3, g.emit ("\t\tlw $3, " ++
      toString (table.get (WLP4ParseTree.secondWord idn.seq)).loc ++ "($29)")) := by
  have hlen : node.children.length = 1 := by rw [hc]; rfl
  rw [generate_factor]
  simp only [if_pos hlen, child_cons_zero _ _ _ hc, ok_bind]
  exact token_load table idn g hk

theorem factor_address (fuel : Nat) (R : Regs) (table : ProcData)
    (node amp lv lv1 idn : Node) (rest rest1 : List Node) (g : Gen)
    (hc : node.children = amp :: lv :: rest) (hk : amp.kind = "AMP")
    (hs : stripParens fuel lv = .ok lv1) (hlc : lv1.children = idn :: rest1)
    (hi : idn.kind ≠ "STAR") :
    generate_factor (fuel + 1) R table node g =
      .ok (if (table.get (WLP4ParseTree.secondWord idn.seq)).loc = 0 then (29, g)
        else if (table.get (WLP4ParseTree.secondWord idn.seq)).loc = -4 then
          (3, g.emit "\t\tsub $3, $29, $4")
        else (3, ((g.emit "\t\tlis $3").emit ("\t\t.word " ++
          toString (table.get (WLP4ParseTree.secondWord idn.seq)).loc)).emit
            "\t\tadd $3, $29, $3")) := by
  have hlen : ¬ node.children.length = 1 := by rw [hc]; simp
  have hl : ¬ amp.kind = "LPAREN" := by rw [hk]; decide
  rw [generate_factor]
  simp only [if_neg hlen, child_cons_zero _ _ _ hc, child_cons_one _ _ _ _ hc, ok_bind,
    if_neg hl, if_pos hk, hs, child_cons_zero _ _ _ hlc, if_neg hi, pure, Except.pure]
  split_ifs <;> rfl

/-- The prologue of `wain` stores the two parameters at the offsets of the first
two variables of the frame. -/
theorem prologue_stores (table : ProcData) (node : Node) (procID : String) (g g4 : Gen)
    (hk : node.kind = "main") (h : prologue table node procID g = .ok g4) :
    ∃ pre post, g4.out = g.out ++ pre ++
      ["\t\tsw $1, " ++ toString (-4 * ((0 : Nat) : Int)) ++ "($29)",
       "\t\tsw $2, " ++ toString (-4 * ((1 : Nat) : Int)) ++ "($29)"] ++ post := by
  obtain ⟨d1, x, _, _, hout⟩ := prologue_main table node procID g g4 hk h
  refine ⟨["", "", "", "F" ++ procID ++ ":", "\t\tsw $31, -4($30)", "\t\tsub $30, $30, $4",
    "\t\tsub $29, $30, $4"], frameLines table ++
    (if x.type = TYPE_INT then ["\t\tadd $2, $0, $0"] else []) ++
    ["\t\tlis $5", "\t\t.word init"] ++ ["\t\tjalr $5"], ?_⟩
  have e0 : "\t\tsw $1, " ++ toString (-4 * ((0 : Nat) : Int)) ++ "($29)" = "\t\tsw $1, 0($29)" := by
    decide
  have e1 : "\t\tsw $2, " ++ toString (-4 * ((1 : Nat) : Int)) ++ "($29)" = "\t\tsw $2, -4($29)" := by
    decide
  rw [hout, e0, e1]
  unfold wainEntry
  simp only [List.append_assoc, List.cons_append, List.nil_append]

/-- The epilogue of `wain` loads the two parameters from the offsets of the first
two variables of the frame. -/
theorem epilogue_loads (fuel : Nat) (R : Regs) (ptable : ProcTable) (node : Node) (g : Gen)
    (hk : node.kind = "main") :
    Post (fun g1 => ∃ g10 : Gen, g1 =
      ((pop ((g10.emit ("\t\tlw $1, " ++ toString (-4 * ((0 : Nat) : Int)) ++ "($29)")).emit
        ("\t\tlw $2, " ++ toString (-4 * ((1 : Nat) : Int)) ++ "($29)")) 31).emit
          "\t\tadd $29, $30, $0").emit "\t\tjr $31")
      (generate_proc fuel R ptable node g) := by
  unfold generate_proc
  refine Post.seq (Post.triv _) (fun idn _ => ?_)
  refine Post.seq (Post.triv _) (fun g4 _ => ?_)
  refine Post.seq (Post.triv _) (fun c _ => ?_)
  refine Post.seq (Post.triv _) (fun g6 _ => ?_)
  refine Post.seq (Post.triv _) (fun c1 _ => ?_)
  refine Post.seq (Post.triv _) (fun g7 _ => ?_)
  refine Post.seq (Post.triv _) (fun c2 _ => ?_)
  refine Post.seq (Post.triv _) (fun p8 _ => ?_)
  obtain ⟨r, g8⟩ := p8
  refine Post.pure ⟨((((if r ≠ 3 then g8.emit ("\t\tadd $3, $" ++ toString r ++ ", $0")
    else g8).emit "").emit "").emit "\t\tadd $30, $29, $4"), ?_⟩
  simp only [hk, decide_True, if_true]
  rfl

/-- C23. Let the procedure node `p`, named `procID`, declare the variables of
the `dcl` nodes `ds` (parameters first, then local declarations), each `dcl` node
with its two children, the names pairwise distinct.  With enough fuel
`initptable` returns a table in which the symbol table of `procID` is
`tableOf procID ds`; in it the `k`-th variable has the offset `-4 * k`, and that
offset is the one in every line that the generator writes to read or write the
variable in its frame: the `lw` that `generate_token` writes for the variable, and
so the one that `generate_factor` writes for `factor → ID`; the `sw` that
`generate_dcl` writes for its initialiser; the `sw` that `generate_stmt` writes for
an assignment to it, whether the lvalue is the name or the name inside any number
of parentheses, which `stripParens` removes one pair a round; and the address that
`generate_factor` computes for `&` applied to it, again inside any number of
parentheses: `$29` itself for the offset 0, `$29 - 4` for the second variable, and
`$29` plus the word `-4 * k` otherwise.  For a `main` node the prologue stores
`$1` and `$2` at the offsets of the first two variables, and `generate_proc` ends
with the lines that load them back from there. -/
theorem variable_offsets (ptable : ProcTable) (p : Node) (procID : String) (ds : List Node)
    (hd : Declares p procID ds) (hsize : ∀ d ∈ ds, 2 ≤ d.children.length)
    (hnd : (ds.map dclName).Nodup) :
    (∃ F, ∀ fuel, F ≤ fuel → ∃ pt, initptable fuel p ptable = .ok pt ∧
      pt.get procID = tableOf procID ds) ∧
    (∀ (k : Nat) (d : Node), ds[k]? = some d →
      ((tableOf procID ds).get (dclName d)).loc = -4 * (k : Int) ∧
      (∀ idn g, idn.kind = "ID" → WLP4ParseTree.secondWord idn.seq = dclName d →
        generate_token (tableOf procID ds) idn g =
          .ok (3, g.emit ("\t\tlw $3, " ++ toString (-4 * (k : Int)) ++ "($29)"))) ∧
      (∀ val g r g1, generate_token (tableOf procID ds) val g = .ok (r, g1) →
        generate_dcl (tableOf procID ds) d val g =
          .ok (g1.emit ("\t\tsw $" ++ toString r ++ ", " ++ toString (-4 * (k : Int)) ++
            "($29)"))) ∧
      (∀ fuel R (node lv idn b e : Node) (rest : List Node) (g g1 : Gen) (r : Int),
        node.children = lv :: b :: e :: rest →
        lv.kind ≠ "PRINTLN" ∧ lv.kind ≠ "IF" ∧ lv.kind ≠ "WHILE" ∧ lv.kind ≠ "DELETE" →
        lv.children = [idn] → WLP4ParseTree.secondWord idn.seq = dclName d →
        generate_expr fuel R (tableOf procID ds) e
          ((g.emit "").emit ("\t\t;; " ++ node.seq)) = .ok (r, g1) →
        generate_stmt (fuel + 1) R (tableOf procID ds) node g =
          .ok (g1.emit ("\t\tsw $" ++ toString r ++ ", " ++ toString (-4 * (k : Int)) ++
            "($29)"))) ∧
      (∀ fuel R (node lv lv1 idn b e : Node) (rest : List Node) (g g1 : Gen) (r : Int),
        node.children = lv :: b :: e :: rest →
        lv.kind ≠ "PRINTLN" ∧ lv.kind ≠ "IF" ∧ lv.kind ≠ "WHILE" ∧ lv.kind ≠ "DELETE" →
        stripParens fuel lv = .ok lv1 → lv1.children = [idn] →
        WLP4ParseTree.secondWord idn.seq = dclName d →
        generate_expr fuel R (tableOf procID ds) e
          ((g.emit "").emit ("\t\t;; " ++ node.seq)) = .ok (r, g1) →
        generate_stmt (fuel + 1) R (tableOf procID ds) node g =
          .ok (g1.emit ("\t\tsw $" ++ toString r ++ ", " ++ toString (-4 * (k : Int)) ++
            "($29)"))) ∧
      (∀ fuel R (node idn : Node) (g : Gen), node.children = [idn] → idn.kind = "ID" →
        WLP4ParseTree.secondWord idn.seq = dclName d →
        generate_factor (fuel + 1) R (tableOf procID ds) node g =
          .ok (3, g.emit ("\t\tlw $3, " ++ toString (-4 * (k : Int)) ++ "($29)"))) ∧
      (∀ fuel R (node amp lv lv1 idn : Node) (rest rest1 : List Node) (g : Gen),
        node.children = amp :: lv :: rest → amp.kind = "AMP" →
        stripParens fuel lv = .ok lv1 → lv1.children = idn :: rest1 → idn.kind ≠ "STAR" →
        WLP4ParseTree.secondWord idn.seq = dclName d →
        generate_factor (fuel + 1) R (tableOf procID ds) node g =
          .ok (if k = 0 then (29, g)
            else if k = 1 then (3, g.emit "\t\tsub $3, $29, $4")
            else (3, ((g.emit "\t\tlis $3").emit ("\t\t.word " ++
              toString (-4 * (k : Int)))).emit "\t\tadd $3, $29, $3")))) ∧
    (∀ (fuel : Nat) (lv a inner b : Node), lv.children = [a, inner, b] →
      stripParens (fuel + 1) lv = stripParens fuel inner) ∧
    (∀ (fuel : Nat) (lv : Node), lv.children.length ≤ 2 → stripParens (fuel + 1) lv = .ok lv) ∧
    (∀ (table : ProcData) (node : Node) (name : String) (g g4 : Gen), node.kind = "main" →
      prologue table node name g = .ok g4 →
      ∃ pre post, g4.out = g.out ++ pre ++
        ["\t\tsw $1, " ++ toString (-4 * ((0 : Nat) : Int)) ++ "($29)",
         "\t\tsw $2, " ++ toString (-4 * ((1 : Nat) : Int)) ++ "($29)"] ++ post) ∧
    (∀ (fuel : Nat) (R : Regs) (pt : ProcTable) (node : Node) (g g1 : Gen),
      node.kind = "main" → generate_proc fuel R pt node g = .ok g1 →
      ∃ g10 : Gen, g1 =
        ((pop ((g10.emit ("\t\tlw $1, " ++ toString (-4 * ((0 : Nat) : Int)) ++ "($29)")).emit
          ("\t\tlw $2, " ++ toString (-4 * ((1 : Nat) : Int)) ++ "($29)")) 31).emit
            "\t\tadd $29, $30, $0").emit "\t\tjr $31") := by
  refine ⟨?_, fun k d hk => ?_, stripParens_paren, stripParens_done,
    fun table node name g g4 hk h => prologue_stores table node name g g4 hk h,
    fun fuel R pt node g g1 hk h => (epilogue_loads fuel R pt node g hk).result g1 h⟩
  · obtain ⟨F, hF⟩ := initptable_ok ptable hd hsize hnd
    exact ⟨F, fun fuel hf => ⟨_, hF fuel hf, ptable_get_set _ _ _⟩⟩
  · have hloc := tableOf_loc procID ds hnd k d hk
    refine ⟨by rw [hloc], ?_, ?_, ?_, ?_, ?_, ?_⟩
    · intro idn g hik hname
      rw [token_load _ _ _ hik, hname, hloc]
    · intro val g r g1 h
      rw [dcl_store _ _ _ _ _ _ (hsize d (List.mem_iff_getElem?.mpr ⟨k, hk⟩)) h, hloc]
    · intro fuel R node lv idn b e rest g g1 r hc hlk hlc hname h
      rw [assign_store fuel R _ node lv idn b e rest g g1 r hc hlk hlc h, hname, hloc]
    · intro fuel R node lv lv1 idn b e rest g g1 r hc hlk hs hlc hname h
      rw [assign_store_parens fuel R _ node lv lv1 idn b e rest g g1 r hc hlk hs hlc h, hname,
        hloc]
    · intro fuel R node idn g hc hik hname
      rw [factor_load fuel R _ node idn g hc hik, hname, hloc]
    · intro fuel R node amp lv lv1 idn rest rest1 g hc hamp hs hlc hi hname
      rw [factor_address fuel R _ node amp lv lv1 idn rest rest1 g hc hamp hs hlc hi, hname, hloc]
      have e0 : (-4 * (k : Int) = 0) ↔ k = 0 := by omega
      have e1 : (-4 * (k : Int) = -4) ↔ k = 1 := by omega
      simp only [e0, e1]

/-- Witness for C23: in `int wain(int a, int b) \x7b int c = 7; return c; \x7d` the
variables `a`, `b` and `c` have the offsets 0, -4 and -8, the initialiser of `c`
is stored with `sw $3, -8($29)`, and so is the value of `(c) = 3;`. -/
theorem variable_offsets_witness :
    initptable 3 exampleIntWain [] =
      .ok [("wain", ⟨"wain", [("a", ⟨0, "int"⟩), ("b", ⟨-4, "int"⟩), ("c", ⟨-8, "int"⟩)]⟩)] ∧
    ((tableOf "wain" [typedDcl false "a", typedDcl false "b", typedDcl false "c"]).get
      (dclName (typedDcl false "c"))).loc = -4 * ((2 : Nat) : Int) ∧
    generate_dcl (tableOf "wain" [typedDcl false "a", typedDcl false "b", typedDcl false "c"])
      (typedDcl false "c") (WLP4ParseTree.tok "NUM" "7" "int") (Gen.new exampleRegs) =
      .ok { Gen.new exampleRegs with
        out := ["\t\tlis $3", "\t\t.word 7", "\t\tsw $3, -8($29)"] } ∧
    generate_stmt 6 exampleRegs
      (tableOf "wain" [typedDcl false "a", typedDcl false "b", typedDcl false "c"])
      (parenAssign "c" (exprOfTerm (termOf (numFactor "3")))) (Gen.new exampleRegs) =
      .ok { Gen.new exampleRegs with
        out := ["", "\t\t;; statement lvalue BECOMES expr SEMI", "\t\tlis $3", "\t\t.word 3",
          "\t\tsw $3, -8($29)"] } ∧
    generate_factor 6 exampleRegs
      (tableOf "wain" [typedDcl false "a", typedDcl false "b", typedDcl false "c"])
      (addressOf "c") (Gen.new exampleRegs) =
      .ok (3, { Gen.new exampleRegs with
        out := ["\t\tlis $3", "\t\t.word -8", "\t\tadd $3, $29, $3"] }) :=
  ⟨by decide,
   ((variable_offsets [] exampleIntWain "wain"
      [typedDcl false "a", typedDcl false "b", typedDcl false "c"]
      (Declares.wain exampleIntWain (WLP4ParseTree.tok "WAIN" "wain" "") (typedDcl false "a")
        (typedDcl false "b") _ [typedDcl false "c"] (by decide) (by decide) rfl (by decide) rfl
        rfl rfl
        (Locals.snoc _ (WLP4ParseTree.rule "dcls" ".EMPTY" "" []) (typedDcl false "c") _ []
          rfl (Locals.none _ rfl)))
      (by decide) (by decide)).2.1 2 (typedDcl false "c") rfl).1,
   by decide, by decide, by decide⟩

end WLP4Gen

end WLP4

namespace WLP4

namespace WLP4Gen

/-- Witness for C24: the code for `int wain(int* a, int b) \x7b return b; \x7d` has
no `add $2, $0, $0` before the call of `init`. -/
theorem wain_prologue_witness :
    generate 8 exampleRegs (programOf examplePtrWain) =
      .ok ["\t\t.import print", "\t\t.import init", "\t\t.import new", "\t\t.import delete",
        "\t\tlis $4", "\t\t.word 4", "\t\tlis $11", "\t\t.word 1", "\t\tbeq $0, $0, Fwain",
        "", "", "", "Fwain:", "\t\tsw $31, -4($30)", "\t\tsub $30, $30, $4",
        "\t\tsub $29, $30, $4", "\t\tsw $1, 0($29)", "\t\tsw $2, -4($29)", "\t\tlis $3",
        "\t\t.word 8", "\t\tsub $30, $30, $3", "\t\tlis $5", "\t\t.word init", "\t\tjalr $5",
        "", "", "\t\tlw $3, -4($29)", "", "", "\t\tadd $30, $29, $4", "\t\tlw $1, 0($29)",
        "\t\tlw $2, -4($29)", "\t\tadd $30, $30, $4", "\t\tlw $31, -4($30)",
        "\t\tadd $29, $30, $0", "\t\tjr $31"] ∧
    ∃ idn d1 x rest, child examplePtrWain 1 = .ok idn ∧ child examplePtrWain 3 = .ok d1 ∧
      child d1 1 = .ok x ∧
      ["", "", "", "Fwain:", "\t\tsw $31, -4($30)", "\t\tsub $30, $30, $4",
        "\t\tsub $29, $30, $4", "\t\tsw $1, 0($29)", "\t\tsw $2, -4($29)", "\t\tlis $3",
        "\t\t.word 8", "\t\tsub $30, $30, $3", "\t\tlis $5", "\t\t.word init", "\t\tjalr $5",
        "", "", "\t\tlw $3, -4($29)", "", "", "\t\tadd $30, $29, $4", "\t\tlw $1, 0($29)",
        "\t\tlw $2, -4($29)", "\t\tadd $30, $30, $4", "\t\tlw $31, -4($30)",
        "\t\tadd $29, $30, $0", "\t\tjr $31"] =
      [] ++ ["", "", "", "F" ++ WLP4ParseTree.secondWord idn.seq ++ ":"] ++
        wainEntry (ProcTable.get [("wain", ⟨"wain", [("a", ⟨0, "int*"⟩), ("b", ⟨-4, "int"⟩)]⟩)]
          (WLP4ParseTree.secondWord idn.seq)) x.type ++ ["\t\tjalr $5"] ++ rest ∧
      ("\t\tadd $2, $0, $0" ∈
        wainEntry (ProcTable.get [("wain", ⟨"wain", [("a", ⟨0, "int*"⟩), ("b", ⟨-4, "int"⟩)]⟩)]
          (WLP4ParseTree.secondWord idn.seq)) x.type ↔ x.type = TYPE_INT) ∧
      (x.type ≠ TYPE_INT → ∀ l ∈
        wainEntry (ProcTable.get [("wain", ⟨"wain", [("a", ⟨0, "int*"⟩), ("b", ⟨-4, "int"⟩)]⟩)]
          (WLP4ParseTree.secondWord idn.seq)) x.type, writesTwo l = false) ∧
      "\t\tjalr $5" ∉
        wainEntry (ProcTable.get [("wain", ⟨"wain", [("a", ⟨0, "int*"⟩), ("b", ⟨-4, "int"⟩)]⟩)]
          (WLP4ParseTree.secondWord idn.seq)) x.type :=
  ⟨by decide,
   wain_prologue 3 exampleRegs [("wain", ⟨"wain", [("a", ⟨0, "int*"⟩), ("b", ⟨-4, "int"⟩)]⟩)]
     examplePtrWain (Gen.new exampleRegs)
     { Gen.new exampleRegs with
       out := ["", "", "", "Fwain:", "\t\tsw $31, -4($30)", "\t\tsub $30, $30, $4",
        "\t\tsub $29, $30, $4", "\t\tsw $1, 0($29)", "\t\tsw $2, -4($29)", "\t\tlis $3",
        "\t\t.word 8", "\t\tsub $30, $30, $3", "\t\tlis $5", "\t\t.word init", "\t\tjalr $5",
        "", "", "\t\tlw $3, -4($29)", "", "", "\t\tadd $30, $29, $4", "\t\tlw $1, 0($29)",
        "\t\tlw $2, -4($29)", "\t\tadd $30, $30, $4", "\t\tlw $31, -4($30)",
        "\t\tadd $29, $30, $0", "\t\tjr $31"] }
     rfl (by decide)⟩

end WLP4Gen

end WLP4

namespace Assembler

/-- Witness for C26: the one-line program `lw $3, -4($29)` assembles to the word
`0x8fa3fffc`, and the driver writes the four bytes `8f a3 ff fc`. -/
theorem driver_output_bytes_witness :
    main exampleScan decimalValue ["lw $3, -4($29)"] = ([143, 163, 255, 252], "", 0) :=
  ((driver_output_bytes exampleScan decimalValue ["lw $3, -4($29)"]
      [[⟨.ID, "lw"⟩, ⟨.REG, "$3"⟩, ⟨.COMMA, ","⟩, ⟨.INT, "-4"⟩, ⟨.LPAREN, "("⟩, ⟨.REG, "$29"⟩,
        ⟨.RPAREN, ")"⟩]] [0x8fa3fffc] (by decide) (by decide)).1).trans (by decide)

end Assembler

namespace WLP4

namespace WLP4ParseTree

theorem child_setChild_same (n x c : Node) (i : Nat) (h : child n i = .ok c) :
    child (n.setChild i x) i = .ok x := by
  obtain ⟨k, s, t, cs⟩ := n
  unfold child at h ⊢
  simp only [Node.children, Node.setChild] at h ⊢
  have hlt : i < cs.length := by
    by_contra hge
    rw [List.getElem?_eq_none (by omega)] at h
    cases h
  rw [List.getElem?_set_self hlt]

theorem dcl_declared (pt : ProcTable) (cur : String) (d ty dcl1 : Node) (o : Option Node)
    (pt1 : ProcTable) (h0 : child d 0 = .ok ty)
    (h : annotate_dcl pt cur d none = .ok (dcl1, o, pt1)) :
    dclType dcl1 = .ok (if ty.children.length = 1 then TYPE_INT else TYPE_INT_PTR) := by
  unfold annotate_dcl at h
  simp only [h0, bind, Except.bind, pure, Except.pure, throwTypeError] at h
  cases h1 : child d 1 with
  | error e => rw [h1] at h; cases h
  | ok idn =>
      rw [h1] at h
      simp only [] at h
      split at h
      · cases h
      · simp only [Except.ok.injEq, Prod.mk.injEq] at h
        obtain ⟨rfl, -, -⟩ := h
        unfold dclType
        simp only [child_setChild_same d _ idn 1 h1, bind, Except.bind, pure, Except.pure,
          type_setType]

theorem int_ne_ptr : TYPE_INT_PTR ≠ TYPE_INT := by decide

/-- What the first part of `annotate_proc` has checked when it succeeds: for
`main` the position of the `dcls` child is 8 and the second parameter is declared
with `type → INT`; otherwise the position is 6. -/
theorem procDecl_inv (fuel : Nat) (ptable : ProcTable) (node idn n1 : Node)
    (pt2 : ProcTable) (i : Nat) (h1 : child node 1 = .ok idn)
    (h : procDeclPhase fuel ptable node = .ok (n1, pt2, i)) :
    (node.kind = "main" → i = 8 ∧ ∀ d2 ty, child node 5 = .ok d2 → child d2 0 = .ok ty →
      ty.children.length = 1) ∧
    (node.kind ≠ "main" → i = 6) := by
  unfold procDeclPhase at h
  simp only [h1, bind, Except.bind, pure, Except.pure, throwTypeError] at h
  by_cases hc : ptable.count (secondWord idn.seq) > 0
  · simp [hc] at h
  simp only [hc, if_false] at h
  generalize hD : (if (decide (node.kind = "main")) = true then _ else _ :
    Except Abort (Node × ProcTable × Nat)) = D at h
  cases D with
  | error e => simp at h
  | ok v =>
      obtain ⟨node1, pt1, j⟩ := v
      simp only [] at h
      have hij : i = j := by
        cases hi : child node j with
        | error e => rw [hi] at h; simp at h
        | ok ci =>
            rw [hi] at h
            simp only [] at h
            cases hd : annotate_dcls fuel pt1 (secondWord idn.seq) ci with
            | error e => rw [hd] at h; simp at h
            | ok w =>
                obtain ⟨dcls, pt3⟩ := w
                rw [hd] at h
                simp only [Except.ok.injEq, Prod.mk.injEq] at h
                exact h.2.2.symm
      subst hij
      by_cases hm : node.kind = "main"
      · refine ⟨fun _ => ?_, fun hn => absurd hm hn⟩
        simp only [hm, decide_True, if_true] at hD
        cases h3 : child node 3 with
        | error e => rw [h3] at hD; simp at hD
        | ok c3 =>
            rw [h3] at hD
            simp only [] at hD
            cases hd1 : annotate_dcl _ (secondWord idn.seq) c3 none with
            | error e => rw [hd1] at hD; simp at hD
            | ok v1 =>
                obtain ⟨d1, r1, pa⟩ := v1
                rw [hd1] at hD
                simp only [] at hD
                cases h5 : child node 5 with
                | error e => rw [h5] at hD; simp at hD
                | ok c5 =>
                    rw [h5] at hD
                    simp only [] at hD
                    cases hd2 : annotate_dcl pa (secondWord idn.seq) c5 none with
                    | error e => rw [hd2] at hD; simp at hD
                    | ok v2 =>
                        obtain ⟨d2, r2, pb⟩ := v2
                        rw [hd2] at hD
                        simp only [] at hD
                        cases ht : child c5 0 with
                        | error e =>
                            exfalso
                            unfold annotate_dcl at hd2
                            simp [ht, bind, Except.bind] at hd2
                        | ok ty =>
                            rw [dcl_declared pa _ c5 ty d2 r2 pb ht hd2] at hD
                            simp only [] at hD
                            by_cases hl : ty.children.length = 1
                            · simp only [hl, if_true, ne_eq, not_true_eq_false, if_false,
                                Except.ok.injEq, Prod.mk.injEq] at hD
                              refine ⟨hD.2.2.symm, fun d2' ty' e5 e0 => ?_⟩
                              cases e5
                              rw [ht] at e0
                              cases e0
                              exact hl
                            · simp [hl, int_ne_ptr] at hD
      · refine ⟨fun hn => absurd hn hm, fun _ => ?_⟩
        simp only [hm, decide_False, Bool.false_eq_true, if_false] at hD
        cases h3 : child node 3 with
        | error e => rw [h3] at hD; simp at hD
        | ok c3 =>
            rw [h3] at hD
            simp only [] at hD
            cases hp : annotate_params fuel _ (secondWord idn.seq) c3 with
            | error e => rw [hp] at hD; simp at hD
            | ok v1 =>
                obtain ⟨d1, pa⟩ := v1
                rw [hp] at hD
                simp only [Except.ok.injEq, Prod.mk.injEq] at hD
                exact hD.2.2.symm

end WLP4ParseTree

end WLP4

namespace WLP4

namespace WLP4ParseTree

/-- The verdict of `annotate_proc` once the declarations and the statements of
the procedure have passed: it depends on the type of the return expression only. -/
theorem return_verdict (fuel : Nat) (ptable : ProcTable) (node idn n2 s e stmts e1 : Node)
    (pt2 : ProcTable) (i : Nat) (h1 : child node 1 = .ok idn)
    (hD : procDeclPhase fuel ptable node = .ok (n2, pt2, i))
    (hs : child node (i + 1) = .ok s)
    (hS : annotate_stmts fuel pt2 (secondWord idn.seq) s = .ok stmts)
    (he : child node (i + 3) = .ok e)
    (hE : annotate_expr fuel pt2 (secondWord idn.seq) e = .ok e1) :
    annotate_proc (fuel + 1) ptable node =
      if e1.type ≠ TYPE_INT then
        throwTypeError ("The return expression of [" ++ secondWord idn.seq ++
          "] is not int type.")
      else .ok ((n2.setChild (i + 1) stmts).setChild (i + 3) e1, pt2) := by
  rw [proc_phases fuel ptable node idn h1, hD]
  simp only [bind, Except.bind, procBodyPhase, hs, hS, he, hE, pure, Except.pure]

/-- The verdict of `annotate_proc` on a `main` node whose two parameters pass
the checks of `annotate_dcl` and whose second parameter is not declared with
`type → INT`. -/
theorem wain_second_param (fuel : Nat) (ptable : ProcTable) (node idn d1 d2 ty dcl1 dcl2 : Node)
    (o1 o2 : Option Node) (pt1 pt2 : ProcTable) (hk : node.kind = "main")
    (h1 : child node 1 = .ok idn) (hcount : ptable.count (secondWord idn.seq) = 0)
    (h3 : child node 3 = .ok d1) (h5 : child node 5 = .ok d2) (hty : child d2 0 = .ok ty)
    (hd1 : annotate_dcl (ptable.set (secondWord idn.seq) (ProcData.new (secondWord idn.seq)))
      (secondWord idn.seq) d1 none = .ok (dcl1, o1, pt1))
    (hd2 : annotate_dcl pt1 (secondWord idn.seq) d2 none = .ok (dcl2, o2, pt2))
    (hptr : ty.children.length ≠ 1) :
    annotate_proc (fuel + 1) ptable node =
      throwTypeError "The second parameter of wain is not int type." := by
  have hc : ¬ ptable.count (secondWord idn.seq) > 0 := by omega
  have ht := dcl_declared pt1 _ d2 ty dcl2 o2 pt2 hty hd2
  rw [if_neg hptr] at ht
  rw [annotate_proc]
  simp only [h1, bind, Except.bind, pure, Except.pure, hc, if_false, hk, decide_True, if_true, h3,
    hd1, h5, hd2, ht, int_ne_ptr, ne_eq, not_false_eq_true, throwTypeError]

theorem proc_accepted_inv (f : Nat) (ptable : ProcTable) (node : Node) (r : Node × ProcTable)
    (h : annotate_proc f ptable node = .ok r) :
    ∃ fuel idn n2 pt2 i e e1, f = fuel + 1 ∧ child node 1 = .ok idn ∧
      procDeclPhase fuel ptable node = .ok (n2, pt2, i) ∧ child node (i + 3) = .ok e ∧
      annotate_expr fuel pt2 (secondWord idn.seq) e = .ok e1 ∧ e1.type = TYPE_INT := by
  cases f with
  | zero => rw [annotate_proc] at h; cases h
  | succ fuel =>
      cases h1 : child node 1 with
      | error e =>
          rw [annotate_proc] at h
          simp [h1, bind, Except.bind] at h
      | ok idn =>
          rw [proc_phases fuel ptable node idn h1] at h
          cases hD : procDeclPhase fuel ptable node with
          | error e => rw [hD] at h; cases h
          | ok v =>
              obtain ⟨n2, pt2, i⟩ := v
              rw [hD] at h
              simp only [bind, Except.bind, procBodyPhase, pure, Except.pure,
                throwTypeError] at h
              cases hs : child node (i + 1) with
              | error e => rw [hs] at h; cases h
              | ok s =>
                  rw [hs] at h
                  simp only [] at h
                  cases hS : annotate_stmts fuel pt2 (secondWord idn.seq) s with
                  | error e => rw [hS] at h; cases h
                  | ok stmts =>
                      rw [hS] at h
                      simp only [] at h
                      cases he : child node (i + 3) with
                      | error e => rw [he] at h; cases h
                      | ok e =>
                          rw [he] at h
                          simp only [] at h
                          cases hE : annotate_expr fuel pt2 (secondWord idn.seq) e with
                          | error e => rw [hE] at h; cases h
                          | ok e1 =>
                              rw [hE] at h
                              simp only [] at h
                              by_cases ht : e1.type = TYPE_INT
                              · exact ⟨fuel, idn, n2, pt2, i, e, e1, rfl, rfl, hD, he, hE, ht⟩
                              · rw [if_pos ht] at h
                                cases h

/-- Every procedure of an accepted program has been accepted by `annotate_proc`. -/
theorem prog_procs_accepted (fuel : Nat) : ∀ (ptable : ProcTable) (n : Node)
    (r : Node × ProcTable), annotate_prog_level fuel ptable n = .ok r →
    ∀ p, ProcIn p n → ∃ f pt r1, annotate_proc f pt p = .ok r1 := by
  induction fuel with
  | zero =>
      intro _ _ _ h
      simp [annotate_prog_level] at h
  | succ fuel ih =>
      intro ptable n r h p hin
      obtain ⟨k, s, ty, cs⟩ := n
      by_cases hk : k = "start"
      · subst hk
        obtain ⟨bof, procs, eof, rfl, hin1⟩ := ProcIn.inv_start hin
        rw [annotate_prog_level] at h
        simp [child, bind, Except.bind, pure, Except.pure, throwTypeError] at h
        cases hA : annotate_prog_level fuel ptable procs with
        | error e => rw [hA] at h; simp at h
        | ok v => exact ih ptable procs v hA p hin1
      · by_cases hk2 : k = "procedures"
        · subst hk2
          rw [annotate_prog_level] at h
          rcases ProcIn.inv_procedures hin with ⟨rest, rfl⟩ | ⟨q, procs, rfl, hin1⟩
          · simp [child, bind, Except.bind, pure, Except.pure, throwTypeError] at h
            cases hA : annotate_proc fuel ptable p with
            | error e => rw [hA] at h; simp at h
            | ok v => exact ⟨fuel, ptable, v, hA⟩
          · simp [child, bind, Except.bind, pure, Except.pure, throwTypeError] at h
            cases hA : annotate_proc fuel ptable q with
            | error e => rw [hA] at h; simp at h
            | ok v =>
                obtain ⟨q1, ptA⟩ := v
                rw [hA] at h
                simp only [] at h
                cases hB : annotate_prog_level fuel ptA procs with
                | error e => rw [hB] at h; simp at h
                | ok w => exact ih ptA procs w hB p hin1
        · exfalso
          cases hin with
          | start => exact hk rfl
          | here => exact hk2 rfl
          | there => exact hk2 rfl

end WLP4ParseTree

end WLP4
namespace WLP4

namespace WLP4ParseTree

theorem kind_setChild (n x : Node) (i : Nat) : (n.setChild i x).kind = n.kind := by
  obtain ⟨k, s, t, cs⟩ := n
  rfl

theorem length_setChild (n x : Node) (i : Nat) :
    (n.setChild i x).children.length = n.children.length := by
  obtain ⟨k, s, t, cs⟩ := n
  simp [Node.setChild, Node.children]

theorem proc_compare (fuel : Nat) (pt : ProcTable) (node : Node) :
    (∀ e, otherChecks_proc (fuel + 1) pt node = .error e →
      ∃ e1, annotate_proc (fuel + 1) pt node = .error e1) ∧
    (∀ p1 pt1, otherChecks_proc (fuel + 1) pt node = .ok (p1, pt1) →
      ∃ idn t, child node 1 = .ok idn ∧ p1.kind = node.kind ∧ returnType p1 = .ok t ∧
        (node.kind = "main" → ∃ t2, secondParamType p1 = .ok t2 ∧
          (t2 ≠ TYPE_INT → annotate_proc (fuel + 1) pt node =
            throwTypeError "The second parameter of wain is not int type.")) ∧
        ((node.kind = "main" → secondParamType p1 = .ok TYPE_INT) →
          annotate_proc (fuel + 1) pt node =
            if t ≠ TYPE_INT then
              throwTypeError ("The return expression of [" ++ secondWord idn.seq ++
                "] is not int type.")
            else .ok (p1, pt1))) := by
  rw [otherChecks_proc, annotate_proc]
  simp only [bind, Except.bind, pure, Except.pure, throwTypeError]
  cases h1 : child node 1 with
  | error e => exact ⟨fun _ _ => ⟨_, rfl⟩, fun _ _ h => nomatch h⟩
  | ok idn =>
      simp only []
      by_cases hc : pt.count (secondWord idn.seq) > 0
      · simp only [hc, if_true]
        exact ⟨fun _ _ => ⟨_, rfl⟩, fun _ _ h => nomatch h⟩
      · simp only [hc, if_false]
        by_cases hk : node.kind = "main"
        · simp only [show decide (node.kind = "main") = true from decide_eq_true hk, if_true]
          cases h3 : child node 3 with
          | error e => exact ⟨fun _ _ => ⟨_, rfl⟩, fun _ _ h => nomatch h⟩
          | ok c3 =>
              simp only []
              cases hd1 : annotate_dcl (pt.set (secondWord idn.seq)
                  (ProcData.new (secondWord idn.seq))) (secondWord idn.seq) c3 none with
              | error e => exact ⟨fun _ _ => ⟨_, rfl⟩, fun _ _ h => nomatch h⟩
              | ok v1 =>
                  obtain ⟨dcl1, o1, ptA⟩ := v1
                  simp only []
                  cases h5 : child node 5 with
                  | error e => exact ⟨fun _ _ => ⟨_, rfl⟩, fun _ _ h => nomatch h⟩
                  | ok c5 =>
                      simp only []
                      cases hd2 : annotate_dcl ptA (secondWord idn.seq) c5 none with
                      | error e => exact ⟨fun _ _ => ⟨_, rfl⟩, fun _ _ h => nomatch h⟩
                      | ok v2 =>
                          obtain ⟨dcl2, o2, ptB⟩ := v2
                          simp only []
                          cases hT : dclType dcl2 with
                          | error e => exact ⟨fun _ _ => ⟨_, rfl⟩, fun _ _ h => nomatch h⟩
                          | ok t2 =>
                              simp only []
                              by_cases ht2 : t2 = TYPE_INT
                              · simp only [ht2, ne_eq, not_true_eq_false, if_false]
                                rw [ht2] at hT
                                cases hi : child node 8 with
                                | error e => exact ⟨fun _ _ => ⟨_, rfl⟩, fun _ _ h => nomatch h⟩
                                | ok ci =>
                                    simp only []
                                    cases hD : annotate_dcls fuel ptB (secondWord idn.seq) ci with
                                    | error e => exact ⟨fun _ _ => ⟨_, rfl⟩, fun _ _ h => nomatch h⟩
                                    | ok vD =>
                                        obtain ⟨dcls, ptD⟩ := vD
                                        simp only []
                                        cases hs : child node (8 + 1) with
                                        | error e => exact ⟨fun _ _ => ⟨_, rfl⟩, fun _ _ h => nomatch h⟩
                                        | ok cs =>
                                            simp only []
                                            cases hS : annotate_stmts fuel ptD (secondWord idn.seq) cs with
                                            | error e => exact ⟨fun _ _ => ⟨_, rfl⟩, fun _ _ h => nomatch h⟩
                                            | ok stmts =>
                                                simp only []
                                                cases he : child node (8 + 3) with
                                                | error e => exact ⟨fun _ _ => ⟨_, rfl⟩, fun _ _ h => nomatch h⟩
                                                | ok ce =>
                                                    simp only []
                                                    cases hE : annotate_expr fuel ptD (secondWord idn.seq) ce with
                                                    | error e => exact ⟨fun _ _ => ⟨_, rfl⟩, fun _ _ h => nomatch h⟩
                                                    | ok expr =>
                                                        simp only []
                                                        refine ⟨fun _ h => (nomatch h), fun p1 pt1 h => ?_⟩
                                                        injection h with h
                                                        injection h with hp hq
                                                        subst hp hq
                                                        have hk1 : (((((node.setChild 3 dcl1).setChild 5 dcl2).setChild 8 dcls).setChild (8 + 1)
                                                            stmts).setChild (8 + 3) expr).kind = node.kind := by simp only [kind_setChild]
                                                        have hret : returnType (((((node.setChild 3 dcl1).setChild 5 dcl2).setChild 8 dcls).setChild
                                                            (8 + 1) stmts).setChild (8 + 3) expr) = .ok expr.type := by
                                                          unfold returnType
                                                          rw [hk1, if_pos hk]
                                                          rw [child_setChild_same _ _ ce 11 (by
                                                            rw [child_setChild_of_ne _ _ 11 (8 + 1) (by decide), child_setChild_of_ne _ _ 11 8 (by decide),
                                                              child_setChild_of_ne _ _ 11 5 (by decide), child_setChild_of_ne _ _ 11 3 (by decide)]
                                                            exact he)]
                                                          rfl
                                                        have hsec : secondParamType (((((node.setChild 3 dcl1).setChild 5 dcl2).setChild 8
                                                            dcls).setChild (8 + 1) stmts).setChild (8 + 3) expr) = .ok TYPE_INT := by
                                                          unfold secondParamType
                                                          rw [child_setChild_of_ne _ _ 5 (8 + 3) (by decide), child_setChild_of_ne _ _ 5 (8 + 1) (by decide),
                                                            child_setChild_of_ne _ _ 5 8 (by decide),
                                                            child_setChild_same _ _ c5 5 (by rw [child_setChild_of_ne _ _ 5 3 (by decide)]; exact h5)]
                                                          exact hT
                                                        refine ⟨idn, expr.type, rfl, hk1, hret, fun _ => ⟨TYPE_INT, hsec, fun hne => absurd rfl hne⟩,
                                                          fun _ => rfl⟩
                              · simp only [ne_eq, ht2, not_false_eq_true, if_true]
                                cases hi : child node 8 with
                                | error e => exact ⟨fun _ _ => ⟨_, rfl⟩, fun _ _ h => nomatch h⟩
                                | ok ci =>
                                    simp only []
                                    cases hD : annotate_dcls fuel ptB (secondWord idn.seq) ci with
                                    | error e => exact ⟨fun _ _ => ⟨_, rfl⟩, fun _ _ h => nomatch h⟩
                                    | ok vD =>
                                        obtain ⟨dcls, ptD⟩ := vD
                                        simp only []
                                        cases hs : child node (8 + 1) with
                                        | error e => exact ⟨fun _ _ => ⟨_, rfl⟩, fun _ _ h => nomatch h⟩
                                        | ok cs =>
                                            simp only []
                                            cases hS : annotate_stmts fuel ptD (secondWord idn.seq) cs with
                                            | error e => exact ⟨fun _ _ => ⟨_, rfl⟩, fun _ _ h => nomatch h⟩
                                            | ok stmts =>
                                                simp only []
                                                cases he : child node (8 + 3) with
                                                | error e => exact ⟨fun _ _ => ⟨_, rfl⟩, fun _ _ h => nomatch h⟩
                                                | ok ce =>
                                                    simp only []
                                                    cases hE : annotate_expr fuel ptD (secondWord idn.seq) ce with
                                                    | error e => exact ⟨fun _ _ => ⟨_, rfl⟩, fun _ _ h => nomatch h⟩
                                                    | ok expr =>
                                                        simp only []
                                                        refine ⟨fun _ h => (nomatch h), fun p1 pt1 h => ?_⟩
                                                        injection h with h
                                                        injection h with hp hq
                                                        subst hp hq
                                                        have hk1 : (((((node.setChild 3 dcl1).setChild 5 dcl2).setChild 8 dcls).setChild (8 + 1)
                                                            stmts).setChild (8 + 3) expr).kind = node.kind := by simp only [kind_setChild]
                                                        have hret : returnType (((((node.setChild 3 dcl1).setChild 5 dcl2).setChild 8 dcls).setChild
                                                            (8 + 1) stmts).setChild (8 + 3) expr) = .ok expr.type := by
                                                          unfold returnType
                                                          rw [hk1, if_pos hk]
                                                          rw [child_setChild_same _ _ ce 11 (by
                                                            rw [child_setChild_of_ne _ _ 11 (8 + 1) (by decide), child_setChild_of_ne _ _ 11 8 (by decide),
                                                              child_setChild_of_ne _ _ 11 5 (by decide), child_setChild_of_ne _ _ 11 3 (by decide)]
                                                            exact he)]
                                                          rfl
                                                        have hsec : secondParamType (((((node.setChild 3 dcl1).setChild 5 dcl2).setChild 8
                                                            dcls).setChild (8 + 1) stmts).setChild (8 + 3) expr) = .ok t2 := by
                                                          unfold secondParamType
                                                          rw [child_setChild_of_ne _ _ 5 (8 + 3) (by decide), child_setChild_of_ne _ _ 5 (8 + 1) (by decide),
                                                            child_setChild_of_ne _ _ 5 8 (by decide),
                                                            child_setChild_same _ _ c5 5 (by rw [child_setChild_of_ne _ _ 5 3 (by decide)]; exact h5)]
                                                          exact hT
                                                        refine ⟨idn, expr.type, rfl, hk1, hret, fun _ => ⟨t2, hsec, fun _ => trivial⟩, fun hm => ?_⟩
                                                        have h2 := hm hk
                                                        rw [hsec] at h2
                                                        injection h2 with h2
                                                        exact absurd h2 ht2
        · simp only [show decide (node.kind = "main") = false from decide_eq_false hk,
            Bool.false_eq_true, if_false]
          cases h3 : child node 3 with
          | error e => exact ⟨fun _ _ => ⟨_, rfl⟩, fun _ _ h => nomatch h⟩
          | ok c3 =>
              simp only []
              cases hP : annotate_params fuel (pt.set (secondWord idn.seq)
                  (ProcData.new (secondWord idn.seq))) (secondWord idn.seq) c3 with
              | error e => exact ⟨fun _ _ => ⟨_, rfl⟩, fun _ _ h => nomatch h⟩
              | ok vP =>
                  obtain ⟨params, ptP⟩ := vP
                  simp only []
                  cases hi : child node 6 with
                  | error e => exact ⟨fun _ _ => ⟨_, rfl⟩, fun _ _ h => nomatch h⟩
                  | ok ci =>
                      simp only []
                      cases hD : annotate_dcls fuel ptP (secondWord idn.seq) ci with
                      | error e => exact ⟨fun _ _ => ⟨_, rfl⟩, fun _ _ h => nomatch h⟩
                      | ok vD =>
                          obtain ⟨dcls, ptD⟩ := vD
                          simp only []
                          cases hs : child node (6 + 1) with
                          | error e => exact ⟨fun _ _ => ⟨_, rfl⟩, fun _ _ h => nomatch h⟩
                          | ok cs =>
                              simp only []
                              cases hS : annotate_stmts fuel ptD (secondWord idn.seq) cs with
                              | error e => exact ⟨fun _ _ => ⟨_, rfl⟩, fun _ _ h => nomatch h⟩
                              | ok stmts =>
                                  simp only []
                                  cases he : child node (6 + 3) with
                                  | error e => exact ⟨fun _ _ => ⟨_, rfl⟩, fun _ _ h => nomatch h⟩
                                  | ok ce =>
                                      simp only []
                                      cases hE : annotate_expr fuel ptD (secondWord idn.seq) ce with
                                      | error e => exact ⟨fun _ _ => ⟨_, rfl⟩, fun _ _ h => nomatch h⟩
                                      | ok expr =>
                                          simp only []
                                          refine ⟨fun _ h => (nomatch h), fun p1 pt1 h => ?_⟩
                                          injection h with h
                                          injection h with hp hq
                                          subst hp hq
                                          have hk1 : ((((node.setChild 3 params).setChild 6 dcls).setChild (6 + 1) stmts).setChild
                                              (6 + 3) expr).kind = node.kind := by simp only [kind_setChild]
                                          have hret : returnType ((((node.setChild 3 params).setChild 6 dcls).setChild (6 + 1)
                                              stmts).setChild (6 + 3) expr) = .ok expr.type := by
                                            unfold returnType
                                            rw [hk1, if_neg hk]
                                            rw [child_setChild_same _ _ ce 9 (by
                                              rw [child_setChild_of_ne _ _ 9 (6 + 1) (by decide), child_setChild_of_ne _ _ 9 6 (by decide),
                                                child_setChild_of_ne _ _ 9 3 (by decide)]
                                              exact he)]
                                            rfl
                                          refine ⟨idn, expr.type, rfl, hk1, hret, fun hm => absurd hm hk, fun _ => rfl⟩

/-- The verdict of `annotate_proc` on a procedure that passes the other checks. -/
theorem proc_verdict (f : Nat) (pt : ProcTable) (node : Node) :
    (∀ e, otherChecks_proc f pt node = .error e → ∃ e1, annotate_proc f pt node = .error e1) ∧
    (∀ p1 pt1, otherChecks_proc f pt node = .ok (p1, pt1) →
      (PassesTwo p1 → annotate_proc f pt node = .ok (p1, pt1)) ∧
      (¬ PassesTwo p1 → RejectedByTwo (annotate_proc f pt node))) := by
  cases f with
  | zero =>
      refine ⟨fun _ _ => ⟨.fuel, by rw [annotate_proc]⟩, fun _ _ h => ?_⟩
      rw [otherChecks_proc] at h
      cases h
  | succ fuel =>
      obtain ⟨herr, hok⟩ := proc_compare fuel pt node
      refine ⟨herr, fun p1 pt1 h => ?_⟩
      obtain ⟨idn, t, _, hk1, hret, hmain, hstrict⟩ := hok p1 pt1 h
      constructor
      · intro hp
        have ht : t = TYPE_INT := by
          have h2 := hp.2
          rw [hret] at h2
          injection h2
        rw [hstrict (fun hm => hp.1 (hk1.trans hm)), ht]
        simp only [ne_eq, not_true_eq_false, if_false]
      · intro hp
        by_cases hm : node.kind = "main" → secondParamType p1 = .ok TYPE_INT
        · have ht : t ≠ TYPE_INT := by
            intro ht
            apply hp
            refine ⟨fun hk => hm (hk1.symm.trans hk), ?_⟩
            rw [hret, ht]
          rw [hstrict hm, if_pos ht]
          exact Or.inr ⟨_, rfl⟩
        · have hk : node.kind = "main" := by
            by_contra hk
            exact hm (fun h => absurd h hk)
          obtain ⟨t2, h2, hrej⟩ := hmain hk
          have ht2 : t2 ≠ TYPE_INT := by
            intro ht2
            apply hm
            intro _
            rw [h2, ht2]
          exact Or.inl (hrej ht2)

theorem Visited.of_start {p n : Node} (h : Visited p n) (hk : n.kind = "start") :
    ∃ c, child n 1 = .ok c ∧ Visited p c := by
  cases h with
  | start _ c _ hc hv => exact ⟨c, hc, hv⟩
  | here _ hk2 _ => rw [hk] at hk2; exact absurd hk2 (by decide)
  | there _ c hk2 _ _ _ => rw [hk] at hk2; exact absurd hk2 (by decide)

theorem Visited.of_procedures {p n : Node} (h : Visited p n) (hk : n.kind = "procedures") :
    child n 0 = .ok p ∨
      (n.children.length > 1 ∧ ∃ c, child n 1 = .ok c ∧ Visited p c) := by
  cases h with
  | start _ c hk2 _ _ => rw [hk] at hk2; exact absurd hk2 (by decide)
  | here _ _ h0 => exact Or.inl h0
  | there _ c _ hl hc hv => exact Or.inr ⟨hl, c, hc, hv⟩

/-- Every procedure of a program tree is visited by `annotate_prog_level`. -/
theorem Visited.of_procIn {p n : Node} (h : ProcIn p n) : Visited p n := by
  induction h with
  | start s t bof procs eof _ ih =>
      exact Visited.start _ _ procs rfl (by simp [child, Node.children]) ih
  | here s t rest => exact Visited.here _ _ rfl (by simp [child, Node.children])
  | there s t q procs _ ih =>
      exact Visited.there _ _ procs rfl (by simp [Node.children])
        (by simp [child, Node.children]) ih

/-- The verdict of `annotate_prog_level` on a program that passes the other
checks: it is accepted, with the same result, when every procedure visited passes
the two checks, and rejected with one of the two errors otherwise; a program that
fails the other checks is rejected. -/
theorem prog_verdict (fuel : Nat) : ∀ (pt : ProcTable) (n : Node),
    (∀ e, otherChecks_prog_level fuel pt n = .error e →
      ∃ e1, annotate_prog_level fuel pt n = .error e1) ∧
    (∀ r, otherChecks_prog_level fuel pt n = .ok r →
      ((∀ p, Visited p r.1 → PassesTwo p) → annotate_prog_level fuel pt n = .ok r) ∧
      (∀ p, Visited p r.1 → ¬ PassesTwo p → RejectedByTwo (annotate_prog_level fuel pt n))) := by
  induction fuel with
  | zero =>
      intro pt n
      refine ⟨fun _ _ => ⟨.fuel, by rw [annotate_prog_level]⟩, fun _ h => ?_⟩
      rw [otherChecks_prog_level] at h
      cases h
  | succ fuel ih =>
      intro pt n
      rw [otherChecks_prog_level, annotate_prog_level]
      simp only [bind, Except.bind, pure, Except.pure, throwTypeError]
      by_cases hs : n.kind = "start"
      · simp only [if_pos hs]
        cases h1 : child n 1 with
        | error e => exact ⟨fun _ _ => ⟨_, rfl⟩, fun _ h => nomatch h⟩
        | ok c =>
            simp only []
            obtain ⟨ihe, iho⟩ := ih pt c
            cases hL : otherChecks_prog_level fuel pt c with
            | error e =>
                obtain ⟨e1, he1⟩ := ihe e hL
                rw [he1]
                exact ⟨fun _ _ => ⟨_, rfl⟩, fun _ h => nomatch h⟩
            | ok v =>
                obtain ⟨sub, pt1⟩ := v
                simp only []
                obtain ⟨hacc, hrej⟩ := iho _ hL
                have hvis : ∀ p, Visited p (n.setChild 1 sub) → Visited p sub := by
                  intro p hp
                  obtain ⟨c1, hc1, hv⟩ := hp.of_start (by rw [kind_setChild]; exact hs)
                  rw [child_setChild_same n sub c 1 h1] at hc1
                  injection hc1 with hc1
                  rw [hc1]
                  exact hv
                have hvis2 : ∀ p, Visited p sub → Visited p (n.setChild 1 sub) := by
                  intro p hp
                  exact Visited.start p _ sub (by rw [kind_setChild]; exact hs)
                    (child_setChild_same n sub c 1 h1) hp
                refine ⟨fun _ h => (nomatch h), fun r h => ?_⟩
                injection h with h
                subst h
                constructor
                · intro hall
                  rw [hacc (fun p hp => hall p (hvis2 p hp))]
                · intro p hp hnp
                  rcases hrej p (hvis p hp) hnp with hr | ⟨q, hr⟩
                  · rw [hr]
                    exact Or.inl rfl
                  · rw [hr]
                    exact Or.inr ⟨q, rfl⟩
      · simp only [if_neg hs]
        by_cases hp : n.kind = "procedures"
        · simp only [if_pos hp]
          cases h0 : child n 0 with
          | error e => exact ⟨fun _ _ => ⟨_, rfl⟩, fun _ h => nomatch h⟩
          | ok q =>
              simp only []
              obtain ⟨pe, po⟩ := proc_verdict fuel pt q
              cases hL : otherChecks_proc fuel pt q with
              | error e =>
                  obtain ⟨e1, he1⟩ := pe e hL
                  rw [he1]
                  exact ⟨fun _ _ => ⟨_, rfl⟩, fun _ h => nomatch h⟩
              | ok v =>
                  obtain ⟨q1, ptA⟩ := v
                  simp only []
                  obtain ⟨pacc, prej⟩ := po q1 ptA hL
                  have hq0 : child (n.setChild 0 q1) 0 = .ok q1 := child_setChild_same n q1 q 0 h0
                  have hkq : (n.setChild 0 q1).kind = "procedures" := by
                    rw [kind_setChild]
                    exact hp
                  have hone : ∀ p, Visited p (n.setChild 0 q1) → ¬ n.children.length > 1 →
                      p = q1 := by
                    intro p hv hl
                    rcases hv.of_procedures hkq with h | ⟨hl2, _⟩
                    · rw [hq0] at h
                      injection h with h
                      exact h.symm
                    · rw [length_setChild] at hl2
                      exact absurd hl2 hl
                  have htwo : ∀ p c sub, child n 1 = .ok c →
                      Visited p ((n.setChild 0 q1).setChild 1 sub) → p = q1 ∨ Visited p sub := by
                    intro p c sub h1 hv
                    have hc1 : child ((n.setChild 0 q1).setChild 1 sub) 1 = .ok sub :=
                      child_setChild_same _ sub c 1 (by
                        rw [child_setChild_of_ne _ _ 1 0 (by decide)]
                        exact h1)
                    rcases hv.of_procedures (by rw [kind_setChild]; exact hkq) with h | ⟨_, c1, h, hv1⟩
                    · rw [child_setChild_of_ne _ _ 0 1 (by decide), hq0] at h
                      injection h with h
                      exact Or.inl h.symm
                    · rw [hc1] at h
                      injection h with h
                      rw [h]
                      exact Or.inr hv1
                  have hin2 : ∀ sub, Visited q1 ((n.setChild 0 q1).setChild 1 sub) := by
                    intro sub
                    refine Visited.here _ _ (by rw [kind_setChild]; exact hkq) ?_
                    rw [child_setChild_of_ne _ _ 0 1 (by decide)]
                    exact hq0
                  have hsub : ∀ p c sub, child n 1 = .ok c → n.children.length > 1 →
                      Visited p sub → Visited p ((n.setChild 0 q1).setChild 1 sub) := by
                    intro p c sub h1 hl hv
                    refine Visited.there _ _ sub (by rw [kind_setChild]; exact hkq)
                      (by rw [length_setChild, length_setChild]; exact hl) ?_ hv
                    exact child_setChild_same _ sub c 1 (by
                      rw [child_setChild_of_ne _ _ 1 0 (by decide)]
                      exact h1)
                  by_cases hpq : PassesTwo q1
                  · rw [pacc hpq]
                    simp only []
                    by_cases hl : n.children.length > 1
                    · simp only [if_pos hl]
                      cases h1 : child n 1 with
                      | error e => exact ⟨fun _ _ => ⟨_, rfl⟩, fun _ h => nomatch h⟩
                      | ok c =>
                          simp only []
                          obtain ⟨ihe, iho⟩ := ih ptA c
                          cases hL2 : otherChecks_prog_level fuel ptA c with
                          | error e =>
                              obtain ⟨e1, he1⟩ := ihe e hL2
                              rw [he1]
                              exact ⟨fun _ _ => ⟨_, rfl⟩, fun _ h => nomatch h⟩
                          | ok v =>
                              obtain ⟨sub, pt2⟩ := v
                              simp only []
                              obtain ⟨hacc, hrej⟩ := iho _ hL2
                              refine ⟨fun _ h => (nomatch h), fun r h => ?_⟩
                              injection h with h
                              subst h
                              constructor
                              · intro hall
                                rw [hacc (fun p hv => hall p (hsub p c sub h1 hl hv))]
                              · intro p hv hnp
                                rcases htwo p c sub h1 hv with h | h
                                · rw [h] at hnp
                                  exact absurd hpq hnp
                                · rcases hrej p h hnp with hr | ⟨x, hr⟩
                                  · rw [hr]
                                    exact Or.inl rfl
                                  · rw [hr]
                                    exact Or.inr ⟨x, rfl⟩
                    · simp only [if_neg hl]
                      refine ⟨fun _ h => (nomatch h), fun r h => ?_⟩
                      injection h with h
                      subst h
                      refine ⟨fun _ => rfl, fun p hv hnp => ?_⟩
                      rw [hone p hv hl] at hnp
                      exact absurd hpq hnp
                  · have hR := prej hpq
                    have hE : ∃ e1, annotate_proc fuel pt q = .error e1 := by
                      rcases hR with h | ⟨x, h⟩
                      · exact ⟨_, h⟩
                      · exact ⟨_, h⟩
                    obtain ⟨e1, he1⟩ := hE
                    have hR2 : RejectedByTwo (.error e1) := by
                      rw [← he1]
                      exact hR
                    rw [he1]
                    simp only []
                    refine ⟨fun _ _ => ⟨_, rfl⟩, fun r h => ⟨fun hall => ?_, fun _ _ _ => hR2⟩⟩
                    exfalso
                    apply hpq
                    apply hall
                    by_cases hl : n.children.length > 1
                    · simp only [if_pos hl] at h
                      cases h1 : child n 1 with
                      | error e => rw [h1] at h; cases h
                      | ok c =>
                          rw [h1] at h
                          simp only [] at h
                          cases hL2 : otherChecks_prog_level fuel ptA c with
                          | error e => rw [hL2] at h; cases h
                          | ok v =>
                              rw [hL2] at h
                              simp only [] at h
                              injection h with h
                              subst h
                              exact hin2 _
                    · simp only [if_neg hl] at h
                      injection h with h
                      subst h
                      exact Visited.here _ _ hkq hq0
        · simp only [if_neg hp]
          exact ⟨fun _ _ => ⟨_, rfl⟩, fun _ h => nomatch h⟩

/-- C21. The checks on the second parameter of `wain` and on the return
expressions, against `otherChecks`, the type checker without these two checks.
`annotate` accepts a program exactly when the program passes the other checks and,
in the tree they annotate, every procedure visited (`wain` included) passes the
two checks `PassesTwo`: its return expression, the child 11 of a `main` node and
the child 9 of a `procedure` node, has the type int, and the second parameter of
a `main` node has the type int; the result is then the one of the other checks.
A program that passes the other checks and in which some procedure does not pass
the two checks, in particular one in which the second parameter of `wain` or the
return expression of some procedure has the type int*, is rejected with "The
second parameter of wain is not int type." or with "The return expression of [q]
is not int type." for some `q`; a program that fails the other checks is rejected
too.  The procedures of a program tree (`ProcIn`) are among those visited.  A
program whose `main` node declares its second parameter otherwise than with
`type → INT` is rejected, and not for lack of fuel.  A `main` node whose parameters
pass the checks of `annotate_dcl` and whose second parameter is declared otherwise
is rejected with "The second parameter of wain is not int type."  Once the
declarations and the statements of a procedure have passed and its return
expression has been annotated, the procedure is accepted if the type of the
expression is int and is rejected with "The return expression of [p] is not int
type." otherwise. -/
theorem wain_and_return_checks :
    (∀ (root : Node) (r : Node × ProcTable), annotate root = .ok r ↔
      otherChecks root = .ok r ∧ ∀ p, Visited p r.1 → PassesTwo p) ∧
    (∀ (root : Node) (r : Node × ProcTable) (p : Node), otherChecks root = .ok r →
      Visited p r.1 → ¬ PassesTwo p → RejectedByTwo (annotate root)) ∧
    (∀ (root : Node) (r : Node × ProcTable) (p : Node), otherChecks root = .ok r →
      Visited p r.1 → p.kind = "main" → secondParamType p = .ok TYPE_INT_PTR →
      RejectedByTwo (annotate root)) ∧
    (∀ (root : Node) (r : Node × ProcTable) (p : Node), otherChecks root = .ok r →
      Visited p r.1 → returnType p = .ok TYPE_INT_PTR → RejectedByTwo (annotate root)) ∧
    (∀ (root : Node) (e : Abort), otherChecks root = .error e →
      ∃ e1, annotate root = .error e1) ∧
    (∀ (p n : Node), ProcIn p n → Visited p n) ∧
    (∀ (root p d2 ty : Node), ProcIn p root → p.kind = "main" → child p 5 = .ok d2 →
      child d2 0 = .ok ty → ty.children.length ≠ 1 →
      ∃ e, annotate root = .error e ∧ e ≠ .fuel) ∧
    (∀ (fuel : Nat) (ptable : ProcTable) (node idn d1 d2 ty dcl1 dcl2 : Node)
      (o1 o2 : Option Node) (pt1 pt2 : ProcTable), node.kind = "main" →
      child node 1 = .ok idn → ptable.count (secondWord idn.seq) = 0 →
      child node 3 = .ok d1 → child node 5 = .ok d2 → child d2 0 = .ok ty →
      annotate_dcl (ptable.set (secondWord idn.seq) (ProcData.new (secondWord idn.seq)))
        (secondWord idn.seq) d1 none = .ok (dcl1, o1, pt1) →
      annotate_dcl pt1 (secondWord idn.seq) d2 none = .ok (dcl2, o2, pt2) →
      ty.children.length ≠ 1 →
      annotate_proc (fuel + 1) ptable node =
        throwTypeError "The second parameter of wain is not int type.") ∧
    (∀ (fuel : Nat) (ptable : ProcTable) (node idn n2 s e stmts e1 : Node) (pt2 : ProcTable)
      (i : Nat), child node 1 = .ok idn →
      procDeclPhase fuel ptable node = .ok (n2, pt2, i) →
      child node (i + 1) = .ok s →
      annotate_stmts fuel pt2 (secondWord idn.seq) s = .ok stmts →
      child node (i + 3) = .ok e →
      annotate_expr fuel pt2 (secondWord idn.seq) e = .ok e1 →
      (e1.type = TYPE_INT → annotate_proc (fuel + 1) ptable node =
        .ok ((n2.setChild (i + 1) stmts).setChild (i + 3) e1, pt2)) ∧
      (e1.type ≠ TYPE_INT → annotate_proc (fuel + 1) ptable node =
        throwTypeError ("The return expression of [" ++ secondWord idn.seq ++
          "] is not int type."))) := by
  have hrej : ∀ (root : Node) (r : Node × ProcTable) (p : Node), otherChecks root = .ok r →
      Visited p r.1 → ¬ PassesTwo p → RejectedByTwo (annotate root) := by
    intro root r p h hv hnp
    exact ((prog_verdict (height root + 1) [] root).2 r h).2 p hv hnp
  refine ⟨?_, hrej, ?_, ?_, ?_, fun p n h => Visited.of_procIn h, ?_, ?_, ?_⟩
  · intro root r
    obtain ⟨he, ho⟩ := prog_verdict (height root + 1) [] root
    constructor
    · intro h
      cases hL : otherChecks root with
      | error e =>
          obtain ⟨e1, he1⟩ := he e hL
          have h2 : annotate root = .error e1 := he1
          rw [h2] at h
          cases h
      | ok r1 =>
          by_cases hall : ∀ p, Visited p r1.1 → PassesTwo p
          · have h2 : annotate root = .ok r1 := (ho r1 hL).1 hall
            rw [h2] at h
            injection h with h
            subst h
            exact ⟨rfl, hall⟩
          · exfalso
            have hex : ∃ p, Visited p r1.1 ∧ ¬ PassesTwo p := by
              by_contra hno
              apply hall
              intro p hv
              by_contra hnp
              exact hno ⟨p, hv, hnp⟩
            obtain ⟨p, hv, hnp⟩ := hex
            rcases hrej root r1 p hL hv hnp with h2 | ⟨q, h2⟩
            · rw [h2] at h
              cases h
            · rw [h2] at h
              cases h
    · intro h
      exact (ho r h.1).1 h.2
  · intro root r p h hv hk hs
    refine hrej root r p h hv (fun hp => ?_)
    have h2 := hp.1 hk
    rw [hs] at h2
    injection h2 with h2
    exact int_ne_ptr h2
  · intro root r p h hv hs
    refine hrej root r p h hv (fun hp => ?_)
    have h2 := hp.2
    rw [hs] at h2
    injection h2 with h2
    exact int_ne_ptr h2
  · intro root e h
    exact (prog_verdict (height root + 1) [] root).1 e h
  · intro root p d2 ty hin hk h5 h0 hlen
    cases hA : annotate root with
    | error e => exact ⟨e, rfl, fun he => annotate_in_budget root (by rw [hA, he])⟩
    | ok r =>
        exfalso
        obtain ⟨f, pt, r1, hP⟩ := prog_procs_accepted _ _ _ _ hA p hin
        obtain ⟨fuel, idn, n2, pt2, i, e, e1, rfl, h1, hD, he, hE, ht⟩ :=
          proc_accepted_inv f pt p r1 hP
        exact hlen ((procDecl_inv fuel pt p idn n2 pt2 i h1 hD).1 hk |>.2 d2 ty h5 h0)
  · intro fuel ptable node idn d1 d2 ty dcl1 dcl2 o1 o2 pt1 pt2 hk h1 hc h3 h5 hty hd1 hd2 hptr
    exact wain_second_param fuel ptable node idn d1 d2 ty dcl1 dcl2 o1 o2 pt1 pt2 hk h1 hc h3 h5
      hty hd1 hd2 hptr
  · intro fuel ptable node idn n2 s e stmts e1 pt2 i h1 hD hs hS he hE
    have hv := return_verdict fuel ptable node idn n2 s e stmts e1 pt2 i h1 hD hs hS he hE
    refine ⟨fun ht => ?_, fun ht => ?_⟩
    · rw [hv, if_neg (not_not.mpr ht)]
    · rw [hv, if_pos ht]

/-- The tree of `int wain(int a, int* b) \x7b return 0; \x7d` is rejected for
its second parameter, the tree of `int wain(int* a, int b) \x7b return a; \x7d`
for its return expression. -/
theorem annotate_rejects :
    annotate (programOfMain (dclNode false "a") (dclNode true "b") (exprOf (rule "factor" "NUM" ""
      [tok "NUM" "0" ""]))) =
      throwTypeError "The second parameter of wain is not int type." ∧
    annotate (programOfMain (dclNode true "a") (dclNode false "b") (exprOf (rule "factor" "ID" ""
      [tok "ID" "a" ""]))) =
      throwTypeError "The return expression of [wain] is not int type." := by
  constructor <;> rfl

/-- The tree of `int wain(int* a, int b) \x7b return a; \x7d` passes the other
checks, and in the tree they annotate the return expression of `wain` has the type
int*; so does the tree of `int wain(int a, int* b) \x7b return 0; \x7d`, in which
the second parameter of `wain` has the type int*. -/
theorem otherChecks_accepts :
    (∃ r p, otherChecks (programOfMain (dclNode true "a") (dclNode false "b")
        (exprOf (rule "factor" "ID" "" [tok "ID" "a" ""]))) = .ok r ∧ Visited p r.1 ∧
      returnType p = .ok TYPE_INT_PTR) ∧
    (∃ r p, otherChecks (programOfMain (dclNode false "a") (dclNode true "b")
        (exprOf (rule "factor" "NUM" "" [tok "NUM" "0" ""]))) = .ok r ∧ Visited p r.1 ∧
      p.kind = "main" ∧ secondParamType p = .ok TYPE_INT_PTR) := by
  constructor
  · refine ⟨_, _, rfl, Visited.start _ _ _ rfl rfl (Visited.here _ _ rfl rfl), rfl⟩
  · refine ⟨_, _, rfl, Visited.start _ _ _ rfl rfl (Visited.here _ _ rfl rfl), rfl, rfl⟩

/-- Witness for C21: `int wain(int* a, int b) \x7b return *(a + b); \x7d` is
accepted: it passes the other checks with the same result, and every procedure
visited in the annotated tree passes the two checks. -/
theorem wain_and_return_checks_witness :
    annotate exampleTree = .ok (exampleTyped, [("wain", exampleTable)]) ∧
    otherChecks exampleTree = .ok (exampleTyped, [("wain", exampleTable)]) ∧
    ∀ p, Visited p exampleTyped → PassesTwo p :=
  ⟨rfl, (wain_and_return_checks.1 exampleTree (exampleTyped, [("wain", exampleTable)])).mp rfl⟩

end WLP4ParseTree

end WLP4

namespace WLP4

namespace WLP4Scanner

open DFA

theorem space_stuck (d : DFA) (hE : WhitespaceEdges d) (st : String) (h1 : st ≠ "_START") (h2 : st ≠ "WHITESPACE") :
    d.transition st ' ' = none := by
  cases ht : d.transition st ' ' with
  | none => rfl
  | some nxt =>
      exfalso
      obtain ⟨s, hs, hname, hmem⟩ := transition_table _ _ _ _ ht
      rcases ((hE.1 s hs _ hmem).1 (Or.inl rfl)).1 with h | h
      · exact h1 (hname ▸ h)
      · exact h2 (hname ▸ h)

theorem ws_closed (d : DFA) (hE : WhitespaceEdges d) (c : Char) (nxt : String)
    (h : d.transition "WHITESPACE" c = some nxt) :
    (c = ' ' ∨ c = '\t') ∧ nxt = "WHITESPACE" := by
  obtain ⟨s, hs, hname, hmem⟩ := transition_table _ _ _ _ h
  have hc := (hE.1 s hs _ hmem).2.2 hname
  exact ⟨hc, ((hE.1 s hs _ hmem).1 hc).2⟩

theorem ws_run (d : DFA) (hE : WhitespaceEdges d) : ∀ (w : List Char) (st : String),
    d.run "WHITESPACE" w = some st → st = "WHITESPACE"
  | [], st, h => by
      simp only [run, Option.some.injEq] at h
      exact h.symm
  | c :: w, st, h => by
      rw [run] at h
      cases ht : d.transition "WHITESPACE" c with
      | none => rw [ht] at h; cases h
      | some nxt =>
          rw [ht] at h
          simp only [] at h
          rw [(ws_closed d hE c nxt ht).2] at h
          exact ws_run d hE w st h

theorem mk_ne_keyword (v : List Char) (c : Char) (hc : c = ' ' ∨ c = '\t') (kw : String)
    (hk : kw.data.getLast? ≠ some ' ' ∧ kw.data.getLast? ≠ some '\t') :
    String.mk (v ++ [c]) ≠ kw := by
  intro h
  have h2 : (v ++ [c]).getLast? = kw.data.getLast? := by rw [← h]
  simp only [List.getLast?_append, List.getLast?_singleton, Option.or_some] at h2
  rcases hc with rfl | rfl
  · exact hk.1 h2.symm
  · exact hk.2 h2.symm

/-- A lexeme that ends in the state `WHITESPACE` is given the kind `WHITESPACE`. -/
theorem ws_kind (d : DFA) (hE : WhitespaceEdges d) (lexL : List Char) (hne : lexL ≠ [])
    (h : d.run d.start lexL = some "WHITESPACE") :
    getKind "WHITESPACE" (String.mk lexL) = "WHITESPACE" := by
  obtain ⟨v, c, rfl⟩ : ∃ v c, lexL = v ++ [c] := by
    rcases List.eq_nil_or_concat lexL with h0 | ⟨v, c, h1⟩
    · exact absurd h0 hne
    · exact ⟨v, c, by simpa using h1⟩
  rw [run_append] at h
  cases hv : d.run d.start v with
  | none => rw [hv] at h; cases h
  | some mid =>
      rw [hv] at h
      simp only [run] at h
      cases ht : d.transition mid c with
      | none => rw [ht] at h; cases h
      | some nxt =>
          rw [ht] at h
          simp only [Option.some.injEq] at h
          subst h
          obtain ⟨s, hs, hname, hmem⟩ := transition_table _ _ _ _ ht
          have hc := (hE.1 s hs _ hmem).2.1 rfl
          unfold getKind
          rw [if_neg (by decide), if_neg (mk_ne_keyword v c hc _ (by decide)),
            if_neg (mk_ne_keyword v c hc _ (by decide)),
            if_neg (mk_ne_keyword v c hc _ (by decide)),
            if_neg (mk_ne_keyword v c hc _ (by decide)),
            if_neg (mk_ne_keyword v c hc _ (by decide)),
            if_neg (mk_ne_keyword v c hc _ (by decide)),
            if_neg (mk_ne_keyword v c hc _ (by decide)),
            if_neg (mk_ne_keyword v c hc _ (by decide)),
            if_neg (mk_ne_keyword v c hc _ (by decide)),
            if_neg (mk_ne_keyword v c hc _ (by decide))]

/-- The state and the first character of a lexeme that `scanAll` writes. -/
theorem token_shape (d : DFA) (hd : d.wellShaped = true) (hs0 : d.isAccepting d.start = false)
    (hE : WhitespaceEdges d) (st : String) (lexL : List Char)
    (hrun : d.run d.start lexL = some st)
    (hacc : d.isAccepting st = true)
    (hws : getKind st (String.mk lexL) ≠ "WHITESPACE") :
    lexL ≠ [] ∧ st ≠ "_START" ∧ st ≠ "WHITESPACE" ∧
      ∃ c rest, lexL = c :: rest ∧ d.transition "WHITESPACE" c = none := by
  have hne : lexL ≠ [] := by
    intro h0
    subst h0
    simp only [run, Option.some.injEq] at hrun
    subst hrun
    rw [hs0] at hacc
    cases hacc
  have hst : st ≠ "_START" := by
    have := run_nonempty_ne_start _ hd lexL st hne hrun
    rwa [hE.2.2.2] at this
  have hw : st ≠ "WHITESPACE" := by
    intro h0
    subst h0
    exact hws (ws_kind d hE lexL hne hrun)
  refine ⟨hne, hst, hw, ?_⟩
  cases lexL with
  | nil => exact absurd rfl hne
  | cons c rest =>
      refine ⟨c, rest, rfl, ?_⟩
      cases ht : d.transition "WHITESPACE" c with
      | none => rfl
      | some nxt =>
          exfalso
          have hc := (ws_closed d hE c nxt ht).1
          rw [run] at hrun
          cases ht2 : d.transition d.start c with
          | none => rw [ht2] at hrun; cases hrun
          | some s1 =>
              rw [ht2] at hrun
              simp only [] at hrun
              obtain ⟨s, hs, hname, hmem⟩ := transition_table _ _ _ _ ht2
              have h1 := ((hE.1 s hs _ hmem).1 hc).2
              simp only [] at h1
              subst h1
              exact hw (ws_run d hE rest st hrun)

end WLP4Scanner

end WLP4

namespace WLP4

namespace WLP4Scanner

open DFA

theorem munchSeq_nil_input (d : DFA) (input : List Char) (toks : List (String × List Char))
    (rest : List Char) (h : MunchSeq d input toks rest) (h0 : input = []) : toks = [] := by
  cases h with
  | nil => rfl
  | comment st lex rem hm hk => exact absurd (List.append_eq_nil.mp h0).1 hm.1
  | cons st lex rem toks1 rest1 hm hk hseq => exact absurd (List.append_eq_nil.mp h0).1 hm.1

/-- The loop follows a sequence of munches that covers the whole line and holds
no comment and no number out of bounds, and ends the line. -/
theorem munchSeq_finish (d : DFA) (hd : d.wellShaped = true) (input : List Char)
    (toks : List (String × List Char)) (rest : List Char) (h : MunchSeq d input toks rest) :
    rest = [] → input ≠ [] →
    (∀ tok ∈ toks, getKind tok.1 (String.mk tok.2) ≠ "COMMENT") →
    (∀ tok ∈ toks, ¬ (getKind tok.1 (String.mk tok.2) = "NUM" ∧
      numOutOfBounds (String.mk tok.2))) →
    ∀ (before : List Char) (out : List (String × String)) (k : Nat),
      scanLoop d (before ++ input) ((toks.map (fun t => t.2.length + 1)).sum + k)
        before.length d.start "" out = (out ++ emitted toks, .done) := by
  induction h with
  | nil input =>
      intro hr hne _ _ _ _ _
      exact absurd hr hne
  | comment st lex rem hm hk =>
      intro _ _ hcom _ _ _ _
      exact absurd hk (hcom (st, lex) (List.mem_singleton.mpr rfl))
  | cons st lex rem toks rest hm hk hseq ih =>
      intro hr _ hcom hbad before out k
      have hstep := munch_step d hd st before lex rem out
        ((toks.map (fun t => t.2.length + 1)).sum + k) hm
      rw [if_neg (hbad (st, lex) (List.mem_cons_self _ _)),
        if_neg (hcom (st, lex) (List.mem_cons_self _ _))] at hstep
      have e1 : (List.map (fun t => t.2.length + 1) ((st, lex) :: toks)).sum + k =
          lex.length + ((toks.map (fun t => t.2.length + 1)).sum + k + 1) := by
        simp only [List.map_cons, List.sum_cons]
        omega
      have e2 : before ++ (lex ++ rem) = before ++ lex ++ rem := by simp
      rw [e1, e2, hstep, emitted_cons]
      by_cases hrem : rem = []
      · rw [if_pos hrem]
        have ht := munchSeq_nil_input d rem toks rest hseq hrem
        subst ht
        simp [emitted]
      · rw [if_neg hrem]
        have := ih hr hrem (fun t ht => hcom t (List.mem_cons_of_mem _ ht))
          (fun t ht => hbad t (List.mem_cons_of_mem _ ht)) (before ++ lex)
          (out ++ (match emit (st, lex) with | some e => [e] | none => [])) k
        rw [List.length_append] at this
        exact this.trans (congrArg (fun o => (o, Status.done)) (List.append_assoc _ _ _))

/-- The line of the tokens `g`, separated by single spaces, is munched into the
lexemes of `g` and the spaces between them. -/
theorem spaced_munches (d : DFA) (hd : d.wellShaped = true)
    (hs0 : d.isAccepting d.start = false) (hE : WhitespaceEdges d) :
    ∀ g : List (String × String), (∀ t ∈ g, IsToken d t) →
      ∃ toks, MunchSeq d (spaced g) toks [] ∧ emitted toks = g ∧
        (∀ tok ∈ toks, getKind tok.1 (String.mk tok.2) ≠ "COMMENT") ∧
        (∀ tok ∈ toks, ¬ (getKind tok.1 (String.mk tok.2) = "NUM" ∧
          numOutOfBounds (String.mk tok.2))) ∧
        (g ≠ [] → ∃ c rest, spaced g = c :: rest ∧ d.transition "WHITESPACE" c = none)
  | [], _ => ⟨[], MunchSeq.nil _, rfl, by simp, by simp, fun h => absurd rfl h⟩
  | [t], ht => by
      obtain ⟨st, lexL, hrun, hacc, hbad, hcom, hws, rfl⟩ := ht t (by simp)
      obtain ⟨hne, -, -, c, rest, hcr, htr⟩ := token_shape d hd hs0 hE st lexL hrun hacc hws
      have hm : IsMaxMunch d st lexL [] :=
        ⟨hne, hrun, hacc, fun w t hw h0 => absurd (List.append_eq_nil.mp h0.symm).1 hw⟩
      refine ⟨[(st, lexL)], ?_, ?_, ?_, ?_, fun _ => ⟨c, rest, hcr, htr⟩⟩
      · have := MunchSeq.cons st lexL [] [] [] hm hcom (MunchSeq.nil [])
        simpa [spaced] using this
      · simp [emitted, emit, hcom, hws]
      · intro tok htok
        simp only [List.mem_singleton] at htok
        subst htok
        exact hcom
      · intro tok htok
        simp only [List.mem_singleton] at htok
        subst htok
        exact hbad
  | t :: t2 :: ts, ht => by
      obtain ⟨st, lexL, hrun, hacc, hbad, hcom, hws, rfl⟩ := ht t (by simp)
      obtain ⟨hne, hst1, hst2, c, rest, hcr, htr⟩ :=
        token_shape d hd hs0 hE st lexL hrun hacc hws
      obtain ⟨toks, hseq, hem, hcoms, hbads, hfirst⟩ :=
        spaced_munches d hd hs0 hE (t2 :: ts) (fun x hx => ht x (List.mem_cons_of_mem _ hx))
      obtain ⟨c2, rest2, hc2, htr2⟩ := hfirst (by simp)
      have hm1 : IsMaxMunch d st lexL (' ' :: spaced (t2 :: ts)) := by
        refine ⟨hne, hrun, hacc, fun w t hw h0 => ?_⟩
        cases w with
        | nil => exact absurd rfl hw
        | cons x w1 =>
            simp only [List.cons_append, List.cons.injEq] at h0
            obtain ⟨rfl, -⟩ := h0
            unfold accepts
            rw [run_append, hrun]
            simp only [run, space_stuck d hE st hst1 hst2]
      have hm2 : IsMaxMunch d "WHITESPACE" [' '] (spaced (t2 :: ts)) := by
        refine ⟨by simp, hE.2.1, hE.2.2.1, fun w t hw h0 => ?_⟩
        cases w with
        | nil => exact absurd rfl hw
        | cons x w1 =>
            rw [hc2] at h0
            simp only [List.cons_append, List.cons.injEq] at h0
            obtain ⟨rfl, -⟩ := h0
            unfold accepts
            rw [run_append, hE.2.1]
            simp only [run, htr2]
      have hk2 : getKind "WHITESPACE" (String.mk [' ']) = "WHITESPACE" := by decide
      have hseq2 := MunchSeq.cons "WHITESPACE" [' '] _ toks [] hm2 (by rw [hk2]; decide) hseq
      have hseq1 := MunchSeq.cons st lexL _ _ [] hm1 hcom hseq2
      refine ⟨(st, lexL) :: ("WHITESPACE", [' ']) :: toks, ?_, ?_, ?_, ?_,
        fun _ => ⟨c, rest ++ ' ' :: spaced (t2 :: ts), ?_, htr⟩⟩
      · simpa [spaced] using hseq1
      · rw [emitted_cons, emitted_cons, hem]
        simp [emit, hcom, hws, hk2]
      · intro tok htok
        simp only [List.mem_cons] at htok
        rcases htok with rfl | rfl | h3
        · exact hcom
        · rw [hk2]; decide
        · exact hcoms tok h3
      · intro tok htok
        simp only [List.mem_cons] at htok
        rcases htok with rfl | rfl | h3
        · exact hbad
        · rw [hk2]; decide
        · exact hbads tok h3
      · simp [spaced, hcr]

end WLP4Scanner

end WLP4

namespace WLP4

namespace WLP4Scanner

open DFA

/-- The scan of the line of a non-empty group of tokens writes the group. -/
theorem scanLine_spaced (d : DFA) (hd : d.wellShaped = true)
    (hs0 : d.isAccepting d.start = false) (hE : WhitespaceEdges d)
    (g : List (String × String)) (hg : ∀ t ∈ g, IsToken d t) (hne : g ≠ [])
    (out : List (String × String)) :
    (renderLine g).length ≠ 0 ∧ scanLine d (renderLine g) out = (out ++ g, .done) := by
  obtain ⟨toks, hseq, hem, hcom, hbad, hfirst⟩ := spaced_munches d hd hs0 hE g hg
  obtain ⟨c, rest, hcr, -⟩ := hfirst hne
  have hin : spaced g ≠ [] := by rw [hcr]; simp
  have hcost := (munchSeq_cost d (spaced g) toks [] hseq).1
  simp only [List.length_nil, Nat.mul_zero, Nat.add_zero] at hcost
  have hlen : (renderLine g).length = (spaced g).length := rfl
  refine ⟨fun h0 => hin (List.length_eq_zero.mp (hlen ▸ h0)), ?_⟩
  have hfin := munchSeq_finish d hd (spaced g) toks [] hseq rfl hin hcom hbad [] out
    (2 * (spaced g).length + 2 - (toks.map (fun t => t.2.length + 1)).sum)
  have e : (toks.map (fun t => t.2.length + 1)).sum +
      (2 * (spaced g).length + 2 - (toks.map (fun t => t.2.length + 1)).sum) =
      2 * (renderLine g).length + 2 := by
    rw [hlen]
    omega
  rw [e, hem] at hfin
  simpa [scanLine, renderLine] using hfin

/-- The scan of the lines of a list of groups of tokens writes the groups, one
after the other, and ends without error. -/
theorem scanAll_lines_spaced (d : DFA) (hd : d.wellShaped = true)
    (hs0 : d.isAccepting d.start = false) (hE : WhitespaceEdges d) :
    ∀ (groups : List (List (String × String))), (∀ t ∈ groups.flatten, IsToken d t) →
      ∀ out : List (String × String),
        scanAll_lines d (groups.map renderLine) out = (out ++ groups.flatten, .done) := by
  intro groups
  induction groups with
  | nil =>
      intro _ out
      simp [scanAll_lines]
  | cons g gs ih =>
      intro hall out
      have hg : ∀ t ∈ g, IsToken d t := fun t ht =>
        hall t (by rw [List.flatten_cons]; exact List.mem_append_left _ ht)
      have hgs : ∀ t ∈ gs.flatten, IsToken d t := fun t ht =>
        hall t (by rw [List.flatten_cons]; exact List.mem_append_right _ ht)
      rw [List.map_cons, scanAll_lines]
      by_cases hne : g = []
      · subst hne
        have h0 : (renderLine []).length = 0 := rfl
        rw [if_pos h0, ih hgs out]
        simp
      · obtain ⟨hlen, hline⟩ := scanLine_spaced d hd hs0 hE g hg hne out
        rw [if_neg hlen, hline]
        simp only
        rw [ih hgs (out ++ g), List.flatten_cons, List.append_assoc]

/-- Every pair `scanAll` writes is the token of a lexeme. -/
theorem scanAll_tokens (lines : List String) :
    ∀ t ∈ (scanAll lines).1, IsToken WLP4Scanner.new t := by
  apply scanAll_lines_emits WLP4Scanner.new (IsToken WLP4Scanner.new)
  · intro st lexL hrun hacc hbad hcom hws
    exact ⟨st, lexL, hrun, hacc, hbad, hcom, hws, rfl⟩
  · intro t ht
    simp at ht

theorem new_whitespaceEdges : WhitespaceEdges WLP4Scanner.new := by
  rw [new_table]
  unfold WhitespaceEdges
  decide

/-- C27. Scanning is idempotent on separators: when the pairs that `scanAll`
writes for an input (in particular the token list of an input that scans
successfully) are cut into groups in any way, and each group is written as one
line with its lexemes separated by single spaces, so that the lexemes are
separated by single spaces or newlines, then the scan of these lines ends without
error and writes exactly the same list of `(kind, lexeme)` pairs. -/
theorem rescan_idempotent (lines : List String) (groups : List (List (String × String)))
    (hg : groups.flatten = (scanAll lines).1) :
    scanAll (groups.map renderLine) = ((scanAll lines).1, Status.done) := by
  have hall : ∀ t ∈ groups.flatten, IsToken WLP4Scanner.new t := by
    rw [hg]
    exact scanAll_tokens lines
  have h := scanAll_lines_spaced WLP4Scanner.new new_wellShaped new_start_rejects
    new_whitespaceEdges groups hall []
  rw [hg] at h
  simpa [scanAll] using h

theorem rescan_idempotent_witness :
    (scanAll ["a+1 // sum", "\t;"]).1 = [("ID", "a"), ("PLUS", "+"), ("NUM", "1"), ("SEMI", ";")] ∧
    [[("ID", "a")], [], [("PLUS", "+"), ("NUM", "1"), ("SEMI", ";")]].map renderLine =
      ["a", "", "+ 1 ;"] ∧
    scanAll ([[("ID", "a")], [], [("PLUS", "+"), ("NUM", "1"), ("SEMI", ";")]].map renderLine) =
      ((scanAll ["a+1 // sum", "\t;"]).1, Status.done) :=
  ⟨by unfold scanAll; rw [new_table]; decide, by decide,
    rescan_idempotent ["a+1 // sum", "\t;"]
      [[("ID", "a")], [], [("PLUS", "+"), ("NUM", "1"), ("SEMI", ";")]]
      (by unfold scanAll; rw [new_table]; decide)⟩

end WLP4Scanner

end WLP4

/-! ## Assembler: the message for a label declared twice -/

namespace Assembler

/-- The check of a line stops at the first label that is in the table or was
met before in the line. -/
theorem checkPass_line_first (tokLine : List Token) : ∀ (self : Assembler)
    (pre : List String) (lex : String) (post : List String),
    lineLabels tokLine = pre ++ lex :: post → pre.Nodup →
    (∀ l ∈ pre, l ∉ self.symbolTable.map Prod.fst) →
    (lex ∈ self.symbolTable.map Prod.fst ∨ lex ∈ pre) →
    checkPass_line self tokLine = .error (AssemblerException.new .DuplicateLabel lex) := by
  induction tokLine with
  | nil =>
      intro self pre lex post h
      simp [lineLabels, leadingLabels] at h
  | cons tok rest ih =>
      intro self pre lex post h hnd hdis hmem
      by_cases hk : tok.kind = .LABEL
      · have hl : lineLabels (tok :: rest) = tok.lexeme :: lineLabels rest := by
          simp [lineLabels, leadingLabels, List.takeWhile, hk]
        rw [hl] at h
        cases pre with
        | nil =>
            simp only [List.nil_append, List.cons.injEq] at h
            obtain ⟨h1, -⟩ := h
            have hin : lex ∈ self.symbolTable.map Prod.fst := by
              rcases hmem with hm | hm
              · exact hm
              · simp at hm
            have hc : count self.symbolTable tok.lexeme > 0 := by
              rw [count_pos_iff, h1]; exact hin
            rw [checkPass_line, if_pos hk, if_pos hc, h1]
        | cons p pre1 =>
            simp only [List.cons_append, List.cons.injEq] at h
            obtain ⟨h1, h2⟩ := h
            subst h1
            have hnot : tok.lexeme ∉ self.symbolTable.map Prod.fst :=
              hdis _ (List.mem_cons_self _ _)
            have hc : ¬ count self.symbolTable tok.lexeme > 0 := by
              rw [count_pos_iff]; exact hnot
            rw [checkPass_line, if_pos hk, if_neg hc, emplace_absent _ _ _ hnot]
            apply ih _ pre1 lex post h2 (List.nodup_cons.mp hnd).2
            · intro l hl' hm
              simp only [List.map_append, List.map_cons, List.map_nil, List.mem_append,
                List.mem_singleton] at hm
              rcases hm with hm | hm
              · exact hdis l (List.mem_cons_of_mem _ hl') hm
              · subst hm
                exact (List.nodup_cons.mp hnd).1 hl'
            · simp only [List.map_append, List.map_cons, List.map_nil, List.mem_append,
                List.mem_singleton]
              rcases hmem with hm | hm
              · exact Or.inl (Or.inl hm)
              · rcases List.mem_cons.mp hm with hm | hm
                · exact Or.inl (Or.inr hm)
                · exact Or.inr hm
      · have hl : lineLabels (tok :: rest) = [] := by
          simp [lineLabels, leadingLabels, List.takeWhile, hk]
        rw [hl] at h
        simp at h

/-- The check pass stops at the first label, in the order of declaration, that
is in the table or was declared before. -/
theorem checkPass_lines_first (lines : List (List Token)) : ∀ (self : Assembler)
    (pre : List String) (lex : String) (post : List String),
    declaredLabels lines = pre ++ lex :: post → pre.Nodup →
    (∀ l ∈ pre, l ∉ self.symbolTable.map Prod.fst) →
    (lex ∈ self.symbolTable.map Prod.fst ∨ lex ∈ pre) →
    checkPass_lines self lines = .error (AssemblerException.new .DuplicateLabel lex) := by
  induction lines with
  | nil =>
      intro self pre lex post h
      simp [declaredLabels] at h
  | cons tokLine rest ih =>
      intro self pre lex post h hnd hdis hmem
      rw [declaredLabels] at h
      rcases List.append_eq_append_iff.mp h with ⟨a, ha1, ha2⟩ | ⟨c, hc1, hc2⟩
      · -- the labels of the line are all among `pre`
        subst ha1
        have hnd1 : (lineLabels tokLine).Nodup := (List.nodup_append.mp hnd).1
        have hdis1 : ∀ l ∈ lineLabels tokLine, l ∉ self.symbolTable.map Prod.fst :=
          fun l hl => hdis l (List.mem_append_left _ hl)
        rw [checkPass_lines, checkPass_line_ok tokLine self hnd1 hdis1]
        simp only []
        have key : ∀ s : Assembler,
            s.symbolTable = self.symbolTable ++ (lineLabels tokLine).map (fun l => (l, self.pc)) →
            checkPass_lines s rest = .error (AssemblerException.new .DuplicateLabel lex) := by
          intro s hs
          apply ih s a lex post ha2 (List.nodup_append.mp hnd).2.1
          · intro l hl hm
            rw [hs] at hm
            simp only [List.map_append, List.map_map, List.mem_append, List.mem_map,
              Function.comp_apply, exists_eq_right] at hm
            rcases hm with hm | hm
            · exact hdis l (List.mem_append_right _ hl) (by simpa using hm)
            · exact (List.nodup_append.mp hnd).2.2 hm hl
          · rw [hs]
            simp only [List.map_append, List.map_map, List.mem_append, List.mem_map,
              Function.comp_apply, exists_eq_right]
            rcases hmem with hm | hm
            · exact Or.inl (Or.inl (by simpa using hm))
            · rcases List.mem_append.mp hm with hm | hm
              · exact Or.inl (Or.inr hm)
              · exact Or.inr hm
        split
        · exact key _ rfl
        · exact key _ rfl
      · -- the label is among those of the line
        cases c with
        | nil =>
            simp only [List.append_nil] at hc1
            simp only [List.nil_append] at hc2
            subst hc1
            -- the line's labels are exactly `pre`; the label comes from a later line
            have hnd1 : (lineLabels tokLine).Nodup := hnd
            rw [checkPass_lines, checkPass_line_ok tokLine self hnd1 hdis]
            simp only []
            have key : ∀ s : Assembler,
                s.symbolTable =
                  self.symbolTable ++ (lineLabels tokLine).map (fun l => (l, self.pc)) →
                checkPass_lines s rest = .error (AssemblerException.new .DuplicateLabel lex) := by
              intro s hs
              apply ih s [] lex post hc2.symm List.nodup_nil
              · intro l hl
                simp at hl
              · rw [hs]
                simp only [List.map_append, List.map_map, List.mem_append, List.mem_map,
                  Function.comp_apply, exists_eq_right]
                rcases hmem with hm | hm
                · exact Or.inl (Or.inl (by simpa using hm))
                · exact Or.inl (Or.inr hm)
            split
            · exact key _ rfl
            · exact key _ rfl
        | cons x c1 =>
            simp only [List.cons_append, List.cons.injEq] at hc2
            obtain ⟨hx, -⟩ := hc2
            subst hx
            rw [checkPass_lines, checkPass_line_first tokLine self pre lex c1 hc1 hnd hdis hmem]

/-- C31 (as the code has it). When the labels a program declares are, in the
order of declaration, `pre`, then `lex`, then `post`, with no label declared
twice in `pre` and `lex` among `pre` (so `lex` is the first label declared a
second time), `assemble` fails with the message `ERROR: Label already declared -`
followed by a blank and the lexeme `lex` enclosed in double quotes. -/
theorem duplicate_label_message (toNumber : Token → Int) (program : List (List Token))
    (pre : List String) (lex : String) (post : List String)
    (hsplit : declaredLabels program = pre ++ lex :: post) (hnd : pre.Nodup)
    (hmem : lex ∈ pre) (hlex : lex ≠ "") :
    ∃ e, assemble toNumber (Assembler.new program) = .error e ∧
      e.msg = "ERROR: Label already declared - \"" ++ lex ++ "\"" := by
  have h : checkPass (Assembler.new program) =
      .error (AssemblerException.new .DuplicateLabel lex) :=
    checkPass_lines_first program _ pre lex post
      hsplit hnd (by intro l _; simp [Assembler.new]) (Or.inr hmem)
  refine ⟨AssemblerException.new .DuplicateLabel lex, ?_, ?_⟩
  · unfold assemble
    rw [h]
  · unfold AssemblerException.new
    simp only [AssemblerException.text, if_pos hlex]
    apply String.ext
    simp only [String.data_append, List.append_assoc]
    rfl

theorem duplicate_label_message_witness :
    ∃ e, assemble decimalValue (Assembler.new
        [[⟨.LABEL, "bar:"⟩, ⟨.LABEL, "foo:"⟩, ⟨.ID, "jr"⟩, ⟨.REG, "$31"⟩],
          [⟨.LABEL, "foo:"⟩, ⟨.LABEL, "bar:"⟩]]) = .error e ∧
      e.msg = "ERROR: Label already declared - \"" ++ "foo:" ++ "\"" :=
  duplicate_label_message decimalValue
    [[⟨.LABEL, "bar:"⟩, ⟨.LABEL, "foo:"⟩, ⟨.ID, "jr"⟩, ⟨.REG, "$31"⟩],
      [⟨.LABEL, "foo:"⟩, ⟨.LABEL, "bar:"⟩]]
    ["bar:", "foo:"] "foo:" ["bar:"] (by decide) (by decide) (by decide) (by decide)

/-- Counterexample to C31 as stated: for the program of the two lines `foo:` and
`foo:`, the message of `assemble` is `ERROR: Label already declared - "foo:"`,
with the lexeme in double quotes; it is not the prefix followed by the text
`Label already declared - foo:`. -/
theorem duplicate_label_message_quoted :
    assemble decimalValue (Assembler.new [[⟨.LABEL, "foo:"⟩], [⟨.LABEL, "foo:"⟩]]) =
      .error ⟨.DuplicateLabel, "ERROR: Label already declared - \"foo:\""⟩ ∧
    "ERROR: Label already declared - \"foo:\"" ≠ "ERROR: " ++ "Label already declared - foo:" :=
  ⟨by rfl, by decide⟩

end Assembler

/-! ## Assembler: every word fits 32 bits -/

namespace Assembler

theorem packs_range (F : Fields) (w : Int) (h : F.Packs w) : 0 ≤ w ∧ w < 2 ^ 32 := by
  obtain ⟨⟨d0, d1⟩, ⟨s0, s1⟩, ⟨t0, t1⟩, ⟨m0, m1⟩, hT, hw⟩ := h
  rcases hT with ⟨T0, T1, _⟩ | ⟨H0, H1, H2, _⟩
  · rw [hw]
    constructor <;> omega
  · rw [hw]
    constructor <;> omega

theorem packs_dst (toNumber : Token → Int) (self : Assembler) (op : Op) (T : Nat) (hT : T < 64)
    (hop : setupTemplate op = (T : Int)) (a b c d e : Token) (w : Int)
    (h : buildInstruction_loop toNumber self
      [(.REG, 11), (.COMMA, 0), (.REG, 21), (.COMMA, 0), (.REG, 16)] [a, b, c, d, e] (T : Int) =
        .ok w) :
    Fields.Packs
      { op := op,
        d := regField toNumber [(.REG, 11), (.COMMA, 0), (.REG, 21), (.COMMA, 0), (.REG, 16)]
          [a, b, c, d, e] 11,
        s := regField toNumber [(.REG, 11), (.COMMA, 0), (.REG, 21), (.COMMA, 0), (.REG, 16)]
          [a, b, c, d, e] 21,
        t := regField toNumber [(.REG, 11), (.COMMA, 0), (.REG, 21), (.COMMA, 0), (.REG, 16)]
          [a, b, c, d, e] 16,
        imm := immField toNumber self
          [(.REG, 11), (.COMMA, 0), (.REG, 21), (.COMMA, 0), (.REG, 16)] [a, b, c, d, e] } w := by
  obtain ⟨v1, b1, h⟩ := loop_cons_inv _ _ _ _ _ _ _ _ _ h
  obtain ⟨v2, b2, h⟩ := loop_cons_inv _ _ _ _ _ _ _ _ _ h
  obtain ⟨v3, b3, h⟩ := loop_cons_inv _ _ _ _ _ _ _ _ _ h
  obtain ⟨v4, b4, h⟩ := loop_cons_inv _ _ _ _ _ _ _ _ _ h
  obtain ⟨v5, b5, h⟩ := loop_cons_inv _ _ _ _ _ _ _ _ _ h
  have hw := loop_nil_inv _ _ _ _ _ h
  obtain ⟨dn, hd, hdn, rfl⟩ := buildToken_reg_inv _ _ _ _ _ (by norm_num) b1
  obtain ⟨sn, hs, hsn, rfl⟩ := buildToken_reg_inv _ _ _ _ _ (by norm_num) b3
  obtain ⟨tn, ht, htn, rfl⟩ := buildToken_reg_inv _ _ _ _ _ (by norm_num) b5
  have e2 := buildToken_sep_inv _ _ _ _ _ _ (Or.inl rfl) b2
  have e4 := buildToken_sep_inv _ _ _ _ _ _ (Or.inl rfl) b4
  subst e2 e4
  rw [enc_dst T dn sn tn (by omega) hd hs ht] at hw
  simp only [Fields.Packs, regField, immField, hdn, hsn, htn, hop]
  simp
  omega

theorem packs_st (toNumber : Token → Int) (self : Assembler) (op : Op) (T : Nat) (hT : T < 64)
    (hop : setupTemplate op = (T : Int)) (a b c : Token) (w : Int)
    (h : buildInstruction_loop toNumber self [(.REG, 21), (.COMMA, 0), (.REG, 16)] [a, b, c]
      (T : Int) = .ok w) :
    Fields.Packs
      { op := op,
        d := regField toNumber [(.REG, 21), (.COMMA, 0), (.REG, 16)] [a, b, c] 11,
        s := regField toNumber [(.REG, 21), (.COMMA, 0), (.REG, 16)] [a, b, c] 21,
        t := regField toNumber [(.REG, 21), (.COMMA, 0), (.REG, 16)] [a, b, c] 16,
        imm := immField toNumber self [(.REG, 21), (.COMMA, 0), (.REG, 16)] [a, b, c] } w := by
  obtain ⟨v1, b1, h⟩ := loop_cons_inv _ _ _ _ _ _ _ _ _ h
  obtain ⟨v2, b2, h⟩ := loop_cons_inv _ _ _ _ _ _ _ _ _ h
  obtain ⟨v3, b3, h⟩ := loop_cons_inv _ _ _ _ _ _ _ _ _ h
  have hw := loop_nil_inv _ _ _ _ _ h
  obtain ⟨sn, hs, hsn, rfl⟩ := buildToken_reg_inv _ _ _ _ _ (by norm_num) b1
  obtain ⟨tn, ht, htn, rfl⟩ := buildToken_reg_inv _ _ _ _ _ (by norm_num) b3
  have e2 := buildToken_sep_inv _ _ _ _ _ _ (Or.inl rfl) b2
  subst e2
  rw [enc_st T sn tn (by omega) hs ht] at hw
  simp only [Fields.Packs, regField, immField, hsn, htn, hop]
  simp
  omega

theorem packs_one (toNumber : Token → Int) (self : Assembler) (op : Op) (T : Nat) (hT : T < 64)
    (hop : setupTemplate op = (T : Int)) (k : Nat) (hk : k = 11 ∨ k = 21) (a : Token) (w : Int)
    (h : buildInstruction_loop toNumber self [(.REG, k)] [a] (T : Int) = .ok w) :
    Fields.Packs
      { op := op,
        d := regField toNumber [(.REG, k)] [a] 11,
        s := regField toNumber [(.REG, k)] [a] 21,
        t := regField toNumber [(.REG, k)] [a] 16,
        imm := immField toNumber self [(.REG, k)] [a] } w := by
  obtain ⟨v1, b1, h⟩ := loop_cons_inv _ _ _ _ _ _ _ _ _ h
  have hw := loop_nil_inv _ _ _ _ _ h
  obtain ⟨rn, hr, hrn, rfl⟩ :=
    buildToken_reg_inv _ _ _ _ _ (by rcases hk with rfl | rfl <;> norm_num) b1
  rw [enc_one T rn k (by omega) hr hk] at hw
  rcases hk with rfl | rfl
  · simp only [Fields.Packs, regField, immField, hrn, hop]
    simp
    omega
  · simp only [Fields.Packs, regField, immField, hrn, hop]
    simp
    omega

theorem packs_br (toNumber : Token → Int) (self : Assembler) (op : Op) (H : Nat)
    (hH : H < 64) (hop : setupTemplate op = ((2 ^ 26 * H : Nat) : Int))
    (a b c d e : Token) (w : Int)
    (h : buildInstruction_loop toNumber self
      [(.REG, 21), (.COMMA, 0), (.REG, 16), (.COMMA, 0), (.INT, 16)] [a, b, c, d, e]
      ((2 ^ 26 * H : Nat) : Int) = .ok w) :
    Fields.Packs
      { op := op,
        d := regField toNumber [(.REG, 21), (.COMMA, 0), (.REG, 16), (.COMMA, 0), (.INT, 16)]
          [a, b, c, d, e] 11,
        s := regField toNumber [(.REG, 21), (.COMMA, 0), (.REG, 16), (.COMMA, 0), (.INT, 16)]
          [a, b, c, d, e] 21,
        t := regField toNumber [(.REG, 21), (.COMMA, 0), (.REG, 16), (.COMMA, 0), (.INT, 16)]
          [a, b, c, d, e] 16,
        imm := immField toNumber self
          [(.REG, 21), (.COMMA, 0), (.REG, 16), (.COMMA, 0), (.INT, 16)] [a, b, c, d, e] } w := by
  obtain ⟨v1, b1, h⟩ := loop_cons_inv _ _ _ _ _ _ _ _ _ h
  obtain ⟨v2, b2, h⟩ := loop_cons_inv _ _ _ _ _ _ _ _ _ h
  obtain ⟨v3, b3, h⟩ := loop_cons_inv _ _ _ _ _ _ _ _ _ h
  obtain ⟨v4, b4, h⟩ := loop_cons_inv _ _ _ _ _ _ _ _ _ h
  obtain ⟨v5, b5, h⟩ := loop_cons_inv _ _ _ _ _ _ _ _ _ h
  have hw := loop_nil_inv _ _ _ _ _ h
  obtain ⟨sn, hs, hsn, rfl⟩ := buildToken_reg_inv _ _ _ _ _ (by norm_num) b1
  obtain ⟨tn, ht, htn, rfl⟩ := buildToken_reg_inv _ _ _ _ _ (by norm_num) b3
  have e2 := buildToken_sep_inv _ _ _ _ _ _ (Or.inl rfl) b2
  have e4 := buildToken_sep_inv _ _ _ _ _ _ (Or.inl rfl) b4
  have e5 := buildToken_int_inv _ _ _ _ b5
  obtain ⟨m, hm, hm16⟩ := emod_two_pow_16 (immediateOf toNumber self e)
  subst e2 e4
  rw [e5, hm, enc_br H sn tn m hH hs ht hm16] at hw
  simp only [Fields.Packs, regField, immField, hsn, htn, hop, hm]
  simp
  omega

theorem packs_mem (toNumber : Token → Int) (self : Assembler) (op : Op) (H : Nat)
    (hH : H < 64) (hop : setupTemplate op = ((2 ^ 26 * H : Nat) : Int))
    (a b c d e f : Token) (w : Int)
    (h : buildInstruction_loop toNumber self
      [(.REG, 16), (.COMMA, 0), (.INT, 16), (.LPAREN, 0), (.REG, 21), (.RPAREN, 0)]
      [a, b, c, d, e, f] ((2 ^ 26 * H : Nat) : Int) = .ok w) :
    Fields.Packs
      { op := op,
        d := regField toNumber
          [(.REG, 16), (.COMMA, 0), (.INT, 16), (.LPAREN, 0), (.REG, 21), (.RPAREN, 0)]
          [a, b, c, d, e, f] 11,
        s := regField toNumber
          [(.REG, 16), (.COMMA, 0), (.INT, 16), (.LPAREN, 0), (.REG, 21), (.RPAREN, 0)]
          [a, b, c, d, e, f] 21,
        t := regField toNumber
          [(.REG, 16), (.COMMA, 0), (.INT, 16), (.LPAREN, 0), (.REG, 21), (.RPAREN, 0)]
          [a, b, c, d, e, f] 16,
        imm := immField toNumber self
          [(.REG, 16), (.COMMA, 0), (.INT, 16), (.LPAREN, 0), (.REG, 21), (.RPAREN, 0)]
          [a, b, c, d, e, f] } w := by
  obtain ⟨v1, b1, h⟩ := loop_cons_inv _ _ _ _ _ _ _ _ _ h
  obtain ⟨v2, b2, h⟩ := loop_cons_inv _ _ _ _ _ _ _ _ _ h
  obtain ⟨v3, b3, h⟩ := loop_cons_inv _ _ _ _ _ _ _ _ _ h
  obtain ⟨v4, b4, h⟩ := loop_cons_inv _ _ _ _ _ _ _ _ _ h
  obtain ⟨v5, b5, h⟩ := loop_cons_inv _ _ _ _ _ _ _ _ _ h
  obtain ⟨v6, b6, h⟩ := loop_cons_inv _ _ _ _ _ _ _ _ _ h
  have hw := loop_nil_inv _ _ _ _ _ h
  obtain ⟨tn, ht, htn, rfl⟩ := buildToken_reg_inv _ _ _ _ _ (by norm_num) b1
  obtain ⟨sn, hs, hsn, rfl⟩ := buildToken_reg_inv _ _ _ _ _ (by norm_num) b5
  have e2 := buildToken_sep_inv _ _ _ _ _ _ (Or.inl rfl) b2
  have e4 := buildToken_sep_inv _ _ _ _ _ _ (Or.inr (Or.inl rfl)) b4
  have e6 := buildToken_sep_inv _ _ _ _ _ _ (Or.inr (Or.inr rfl)) b6
  have e3 := buildToken_int_inv _ _ _ _ b3
  obtain ⟨m, hm, hm16⟩ := emod_two_pow_16 (immediateOf toNumber self c)
  subst e2 e4 e6
  rw [e3, hm, enc_mem H sn tn m hH hs ht hm16] at hw
  simp only [Fields.Packs, regField, immField, hsn, htn, hop, hm]
  simp
  omega

end Assembler

namespace Assembler

/-- The word of an instruction line packs the opcode template and the operands
of the line. -/
theorem line_packs (toNumber : Token → Int) (self : Assembler) (tokLine : List Token)
    (i : Nat) (tok : Token) (w : Int) (htok : tokLine[i]? = some tok)
    (hop : getOpType tok.lexeme ≠ .dotword)
    (h : buildInstruction toNumber self tokLine i = .ok w) :
    (lineFields toNumber self tokLine i).Packs w := by
  obtain ⟨hlen, hloop⟩ := try_inv toNumber self tokLine i tok w htok
    (buildInstruction_inv toNumber self tokLine i w h)
  unfold lineFields
  rw [htok]
  simp only []
  generalize getOpType tok.lexeme = op at hop hlen hloop ⊢
  generalize tokLine.drop (i + 1) = toks at hlen hloop ⊢
  cases op <;> simp only [setupFormat, setupTemplate, List.length_cons, List.length_nil] at hlen hloop ⊢
  case invalid =>
    rw [List.length_eq_zero] at hlen
    subst hlen
    rw [loop_nil] at hloop
    simp only [Except.ok.injEq] at hloop
    subst hloop
    simp [Fields.Packs, regField, immField, setupTemplate]
  case dotword => exact absurd rfl hop
  case add =>
    obtain ⟨a, b, c, d, e, rfl⟩ := length_five toks hlen
    exact packs_dst toNumber self .add 0x20 (by norm_num) rfl a b c d e w hloop
  case sub =>
    obtain ⟨a, b, c, d, e, rfl⟩ := length_five toks hlen
    exact packs_dst toNumber self .sub 0x22 (by norm_num) rfl a b c d e w hloop
  case slt =>
    obtain ⟨a, b, c, d, e, rfl⟩ := length_five toks hlen
    exact packs_dst toNumber self .slt 0x2a (by norm_num) rfl a b c d e w hloop
  case sltu =>
    obtain ⟨a, b, c, d, e, rfl⟩ := length_five toks hlen
    exact packs_dst toNumber self .sltu 0x2b (by norm_num) rfl a b c d e w hloop
  case mult =>
    obtain ⟨a, b, c, rfl⟩ := length_three toks hlen
    exact packs_st toNumber self .mult 0x18 (by norm_num) rfl a b c w hloop
  case multu =>
    obtain ⟨a, b, c, rfl⟩ := length_three toks hlen
    exact packs_st toNumber self .multu 0x19 (by norm_num) rfl a b c w hloop
  case div =>
    obtain ⟨a, b, c, rfl⟩ := length_three toks hlen
    exact packs_st toNumber self .div 0x1a (by norm_num) rfl a b c w hloop
  case divu =>
    obtain ⟨a, b, c, rfl⟩ := length_three toks hlen
    exact packs_st toNumber self .divu 0x1b (by norm_num) rfl a b c w hloop
  case mfhi =>
    obtain ⟨a, rfl⟩ := length_one toks hlen
    exact packs_one toNumber self .mfhi 0x10 (by norm_num) rfl 11 (Or.inl rfl) a w hloop
  case mflo =>
    obtain ⟨a, rfl⟩ := length_one toks hlen
    exact packs_one toNumber self .mflo 0x12 (by norm_num) rfl 11 (Or.inl rfl) a w hloop
  case lis =>
    obtain ⟨a, rfl⟩ := length_one toks hlen
    exact packs_one toNumber self .lis 0x14 (by norm_num) rfl 11 (Or.inl rfl) a w hloop
  case jr =>
    obtain ⟨a, rfl⟩ := length_one toks hlen
    exact packs_one toNumber self .jr 0x08 (by norm_num) rfl 21 (Or.inr rfl) a w hloop
  case jalr =>
    obtain ⟨a, rfl⟩ := length_one toks hlen
    exact packs_one toNumber self .jalr 0x09 (by norm_num) rfl 21 (Or.inr rfl) a w hloop
  case beq =>
    obtain ⟨a, b, c, d, e, rfl⟩ := length_five toks hlen
    exact packs_br toNumber self .beq 4 (by norm_num) rfl a b c d e w hloop
  case bne =>
    obtain ⟨a, b, c, d, e, rfl⟩ := length_five toks hlen
    exact packs_br toNumber self .bne 5 (by norm_num) rfl a b c d e w hloop
  case lw =>
    obtain ⟨a, b, c, d, e, f, rfl⟩ := length_six toks hlen
    exact packs_mem toNumber self .lw 35 (by norm_num) rfl a b c d e f w hloop
  case sw =>
    obtain ⟨a, b, c, d, e, f, rfl⟩ := length_six toks hlen
    exact packs_mem toNumber self .sw 43 (by norm_num) rfl a b c d e f w hloop

/-- An immediate that `buildImmediate` returns for a field of `bc` bits is in
`[0, 2^bc)`. -/
theorem buildImmediate_range (toNumber : Token → Int) (self : Assembler) (tok : Token)
    (bc : Nat) (hbc : bc ≤ 62) (v : Int) (h : buildImmediate toNumber self tok bc = .ok v) :
    0 ≤ v ∧ v < 2 ^ bc := by
  have hmask : buildMask bc 0 = 2 ^ bc - 1 := by
    have := buildMask_eq bc 0 (le_refl _) (by
      have : (2:Int) ^ bc ≤ 2 ^ 63 := pow_le_pow_right₀ (by norm_num) (by omega)
      linarith)
    rw [this]
    ring
  unfold buildImmediate at h
  rw [hmask] at h
  repeat' split at h
  all_goals try simp only [] at h
  all_goals repeat' split at h
  all_goals first
    | (exact Except.noConfusion h)
    | (simp only [Except.ok.injEq] at h
       rw [← h, and64_mask _ bc hbc]
       exact ⟨Int.emod_nonneg _ (by positivity), Int.emod_lt_of_pos _ (by positivity)⟩)

/-- The word of a `.word` line is in `[0, 2^32)`. -/
theorem word_line_range (toNumber : Token → Int) (self : Assembler) (tokLine : List Token)
    (i : Nat) (tok : Token) (w : Int) (htok : tokLine[i]? = some tok)
    (hop : getOpType tok.lexeme = .dotword)
    (h : buildInstruction toNumber self tokLine i = .ok w) : 0 ≤ w ∧ w < 2 ^ 32 := by
  obtain ⟨hlen, hloop⟩ := try_inv toNumber self tokLine i tok w htok
    (buildInstruction_inv toNumber self tokLine i w h)
  rw [hop] at hlen hloop
  simp only [setupFormat, setupTemplate, List.length_cons, List.length_nil] at hlen hloop
  obtain ⟨a, ha⟩ := length_one _ hlen
  rw [ha] at hloop
  obtain ⟨v, b1, hloop⟩ := loop_cons_inv _ _ _ _ _ _ _ _ _ hloop
  have hw := loop_nil_inv _ _ _ _ _ hloop
  have hk : a.kind = .INT ∨ a.kind = .HEXINT ∨ a.kind = .ID := by
    by_contra hk
    push_neg at hk
    simp [buildToken, hk.1, hk.2.1, hk.2.2] at b1
  rw [buildToken_imm toNumber self a 32 hk] at b1
  obtain ⟨h0, h1⟩ := buildImmediate_range toNumber self a 32 (by norm_num) v b1
  obtain ⟨n, hn⟩ := Int.eq_ofNat_of_zero_le h0
  have hn32 : n < 2 ^ 32 := by
    rw [hn] at h1
    exact_mod_cast h1
  have hor := or64_small 0 n (by norm_num) hn32
  rw [hw, hn]
  have e0 : ((0 : Nat) : Int) = 0 := rfl
  rw [← e0, hor.1]
  simp only [Nat.zero_or]
  exact ⟨by positivity, by exact_mod_cast hn32⟩

/-- Every word the encoding pass appends is the word of a line of the program. -/
theorem codeGenPass_lines_words (toNumber : Token → Int) (lines : List (List Token)) :
    ∀ (self self1 : Assembler) (binary binary1 : List Int),
    codeGenPass_lines toNumber self binary lines = .ok (self1, binary1) →
    ∀ w ∈ binary1, w ∈ binary ∨
      ∃ st : Assembler, ∃ tokLine ∈ lines, skipLabels tokLine 0 < tokLine.length ∧
        buildInstruction toNumber st tokLine (skipLabels tokLine 0) = .ok w := by
  induction lines with
  | nil =>
      intro self self1 binary binary1 h w hw
      simp only [codeGenPass_lines, Except.ok.injEq, Prod.mk.injEq] at h
      rw [← h.2] at hw
      exact Or.inl hw
  | cons tokLine rest ih =>
      intro self self1 binary binary1 h w hw
      rw [codeGenPass_lines] at h
      simp only [] at h
      by_cases hi : skipLabels tokLine 0 < tokLine.length
      · rw [if_pos hi] at h
        cases hb : buildInstruction toNumber { self with pc := self.pc + 1 } tokLine
            (skipLabels tokLine 0) with
        | error e => rw [hb] at h; simp at h
        | ok inst =>
            rw [hb] at h
            simp only [] at h
            rcases ih _ _ _ _ h w hw with h1 | ⟨st, l, hl, h2, h3⟩
            · rcases List.mem_append.mp h1 with h1 | h1
              · exact Or.inl h1
              · simp only [List.mem_singleton] at h1
                subst h1
                exact Or.inr ⟨_, tokLine, List.mem_cons_self _ _, hi, hb⟩
            · exact Or.inr ⟨st, l, List.mem_cons_of_mem _ hl, h2, h3⟩
      · rw [if_neg hi] at h
        rcases ih _ _ _ _ h w hw with h1 | ⟨st, l, hl, h2, h3⟩
        · exact Or.inl h1
        · exact Or.inr ⟨st, l, List.mem_cons_of_mem _ hl, h2, h3⟩

/-- The four bytes written for a word in `[0, 2^32)` give the word back. -/
theorem bytes_of_word (w : Int) (h0 : 0 ≤ w) (h1 : w < 2 ^ 32) :
    (charOf (shr64 w 24) : Int) * 2 ^ 24 + (charOf (shr64 w 16) : Int) * 2 ^ 16 +
      (charOf (shr64 w 8) : Int) * 2 ^ 8 + (charOf w : Int) = w := by
  unfold charOf shr64
  omega

/-- C40. Every word that `assemble` returns is the word of a line of the
program and lies in `[0, 2^32)`, so the four bytes written for it give it back.
For a line other than `.word` the word packs the fields of the line: the
register numbers are below 32 and the immediate below `2^16`, the template of the
opcode is below `2^6` (and there is no immediate) or a multiple of `2^26` below
`2^32` (and there is no register `d`), and the word, which the source combines
with bitwise OR, is the sum of the template and the fields at the bits 11, 21,
16 and 0. -/
theorem words_fit_32_bits (toNumber : Token → Int) (program : List (List Token))
    (binary : List Int) (h : assemble toNumber (Assembler.new program) = .ok binary) :
    ∀ w ∈ binary,
      (0 ≤ w ∧ w < 2 ^ 32) ∧
      ((charOf (shr64 w 24) : Int) * 2 ^ 24 + (charOf (shr64 w 16) : Int) * 2 ^ 16 +
        (charOf (shr64 w 8) : Int) * 2 ^ 8 + (charOf w : Int) = w) ∧
      ∃ st : Assembler, ∃ tokLine ∈ program, ∃ tok,
        tokLine[skipLabels tokLine 0]? = some tok ∧
        buildInstruction toNumber st tokLine (skipLabels tokLine 0) = .ok w ∧
        (getOpType tok.lexeme ≠ .dotword →
          (lineFields toNumber st tokLine (skipLabels tokLine 0)).Packs w) := by
  intro w hw
  obtain ⟨-, self1, hcg⟩ := assemble_ok_inv toNumber program binary h
  rcases codeGenPass_lines_words toNumber program _ _ _ _ hcg w hw with h1 | ⟨st, l, hl, hi, hb⟩
  · simp at h1
  · obtain ⟨tok, htok⟩ : ∃ tok, l[skipLabels l 0]? = some tok :=
      ⟨l[skipLabels l 0], List.getElem?_eq_getElem hi⟩
    have hrange : 0 ≤ w ∧ w < 2 ^ 32 := by
      by_cases hop : getOpType tok.lexeme = .dotword
      · exact word_line_range toNumber st l _ tok w htok hop hb
      · exact packs_range _ w (line_packs toNumber st l _ tok w htok hop hb)
    exact ⟨hrange, bytes_of_word w hrange.1 hrange.2, st, l, hl, tok, htok, hb,
      fun hop => line_packs toNumber st l _ tok w htok hop hb⟩

theorem words_fit_32_bits_witness :
    assemble decimalValue (Assembler.new [[⟨.ID, "lw"⟩, ⟨.REG, "$3"⟩, ⟨.COMMA, ","⟩,
      ⟨.INT, "-4"⟩, ⟨.LPAREN, "("⟩, ⟨.REG, "$29"⟩, ⟨.RPAREN, ")"⟩]]) = .ok [0x8fa3fffc] ∧
    ∀ w ∈ [(0x8fa3fffc : Int)],
      (0 ≤ w ∧ w < 2 ^ 32) ∧
      ((charOf (shr64 w 24) : Int) * 2 ^ 24 + (charOf (shr64 w 16) : Int) * 2 ^ 16 +
        (charOf (shr64 w 8) : Int) * 2 ^ 8 + (charOf w : Int) = w) ∧
      ∃ st : Assembler, ∃ tokLine ∈ [[(⟨.ID, "lw"⟩ : Token), ⟨.REG, "$3"⟩, ⟨.COMMA, ","⟩,
          ⟨.INT, "-4"⟩, ⟨.LPAREN, "("⟩, ⟨.REG, "$29"⟩, ⟨.RPAREN, ")"⟩]], ∃ tok,
        tokLine[skipLabels tokLine 0]? = some tok ∧
        buildInstruction decimalValue st tokLine (skipLabels tokLine 0) = .ok w ∧
        (getOpType tok.lexeme ≠ .dotword →
          (lineFields decimalValue st tokLine (skipLabels tokLine 0)).Packs w) :=
  ⟨by decide, words_fit_32_bits decimalValue
    [[⟨.ID, "lw"⟩, ⟨.REG, "$3"⟩, ⟨.COMMA, ","⟩, ⟨.INT, "-4"⟩, ⟨.LPAREN, "("⟩, ⟨.REG, "$29"⟩,
      ⟨.RPAREN, ")"⟩]] [0x8fa3fffc] (by decide)⟩

end Assembler

/-! ## Parser: the stacks during a parse -/

namespace WLP4

namespace WLP4Parser

/-- What `reduce` does to the two stacks. -/
theorem reduce_effect (T : Tables) (ns : List Node) (ss : List (Option Nat)) (a : Token)
    (ns1 : List Node) (ss1 : List (Option Nat)) (h : reduce T ns ss a = .ok (ns1, ss1)) :
    ∃ s nt rhs goto, ss.head? = some (some s) ∧
      T.prods[reductionOf T s a.kind]? = some (nt, rhs) ∧
      rhs.length ≤ ns.length ∧ rhs.length ≤ ss.length ∧
      ns1 = Node.node (reductionOf T s a.kind) (ns.take rhs.length).reverse ::
        ns.drop rhs.length ∧
      ss1 = goto :: ss.drop rhs.length := by
  unfold reduce at h
  split at h
  · rename_i s hs
    dsimp only at h
    cases hp : T.prods[reductionOf T s a.kind]? with
    | none =>
        rw [hp] at h
        simp at h
    | some p =>
        obtain ⟨nt, rhs⟩ := p
        rw [hp] at h
        simp only [] at h
        split at h
        · rename_i hlen
          split at h
          · simp only [Except.ok.injEq, Prod.mk.injEq] at h
            exact ⟨s, nt, rhs, _, hs, hp, hlen.1, hlen.2, h.1.symm, h.2.symm⟩
          · simp only [Except.ok.injEq, Prod.mk.injEq] at h
            exact ⟨s, nt, rhs, _, hs, hp, hlen.1, hlen.2, h.1.symm, h.2.symm⟩
          · simp at h
        · simp at h
  · simp at h

/-- What a successful `shift` does to the two stacks. -/
theorem shift_effect (T : Tables) (ns : List Node) (ss : List (Option Nat)) (a : Token)
    (ns1 : List Node) (ss1 : List (Option Nat)) (h : shift T ns ss a = .ok (false, ns1, ss1)) :
    ∃ s nxt, ss.head? = some (some s) ∧ transition T s a.kind = some nxt ∧
      ns1 = Node.leaf a :: ns ∧ ss1 = some nxt :: ss := by
  unfold shift at h
  split at h
  · rename_i s hs
    split at h
    · simp at h
    · rename_i nxt ht
      simp only [Except.ok.injEq, Prod.mk.injEq, true_and] at h
      exact ⟨s, nxt, hs, ht, h.1.symm, h.2.symm⟩
  · simp at h

/-- A property of the counter and the two stacks that every reduction and every
successful shift preserve holds when the loop of `slr1` ends. -/
theorem slrLoop_induct (T : Tables) (input : List Token)
    (P : Nat → List Node → List (Option Nat) → Prop)
    (hred : ∀ k ns ss a ns1 ss1, P k ns ss → input[k]? = some a →
      reduce T ns ss a = .ok (ns1, ss1) → P k ns1 ss1)
    (hshift : ∀ k ns ss a ns1 ss1, P k ns ss → input[k]? = some a →
      shift T ns ss a = .ok (false, ns1, ss1) → P (k + 1) ns1 ss1) :
    ∀ (steps k : Nat) (ns : List Node) (ss : List (Option Nat)) (ns1 : List Node)
      (ss1 : List (Option Nat)), P k ns ss →
      slrLoop T input steps k ns ss = .ok (ns1, ss1) →
      ∃ k1, k ≤ k1 ∧ input[k1]? = none ∧ P k1 ns1 ss1 := by
  intro steps
  induction steps with
  | zero =>
      intro k ns ss ns1 ss1 _ h
      simp [slrLoop] at h
  | succ steps ih =>
      intro k ns ss ns1 ss1 hP h
      rw [slrLoop] at h
      cases ha : input[k]? with
      | none =>
          simp only [ha, Except.ok.injEq, Prod.mk.injEq] at h
          rw [← h.1, ← h.2]
          exact ⟨k, le_refl _, ha, hP⟩
      | some a =>
          simp only [ha] at h
          cases hs : ss.head? with
          | none => simp [hs] at h
          | some top =>
              cases top with
              | none => simp [hs] at h
              | some s =>
                  simp only [hs] at h
                  by_cases hr : hasReduction T s a.kind = true
                  · simp only [hr, if_true] at h
                    cases hredx : reduce T ns ss a with
                    | error e =>
                        rw [hredx] at h
                        simp [bind, Except.bind] at h
                    | ok v =>
                        obtain ⟨ns2, ss2⟩ := v
                        rw [hredx] at h
                        simp only [bind, Except.bind] at h
                        exact ih k ns2 ss2 ns1 ss1 (hred k ns ss a ns2 ss2 hP ha hredx) h
                  · have hr' : hasReduction T s a.kind = false := by simpa using hr
                    simp only [hr', Bool.false_eq_true, if_false] at h
                    cases hsh : shift T ns ss a with
                    | error e =>
                        rw [hsh] at h
                        simp [bind, Except.bind] at h
                    | ok v =>
                        obtain ⟨failed, ns2, ss2⟩ := v
                        rw [hsh] at h
                        simp only [bind, Except.bind] at h
                        cases failed with
                        | true => simp at h
                        | false =>
                            simp only [Bool.false_eq_true, if_false] at h
                            obtain ⟨k1, hk1, hnone, hP1⟩ := ih (k + 1) ns2 ss2 ns1 ss1
                              (hshift k ns ss a ns2 ss2 hP ha hsh) h
                            exact ⟨k1, by omega, hnone, hP1⟩

/-- The steps of `slr1Tree`: the loop, the final reduction and the bottom of the
node stack. -/
theorem slr1Tree_inv (T : Tables) (input : List Token) (steps : Nat) (root : Node)
    (h : slr1Tree T input steps = .ok root) :
    ∃ a0 rest ns ss ns1 ss1, input = a0 :: rest ∧
      slrLoop T input steps 1 [Node.leaf a0] [transition T 0 a0.kind] = .ok (ns, ss) ∧
      reduce T ns ss ⟨".ACCEPT", ".ACCEPT"⟩ = .ok (ns1, ss1) ∧ ns1.getLast? = some root := by
  unfold slr1Tree at h
  cases input with
  | nil => simp at h
  | cons a0 rest =>
      simp only [bind, Except.bind] at h
      cases hloop : slrLoop T (a0 :: rest) steps 1 [Node.leaf a0] [transition T 0 a0.kind] with
      | error e => rw [hloop] at h; simp at h
      | ok v =>
          obtain ⟨ns, ss⟩ := v
          rw [hloop] at h
          simp only [] at h
          cases hredx : reduce T ns ss ⟨".ACCEPT", ".ACCEPT"⟩ with
          | error e => rw [hredx] at h; simp at h
          | ok w =>
              obtain ⟨ns1, ss1⟩ := w
              rw [hredx] at h
              simp only [] at h
              cases hlast : ns1.getLast? with
              | none => rw [hlast] at h; simp at h
              | some r =>
                  rw [hlast] at h
                  simp only [Except.ok.injEq] at h
                  subst h
                  exact ⟨a0, rest, ns, ss, ns1, ss1, rfl, hloop, hredx, hlast⟩

theorem arityOKList_iff (T : Tables) (cs : List Node) :
    arityOKList T cs = true ↔ ∀ c ∈ cs, arityOK T c = true := by
  induction cs with
  | nil => simp [arityOKList]
  | cons c cs ih => simp [arityOKList, ih]

theorem reduce_arityOK (T : Tables) (ns : List Node) (ss : List (Option Nat)) (a : Token)
    (ns1 : List Node) (ss1 : List (Option Nat)) (hns : ∀ n ∈ ns, arityOK T n = true)
    (h : reduce T ns ss a = .ok (ns1, ss1)) : ∀ n ∈ ns1, arityOK T n = true := by
  obtain ⟨s, nt, rhs, goto, _, hp, hlen, _, hns1, _⟩ := reduce_effect T ns ss a ns1 ss1 h
  rw [hns1]
  intro n hn
  rcases List.mem_cons.mp hn with rfl | hn
  · rw [arityOK, hp]
    simp only [List.length_reverse, List.length_take, Bool.and_eq_true, beq_iff_eq]
    refine ⟨by omega, ?_⟩
    rw [arityOKList_iff]
    intro c hc
    exact hns c (List.mem_of_mem_take (List.mem_reverse.mp hc))
  · exact hns n (List.mem_of_mem_drop hn)

/-- C32. A reduction by the production number `rule`, with right-hand side
`rhs`, replaces the top `|rhs|` nodes of the node stack by one interior node for
that production, whose children are the nodes removed in their order from the
bottom to the top of the stack, and the top `|rhs|` states of the state stack by
one state.  A successful shift puts one leaf and one state on the stacks.  So the
two stacks have the same length after every reduction and after every successful
shift, and at the end of the loop, when they had at its start; and every
interior node of the tree of a successful parse has exactly as many children as
its production has symbols on the right-hand side. -/
theorem reduce_pops_and_pushes (T : Tables) :
    (∀ ns ss a ns1 ss1, reduce T ns ss a = .ok (ns1, ss1) →
      ∃ s nt rhs goto children, ss.head? = some (some s) ∧
        T.prods[reductionOf T s a.kind]? = some (nt, rhs) ∧
        children.length = rhs.length ∧
        ns = children.reverse ++ ns.drop rhs.length ∧
        ns1 = Node.node (reductionOf T s a.kind) children :: ns.drop rhs.length ∧
        ss1 = goto :: ss.drop rhs.length ∧ (ss.drop rhs.length).length + rhs.length = ss.length ∧
        (ns.length = ss.length → ns1.length = ss1.length)) ∧
    (∀ ns ss a ns1 ss1, shift T ns ss a = .ok (false, ns1, ss1) →
      ns1 = Node.leaf a :: ns ∧ (∃ nxt, ss1 = some nxt :: ss) ∧
      (ns.length = ss.length → ns1.length = ss1.length)) ∧
    (∀ input steps k ns ss ns1 ss1, ns.length = ss.length →
      slrLoop T input steps k ns ss = .ok (ns1, ss1) → ns1.length = ss1.length) ∧
    (∀ input steps root, slr1Tree T input steps = .ok root → arityOK T root = true) := by
  have hR : ∀ ns ss a ns1 ss1, reduce T ns ss a = .ok (ns1, ss1) →
      ∃ s nt rhs goto children, ss.head? = some (some s) ∧
        T.prods[reductionOf T s a.kind]? = some (nt, rhs) ∧
        children.length = rhs.length ∧
        ns = children.reverse ++ ns.drop rhs.length ∧
        ns1 = Node.node (reductionOf T s a.kind) children :: ns.drop rhs.length ∧
        ss1 = goto :: ss.drop rhs.length ∧ (ss.drop rhs.length).length + rhs.length = ss.length ∧
        (ns.length = ss.length → ns1.length = ss1.length) := by
    intro ns ss a ns1 ss1 h
    obtain ⟨s, nt, rhs, goto, hs, hp, hl1, hl2, hns1, hss1⟩ := reduce_effect T ns ss a ns1 ss1 h
    refine ⟨s, nt, rhs, goto, (ns.take rhs.length).reverse, hs, hp, ?_, ?_, hns1, hss1, ?_, ?_⟩
    · simp only [List.length_reverse, List.length_take]
      omega
    · rw [List.reverse_reverse, List.take_append_drop]
    · simp only [List.length_drop]
      omega
    · intro heq
      rw [hns1, hss1]
      simp only [List.length_cons, List.length_drop]
      omega
  have hS : ∀ ns ss a ns1 ss1, shift T ns ss a = .ok (false, ns1, ss1) →
      ns1 = Node.leaf a :: ns ∧ (∃ nxt, ss1 = some nxt :: ss) ∧
      (ns.length = ss.length → ns1.length = ss1.length) := by
    intro ns ss a ns1 ss1 h
    obtain ⟨s, nxt, _, _, h1, h2⟩ := shift_effect T ns ss a ns1 ss1 h
    refine ⟨h1, ⟨nxt, h2⟩, fun heq => ?_⟩
    rw [h1, h2]
    simp only [List.length_cons, heq]
  refine ⟨hR, hS, ?_, ?_⟩
  · intro input steps k ns ss ns1 ss1 heq h
    obtain ⟨_, _, _, hP⟩ := slrLoop_induct T input (fun _ ns ss => ns.length = ss.length)
      (fun _ ns ss a ns1 ss1 hP _ hr => by
        obtain ⟨_, _, _, _, _, _, _, _, _, _, _, _, hlen⟩ := hR ns ss a ns1 ss1 hr
        exact hlen hP)
      (fun _ ns ss a ns1 ss1 hP _ hs => (hS ns ss a ns1 ss1 hs).2.2 hP)
      steps k ns ss ns1 ss1 heq h
    exact hP
  · intro input steps root h
    obtain ⟨a0, rest, ns, ss, ns1, ss1, hin, hloop, hredx, hlast⟩ := slr1Tree_inv T input steps root h
    obtain ⟨_, _, _, hP⟩ := slrLoop_induct T input (fun _ ns _ => ∀ n ∈ ns, arityOK T n = true)
      (fun _ ns ss a ns1 ss1 hP _ hr => reduce_arityOK T ns ss a ns1 ss1 hP hr)
      (fun _ ns ss a ns1 ss1 hP _ hs => by
        obtain ⟨_, _, _, _, h1, _⟩ := shift_effect T ns ss a ns1 ss1 hs
        rw [h1]
        intro n hn
        rcases List.mem_cons.mp hn with rfl | hn
        · rfl
        · exact hP n hn)
      steps 1 _ _ ns ss
      (by
        intro n hn
        rw [List.mem_singleton] at hn
        rw [hn]
        rfl) hloop
    exact reduce_arityOK T ns ss _ ns1 ss1 hP hredx root (List.mem_of_mem_getLast? hlast)

theorem reduce_pops_and_pushes_witness :
    slr1Tree gotoTables (augment (pairUp (WLP4ParseTree.words "procedures foo"))) 4 =
      .ok (.node 0 [.leaf ⟨"BOF", "BOF"⟩, .leaf ⟨"procedures", "foo"⟩, .leaf ⟨"EOF", "EOF"⟩]) ∧
    arityOK gotoTables
      (.node 0 [.leaf ⟨"BOF", "BOF"⟩, .leaf ⟨"procedures", "foo"⟩, .leaf ⟨"EOF", "EOF"⟩]) = true :=
  ⟨by rfl, (reduce_pops_and_pushes gotoTables).2.2.2
    (augment (pairUp (WLP4ParseTree.words "procedures foo"))) 4 _ (by rfl)⟩

end WLP4Parser

end WLP4

namespace WLP4

namespace WLP4Parser

theorem leavesList_append (xs ys : List Node) :
    leavesList (xs ++ ys) = leavesList xs ++ leavesList ys := by
  induction xs with
  | nil => simp [leavesList]
  | cons x xs ih => simp [leavesList, ih]

/-- A reduction leaves the leaves of the node stack as they are. -/
theorem reduce_stackLeaves (T : Tables) (ns : List Node) (ss : List (Option Nat)) (a : Token)
    (ns1 : List Node) (ss1 : List (Option Nat)) (h : reduce T ns ss a = .ok (ns1, ss1)) :
    stackLeaves ns1 = stackLeaves ns := by
  obtain ⟨s, nt, rhs, goto, _, _, _, _, hns1, _⟩ := reduce_effect T ns ss a ns1 ss1 h
  have hsplit : ns.reverse = (ns.drop rhs.length).reverse ++ (ns.take rhs.length).reverse := by
    rw [← List.reverse_append, List.take_append_drop]
  unfold stackLeaves
  rw [hns1, List.reverse_cons, leavesList_append, hsplit, leavesList_append]
  simp [leavesList, leaves]

/-- A successful shift puts the token at the end of the leaves of the node
stack. -/
theorem shift_stackLeaves (T : Tables) (ns : List Node) (ss : List (Option Nat)) (a : Token)
    (ns1 : List Node) (ss1 : List (Option Nat)) (h : shift T ns ss a = .ok (false, ns1, ss1)) :
    stackLeaves ns1 = stackLeaves ns ++ [a] := by
  obtain ⟨_, _, _, _, h1, _⟩ := shift_effect T ns ss a ns1 ss1 h
  unfold stackLeaves
  rw [h1, List.reverse_cons, leavesList_append]
  simp [leavesList, leaves]

theorem take_succ_of_getElem? {α : Type} (l : List α) (k : Nat) (a : α) (h : l[k]? = some a) :
    l.take (k + 1) = l.take k ++ [a] := by
  rw [List.take_succ, h]
  rfl

theorem take_of_getElem?_none {α : Type} (l : List α) (k : Nat) (h : l[k]? = none) :
    l.take k = l := by
  apply List.take_of_length_le
  exact List.getElem?_eq_none_iff.mp h

/-- The tree of `slr1Tree` is the bottom of the node stack after the Accept stage. -/
theorem slr1Tree_bottom (T : Tables) (input : List Token) (steps : Nat) :
    slr1Tree T input steps = (slr1Stack T input steps).bind bottomOf := by
  unfold slr1Tree slr1Stack
  cases input with
  | nil => rfl
  | cons a0 rest =>
      simp only [bind, Except.bind]
      cases slrLoop T (a0 :: rest) steps 1 [Node.leaf a0] [transition T 0 a0.kind] with
      | error e => rfl
      | ok v =>
          obtain ⟨ns, ss⟩ := v
          simp only []
          cases reduce T ns ss ⟨".ACCEPT", ".ACCEPT"⟩ with
          | error e => rfl
          | ok w => rfl

/-- The steps of `slr1Stack`: the loop and the final reduction. -/
theorem slr1Stack_inv (T : Tables) (input : List Token) (steps : Nat) (ns1 : List Node)
    (h : slr1Stack T input steps = .ok ns1) :
    ∃ a0 rest ns ss ss1, input = a0 :: rest ∧
      slrLoop T input steps 1 [Node.leaf a0] [transition T 0 a0.kind] = .ok (ns, ss) ∧
      reduce T ns ss ⟨".ACCEPT", ".ACCEPT"⟩ = .ok (ns1, ss1) := by
  unfold slr1Stack at h
  cases input with
  | nil => simp at h
  | cons a0 rest =>
      simp only [bind, Except.bind] at h
      cases hloop : slrLoop T (a0 :: rest) steps 1 [Node.leaf a0] [transition T 0 a0.kind] with
      | error e => rw [hloop] at h; simp at h
      | ok v =>
          obtain ⟨ns, ss⟩ := v
          rw [hloop] at h
          simp only [] at h
          cases hredx : reduce T ns ss ⟨".ACCEPT", ".ACCEPT"⟩ with
          | error e => rw [hredx] at h; simp at h
          | ok w =>
              obtain ⟨ns2, ss1⟩ := w
              rw [hredx] at h
              simp only [Except.ok.injEq] at h
              subst h
              exact ⟨a0, rest, ns, ss, ss1, rfl, hloop, hredx⟩

/-- The loop of `slr1`, started with the leaves `input.take k` on the node stack,
ends with the whole input on it. -/
theorem slrLoop_stackLeaves (T : Tables) (input : List Token) (steps k : Nat) (ns : List Node)
    (ss : List (Option Nat)) (ns1 : List Node) (ss1 : List (Option Nat))
    (h0 : stackLeaves ns = input.take k) (h : slrLoop T input steps k ns ss = .ok (ns1, ss1)) :
    stackLeaves ns1 = input := by
  obtain ⟨k1, _, hnone, hP⟩ := slrLoop_induct T input
    (fun k ns _ => stackLeaves ns = input.take k)
    (fun k ns ss a ns1 ss1 hP _ hr => by
      show stackLeaves ns1 = input.take k
      rw [reduce_stackLeaves T ns ss a ns1 ss1 hr]
      exact hP)
    (fun k ns ss a ns1 ss1 hP ha hs => by
      show stackLeaves ns1 = input.take (k + 1)
      rw [shift_stackLeaves T ns ss a ns1 ss1 hs, take_succ_of_getElem? input k a ha]
      exact congrArg (· ++ [a]) hP)
    steps k ns ss ns1 ss1 h0 h
  rw [hP, take_of_getElem?_none input k1 hnone]

/-- The leaves of the node stack after the Accept stage are the input. -/
theorem slr1Stack_leaves (T : Tables) (input : List Token) (steps : Nat) (ns1 : List Node)
    (h : slr1Stack T input steps = .ok ns1) : stackLeaves ns1 = input := by
  obtain ⟨a0, rest, ns, ss, ss1, hin, hl, hredx⟩ := slr1Stack_inv T input steps ns1 h
  have h1 : stackLeaves ns = input := by
    apply slrLoop_stackLeaves T input steps 1 _ _ ns ss _ hl
    rw [hin]
    rfl
  rw [reduce_stackLeaves T ns ss _ ns1 ss1 hredx, h1]

/-- When the Accept stage leaves one tree on the node stack, that tree is the one
printed and its leaves are the input. -/
theorem slr1Stack_single (T : Tables) (input : List Token) (steps : Nat) (root : Node)
    (h : slr1Stack T input steps = .ok [root]) :
    slr1Tree T input steps = .ok root ∧ slr1 T input steps = print T root ∧
      leaves root = input := by
  have ht : slr1Tree T input steps = .ok root := by
    rw [slr1Tree_bottom, h]
    rfl
  refine ⟨ht, ?_, ?_⟩
  · unfold slr1
    rw [ht]
    rfl
  · have h2 := slr1Stack_leaves T input steps [root] h
    simpa [stackLeaves, leavesList] using h2

/-- C37. Throughout `slr1` the leaves of the node stack, read from the bottom
of the stack to its top and from left to right inside each tree, are the tokens
of the augmented input consumed so far: initially the first token, a reduction
leaves them as they are, a successful shift of the token of index `k` adds that
token, unchanged, at the end; so when the loop has started with the leaves
`input.take k` it ends with the whole input.  `slr1Stack` is the node stack after
the final reduction and the tree that `slr1` prints is the bottom `nodeStack[0]` of
that stack: the leaves of that stack are the input, and whenever the final
reduction has left the one tree `root` on it, `root` is the tree printed and its
leaves are the input, which is `BOF`, the tokens in their order, `EOF` for the
input that `parse` builds.  Whenever a tree is printed, it is the bottom of a stack
that the Accept stage returned. -/
theorem leaves_spell_input (T : Tables) :
    (∀ ns ss a ns1 ss1, reduce T ns ss a = .ok (ns1, ss1) → stackLeaves ns1 = stackLeaves ns) ∧
    (∀ ns ss a ns1 ss1, shift T ns ss a = .ok (false, ns1, ss1) →
      stackLeaves ns1 = stackLeaves ns ++ [a]) ∧
    (∀ input steps k ns ss ns1 ss1, stackLeaves ns = input.take k →
      slrLoop T input steps k ns ss = .ok (ns1, ss1) → stackLeaves ns1 = input) ∧
    (∀ input steps, slr1Tree T input steps = (slr1Stack T input steps).bind bottomOf) ∧
    (∀ input steps ns1, slr1Stack T input steps = .ok ns1 → stackLeaves ns1 = input) ∧
    (∀ input steps root, slr1Stack T input steps = .ok [root] →
      slr1Tree T input steps = .ok root ∧ slr1 T input steps = print T root ∧
        leaves root = input) ∧
    (∀ toks steps root, slr1Stack T (augment toks) steps = .ok [root] →
      slr1Tree T (augment toks) steps = .ok root ∧
        slr1 T (augment toks) steps = print T root ∧
        leaves root = ⟨"BOF", "BOF"⟩ :: toks ++ [⟨"EOF", "EOF"⟩]) ∧
    (∀ input steps root, slr1Tree T input steps = .ok root →
      ∃ ns1 : List Node, slr1Stack T input steps = .ok ns1 ∧ ns1.getLast? = some root ∧
        stackLeaves ns1 = input ∧ (ns1.length = 1 → leaves root = input)) := by
  refine ⟨reduce_stackLeaves T, shift_stackLeaves T, slrLoop_stackLeaves T,
    slr1Tree_bottom T, slr1Stack_leaves T, slr1Stack_single T,
    fun toks steps root h => slr1Stack_single T (augment toks) steps root h, ?_⟩
  intro input steps root h
  rw [slr1Tree_bottom] at h
  cases hs : slr1Stack T input steps with
  | error e => rw [hs] at h; cases h
  | ok ns1 =>
      rw [hs] at h
      have hb : bottomOf ns1 = .ok root := h
      have hlast : ns1.getLast? = some root := by
        unfold bottomOf at hb
        cases hl : ns1.getLast? with
        | none => rw [hl] at hb; cases hb
        | some r =>
            rw [hl] at hb
            simp only [Except.ok.injEq] at hb
            rw [hb]
      refine ⟨ns1, rfl, hlast, slr1Stack_leaves T input steps ns1 hs, ?_⟩
      intro hlen
      match ns1, hlen, hlast, hs with
      | [r], _, hlast, hs =>
          simp only [List.getLast?_singleton, Option.some.injEq] at hlast
          subst hlast
          exact (slr1Stack_single T input steps r hs).2.2

/-- Witness for C37: with the tables `gotoTables` the Accept stage leaves one tree
on the stack for the input `BOF procedures EOF`; it is the tree printed and its
leaves are the three tokens in their order. -/
theorem leaves_spell_input_witness :
    slr1Stack gotoTables (augment [⟨"procedures", "foo"⟩]) 4 =
      .ok [.node 0 [.leaf ⟨"BOF", "BOF"⟩, .leaf ⟨"procedures", "foo"⟩, .leaf ⟨"EOF", "EOF"⟩]] ∧
    (slr1Tree gotoTables (augment [⟨"procedures", "foo"⟩]) 4 =
      .ok (.node 0 [.leaf ⟨"BOF", "BOF"⟩, .leaf ⟨"procedures", "foo"⟩, .leaf ⟨"EOF", "EOF"⟩]) ∧
    slr1 gotoTables (augment [⟨"procedures", "foo"⟩]) 4 = print gotoTables
      (.node 0 [.leaf ⟨"BOF", "BOF"⟩, .leaf ⟨"procedures", "foo"⟩, .leaf ⟨"EOF", "EOF"⟩]) ∧
    leaves (.node 0 [.leaf ⟨"BOF", "BOF"⟩, .leaf ⟨"procedures", "foo"⟩, .leaf ⟨"EOF", "EOF"⟩]) =
      [⟨"BOF", "BOF"⟩, ⟨"procedures", "foo"⟩, ⟨"EOF", "EOF"⟩]) :=
  ⟨by rfl, (leaves_spell_input gotoTables).2.2.2.2.2.2.1 [⟨"procedures", "foo"⟩] 4 _ (by rfl)⟩

end WLP4Parser

end WLP4

/-! ## Code generator: constant folding of a division by zero -/

namespace WLP4

namespace WLP4Gen

/-- Folding `x / 0` or `x % 0`: the source divides by zero, which is undefined. -/
theorem term_fold_zero (fuel : Nat) (R : Regs) (table : ProcData) (node l o r a b : Node)
    (g : Gen) (hc : node.children = [l, o, r]) (hl : numOfTerm l = some a)
    (hr : numOfFactor r = some b) (ho : o.kind ≠ "STAR") (hy : intOfSeq b.seq = 0) :
    generate_term (fuel + 1) R table node g = .error .undefined := by
  obtain ⟨f, htc, -, hf⟩ := numOfTerm_inv hl
  obtain ⟨hfc, -, hak⟩ := numOfFactor_inv hf
  obtain ⟨hf2c, -, hbk⟩ := numOfFactor_inv hr
  have hlen : ¬ node.children.length = 1 := by rw [hc]; simp
  have hz : o.kind ≠ "STAR" ∧ intOfSeq b.seq = 0 := ⟨ho, hy⟩
  unfold generate_term
  simp only [bind, Except.bind, pure, Except.pure, if_neg hlen, child_cons0 _ _ _ hc,
    child_cons0 _ _ _ htc, child_cons0 _ _ _ hfc,
    child_cons2 _ _ _ _ _ hc, child_cons0 _ _ _ hf2c,
    child_cons1 _ _ _ _ hc, hak, hbk, and_self, if_true, if_pos hz]

theorem Post.fails {β γ : Type} {P : γ → Prop} {x : Except Fault β} {f : β → Except Fault γ}
    (hx : Post (fun _ => False) x) : Post P (x >>= f) :=
  Post.seq hx (fun _ h => h.elim)

theorem Post.after {β γ : Type} {P : γ → Prop} {x : Except Fault β} {f : β → Except Fault γ}
    (hf : ∀ v, Post P (f v)) : Post P (x >>= f) :=
  Post.seq (Post.triv x) (fun v _ => hf v)

theorem Post.child {γ : Type} {P : γ → Prop} {node c : Node} {i : Nat}
    {f : Node → Except Fault γ} (hc : child node i = .ok c) (hf : Post P (f c)) :
    Post P (child node i >>= f) := by
  rw [hc]
  exact hf

/-- No term is generated for `1 / 0`, whatever the recursion budget. -/
theorem divByZero_term (fuel : Nat) (R : Regs) (table : ProcData) (g : Gen) :
    Post (fun _ => False)
      (generate_term fuel R table (mulNode "SLASH" "/" (termOf (numFactor "1")) (numFactor "0"))
        g) := by
  cases fuel with
  | zero => exact Post.error _
  | succ n =>
      rw [term_fold_zero n R table (mulNode "SLASH" "/" (termOf (numFactor "1")) (numFactor "0"))
        (termOf (numFactor "1")) (WLP4ParseTree.tok "SLASH" "/" "")
        (numFactor "0") (WLP4ParseTree.tok "NUM" "1" "int") (WLP4ParseTree.tok "NUM" "0" "int") g
        rfl rfl rfl (by decide) (by decide)]
      exact Post.error _

theorem divByZero_expr (fuel : Nat) (R : Regs) (table : ProcData) (g : Gen) :
    Post (fun _ => False) (generate_expr fuel R table divByZeroExpr g) := by
  cases fuel with
  | zero => exact Post.error _
  | succ n =>
      unfold generate_expr
      rw [if_pos (by rfl)]
      exact Post.child (c := mulNode "SLASH" "/" (termOf (numFactor "1")) (numFactor "0")) rfl
        (divByZero_term n R table g)

theorem divByZero_proc (fuel : Nat) (R : Regs) (ptable : ProcTable) (g : Gen) :
    Post (fun _ => False) (generate_proc fuel R ptable divByZeroWain g) := by
  unfold generate_proc
  refine Post.after (fun idn => ?_)
  refine Post.after (fun g4 => ?_)
  refine Post.after (fun dcls => ?_)
  refine Post.after (fun g6 => ?_)
  refine Post.after (fun stmts => ?_)
  refine Post.after (fun g7 => ?_)
  refine Post.child (c := divByZeroExpr) rfl ?_
  exact Post.fails (divByZero_expr fuel R _ g7)

theorem divByZero_prog (R : Regs) (ptable : ProcTable) : ∀ (fuel : Nat) (g : Gen),
    Post (fun _ => False) (generate_prog_level fuel R ptable (programOf divByZeroWain) g) := by
  intro fuel g
  cases fuel with
  | zero => exact Post.error _
  | succ n =>
      unfold generate_prog_level
      rw [if_pos (by rfl)]
      refine Post.child (c := WLP4ParseTree.rule "procedures" "main" "" [divByZeroWain]) rfl ?_
      cases n with
      | zero => exact Post.error _
      | succ m =>
          unfold generate_prog_level
          rw [if_neg (by decide)]
          refine Post.child (c := divByZeroWain) rfl ?_
          exact Post.fails (divByZero_proc m R ptable _)

/-- C39. The program `int wain(int a, int b) \x7b return 1 / 0; \x7d` is accepted by
the type checker, and the constant-folding path of `generate_term` divides by its
literal zero: folding `x / 0` or `x % 0` is a division by zero in the generator
itself, so no code is generated for the program, whatever the registers and the
recursion budget of the model, and with enough budget the run ends at that
division. -/
theorem fold_division_by_zero :
    WLP4ParseTree.annotate divByZeroSource =
      .ok (programOf divByZeroWain,
        [("wain", { id := "wain", signature := [], symTable := [("a", "int"), ("b", "int")] })]) ∧
    (∀ fuel R table node l o r a b g, node.children = [l, o, r] → numOfTerm l = some a →
      numOfFactor r = some b → o.kind ≠ "STAR" → intOfSeq b.seq = 0 →
      generate_term (fuel + 1) R table node g = .error .undefined) ∧
    (∀ fuel R lines, generate fuel R (programOf divByZeroWain) ≠ .ok lines) ∧
    generate 8 exampleRegs (programOf divByZeroWain) = .error .undefined := by
  refine ⟨by rfl, ?_, ?_, by decide⟩
  · intro fuel R table node l o r a b g hc hl hr ho hy
    exact term_fold_zero fuel R table node l o r a b g hc hl hr ho hy
  · intro fuel R lines h
    have hp : Post (fun _ => False) (generate fuel R (programOf divByZeroWain)) := by
      unfold generate
      refine Post.after (fun ptable => ?_)
      exact Post.fails (divByZero_prog R ptable fuel _)
    exact hp.result lines h

end WLP4Gen

end WLP4

/-! ## The typed listing read back by the code generator -/

namespace WLP4

namespace WLP4Gen

open WLP4ParseTree WLP4Parser

/-- The words of a line of the typed listing: the kind, the words of the rule,
and `:` and the type when the node has one. -/
theorem line_words (kind : String) (ws : List String) (type : String)
    (hk : isWord kind = true) (hws : ∀ w ∈ ws, isWord w = true)
    (hty : type = TYPE_NONE ∨ isWord type = true) :
    words (ws.foldl (fun acc r => acc ++ " " ++ r) kind ++
        (if type = TYPE_NONE then "" else " : " ++ type)) =
      kind :: (ws ++ (if type = TYPE_NONE then [] else [":", type])) := by
  by_cases h0 : type = TYPE_NONE
  · rw [if_pos h0, if_pos h0, List.append_nil]
    have e : ws.foldl (fun acc r => acc ++ " " ++ r) kind ++ "" =
        ws.foldl (fun acc r => acc ++ " " ++ r) kind := by
      apply String.ext
      simp [String.data_append]
    rw [e]
    exact words_spaced kind ws hk hws
  · rw [if_neg h0, if_neg h0]
    have hty' : isWord type = true := by
      rcases hty with h | h
      · exact absurd h h0
      · exact h
    have e : ws.foldl (fun acc r => acc ++ " " ++ r) kind ++ (" : " ++ type) =
        (ws ++ [":", type]).foldl (fun acc r => acc ++ " " ++ r) kind := by
      rw [List.foldl_append]
      apply String.ext
      simp only [List.foldl_cons, List.foldl_nil, String.data_append, List.append_assoc]
      rfl
    rw [e]
    apply words_spaced kind _ hk
    intro w hw
    rcases List.mem_append.mp hw with hw | hw
    · exact hws w hw
    · simp only [List.mem_cons, List.mem_singleton, List.mem_nil_iff, or_false] at hw
      rcases hw with rfl | rfl
      · decide
      · exact hty'

/-- The loop of `readTree` on the words of the line of a terminal. -/
theorem readWords_terminal (cfg : CFG) (type : String) (lines : List String) :
    ∀ (ws : List String) (fuel : Nat) (seq : String),
      (∀ w ∈ ws, w ≠ ".EMPTY" ∧ w ≠ ":") → ws.length + 1 ≤ fuel →
      readWords cfg fuel true (ws ++ (if type = TYPE_NONE then [] else [":", type])) seq lines =
        some (ws.foldl (fun acc r => acc ++ " " ++ r) seq, [], type, lines) := by
  intro ws
  induction ws with
  | nil =>
      intro fuel seq _ hf
      obtain ⟨f, rfl⟩ : ∃ f, fuel = f + 1 := ⟨fuel - 1, by simp at hf; omega⟩
      by_cases h0 : type = TYPE_NONE
      · rw [if_pos h0, List.nil_append, readWords, h0]
        rfl
      · rw [if_neg h0, List.nil_append, readWords]
        simp
  | cons w ws ih =>
      intro fuel seq hw hf
      obtain ⟨f, rfl⟩ : ∃ f, fuel = f + 1 := ⟨fuel - 1, by simp at hf; omega⟩
      have h1 := hw w (List.mem_cons_self _ _)
      rw [List.cons_append, readWords, if_neg h1.1, if_neg h1.2, if_pos rfl]
      rw [ih f _ (fun x hx => hw x (List.mem_cons_of_mem _ hx))
        (by simp only [List.length_cons] at hf; omega)]
      rfl

theorem listedList_iff (cfg : CFG) (cs : List Node) :
    listedList cfg cs = true ↔ ∀ c ∈ cs, listed cfg c = true := by
  induction cs with
  | nil => simp [listedList]
  | cons c cs ih => simp [listedList, ih]

theorem rereadList_eq_map (cs : List Node) : rereadList cs = cs.map reread := by
  induction cs with
  | nil => rfl
  | cons c cs ih => rw [rereadList, ih]; rfl

mutual

/-- The generator reads the listing of a `listed` tree back as `reread` of the
tree. -/
theorem reread_tree (cfg : CFG) :
    ∀ (t : Node), listed cfg t = true → ∀ fuel rest, rereadCost t ≤ fuel →
      readTree cfg fuel (printTree t ++ rest) = some (some (reread t), rest)
  | .mk kind seq type children, hl => by
      intro fuel rest hfuel
      rw [listed] at hl
      simp only [Bool.and_eq_true, Bool.or_eq_true, beq_iff_eq, List.all_eq_true, bne_iff_ne,
        ne_eq] at hl
      obtain ⟨⟨⟨⟨hk, hcolon⟩, hseq⟩, hty⟩, hcase⟩ := hl
      rw [rereadCost] at hfuel
      obtain ⟨f, rfl⟩ : ∃ f, fuel = f + 1 := ⟨fuel - 1, by omega⟩
      have hwords : ∀ w ∈ ruleWords seq, isWord w = true := fun w hw =>
        words_isWord seq w (List.mem_of_mem_tail hw)
      have hline := line_words kind (ruleWords seq) type hk hwords hty
      rw [← hseq] at hline
      have hlen : (words seq).length = (ruleWords seq).length + 1 := by
        have h2 := line_words kind (ruleWords seq) TYPE_NONE hk hwords (Or.inl rfl)
        rw [← hseq] at h2
        simp only [if_true, List.append_nil] at h2
        have e : seq ++ "" = seq := by
          apply String.ext
          simp [String.data_append]
        rw [e] at h2
        rw [h2]
        rfl
      rw [printTree, List.cons_append, readTree]
      simp only [hline, List.head?_cons, Option.getD_some, List.tail_cons]
      by_cases hT : cfg.isTerminal kind = true
      · rw [if_pos hT] at hcase
        simp only [Bool.and_eq_true, List.isEmpty_iff, List.all_eq_true, bne_iff_ne, ne_eq] at hcase
        obtain ⟨hnil, hempty⟩ := hcase
        subst hnil
        rw [hT, readWords_terminal cfg type _ (ruleWords seq) f kind
          (fun w hw => ⟨hempty w hw, hcolon w hw⟩) (by omega)]
        have hne : ruleWords seq ≠ [".EMPTY"] := by
          intro h0
          exact hempty ".EMPTY" (by rw [h0]; exact List.mem_singleton.mpr rfl) rfl
        simp only [printTreeList, List.nil_append, reread, rereadList, if_neg hne, ← hseq]
      · have hT' : cfg.isTerminal kind = false := by simpa using hT
        rw [if_neg hT] at hcase
        by_cases hE : ruleWords seq = [".EMPTY"]
        · rw [if_pos hE] at hcase
          simp only [Bool.and_eq_true, List.isEmpty_iff, beq_iff_eq] at hcase
          obtain ⟨hnil, hnone⟩ := hcase
          subst hnil
          subst hnone
          have hf1 : ∃ f1, f = f1 + 1 := ⟨f - 1, by rw [hlen, hE] at hfuel; simp at hfuel; omega⟩
          obtain ⟨f1, rfl⟩ := hf1
          rw [hT', hE]
          simp only [if_true, List.append_nil, readWords, printTreeList, List.nil_append]
          rw [reread, if_pos hE, rereadList]
        · rw [if_neg hE] at hcase
          simp only [Bool.and_eq_true, List.all_eq_true, bne_iff_ne, ne_eq, beq_iff_eq] at hcase
          obtain ⟨⟨hempty, hcl⟩, hcs⟩ := hcase
          rw [hT', reread_list cfg children hcs f rest (ruleWords seq) type kind hcl.symm
            (fun w hw => ⟨hempty w hw, hcolon w hw⟩) (by omega)]
          simp only [reread, if_neg hE, ← hseq]

/-- The loop of `readTree` on the words of the line of a node that is not a
terminal reads the listings of the children. -/
theorem reread_list (cfg : CFG) :
    ∀ (cs : List Node), listedList cfg cs = true →
      ∀ fuel rest (ws : List String) (type seq : String), ws.length = cs.length →
        (∀ w ∈ ws, w ≠ ".EMPTY" ∧ w ≠ ":") → rereadCostList cs ≤ fuel →
        readWords cfg fuel false (ws ++ (if type = TYPE_NONE then [] else [":", type])) seq
            (printTreeList cs ++ rest) =
          some (ws.foldl (fun acc r => acc ++ " " ++ r) seq, rereadList cs, type, rest)
  | [], _ => by
      intro fuel rest ws type seq hlen _ hfuel
      rw [rereadCostList] at hfuel
      obtain ⟨f, rfl⟩ : ∃ f, fuel = f + 1 := ⟨fuel - 1, by omega⟩
      have hws : ws = [] := List.length_eq_zero.mp hlen
      subst hws
      by_cases h0 : type = TYPE_NONE
      · rw [if_pos h0, List.nil_append, readWords, h0]
        rfl
      · rw [if_neg h0, List.nil_append, readWords]
        simp [printTreeList, rereadList]
  | c :: cs, hl => by
      rw [listedList] at hl
      simp only [Bool.and_eq_true] at hl
      obtain ⟨hc, hcs⟩ := hl
      intro fuel rest ws type seq hlen hne hfuel
      rw [rereadCostList] at hfuel
      obtain ⟨f, rfl⟩ : ∃ f, fuel = f + 1 := ⟨fuel - 1, by omega⟩
      cases ws with
      | nil => simp at hlen
      | cons w ws1 =>
          simp only [List.length_cons, Nat.add_right_cancel_iff] at hlen
          have h1 := hne w (List.mem_cons_self _ _)
          rw [List.cons_append, readWords, if_neg h1.1, if_neg h1.2]
          simp only [Bool.false_eq_true, if_false, printTreeList, List.append_assoc]
          rw [reread_tree cfg c hc f _ (by omega)]
          simp only []
          rw [reread_list cfg cs hcs f rest ws1 type _ hlen
            (fun x hx => hne x (List.mem_cons_of_mem _ hx)) (by omega)]
          simp only [List.foldl_cons, rereadList]

end

end WLP4Gen

end WLP4

namespace WLP4

namespace WLP4ParseTree

theorem Gives.andThen {β γ : Type} {Q : β → Prop} {P : γ → Prop} {x : Except Abort β}
    {f : β → Except Abort γ} (hx : Gives Q x) (hf : ∀ v, Q v → Gives P (f v)) :
    Gives P (x >>= f) := by
  constructor
  intro v hv
  cases x with
  | error e => cases hv
  | ok a => exact (hf a (hx.value a rfl)).value v hv

theorem Gives.ret {β : Type} {P : β → Prop} {v : β} (h : P v) :
    Gives P (Pure.pure v : Except Abort β) := by
  constructor
  intro w hw
  cases hw
  exact h

theorem Gives.done {β : Type} {P : β → Prop} {v : β} (h : P v) : Gives P (Except.ok v) := by
  constructor
  intro w hw
  cases hw
  exact h

theorem Gives.abort {β : Type} {P : β → Prop} (e : Abort) : Gives P (Except.error e) := by
  constructor
  intro w hw
  cases hw

theorem Gives.thrown {β : Type} {P : β → Prop} (msg : String) :
    Gives P (throwTypeError msg : Except Abort β) := Gives.abort _

theorem Gives.split {β : Type} {P : β → Prop} {c : Prop} [Decidable c] {a b : Except Abort β}
    (ha : c → Gives P a) (hb : ¬ c → Gives P b) : Gives P (if c then a else b) := by
  split
  · exact ha ‹_›
  · exact hb ‹_›

theorem Gives.itself {β : Type} (x : Except Abort β) : Gives (fun v => x = .ok v) x :=
  ⟨fun _ h => h⟩

theorem Gives.weaken {β : Type} {Q P : β → Prop} {x : Except Abort β} (hx : Gives Q x)
    (h : ∀ v, Q v → P v) : Gives P x :=
  ⟨fun v hv => h v (hx.value v hv)⟩

theorem Gives.skip {β γ : Type} {P : γ → Prop} {v : β} {f : β → Except Abort γ}
    (h : Gives P (f v)) : Gives P (Pure.pure v >>= f) := h

theorem type_setChild (n x : Node) (i : Nat) : (n.setChild i x).type = n.type := by
  obtain ⟨k, s, t, cs⟩ := n
  rfl

theorem children_setChild_length (n x : Node) (i : Nat) :
    (n.setChild i x).children.length = n.children.length := by
  obtain ⟨k, s, t, cs⟩ := n
  simp [Node.setChild, Node.children]

theorem children_setType (n : Node) (t : String) : (n.setType t).children = n.children := by
  obtain ⟨k, s, t0, cs⟩ := n
  rfl

theorem kind_setType (n : Node) (t : String) : (n.setType t).kind = n.kind := by
  obtain ⟨k, s, t0, cs⟩ := n
  rfl

theorem kind_of_setChild (n x : Node) (i : Nat) : (n.setChild i x).kind = n.kind := by
  obtain ⟨k, s, t, cs⟩ := n
  rfl

/-- A retyped tree has the kind and the number of children of the tree. -/
theorem Retyped.shape {n n1 : Node} (h : Retyped n n1) :
    n1.kind = n.kind ∧ n1.children.length = n.children.length := by
  induction h with
  | same n => exact ⟨rfl, rfl⟩
  | step a b c _ _ ih1 ih2 => exact ⟨ih2.1.trans ih1.1, ih2.2.trans ih1.2⟩
  | child n c x i _ _ _ => exact ⟨kind_of_setChild n x i, children_setChild_length n x i⟩
  | type n t _ _ => exact ⟨kind_setType n t, by rw [children_setType]⟩

theorem child_nonempty {n c : Node} {i : Nat} (h : child n i = .ok c) : n.children ≠ [] := by
  intro hnil
  unfold child at h
  rw [hnil] at h
  cases h

theorem back_nonempty {n c : Node} (h : back n = .ok c) : n.children ≠ [] := by
  intro hnil
  unfold back at h
  rw [hnil] at h
  cases h

theorem back_child {n c : Node} (h : back n = .ok c) :
    child n (n.children.length - 1) = .ok c := by
  unfold back at h
  unfold child
  rw [List.getLast?_eq_getElem?] at h
  exact h

/-- A child of a retyped tree replaced by a retyped version of it. -/
theorem Retyped.setChildOf {n m c x : Node} {i : Nat} (h : Retyped n m)
    (hc : WLP4ParseTree.child m i = .ok c) (hx : Retyped c x) : Retyped n (m.setChild i x) :=
  Retyped.step n m _ h (Retyped.child m c x i hc hx)

/-- A retyped tree with children given a type int or int*. -/
theorem Retyped.setTypeOf {n m : Node} {t : String} (h : Retyped n m) (ht : IsType t)
    (hne : n.children ≠ []) : Retyped n (m.setType t) := by
  refine Retyped.step n m _ h (Retyped.type m t ht (Or.inl ?_))
  intro hnil
  have hl := h.shape.2
  rw [hnil] at hl
  exact hne (List.length_eq_zero.mp hl.symm)

/-- The token annotator returns the token with a type int or int*. -/
theorem token_retyped (table : ProcData) (htab : TableOK table) (n : Node) :
    Gives (fun n1 => Retyped n n1 ∧ IsType n1.type) (annotate_token table n) := by
  unfold annotate_token
  refine Gives.split (fun hk => Gives.done ⟨Retyped.type n _ typeInt_isType (Or.inr (Or.inl hk)),
    by rw [type_setType]; exact typeInt_isType⟩) (fun _ => ?_)
  refine Gives.split (fun hk => Gives.done ⟨Retyped.type n _ typePtr_isType
    (Or.inr (Or.inr (Or.inl hk))), by rw [type_setType]; exact typePtr_isType⟩) (fun _ => ?_)
  refine Gives.split (fun hk => ?_) (fun _ => Gives.thrown _)
  simp only []
  refine Gives.split (fun _ => Gives.thrown _) (fun hc => ?_)
  have hty : IsType (table.get (secondWord n.seq)) := by
    exact htab _ _ (lookup_of_count hc)
  exact Gives.done ⟨Retyped.type n _ hty (Or.inr (Or.inr (Or.inr hk))),
    by rw [type_setType]; exact hty⟩

theorem expr_retyped_step (fuel : Nat) (ih : ExprRetyped fuel) (ptable : ProcTable)
    (cur : String) (htab : TableOK (ptable.get cur)) (n : Node) :
    Gives (fun n1 => Retyped n n1 ∧ IsType n1.type) (annotate_expr (fuel + 1) ptable cur n) := by
  obtain ⟨ihe, iht, ihf, ihl, iha⟩ := ih ptable cur htab
  rw [annotate_expr]
  refine Gives.andThen (Gives.itself _) (fun b hb => ?_)
  refine Gives.andThen (iht b) (fun term ht => ?_)
  have hne := back_nonempty hb
  have h1 : Retyped n (n.setChild (n.children.length - 1) term) :=
    (Retyped.same n).setChildOf (back_child hb) ht.1
  dsimp only
  refine Gives.split (fun _ => Gives.ret ⟨h1.setTypeOf ht.2 hne, by rw [type_setType]; exact ht.2⟩)
    (fun _ => Gives.skip ?_)
  refine Gives.andThen (Gives.itself _) (fun c hc => ?_)
  refine Gives.andThen (ihe c) (fun expr he => ?_)
  have h2 := h1.setChildOf hc he.1
  refine Gives.split (fun _ => Gives.ret ⟨h2.setTypeOf he.2 hne, by rw [type_setType]; exact he.2⟩)
    (fun _ => ?_)
  refine Gives.andThen (Gives.itself _) (fun c1 _ => ?_)
  refine Gives.split (fun _ => Gives.split (fun _ => Gives.thrown _) (fun _ => Gives.ret
      ⟨h2.setTypeOf typePtr_isType hne, by rw [type_setType]; exact typePtr_isType⟩))
    (fun _ => Gives.split (fun _ => Gives.thrown _) (fun _ => Gives.ret
      ⟨h2.setTypeOf typeInt_isType hne, by rw [type_setType]; exact typeInt_isType⟩))

theorem term_retyped_step (fuel : Nat) (ih : ExprRetyped fuel) (ptable : ProcTable)
    (cur : String) (htab : TableOK (ptable.get cur)) (n : Node) :
    Gives (fun n1 => Retyped n n1 ∧ IsType n1.type) (annotate_term (fuel + 1) ptable cur n) := by
  obtain ⟨ihe, iht, ihf, ihl, iha⟩ := ih ptable cur htab
  rw [annotate_term]
  refine Gives.andThen (Gives.itself _) (fun b hb => ?_)
  refine Gives.andThen (ihf b) (fun factor hf => ?_)
  have hne := back_nonempty hb
  have h1 : Retyped n ((n.setChild (n.children.length - 1) factor).setType factor.type) :=
    ((Retyped.same n).setChildOf (back_child hb) hf.1).setTypeOf hf.2 hne
  have hty : IsType ((n.setChild (n.children.length - 1) factor).setType factor.type).type := by
    rw [type_setType]
    exact hf.2
  dsimp only
  refine Gives.split (fun _ => ?_) (fun _ => Gives.ret ⟨h1, hty⟩)
  refine Gives.split (fun _ => Gives.thrown _) (fun _ => ?_)
  refine Gives.andThen (Gives.itself _) (fun c hc => ?_)
  refine Gives.andThen (iht c) (fun term ht => ?_)
  refine Gives.split (fun _ => Gives.thrown _) (fun _ => Gives.ret ⟨h1.setChildOf hc ht.1, ?_⟩)
  rw [type_setChild]
  exact hty

theorem factor_retyped_step (fuel : Nat) (ih : ExprRetyped fuel) (ptable : ProcTable)
    (cur : String) (htab : TableOK (ptable.get cur)) (n : Node) :
    Gives (fun n1 => Retyped n n1 ∧ IsType n1.type)
      (annotate_factor (fuel + 1) ptable cur n) := by
  obtain ⟨ihe, iht, ihf, ihl, iha⟩ := ih ptable cur htab
  have hI : ∀ m : Node, IsType (m.setType TYPE_INT).type := fun m => by
    rw [type_setType]
    exact typeInt_isType
  have hP : ∀ m : Node, IsType (m.setType TYPE_INT_PTR).type := fun m => by
    rw [type_setType]
    exact typePtr_isType
  have hT : ∀ (m x : Node), IsType x.type → IsType (m.setType x.type).type := fun m x hx => by
    rw [type_setType]
    exact hx
  rw [annotate_factor]
  dsimp only
  refine Gives.split (fun _ => ?_) (fun _ => ?_)
  · refine Gives.andThen (Gives.itself _) (fun c hc => ?_)
    refine Gives.andThen (token_retyped _ htab c) (fun tok ht => ?_)
    exact Gives.ret ⟨((Retyped.same n).setChildOf hc ht.1).setTypeOf ht.2 (child_nonempty hc),
      hT _ _ ht.2⟩
  refine Gives.andThen (Gives.itself _) (fun c0 hc0 => ?_)
  have hne := child_nonempty hc0
  refine Gives.split (fun _ => ?_) (fun _ => ?_)
  · refine Gives.andThen (Gives.itself _) (fun c0a _ => ?_)
    dsimp only
    refine Gives.split (fun _ => Gives.thrown _) (fun _ => ?_)
    refine Gives.split (fun _ => Gives.thrown _) (fun _ => ?_)
    refine Gives.split (fun _ => Gives.thrown _) (fun _ => ?_)
    refine Gives.andThen (Gives.itself _) (fun c2 hc2 => ?_)
    refine Gives.split (fun _ => ?_) (fun _ => ?_)
    · refine Gives.andThen (Gives.itself _) (fun c2a hc2a => ?_)
      refine Gives.andThen (iha c2a _ _) (fun args hargs => ?_)
      exact Gives.ret ⟨((Retyped.same n).setChildOf hc2a hargs).setTypeOf typeInt_isType hne,
        hI _⟩
    · refine Gives.split (fun _ => Gives.thrown _) (fun _ => ?_)
      exact Gives.ret ⟨(Retyped.same n).setTypeOf typeInt_isType hne, hI _⟩
  refine Gives.split (fun _ => ?_) (fun _ => ?_)
  · refine Gives.andThen (Gives.itself _) (fun c hc => ?_)
    refine Gives.andThen (ihe c) (fun expr he => ?_)
    exact Gives.ret ⟨((Retyped.same n).setChildOf hc he.1).setTypeOf he.2 hne, hT _ _ he.2⟩
  refine Gives.split (fun _ => ?_) (fun _ => ?_)
  · refine Gives.andThen (Gives.itself _) (fun c hc => ?_)
    refine Gives.andThen (ihe c) (fun expr he => ?_)
    refine Gives.split (fun _ => Gives.thrown _) (fun _ => ?_)
    exact Gives.ret ⟨((Retyped.same n).setChildOf hc he.1).setTypeOf typePtr_isType hne, hP _⟩
  refine Gives.andThen (Gives.itself _) (fun c0b _ => ?_)
  refine Gives.split (fun _ => ?_) (fun _ => ?_)
  · refine Gives.andThen (Gives.itself _) (fun c hc => ?_)
    refine Gives.andThen (ihl c) (fun lv hl => ?_)
    refine Gives.split (fun _ => Gives.thrown _) (fun _ => ?_)
    exact Gives.ret ⟨((Retyped.same n).setChildOf hc hl.1).setTypeOf typePtr_isType hne, hP _⟩
  refine Gives.andThen (Gives.itself _) (fun c0c _ => ?_)
  refine Gives.split (fun _ => ?_) (fun _ => Gives.thrown _)
  refine Gives.andThen (Gives.itself _) (fun c hc => ?_)
  refine Gives.andThen (ihf c) (fun fac hf => ?_)
  refine Gives.split (fun _ => Gives.thrown _) (fun _ => ?_)
  exact Gives.ret ⟨((Retyped.same n).setChildOf hc hf.1).setTypeOf typeInt_isType hne, hI _⟩

theorem lvalue_retyped_step (fuel : Nat) (ih : ExprRetyped fuel) (ptable : ProcTable)
    (cur : String) (htab : TableOK (ptable.get cur)) (n : Node) :
    Gives (fun n1 => Retyped n n1 ∧ IsType n1.type)
      (annotate_lvalue (fuel + 1) ptable cur n) := by
  obtain ⟨ihe, iht, ihf, ihl, iha⟩ := ih ptable cur htab
  rw [annotate_lvalue]
  refine Gives.split (fun _ => ?_) (fun _ => ?_)
  · refine Gives.andThen (Gives.itself _) (fun c hc => ?_)
    refine Gives.andThen (token_retyped _ htab c) (fun tok ht => ?_)
    exact Gives.ret ⟨((Retyped.same n).setChildOf hc ht.1).setTypeOf ht.2 (child_nonempty hc),
      by rw [type_setType]; exact ht.2⟩
  refine Gives.split (fun _ => ?_) (fun _ => ?_)
  · refine Gives.andThen (Gives.itself _) (fun c hc => ?_)
    refine Gives.andThen (ihf c) (fun fac hf => ?_)
    refine Gives.split (fun _ => Gives.thrown _) (fun _ => ?_)
    exact Gives.ret ⟨((Retyped.same n).setChildOf hc hf.1).setTypeOf typeInt_isType
      (child_nonempty hc), by rw [type_setType]; exact typeInt_isType⟩
  refine Gives.split (fun _ => ?_) (fun _ => Gives.thrown _)
  refine Gives.andThen (Gives.itself _) (fun c hc => ?_)
  refine Gives.andThen (ihl c) (fun lv hl => ?_)
  exact Gives.ret ⟨((Retyped.same n).setChildOf hc hl.1).setTypeOf hl.2 (child_nonempty hc),
    by rw [type_setType]; exact hl.2⟩

theorem args_retyped_step (fuel : Nat) (ih : ExprRetyped fuel) (ptable : ProcTable)
    (cur : String) (htab : TableOK (ptable.get cur)) (n : Node) (callTable : ProcData)
    (idx : Nat) :
    Gives (Retyped n) (annotate_args (fuel + 1) ptable cur n callTable idx) := by
  obtain ⟨ihe, iht, ihf, ihl, iha⟩ := ih ptable cur htab
  rw [annotate_args]
  refine Gives.split (fun _ => Gives.thrown _) (fun _ => ?_)
  refine Gives.split (fun _ => Gives.thrown _) (fun _ => ?_)
  refine Gives.andThen (Gives.itself _) (fun c hc => ?_)
  refine Gives.andThen (ihe c) (fun arg ha => ?_)
  have h1 := (Retyped.same n).setChildOf hc ha.1
  dsimp only
  cases callTable.signature[idx]? with
  | none => exact Gives.abort _
  | some sigType =>
      dsimp only
      refine Gives.split (fun _ => Gives.thrown _) (fun _ => ?_)
      refine Gives.split (fun _ => ?_) (fun _ => Gives.ret h1)
      refine Gives.andThen (Gives.itself _) (fun c2 hc2 => ?_)
      refine Gives.andThen (iha c2 _ _) (fun rest hr => ?_)
      exact Gives.ret (h1.setChildOf hc2 hr)

/-- The expression annotators return retyped trees with a type int or int*. -/
theorem exprRetyped (fuel : Nat) : ExprRetyped fuel := by
  induction fuel with
  | zero =>
      intro ptable cur _
      refine ⟨fun n => ?_, fun n => ?_, fun n => ?_, fun n => ?_, fun n ct idx => ?_⟩
      · rw [annotate_expr]; exact Gives.abort _
      · rw [annotate_term]; exact Gives.abort _
      · rw [annotate_factor]; exact Gives.abort _
      · rw [annotate_lvalue]; exact Gives.abort _
      · rw [annotate_args]; exact Gives.abort _
  | succ fuel ih =>
      intro ptable cur htab
      exact ⟨expr_retyped_step fuel ih ptable cur htab, term_retyped_step fuel ih ptable cur htab,
        factor_retyped_step fuel ih ptable cur htab, lvalue_retyped_step fuel ih ptable cur htab,
        args_retyped_step fuel ih ptable cur htab⟩


/-- The test annotator returns a retyped tree. -/
theorem test_retyped (fuel : Nat) (ptable : ProcTable) (cur : String)
    (htab : TableOK (ptable.get cur)) (n : Node) :
    Gives (Retyped n) (annotate_test fuel ptable cur n) := by
  cases fuel with
  | zero => rw [annotate_test]; exact Gives.abort _
  | succ fuel =>
      obtain ⟨ihe, -, -, -, -⟩ := exprRetyped fuel ptable cur htab
      rw [annotate_test]
      refine Gives.andThen (Gives.itself _) (fun c0 hc0 => ?_)
      refine Gives.andThen (ihe c0) (fun lhs hl => ?_)
      refine Gives.andThen (Gives.itself _) (fun c2 hc2 => ?_)
      refine Gives.andThen (ihe c2) (fun rhs hr => ?_)
      refine Gives.split (fun _ => Gives.thrown _) (fun _ => ?_)
      refine Gives.ret (((Retyped.same n).setChildOf hc0 hl.1).setChildOf ?_ hr.1)
      rw [child_setChild_of_ne _ _ 2 0 (by decide)]
      exact hc2

theorem stmts_retyped_step (fuel : Nat) (ih : StmtRetyped fuel) (ptable : ProcTable)
    (cur : String) (htab : TableOK (ptable.get cur)) (n : Node) :
    Gives (Retyped n) (annotate_stmts (fuel + 1) ptable cur n) := by
  obtain ⟨ihS, ihs⟩ := ih ptable cur htab
  rw [annotate_stmts]
  refine Gives.split (fun _ => ?_) (fun _ => Gives.ret (Retyped.same n))
  refine Gives.andThen (Gives.itself _) (fun c0 hc0 => ?_)
  refine Gives.andThen (ihS c0) (fun stmts hS => ?_)
  refine Gives.andThen (Gives.itself _) (fun c1 hc1 => ?_)
  refine Gives.andThen (ihs c1) (fun stmt hs => ?_)
  refine Gives.ret (((Retyped.same n).setChildOf hc0 hS).setChildOf ?_ hs)
  rw [child_setChild_of_ne _ _ 1 0 (by decide)]
  exact hc1

theorem stmt_retyped_step (fuel : Nat) (ih : StmtRetyped fuel) (ptable : ProcTable)
    (cur : String) (htab : TableOK (ptable.get cur)) (n : Node) :
    Gives (Retyped n) (annotate_stmt (fuel + 1) ptable cur n) := by
  obtain ⟨ihS, ihs⟩ := ih ptable cur htab
  obtain ⟨ihe, -, -, ihl, -⟩ := exprRetyped fuel ptable cur htab
  have iht := test_retyped fuel ptable cur htab
  rw [annotate_stmt]
  refine Gives.andThen (Gives.itself _) (fun k0 _ => ?_)
  refine Gives.split (fun _ => ?_) (fun _ => ?_)
  · refine Gives.andThen (Gives.itself _) (fun c0 hc0 => ?_)
    refine Gives.andThen (ihl c0) (fun lv hl => ?_)
    refine Gives.andThen (Gives.itself _) (fun c2 hc2 => ?_)
    refine Gives.andThen (ihe c2) (fun expr he => ?_)
    refine Gives.split (fun _ => Gives.thrown _) (fun _ => ?_)
    refine Gives.ret (((Retyped.same n).setChildOf hc0 hl.1).setChildOf ?_ he.1)
    rw [child_setChild_of_ne _ _ 2 0 (by decide)]
    exact hc2
  refine Gives.andThen (Gives.itself _) (fun k1 _ => ?_)
  refine Gives.split (fun _ => ?_) (fun _ => ?_)
  · refine Gives.andThen (Gives.itself _) (fun c2 hc2 => ?_)
    refine Gives.andThen (iht c2) (fun test ht => ?_)
    refine Gives.andThen (Gives.itself _) (fun c5 hc5 => ?_)
    refine Gives.andThen (ihS c5) (fun s1 h1 => ?_)
    refine Gives.andThen (Gives.itself _) (fun c9 hc9 => ?_)
    refine Gives.andThen (ihS c9) (fun s2 h2 => ?_)
    refine Gives.ret ((((Retyped.same n).setChildOf hc2 ht).setChildOf ?_ h1).setChildOf ?_ h2)
    · rw [child_setChild_of_ne _ _ 5 2 (by decide)]
      exact hc5
    · rw [child_setChild_of_ne _ _ 9 5 (by decide), child_setChild_of_ne _ _ 9 2 (by decide)]
      exact hc9
  refine Gives.andThen (Gives.itself _) (fun k2 _ => ?_)
  refine Gives.split (fun _ => ?_) (fun _ => ?_)
  · refine Gives.andThen (Gives.itself _) (fun c2 hc2 => ?_)
    refine Gives.andThen (iht c2) (fun test ht => ?_)
    refine Gives.andThen (Gives.itself _) (fun c5 hc5 => ?_)
    refine Gives.andThen (ihS c5) (fun s1 h1 => ?_)
    refine Gives.ret (((Retyped.same n).setChildOf hc2 ht).setChildOf ?_ h1)
    rw [child_setChild_of_ne _ _ 5 2 (by decide)]
    exact hc5
  refine Gives.andThen (Gives.itself _) (fun k3 _ => ?_)
  refine Gives.split (fun _ => ?_) (fun _ => ?_)
  · refine Gives.andThen (Gives.itself _) (fun c2 hc2 => ?_)
    refine Gives.andThen (ihe c2) (fun expr he => ?_)
    refine Gives.split (fun _ => Gives.thrown _) (fun _ => ?_)
    exact Gives.ret ((Retyped.same n).setChildOf hc2 he.1)
  refine Gives.andThen (Gives.itself _) (fun k4 _ => ?_)
  refine Gives.split (fun _ => ?_) (fun _ => Gives.thrown _)
  refine Gives.andThen (Gives.itself _) (fun c3 hc3 => ?_)
  refine Gives.andThen (ihe c3) (fun expr he => ?_)
  refine Gives.split (fun _ => Gives.thrown _) (fun _ => ?_)
  exact Gives.ret ((Retyped.same n).setChildOf hc3 he.1)

/-- The statement annotators return retyped trees. -/
theorem stmtRetyped (fuel : Nat) : StmtRetyped fuel := by
  induction fuel with
  | zero =>
      intro ptable cur _
      refine ⟨fun n => ?_, fun n => ?_⟩
      · rw [annotate_stmts]; exact Gives.abort _
      · rw [annotate_stmt]; exact Gives.abort _
  | succ fuel ih =>
      intro ptable cur htab
      exact ⟨stmts_retyped_step fuel ih ptable cur htab,
        stmt_retyped_step fuel ih ptable cur htab⟩


theorem Gives.both {β : Type} {P Q : β → Prop} {x : Except Abort β} (hp : Gives P x)
    (hq : Gives Q x) : Gives (fun v => P v ∧ Q v) x :=
  ⟨fun v hv => ⟨hp.value v hv, hq.value v hv⟩⟩

/-- The kind of a child of a node of a parse tree is the symbol at its place in a
production of the kind of the node. -/
theorem ParseTree.child_kind {n c : Node} {i : Nat} (K k1 k2 : String) (hp : ParseTree n)
    (hk : n.kind = K) (hc : child n i = .ok c)
    (hall : (rhsOf K).all (fun rhs => rhs[i]? == none || rhs[i]? == some k1 ||
      rhs[i]? == some k2) = true) :
    ParseTree c ∧ (c.kind = k1 ∨ c.kind = k2) := by
  cases hp with
  | leaf k s t _ =>
      unfold child at hc
      simp at hc
  | node k s t cs hm hcs =>
      simp only [Node.kind_mk] at hk
      subst hk
      unfold child at hc
      simp only [Node.children_mk] at hc
      cases hg : cs[i]? with
      | none => rw [hg] at hc; cases hc
      | some x =>
          rw [hg] at hc
          injection hc with hc
          subst hc
          refine ⟨hcs x (List.mem_iff_getElem?.mpr ⟨i, hg⟩), ?_⟩
          have h1 := List.all_eq_true.mp hall _ hm
          rw [List.getElem?_map, hg] at h1
          simpa using h1

/-- The declaration annotator returns a retyped `dcl` node and a retyped
initialiser, and records a type int or int*. -/
theorem dcl_retyped (ptable : ProcTable) (cur : String) (n : Node) (rv : Option Node)
    (hid : ∀ c, child n 1 = .ok c → c.kind = "ID") (htab : TableOK (ptable.get cur)) :
    Gives (fun r => Retyped n r.1 ∧ TableOK (r.2.2.get cur) ∧
      ∀ tok, rv = some tok → ∃ tok1, r.2.1 = some tok1 ∧ Retyped tok tok1)
      (annotate_dcl ptable cur n rv) := by
  unfold annotate_dcl
  dsimp only
  refine Gives.andThen (Gives.itself _) (fun ty _ => ?_)
  refine Gives.andThen (Gives.itself _) (fun idn hidn => ?_)
  refine Gives.split (fun _ => Gives.thrown _) (fun _ => ?_)
  have hty : IsType (if ty.children.length = 1 then TYPE_INT else TYPE_INT_PTR) := by
    split
    · exact typeInt_isType
    · exact typePtr_isType
  have h1 : Retyped n (n.setChild 1
      (idn.setType (if ty.children.length = 1 then TYPE_INT else TYPE_INT_PTR))) :=
    (Retyped.same n).setChildOf hidn
      (Retyped.type idn _ hty (Or.inr (Or.inr (Or.inr (hid idn hidn)))))
  have h2 : TableOK ((ptable.set cur ((ptable.get cur).set (secondWord idn.seq)
      (if ty.children.length = 1 then TYPE_INT else TYPE_INT_PTR))).get cur) := by
    rw [ProcTable.get_set]
    exact tableOK_set _ _ _ htab hty
  cases rv with
  | none =>
      dsimp only
      exact Gives.ret ⟨h1, h2, fun tok h => nomatch h⟩
  | some r0 =>
      dsimp only
      refine Gives.andThen (token_retyped _ htab r0) (fun tok ht => ?_)
      refine Gives.split (fun _ => Gives.thrown _) (fun _ => ?_)
      refine Gives.ret ⟨h1, h2, fun tok0 h => ?_⟩
      injection h with h
      subst h
      exact ⟨tok, rfl, ht.1⟩

theorem dcl_id {n : Node} (hp : ParseTree n) (hk : n.kind = "dcl") :
    ∀ c, child n 1 = .ok c → c.kind = "ID" := by
  intro c hc
  have h := (ParseTree.child_kind "dcl" "ID" "ID" hp hk hc (by decide)).2
  exact h.elim id id

/-- The annotator of `dcls` returns a retyped tree. -/
theorem dcls_retyped (fuel : Nat) : ∀ (ptable : ProcTable) (cur : String) (n : Node),
    ParseTree n → n.kind = "dcls" → TableOK (ptable.get cur) →
    Gives (fun r => Retyped n r.1 ∧ TableOK (r.2.get cur)) (annotate_dcls fuel ptable cur n) := by
  induction fuel with
  | zero =>
      intro _ _ _ _ _ _
      rw [annotate_dcls]
      exact Gives.abort _
  | succ fuel ih =>
      intro ptable cur n hp hk htab
      rw [annotate_dcls]
      refine Gives.split (fun _ => ?_) (fun _ => Gives.ret ⟨Retyped.same n, htab⟩)
      refine Gives.andThen (Gives.itself _) (fun c1 hc1 => ?_)
      refine Gives.andThen (Gives.itself _) (fun c3 hc3 => ?_)
      have hk1 := ParseTree.child_kind "dcls" "dcl" "dcl" hp hk hc1 (by decide)
      refine Gives.andThen (dcl_retyped ptable cur c1 (some c3) (dcl_id hk1.1 (hk1.2.elim id id))
        htab) (fun r hr => ?_)
      obtain ⟨dcl, rv1, pt1⟩ := r
      obtain ⟨hd, ht1, hrv⟩ := hr
      obtain ⟨tok1, hrv1, htok⟩ := hrv c3 rfl
      simp only [] at hrv1
      subst hrv1
      dsimp only
      refine Gives.andThen (Gives.itself _) (fun c0 hc0 => ?_)
      have hk0 := ParseTree.child_kind "dcls" "dcls" "dcls" hp hk hc0 (by decide)
      refine Gives.andThen (ih pt1 cur c0 hk0.1 (hk0.2.elim id id) ht1) (fun r2 hr2 => ?_)
      refine Gives.ret ⟨?_, hr2.2⟩
      refine (((Retyped.same n).setChildOf hc1 hd).setChildOf ?_ htok).setChildOf ?_ hr2.1
      · rw [child_setChild_of_ne _ _ 3 1 (by decide)]
        exact hc3
      · rw [child_setChild_of_ne _ _ 0 3 (by decide), child_setChild_of_ne _ _ 0 1 (by decide)]
        exact hc0


/-- The annotator of `params` and `paramlist` returns a retyped tree. -/
theorem params_retyped (fuel : Nat) : ∀ (ptable : ProcTable) (cur : String) (n : Node),
    ParseTree n → TableOK (ptable.get cur) →
    Gives (fun r => Retyped n r.1 ∧ TableOK (r.2.get cur))
      (annotate_params fuel ptable cur n) := by
  induction fuel with
  | zero =>
      intro _ _ _ _ _
      rw [annotate_params]
      exact Gives.abort _
  | succ fuel ih =>
      intro ptable cur n hp htab
      rw [annotate_params]
      refine Gives.split (fun hk => ?_) (fun _ => ?_)
      · refine Gives.split (fun _ => ?_) (fun _ => Gives.ret ⟨Retyped.same n, htab⟩)
        refine Gives.andThen (Gives.itself _) (fun c0 hc0 => ?_)
        have hk0 := ParseTree.child_kind "params" "paramlist" "paramlist" hp hk hc0 (by decide)
        refine Gives.andThen (ih ptable cur c0 hk0.1 htab) (fun r hr => ?_)
        exact Gives.ret ⟨(Retyped.same n).setChildOf hc0 hr.1, hr.2⟩
      refine Gives.split (fun hk => ?_) (fun _ => Gives.thrown _)
      refine Gives.andThen (Gives.itself _) (fun c0 hc0 => ?_)
      have hk0 := ParseTree.child_kind "paramlist" "dcl" "dcl" hp hk hc0 (by decide)
      refine Gives.andThen (dcl_retyped ptable cur c0 none (dcl_id hk0.1 (hk0.2.elim id id)) htab)
        (fun r hr => ?_)
      obtain ⟨dcl, rv1, pt1⟩ := r
      obtain ⟨hd, ht1, -⟩ := hr
      dsimp only
      refine Gives.andThen (Gives.itself _) (fun ty _ => ?_)
      have ht2 := (tableStep_signature pt1 cur ((pt1.get cur).signature ++ [ty]) ht1).1
      have h1 := (Retyped.same n).setChildOf hc0 hd
      refine Gives.split (fun _ => ?_) (fun _ => Gives.ret ⟨h1, ht2⟩)
      refine Gives.andThen (Gives.itself _) (fun c2 hc2 => ?_)
      have hk2 := ParseTree.child_kind "paramlist" "paramlist" "paramlist" hp hk hc2 (by decide)
      refine Gives.andThen (ih _ cur c2 hk2.1 ht2) (fun r hr => ?_)
      refine Gives.ret ⟨h1.setChildOf ?_ hr.1, hr.2⟩
      rw [child_setChild_of_ne _ _ 2 0 (by decide)]
      exact hc2

/-- The annotator of a `main` or `procedure` node returns a retyped tree. -/
theorem proc_retyped (fuel : Nat) (ptable : ProcTable) (n : Node) (hp : ParseTree n)
    (hk : n.kind = "main" ∨ n.kind = "procedure") :
    Gives (fun r => Retyped n r.1) (annotate_proc fuel ptable n) := by
  cases fuel with
  | zero => rw [annotate_proc]; exact Gives.abort _
  | succ fuel =>
      rw [annotate_proc]
      dsimp only
      refine Gives.andThen (Gives.itself _) (fun idn _ => ?_)
      refine Gives.split (fun _ => Gives.thrown _) (fun _ => ?_)
      have ht0 : TableOK ((ptable.set (secondWord idn.seq)
          (ProcData.new (secondWord idn.seq))).get (secondWord idn.seq)) := by
        rw [ProcTable.get_set]
        exact tableOK_new _
      have hdecl : Gives (fun r : Node × ProcTable × Nat => Retyped n r.1 ∧
          TableOK (r.2.1.get (secondWord idn.seq)) ∧
          (∀ c, child n r.2.2 = .ok c → child r.1 r.2.2 = .ok c ∧ ParseTree c ∧
            c.kind = "dcls") ∧
          (∀ c, child n (r.2.2 + 1) = .ok c → child r.1 (r.2.2 + 1) = .ok c) ∧
          (∀ c, child n (r.2.2 + 3) = .ok c → child r.1 (r.2.2 + 3) = .ok c))
          (if decide (n.kind = "main") = true then do
            let __do_lift ← child n 3
            let (dcl1, _, pt1) ← annotate_dcl (ptable.set (secondWord idn.seq)
              (ProcData.new (secondWord idn.seq))) (secondWord idn.seq) __do_lift none
            let __do_lift ← child n 5
            let (dcl2, _, pt2) ← annotate_dcl pt1 (secondWord idn.seq) __do_lift none
            let __do_lift ← dclType dcl2
            if __do_lift ≠ TYPE_INT then
                throwTypeError "The second parameter of wain is not int type."
              else pure ((n.setChild 3 dcl1).setChild 5 dcl2, pt2, 8)
          else do
            let __do_lift ← child n 3
            let (params, pt1) ← annotate_params fuel (ptable.set (secondWord idn.seq)
              (ProcData.new (secondWord idn.seq))) (secondWord idn.seq) __do_lift
            pure (n.setChild 3 params, pt1, 6)) := by
        refine Gives.split (fun hm => ?_) (fun hm => ?_)
        · have hm : n.kind = "main" := of_decide_eq_true hm
          refine Gives.andThen (Gives.itself _) (fun c3 hc3 => ?_)
          have hk3 := ParseTree.child_kind "main" "dcl" "dcl" hp hm hc3 (by decide)
          refine Gives.andThen (dcl_retyped _ _ c3 none (dcl_id hk3.1 (hk3.2.elim id id)) ht0)
            (fun r hr => ?_)
          obtain ⟨dcl1, rv1, pt1⟩ := r
          obtain ⟨hd1, ht1, -⟩ := hr
          dsimp only
          refine Gives.andThen (Gives.itself _) (fun c5 hc5 => ?_)
          have hk5 := ParseTree.child_kind "main" "dcl" "dcl" hp hm hc5 (by decide)
          refine Gives.andThen (dcl_retyped _ _ c5 none (dcl_id hk5.1 (hk5.2.elim id id)) ht1)
            (fun r hr => ?_)
          obtain ⟨dcl2, rv2, pt2⟩ := r
          obtain ⟨hd2, ht2, -⟩ := hr
          dsimp only
          refine Gives.andThen (Gives.itself _) (fun ty _ => ?_)
          refine Gives.split (fun _ => Gives.thrown _) (fun _ => ?_)
          refine Gives.ret ⟨((Retyped.same n).setChildOf hc3 hd1).setChildOf ?_ hd2, ht2,
            fun c hc => ⟨?_, ?_⟩, fun c hc => ?_, fun c hc => ?_⟩
          · rw [child_setChild_of_ne _ _ 5 3 (by decide)]
            exact hc5
          · rw [child_setChild_of_ne _ _ 8 5 (by decide), child_setChild_of_ne _ _ 8 3 (by decide)]
            exact hc
          · have h8 := ParseTree.child_kind (i := 8) "main" "dcls" "dcls" hp hm hc (by decide)
            exact ⟨h8.1, h8.2.elim id id⟩
          · rw [child_setChild_of_ne _ _ (8 + 1) 5 (by decide),
              child_setChild_of_ne _ _ (8 + 1) 3 (by decide)]
            exact hc
          · rw [child_setChild_of_ne _ _ (8 + 3) 5 (by decide),
              child_setChild_of_ne _ _ (8 + 3) 3 (by decide)]
            exact hc
        · have hm1 : ¬ n.kind = "main" := fun h => hm (decide_eq_true h)
          have hpr : n.kind = "procedure" := hk.resolve_left hm1
          refine Gives.andThen (Gives.itself _) (fun c3 hc3 => ?_)
          have hk3 := ParseTree.child_kind "procedure" "params" "params" hp hpr hc3 (by decide)
          refine Gives.andThen (params_retyped fuel _ _ c3 hk3.1 ht0) (fun r hr => ?_)
          obtain ⟨params, pt1⟩ := r
          dsimp only
          refine Gives.ret ⟨(Retyped.same n).setChildOf hc3 hr.1, hr.2,
            fun c hc => ⟨?_, ?_⟩, fun c hc => ?_, fun c hc => ?_⟩
          · rw [child_setChild_of_ne _ _ 6 3 (by decide)]
            exact hc
          · have h6 := ParseTree.child_kind (i := 6) "procedure" "dcls" "dcls" hp hpr hc (by decide)
            exact ⟨h6.1, h6.2.elim id id⟩
          · rw [child_setChild_of_ne _ _ (6 + 1) 3 (by decide)]
            exact hc
          · rw [child_setChild_of_ne _ _ (6 + 3) 3 (by decide)]
            exact hc
      refine Gives.andThen hdecl (fun r hr => ?_)
      obtain ⟨node1, pt1, i⟩ := r
      obtain ⟨h1, ht1, hi, hi1, hi3⟩ := hr
      dsimp only at h1 ht1 hi hi1 hi3 ⊢
      refine Gives.andThen (Gives.itself _) (fun ci hci => ?_)
      obtain ⟨hci1, hpi, hki⟩ := hi ci hci
      refine Gives.andThen (dcls_retyped fuel pt1 _ ci hpi hki ht1) (fun r hr => ?_)
      obtain ⟨dcls, pt2⟩ := r
      dsimp only at hr ⊢
      refine Gives.andThen (Gives.itself _) (fun cs hcs => ?_)
      refine Gives.andThen ((stmtRetyped fuel pt2 _ hr.2).1 cs) (fun stmts hS => ?_)
      refine Gives.andThen (Gives.itself _) (fun ce hce => ?_)
      refine Gives.andThen ((exprRetyped fuel pt2 _ hr.2).1 ce) (fun expr hE => ?_)
      refine Gives.split (fun _ => Gives.thrown _) (fun _ => ?_)
      refine Gives.ret (((h1.setChildOf hci1 hr.1).setChildOf ?_ hS).setChildOf ?_ hE.1)
      · rw [child_setChild_of_ne _ _ (i + 1) i (by omega)]
        exact hi1 cs hcs
      · rw [child_setChild_of_ne _ _ (i + 3) (i + 1) (by omega),
          child_setChild_of_ne _ _ (i + 3) i (by omega)]
        exact hi3 ce hce

/-- The annotator of the `start` and `procedures` nodes returns a retyped tree. -/
theorem prog_retyped (fuel : Nat) : ∀ (ptable : ProcTable) (n : Node), ParseTree n →
    Gives (fun r => Retyped n r.1) (annotate_prog_level fuel ptable n) := by
  induction fuel with
  | zero =>
      intro _ _ _
      rw [annotate_prog_level]
      exact Gives.abort _
  | succ fuel ih =>
      intro ptable n hp
      rw [annotate_prog_level]
      refine Gives.split (fun hk => ?_) (fun _ => ?_)
      · refine Gives.andThen (Gives.itself _) (fun c1 hc1 => ?_)
        have hk1 := ParseTree.child_kind "start" "procedures" "procedures" hp hk hc1 (by decide)
        refine Gives.andThen (ih ptable c1 hk1.1) (fun r hr => ?_)
        exact Gives.ret ((Retyped.same n).setChildOf hc1 hr)
      refine Gives.split (fun hk => ?_) (fun _ => Gives.thrown _)
      refine Gives.andThen (Gives.itself _) (fun c0 hc0 => ?_)
      have hk0 := ParseTree.child_kind "procedures" "main" "procedure" hp hk hc0 (by decide)
      refine Gives.andThen (proc_retyped fuel ptable c0 hk0.1 hk0.2) (fun r hr => ?_)
      obtain ⟨proc, pt1⟩ := r
      dsimp only at hr ⊢
      have h1 := (Retyped.same n).setChildOf hc0 hr
      refine Gives.split (fun _ => ?_) (fun _ => Gives.ret h1)
      refine Gives.andThen (Gives.itself _) (fun c1 hc1 => ?_)
      have hk1 := ParseTree.child_kind "procedures" "procedures" "procedures" hp hk hc1
        (by decide)
      refine Gives.andThen (ih pt1 c1 hk1.1) (fun r hr2 => ?_)
      refine Gives.ret (h1.setChildOf ?_ hr2)
      rw [child_setChild_of_ne _ _ 1 0 (by decide)]
      exact hc1

end WLP4ParseTree

end WLP4

namespace WLP4

namespace WLP4Gen

open WLP4ParseTree WLP4Parser

/-- The conditions of `listed` at a node. -/
theorem listed_mk (cfg : CFG) (kind seq type : String) (children : List Node) :
    listed cfg (Node.mk kind seq type children) = true ↔
      (isWord kind = true ∧ (∀ w ∈ ruleWords seq, w ≠ ":") ∧
        seq = (ruleWords seq).foldl (fun acc r => acc ++ " " ++ r) kind ∧
        (type = TYPE_NONE ∨ isWord type = true)) ∧
      (if cfg.isTerminal kind = true then
        children = [] ∧ ∀ w ∈ ruleWords seq, w ≠ ".EMPTY"
      else if ruleWords seq = [".EMPTY"] then children = [] ∧ type = TYPE_NONE
      else (∀ w ∈ ruleWords seq, w ≠ ".EMPTY") ∧
        children.length = (ruleWords seq).length ∧ ∀ c ∈ children, listed cfg c = true) := by
  rw [listed]
  simp only [Bool.and_eq_true, Bool.or_eq_true, beq_iff_eq, List.all_eq_true, bne_iff_ne,
    ne_eq]
  by_cases hT : cfg.isTerminal kind = true
  · simp only [if_pos hT, Bool.and_eq_true, List.isEmpty_iff, List.all_eq_true, bne_iff_ne,
      ne_eq]
    tauto
  · simp only [if_neg hT]
    by_cases hE : ruleWords seq = [".EMPTY"]
    · simp only [if_pos hE, Bool.and_eq_true, List.isEmpty_iff, beq_iff_eq]
      tauto
    · simp only [if_neg hE, Bool.and_eq_true, List.all_eq_true, bne_iff_ne, ne_eq, beq_iff_eq,
        listedList_iff]
      tauto

theorem isType_isWord {t : String} (h : IsType t) : isWord t = true := by
  rcases h with rfl | rfl <;> decide

/-- A retyped tree of a tree that `readTree` can take apart is such a tree, when
`NUM`, `NULL` and `ID` are terminals of the grammar. -/
theorem listed_retyped (cfg : CFG)
    (hT : cfg.isTerminal "NUM" = true ∧ cfg.isTerminal "NULL" = true ∧
      cfg.isTerminal "ID" = true) {n n1 : Node} (h : Retyped n n1) :
    listed cfg n = true → listed cfg n1 = true := by
  induction h with
  | same n => exact id
  | step a b c _ _ ih1 ih2 => exact fun h => ih2 (ih1 h)
  | child n c x i hc _ ih =>
      intro hl
      obtain ⟨kind, seq, type, children⟩ := n
      rw [listed_mk] at hl
      obtain ⟨hbase, hcase⟩ := hl
      have hg : children[i]? = some c := by
        unfold WLP4ParseTree.child at hc
        simp only [Node.children_mk] at hc
        cases hg : children[i]? with
        | none => rw [hg] at hc; cases hc
        | some y =>
            rw [hg] at hc
            injection hc with hc
            rw [hc]
      have hmem : c ∈ children := List.mem_iff_getElem?.mpr ⟨i, hg⟩
      have hne : children ≠ [] := List.ne_nil_of_mem hmem
      rw [Node.setChild_mk, listed_mk]
      refine ⟨hbase, ?_⟩
      by_cases h1 : cfg.isTerminal kind = true
      · rw [if_pos h1] at hcase
        exact absurd hcase.1 hne
      · rw [if_neg h1] at hcase ⊢
        by_cases h2 : ruleWords seq = [".EMPTY"]
        · rw [if_pos h2] at hcase
          exact absurd hcase.1 hne
        · rw [if_neg h2] at hcase ⊢
          refine ⟨hcase.1, by rw [List.length_set]; exact hcase.2.1, fun y hy => ?_⟩
          rcases List.mem_or_eq_of_mem_set hy with hy | hy
          · exact hcase.2.2 y hy
          · rw [hy]
            exact ih (hcase.2.2 c hmem)
  | type n t ht hcond =>
      intro hl
      obtain ⟨kind, seq, type, children⟩ := n
      rw [listed_mk] at hl
      obtain ⟨hbase, hcase⟩ := hl
      rw [Node.setType_mk, listed_mk]
      refine ⟨⟨hbase.1, hbase.2.1, hbase.2.2.1, Or.inr (isType_isWord ht)⟩, ?_⟩
      by_cases h1 : cfg.isTerminal kind = true
      · rw [if_pos h1] at hcase ⊢
        exact hcase
      · rw [if_neg h1] at hcase ⊢
        by_cases h2 : ruleWords seq = [".EMPTY"]
        · rw [if_pos h2] at hcase
          exfalso
          simp only [Node.children_mk, Node.kind_mk] at hcond
          rcases hcond with h | h | h | h
          · exact h hcase.1
          · rw [h] at h1; exact h1 hT.1
          · rw [h] at h1; exact h1 hT.2.1
          · rw [h] at h1; exact h1 hT.2.2
        · rw [if_neg h2] at hcase ⊢
          exact hcase

/-- The annotated tree of a parse tree that `readTree` can take apart is such a
tree. -/
theorem annotate_listed (cfg : CFG)
    (hT : cfg.isTerminal "NUM" = true ∧ cfg.isTerminal "NULL" = true ∧
      cfg.isTerminal "ID" = true) (root t : Node) (pt : WLP4.ProcTable) (hp : ParseTree root)
    (hl : listed cfg root = true) (h : annotate root = .ok (t, pt)) : listed cfg t = true :=
  listed_retyped cfg hT ((prog_retyped (height root + 1) [] root hp).value (t, pt) h) hl

theorem productions_tokens :
    (CFG.ofProds productions).isTerminal "NUM" = true ∧
      (CFG.ofProds productions).isTerminal "NULL" = true ∧
      (CFG.ofProds productions).isTerminal "ID" = true := by
  decide

end WLP4Gen

end WLP4

namespace WLP4

namespace WLP4Gen

open WLP4ParseTree WLP4Parser

theorem reread_fields (t : Node) :
    (reread t).kind = t.kind ∧ (reread t).type = t.type ∧
    (reread t).children = t.children.map reread ∧
    (reread t).seq = (if ruleWords t.seq = [".EMPTY"] then t.kind else t.seq) := by
  obtain ⟨kind, seq, type, children⟩ := t
  rw [reread, rereadList_eq_map]
  exact ⟨rfl, rfl, rfl, rfl⟩

theorem exampleTyped_listed : listed (CFG.ofProds productions) exampleTyped = true := by
  decide

theorem exampleTree_listed : listed (CFG.ofProds productions) exampleTree = true := by
  decide

/-- C36 (as the code has it). Let the type checker annotate a parse tree that the
reader can take apart (`listed`: the rule string of a node is its kind and the
words of its rule with single blanks between them, as the parser prints it, the
type is absent or a word, terminals have no children, other nodes one child for
each word of the rule or the rule `.EMPTY`), for a grammar in which `NUM`, `NULL`
and `ID` are terminals.  Then the annotated tree is again such a tree, and the
generator's `readTree` reads the listing that `printTree` of the type checker
writes for it back as the tree `reread` of it, with nothing of the budget
missing.  So does it for every tree that the reader can take apart.  The first
line printed for a tree is its rule string followed by ` : ` and the type when
there is one, and `reread` of a tree has the same shape, in which each node has
the same kind and the same type (the printed suffix, or none), and a rule string
equal to the rule string of the tree, that is the printed line without its type
suffix, except at the nodes with the rule `.EMPTY`, where the rule string read is
the kind alone. -/
theorem typed_listing_roundtrip (cfg : CFG) :
    (∀ (root t : Node) (pt : WLP4.ProcTable),
      cfg.isTerminal "NUM" = true ∧ cfg.isTerminal "NULL" = true ∧
        cfg.isTerminal "ID" = true →
      ParseTree root → listed cfg root = true → annotate root = .ok (t, pt) →
      listed cfg t = true ∧ ∀ (fuel : Nat) (rest : List String), rereadCost t ≤ fuel →
        readTree cfg fuel (printTree t ++ rest) = some (some (reread t), rest)) ∧
    (∀ t : Node, listed cfg t = true → ∀ (fuel : Nat) (rest : List String),
      rereadCost t ≤ fuel →
      readTree cfg fuel (printTree t ++ rest) = some (some (reread t), rest)) ∧
    (∀ t : Node, (printTree t).head? =
      some (t.seq ++ (if t.type = TYPE_NONE then "" else " : " ++ t.type))) ∧
    ∀ n : Node,
      (reread n).kind = n.kind ∧ (reread n).type = n.type ∧
      (reread n).children = n.children.map reread ∧
      (reread n).seq = (if ruleWords n.seq = [".EMPTY"] then n.kind else n.seq) := by
  refine ⟨fun root t pt hT hp hl h => ?_, fun t hl fuel rest hfuel =>
    reread_tree cfg t hl fuel rest hfuel, fun t => ?_, reread_fields⟩
  · have hlt := annotate_listed cfg hT root t pt hp hl h
    exact ⟨hlt, fun fuel rest hfuel => reread_tree cfg t hlt fuel rest hfuel⟩
  · obtain ⟨kind, seq, type, children⟩ := t
    rw [printTree]
    rfl

/-- Witness for C36: the parse tree of `int wain(int* a, int b) \x7b return *(a + b); \x7d`
can be taken apart by the reader, the type checker annotates it, and the
generator reads the listing of the annotated tree back. -/
theorem typed_listing_roundtrip_witness :
    annotate exampleTree = .ok (exampleTyped, [("wain", WLP4ParseTree.exampleTable)]) ∧
    listed (CFG.ofProds productions) exampleTree = true ∧
    listed (CFG.ofProds productions) exampleTyped = true ∧
    readTree (CFG.ofProds productions) 39 (printTree exampleTyped ++ []) =
      some (some (reread exampleTyped), []) :=
  ⟨rfl, exampleTree_listed,
    ((typed_listing_roundtrip (CFG.ofProds productions)).1 exampleTree exampleTyped
      [("wain", WLP4ParseTree.exampleTable)] productions_tokens exampleTree_parse
      exampleTree_listed rfl).1,
    ((typed_listing_roundtrip (CFG.ofProds productions)).1 exampleTree exampleTyped
      [("wain", WLP4ParseTree.exampleTable)] productions_tokens exampleTree_parse
      exampleTree_listed rfl).2 39 [] (by decide)⟩

/-- Counterexample to C36 as stated: the type checker accepts
`int wain(int* a, int b) \x7b return *(a + b); \x7d` and prints the line `dcls .EMPTY`
for the declarations of `wain`; the node that the generator reads from that line
has the rule string `dcls`, not the printed line. -/
theorem empty_rule_read_back :
    annotate exampleTree = .ok (exampleTyped, [("wain", WLP4ParseTree.exampleTable)]) ∧
    (printTree exampleTyped)[19]? = some "dcls .EMPTY" ∧
    ∃ t procs main dcls,
      readTree (CFG.ofProds productions) 39 (printTree exampleTyped) = some (some t, []) ∧
      t.children[1]? = some procs ∧ procs.children[0]? = some main ∧
      main.children[8]? = some dcls ∧ dcls.kind = "dcls" ∧ dcls.type = TYPE_NONE ∧
      dcls.children = [] ∧ dcls.seq = "dcls" ∧ dcls.seq ≠ "dcls .EMPTY" := by
  refine ⟨rfl, by decide, reread exampleTyped, _, _, _, ?_, rfl, rfl, rfl, rfl, rfl, rfl, rfl,
    by decide⟩
  have h := reread_tree (CFG.ofProds productions) exampleTyped exampleTyped_listed 39 []
    (by decide)
  rw [List.append_nil] at h
  exact h

end WLP4Gen

end WLP4

/-! ## Code generator: the stack registers are balanced -/

namespace WLP4

namespace WLP4Gen

theorem Level.ofEq {R : Regs} {base g g1 : Gen} (h : Level R base g)
    (h1 : g1.stackReg = g.stackReg) (h2 : g1.stacked = g.stacked) : Level R base g1 :=
  fun hr => ⟨h1.trans (h hr).1, h2.trans (h hr).2⟩

theorem Level.start (R : Regs) (g : Gen) : Level R g g := fun _ => ⟨rfl, rfl⟩

theorem Level.written {R : Regs} {base g : Gen} (h : Level R base g) (l : String) :
    Level R base (g.emit l) := h.ofEq rfl rfl

theorem Level.pushed {R : Regs} {base g : Gen} (h : Level R base g) (r : Int) :
    Level R base (WLP4Gen.push g r) := (h.written _).written _

theorem Level.popped {R : Regs} {base g : Gen} (h : Level R base g) (r : Int) :
    Level R base (WLP4Gen.pop g r) := (h.written _).written _

theorem Level.ifCount {R : Regs} {base g : Gen} (h : Level R base g) (v : Nat) :
    Level R base (g.setIfC v) := h.ofEq rfl rfl

theorem Level.whileCount {R : Regs} {base g : Gen} (h : Level R base g) (v : Nat) :
    Level R base (g.setWhileC v) := h.ofEq rfl rfl

theorem Level.deleteCount {R : Regs} {base g : Gen} (h : Level R base g) (v : Nat) :
    Level R base (g.setDeleteC v) := h.ofEq rfl rfl

theorem Level.twoLines {R : Regs} {base X : Gen} {c : Prop} [Decidable c] (h : Level R base X)
    (a b : String) : Level R base (if c then (X.emit a).emit b else X) := by
  split
  · exact (h.written _).written _
  · exact h

theorem Level.compare {R : Regs} {base X : Gen} {c d : Prop} [Decidable c] [Decidable d]
    (h : Level R base X) (l1 l2 l3 l4 l5 : String) :
    Level R base
      (if c then X.emit l1 else if d then X.emit l2 else ((X.emit l3).emit l4).emit l5) := by
  split
  · exact h.written _
  · split
    · exact h.written _
    · exact ((h.written _).written _).written _

theorem regLoop_counters (op : String) : ∀ (n : Nat) (sr pushC : Int) (g : Gen),
    (regLoop op n sr pushC g).1.stackReg = g.stackReg ∧
    (regLoop op n sr pushC g).1.stacked = g.stacked ∧
    (regLoop op n sr pushC g).1.ifC = g.ifC ∧
    (regLoop op n sr pushC g).1.whileC = g.whileC ∧
    (regLoop op n sr pushC g).1.deleteC = g.deleteC
  | 0, _, _, _ => ⟨rfl, rfl, rfl, rfl, rfl⟩
  | n + 1, sr, pushC, g => by
      unfold regLoop
      exact regLoop_counters op n _ _ _

theorem Level.registers {R : Regs} {base : Gen} (op : String) (n : Nat) (sr pushC : Int) (g : Gen)
    (h : Level R base g) : Level R base (WLP4Gen.regLoop op n sr pushC g).1 :=
  h.ofEq (regLoop_counters op n sr pushC g).1 (regLoop_counters op n sr pushC g).2.1

theorem token_level (R : Regs) (table : ProcData) (node : Node) (g : Gen) :
    Post (fun p => Balanced R g p.2) (generate_token table node g) := by
  constructor
  unfold generate_token
  simp only [bind, Except.bind, pure, Except.pure]
  intro v hv base hb
  repeat' split at hv
  all_goals first
    | (cases hv; done)
    | (cases hv; exact hb)

theorem stmts_level_step (R : Regs) (fuel : Nat) (ih : AllBalanced R fuel) (table : ProcData)
    (node : Node) (g : Gen) :
    Post (Balanced R g) (generate_stmts (fuel + 1) R table node g) := by
  obtain ⟨ihS, ihs, iht, ihe, ihT, ihf, iha⟩ := ih
  unfold generate_stmts
  repeat' with_reducible first
    | exact Post.error _
    | exact ihS _ _ _
    | exact ihs _ _ _
    | exact iht _ _ _
    | exact ihe _ _ _
    | exact ihT _ _ _
    | exact ihf _ _ _
    | exact iha _ _ _ _
    | exact token_level _ _ _ _
    | refine Post.mono (ihS _ _ _) ?_
    | refine Post.mono (ihs _ _ _) ?_
    | refine Post.mono (ihe _ _ _) ?_
    | refine Post.mono (ihT _ _ _) ?_
    | refine Post.mono (ihf _ _ _) ?_
    | refine Post.mono (iha _ _ _ _) ?_
    | refine Post.mono (token_level _ _ _ _) ?_
    | exact Post.triv _
    | apply Post.cond
    | apply Post.pure_bind
    | apply Post.bind2
    | apply Post.seq
    | intro _
    | apply Post.pure
    | apply Post.ok
  all_goals repeat' with_reducible first
    | apply Level.twoLines
    | apply Level.compare
    | apply Level.written
    | apply Level.pushed
    | apply Level.popped
    | apply Level.ifCount
    | apply Level.whileCount
    | apply Level.deleteCount
    | apply Level.registers
    | assumption
    | apply_assumption

theorem stmt_level_step (R : Regs) (fuel : Nat) (ih : AllBalanced R fuel) (table : ProcData)
    (node : Node) (g : Gen) :
    Post (Balanced R g) (generate_stmt (fuel + 1) R table node g) := by
  obtain ⟨ihS, ihs, iht, ihe, ihT, ihf, iha⟩ := ih
  unfold generate_stmt
  repeat' with_reducible first
    | exact Post.error _
    | exact ihS _ _ _
    | exact ihs _ _ _
    | exact iht _ _ _
    | exact ihe _ _ _
    | exact ihT _ _ _
    | exact ihf _ _ _
    | exact iha _ _ _ _
    | exact token_level _ _ _ _
    | refine Post.mono (ihS _ _ _) ?_
    | refine Post.mono (ihs _ _ _) ?_
    | refine Post.mono (ihe _ _ _) ?_
    | refine Post.mono (ihT _ _ _) ?_
    | refine Post.mono (ihf _ _ _) ?_
    | refine Post.mono (iha _ _ _ _) ?_
    | refine Post.mono (token_level _ _ _ _) ?_
    | exact Post.triv _
    | apply Post.cond
    | apply Post.pure_bind
    | apply Post.bind2
    | apply Post.seq
    | intro _
    | apply Post.pure
    | apply Post.ok
  all_goals repeat' with_reducible first
    | apply Level.twoLines
    | apply Level.compare
    | apply Level.written
    | apply Level.pushed
    | apply Level.popped
    | apply Level.ifCount
    | apply Level.whileCount
    | apply Level.deleteCount
    | apply Level.registers
    | assumption
    | apply_assumption

theorem test_level_step (R : Regs) (fuel : Nat) (ih : AllBalanced R fuel) (table : ProcData)
    (node : Node) (g : Gen) :
    Post (Balanced R g) (generate_test (fuel + 1) R table node g) := by
  obtain ⟨ihS, ihs, iht, ihe, ihT, ihf, iha⟩ := ih
  unfold generate_test
  repeat' with_reducible first
    | exact Post.error _
    | exact ihS _ _ _
    | exact ihs _ _ _
    | exact iht _ _ _
    | exact ihe _ _ _
    | exact ihT _ _ _
    | exact ihf _ _ _
    | exact iha _ _ _ _
    | exact token_level _ _ _ _
    | refine Post.mono (ihS _ _ _) ?_
    | refine Post.mono (ihs _ _ _) ?_
    | refine Post.mono (ihe _ _ _) ?_
    | refine Post.mono (ihT _ _ _) ?_
    | refine Post.mono (ihf _ _ _) ?_
    | refine Post.mono (iha _ _ _ _) ?_
    | refine Post.mono (token_level _ _ _ _) ?_
    | exact Post.triv _
    | apply Post.cond
    | apply Post.pure_bind
    | apply Post.bind2
    | apply Post.seq
    | intro _
    | apply Post.pure
    | apply Post.ok
  all_goals repeat' with_reducible first
    | apply Level.twoLines
    | apply Level.compare
    | apply Level.written
    | apply Level.pushed
    | apply Level.popped
    | apply Level.ifCount
    | apply Level.whileCount
    | apply Level.deleteCount
    | apply Level.registers
    | assumption
    | apply_assumption

theorem factor_level_step (R : Regs) (fuel : Nat) (ih : AllBalanced R fuel) (table : ProcData)
    (node : Node) (g : Gen) :
    Post (fun p => Balanced R g p.2) (generate_factor (fuel + 1) R table node g) := by
  obtain ⟨ihS, ihs, iht, ihe, ihT, ihf, iha⟩ := ih
  unfold generate_factor
  repeat' with_reducible first
    | exact Post.error _
    | exact ihS _ _ _
    | exact ihs _ _ _
    | exact iht _ _ _
    | exact ihe _ _ _
    | exact ihT _ _ _
    | exact ihf _ _ _
    | exact iha _ _ _ _
    | exact token_level _ _ _ _
    | refine Post.mono (ihS _ _ _) ?_
    | refine Post.mono (ihs _ _ _) ?_
    | refine Post.mono (ihe _ _ _) ?_
    | refine Post.mono (ihT _ _ _) ?_
    | refine Post.mono (ihf _ _ _) ?_
    | refine Post.mono (iha _ _ _ _) ?_
    | refine Post.mono (token_level _ _ _ _) ?_
    | exact Post.triv _
    | apply Post.cond
    | apply Post.pure_bind
    | apply Post.bind2
    | apply Post.seq
    | intro _
    | apply Post.pure
    | apply Post.ok
  all_goals repeat' with_reducible first
    | apply Level.twoLines
    | apply Level.compare
    | apply Level.written
    | apply Level.pushed
    | apply Level.popped
    | apply Level.ifCount
    | apply Level.whileCount
    | apply Level.deleteCount
    | apply Level.registers
    | assumption
    | apply_assumption

theorem args_level_step (R : Regs) (fuel : Nat) (ih : AllBalanced R fuel) (table : ProcData)
    (node : Node) (i : Int) (g : Gen) :
    Post (fun p => Balanced R g p.2) (generate_args (fuel + 1) R table node i g) := by
  obtain ⟨ihS, ihs, iht, ihe, ihT, ihf, iha⟩ := ih
  unfold generate_args
  repeat' with_reducible first
    | exact Post.error _
    | exact ihS _ _ _
    | exact ihs _ _ _
    | exact iht _ _ _
    | exact ihe _ _ _
    | exact ihT _ _ _
    | exact ihf _ _ _
    | exact iha _ _ _ _
    | exact token_level _ _ _ _
    | refine Post.mono (ihS _ _ _) ?_
    | refine Post.mono (ihs _ _ _) ?_
    | refine Post.mono (ihe _ _ _) ?_
    | refine Post.mono (ihT _ _ _) ?_
    | refine Post.mono (ihf _ _ _) ?_
    | refine Post.mono (iha _ _ _ _) ?_
    | refine Post.mono (token_level _ _ _ _) ?_
    | exact Post.triv _
    | apply Post.cond
    | apply Post.pure_bind
    | apply Post.bind2
    | apply Post.seq
    | intro _
    | apply Post.pure
    | apply Post.ok
  all_goals repeat' with_reducible first
    | apply Level.twoLines
    | apply Level.compare
    | apply Level.written
    | apply Level.pushed
    | apply Level.popped
    | apply Level.ifCount
    | apply Level.whileCount
    | apply Level.deleteCount
    | apply Level.registers
    | assumption
    | apply_assumption

end WLP4Gen

end WLP4

namespace WLP4

namespace WLP4Gen

/-- The state handed to the right operand after the left one was saved, and the
state the right operand returns, in terms of the counters before the save. -/
theorem saved_counters (R : Regs) (hR : 5 < R.MIN_REG ∨ R.MAX_REG < 5) {base g2 g4 : Gen}
    (l : String) (r1 : Int) (h2 : Level R base g2)
    (h4 : Balanced R (if g2.stackReg ≤ R.MAX_REG then (g2.emit l).setStackReg (g2.stackReg + 1)
      else (WLP4Gen.push g2 r1).setStacked (g2.stacked + 1)) g4) (hr : InRange R base) :
    (g2.stackReg ≤ R.MAX_REG → g2.stackReg ≠ 5 ∧ g4.stackReg = base.stackReg + 1 ∧
      g4.stacked = base.stacked) ∧
    (¬ g2.stackReg ≤ R.MAX_REG → g4.stackReg = base.stackReg ∧
      g4.stacked = base.stacked + 1) := by
  obtain ⟨e1, e2⟩ := h2 hr
  obtain ⟨hlo, hhi⟩ := hr
  have h := h4 _ (Level.start R _)
  constructor
  · intro hc
    rw [if_pos hc] at h
    have hin : InRange R ((g2.emit l).setStackReg (g2.stackReg + 1)) := by
      constructor
      · show R.MIN_REG ≤ g2.stackReg + 1
        omega
      · show g2.stackReg + 1 ≤ R.MAX_REG + 1
        omega
    obtain ⟨a, b⟩ := h hin
    refine ⟨by omega, ?_, ?_⟩
    · rw [a, ← e1]; rfl
    · rw [b, ← e2]; rfl
  · intro hc
    rw [if_neg hc] at h
    have hin : InRange R ((WLP4Gen.push g2 r1).setStacked (g2.stacked + 1)) := by
      constructor
      · show R.MIN_REG ≤ g2.stackReg
        omega
      · show g2.stackReg ≤ R.MAX_REG + 1
        omega
    obtain ⟨a, b⟩ := h hin
    refine ⟨?_, ?_⟩
    · rw [a, ← e1]; rfl
    · rw [b, ← e2]; rfl

theorem Level.exprTail (R : Regs) (hR : 5 < R.MIN_REG ∨ R.MAX_REG < 5) {base g2 g4 : Gen}
    (l : String) (r1 : Int) (c c1 : Prop) [Decidable c] [Decidable c1] (a b a1 b1 l7 : String)
    (h2 : Level R base g2)
    (h4 : Balanced R (if g2.stackReg ≤ R.MAX_REG then (g2.emit l).setStackReg (g2.stackReg + 1)
      else (WLP4Gen.push g2 r1).setStacked (g2.stacked + 1)) g4) :
    Level R base
      (if (if g2.stackReg ≤ R.MAX_REG then g2.stackReg else 5) ≠ 5 then
        (if c1 then
          (((if (if g2.stackReg ≤ R.MAX_REG then g2.stackReg else 5) = 5 then
              (WLP4Gen.pop (if c then (g4.emit a).emit b else g4) 5).setStacked
                ((if c then (g4.emit a).emit b else g4).stacked - 1)
            else (if c then (g4.emit a).emit b else g4)).emit l7).emit a1).emit b1
         else
          (if (if g2.stackReg ≤ R.MAX_REG then g2.stackReg else 5) = 5 then
              (WLP4Gen.pop (if c then (g4.emit a).emit b else g4) 5).setStacked
                ((if c then (g4.emit a).emit b else g4).stacked - 1)
            else (if c then (g4.emit a).emit b else g4)).emit l7).setStackReg
          ((if c1 then
          (((if (if g2.stackReg ≤ R.MAX_REG then g2.stackReg else 5) = 5 then
              (WLP4Gen.pop (if c then (g4.emit a).emit b else g4) 5).setStacked
                ((if c then (g4.emit a).emit b else g4).stacked - 1)
            else (if c then (g4.emit a).emit b else g4)).emit l7).emit a1).emit b1
         else
          (if (if g2.stackReg ≤ R.MAX_REG then g2.stackReg else 5) = 5 then
              (WLP4Gen.pop (if c then (g4.emit a).emit b else g4) 5).setStacked
                ((if c then (g4.emit a).emit b else g4).stacked - 1)
            else (if c then (g4.emit a).emit b else g4)).emit l7).stackReg - 1)
       else
        (if c1 then
          (((if (if g2.stackReg ≤ R.MAX_REG then g2.stackReg else 5) = 5 then
              (WLP4Gen.pop (if c then (g4.emit a).emit b else g4) 5).setStacked
                ((if c then (g4.emit a).emit b else g4).stacked - 1)
            else (if c then (g4.emit a).emit b else g4)).emit l7).emit a1).emit b1
         else
          (if (if g2.stackReg ≤ R.MAX_REG then g2.stackReg else 5) = 5 then
              (WLP4Gen.pop (if c then (g4.emit a).emit b else g4) 5).setStacked
                ((if c then (g4.emit a).emit b else g4).stacked - 1)
            else (if c then (g4.emit a).emit b else g4)).emit l7)) := by
  intro hr
  obtain ⟨hy, hn⟩ := saved_counters R hR l r1 h2 h4 hr
  by_cases hc : g2.stackReg ≤ R.MAX_REG
  · obtain ⟨h5, e1, e2⟩ := hy hc
    have h5n : ¬ g2.stackReg = 5 := h5
    simp only [if_pos hc, if_neg h5n, if_pos h5]
    by_cases hc1 : c1 <;> by_cases hcc : c <;>
      simp only [hc1, hcc, if_true, if_false, Gen.emit, Gen.setStackReg] <;>
      exact ⟨by omega, e2⟩
  · obtain ⟨e1, e2⟩ := hn hc
    have h55 : ¬ (5 : Int) ≠ 5 := by simp
    simp only [if_neg hc, if_neg h55, if_true]
    by_cases hc1 : c1 <;> by_cases hcc : c <;>
      simp only [hc1, hcc, if_true, if_false, Gen.emit, Gen.setStacked, WLP4Gen.pop] <;>
      exact ⟨e1, by omega⟩

theorem Level.termTail (R : Regs) (hR : 5 < R.MIN_REG ∨ R.MAX_REG < 5) {base g2 g4 : Gen}
    (l : String) (r1 : Int) (l7 l8 : String)
    (h2 : Level R base g2)
    (h4 : Balanced R (if g2.stackReg ≤ R.MAX_REG then (g2.emit l).setStackReg (g2.stackReg + 1)
      else (WLP4Gen.push g2 r1).setStacked (g2.stacked + 1)) g4) :
    Level R base
      (if (if g2.stackReg ≤ R.MAX_REG then g2.stackReg else 5) ≠ 5 then
        (((if (if g2.stackReg ≤ R.MAX_REG then g2.stackReg else 5) = 5 then
            (WLP4Gen.pop g4 5).setStacked (g4.stacked - 1) else g4).emit l7).emit l8).setStackReg
          ((((if (if g2.stackReg ≤ R.MAX_REG then g2.stackReg else 5) = 5 then
            (WLP4Gen.pop g4 5).setStacked (g4.stacked - 1) else g4).emit l7).emit l8).stackReg - 1)
       else
        (((if (if g2.stackReg ≤ R.MAX_REG then g2.stackReg else 5) = 5 then
            (WLP4Gen.pop g4 5).setStacked (g4.stacked - 1) else g4).emit l7).emit l8)) := by
  intro hr
  obtain ⟨hy, hn⟩ := saved_counters R hR l r1 h2 h4 hr
  by_cases hc : g2.stackReg ≤ R.MAX_REG
  · obtain ⟨h5, e1, e2⟩ := hy hc
    have h5n : ¬ g2.stackReg = 5 := h5
    simp only [if_pos hc, if_neg h5n, if_pos h5, Gen.emit, Gen.setStackReg]
    exact ⟨by omega, e2⟩
  · obtain ⟨e1, e2⟩ := hn hc
    have h55 : ¬ (5 : Int) ≠ 5 := by simp
    simp only [if_neg hc, if_neg h55, if_true, Gen.emit, Gen.setStacked, WLP4Gen.pop]
    exact ⟨e1, by omega⟩

theorem expr_level_step (R : Regs) (hR : 5 < R.MIN_REG ∨ R.MAX_REG < 5) (fuel : Nat) (ih : AllBalanced R fuel) (table : ProcData)
    (node : Node) (g : Gen) :
    Post (fun p => Balanced R g p.2) (generate_expr (fuel + 1) R table node g) := by
  obtain ⟨ihS, ihs, iht, ihe, ihT, ihf, iha⟩ := ih
  unfold generate_expr
  repeat' with_reducible first
    | exact Post.error _
    | exact ihS _ _ _
    | exact ihs _ _ _
    | exact iht _ _ _
    | exact ihe _ _ _
    | exact ihT _ _ _
    | exact ihf _ _ _
    | exact iha _ _ _ _
    | exact token_level _ _ _ _
    | refine Post.mono (ihS _ _ _) ?_
    | refine Post.mono (ihs _ _ _) ?_
    | refine Post.mono (ihe _ _ _) ?_
    | refine Post.mono (ihT _ _ _) ?_
    | refine Post.mono (ihf _ _ _) ?_
    | refine Post.mono (iha _ _ _ _) ?_
    | refine Post.mono (token_level _ _ _ _) ?_
    | exact Post.triv _
    | apply Post.cond
    | apply Post.pure_bind
    | apply Post.bind2
    | apply Post.seq
    | intro _
    | apply Post.pure
    | apply Post.ok
  all_goals repeat' with_reducible first
    | apply Level.exprTail R hR
    | apply Level.termTail R hR
    | apply Level.twoLines
    | apply Level.compare
    | apply Level.written
    | apply Level.pushed
    | apply Level.popped
    | apply Level.ifCount
    | apply Level.whileCount
    | apply Level.deleteCount
    | apply Level.registers
    | assumption
    | apply_assumption

theorem term_level_step (R : Regs) (hR : 5 < R.MIN_REG ∨ R.MAX_REG < 5) (fuel : Nat) (ih : AllBalanced R fuel) (table : ProcData)
    (node : Node) (g : Gen) :
    Post (fun p => Balanced R g p.2) (generate_term (fuel + 1) R table node g) := by
  obtain ⟨ihS, ihs, iht, ihe, ihT, ihf, iha⟩ := ih
  unfold generate_term
  repeat' with_reducible first
    | exact Post.error _
    | exact ihS _ _ _
    | exact ihs _ _ _
    | exact iht _ _ _
    | exact ihe _ _ _
    | exact ihT _ _ _
    | exact ihf _ _ _
    | exact iha _ _ _ _
    | exact token_level _ _ _ _
    | refine Post.mono (ihS _ _ _) ?_
    | refine Post.mono (ihs _ _ _) ?_
    | refine Post.mono (ihe _ _ _) ?_
    | refine Post.mono (ihT _ _ _) ?_
    | refine Post.mono (ihf _ _ _) ?_
    | refine Post.mono (iha _ _ _ _) ?_
    | refine Post.mono (token_level _ _ _ _) ?_
    | exact Post.triv _
    | apply Post.cond
    | apply Post.pure_bind
    | apply Post.bind2
    | apply Post.seq
    | intro _
    | apply Post.pure
    | apply Post.ok
  all_goals repeat' with_reducible first
    | apply Level.exprTail R hR
    | apply Level.termTail R hR
    | apply Level.twoLines
    | apply Level.compare
    | apply Level.written
    | apply Level.pushed
    | apply Level.popped
    | apply Level.ifCount
    | apply Level.whileCount
    | apply Level.deleteCount
    | apply Level.registers
    | assumption
    | apply_assumption

end WLP4Gen

end WLP4

namespace WLP4

namespace WLP4Gen

theorem all_balanced (R : Regs) (hR : 5 < R.MIN_REG ∨ R.MAX_REG < 5) : ∀ fuel, AllBalanced R fuel
  | 0 => by
      refine ⟨?_, ?_, ?_, ?_, ?_, ?_, ?_⟩
      · intro table node g
        unfold generate_stmts
        exact Post.error _
      · intro table node g
        unfold generate_stmt
        exact Post.error _
      · intro table node g
        unfold generate_test
        exact Post.error _
      · intro table node g
        unfold generate_expr
        exact Post.error _
      · intro table node g
        unfold generate_term
        exact Post.error _
      · intro table node g
        unfold generate_factor
        exact Post.error _
      · intro table node i g
        unfold generate_args
        exact Post.error _
  | fuel + 1 =>
      ⟨stmts_level_step R fuel (all_balanced R hR fuel),
       stmt_level_step R fuel (all_balanced R hR fuel),
       test_level_step R fuel (all_balanced R hR fuel),
       expr_level_step R hR fuel (all_balanced R hR fuel),
       term_level_step R hR fuel (all_balanced R hR fuel),
       factor_level_step R fuel (all_balanced R hR fuel),
       args_level_step R fuel (all_balanced R hR fuel)⟩

theorem InRange.of_counters {R : Regs} {g g1 : Gen} (h : InRange R g)
    (e : g1.stackReg = g.stackReg) : InRange R g1 := by
  unfold InRange at *
  rw [e]
  exact h

/-- The facts about a consumed left operand, from the balance of the right operand. -/
theorem consumes_of_balanced (R : Regs) (hR : 5 < R.MIN_REG ∨ R.MAX_REG < 5) {g2 g4 g5 G p : Gen}
    (r1 : Int) (line : Int → String) (tail : List String) (hin : InRange R g2)
    (h4 : Balanced R (saveLeft R g2 r1) g4)
    (h5r : g5.stackReg = g4.stackReg) (h5s : g5.stacked = g4.stacked)
    (hG : G.out = (loadLeft R g2 g5).out ++ line (leftReg R g2) :: tail)
    (hGr : G.stackReg = (loadLeft R g2 g5).stackReg)
    (hGs : G.stacked = (loadLeft R g2 g5).stacked)
    (hp : p = releaseLeft R g2 G) :
    Consumes R g2 r1 g4 g5 line p := by
  subst hp
  have h2 : Level R g2 g2 := Level.start R g2
  obtain ⟨hy, hn⟩ := saved_counters R hR _ r1 h2 h4 hin
  obtain ⟨hlo, hhi⟩ := hin
  by_cases hc : g2.stackReg ≤ R.MAX_REG
  · obtain ⟨h5, e1, e2⟩ := hy hc
    have h5n : ¬ g2.stackReg = 5 := h5
    have hq : leftReg R g2 = g2.stackReg := if_pos hc
    have hl : loadLeft R g2 g5 = g5 := by
      unfold loadLeft
      rw [hq, if_neg h5n]
    have hrel : releaseLeft R g2 G = G.setStackReg (G.stackReg - 1) := by
      unfold releaseLeft
      rw [hq, if_pos h5]
    have hs : saveLeft R g2 r1 = (g2.emit ("\t\tadd $" ++ toString g2.stackReg ++ ", $" ++
        toString r1 ++ ", $0")).setStackReg (g2.stackReg + 1) := if_pos hc
    rw [hl] at hG hGr hGs
    refine ⟨?_, ?_, ?_, ?_, ?_, ⟨tail, ?_⟩, fun _ => ⟨hq, ?_, ?_, ?_, hl⟩,
      fun hc1 => absurd hc hc1⟩
    · rw [hs]
      exact ⟨by show R.MIN_REG ≤ g2.stackReg + 1; omega,
        by show g2.stackReg + 1 ≤ R.MAX_REG + 1; omega⟩
    · exact ⟨by omega, by omega⟩
    · rw [hrel]
      exact ⟨by show R.MIN_REG ≤ G.stackReg - 1; omega,
        by show G.stackReg - 1 ≤ R.MAX_REG + 1; omega⟩
    · rw [hrel]
      show G.stackReg - 1 = g2.stackReg
      omega
    · rw [hrel]
      show G.stacked = g2.stacked
      omega
    · rw [hrel, hl]
      exact hG
    · rw [hs, hq]
      rfl
    · rw [hs, hq]
      rfl
    · rw [hq]
      exact e1
  · obtain ⟨e1, e2⟩ := hn hc
    have hq : leftReg R g2 = 5 := if_neg hc
    have hl : loadLeft R g2 g5 = (pop g5 5).setStacked (g5.stacked - 1) := by
      unfold loadLeft
      rw [hq, if_pos rfl]
    have hrel : releaseLeft R g2 G = G := by
      unfold releaseLeft
      rw [hq, if_neg (by simp)]
    have hs : saveLeft R g2 r1 = (push g2 r1).setStacked (g2.stacked + 1) := if_neg hc
    have hls : (loadLeft R g2 g5).stacked = g5.stacked - 1 := by rw [hl]; rfl
    have hlr : (loadLeft R g2 g5).stackReg = g5.stackReg := by rw [hl]; rfl
    refine ⟨?_, ?_, ?_, ?_, ?_, ⟨tail, ?_⟩, fun hc1 => absurd hc1 hc,
      fun _ => ⟨hq, ?_, ?_, ?_, ?_, ?_⟩⟩
    · rw [hs]
      exact ⟨by show R.MIN_REG ≤ g2.stackReg; omega,
        by show g2.stackReg ≤ R.MAX_REG + 1; omega⟩
    · exact ⟨by omega, by omega⟩
    · rw [hrel]
      exact ⟨by omega, by omega⟩
    · rw [hrel]
      omega
    · rw [hrel]
      omega
    · rw [hrel]
      exact hG
    · rw [hs]
      simp [push, Gen.emit, Gen.setStacked]
    · rw [hs]
      rfl
    · exact e2
    · rw [hl]
      simp only [pop, Gen.emit, Gen.setStacked, List.append_assoc, List.singleton_append]
      rfl
    · omega

theorem when2_counters (g : Gen) (c : Prop) [Decidable c] (a b : String) :
    (if c then (g.emit a).emit b else g).stackReg = g.stackReg ∧
    (if c then (g.emit a).emit b else g).stacked = g.stacked := by
  split <;> exact ⟨rfl, rfl⟩

theorem consumes_expr (R : Regs) (hR : 5 < R.MIN_REG ∨ R.MAX_REG < 5) {g2 g4 : Gen}
    (r1 rr : Int) (op : String) (c c1 : Prop) [Decidable c] [Decidable c1] (a b a1 b1 : String)
    (hin : InRange R g2) (h4 : Balanced R (saveLeft R g2 r1) g4) :
    Consumes R g2 r1 g4 (if c then (g4.emit a).emit b else g4) (exprLine op rr)
      (releaseLeft R g2
        (if c1 then
          (((loadLeft R g2 (if c then (g4.emit a).emit b else g4)).emit
            (exprLine op rr (leftReg R g2))).emit a1).emit b1
         else
          (loadLeft R g2 (if c then (g4.emit a).emit b else g4)).emit
            (exprLine op rr (leftReg R g2)))) := by
  refine consumes_of_balanced R hR r1 _ (if c1 then [a1, b1] else []) hin h4
    (when2_counters g4 c a b).1 (when2_counters g4 c a b).2 ?_ ?_ ?_ rfl
  · by_cases h : c1 <;> simp [h, Gen.emit]
  · by_cases h : c1 <;> simp [h, Gen.emit]
  · by_cases h : c1 <;> simp [h, Gen.emit]

theorem consumes_term (R : Regs) (hR : 5 < R.MIN_REG ∨ R.MAX_REG < 5) {g2 g4 : Gen}
    (r1 rr : Int) (op l8 : String) (hin : InRange R g2)
    (h4 : Balanced R (saveLeft R g2 r1) g4) :
    Consumes R g2 r1 g4 g4 (termLine op rr)
      (releaseLeft R g2
        (((loadLeft R g2 g4).emit (termLine op rr (leftReg R g2))).emit l8)) := by
  refine consumes_of_balanced R hR r1 _ [l8] hin h4 rfl rfl ?_ ?_ ?_ rfl
  · simp [Gen.emit]
  · rfl
  · rfl

/-- The binary case of `generate_expr`: either the operands are folded, or the
left operand is saved, the right operand generated, and the saved operand consumed. -/
theorem expr_binary (R : Regs) (hR : 5 < R.MIN_REG ∨ R.MAX_REG < 5) (fuel : Nat)
    (table : ProcData) (node l o r : Node) (g : Gen) (hc : node.children = [l, o, r])
    (hin : InRange R g) :
    Post (fun p => (∃ w, p = (3, (g.emit "\t\tlis $3").emit ("\t\t.word " ++ w))) ∨
        ∃ (r0 : Int) (g1 : Gen) (r2 : Int) (g4 : Gen),
          generate_expr fuel R table l g = .ok (r0, g1) ∧ InRange R g1 ∧
          generate_term fuel R table r
            (saveLeft R (leftState o l r g1 r0) (leftResult o l r r0)) = .ok (r2, g4) ∧
          (∃ mid, g4.out = (saveLeft R (leftState o l r g1 r0) (leftResult o l r r0)).out ++
            mid) ∧
          p = (3, releaseLeft R (leftState o l r g1 r0) (afterExpr o l r
            ((loadLeft R (leftState o l r g1 r0) (rightState o l r g4 r2)).emit
              (exprLine (addOp o) (rightResult o l r r2)
                (leftReg R (leftState o l r g1 r0)))))) ∧
          Consumes R (leftState o l r g1 r0) (leftResult o l r r0) g4 (rightState o l r g4 r2)
            (exprLine (addOp o) (rightResult o l r r2)) p.2)
      (generate_expr (fuel + 1) R table node g) := by
  obtain ⟨ihS, ihs, iht, ihe, ihT, ihf, iha⟩ := all_balanced R hR fuel
  obtain ⟨-, -, -, -, ghT, -, -⟩ := all_grow fuel
  have hlen : ¬ node.children.length = 1 := by rw [hc]; simp
  rw [generate_expr]
  simp only [if_neg hlen, child_cons0 _ _ _ hc, child_cons1 _ _ _ _ hc, child_cons2 _ _ _ _ _ hc,
    ok_bind]
  refine Post.after (fun a => ?_)
  refine Post.after (fun b => ?_)
  refine Post.after (fun c => ?_)
  refine Post.after (fun d => ?_)
  refine Post.after (fun e => ?_)
  apply Post.cond
  · intro _
    exact Post.pure (Or.inl ⟨_, rfl⟩)
  · intro _
    refine Post.bind2 (Post.self _) (fun r0 g1 h1 => ?_)
    have b1 := (ihe table l g).result _ h1 g (Level.start R g) hin
    refine Post.bind2 (Post.self _) (fun r2 g4 h2 => ?_)
    have b2 := (ihT _ _ _).result _ h2
    have e2 := (ghT _ _ _ _).result _ h2 _ (Ext.here _)
    have hin2 : InRange R (leftState o l r g1 r0) :=
      (hin.of_counters b1.1).of_counters (when2_counters _ _ _ _).1
    exact Post.pure (Or.inr ⟨r0, g1, r2, g4, h1, hin.of_counters b1.1, h2, e2, rfl,
      consumes_expr R hR _ _ _ _ _ _ _ _ _ hin2 b2⟩)

/-- The binary case of `generate_term`: either the operands are folded, or the
left operand is saved, the right operand generated, and the saved operand consumed. -/
theorem term_binary (R : Regs) (hR : 5 < R.MIN_REG ∨ R.MAX_REG < 5) (fuel : Nat)
    (table : ProcData) (node l o r : Node) (g : Gen) (hc : node.children = [l, o, r])
    (hin : InRange R g) :
    Post (fun p => (∃ w, p = (3, (g.emit "\t\tlis $3").emit ("\t\t.word " ++ w))) ∨
        ∃ (r0 : Int) (g1 : Gen) (r2 : Int) (g4 : Gen),
          generate_term fuel R table l g = .ok (r0, g1) ∧ InRange R g1 ∧
          generate_factor fuel R table r (saveLeft R g1 r0) = .ok (r2, g4) ∧
          (∃ mid, g4.out = (saveLeft R g1 r0).out ++ mid) ∧
          p = (3, releaseLeft R g1 (((loadLeft R g1 g4).emit
            (termLine (mulOp o) r2 (leftReg R g1))).emit (mfLine o))) ∧
          Consumes R g1 r0 g4 g4 (termLine (mulOp o) r2) p.2)
      (generate_term (fuel + 1) R table node g) := by
  obtain ⟨ihS, ihs, iht, ihe, ihT, ihf, iha⟩ := all_balanced R hR fuel
  obtain ⟨-, -, -, -, -, ghf, -⟩ := all_grow fuel
  have hlen : ¬ node.children.length = 1 := by rw [hc]; simp
  rw [generate_term]
  simp only [if_neg hlen, child_cons0 _ _ _ hc, child_cons1 _ _ _ _ hc, child_cons2 _ _ _ _ _ hc,
    ok_bind]
  refine Post.after (fun a => ?_)
  refine Post.after (fun b => ?_)
  refine Post.after (fun e => ?_)
  apply Post.cond
  · intro _
    apply Post.cond
    · intro _
      exact Post.error _
    · intro _
      exact Post.pure (Or.inl ⟨_, rfl⟩)
  · intro _
    refine Post.bind2 (Post.self _) (fun r0 g1 h1 => ?_)
    have b1 := (ihT table l g).result _ h1 g (Level.start R g) hin
    refine Post.bind2 (Post.self _) (fun r2 g4 h2 => ?_)
    have b2 := (ihf _ _ _).result _ h2
    have e2 := (ghf _ _ _ _).result _ h2 _ (Ext.here _)
    exact Post.pure (Or.inr ⟨r0, g1, r2, g4, h1, hin.of_counters b1.1, h2, e2, rfl,
      consumes_term R hR _ _ _ _ (hin.of_counters b1.1) b2⟩)

/-- C38. Let register 5 lie outside `[MIN_REG, MAX_REG]`.  The state a generator
starts from has `stackReg` in `[MIN_REG, MAX_REG + 1]` (when that range is not
empty).  From a state with `stackReg` in that range, each of `generate_stmts`,
`generate_stmt`, `generate_test`, `generate_expr`, `generate_term`,
`generate_factor` and `generate_args` returns a state with the values of `stackReg`
and `stacked` it was given, so with `stackReg` in range.  Inside `generate_expr` and
`generate_term` on a node with the children `l`, `o`, `r`, unless the operands are
folded: the left operand `l` is generated from the given state and returns the
register `r0` and the state `g1`; the operand (scaled by 4 in `generate_expr` when
it is the int of a pointer sum) is saved by `saveLeft`; the right operand `r` is
generated from the state after the save, so that what it writes follows the save;
the state returned is the one after the right operand with, in this order, the
reload `loadLeft` of a pushed operand, the line of the operator and the release
`releaseLeft` of the register; and `Consumes` holds: `stackReg` is in range after
the save, after the right operand and at the end, and the line of the operator
reads the register `leftReg` into which the save moved the left operand (`stackReg`
stays one above it until then), or `$5` after the pop at the depth of the push. -/
theorem stack_registers_balanced (R : Regs) (hR : 5 < R.MIN_REG ∨ R.MAX_REG < 5) :
    (R.MIN_REG ≤ R.MAX_REG + 1 → InRange R (Gen.new R)) ∧
    (∀ (fuel : Nat) (table : ProcData) (node : Node) (g g1 : Gen), InRange R g →
      (generate_stmts fuel R table node g = .ok g1 ∨
        generate_stmt fuel R table node g = .ok g1 ∨
        generate_test fuel R table node g = .ok g1 ∨
        (∃ r, generate_expr fuel R table node g = .ok (r, g1)) ∨
        (∃ r, generate_term fuel R table node g = .ok (r, g1)) ∨
        (∃ r, generate_factor fuel R table node g = .ok (r, g1)) ∨
        (∃ r i, generate_args fuel R table node i g = .ok (r, g1))) →
      g1.stackReg = g.stackReg ∧ g1.stacked = g.stacked ∧ InRange R g1) ∧
    (∀ (fuel : Nat) (table : ProcData) (node l o r : Node) (g : Gen) (p : Int × Gen),
      node.children = [l, o, r] → InRange R g →
      generate_expr (fuel + 1) R table node g = .ok p →
      (∃ w, p = (3, (g.emit "\t\tlis $3").emit ("\t\t.word " ++ w))) ∨
        ∃ (r0 : Int) (g1 : Gen) (r2 : Int) (g4 : Gen),
          generate_expr fuel R table l g = .ok (r0, g1) ∧ InRange R g1 ∧
          generate_term fuel R table r
            (saveLeft R (leftState o l r g1 r0) (leftResult o l r r0)) = .ok (r2, g4) ∧
          (∃ mid, g4.out = (saveLeft R (leftState o l r g1 r0) (leftResult o l r r0)).out ++
            mid) ∧
          p = (3, releaseLeft R (leftState o l r g1 r0) (afterExpr o l r
            ((loadLeft R (leftState o l r g1 r0) (rightState o l r g4 r2)).emit
              (exprLine (addOp o) (rightResult o l r r2)
                (leftReg R (leftState o l r g1 r0)))))) ∧
          Consumes R (leftState o l r g1 r0) (leftResult o l r r0) g4 (rightState o l r g4 r2)
            (exprLine (addOp o) (rightResult o l r r2)) p.2) ∧
    (∀ (fuel : Nat) (table : ProcData) (node l o r : Node) (g : Gen) (p : Int × Gen),
      node.children = [l, o, r] → InRange R g →
      generate_term (fuel + 1) R table node g = .ok p →
      (∃ w, p = (3, (g.emit "\t\tlis $3").emit ("\t\t.word " ++ w))) ∨
        ∃ (r0 : Int) (g1 : Gen) (r2 : Int) (g4 : Gen),
          generate_term fuel R table l g = .ok (r0, g1) ∧ InRange R g1 ∧
          generate_factor fuel R table r (saveLeft R g1 r0) = .ok (r2, g4) ∧
          (∃ mid, g4.out = (saveLeft R g1 r0).out ++ mid) ∧
          p = (3, releaseLeft R g1 (((loadLeft R g1 g4).emit
            (termLine (mulOp o) r2 (leftReg R g1))).emit (mfLine o))) ∧
          Consumes R g1 r0 g4 g4 (termLine (mulOp o) r2) p.2) := by
  refine ⟨fun h => ⟨le_refl _, h⟩, ?_, ?_, ?_⟩
  · intro fuel table node g g1 hin h
    obtain ⟨ihS, ihs, iht, ihe, ihT, ihf, iha⟩ := all_balanced R hR fuel
    have key : Level R g g1 := by
      rcases h with h | h | h | ⟨r, h⟩ | ⟨r, h⟩ | ⟨r, h⟩ | ⟨r, i, h⟩
      · exact (ihS _ _ _).result _ h g (Level.start R g)
      · exact (ihs _ _ _).result _ h g (Level.start R g)
      · exact (iht _ _ _).result _ h g (Level.start R g)
      · exact (ihe _ _ _).result _ h g (Level.start R g)
      · exact (ihT _ _ _).result _ h g (Level.start R g)
      · exact (ihf _ _ _).result _ h g (Level.start R g)
      · exact (iha _ _ _ _).result _ h g (Level.start R g)
    exact ⟨(key hin).1, (key hin).2, hin.of_counters (key hin).1⟩
  · intro fuel table node l o r g p hc hin h
    exact (expr_binary R hR fuel table node l o r g hc hin).result p h
  · intro fuel table node l o r g p hc hin h
    exact (term_binary R hR fuel table node l o r g hc hin).result p h

/-- Witness for C38: registers 12 to 28 leave register 5 out, and `b + 3`, generated
from the first state, whose `stackReg` is 12, moves `b` to `$12` and reads it from
there; the state returned has `stackReg` 12 again and nothing pushed. -/
theorem stack_registers_balanced_witness :
    (5 < exampleRegs.MIN_REG ∨ exampleRegs.MAX_REG < 5) ∧
    generate_expr 4 exampleRegs exampleTable
        (addNode "PLUS" "+" (exprOfTerm (termOf (idFactor "b"))) (termOf (numFactor "3")))
        (Gen.new exampleRegs) =
      .ok (3, { Gen.new exampleRegs with out := ["\t\tlw $3, -4($29)", "\t\tadd $12, $3, $0",
        "\t\tlis $3", "\t\t.word 3", "\t\tadd $3, $12, $3"] }) ∧
    ∀ g1 : Gen, (∃ r, generate_expr 4 exampleRegs exampleTable
        (addNode "PLUS" "+" (exprOfTerm (termOf (idFactor "b"))) (termOf (numFactor "3")))
        (Gen.new exampleRegs) = .ok (r, g1)) →
      g1.stackReg = 12 ∧ g1.stacked = 0 ∧ InRange exampleRegs g1 :=
  ⟨by decide, by decide, fun g1 h =>
    (stack_registers_balanced exampleRegs (by decide)).2.1 4 exampleTable
      (addNode "PLUS" "+" (exprOfTerm (termOf (idFactor "b"))) (termOf (numFactor "3")))
      (Gen.new exampleRegs) g1 ⟨by decide, by decide⟩ (Or.inr (Or.inr (Or.inr (Or.inl h))))⟩

end WLP4Gen

end WLP4

/-! ## Code generator: the frame of a procedure call -/

namespace WLP4

namespace WLP4Gen

theorem regLoop_out (op : String) : ∀ (n : Nat) (sr pushC : Int) (g : Gen),
    (regLoop op n sr pushC g).1.out = g.out ++ (List.range n).map (fun (j : Nat) =>
      "\t\t" ++ op ++ " $" ++ toString (sr + (j : Int)) ++ ", -" ++
        toString (4 * (pushC + (j : Int))) ++ "($30)") ∧
    (regLoop op n sr pushC g).2 = pushC + n
  | 0, sr, pushC, g => by simp [regLoop]
  | n + 1, sr, pushC, g => by
      unfold regLoop
      obtain ⟨h1, h2⟩ := regLoop_out op n (sr + 1) (pushC + 1)
        (g.emit ("\t\t" ++ op ++ " $" ++ toString sr ++ ", -" ++ toString (4 * pushC) ++ "($30)"))
      refine ⟨?_, ?_⟩
      · rw [h1, List.range_succ_eq_map]
        simp only [Gen.emit, List.append_assoc, List.singleton_append, List.map_cons,
          List.map_map, Nat.cast_zero, add_zero]
        congr 2
        apply List.map_congr_left
        intro j _
        simp only [Function.comp, Nat.cast_succ]
        rw [show sr + 1 + (j : Int) = sr + ((j : Int) + 1) by ring,
          show pushC + 1 + (j : Int) = pushC + ((j : Int) + 1) by ring]
      · rw [h2]
        push_cast
        ring

theorem Gen.eq_of_fields : ∀ {a b : Gen}, a.out = b.out → a.stackReg = b.stackReg →
    a.stacked = b.stacked → a.ifC = b.ifC → a.whileC = b.whileC → a.deleteC = b.deleteC → a = b
  | ⟨_, _, _, _, _, _⟩, ⟨_, _, _, _, _, _⟩, rfl, rfl, rfl, rfl, rfl, rfl => rfl

/-- The state after the frame of a call is saved. -/
theorem frame_saved (R : Regs) (g : Gen) (s : Nat) (hs : (g.stackReg - R.MIN_REG).toNat = s) :
    (((regLoop "sw" (g.stackReg - R.MIN_REG).toNat R.MIN_REG 3
        ((g.emit "\t\tsw $29, -4($30)").emit "\t\tsw $31, -8($30)")).1.emit "\t\tlis $5").emit
      ("\t\t.word " ++ toString (4 * ((regLoop "sw" (g.stackReg - R.MIN_REG).toNat R.MIN_REG 3
        ((g.emit "\t\tsw $29, -4($30)").emit "\t\tsw $31, -8($30)")).2 - 1)))).emit
      "\t\tsub $30, $30, $5" = { g with out := g.out ++ frameSave R s } := by
  obtain ⟨h1, h2⟩ := regLoop_out "sw" (g.stackReg - R.MIN_REG).toNat R.MIN_REG 3
    ((g.emit "\t\tsw $29, -4($30)").emit "\t\tsw $31, -8($30)")
  obtain ⟨c1, c2, c3, c4, c5⟩ := regLoop_counters "sw" (g.stackReg - R.MIN_REG).toNat R.MIN_REG 3
    ((g.emit "\t\tsw $29, -4($30)").emit "\t\tsw $31, -8($30)")
  rw [hs] at h1 h2 c1 c2 c3 c4 c5
  rw [hs]
  apply Gen.eq_of_fields
  · show (regLoop "sw" s R.MIN_REG 3 _).1.out ++ _ ++ _ ++ _ = _
    rw [h1, h2, show (3 : Int) + (s : Int) - 1 = 2 + (s : Int) by ring]
    simp [frameSave, regLines, Gen.emit]
  · exact c1
  · exact c2
  · exact c3
  · exact c4
  · exact c5

end WLP4Gen

end WLP4

namespace WLP4

namespace WLP4Gen

theorem emit_stackReg (g : Gen) (l : String) : (g.emit l).stackReg = g.stackReg := rfl

theorem emit_stacked (g : Gen) (l : String) : (g.emit l).stacked = g.stacked := rfl

/-- The state after the call and the restoring of the frame. -/
theorem frame_restored (R : Regs) (g y : Gen) (s : Nat) (hs1 : (g.stackReg - R.MIN_REG).toNat = s)
    (procID : String) (n : Int) (hn : n = 4 * (2 + (s : Int))) (mid : List String)
    (hy : y.stackReg = g.stackReg) (hy2 : y.stacked = g.stacked)
    (hout : y.out = g.out ++ frameSave R s ++ mid) :
    (regLoop "lw" (y.stackReg - R.MIN_REG).toNat R.MIN_REG 3
      (((((((((y.emit "\t\tsub $29, $30, $4").emit "\t\tlis $5").emit
        ("\t\t.word F" ++ procID)).emit "\t\tjalr $5").emit "\t\tlis $5").emit
        ("\t\t.word " ++ toString n)).emit "\t\tadd $30, $30, $5").emit
        "\t\tlw $29, -4($30)").emit "\t\tlw $31, -8($30)")).1.stackReg = g.stackReg ∧
    (regLoop "lw" (y.stackReg - R.MIN_REG).toNat R.MIN_REG 3
      (((((((((y.emit "\t\tsub $29, $30, $4").emit "\t\tlis $5").emit
        ("\t\t.word F" ++ procID)).emit "\t\tjalr $5").emit "\t\tlis $5").emit
        ("\t\t.word " ++ toString n)).emit "\t\tadd $30, $30, $5").emit
        "\t\tlw $29, -4($30)").emit "\t\tlw $31, -8($30)")).1.stacked = g.stacked ∧
    (regLoop "lw" (y.stackReg - R.MIN_REG).toNat R.MIN_REG 3
      (((((((((y.emit "\t\tsub $29, $30, $4").emit "\t\tlis $5").emit
        ("\t\t.word F" ++ procID)).emit "\t\tjalr $5").emit "\t\tlis $5").emit
        ("\t\t.word " ++ toString n)).emit "\t\tadd $30, $30, $5").emit
        "\t\tlw $29, -4($30)").emit "\t\tlw $31, -8($30)")).1.out =
      g.out ++ frameSave R s ++ mid ++ callLines procID ++ frameRestore R s := by
  rw [hy, hs1]
  obtain ⟨h1, -⟩ := regLoop_out "lw" s R.MIN_REG 3
    (((((((((y.emit "\t\tsub $29, $30, $4").emit "\t\tlis $5").emit
        ("\t\t.word F" ++ procID)).emit "\t\tjalr $5").emit "\t\tlis $5").emit
        ("\t\t.word " ++ toString n)).emit "\t\tadd $30, $30, $5").emit
        "\t\tlw $29, -4($30)").emit "\t\tlw $31, -8($30)")
  obtain ⟨c1, c2, -⟩ := regLoop_counters "lw" s R.MIN_REG 3
    (((((((((y.emit "\t\tsub $29, $30, $4").emit "\t\tlis $5").emit
        ("\t\t.word F" ++ procID)).emit "\t\tjalr $5").emit "\t\tlis $5").emit
        ("\t\t.word " ++ toString n)).emit "\t\tadd $30, $30, $5").emit
        "\t\tlw $29, -4($30)").emit "\t\tlw $31, -8($30)")
  refine ⟨c1.trans hy, c2.trans hy2, ?_⟩
  rw [h1]
  simp only [emit_out, hout, hn]
  simp [frameRestore, callLines, regLines]

theorem call_frame_post (R : Regs) (hR : 5 < R.MIN_REG ∨ R.MAX_REG < 5) (fuel : Nat)
    (table : ProcData) (node c0 c2 : Node) (g : Gen) (s : Nat) (hs : g.stackReg = R.MIN_REG + s)
    (hhi : g.stackReg ≤ R.MAX_REG + 1)
    (h0 : child node 0 = .ok c0) (h2 : child node 2 = .ok c2)
    (hlen : node.children.length ≠ 1) (hk1 : c0.kind ≠ "LPAREN") (hk2 : c0.kind ≠ "AMP")
    (hk3 : c0.kind ≠ "STAR") (hk4 : c0.kind ≠ "NEW") :
    Post (fun p => ∃ mid : List String,
        p.1 = 3 ∧ p.2.stackReg = g.stackReg ∧ p.2.stacked = g.stacked ∧
        p.2.out = g.out ++ frameSave R s ++ mid ++
          callLines (WLP4ParseTree.secondWord c0.seq) ++ frameRestore R s ∧
        (c2.kind ≠ "arglist" → mid = []) ∧
        (c2.kind = "arglist" → ∃ (argc : Int) (ga : Gen) (argLines : List String),
          generate_args fuel R table c2 1 { g with out := g.out ++ frameSave R s } =
            .ok (argc, ga) ∧
          ga.out = g.out ++ frameSave R s ++ argLines ∧ mid = argLines ++ dropArgs argc))
      (generate_factor (fuel + 1) R table node g) := by
  have hs1 : (g.stackReg - R.MIN_REG).toNat = s := by
    rw [hs]
    simp
  have hn : (regLoop "sw" (g.stackReg - R.MIN_REG).toNat R.MIN_REG 3
      ((g.emit "\t\tsw $29, -4($30)").emit "\t\tsw $31, -8($30)")).2 = 3 + (s : Int) := by
    rw [(regLoop_out "sw" (g.stackReg - R.MIN_REG).toNat R.MIN_REG 3 _).2, hs1]
  have hn4 : 4 * ((3 : Int) + (s : Int) - 1) = 4 * (2 + (s : Int)) := by ring
  obtain ⟨-, -, -, -, -, -, iha⟩ := all_balanced R hR fuel
  obtain ⟨-, -, -, -, -, -, ihg⟩ := all_grow fuel
  rw [generate_factor]
  simp only [if_neg hlen, h0, h2, ok_bind, if_neg hk1, if_neg hk2, if_neg hk3, if_neg hk4,
    emit_stackReg]
  simp only [frame_saved R g s hs1]
  simp only [hn]
  apply Post.cond
  · intro hk
    refine Post.bind2 (Post.self _) (fun argc ga ha => ?_)
    have hb := (iha _ _ _ _).result _ ha _ (Level.start R _)
      ⟨by show R.MIN_REG ≤ g.stackReg; omega, hhi⟩
    obtain ⟨more, hm⟩ := (ihg _ _ _ _ _).result _ ha _ ⟨[], (List.append_nil _).symm⟩
    have hm1 : ga.out = g.out ++ frameSave R s ++ more := hm
    apply Post.cond
    · intro h1
      apply Post.pure_bind
      obtain ⟨f1, f2, f3⟩ := frame_restored R g (ga.emit "\t\tadd $30, $30, $4") s hs1
        (WLP4ParseTree.secondWord c0.seq) _ hn4 (more ++ dropArgs argc) hb.1 hb.2 (by
          rw [emit_out, hm1, dropArgs, if_pos h1, List.append_assoc])
      exact Post.pure ⟨more ++ dropArgs argc, rfl, f1, f2, f3, fun h => absurd hk h,
        fun _ => ⟨argc, ga, more, ha, hm1, rfl⟩⟩
    · intro h1
      apply Post.pure_bind
      obtain ⟨f1, f2, f3⟩ := frame_restored R g
        (((ga.emit "\t\tlis $5").emit ("\t\t.word " ++ toString (4 * argc))).emit
          "\t\tadd $30, $30, $5") s hs1
        (WLP4ParseTree.secondWord c0.seq) _ hn4 (more ++ dropArgs argc) hb.1 hb.2 (by
          simp only [emit_out, hm1, dropArgs, if_neg h1, List.append_assoc, List.cons_append,
            List.nil_append])
      exact Post.pure ⟨more ++ dropArgs argc, rfl, f1, f2, f3, fun h => absurd hk h,
        fun _ => ⟨argc, ga, more, ha, hm1, rfl⟩⟩
  · intro hk
    apply Post.pure_bind
    obtain ⟨f1, f2, f3⟩ := frame_restored R g { g with out := g.out ++ frameSave R s } s hs1
      (WLP4ParseTree.secondWord c0.seq) _ hn4 [] rfl rfl (List.append_nil _).symm
    exact Post.pure ⟨[], rfl, f1, f2, f3, fun _ => rfl, fun h => absurd h hk⟩

/-- C33. Let register 5 lie outside `[MIN_REG, MAX_REG]` and let `stackReg` be in
`[MIN_REG, MAX_REG + 1]`, so that `s = stackReg - MIN_REG` stack registers are in
use.  When `generate_factor` returns on a call `ID LPAREN ... RPAREN`, it wrote, in
this order: `sw $29, -4($30)`, `sw $31, -8($30)`, one line
`sw $(MIN_REG + j), -4*(3 + j)($30)` for every `j < s`, `lis $5`, `.word 4*(2 + s)`,
`sub $30, $30, $5`; the lines of the arguments; `sub $29, $30, $4` and the `jalr`;
`lis $5`, `.word 4*(2 + s)`, `add $30, $30, $5`, `lw $29, -4($30)`,
`lw $31, -8($30)` and one line `lw $(MIN_REG + j), -4*(3 + j)($30)` for every
`j < s`, the same `s` as before the call, and `stackReg` is what it was. -/
theorem call_saves_stack_registers (R : Regs) (hR : 5 < R.MIN_REG ∨ R.MAX_REG < 5)
    (fuel : Nat) (table : ProcData) (node c0 c2 : Node) (g : Gen) (p : Int × Gen)
    (hin : InRange R g) (h0 : child node 0 = .ok c0) (h2 : child node 2 = .ok c2)
    (hlen : node.children.length ≠ 1)
    (hk : c0.kind ≠ "LPAREN" ∧ c0.kind ≠ "AMP" ∧ c0.kind ≠ "STAR" ∧ c0.kind ≠ "NEW")
    (h : generate_factor (fuel + 1) R table node g = .ok p) :
    CallFrame R fuel table c0 c2 g p := by
  have hs : g.stackReg = R.MIN_REG + ((g.stackReg - R.MIN_REG).toNat : Int) := by
    rw [Int.toNat_of_nonneg (by have := hin.1; omega)]
    ring
  obtain ⟨mid, a1, a2, a3, a4, a5, a6⟩ :=
    (call_frame_post R hR fuel table node c0 c2 g _ hs hin.2 h0 h2 hlen hk.1 hk.2.1 hk.2.2.1
      hk.2.2.2).result p h
  exact ⟨_, mid, hs, a1, a2, a3, a4, a5, a6⟩

/-- Witness for C33: the call `f(b)` made while `$12` and `$13` are in use
(`stackReg` is 14) saves them at `-12($30)` and `-16($30)`, lowers `$30` by 16,
and after the `jalr` raises `$30` by 16 and reloads them from the same slots. -/
theorem call_saves_stack_registers_witness :
    generate_factor 5 exampleRegs exampleTable (callFactor "f" "b")
        ((Gen.new exampleRegs).setStackReg 14) =
      .ok (3, { (Gen.new exampleRegs).setStackReg 14 with
        out := ["\t\tsw $29, -4($30)", "\t\tsw $31, -8($30)", "\t\tsw $12, -12($30)",
          "\t\tsw $13, -16($30)", "\t\tlis $5", "\t\t.word 16", "\t\tsub $30, $30, $5",
          "\t\tlw $3, -4($29)", "\t\tsw $3, -4($30)", "\t\tsub $30, $30, $4",
          "\t\tadd $30, $30, $4", "\t\tsub $29, $30, $4", "\t\tlis $5", "\t\t.word Ff",
          "\t\tjalr $5", "\t\tlis $5", "\t\t.word 16", "\t\tadd $30, $30, $5",
          "\t\tlw $29, -4($30)", "\t\tlw $31, -8($30)", "\t\tlw $12, -12($30)",
          "\t\tlw $13, -16($30)"] }) ∧
    frameSave exampleRegs 2 = ["\t\tsw $29, -4($30)", "\t\tsw $31, -8($30)",
      "\t\tsw $12, -12($30)", "\t\tsw $13, -16($30)", "\t\tlis $5", "\t\t.word 16",
      "\t\tsub $30, $30, $5"] ∧
    frameRestore exampleRegs 2 = ["\t\tlis $5", "\t\t.word 16", "\t\tadd $30, $30, $5",
      "\t\tlw $29, -4($30)", "\t\tlw $31, -8($30)", "\t\tlw $12, -12($30)",
      "\t\tlw $13, -16($30)"] ∧
    ∀ p, generate_factor 5 exampleRegs exampleTable (callFactor "f" "b")
        ((Gen.new exampleRegs).setStackReg 14) = .ok p →
      CallFrame exampleRegs 4 exampleTable (WLP4ParseTree.tok "ID" "f" "")
        (WLP4ParseTree.rule "arglist" "expr" "" [exprOfTerm (termOf (idFactor "b"))])
        ((Gen.new exampleRegs).setStackReg 14) p :=
  ⟨by decide, by decide, by decide, fun p h =>
    call_saves_stack_registers exampleRegs (by decide) 4 exampleTable (callFactor "f" "b")
      (WLP4ParseTree.tok "ID" "f" "")
      (WLP4ParseTree.rule "arglist" "expr" "" [exprOfTerm (termOf (idFactor "b"))])
      ((Gen.new exampleRegs).setStackReg 14) p ⟨by decide, by decide⟩ rfl rfl (by decide)
      (by decide) h⟩

end WLP4Gen

end WLP4

/-! ## Code generator: the labels of the statements of a procedure -/

namespace WLP4

namespace WLP4Gen

theorem digitChar_value (k : Nat) (hk : k < 10) :
    (Nat.digitChar k).toNat - 48 = k ∧ (Nat.digitChar k).isDigit = true := by
  interval_cases k <;> exact ⟨by decide, by decide⟩

theorem toDigitsCore_value : ∀ (fuel n : Nat) (ds : List Char), n < fuel →
    (Nat.toDigitsCore 10 fuel n ds).foldl (fun acc c => acc * 10 + (c.toNat - 48)) 0 =
      ds.foldl (fun acc c => acc * 10 + (c.toNat - 48)) n
  | 0, n, ds, h => absurd h (Nat.not_lt_zero n)
  | fuel + 1, n, ds, h => by
      unfold Nat.toDigitsCore
      have hd := (digitChar_value (n % 10) (Nat.mod_lt n (by decide))).1
      by_cases h0 : n / 10 = 0
      · simp only [h0, if_true, List.foldl_cons, hd]
        have : n % 10 = n := Nat.mod_eq_of_lt (by omega)
        rw [this]
        simp
      · simp only [h0, if_false]
        rw [toDigitsCore_value fuel (n / 10) _ (by omega)]
        simp only [List.foldl_cons, hd]
        have : n / 10 * 10 + n % 10 = n := by omega
        rw [this]

theorem toDigitsCore_digits : ∀ (fuel n : Nat) (ds : List Char),
    ∀ c ∈ Nat.toDigitsCore 10 fuel n ds, c.isDigit = true ∨ c ∈ ds
  | 0, n, ds, c, h => Or.inr h
  | fuel + 1, n, ds, c, h => by
      unfold Nat.toDigitsCore at h
      have hd := (digitChar_value (n % 10) (Nat.mod_lt n (by decide))).2
      by_cases h0 : n / 10 = 0
      · simp only [h0, if_true, List.mem_cons] at h
        rcases h with rfl | h
        · exact Or.inl hd
        · exact Or.inr h
      · simp only [h0, if_false] at h
        rcases toDigitsCore_digits fuel (n / 10) _ c h with h | h
        · exact Or.inl h
        · simp only [List.mem_cons] at h
          rcases h with rfl | h
          · exact Or.inl hd
          · exact Or.inr h

theorem toString_data (n : Nat) : (toString n).data = Nat.toDigits 10 n := rfl

theorem decimalValue_toString (n : Nat) : decimalValue (toString n).data = n := by
  rw [toString_data]
  unfold decimalValue Nat.toDigits
  rw [toDigitsCore_value (n + 1) n [] (Nat.lt_succ_self n)]
  rfl

theorem toString_isDigit (n : Nat) : ∀ c ∈ (toString n).data, c.isDigit = true := by
  intro c h
  rw [toString_data] at h
  rcases toDigitsCore_digits (n + 1) n [] c h with h | h
  · exact h
  · cases h

theorem takeWhile_digits : ∀ (ds rest : List Char), (∀ c ∈ ds, c.isDigit = true) →
    (∀ c, rest.head? = some c → c.isDigit = false) →
    (ds ++ rest).takeWhile Char.isDigit = ds
  | [], [], _, _ => rfl
  | [], c :: rest, _, h => by
      simp [List.takeWhile, h c rfl]
  | d :: ds, rest, h1, h2 => by
      have ih := takeWhile_digits ds rest (fun c hc => h1 c (List.mem_cons_of_mem _ hc)) h2
      rw [List.cons_append, List.takeWhile_cons, h1 d (List.mem_cons_self _ _)]
      simp only [if_true]
      rw [ih]

/-- A decimal numeral followed by text that does not start with a digit determines
the number and the text. -/
theorem numeral_then_text (n m : Nat) (x y : List Char)
    (hx : ∀ c, x.head? = some c → c.isDigit = false)
    (hy : ∀ c, y.head? = some c → c.isDigit = false)
    (h : (toString n).data ++ x = (toString m).data ++ y) : n = m ∧ x = y := by
  have h1 := takeWhile_digits _ x (toString_isDigit n) hx
  have h2 := takeWhile_digits _ y (toString_isDigit m) hy
  rw [h, h2] at h1
  have hnm : n = m := by
    have := congrArg decimalValue h1
    rw [decimalValue_toString, decimalValue_toString] at this
    exact this.symm
  subst hnm
  exact ⟨rfl, List.append_cancel_left h⟩

theorem Tabbed.append {s : String} (h : Tabbed s) (t : String) : Tabbed (s ++ t) := by
  unfold Tabbed at *
  rw [String.data_append]
  cases hs : s.data with
  | nil => rw [hs] at h; cases h
  | cons c cs => rw [hs] at h; exact h

theorem Tabbed.plain {s : String} (h : Tabbed s) : isLabelLine s = false := by
  unfold Tabbed at h
  unfold isLabelLine
  cases hs : s.data with
  | nil => rfl
  | cons c cs =>
      rw [hs] at h
      simp only [List.head?_cons, Option.some.injEq] at h
      subst h
      rfl

theorem labelLines_append (a b : List String) : labelLines (a ++ b) = labelLines a ++ labelLines b :=
  List.filter_append _ _

theorem Quiet.none (g : Gen) : Quiet g g := ⟨⟨[], (List.append_nil _).symm, rfl⟩, rfl, rfl, rfl⟩

theorem Quiet.ofFields {base g g1 : Gen} (h : Quiet base g) (ho : g1.out = g.out)
    (h1 : g1.ifC = g.ifC) (h2 : g1.whileC = g.whileC) (h3 : g1.deleteC = g.deleteC) :
    Quiet base g1 := by
  obtain ⟨⟨more, e, hl⟩, a, b, c⟩ := h
  exact ⟨⟨more, ho.trans e, hl⟩, h1.trans a, h2.trans b, h3.trans c⟩

theorem Quiet.line {base g : Gen} (h : Quiet base g) (l : String) (hl : isLabelLine l = false) :
    Quiet base (g.emit l) := by
  obtain ⟨⟨more, e, hm⟩, a, b, c⟩ := h
  refine ⟨⟨more ++ [l], ?_, ?_⟩, a, b, c⟩
  · show g.out ++ [l] = _
    rw [e, List.append_assoc]
  · rw [labelLines_append, hm]
    simp [labelLines, hl]

theorem Quiet.tabbed {base g : Gen} (h : Quiet base g) (l : String) (hl : Tabbed l) :
    Quiet base (g.emit l) := h.line l hl.plain

theorem Quiet.pushLines {base g : Gen} (h : Quiet base g) (r : Int) : Quiet base (WLP4Gen.push g r) :=
  (h.tabbed _ (Tabbed.append (Tabbed.append (by decide) _) _)).tabbed _ (by decide)

theorem Quiet.popLines {base g : Gen} (h : Quiet base g) (r : Int) : Quiet base (WLP4Gen.pop g r) :=
  (h.tabbed _ (by decide)).tabbed _ (Tabbed.append (Tabbed.append (by decide) _) _)

theorem Quiet.stackRegSet {base g : Gen} (h : Quiet base g) (v : Int) :
    Quiet base (g.setStackReg v) := h.ofFields rfl rfl rfl rfl

theorem Quiet.stackedSet {base g : Gen} (h : Quiet base g) (v : Int) :
    Quiet base (g.setStacked v) := h.ofFields rfl rfl rfl rfl

theorem Quiet.either {base a b : Gen} {c : Prop} [Decidable c] (ha : Quiet base a)
    (hb : Quiet base b) : Quiet base (if c then a else b) := by
  split
  · exact ha
  · exact hb

theorem Quiet.loop {base : Gen} (op : String) : ∀ (n : Nat) (sr pushC : Int) (g : Gen),
    Quiet base g → Quiet base (WLP4Gen.regLoop op n sr pushC g).1
  | 0, _, _, _, h => h
  | n + 1, sr, pushC, g, h => by
      unfold WLP4Gen.regLoop
      exact Quiet.loop op n _ _ _ (h.tabbed _
        (Tabbed.append (Tabbed.append (Tabbed.append (Tabbed.append (Tabbed.append (Tabbed.append (by decide) _) _) _) _) _) _))

theorem tabbed_word (s : String) : Tabbed ("\t\t.word " ++ s) := Tabbed.append (by decide) s

theorem tabbed_load (a b : String) : Tabbed ("\t\tlw $3, " ++ a ++ b) :=
  Tabbed.append (Tabbed.append (by decide) a) b

theorem token_quiet (table : ProcData) (node : Node) (g : Gen) :
    Post (fun p => Quietly g p.2) (generate_token table node g) := by
  constructor
  unfold generate_token
  simp only [bind, Except.bind, pure, Except.pure]
  intro v hv base hb
  repeat' split at hv
  all_goals first
    | (cases hv; done)
    | (cases hv; exact hb)
    | (cases hv; exact Quiet.tabbed hb _ (tabbed_load _ _))
    | (cases hv; exact Quiet.tabbed (Quiet.tabbed hb "\t\tlis $3" (by decide)) _ (tabbed_word _))

theorem test_quiet_step (fuel : Nat) (ih : AllQuiet fuel) (R : Regs) (table : ProcData)
    (node : Node) (g : Gen) :
    Post (Quietly g) (generate_test (fuel + 1) R table node g) := by
  obtain ⟨iht, ihe, ihT, ihf, iha⟩ := ih
  unfold generate_test
  repeat' with_reducible first
    | exact Post.error _
    | exact iht _ _ _ _
    | exact ihe _ _ _ _
    | exact ihT _ _ _ _
    | exact ihf _ _ _ _
    | exact iha _ _ _ _ _
    | exact token_quiet _ _ _
    | refine Post.mono (ihe _ _ _ _) ?_
    | refine Post.mono (ihT _ _ _ _) ?_
    | refine Post.mono (ihf _ _ _ _) ?_
    | refine Post.mono (iha _ _ _ _ _) ?_
    | refine Post.mono (token_quiet _ _ _) ?_
    | exact Post.triv _
    | apply Post.cond
    | apply Post.pure_bind
    | apply Post.bind2
    | apply Post.seq
    | intro _
    | apply Post.pure
    | apply Post.ok
  all_goals repeat' with_reducible first
    | apply Quiet.either
    | apply Quiet.tabbed
    | apply Quiet.pushLines
    | apply Quiet.popLines
    | apply Quiet.stackRegSet
    | apply Quiet.stackedSet
    | apply Quiet.loop
    | apply Tabbed.append
    | assumption
    | apply_assumption

theorem expr_quiet_step (fuel : Nat) (ih : AllQuiet fuel) (R : Regs) (table : ProcData)
    (node : Node) (g : Gen) :
    Post (fun p => Quietly g p.2) (generate_expr (fuel + 1) R table node g) := by
  obtain ⟨iht, ihe, ihT, ihf, iha⟩ := ih
  unfold generate_expr
  repeat' with_reducible first
    | exact Post.error _
    | exact iht _ _ _ _
    | exact ihe _ _ _ _
    | exact ihT _ _ _ _
    | exact ihf _ _ _ _
    | exact iha _ _ _ _ _
    | exact token_quiet _ _ _
    | refine Post.mono (ihe _ _ _ _) ?_
    | refine Post.mono (ihT _ _ _ _) ?_
    | refine Post.mono (ihf _ _ _ _) ?_
    | refine Post.mono (iha _ _ _ _ _) ?_
    | refine Post.mono (token_quiet _ _ _) ?_
    | exact Post.triv _
    | apply Post.cond
    | apply Post.pure_bind
    | apply Post.bind2
    | apply Post.seq
    | intro _
    | apply Post.pure
    | apply Post.ok
  all_goals repeat' with_reducible first
    | apply Quiet.either
    | apply Quiet.tabbed
    | apply Quiet.pushLines
    | apply Quiet.popLines
    | apply Quiet.stackRegSet
    | apply Quiet.stackedSet
    | apply Quiet.loop
    | apply Tabbed.append
    | assumption
    | apply_assumption

theorem term_quiet_step (fuel : Nat) (ih : AllQuiet fuel) (R : Regs) (table : ProcData)
    (node : Node) (g : Gen) :
    Post (fun p => Quietly g p.2) (generate_term (fuel + 1) R table node g) := by
  obtain ⟨iht, ihe, ihT, ihf, iha⟩ := ih
  unfold generate_term
  repeat' with_reducible first
    | exact Post.error _
    | exact iht _ _ _ _
    | exact ihe _ _ _ _
    | exact ihT _ _ _ _
    | exact ihf _ _ _ _
    | exact iha _ _ _ _ _
    | exact token_quiet _ _ _
    | refine Post.mono (ihe _ _ _ _) ?_
    | refine Post.mono (ihT _ _ _ _) ?_
    | refine Post.mono (ihf _ _ _ _) ?_
    | refine Post.mono (iha _ _ _ _ _) ?_
    | refine Post.mono (token_quiet _ _ _) ?_
    | exact Post.triv _
    | apply Post.cond
    | apply Post.pure_bind
    | apply Post.bind2
    | apply Post.seq
    | intro _
    | apply Post.pure
    | apply Post.ok
  all_goals repeat' with_reducible first
    | apply Quiet.either
    | apply Quiet.tabbed
    | apply Quiet.pushLines
    | apply Quiet.popLines
    | apply Quiet.stackRegSet
    | apply Quiet.stackedSet
    | apply Quiet.loop
    | apply Tabbed.append
    | assumption
    | apply_assumption

theorem factor_quiet_step (fuel : Nat) (ih : AllQuiet fuel) (R : Regs) (table : ProcData)
    (node : Node) (g : Gen) :
    Post (fun p => Quietly g p.2) (generate_factor (fuel + 1) R table node g) := by
  obtain ⟨iht, ihe, ihT, ihf, iha⟩ := ih
  unfold generate_factor
  repeat' with_reducible first
    | exact Post.error _
    | exact iht _ _ _ _
    | exact ihe _ _ _ _
    | exact ihT _ _ _ _
    | exact ihf _ _ _ _
    | exact iha _ _ _ _ _
    | exact token_quiet _ _ _
    | refine Post.mono (ihe _ _ _ _) ?_
    | refine Post.mono (ihT _ _ _ _) ?_
    | refine Post.mono (ihf _ _ _ _) ?_
    | refine Post.mono (iha _ _ _ _ _) ?_
    | refine Post.mono (token_quiet _ _ _) ?_
    | exact Post.triv _
    | apply Post.cond
    | apply Post.pure_bind
    | apply Post.bind2
    | apply Post.seq
    | intro _
    | apply Post.pure
    | apply Post.ok
  all_goals repeat' with_reducible first
    | apply Quiet.either
    | apply Quiet.tabbed
    | apply Quiet.pushLines
    | apply Quiet.popLines
    | apply Quiet.stackRegSet
    | apply Quiet.stackedSet
    | apply Quiet.loop
    | apply Tabbed.append
    | assumption
    | apply_assumption

theorem args_quiet_step (fuel : Nat) (ih : AllQuiet fuel) (R : Regs) (table : ProcData)
    (node : Node) (i : Int) (g : Gen) :
    Post (fun p => Quietly g p.2) (generate_args (fuel + 1) R table node i g) := by
  obtain ⟨iht, ihe, ihT, ihf, iha⟩ := ih
  unfold generate_args
  repeat' with_reducible first
    | exact Post.error _
    | exact iht _ _ _ _
    | exact ihe _ _ _ _
    | exact ihT _ _ _ _
    | exact ihf _ _ _ _
    | exact iha _ _ _ _ _
    | exact token_quiet _ _ _
    | refine Post.mono (ihe _ _ _ _) ?_
    | refine Post.mono (ihT _ _ _ _) ?_
    | refine Post.mono (ihf _ _ _ _) ?_
    | refine Post.mono (iha _ _ _ _ _) ?_
    | refine Post.mono (token_quiet _ _ _) ?_
    | exact Post.triv _
    | apply Post.cond
    | apply Post.pure_bind
    | apply Post.bind2
    | apply Post.seq
    | intro _
    | apply Post.pure
    | apply Post.ok
  all_goals repeat' with_reducible first
    | apply Quiet.either
    | apply Quiet.tabbed
    | apply Quiet.pushLines
    | apply Quiet.popLines
    | apply Quiet.stackRegSet
    | apply Quiet.stackedSet
    | apply Quiet.loop
    | apply Tabbed.append
    | assumption
    | apply_assumption

theorem all_quiet : ∀ fuel, AllQuiet fuel
  | 0 => by
      refine ⟨?_, ?_, ?_, ?_, ?_⟩
      · intro R table node g
        unfold generate_test
        exact Post.error _
      · intro R table node g
        unfold generate_expr
        exact Post.error _
      · intro R table node g
        unfold generate_term
        exact Post.error _
      · intro R table node g
        unfold generate_factor
        exact Post.error _
      · intro R table node i g
        unfold generate_args
        exact Post.error _
  | fuel + 1 =>
      ⟨test_quiet_step fuel (all_quiet fuel), expr_quiet_step fuel (all_quiet fuel),
       term_quiet_step fuel (all_quiet fuel), factor_quiet_step fuel (all_quiet fuel),
       args_quiet_step fuel (all_quiet fuel)⟩

end WLP4Gen

end WLP4

namespace WLP4

namespace WLP4Gen

theorem render_data (id : String) (k : Nat × LabelKind) :
    (render id k).data = id.data ++ ((toString k.1).data ++ suffix k.2) := by
  obtain ⟨n, kind⟩ := k
  cases kind <;> simp only [render, suffix, String.data_append, List.append_assoc] <;> rfl

theorem suffix_head (kind : LabelKind) : ∀ c, (suffix kind).head? = some c → c.isDigit = false := by
  intro c h
  cases kind <;> (simp only [suffix, List.head?_cons, Option.some.injEq] at h; subst h; decide)

theorem suffix_inj (a b : LabelKind) (h : suffix a = suffix b) : a = b := by
  cases a <;> cases b <;> first | rfl | (exfalso; revert h; decide)

theorem render_inj (id : String) : Function.Injective (render id) := by
  intro k k1 h
  have hd := congrArg String.data h
  rw [render_data, render_data] at hd
  obtain ⟨h1, h2⟩ := numeral_then_text k.1 k1.1 _ _ (suffix_head k.2) (suffix_head k1.2)
    (List.append_cancel_left hd)
  exact Prod.ext h1 (suffix_inj _ _ h2)

theorem LabelsFrom.distinct {id : String} {a b : Gen} {keys : List (Nat × LabelKind)}
    (h : LabelsFrom id a b keys) :
    ∃ more, b.out = a.out ++ more ∧ (labelLines more).Nodup := by
  obtain ⟨⟨more, e, hl⟩, -, hn, -⟩ := h
  refine ⟨more, e, ?_⟩
  rw [hl]
  exact (hn.map (render_inj id)).filter _

theorem LabelsFrom.ofQuiet (id : String) {a b : Gen} (h : Quiet a b) : LabelsFrom id a b [] := by
  obtain ⟨⟨more, e, hl⟩, h1, h2, h3⟩ := h
  refine ⟨⟨more, e, hl⟩, ?_, List.nodup_nil, fun k hk => absurd hk (List.not_mem_nil k)⟩
  intro kind
  cases kind <;> simp [counter, h1, h2, h3]

theorem LabelsFrom.concat {id : String} {a b c : Gen} {K1 K2 : List (Nat × LabelKind)}
    (h1 : LabelsFrom id a b K1) (h2 : LabelsFrom id b c K2) : LabelsFrom id a c (K1 ++ K2) := by
  obtain ⟨⟨m1, e1, l1⟩, mono1, n1, w1⟩ := h1
  obtain ⟨⟨m2, e2, l2⟩, mono2, n2, w2⟩ := h2
  refine ⟨⟨m1 ++ m2, ?_, ?_⟩, fun kind => le_trans (mono1 kind) (mono2 kind), ?_, ?_⟩
  · rw [e2, e1, List.append_assoc]
  · rw [labelLines_append, List.map_append, labelLines_append, l1, l2]
  · refine List.Nodup.append n1 n2 ?_
    intro k hk1 hk2
    have := (w1 k hk1).2
    have := (w2 k hk2).1
    omega
  · intro k hk
    rcases List.mem_append.1 hk with hk | hk
    · exact ⟨(w1 k hk).1, lt_of_lt_of_le (w1 k hk).2 (mono2 k.2)⟩
    · exact ⟨le_trans (mono1 k.2) (w2 k hk).1, (w2 k hk).2⟩

theorem LabelsFrom.quiet {id : String} {a b c : Gen} {K : List (Nat × LabelKind)}
    (h1 : LabelsFrom id a b K) (h2 : Quiet b c) : LabelsFrom id a c K := by
  have := h1.concat (LabelsFrom.ofQuiet id h2)
  rwa [List.append_nil] at this

theorem LabelsFrom.afterQuiet {id : String} {a b c : Gen} {K : List (Nat × LabelKind)}
    (h1 : Quiet a b) (h2 : LabelsFrom id b c K) : LabelsFrom id a c K :=
  (LabelsFrom.ofQuiet id h1).concat h2

/-- The labels counted from a state with larger counters are also counted from a
state before it with smaller counters, when the lines in between define no label. -/
theorem LabelsFrom.enter {id : String} {a0 a b : Gen} {K : List (Nat × LabelKind)}
    (pre : List String) (hout : a.out = a0.out ++ pre) (hpre : labelLines pre = [])
    (hmono : ∀ kind, counter a0 kind ≤ counter a kind) (h : LabelsFrom id a b K) :
    LabelsFrom id a0 b K := by
  obtain ⟨⟨m, e, l⟩, mono, n, w⟩ := h
  refine ⟨⟨pre ++ m, ?_, ?_⟩, fun kind => le_trans (hmono kind) (mono kind), n,
    fun k hk => ⟨le_trans (hmono k.2) (w k hk).1, (w k hk).2⟩⟩
  · rw [e, hout, List.append_assoc]
  · rw [labelLines_append, hpre, List.nil_append, l]

theorem LabelsFrom.fresh {id : String} {a b : Gen} {K : List (Nat × LabelKind)}
    (h : LabelsFrom id a b K) (n : Nat) (kind : LabelKind) (hn : n < counter a kind) :
    (n, kind) ∉ K := by
  intro hk
  have := (h.2.2.2 _ hk).1
  simp only at this
  omega

theorem LabelsFrom.label {id : String} {a b : Gen} {K : List (Nat × LabelKind)}
    (h : LabelsFrom id a b K) (n : Nat) (kind : LabelKind) (h1 : counter a kind ≤ n)
    (h2 : n < counter b kind) (hf : (n, kind) ∉ K) :
    LabelsFrom id a (b.emit (render id (n, kind))) (K ++ [(n, kind)]) := by
  obtain ⟨⟨m, e, l⟩, mono, nd, w⟩ := h
  refine ⟨⟨m ++ [render id (n, kind)], ?_, ?_⟩, ?_, ?_, ?_⟩
  · show b.out ++ _ = _
    rw [e, List.append_assoc]
  · rw [labelLines_append, List.map_append, labelLines_append, l]
    rfl
  · intro k
    have := mono k
    cases k <;> exact this
  · refine List.Nodup.append nd (List.nodup_singleton _) ?_
    intro k hk1 hk2
    rw [List.mem_singleton] at hk2
    subst hk2
    exact hf hk1
  · intro k hk
    rcases List.mem_append.1 hk with hk | hk
    · have := w k hk
      refine ⟨this.1, ?_⟩
      have h3 := this.2
      cases hk2 : k.2 <;> rw [hk2] at h3 <;> exact h3
    · rw [List.mem_singleton] at hk
      subst hk
      refine ⟨h1, ?_⟩
      cases kind <;> exact h2

end WLP4Gen

end WLP4

namespace WLP4

namespace WLP4Gen

theorem Quiet.comment (g : Gen) (s : String) :
    Quiet g ((g.emit "").emit ("\t\t;; " ++ s)) :=
  ((Quiet.none g).line "" rfl).tabbed _ (Tabbed.append (by decide) _)

theorem comment_lines (s : String) : labelLines ["", "\t\t;; " ++ s] = [] := by
  have h : isLabelLine ("\t\t;; " ++ s) = false :=
    (Tabbed.append (s := "\t\t;; ") (by decide) s).plain
  have h0 : isLabelLine "" = false := rfl
  simp [labelLines, List.filter, h, h0]

theorem tabbed_two (l a b : String) (h : Tabbed l) : Tabbed (l ++ a ++ b) :=
  Tabbed.append (Tabbed.append h a) b

theorem stmt_labels_step (fuel : Nat)
    (ihS : ∀ R table node g, Post (Labelled table.id g) (generate_stmts fuel R table node g))
    (R : Regs) (table : ProcData) (node : Node) (g : Gen) :
    Post (Labelled table.id g) (generate_stmt (fuel + 1) R table node g) := by
  obtain ⟨iht, ihe, ihT, ihf, iha⟩ := all_quiet fuel
  rw [generate_stmt]
  refine Post.after (fun c0 => ?_)
  apply Post.cond
  · intro _
    refine Post.after (fun c2 => ?_)
    refine Post.bind2 (ihe _ _ _ _) (fun r g1 h1 => ?_)
    refine Post.pure ⟨[], LabelsFrom.ofQuiet _ ?_⟩
    have q1 := h1 g (Quiet.comment g _)
    exact Quiet.popLines (Quiet.tabbed (Quiet.tabbed (Quiet.tabbed (Quiet.pushLines (Quiet.tabbed q1 _
      (Tabbed.append (Tabbed.append (by decide) _) _)) _) _ (by decide)) _ (by decide)) _
      (by decide)) _
  intro _
  apply Post.cond
  · intro _
    refine Post.after (fun c2 => ?_)
    refine Post.seq (iht _ _ _ _) (fun g2 h2 => ?_)
    refine Post.after (fun c5 => ?_)
    refine Post.seq (ihS _ _ _ _) (fun g4 h4 => ?_)
    refine Post.after (fun c9 => ?_)
    refine Post.seq (ihS _ _ _ _) (fun g7 h7 => ?_)
    obtain ⟨K1, hK1⟩ := h4
    obtain ⟨K2, hK2⟩ := h7
    have q2 := h2 _ (Quiet.none _)
    have hc : ∀ kind, counter g kind ≤ counter
        (((g.emit "").emit ("\t\t;; " ++ node.seq)).setIfC
          (((g.emit "").emit ("\t\t;; " ++ node.seq)).ifC + 1)) kind := by
      intro kind
      cases kind <;> simp [counter, Gen.emit, Gen.setIfC]
    have A2 := (LabelsFrom.afterQuiet (Quiet.tabbed q2 _ (tabbed_two _ _ _ (by decide))) hK1).quiet
      (Quiet.tabbed (Quiet.none g4) _ (tabbed_two "\t\tbeq $0, $0, "
        (table.id ++ toString g.ifC ++ "IFELSE") "TRUE" (by decide)))
    have A3 := A2.enter ["", "\t\t;; " ++ node.seq] (by simp [Gen.emit, Gen.setIfC])
      (comment_lines _) hc
    have f1 : (g.ifC, LabelKind.ifFalse) ∉ K1 := A2.fresh _ _ (Nat.lt_succ_self _)
    have f2 : (g.ifC, LabelKind.ifTrue) ∉ K1 := A2.fresh _ _ (Nat.lt_succ_self _)
    have m5 : g.ifC < g4.ifC := A2.2.1 LabelKind.ifFalse
    have A4 := A3.label g.ifC LabelKind.ifFalse (le_refl _) m5 f1
    have A5 := A4.concat hK2
    have f3 : (g.ifC, LabelKind.ifTrue) ∉ K2 := hK2.fresh _ _ m5
    have m7 : g.ifC < g7.ifC := lt_of_lt_of_le m5 (hK2.2.1 LabelKind.ifTrue)
    refine Post.pure ⟨_, A5.label g.ifC LabelKind.ifTrue (le_refl _) m7 ?_⟩
    simp only [List.mem_append, List.mem_singleton, Prod.mk.injEq, not_or]
    exact ⟨⟨f2, fun h => LabelKind.noConfusion h.2⟩, f3⟩
  intro _
  apply Post.cond
  · intro _
    refine Post.after (fun c2 => ?_)
    refine Post.seq (iht _ _ _ _) (fun g3 h3 => ?_)
    refine Post.after (fun c5 => ?_)
    refine Post.seq (ihS _ _ _ _) (fun g5 h5 => ?_)
    obtain ⟨K1, hK1⟩ := h5
    have q3 := h3 _ (Quiet.none _)
    have hc : ∀ kind, counter g kind ≤ counter
        (((g.emit "").emit ("\t\t;; " ++ node.seq)).setWhileC
          (((g.emit "").emit ("\t\t;; " ++ node.seq)).whileC + 1)) kind := by
      intro kind
      cases kind <;> simp [counter, Gen.emit, Gen.setWhileC]
    have B0 := ((LabelsFrom.ofQuiet table.id (Quiet.none _)).enter
      ["", "\t\t;; " ++ node.seq] (by simp [Gen.emit, Gen.setWhileC]) (comment_lines _) hc).label
      g.whileC LabelKind.whileBody (le_refl _) (Nat.lt_succ_self _) (List.not_mem_nil _)
    have B1 := (LabelsFrom.afterQuiet (Quiet.tabbed q3 _ (tabbed_two _ _ _ (by decide))) hK1).quiet
      (Quiet.tabbed (Quiet.none g5) _ (tabbed_two "\t\tbeq $0, $0, "
        (table.id ++ toString g.whileC ++ "WHILE") "BODY" (by decide)))
    have B2 := B0.concat B1
    have f1 : (g.whileC, LabelKind.whileEnd) ∉ K1 := B1.fresh _ _ (Nat.lt_succ_self _)
    have m5 : g.whileC < g5.whileC := B1.2.1 LabelKind.whileEnd
    refine Post.pure ⟨_, B2.label g.whileC LabelKind.whileEnd (le_refl _) m5 ?_⟩
    simp only [List.mem_append, List.mem_singleton, Prod.mk.injEq, not_or, List.not_mem_nil,
      not_false_eq_true, true_and]
    exact ⟨fun h => LabelKind.noConfusion h, f1⟩
  intro _
  apply Post.cond
  · intro _
    refine Post.after (fun c3 => ?_)
    refine Post.bind2 (ihe _ _ _ _) (fun r g2 h2 => ?_)
    have q2 := h2 _ (Quiet.none _)
    have hc : ∀ kind, counter g kind ≤ counter
        (((g.emit "").emit ("\t\t;; " ++ node.seq)).setDeleteC
          (((g.emit "").emit ("\t\t;; " ++ node.seq)).deleteC + 1)) kind := by
      intro kind
      cases kind <;> simp [counter, Gen.emit, Gen.setDeleteC]
    have q7 := Quiet.popLines (Quiet.tabbed (Quiet.tabbed (Quiet.tabbed (Quiet.pushLines (Quiet.tabbed
      (Quiet.tabbed q2 ("\t\tbeq $" ++ toString r ++ ", $11, " ++
        (table.id ++ toString g.deleteC ++ "DELETE"))
        (Tabbed.append (Tabbed.append (Tabbed.append (by decide) _) _) _))
      ("\t\tadd $1, $" ++ toString r ++ ", $0") (tabbed_two _ _ _ (by decide))) 31)
      "\t\tlis $5" (by decide)) "\t\t.word delete" (by decide)) "\t\tjalr $5" (by decide)) 31
    have D0 := (LabelsFrom.ofQuiet table.id q7).enter
      ["", "\t\t;; " ++ node.seq] (by simp [Gen.emit, Gen.setDeleteC]) (comment_lines _) hc
    have m : g.deleteC < g2.deleteC := by
      have := q2.2.2.2
      rw [this]
      exact Nat.lt_succ_self _
    exact Post.pure ⟨_, D0.label g.deleteC LabelKind.delete (le_refl _) m (List.not_mem_nil _)⟩
  intro _
  refine Post.after (fun c2 => ?_)
  refine Post.bind2 (ihe _ _ _ _) (fun r g1 h1 => ?_)
  have q1 := h1 g (Quiet.comment g _)
  refine Post.after (fun lv => ?_)
  apply Post.cond
  · intro _
    refine Post.after (fun l0 => ?_)
    exact Post.pure ⟨[], LabelsFrom.ofQuiet _ (Quiet.tabbed q1 _
      (Tabbed.append (Tabbed.append (Tabbed.append (Tabbed.append (by decide) _) _) _) _))⟩
  · intro _
    refine Post.after (fun l1 => ?_)
    refine Post.bind2 (ihf _ _ _ _) (fun r2 g3 h3 => ?_)
    exact Post.pure ⟨[], LabelsFrom.ofQuiet _ (Quiet.tabbed (Quiet.popLines (h3 g (Quiet.pushLines q1 _)) _) _
      (tabbed_two _ _ _ (by decide)))⟩

theorem Labelled.chain {id : String} {a b c : Gen} (h1 : Labelled id a b) (h2 : Labelled id b c) :
    Labelled id a c := by
  obtain ⟨K1, h1⟩ := h1
  obtain ⟨K2, h2⟩ := h2
  exact ⟨_, h1.concat h2⟩

theorem stmts_labels : ∀ fuel : Nat,
    (∀ R table node g, Post (Labelled table.id g) (generate_stmts fuel R table node g)) ∧
    (∀ R table node g, Post (Labelled table.id g) (generate_stmt fuel R table node g))
  | 0 => by
      constructor
      · intro R table node g
        unfold generate_stmts
        exact Post.error _
      · intro R table node g
        unfold generate_stmt
        exact Post.error _
  | fuel + 1 => by
      obtain ⟨ihS, ihs⟩ := stmts_labels fuel
      refine ⟨?_, stmt_labels_step fuel ihS⟩
      intro R table node g
      rw [generate_stmts]
      apply Post.cond
      · intro _
        refine Post.after (fun c0 => ?_)
        refine Post.seq (ihS _ _ _ _) (fun g1 h1 => ?_)
        refine Post.after (fun c1 => ?_)
        exact Post.mono (ihs _ _ _ _) (fun g2 h2 => h1.chain h2)
      · intro _
        exact Post.pure ⟨[], LabelsFrom.ofQuiet _ (Quiet.none g)⟩

/-- C34. The statements of a procedure: when `generate_stmts` returns, the lines it
wrote that define labels (the lines that are not empty and do not start with a tab)
are pairwise distinct.  They are the lines `id n IFELSEFALSE:`, `id n IFELSETRUE:`,
`id n WHILEBODY:`, `id n WHILEEND:` and `id n DELETE:` of a list `keys` of pairwise
distinct pairs of a number and a kind, where `id` is the name of the procedure and
each number lies between the value of the counter of its kind before the statements
and the value after; no counter goes down. -/
theorem labels_distinct_in_procedure (fuel : Nat) (R : Regs) (table : ProcData) (node : Node)
    (g g1 : Gen) (h : generate_stmts fuel R table node g = .ok g1) :
    ∃ (more : List String) (keys : List (Nat × LabelKind)),
      g1.out = g.out ++ more ∧ (labelLines more).Nodup ∧
      labelLines more = labelLines (keys.map (render table.id)) ∧ keys.Nodup ∧
      (∀ k ∈ keys, counter g k.2 ≤ k.1 ∧ k.1 < counter g1 k.2) ∧
      g.ifC ≤ g1.ifC ∧ g.whileC ≤ g1.whileC ∧ g.deleteC ≤ g1.deleteC := by
  obtain ⟨keys, hk⟩ := ((stmts_labels fuel).1 R table node g).result g1 h
  obtain ⟨⟨more, e, hl⟩, mono, nd, w⟩ := hk
  refine ⟨more, keys, e, ?_, hl, nd, w, mono LabelKind.ifFalse, mono LabelKind.whileBody,
    mono LabelKind.delete⟩
  rw [hl]
  exact (nd.map (render_inj table.id)).filter _

/-- Witness for C34: a `while` with an `if` inside, followed by an `if`, in `wain`. -/
theorem labels_distinct_in_procedure_witness :
    (generate_stmts 12 exampleRegs exampleTable nestedStmts (Gen.new exampleRegs)).toOption.map
        (fun g => (labelLines g.out, g.ifC, g.whileC, g.deleteC)) =
      some (["wain0WHILEBODY:", "wain0IFELSEFALSE:", "wain0IFELSETRUE:", "wain0WHILEEND:",
        "wain1IFELSEFALSE:", "wain1IFELSETRUE:"], 2, 1, 0) ∧
    ∀ g1, generate_stmts 12 exampleRegs exampleTable nestedStmts (Gen.new exampleRegs) = .ok g1 →
      ∃ (more : List String) (keys : List (Nat × LabelKind)),
        g1.out = (Gen.new exampleRegs).out ++ more ∧ (labelLines more).Nodup ∧
        labelLines more = labelLines (keys.map (render exampleTable.id)) ∧ keys.Nodup ∧
        (∀ k ∈ keys, counter (Gen.new exampleRegs) k.2 ≤ k.1 ∧ k.1 < counter g1 k.2) ∧
        (Gen.new exampleRegs).ifC ≤ g1.ifC ∧ (Gen.new exampleRegs).whileC ≤ g1.whileC ∧
        (Gen.new exampleRegs).deleteC ≤ g1.deleteC :=
  ⟨by decide, fun g1 h =>
    labels_distinct_in_procedure 12 exampleRegs exampleTable nestedStmts (Gen.new exampleRegs)
      g1 h⟩

/-- C35. The program
`int Fa(int x) \x7b if (x < x) \x7b\x7d else \x7b\x7d return x; \x7d`
`int a0IFELSEFALSE(int y) \x7b return y; \x7d`
`int wain(int a, int b) \x7b return a; \x7d`
is accepted by the type checker, and the assembly generated for it defines the
label `Fa0IFELSEFALSE` twice: as the label of the `else` branch in `Fa` and as the
entry label of the procedure `a0IFELSEFALSE`. -/
theorem label_clash_across_procedures :
    WLP4ParseTree.annotate labelClashSource =
      .ok (labelClashTyped,
        [("Fa", { id := "Fa", signature := ["int"], symTable := [("x", "int")] }),
         ("a0IFELSEFALSE",
           { id := "a0IFELSEFALSE", signature := ["int"], symTable := [("y", "int")] }),
         ("wain", { id := "wain", signature := [], symTable := [("a", "int"), ("b", "int")] })]) ∧
    (generate 20 exampleRegs labelClashTyped).toOption.map labelLines =
      some ["FFa:", "Fa0IFELSEFALSE:", "Fa0IFELSETRUE:", "Fa0IFELSEFALSE:", "Fwain:"] ∧
    ∃ lines, generate 20 exampleRegs labelClashTyped = .ok lines ∧ ¬ (labelLines lines).Nodup := by
  have h2 : (generate 20 exampleRegs labelClashTyped).toOption.map labelLines =
      some ["FFa:", "Fa0IFELSEFALSE:", "Fa0IFELSETRUE:", "Fa0IFELSEFALSE:", "Fwain:"] := by
    decide
  refine ⟨by rfl, h2, ?_⟩
  cases h : generate 20 exampleRegs labelClashTyped with
  | error e =>
      rw [h] at h2
      cases h2
  | ok lines =>
      refine ⟨lines, rfl, ?_⟩
      rw [h] at h2
      simp only [Except.toOption, Option.map_some', Option.some.injEq] at h2
      rw [h2]
      decide

end WLP4Gen

end WLP4
